import Mathlib

/-!
# Sparse sign octree (OctreeSF): sampling, CSG against implicit solids, inversion

Shallow embedding of `Core/OctreeSF.cpp` together with the `Area` descriptor
(`OctreeSDF.h`), `AABB::getCenter` (`Core/AABB.h`) and `OpInvertSDF`
(`Core/OpInvertSDF.h`).

Conventions of the embedding

* `float` arithmetic is kept abstract: every definition is generic in a type `F`
  carrying the operations the code applies (`FloatOps`).  No law is assumed of these
  operations, so the theorems hold for IEEE arithmetic as well as for exact arithmetic.
* `int` lattice coordinates are `Int`; the code keeps them inside `[0, 2^maxDepth + 8]`
  with `maxDepth ≤ 30`, where no 32-bit overflow occurs.
* `bool m_Signs[LEAF_SIZE_3D]` is a total map on `Fin LEAF_SIZE_3D` (`SignArray`); reads
  and writes by a running `int` index go through `SignArray.get` / `SignArray.set`.
* counted `for` loops are `forLoop`, which runs the body for `0, 1, …, n-1` in order.
* the heap object behind `SurfaceEdge::sharedVertex` is not part of the node value: an
  edge record carries a reference of an abstract type `SV`, and the creation of vertices
  (private or through the shared-vertex registry) is a parameter (`VertexSource`).
-/

namespace OctreeSF

/-! ## Numeric carriers -/

/-- Operations the code applies to `float` values.  They are uninterpreted. -/
class FloatOps (F : Type) where
  add : F → F → F
  sub : F → F → F
  mul : F → F → F
  div : F → F → F
  max : F → F → F
  ofInt : Int → F
  half : F
  negOne : F
  zero : F
  le : F → F → Bool

/-- Integer lattice vector (`Vector3i`). -/
structure Vector3i where
  x : Int
  y : Int
  z : Int
deriving DecidableEq, Repr

/-- Real vector (`Ogre::Vector3`) over the float carrier. -/
structure Vector3 (F : Type) where
  x : F
  y : F
  z : F
deriving DecidableEq, Repr

def Vector3i.add (a b : Vector3i) : Vector3i := ⟨a.x + b.x, a.y + b.y, a.z + b.z⟩

def Vector3i.scale (a : Vector3i) (k : Int) : Vector3i := ⟨a.x * k, a.y * k, a.z * k⟩

instance : Add Vector3i := ⟨Vector3i.add⟩

def Vector3i.toOgreVec {F : Type} [FloatOps F] (a : Vector3i) : Vector3 F :=
  ⟨FloatOps.ofInt a.x, FloatOps.ofInt a.y, FloatOps.ofInt a.z⟩

def Vector3.add {F : Type} [FloatOps F] (a b : Vector3 F) : Vector3 F :=
  ⟨FloatOps.add a.x b.x, FloatOps.add a.y b.y, FloatOps.add a.z b.z⟩

def Vector3.sub {F : Type} [FloatOps F] (a b : Vector3 F) : Vector3 F :=
  ⟨FloatOps.sub a.x b.x, FloatOps.sub a.y b.y, FloatOps.sub a.z b.z⟩

def Vector3.scale {F : Type} [FloatOps F] (a : Vector3 F) (k : F) : Vector3 F :=
  ⟨FloatOps.mul a.x k, FloatOps.mul a.y k, FloatOps.mul a.z k⟩

/-- The value of `1 << n` for an `int` shift count (defined by the language for `0 ≤ n ≤ 30`). -/
def shl1 (n : Int) : Int := 2 ^ n.toNat

/-- The value of `(i & m) != 0` converted to `int`. -/
def bitSet (i m : Nat) : Int := if i &&& m ≠ 0 then 1 else 0

/-- Axis-aligned box (`AABB`). -/
structure AABB (F : Type) where
  min : Vector3 F
  max : Vector3 F

/-- The centre `(min + max) * 0.5f` of a box. -/
def AABB.getCenter {F : Type} [FloatOps F] (b : AABB F) : Vector3 F :=
  (b.min.add b.max).scale FloatOps.half

/-! ## Area descriptor -/

/-- Cubic region of the lattice (`Area`): integer minimum corner, size exponent, real
minimum corner and real side length. -/
structure Area (F : Type) where
  m_MinPos : Vector3i
  m_SizeExpo : Int
  m_MinRealPos : Vector3 F
  m_RealSize : F

/-- The corner offset `Vector3i((corner & 4) != 0, (corner & 2) != 0, corner & 1)`. -/
def cornerOffset (corner : Nat) : Vector3i :=
  ⟨bitSet corner 4, bitSet corner 2, ((corner &&& 1 : Nat) : Int)⟩

/-- Integer and real position of corner `corner` of the area (`Area::getCornerVecs`). -/
def Area.getCornerVecs {F : Type} [FloatOps F] (a : Area F) (corner : Nat) :
    Vector3i × Vector3 F :=
  let offset := cornerOffset corner
  let realPos : Vector3 F :=
    ⟨FloatOps.add a.m_MinRealPos.x (FloatOps.mul a.m_RealSize (FloatOps.ofInt offset.x)),
     FloatOps.add a.m_MinRealPos.y (FloatOps.mul a.m_RealSize (FloatOps.ofInt offset.y)),
     FloatOps.add a.m_MinRealPos.z (FloatOps.mul a.m_RealSize (FloatOps.ofInt offset.z))⟩
  (a.m_MinPos + offset.scale (shl1 a.m_SizeExpo), realPos)

/-- The real box covered by the area (`Area::toAABB`). -/
def Area.toAABB {F : Type} [FloatOps F] (a : Area F) : AABB F :=
  ⟨a.m_MinRealPos, a.m_MinRealPos.add ⟨a.m_RealSize, a.m_RealSize, a.m_RealSize⟩⟩

/-- Entry `i` of the array filled by `Area::getSubAreas`. -/
def Area.getSubAreas {F : Type} [FloatOps F] (a : Area F) (i : Fin 8) : Area F :=
  let halfSize := FloatOps.mul a.m_RealSize FloatOps.half
  let offset := cornerOffset i.val
  { m_MinPos := a.m_MinPos + offset.scale (shl1 (a.m_SizeExpo - 1))
    m_SizeExpo := a.m_SizeExpo - 1
    m_MinRealPos := a.m_MinRealPos.add
      ⟨FloatOps.mul (FloatOps.ofInt offset.x) halfSize,
       FloatOps.mul (FloatOps.ofInt offset.y) halfSize,
       FloatOps.mul (FloatOps.ofInt offset.z) halfSize⟩
    m_RealSize := halfSize }

/-! ## Leaf constants -/

/-- Modelled from the spec: the compile-time constant `LEAF_EXPO` of `OctreeSF.h`, a header
that is not among the sources; the spec fixes it as 3. -/
def LEAF_EXPO : Nat := 3

/-- Modelled from the spec: `LEAF_SIZE_1D`, the side `S = 2^LEAF_EXPO + 1` of the sign lattice. -/
def LEAF_SIZE_1D : Nat := 2 ^ LEAF_EXPO + 1

/-- Modelled from the spec: `LEAF_SIZE_2D`, the stride `S²` of the x coordinate. -/
def LEAF_SIZE_2D : Nat := LEAF_SIZE_1D * LEAF_SIZE_1D

/-- Modelled from the spec: `LEAF_SIZE_3D`, the number `S³` of lattice points of a leaf. -/
def LEAF_SIZE_3D : Nat := LEAF_SIZE_2D * LEAF_SIZE_1D

/-- Modelled from the spec: `LEAF_SIZE_1D_INNER`, the number `S - 1` of sub-cells per axis
(the index arithmetic of `generateIndices` skips one entry per row and `S` per slab). -/
def LEAF_SIZE_1D_INNER : Nat := LEAF_SIZE_1D - 1

/-! ## Loops and arrays -/

/-- Counted loop `for (i = 0; i < n; i++) state = body(i, state)`. -/
def forLoop {σ : Type} : Nat → (Nat → σ → σ) → σ → σ
  | 0, _, s => s
  | n + 1, body, s => body n (forLoop n body s)

/-- The array `bool m_Signs[LEAF_SIZE_3D]`: one entry per lattice index. -/
structure SignArray where
  entry : Fin LEAF_SIZE_3D → Bool

/-- Array read `signs[i]` by an integer index. -/
def SignArray.get (a : SignArray) (i : Nat) : Bool :=
  if h : i < LEAF_SIZE_3D then a.entry ⟨i, h⟩ else false

/-- Array write `signs[i] = v` by an integer index. -/
def SignArray.set (a : SignArray) (i : Nat) (v : Bool) : SignArray :=
  ⟨fun j => if j.val = i then v else a.entry j⟩

/-- The array `bool addedEdges[3][LEAF_SIZE_3D]`. -/
def EdgeMask : Type := Fin 3 → Fin LEAF_SIZE_3D → Bool

/-- The mask after `memset(addedEdges[d], 0, LEAF_SIZE_3D)` for `d = 0, 1, 2`. -/
def EdgeMask.zero : EdgeMask := fun _ _ => false

/-- Mask read `mask[d][i]`. -/
def EdgeMask.get (m : EdgeMask) (d i : Nat) : Bool :=
  if h : d < 3 ∧ i < LEAF_SIZE_3D then m ⟨d, h.1⟩ ⟨i, h.2⟩ else false

/-- Mask write `mask[d][i] = v`. -/
def EdgeMask.set (m : EdgeMask) (d i : Nat) (v : Bool) : EdgeMask :=
  fun d' j => if d'.val = d ∧ j.val = i then v else m d' j

/-- Linear index `x·S² + y·S + z` of a leaf-local lattice position. -/
def toIndex (v : Vector3i) : Nat :=
  (v.x * LEAF_SIZE_2D + v.y * LEAF_SIZE_1D + v.z).toNat

/-- Modelled from the spec: `fromIndex` of `OctreeSF.h` (not among the sources), the
leaf-local lattice position of a linear index in the row-major layout `x·S² + y·S + z`. -/
def fromIndex (i : Nat) : Vector3i :=
  ⟨((i / LEAF_SIZE_2D : Nat) : Int), ((i / LEAF_SIZE_1D % LEAF_SIZE_1D : Nat) : Int),
   ((i % LEAF_SIZE_1D : Nat) : Int)⟩

/-- Unit step along direction 0 = X, 1 = Y, 2 = Z. -/
def unitVec (dir : Nat) : Vector3i :=
  ⟨if dir = 0 then 1 else 0, if dir = 1 then 1 else 0, if dir = 2 then 1 else 0⟩

/-! ## Implicit solids -/

/-- Result of `getSample`: signed distance, closest surface position and normal. -/
structure Sample (F : Type) where
  signedDistance : F
  closestSurfacePos : Vector3 F
  normal : Vector3 F

/-- Modelled from the spec: the interface `SolidGeometry` (`SolidGeometry.h` is not among
the sources).  Its virtual members the octree calls are fields: `getSample`, `getSign`
(inside is true), `intersectsSurface` and `cubeNeedsSubdivision`. -/
structure SolidGeometry (F : Type) where
  getSample : Vector3 F → Sample F
  getSign : Vector3 F → Bool
  intersectsSurface : AABB F → Bool
  cubeNeedsSubdivision : Area F → Bool

/-- Modelled from the spec: the inherited default of `cubeNeedsSubdivision`, which is
`intersectsSurface(area.toAABB())` (the same default is written out in
`SignedDistanceField3D`). -/
def SolidGeometry.defaultCubeNeedsSubdivision {F : Type} [FloatOps F]
    (intersectsSurface : AABB F → Bool) (area : Area F) : Bool :=
  intersectsSurface area.toAABB

/-- Modelled from the spec: the inherited default of `getSign`, the sign test
`signedDistance >= 0` applied to the sample (the test `SignedDistanceField3D` uses for
"positive"; the box solid has positive distances inside). -/
def SolidGeometry.defaultGetSign {F : Type} [FloatOps F]
    (getSample : Vector3 F → Sample F) (point : Vector3 F) : Bool :=
  FloatOps.le FloatOps.zero (getSample point).signedDistance

/-- The inverted solid `OpInvertSDF(sdf)`: `getSample` negates signed distance and normal,
`intersectsSurface` delegates; `getSign` and `cubeNeedsSubdivision` are not overridden. -/
def OpInvertSDF {F : Type} [FloatOps F] (m_SDF : SolidGeometry F) : SolidGeometry F :=
  let getSample := fun point =>
    let sample := m_SDF.getSample point
    { sample with
      signedDistance := FloatOps.mul sample.signedDistance FloatOps.negOne
      normal := sample.normal.scale FloatOps.negOne }
  { getSample := getSample
    getSign := SolidGeometry.defaultGetSign getSample
    intersectsSurface := m_SDF.intersectsSurface
    cubeNeedsSubdivision := SolidGeometry.defaultCubeNeedsSubdivision m_SDF.intersectsSurface }

/-! ## Surface edges and grid leaves -/

/-- Surface-edge record (`SurfaceEdge`): a reference to its vertex, the linear indices of
the lower and the upper endpoint inside the leaf, and the direction. -/
structure SurfaceEdge (SV : Type) where
  sharedVertex : SV
  edgeIndex1 : Nat
  edgeIndex2 : Nat
  direction : Nat

/-- Creation of the vertex of a new edge.  `privateVertex` stands for the allocation done
by the five-argument `SurfaceEdge::init` (leaf-private vertex), `sharedVertex` for the
registry lookup or insertion done by the seven-argument `init`. -/
structure VertexSource (F SV : Type) where
  privateVertex : Vector3i → Nat → Vector3 F → F → SolidGeometry F → SV
  sharedVertex : Vector3i → Vector3i → Nat → Vector3 F → F → SolidGeometry F → SV

/-- Modelled from the spec: `SurfaceEdge::init(iPos, dir, currentPos, stepSize, sdf)` of
`OctreeSF.h` (not among the sources): the record stores the direction and the linear
indices of the lower endpoint `iPos` and of the upper endpoint one step along `dir`,
and refers to a new leaf-private vertex. -/
def SurfaceEdge.init {F SV : Type} (vs : VertexSource F SV) (iPos : Vector3i) (dir : Nat)
    (currentPos : Vector3 F) (stepSize : F) (implicitSDF : SolidGeometry F) : SurfaceEdge SV :=
  { sharedVertex := vs.privateVertex iPos dir currentPos stepSize implicitSDF
    edgeIndex1 := toIndex iPos
    edgeIndex2 := toIndex (iPos + unitVec dir)
    direction := dir }

/-- Modelled from the spec: `SurfaceEdge::init(minPos, iPos, dir, currentPos, stepSize, sdf,
sharedVertices)` of `OctreeSF.h` (not among the sources): same record, the vertex comes
from the shared-vertex registry keyed by the global position `minPos + iPos` and `dir`. -/
def SurfaceEdge.initShared {F SV : Type} (vs : VertexSource F SV) (minPos iPos : Vector3i)
    (dir : Nat) (currentPos : Vector3 F) (stepSize : F) (implicitSDF : SolidGeometry F) :
    SurfaceEdge SV :=
  { sharedVertex := vs.sharedVertex minPos iPos dir currentPos stepSize implicitSDF
    edgeIndex1 := toIndex iPos
    edgeIndex2 := toIndex (iPos + unitVec dir)
    direction := dir }

/-- Grid leaf (`GridNode`): the sign lattice and the list of surface edges. -/
structure GridNode (SV : Type) where
  m_Signs : SignArray
  m_SurfaceEdges : List (SurfaceEdge SV)

/-- Octree node: inner node with eight children, empty node with one sign, grid leaf. -/
inductive Node (SV : Type) where
  | inner (m_Children : Fin 8 → Node SV)
  | empty (m_Sign : Bool)
  | grid (g : GridNode SV)

/-- Real position of a lattice point (`OctreeSF::getRealPos`):
`m_RootArea.m_MinRealPos + cellIndex.toOgreVec() * m_CellSize`. -/
def getRealPos {F : Type} [FloatOps F] (m_RootArea : Area F) (m_CellSize : F)
    (cellIndex : Vector3i) : Vector3 F :=
  m_RootArea.m_MinRealPos.add (cellIndex.toOgreVec.scale m_CellSize)

/-- Contents of a sign array before `computeSigns` has run on it. -/
def SignArray.blank : SignArray := ⟨fun _ => false⟩

/-- Body of the innermost loop of `computeSigns` on the state `(m_Signs, index)`. -/
def computeSignsBody {F : Type} [FloatOps F] (m_RootArea : Area F) (m_CellSize : F)
    (area : Area F) (implicitSDF : SolidGeometry F) (x y z : Nat)
    (st : SignArray × Nat) : SignArray × Nat :=
  let currentPos := getRealPos m_RootArea m_CellSize (area.m_MinPos + ⟨x, y, z⟩)
  (st.1.set st.2 (implicitSDF.getSign currentPos), st.2 + 1)

/-- Sign sampling of a leaf (`GridNode::computeSigns`). -/
def computeSigns {F : Type} [FloatOps F] (m_RootArea : Area F) (m_CellSize : F)
    (area : Area F) (implicitSDF : SolidGeometry F) (m_Signs : SignArray) : SignArray :=
  (forLoop LEAF_SIZE_1D (fun x st =>
    forLoop LEAF_SIZE_1D (fun y st =>
      forLoop LEAF_SIZE_1D (fun z st =>
        computeSignsBody m_RootArea m_CellSize area implicitSDF x y z st) st) st)
    (m_Signs, 0)).1

/-- The statements `m_SurfaceEdges.emplace_back(); m_SurfaceEdges.back().init(...)`: the
five-argument `init` when the lower endpoint is interior for this direction, the
seven-argument one otherwise. -/
def emplaceEdge {F SV : Type} [FloatOps F] (vs : VertexSource F SV) (m_RootArea : Area F)
    (m_CellSize : F) (area : Area F) (implicitSDF : SolidGeometry F) (interior : Bool)
    (iPos : Vector3i) (dir : Nat) (edges : List (SurfaceEdge SV)) : List (SurfaceEdge SV) :=
  let currentPos := getRealPos m_RootArea m_CellSize (area.m_MinPos + iPos)
  if interior then
    edges ++ [SurfaceEdge.init vs iPos dir currentPos m_CellSize implicitSDF]
  else
    edges ++ [SurfaceEdge.initShared vs area.m_MinPos iPos dir currentPos m_CellSize implicitSDF]

/-- Body of the innermost loop of `computeEdges` with an ignore mask, on the state
`(m_SurfaceEdges, index)`. -/
def computeEdgesIgnoringBody {F SV : Type} [FloatOps F] (vs : VertexSource F SV)
    (m_RootArea : Area F) (m_CellSize : F) (area : Area F) (implicitSDF : SolidGeometry F)
    (ignoreEdges : EdgeMask) (m_Signs : SignArray) (x y z : Nat)
    (st : List (SurfaceEdge SV) × Nat) : List (SurfaceEdge SV) × Nat :=
  let index := st.2
  let iPos : Vector3i := ⟨x, y, z⟩
  let e0 :=
    if !ignoreEdges.get 0 index && decide (x < LEAF_SIZE_1D_INNER)
        && (m_Signs.get index != m_Signs.get (index + LEAF_SIZE_2D)) then
      emplaceEdge vs m_RootArea m_CellSize area implicitSDF
        (decide (y > 0) && decide (y < LEAF_SIZE_1D_INNER) && decide (z > 0)
          && decide (z < LEAF_SIZE_1D_INNER)) iPos 0 st.1
    else st.1
  let e1 :=
    if !ignoreEdges.get 1 index && decide (y < LEAF_SIZE_1D_INNER)
        && (m_Signs.get index != m_Signs.get (index + LEAF_SIZE_1D)) then
      emplaceEdge vs m_RootArea m_CellSize area implicitSDF
        (decide (x > 0) && decide (x < LEAF_SIZE_1D_INNER) && decide (z > 0)
          && decide (z < LEAF_SIZE_1D_INNER)) iPos 1 e0
    else e0
  let e2 :=
    if !ignoreEdges.get 2 index && decide (z < LEAF_SIZE_1D_INNER)
        && (m_Signs.get index != m_Signs.get (index + 1)) then
      emplaceEdge vs m_RootArea m_CellSize area implicitSDF
        (decide (y > 0) && decide (y < LEAF_SIZE_1D_INNER) && decide (x > 0)
          && decide (x < LEAF_SIZE_1D_INNER)) iPos 2 e1
    else e1
  (e2, index + 1)

/-- Edge computation with an ignore mask (`GridNode::computeEdges`, five-argument form). -/
def computeEdgesIgnoring {F SV : Type} [FloatOps F] (vs : VertexSource F SV)
    (m_RootArea : Area F) (m_CellSize : F) (area : Area F) (implicitSDF : SolidGeometry F)
    (ignoreEdges : EdgeMask) (g : GridNode SV) : GridNode SV :=
  { g with
    m_SurfaceEdges :=
      (forLoop LEAF_SIZE_1D (fun x st =>
        forLoop LEAF_SIZE_1D (fun y st =>
          forLoop LEAF_SIZE_1D (fun z st =>
            computeEdgesIgnoringBody vs m_RootArea m_CellSize area implicitSDF ignoreEdges
              g.m_Signs x y z st) st) st)
        (g.m_SurfaceEdges, 0)).1 }

/-- Body of the innermost loop of `computeEdges` without mask. -/
def computeEdgesBody {F SV : Type} [FloatOps F] (vs : VertexSource F SV)
    (m_RootArea : Area F) (m_CellSize : F) (area : Area F) (implicitSDF : SolidGeometry F)
    (m_Signs : SignArray) (x y z : Nat)
    (st : List (SurfaceEdge SV) × Nat) : List (SurfaceEdge SV) × Nat :=
  let index := st.2
  let iPos : Vector3i := ⟨x, y, z⟩
  let e0 :=
    if decide (x < LEAF_SIZE_1D_INNER)
        && (m_Signs.get index != m_Signs.get (index + LEAF_SIZE_2D)) then
      emplaceEdge vs m_RootArea m_CellSize area implicitSDF
        (decide (y > 0) && decide (y < LEAF_SIZE_1D_INNER) && decide (z > 0)
          && decide (z < LEAF_SIZE_1D_INNER)) iPos 0 st.1
    else st.1
  let e1 :=
    if decide (y < LEAF_SIZE_1D_INNER)
        && (m_Signs.get index != m_Signs.get (index + LEAF_SIZE_1D)) then
      emplaceEdge vs m_RootArea m_CellSize area implicitSDF
        (decide (x > 0) && decide (x < LEAF_SIZE_1D_INNER) && decide (z > 0)
          && decide (z < LEAF_SIZE_1D_INNER)) iPos 1 e0
    else e0
  let e2 :=
    if decide (z < LEAF_SIZE_1D_INNER)
        && (m_Signs.get index != m_Signs.get (index + 1)) then
      emplaceEdge vs m_RootArea m_CellSize area implicitSDF
        (decide (y > 0) && decide (y < LEAF_SIZE_1D_INNER) && decide (x > 0)
          && decide (x < LEAF_SIZE_1D_INNER)) iPos 2 e1
    else e1
  (e2, index + 1)

/-- Edge computation of a fresh leaf (`GridNode::computeEdges`, four-argument form). -/
def computeEdges {F SV : Type} [FloatOps F] (vs : VertexSource F SV)
    (m_RootArea : Area F) (m_CellSize : F) (area : Area F) (implicitSDF : SolidGeometry F)
    (g : GridNode SV) : GridNode SV :=
  { g with
    m_SurfaceEdges :=
      (forLoop LEAF_SIZE_1D (fun x st =>
        forLoop LEAF_SIZE_1D (fun y st =>
          forLoop LEAF_SIZE_1D (fun z st =>
            computeEdgesBody vs m_RootArea m_CellSize area implicitSDF g.m_Signs x y z st)
            st) st)
        (g.m_SurfaceEdges, 0)).1 }

/-- Constructor `GridNode::GridNode(tree, area, implicitSDF, sharedVertices)`:
`computeSigns` followed by `computeEdges` on an empty edge list. -/
def GridNode.create {F SV : Type} [FloatOps F] (vs : VertexSource F SV)
    (m_RootArea : Area F) (m_CellSize : F) (area : Area F) (implicitSDF : SolidGeometry F) :
    GridNode SV :=
  computeEdges vs m_RootArea m_CellSize area implicitSDF
    { m_Signs := computeSigns m_RootArea m_CellSize area implicitSDF SignArray.blank
      m_SurfaceEdges := [] }

/-- Sign flip of a leaf (`GridNode::invert`); the edge list is not touched. -/
def GridNode.invert {SV : Type} (g : GridNode SV) : GridNode SV :=
  { g with m_Signs := forLoop LEAF_SIZE_3D (fun i s => s.set i (!s.get i)) g.m_Signs }

/-- Loop over `thisEdgesCopy` in `GridNode::merge` and `GridNode::intersect`, on the state
`(m_SurfaceEdges, addedEdges)`: an old edge whose endpoint signs still differ is pushed
back and marked in the mask (its vertex may be moved, which does not change the record);
the vertex of any other old edge is released. -/
def keepCrossingEdges {SV : Type} (m_Signs : SignArray) (thisEdgesCopy : List (SurfaceEdge SV)) :
    List (SurfaceEdge SV) × EdgeMask :=
  thisEdgesCopy.foldl
    (fun st i =>
      if m_Signs.get i.edgeIndex1 != m_Signs.get i.edgeIndex2 then
        (st.1 ++ [i], st.2.set i.direction i.edgeIndex1 true)
      else st)
    ([], EdgeMask.zero)

/-- Union of a leaf with an implicit solid (`GridNode::merge(tree, area, sdf, registry)`). -/
def GridNode.merge {F SV : Type} [FloatOps F] (vs : VertexSource F SV)
    (m_RootArea : Area F) (m_CellSize : F) (area : Area F) (implicitSDF : SolidGeometry F)
    (g : GridNode SV) : GridNode SV :=
  let otherSigns := computeSigns m_RootArea m_CellSize area implicitSDF SignArray.blank
  let m_Signs := forLoop LEAF_SIZE_3D (fun i s => s.set i (s.get i || otherSigns.get i)) g.m_Signs
  let st := keepCrossingEdges m_Signs g.m_SurfaceEdges
  computeEdgesIgnoring vs m_RootArea m_CellSize area implicitSDF st.2
    { m_Signs := m_Signs, m_SurfaceEdges := st.1 }

/-- Intersection of a leaf with an implicit solid (`GridNode::intersect(tree, area, sdf,
registry)`). -/
def GridNode.intersect {F SV : Type} [FloatOps F] (vs : VertexSource F SV)
    (m_RootArea : Area F) (m_CellSize : F) (area : Area F) (implicitSDF : SolidGeometry F)
    (g : GridNode SV) : GridNode SV :=
  let otherSigns := computeSigns m_RootArea m_CellSize area implicitSDF SignArray.blank
  let m_Signs := forLoop LEAF_SIZE_3D (fun i s => s.set i (s.get i && otherSigns.get i)) g.m_Signs
  let st := keepCrossingEdges m_Signs g.m_SurfaceEdges
  computeEdgesIgnoring vs m_RootArea m_CellSize area implicitSDF st.2
    { m_Signs := m_Signs, m_SurfaceEdges := st.1 }

/-! ## Tree operations -/

/-- Constructor `EmptyNode::EmptyNode(area, implicitSDF)`: the sign of the solid at the
centre of the area. -/
def EmptyNode.create {F SV : Type} [FloatOps F] (area : Area F) (implicitSDF : SolidGeometry F) :
    Node SV :=
  Node.empty (implicitSDF.getSign area.toAABB.getCenter)

/-- Tree builder (`OctreeSF::createNode`). -/
def createNode {F SV : Type} [FloatOps F] (vs : VertexSource F SV) (m_RootArea : Area F)
    (m_CellSize : F) (implicitSDF : SolidGeometry F) (area : Area F) : Node SV :=
  if h : area.m_SizeExpo ≤ LEAF_EXPO ∧ implicitSDF.cubeNeedsSubdivision area = true then
    Node.grid (GridNode.create vs m_RootArea m_CellSize area implicitSDF)
  else if h2 : implicitSDF.cubeNeedsSubdivision area = true then
    Node.inner (fun i => createNode vs m_RootArea m_CellSize implicitSDF (area.getSubAreas i))
  else
    EmptyNode.create area implicitSDF
termination_by (area.m_SizeExpo - LEAF_EXPO).toNat
decreasing_by
  have h3 : ¬ area.m_SizeExpo ≤ LEAF_EXPO := fun h4 => h ⟨h4, h2⟩
  simp only [Area.getSubAreas]
  omega

/-- Recursive inversion (`InnerNode::invert`, `EmptyNode::invert`, `GridNode::invert`). -/
def Node.invert {SV : Type} : Node SV → Node SV
  | Node.inner c => Node.inner (fun i => (c i).invert)
  | Node.empty s => Node.empty (!s)
  | Node.grid g => Node.grid g.invert

/-- Intersection of a subtree with an implicit solid
(`OctreeSF::intersect(node, implicitSDF, area, sharedVertices)`). -/
def intersect {F SV : Type} [FloatOps F] (vs : VertexSource F SV) (m_RootArea : Area F)
    (m_CellSize : F) (implicitSDF : SolidGeometry F) : Node SV → Area F → Node SV
  | Node.inner c, area =>
    if implicitSDF.cubeNeedsSubdivision area then
      Node.inner (fun i => intersect vs m_RootArea m_CellSize implicitSDF (c i) (area.getSubAreas i))
    else if implicitSDF.getSign (area.getCornerVecs 0).2 then Node.inner c
    else EmptyNode.create area implicitSDF
  | Node.empty s, area =>
    if !implicitSDF.cubeNeedsSubdivision area then
      if implicitSDF.getSign (area.getCornerVecs 0).2 then Node.empty s
      else EmptyNode.create area implicitSDF
    else if !s then Node.empty s
    else createNode vs m_RootArea m_CellSize implicitSDF area
  | Node.grid g, area =>
    if !implicitSDF.cubeNeedsSubdivision area then
      if implicitSDF.getSign (area.getCornerVecs 0).2 then Node.grid g
      else EmptyNode.create area implicitSDF
    else Node.grid (g.intersect vs m_RootArea m_CellSize area implicitSDF)

/-- Union of a subtree with an implicit solid
(`OctreeSF::merge(node, implicitSDF, area, sharedVertices)`). -/
def merge {F SV : Type} [FloatOps F] (vs : VertexSource F SV) (m_RootArea : Area F)
    (m_CellSize : F) (implicitSDF : SolidGeometry F) : Node SV → Area F → Node SV
  | Node.inner c, area =>
    if implicitSDF.cubeNeedsSubdivision area then
      Node.inner (fun i => merge vs m_RootArea m_CellSize implicitSDF (c i) (area.getSubAreas i))
    else if !implicitSDF.getSign (area.getCornerVecs 0).2 then Node.inner c
    else createNode vs m_RootArea m_CellSize implicitSDF area
  | Node.empty s, area =>
    if !implicitSDF.cubeNeedsSubdivision area then
      if !implicitSDF.getSign (area.getCornerVecs 0).2 then Node.empty s
      else createNode vs m_RootArea m_CellSize implicitSDF area
    else if s then Node.empty s
    else createNode vs m_RootArea m_CellSize implicitSDF area
  | Node.grid g, area =>
    if !implicitSDF.cubeNeedsSubdivision area then
      if !implicitSDF.getSign (area.getCornerVecs 0).2 then Node.grid g
      else createNode vs m_RootArea m_CellSize implicitSDF area
    else Node.grid (g.merge vs m_RootArea m_CellSize area implicitSDF)

/-- The octree object: root node, root area and cell size. -/
structure Tree (F SV : Type) where
  m_RootNode : Node SV
  m_RootArea : Area F
  m_CellSize : F

/-- Sampling entry point `OctreeSF::sampleSDF(otherSDF, aabb, maxDepth)`. -/
def sampleSDF {F SV : Type} [FloatOps F] (vs : VertexSource F SV) (otherSDF : SolidGeometry F)
    (aabb : AABB F) (maxDepth : Int) : Tree F SV :=
  let aabbSize := aabb.max.sub aabb.min
  let cubeSize := FloatOps.max (FloatOps.max aabbSize.x aabbSize.y) aabbSize.z
  let m_CellSize := FloatOps.div cubeSize (FloatOps.ofInt (shl1 maxDepth))
  let m_RootArea : Area F := ⟨⟨0, 0, 0⟩, maxDepth, aabb.min, cubeSize⟩
  { m_RootNode := createNode vs m_RootArea m_CellSize otherSDF m_RootArea
    m_RootArea := m_RootArea
    m_CellSize := m_CellSize }

/-- Union with a solid (`OctreeSF::merge(otherSDF)`). -/
def Tree.merge {F SV : Type} [FloatOps F] (vs : VertexSource F SV) (t : Tree F SV)
    (otherSDF : SolidGeometry F) : Tree F SV :=
  { t with m_RootNode := OctreeSF.merge vs t.m_RootArea t.m_CellSize otherSDF t.m_RootNode t.m_RootArea }

/-- Intersection with a solid (`OctreeSF::intersect(otherSDF)`). -/
def Tree.intersect {F SV : Type} [FloatOps F] (vs : VertexSource F SV) (t : Tree F SV)
    (otherSDF : SolidGeometry F) : Tree F SV :=
  { t with
    m_RootNode := OctreeSF.intersect vs t.m_RootArea t.m_CellSize otherSDF t.m_RootNode t.m_RootArea }

/-- Subtraction of a solid (`OctreeSF::subtract(otherSDF)`): intersection with
`OpInvertSDF(otherSDF)`. -/
def Tree.subtract {F SV : Type} [FloatOps F] (vs : VertexSource F SV) (t : Tree F SV)
    (otherSDF : SolidGeometry F) : Tree F SV :=
  { t with
    m_RootNode :=
      OctreeSF.intersect vs t.m_RootArea t.m_CellSize (OpInvertSDF otherSDF) t.m_RootNode
        t.m_RootArea }

/-! ## Sign coherence of a leaf -/

/-- Stride of the linear index along a direction: `LEAF_SIZE_2D` for X, `LEAF_SIZE_1D` for Y,
1 for Z. -/
def stride (dir : Nat) : Nat :=
  if dir = 0 then LEAF_SIZE_2D else if dir = 1 then LEAF_SIZE_1D else 1

/-- Coordinate along `dir` of the lattice point with linear index `i`. -/
def coordOf (i dir : Nat) : Nat :=
  if dir = 0 then i / LEAF_SIZE_2D
  else if dir = 1 then i / LEAF_SIZE_1D % LEAF_SIZE_1D
  else i % LEAF_SIZE_1D

/-- The pair `(d, i)` names a sub-cell edge of the leaf lattice: `d` is a direction, `i` the
linear index of a lattice point, and the neighbour of that point along `d` is inside the
lattice. -/
def IsLatticeEdge (d i : Nat) : Prop :=
  d < 3 ∧ i < LEAF_SIZE_3D ∧ coordOf i d < LEAF_SIZE_1D_INNER

instance (d i : Nat) : Decidable (IsLatticeEdge d i) := by
  unfold IsLatticeEdge
  infer_instance

/-- The leaf-local position lies in the sign lattice `[0, LEAF_SIZE_1D)³`. -/
def Vector3i.inLeaf (v : Vector3i) : Prop :=
  (0 ≤ v.x ∧ v.x < LEAF_SIZE_1D) ∧ (0 ≤ v.y ∧ v.y < LEAF_SIZE_1D) ∧ (0 ≤ v.z ∧ v.z < LEAF_SIZE_1D)

instance (v : Vector3i) : Decidable v.inLeaf := by
  unfold Vector3i.inLeaf
  infer_instance

/-- The signs at the two endpoints of the lattice edge `(d, i)` differ. -/
def crossing (signs : SignArray) (d i : Nat) : Bool :=
  signs.get i != signs.get (i + stride d)

/-- Number of edge records with direction `d` and lower endpoint index `i`. -/
def edgeCount {SV : Type} (edges : List (SurfaceEdge SV)) (d i : Nat) : Nat :=
  edges.countP (fun e => decide (e.direction = d ∧ e.edgeIndex1 = i))

/-- Sign coherence of a leaf: every record names a lattice edge by its direction and lower
endpoint and stores the index of the upper endpoint, the signs at the two endpoints of
every record differ, and every lattice edge has exactly one record when its endpoint
signs differ and none when they are equal. -/
structure SignCoherent {SV : Type} (g : GridNode SV) : Prop where
  wellFormed : ∀ e, e ∈ g.m_SurfaceEdges →
    IsLatticeEdge e.direction e.edgeIndex1 ∧ e.edgeIndex2 = e.edgeIndex1 + stride e.direction
  differ : ∀ e, e ∈ g.m_SurfaceEdges → g.m_Signs.get e.edgeIndex1 ≠ g.m_Signs.get e.edgeIndex2
  count : ∀ d i, IsLatticeEdge d i →
    edgeCount g.m_SurfaceEdges d i = if crossing g.m_Signs d i then 1 else 0

/-- The record pushed by `emplaceEdge`. -/
def emplaced {F SV : Type} [FloatOps F] (vs : VertexSource F SV) (m_RootArea : Area F)
    (m_CellSize : F) (area : Area F) (implicitSDF : SolidGeometry F) (interior : Bool)
    (iPos : Vector3i) (dir : Nat) : SurfaceEdge SV :=
  let currentPos := getRealPos m_RootArea m_CellSize (area.m_MinPos + iPos)
  if interior then SurfaceEdge.init vs iPos dir currentPos m_CellSize implicitSDF
  else SurfaceEdge.initShared vs area.m_MinPos iPos dir currentPos m_CellSize implicitSDF

/-- The condition under which round `j` of the masked edge computation pushes a record of
direction `d`. -/
def edgeTest (ignoreEdges : EdgeMask) (m_Signs : SignArray) (d j : Nat) : Bool :=
  !ignoreEdges.get d j && decide (coordOf j d < LEAF_SIZE_1D_INNER) && crossing m_Signs d j

/-- The interior test of round `j` for direction `d` (both other coordinates strictly
between 0 and `LEAF_SIZE_1D_INNER`). -/
def interiorTest (j d : Nat) : Bool :=
  if d = 0 then
    decide (coordOf j 1 > 0) && decide (coordOf j 1 < LEAF_SIZE_1D_INNER) && decide (coordOf j 2 > 0)
      && decide (coordOf j 2 < LEAF_SIZE_1D_INNER)
  else if d = 1 then
    decide (coordOf j 0 > 0) && decide (coordOf j 0 < LEAF_SIZE_1D_INNER) && decide (coordOf j 2 > 0)
      && decide (coordOf j 2 < LEAF_SIZE_1D_INNER)
  else
    decide (coordOf j 1 > 0) && decide (coordOf j 1 < LEAF_SIZE_1D_INNER) && decide (coordOf j 0 > 0)
      && decide (coordOf j 0 < LEAF_SIZE_1D_INNER)

/-- The records pushed in round `j` of the masked edge computation, in order. -/
def newEdgesAt {F SV : Type} [FloatOps F] (vs : VertexSource F SV) (m_RootArea : Area F)
    (m_CellSize : F) (area : Area F) (implicitSDF : SolidGeometry F) (ignoreEdges : EdgeMask)
    (m_Signs : SignArray) (j : Nat) : List (SurfaceEdge SV) :=
  (if edgeTest ignoreEdges m_Signs 0 j then
      [emplaced vs m_RootArea m_CellSize area implicitSDF (interiorTest j 0) (fromIndex j) 0]
    else [])
  ++ (if edgeTest ignoreEdges m_Signs 1 j then
      [emplaced vs m_RootArea m_CellSize area implicitSDF (interiorTest j 1) (fromIndex j) 1]
    else [])
  ++ (if edgeTest ignoreEdges m_Signs 2 j then
      [emplaced vs m_RootArea m_CellSize area implicitSDF (interiorTest j 2) (fromIndex j) 2]
    else [])

/-- The endpoint signs of a record differ under the given sign array (the test
`m_Signs[i->edgeIndex1] != m_Signs[i->edgeIndex2]`). -/
def stillCrosses {SV : Type} (m_Signs : SignArray) (e : SurfaceEdge SV) : Bool :=
  m_Signs.get e.edgeIndex1 != m_Signs.get e.edgeIndex2

/-! ## Properties of trees -/

/-- The lattice point `p` lies in the closed integer cube `[m_MinPos, m_MinPos + 2^e]³` of
the area. -/
def Area.containsLattice {F : Type} (a : Area F) (p : Vector3i) : Prop :=
  (a.m_MinPos.x ≤ p.x ∧ p.x ≤ a.m_MinPos.x + shl1 a.m_SizeExpo)
  ∧ (a.m_MinPos.y ≤ p.y ∧ p.y ≤ a.m_MinPos.y + shl1 a.m_SizeExpo)
  ∧ (a.m_MinPos.z ≤ p.z ∧ p.z ≤ a.m_MinPos.z + shl1 a.m_SizeExpo)

/-- The subtree `n` over area `a` stores the sign `b` for the lattice point `p`: an empty
node stores its sign for every lattice point of its area, a grid leaf stores entry
`x·S² + y·S + z` for the point `a.m_MinPos + (x, y, z)`. -/
def Node.storesSign {F SV : Type} [FloatOps F] : Node SV → Area F → Vector3i → Bool → Prop
  | Node.inner c, a, p, b => ∃ i, (c i).storesSign (a.getSubAreas i) p b
  | Node.empty s, a, p, b => a.containsLattice p ∧ b = s
  | Node.grid g, a, p, b =>
    ∃ x y z : Nat, x < LEAF_SIZE_1D ∧ y < LEAF_SIZE_1D ∧ z < LEAF_SIZE_1D
      ∧ p = a.m_MinPos + ⟨x, y, z⟩
      ∧ b = g.m_Signs.get (x * LEAF_SIZE_2D + y * LEAF_SIZE_1D + z)

/-- Shape of the trees the builder produces over an area of exponent at least `LEAF_EXPO`:
inner nodes sit above `LEAF_EXPO`, grid leaves exactly at `LEAF_EXPO`. -/
def Node.WellFormed {F SV : Type} [FloatOps F] : Node SV → Area F → Prop
  | Node.inner c, a => (LEAF_EXPO : Int) < a.m_SizeExpo ∧ ∀ i, (c i).WellFormed (a.getSubAreas i)
  | Node.empty _, a => (LEAF_EXPO : Int) ≤ a.m_SizeExpo
  | Node.grid _, a => a.m_SizeExpo = LEAF_EXPO

/-- Areas reached from `root` by splitting areas of exponent above `LEAF_EXPO`. -/
inductive SubAreaOf {F : Type} [FloatOps F] (root : Area F) : Area F → Prop
  | refl : SubAreaOf root root
  | step (a : Area F) (i : Fin 8) : SubAreaOf root a → (LEAF_EXPO : Int) < a.m_SizeExpo →
      SubAreaOf root (a.getSubAreas i)

/-- The solid's `cubeNeedsSubdivision` is conservative on the areas of the tree: where it
is false, `getSign` has one value on all lattice points of the area, at its centre and
at its minimum corner. -/
def Conservative {F : Type} [FloatOps F] (m_RootArea : Area F) (m_CellSize : F)
    (s : SolidGeometry F) : Prop :=
  ∀ a, SubAreaOf m_RootArea a → s.cubeNeedsSubdivision a = false →
    (∀ p, a.containsLattice p →
      s.getSign (getRealPos m_RootArea m_CellSize p) = s.getSign (a.getCornerVecs 0).2)
    ∧ s.getSign a.toAABB.getCenter = s.getSign (a.getCornerVecs 0).2

/-- Every grid leaf of the subtree covers an area that satisfies `P`. -/
def Node.GridLeavesAt {F SV : Type} [FloatOps F] (P : Area F → Prop) :
    Node SV → Area F → Prop
  | Node.inner c, a => ∀ i, (c i).GridLeavesAt P (a.getSubAreas i)
  | Node.empty _, _ => True
  | Node.grid _, a => P a

/-- Every leaf of the subtree is an empty node with sign outside. -/
def Node.AllEmptyOutside {SV : Type} : Node SV → Prop
  | Node.inner c => ∀ i, (c i).AllEmptyOutside
  | Node.empty s => s = false
  | Node.grid _ => False

/-- Every sign stored in the subtree is outside: empty nodes have sign false and grid
leaves have every lattice entry false. -/
def Node.AllSignsOutside {SV : Type} : Node SV → Prop
  | Node.inner c => ∀ i, (c i).AllSignsOutside
  | Node.empty s => s = false
  | Node.grid g => ∀ i, g.m_Signs.entry i = false

/-- Two subtrees have the same node structure: the same kind of node at every position. -/
def Node.SameShape {SV : Type} : Node SV → Node SV → Prop
  | Node.inner c, Node.inner c2 => ∀ i, (c i).SameShape (c2 i)
  | Node.empty _, Node.empty _ => True
  | Node.grid _, Node.grid _ => True
  | _, _ => False

/-- The signs stored by `T2` are those of `T` combined by OR with the signs of the solid
`s`, lattice point by lattice point: every sign `T2` stores for a point is a sign `T`
stores for it OR the sign of `s` at its real position, and every sign `T` stores for a
point is found in `T2` combined in this way. -/
def Tree.SignsAreUnion {F SV : Type} [FloatOps F] (T T2 : Tree F SV) (s : SolidGeometry F) :
    Prop :=
  (∀ p b2, T2.m_RootNode.storesSign T2.m_RootArea p b2 →
    ∃ b, T.m_RootNode.storesSign T.m_RootArea p b
      ∧ b2 = (b || s.getSign (getRealPos T.m_RootArea T.m_CellSize p)))
  ∧ (∀ p b, T.m_RootNode.storesSign T.m_RootArea p b →
    T2.m_RootNode.storesSign T2.m_RootArea p
      (b || s.getSign (getRealPos T.m_RootArea T.m_CellSize p)))

/-- The leaf `g2` is the leaf `g` after a sign change followed by the edge rebuild: `g2` is
sign coherent, its edge list is the list of the old records that still cross under the
new signs, in their old order, followed by new records, and the new records are exactly
one for every lattice edge that crosses under the new signs and did not cross before. -/
def LeafRebuilt {SV : Type} (g g2 : GridNode SV) : Prop :=
  SignCoherent g2
  ∧ ∃ new : List (SurfaceEdge SV),
      g2.m_SurfaceEdges = g.m_SurfaceEdges.filter (stillCrosses g2.m_Signs) ++ new
      ∧ ∀ d i, IsLatticeEdge d i →
          edgeCount new d i
            = if crossing g2.m_Signs d i = true ∧ crossing g.m_Signs d i = false then 1 else 0

/-! ## Example inputs -/

/-- Exact rational arithmetic as an instance of the float operations. -/
instance ratFloatOps : FloatOps ℚ where
  add := fun a b => a + b
  sub := fun a b => a - b
  mul := fun a b => a * b
  div := fun a b => a / b
  max := fun a b => if a ≤ b then b else a
  ofInt := fun n => (n : ℚ)
  half := 1 / 2
  negOne := -1
  zero := 0
  le := fun a b => decide (a ≤ b)

/-- Vertex references that record how the vertex was obtained: private or shared, the
global lower endpoint and the direction. -/
def exampleVertices : VertexSource ℚ (Bool × Vector3i × Nat) where
  privateVertex := fun iPos dir _ _ _ => (false, iPos, dir)
  sharedVertex := fun minPos iPos dir _ _ _ => (true, minPos + iPos, dir)

/-- The half space `x ≤ 5/2` as a solid: inside where `2x ≤ 5`, with signed distance `±1`;
a box is cut by the surface when its minimum and maximum corner lie on different sides;
`cubeNeedsSubdivision` is inherited. -/
def exampleHalfSpace : SolidGeometry ℚ where
  getSample := fun p => ⟨if p.x * 2 ≤ 5 then 1 else -1, p, ⟨1, 0, 0⟩⟩
  getSign := fun p => decide (p.x * 2 ≤ 5)
  intersectsSurface := fun b => decide (b.min.x * 2 ≤ 5) != decide (b.max.x * 2 ≤ 5)
  cubeNeedsSubdivision := SolidGeometry.defaultCubeNeedsSubdivision
    (fun b => decide (b.min.x * 2 ≤ 5) != decide (b.max.x * 2 ≤ 5))

/-- The solid that fills all of space: inside everywhere, no box cut by its surface. -/
def exampleFullSpace : SolidGeometry ℚ where
  getSample := fun p => ⟨1, p, ⟨1, 0, 0⟩⟩
  getSign := fun _ => true
  intersectsSurface := fun _ => false
  cubeNeedsSubdivision := SolidGeometry.defaultCubeNeedsSubdivision (fun _ => false)

/-- The box `[0, 8]³`. -/
def exampleBox : AABB ℚ := ⟨⟨0, 0, 0⟩, ⟨8, 8, 8⟩⟩

/-! ## Further tree entry points and area reachability -/

/-- The inverse cell size (`OctreeSF::getInverseCellSize`):
`(float)(1 << m_RootArea.m_SizeExpo) / m_RootArea.m_RealSize`. -/
def Tree.getInverseCellSize {F SV : Type} [FloatOps F] (t : Tree F SV) : F :=
  FloatOps.div (FloatOps.ofInt (shl1 t.m_RootArea.m_SizeExpo)) t.m_RootArea.m_RealSize

/-- Areas reached from `root` by repeated `getSubAreas`, splitting only areas of exponent
at least 1 (below that the shift `1 << (e - 1)` of `getSubAreas` is undefined). -/
inductive ReachedFrom {F : Type} [FloatOps F] (root : Area F) : Area F → Prop
  | root : ReachedFrom root root
  | sub (a : Area F) (i : Fin 8) : ReachedFrom root a → 1 ≤ a.m_SizeExpo →
      ReachedFrom root (a.getSubAreas i)

/-- Bit `k` of a corner or child index, as an integer 0 or 1. -/
def bitOf (i k : Nat) : Int := ((i / 2 ^ k % 2 : Nat) : Int)

/-! ## Boxes and composed solids

Where a claim is about the value of arithmetic, the carrier is `ℚ`: every finite `float`
is a rational number.  Comparisons of floats are exact; an operation whose result is
rounded takes the rounding as a parameter `round`, which is the identity in exact
arithmetic and `roundToFloat` for `float`. -/

/-- Rounding of a rational number to the nearest `float` (binary32: 24 significant bits,
smallest normal exponent `-126`), ties to the even significand.  The unit in the last
place is `2^(e - 23)` for the exponent `e` of the binade of `x`, and `2^(-149)` below the
normal range.  Overflow to infinity (results beyond `FLT_MAX`) is not modelled. -/
def roundToFloat (x : ℚ) : ℚ :=
  let ulp : ℚ := 2 ^ (max (Int.log 2 |x|) (-126) - 23)
  let q := x / ulp
  let f : Int := ⌊q⌋
  if q - f < 1 / 2 then f * ulp
  else if 1 / 2 < q - f then (f + 1) * ulp
  else if f % 2 = 0 then f * ulp
  else (f + 1) * ulp

/-- Corner `corner` of a box (`AABB::getCorner`): `min + bits * (max - min)`, componentwise,
where `sizeVec = max - min`, the product with the vector of bits and the sum are each
rounded by `round`. -/
def AABB.getCorner (round : ℚ → ℚ) (b : AABB ℚ) (corner : Nat) : Vector3 ℚ :=
  let sizeVec : Vector3 ℚ :=
    ⟨round (b.max.x - b.min.x), round (b.max.y - b.min.y), round (b.max.z - b.min.z)⟩
  ⟨round (b.min.x + round (((bitSet corner 4 : Int) : ℚ) * sizeVec.x)),
   round (b.min.y + round (((bitSet corner 2 : Int) : ℚ) * sizeVec.y)),
   round (b.min.z + round ((((corner &&& 1 : Nat) : Int) : ℚ) * sizeVec.z))⟩

/-- The corner computation of `AABB::getCorner` meets no rounding error on the box `b`:
`round` leaves zero, the coordinates of `b.min` and `b.max`, and the three differences
`max - min` unchanged.  In exact arithmetic (`round` the identity) every box has the
property. -/
def AABB.SizeExact (round : ℚ → ℚ) (b : AABB ℚ) : Prop :=
  round 0 = 0
    ∧ (round b.min.x = b.min.x ∧ round b.min.y = b.min.y ∧ round b.min.z = b.min.z)
    ∧ (round b.max.x = b.max.x ∧ round b.max.y = b.max.y ∧ round b.max.z = b.max.z)
    ∧ (round (b.max.x - b.min.x) = b.max.x - b.min.x
        ∧ round (b.max.y - b.min.y) = b.max.y - b.min.y
        ∧ round (b.max.z - b.min.z) = b.max.z - b.min.z)

/-- Containment of a point, half-open on the maximum (`AABB::containsPoint`). -/
def AABB.containsPoint (b : AABB ℚ) (point : Vector3 ℚ) : Bool :=
  decide (point.x ≥ b.min.x ∧ point.x < b.max.x
    ∧ point.y ≥ b.min.y ∧ point.y < b.max.y
    ∧ point.z ≥ b.min.z ∧ point.z < b.max.z)

/-- Overlap test of two boxes (`AABB::intersectsAABB`), a separating-axis test on the three
axes.  `intervalDoesNotOverlap` stands for `MathMisc::intervalDoesNotOverlap`, whose
header is not among the sources. -/
def AABB.intersectsAABB (intervalDoesNotOverlap : ℚ → ℚ → ℚ → ℚ → Bool) (b otherAABB : AABB ℚ) :
    Bool :=
  if intervalDoesNotOverlap b.min.x b.max.x otherAABB.min.x otherAABB.max.x then false
  else if intervalDoesNotOverlap b.min.y b.max.y otherAABB.min.y otherAABB.max.y then false
  else if intervalDoesNotOverlap b.min.z b.max.z otherAABB.min.z otherAABB.max.z then false
  else true

/-- Sign of the box solid (`AABBGeometry::getSign`): containment of the point. -/
def AABBGeometry.getSign (b : AABB ℚ) (point : Vector3 ℚ) : Bool :=
  b.containsPoint point

/-- Surface test of the box solid (`AABBGeometry::intersectsSurface`): false when the boxes
do not overlap; otherwise true as soon as one of the eight corners of the query box, as
`getCorner` computes them with the rounding `round`, is not contained in the solid. -/
def AABBGeometry.intersectsSurface (round : ℚ → ℚ)
    (intervalDoesNotOverlap : ℚ → ℚ → ℚ → ℚ → Bool) (b aabb : AABB ℚ) : Bool :=
  if !b.intersectsAABB intervalDoesNotOverlap aabb then false
  else (List.range 8).any (fun i => !b.containsPoint (aabb.getCorner round i))

/-- The box solid `[-2^25, 1/2]³`. -/
def exampleDeepBox : AABB ℚ := ⟨⟨-33554432, -33554432, -33554432⟩, ⟨1 / 2, 1 / 2, 1 / 2⟩⟩

/-- The query box `[-2^24, 1]³`, whose size `2^24 + 1` is not a `float`. -/
def exampleWideQuery : AABB ℚ := ⟨⟨-16777216, -16777216, -16777216⟩, ⟨1, 1, 1⟩⟩

/-- The smallest component of a vector (`Ogre::Vector3::minComponent`). -/
def Vector3.minComponent (v : Vector3 ℚ) : ℚ := min (min v.x v.y) v.z

/-- Signed distance written by `AABBGeometry::getSample`.  `sqrtf` stands for
`std::sqrtf` and `squaredDistance` for `AABB::squaredDistance`
(`MathMisc::aabbPointSquaredDistance`, not among the sources). -/
def AABBGeometry.signedDistance (sqrtf : ℚ → ℚ) (squaredDistance : AABB ℚ → Vector3 ℚ → ℚ)
    (b : AABB ℚ) (point : Vector3 ℚ) : ℚ :=
  if b.containsPoint point then
    let minVec : Vector3 ℚ := ⟨point.x - b.min.x, point.y - b.min.y, point.z - b.min.z⟩
    let maxVec : Vector3 ℚ := ⟨b.max.x - point.x, b.max.y - point.y, b.max.z - point.z⟩
    min minVec.minComponent maxVec.minComponent
  else
    - sqrtf (squaredDistance b point)

/-- Sample written by the box solid (`AABBGeometry::getSample(point, s)`): only the member
`signedDistance` of the object `s` passed by reference is assigned; the other members keep
what `s` held before the call. -/
def AABBGeometry.getSample (sqrtf : ℚ → ℚ) (squaredDistance : AABB ℚ → Vector3 ℚ → ℚ)
    (b : AABB ℚ) (point : Vector3 ℚ) (s : Sample ℚ) : Sample ℚ :=
  { s with signedDistance := AABBGeometry.signedDistance sqrtf squaredDistance b point }

/-- Sample of the intersection solid (`OpIntersectionSDF::getSample(point, minSample)`).
A solid's `getSample(point, s)` writes into the object `s` passed by reference, so each
child of `m_SDFs` is the function from the point and the previous content of `s` to its
new content.  `minSample` is the caller's object, `fltMax` is
`std::numeric_limits<float>::max()`, and `sample` is the initial content of the local
`Sample sample;`, which every child writes into in turn.  The state of the loop is the
pair of `minSample` and the local `sample`. -/
def OpIntersectionSDF.getSample {K : Type} [LinearOrder K] (fltMax : K)
    (m_SDFs : List (Vector3 K → Sample K → Sample K)) (point : Vector3 K)
    (minSample sample : Sample K) : Sample K :=
  (m_SDFs.foldl
    (fun (st : Sample K × Sample K) i =>
      let sample := i point st.2
      if sample.signedDistance < st.1.signedDistance then (sample, sample) else (st.1, sample))
    ({ minSample with signedDistance := fltMax }, sample)).1

/-- The successive contents of the local `sample` of `OpIntersectionSDF::getSample`, one
for each child: the content right after that child's `getSample(point, sample)`, which
wrote on top of what the previous child left. -/
def OpIntersectionSDF.localSamples {K : Type} :
    List (Vector3 K → Sample K → Sample K) → Vector3 K → Sample K → List (Sample K)
  | [], _, _ => []
  | i :: t, point, sample =>
    i point sample :: OpIntersectionSDF.localSamples t point (i point sample)

/-- The `getSample` of a solid that assigns every member of the sample: signed distance
the constant `d`, closest position the query point, normal `(1, 0, 0)`. -/
def exampleConstantSolid (d : ℚ) : Vector3 ℚ → Sample ℚ → Sample ℚ :=
  fun p _ => ⟨d, p, ⟨1, 0, 0⟩⟩

/-- The value of `std::numeric_limits<float>::max()`, `(2^24 - 1) · 2^104`. -/
def exampleFltMax : ℚ := (2 ^ 24 - 1) * 2 ^ 104

/-- A solid that reports no surface anywhere although its sign changes at `x = 4`: inside
where `4 ≤ x`. -/
def exampleUnreportedSurface : SolidGeometry ℚ where
  getSample := fun p => ⟨if 4 ≤ p.x then 1 else -1, p, ⟨1, 0, 0⟩⟩
  getSign := fun p => decide (4 ≤ p.x)
  intersectsSurface := fun _ => false
  cubeNeedsSubdivision := SolidGeometry.defaultCubeNeedsSubdivision (fun _ => false)

/-- The area of exponent 3 at the origin with cell size 1, covering `[0, 8]³`. -/
def exampleArea : Area ℚ := ⟨⟨0, 0, 0⟩, 3, ⟨0, 0, 0⟩, 8⟩


/-! ## Further spec predicates: inversion, sampling log, corner mask -/

/-- Every Grid leaf of the subtree satisfies sign coherence. -/
def Node.LeavesCoherent {SV : Type} : Node SV → Prop
  | Node.inner c => ∀ i, (c i).LeavesCoherent
  | Node.empty _ => True
  | Node.grid g => SignCoherent g

/-- The subtree `n2` is `n` with signs flipped and nothing else changed: the same node
structure, every Empty node with the opposite sign, every Grid leaf with the same list of
edge records (hence the same vertices) and every lattice entry negated. -/
def Node.SignsFlipped {SV : Type} : Node SV → Node SV → Prop
  | Node.inner c, Node.inner c2 => ∀ i, (c i).SignsFlipped (c2 i)
  | Node.empty s, Node.empty s2 => s2 = !s
  | Node.grid g, Node.grid g2 =>
    g2.m_SurfaceEdges = g.m_SurfaceEdges ∧ ∀ i, g2.m_Signs.entry i = !g.m_Signs.entry i
  | _, _ => False

/-- The loop of `GridNode::computeSigns` with a log of the array indices it writes, on the
state `((m_Signs, index), log)`; the result is the array and the log. -/
def computeSignsLogged {F : Type} [FloatOps F] (m_RootArea : Area F) (m_CellSize : F)
    (area : Area F) (implicitSDF : SolidGeometry F) (m_Signs : SignArray) :
    SignArray × List Nat :=
  let r := forLoop LEAF_SIZE_1D (fun x st =>
    forLoop LEAF_SIZE_1D (fun y st =>
      forLoop LEAF_SIZE_1D (fun z (st : (SignArray × Nat) × List Nat) =>
        (computeSignsBody m_RootArea m_CellSize area implicitSDF x y z st.1,
          st.2 ++ [st.1.2])) st) st)
    ((m_Signs, 0), [])
  (r.1.1, r.2)

/-- Corner mask of a sub-cell (`GridNode::getCubeBitMask(index, signsArray)`): the eight
signs, converted to 0 or 1, shifted to bits 0 to 7 and combined by OR. -/
def getCubeBitMask (index : Nat) (signsArray : SignArray) : Nat :=
  let corners := 0
  let corners := corners ||| (signsArray.get index).toNat
  let corners := corners ||| ((signsArray.get (index + 1)).toNat <<< 1)
  let corners := corners ||| ((signsArray.get (index + LEAF_SIZE_1D)).toNat <<< 2)
  let corners := corners ||| ((signsArray.get (index + LEAF_SIZE_1D + 1)).toNat <<< 3)
  let corners := corners ||| ((signsArray.get (index + LEAF_SIZE_2D)).toNat <<< 4)
  let corners := corners ||| ((signsArray.get (index + LEAF_SIZE_2D + 1)).toNat <<< 5)
  let corners := corners ||| ((signsArray.get (index + LEAF_SIZE_2D + LEAF_SIZE_1D)).toNat <<< 6)
  let corners :=
    corners ||| ((signsArray.get (index + LEAF_SIZE_2D + LEAF_SIZE_1D + 1)).toNat <<< 7)
  corners


/-! ## Vertex store and mesh extraction -/

/-- Modelled from the spec: `SharedSurfaceVertex` of `OctreeSF.h` (not among the sources),
with the fields the code reads and writes: the vertex data, the index stamped by the
vertex pass, the reference count and the two flags. -/
structure SharedSurfaceVertex (V : Type) where
  vertex : V
  vertexIndex : Nat
  refCount : Nat
  marked : Bool
  shared : Bool

/-- The vertex store: the object each `sharedVertex` pointer designates.  Edge records of
this part of the development carry the pointer as a natural number. -/
def VertexHeap (V : Type) : Type := Nat → SharedSurfaceVertex V

/-- Write through a pointer. -/
def VertexHeap.set {V : Type} (h : VertexHeap V) (p : Nat) (v : SharedSurfaceVertex V) :
    VertexHeap V :=
  fun q => if q = p then v else h q

/-- Body of the loop of `GridNode::generateVertices` on the state `(store, vertices)`: a
vertex that is not marked and is shared gets `vertexIndex = vertices.size()`, is marked,
and its vertex data is pushed. -/
def generateVerticesBody {V : Type} (i : SurfaceEdge Nat) (st : VertexHeap V × List V) :
    VertexHeap V × List V :=
  let v := st.1 i.sharedVertex
  if !v.marked && v.shared then
    (st.1.set i.sharedVertex { v with vertexIndex := st.2.length, marked := true },
      st.2 ++ [v.vertex])
  else st

/-- Vertex pass of one leaf (`GridNode::generateVertices(vertices)`). -/
def GridNode.generateVertices {V : Type} (g : GridNode Nat) (st : VertexHeap V × List V) :
    VertexHeap V × List V :=
  g.m_SurfaceEdges.foldl (fun st i => generateVerticesBody i st) st

/-- The vertex pass run over a sequence of Grid leaves with one output buffer. -/
def generateVerticesAll {V : Type} (leaves : List (GridNode Nat))
    (st : VertexHeap V × List V) : VertexHeap V × List V :=
  leaves.foldl (fun st g => g.generateVertices st) st

/-- The vertex pointers of the edge records of the leaves, leaf by leaf and record by
record. -/
def leafReferences : List (GridNode Nat) → List Nat
  | [] => []
  | g :: rest => g.m_SurfaceEdges.map (fun e => e.sharedVertex) ++ leafReferences rest

/-- The shared vertices among a sequence of references, each listed once, in the order of
their first reference. -/
def firstReferences {V : Type} (heap : VertexHeap V) (refs : List Nat) : List Nat :=
  refs.foldl (fun acc p => if (heap p).shared = true ∧ p ∉ acc then acc ++ [p] else acc) []

/-- State of the vertex pass after the shared vertices `acc` have been pushed, relative
to the initial store and buffer. -/
structure EmittedSoFar {V : Type} (heap : VertexHeap V) (buffer : List V) (acc : List Nat)
    (st : VertexHeap V × List V) : Prop where
  buf : st.2 = buffer ++ acc.map (fun p => (heap p).vertex)
  shared : ∀ p, (st.1 p).shared = (heap p).shared
  vertex : ∀ p, (st.1 p).vertex = (heap p).vertex
  marked : ∀ p, (st.1 p).marked = true ↔ p ∈ acc
  index : ∀ p, p ∈ acc → (st.1 p).vertexIndex = buffer.length + acc.indexOf p
  nodup : acc.Nodup


/-- Modelled from the spec: an entry `Triangle<int>` of the Marching-Cubes table of
`TriangleLookupTable.h` (not among the sources): the numbers of three directed edges. -/
structure Triangle where
  p1 : Nat
  p2 : Nat
  p3 : Nat

/-- Modelled from the spec: `TLT::DirectedEdge` of `TriangleLookupTable.h` (not among the
sources), with the two fields the code reads: the direction of the sub-cell edge and the
corner number of its lower endpoint. -/
structure DirectedEdge where
  direction : Nat
  minCornerIndex : Nat

/-- Modelled from the spec: the two tables of the singleton `TLT` of
`TriangleLookupTable.h` (not among the sources), `indexTable[corners]` and
`directedEdges[p]`. -/
structure TLT where
  indexTable : Nat → List Triangle
  directedEdges : Nat → DirectedEdge

/-- The array `surfaceEdgeMaps[3][LEAF_SIZE_3D]` of `GridNode::generateIndices` after the
loop over `m_SurfaceEdges`: entry `[d][j]` is the last record with direction `d` and lower
endpoint `j`; an entry that was never written is `none`. -/
def surfaceEdgeMaps (m_SurfaceEdges : List (SurfaceEdge Nat)) :
    Nat → Nat → Option (SurfaceEdge Nat) :=
  m_SurfaceEdges.foldl
    (fun maps i => fun d j => if d = i.direction ∧ j = i.edgeIndex1 then some i else maps d j)
    (fun _ _ => none)

/-- The value `surfaceEdgeMaps[p.direction][index + (p.minCornerIndex & 1)
+ ((p.minCornerIndex & 2) >> 1) * LEAF_SIZE_1D
+ ((p.minCornerIndex & 4) >> 2) * LEAF_SIZE_2D]->sharedVertex->vertexIndex`; it does not
exist when the entry was never written. -/
def cornerVertexIndex {V : Type} (heap : VertexHeap V)
    (maps : Nat → Nat → Option (SurfaceEdge Nat)) (index : Nat) (p : DirectedEdge) :
    Option Nat :=
  (maps p.direction
      (index + (p.minCornerIndex &&& 1)
        + ((p.minCornerIndex &&& 2) >>> 1) * LEAF_SIZE_1D
        + ((p.minCornerIndex &&& 4) >>> 2) * LEAF_SIZE_2D)).map
    (fun e => (heap e.sharedVertex).vertexIndex)

/-- Body of the loop over `tris` in `generateIndices`: the vertex indices of `p1`, `p2`
and `p3` are pushed in this order. -/
def generateIndicesTriangle {V : Type} (tlt : TLT) (heap : VertexHeap V)
    (maps : Nat → Nat → Option (SurfaceEdge Nat)) (index : Nat) (i2 : Triangle)
    (indices : Option (List Nat)) : Option (List Nat) :=
  match indices, cornerVertexIndex heap maps index (tlt.directedEdges i2.p1),
    cornerVertexIndex heap maps index (tlt.directedEdges i2.p2),
    cornerVertexIndex heap maps index (tlt.directedEdges i2.p3) with
  | some ind, some v1, some v2, some v3 => some (ind ++ [v1, v2, v3])
  | _, _, _, _ => none

/-- The statements of `generateIndices` for the sub-cell with base index `index`. -/
def generateIndicesCell {V : Type} (tlt : TLT) (heap : VertexHeap V)
    (maps : Nat → Nat → Option (SurfaceEdge Nat)) (m_Signs : SignArray) (index : Nat)
    (indices : Option (List Nat)) : Option (List Nat) :=
  let corners := getCubeBitMask index m_Signs
  if corners ≠ 0 ∧ corners ≠ 255 then
    (tlt.indexTable corners).foldl
      (fun indices i2 => generateIndicesTriangle tlt heap maps index i2 indices) indices
  else indices

/-- Index pass of one leaf (`GridNode::generateIndices(area, indices, vertices)`), on the
state `(indices, index)`: `index++` after every sub-cell, once more after every row and
`index += LEAF_SIZE_1D` after every slab.  The result is `none` when the pass reads an
entry of `surfaceEdgeMaps` that was never written. -/
def GridNode.generateIndices {V : Type} (tlt : TLT) (heap : VertexHeap V) (g : GridNode Nat)
    (indices : List Nat) : Option (List Nat) :=
  let maps := surfaceEdgeMaps g.m_SurfaceEdges
  (forLoop LEAF_SIZE_1D_INNER (fun _ st =>
    let st := forLoop LEAF_SIZE_1D_INNER (fun _ st =>
      let st := forLoop LEAF_SIZE_1D_INNER (fun _ (st : Option (List Nat) × Nat) =>
        (generateIndicesCell tlt heap maps g.m_Signs st.2 st.1, st.2 + 1)) st
      (st.1, st.2 + 1)) st
    (st.1, st.2 + LEAF_SIZE_1D)) (some indices, 0)).1

/-- The base indices of the sub-cells of a leaf in x-major, then y, then z order. -/
def subCells : List Nat :=
  (List.range LEAF_SIZE_1D_INNER).flatMap (fun x =>
    (List.range LEAF_SIZE_1D_INNER).flatMap (fun y =>
      (List.range LEAF_SIZE_1D_INNER).map (fun z => x * LEAF_SIZE_2D + y * LEAF_SIZE_1D + z)))

/-- Linear offset of the corner `m` of a sub-cell, the corner at local offset
`(x, y, z) = (bit 2, bit 1, bit 0)` of `m`. -/
def cornerLinearOffset (m : Nat) : Nat :=
  m / 4 % 2 * LEAF_SIZE_2D + m / 2 % 2 * LEAF_SIZE_1D + m % 2

/-- The `vertexIndex` of the vertex of the edge record with direction `d` and lower
endpoint `j` (0 when there is no such record). -/
def edgeVertexIndex {V : Type} (heap : VertexHeap V) (edges : List (SurfaceEdge Nat))
    (d j : Nat) : Nat :=
  match edges.find? (fun e => decide (e.direction = d ∧ e.edgeIndex1 = j)) with
  | some e => (heap e.sharedVertex).vertexIndex
  | none => 0

/-- The index a triangle corner stands for in the sub-cell `idx`: the `vertexIndex` of the
record whose direction is the directed edge's direction and whose lower endpoint is the
sub-cell index plus the offset of `minCornerIndex`. -/
def cornerIndexOf {V : Type} (tlt : TLT) (heap : VertexHeap V) (g : GridNode Nat)
    (idx p : Nat) : Nat :=
  edgeVertexIndex heap g.m_SurfaceEdges (tlt.directedEdges p).direction
    (idx + cornerLinearOffset (tlt.directedEdges p).minCornerIndex)

/-- The indices of one sub-cell in the spec's words: nothing for mask 0 or 255,
otherwise three indices `p1, p2, p3` per triangle of `indexTable[mask]`, in table order. -/
def cellIndices {V : Type} (tlt : TLT) (heap : VertexHeap V) (g : GridNode Nat) (idx : Nat) :
    List Nat :=
  if getCubeBitMask idx g.m_Signs = 0 ∨ getCubeBitMask idx g.m_Signs = 255 then []
  else (tlt.indexTable (getCubeBitMask idx g.m_Signs)).flatMap
    (fun t => [cornerIndexOf tlt heap g idx t.p1, cornerIndexOf tlt heap g idx t.p2,
      cornerIndexOf tlt heap g idx t.p3])

/-- The table references, for every mask, only sub-cell edges whose two corner bits
differ in the mask: the direction is one of three, the lower corner has the bit of the
direction clear, and the mask differs at the lower and the upper corner. -/
def TLT.Consistent (tlt : TLT) : Prop :=
  ∀ mask t, t ∈ tlt.indexTable mask → ∀ p, p ∈ [t.p1, t.p2, t.p3] →
    (tlt.directedEdges p).direction < 3
    ∧ (tlt.directedEdges p).minCornerIndex < 8
    ∧ (tlt.directedEdges p).minCornerIndex / 2 ^ (2 - (tlt.directedEdges p).direction) % 2 = 0
    ∧ mask.testBit (tlt.directedEdges p).minCornerIndex
        ≠ mask.testBit ((tlt.directedEdges p).minCornerIndex
            + 2 ^ (2 - (tlt.directedEdges p).direction))

/-- A table with one entry: for the mask with only corner 0 inside, the triangle through
the three sub-cell edges that start at corner 0. -/
def exampleTable : TLT where
  indexTable := fun mask => if mask = 1 then [⟨0, 1, 2⟩] else []
  directedEdges := fun p => ⟨p, 0⟩

/-- A leaf whose only inside lattice point is the one with index 0, with the three edge
records that start there; their vertices are the objects 10, 11 and 12. -/
def exampleCornerLeaf : GridNode Nat :=
  ⟨⟨fun i => decide (i.val = 0)⟩, [⟨10, 0, 81, 0⟩, ⟨11, 0, 9, 1⟩, ⟨12, 0, 1, 2⟩]⟩

/-- A store in which every vertex is unmarked and shared, with vertex data `10 p`. -/
def exampleHeap : VertexHeap Nat := fun p => ⟨p * 10, 0, 1, false, true⟩


/-! ## Aligned CSG, clone and ray query -/

/-- Modelled from the spec: `EmptyNode::clone` of `OctreeSF.h` (not among the sources), a
new Empty node with the same sign. -/
def EmptyNode.clone {SV : Type} (m_Sign : Bool) : Node SV := Node.empty m_Sign

/-- Node value produced by `Node::clone()`: the `InnerNode` copy constructor clones the
eight children, `GridNode::clone` copies the signs and the edge records (the reference
counts it increments live in the vertex store). -/
def Node.clone {SV : Type} : Node SV → Node SV
  | Node.inner c => Node.inner (fun i => (c i).clone)
  | Node.empty s => EmptyNode.clone s
  | Node.grid g => Node.grid { m_Signs := g.m_Signs, m_SurfaceEdges := g.m_SurfaceEdges }

/-- Leaf union with an aligned leaf (`GridNode::merge(GridNode* otherNode)`): the body is
`// TODO` followed by a block comment, so no statement is executed. -/
def GridNode.mergeAligned {SV : Type} (g _otherNode : GridNode SV) : GridNode SV := g

/-- Leaf intersection with an aligned leaf (`GridNode::intersect(GridNode* otherNode)`):
the body is `// TODO` followed by a block comment, so no statement is executed. -/
def GridNode.intersectAligned {SV : Type} (g _otherNode : GridNode SV) : GridNode SV := g

/-- Union with an aligned subtree (`OctreeSF::mergeAlignedNode`).  The last branch casts
both nodes to `GridNodeImpl*`; when one of them is an inner node the cast is undefined
and the result is `none`. -/
def mergeAlignedNode {F SV : Type} [FloatOps F] : Node SV → Node SV → Area F → Option (Node SV)
  | Node.inner c, Node.inner c2, area =>
    if h : ∀ i, (mergeAlignedNode (c i) (c2 i) (area.getSubAreas i)).isSome = true then
      some (Node.inner (fun i =>
        (mergeAlignedNode (c i) (c2 i) (area.getSubAreas i)).get (h i)))
    else none
  | node, Node.empty otherSign, _ =>
    if !otherSign then some node else some (Node.empty otherSign : Node SV).clone
  | Node.empty s, otherNode, _ =>
    if s then some (Node.empty s) else some otherNode.clone
  | Node.grid g, Node.grid g2, _ => some (Node.grid (g.mergeAligned g2))
  | _, _, _ => none

/-- Intersection with an aligned subtree (`OctreeSF::intersectAlignedNode`), with the
same convention for the final cast. -/
def intersectAlignedNode {F SV : Type} [FloatOps F] :
    Node SV → Node SV → Area F → Option (Node SV)
  | Node.inner c, Node.inner c2, area =>
    if h : ∀ i, (intersectAlignedNode (c i) (c2 i) (area.getSubAreas i)).isSome = true then
      some (Node.inner (fun i =>
        (intersectAlignedNode (c i) (c2 i) (area.getSubAreas i)).get (h i)))
    else none
  | node, Node.empty otherSign, _ =>
    if otherSign then some node else some (Node.empty otherSign : Node SV).clone
  | Node.empty s, otherNode, _ =>
    if !s then some (Node.empty s) else some otherNode.clone
  | Node.grid g, Node.grid g2, _ => some (Node.grid (g.intersectAligned g2))
  | _, _, _ => none

/-- Subtraction of an aligned subtree (`OctreeSF::subtractAlignedNode`), with the same
convention for the final cast; in the leaf case the other leaf is inverted first. -/
def subtractAlignedNode {F SV : Type} [FloatOps F] :
    Node SV → Node SV → Area F → Option (Node SV)
  | Node.inner c, Node.inner c2, area =>
    if h : ∀ i, (subtractAlignedNode (c i) (c2 i) (area.getSubAreas i)).isSome = true then
      some (Node.inner (fun i =>
        (subtractAlignedNode (c i) (c2 i) (area.getSubAreas i)).get (h i)))
    else none
  | node, Node.empty otherSign, _ =>
    if !otherSign then some node else some (Node.empty otherSign : Node SV).clone.invert
  | Node.empty s, otherNode, _ =>
    if !s then some (Node.empty s) else some otherNode.clone.invert
  | Node.grid g, Node.grid g2, _ => some (Node.grid (g.intersectAligned g2.invert))
  | _, _, _ => none

/-- Tree union with an aligned tree (`OctreeSF::mergeAlignedOctree`): the new root node;
root area and cell size of the receiver are not assigned. -/
def Tree.mergeAlignedOctree {F SV : Type} [FloatOps F] (t otherOctree : Tree F SV) :
    Option (Tree F SV) :=
  (mergeAlignedNode t.m_RootNode otherOctree.m_RootNode t.m_RootArea).map
    (fun n => { t with m_RootNode := n })

/-- Tree intersection with an aligned tree (`OctreeSF::intersectAlignedOctree`). -/
def Tree.intersectAlignedOctree {F SV : Type} [FloatOps F] (t otherOctree : Tree F SV) :
    Option (Tree F SV) :=
  (intersectAlignedNode t.m_RootNode otherOctree.m_RootNode t.m_RootArea).map
    (fun n => { t with m_RootNode := n })

/-- Tree subtraction of an aligned tree (`OctreeSF::subtractAlignedOctree`). -/
def Tree.subtractAlignedOctree {F SV : Type} [FloatOps F] (t otherOctree : Tree F SV) :
    Option (Tree F SV) :=
  (subtractAlignedNode t.m_RootNode otherOctree.m_RootNode t.m_RootArea).map
    (fun n => { t with m_RootNode := n })

/-- What a ray traversal does besides computing its result: calling
`rayIntersectUpdate` on a child of an inner node, or extracting and testing the mesh of
a Grid leaf. -/
inductive Visit (F : Type) where
  | child (area : Area F)
  | leafMesh (area : Area F)

/-- Modelled from the spec: `EmptyNode::rayIntersectUpdate` of `OctreeSF.h` (not among the
sources): an Empty node returns no hit and changes nothing. -/
def EmptyNode.rayIntersectUpdate {F : Type} (st : F × List (Visit F)) :
    Bool × (F × List (Visit F)) :=
  (false, st)

/-- Ray traversal (`Node::rayIntersectUpdate(area, ray, intersection)`) on the state
`(intersection.t, log of visits)`.  `intersectAABB box t` stands for
`ray.intersectAABB(&box.min, 0, t)` of the absent `Ray.h`, and `leafHit g area t` for the
mesh extraction and BVH test of a Grid leaf, which yields the new `t` on a hit.
`InnerNode`: reject on a failed box test, otherwise call the eight children in order. -/
def Node.rayIntersectUpdate {F SV : Type} [FloatOps F] (intersectAABB : AABB F → F → Bool)
    (leafHit : GridNode SV → Area F → F → Option F) :
    Node SV → Area F → F × List (Visit F) → Bool × (F × List (Visit F))
  | Node.inner c, area, st =>
    if !intersectAABB area.toAABB st.1 then (false, st)
    else
      (List.finRange 8).foldl
        (fun (acc : Bool × (F × List (Visit F))) i =>
          let r := (c i).rayIntersectUpdate intersectAABB leafHit (area.getSubAreas i)
            (acc.2.1, acc.2.2 ++ [Visit.child (area.getSubAreas i)])
          (if r.1 then true else acc.1, r.2))
        (false, st)
  | Node.empty _, _, st => EmptyNode.rayIntersectUpdate st
  | Node.grid g, area, st =>
    if !intersectAABB area.toAABB st.1 then (false, st)
    else
      match leafHit g area st.1 with
      | some t => (true, (t, st.2 ++ [Visit.leafMesh area]))
      | none => (false, (st.1, st.2 ++ [Visit.leafMesh area]))

/-- Closest ray hit of the tree (`OctreeSF::rayIntersectClosest`): `intersection.t` starts
at `fltMax`, the value of `std::numeric_limits<float>::max()`. -/
def Tree.rayIntersectClosest {F SV : Type} [FloatOps F] (intersectAABB : AABB F → F → Bool)
    (leafHit : GridNode SV → Area F → F → Option F) (fltMax : F) (t : Tree F SV) :
    Bool × (F × List (Visit F)) :=
  t.m_RootNode.rayIntersectUpdate intersectAABB leafHit t.m_RootArea (fltMax, [])

/-- A leaf with no inside sign and no edge record. -/
def exampleBlankLeaf : GridNode Nat := ⟨SignArray.blank, []⟩

/-- An area of exponent 4 away from the origin, with cell size 2. -/
def exampleOtherArea : Area ℚ := ⟨⟨8, 0, 0⟩, 4, ⟨8, 0, 0⟩, 32⟩


/-! ## Sign consistency across leaves -/

/-- A Grid leaf of the subtree `n` over area `a` stores the sign `b` for the lattice point
`p`: the leaf covers an area whose lattice contains `p = m_MinPos + (x, y, z)` and its
entry `x·S² + y·S + z` is `b`. -/
def Node.gridStoresSign {F SV : Type} [FloatOps F] : Node SV → Area F → Vector3i → Bool → Prop
  | Node.inner c, a, p, b => ∃ i, (c i).gridStoresSign (a.getSubAreas i) p b
  | Node.empty _, _, _, _ => False
  | Node.grid g, a, p, b =>
    ∃ x y z : Nat, x < LEAF_SIZE_1D ∧ y < LEAF_SIZE_1D ∧ z < LEAF_SIZE_1D
      ∧ p = a.m_MinPos + ⟨x, y, z⟩
      ∧ b = g.m_Signs.get (x * LEAF_SIZE_2D + y * LEAF_SIZE_1D + z)

/-- One CSG rewrite of a tree by an implicit solid. -/
inductive CsgOp (F : Type) where
  | merge (otherSDF : SolidGeometry F)
  | intersect (otherSDF : SolidGeometry F)
  | subtract (otherSDF : SolidGeometry F)

/-- The tree after one CSG rewrite. -/
def Tree.applyOp {F SV : Type} [FloatOps F] (vs : VertexSource F SV) (t : Tree F SV) :
    CsgOp F → Tree F SV
  | CsgOp.merge s => t.merge vs s
  | CsgOp.intersect s => t.intersect vs s
  | CsgOp.subtract s => t.subtract vs s

/-- The solid whose `cubeNeedsSubdivision` and `getSign` steer the rewrite: the solid
itself for merge and intersect, `OpInvertSDF` of it for subtract. -/
def CsgOp.steeringSolid {F : Type} [FloatOps F] : CsgOp F → SolidGeometry F
  | CsgOp.merge s => s
  | CsgOp.intersect s => s
  | CsgOp.subtract s => OpInvertSDF s

/-- A solid that is outside everywhere and asks for the subdivision of every area. -/
def exampleDenseOutside : SolidGeometry ℚ where
  getSample := fun p => ⟨-1, p, ⟨1, 0, 0⟩⟩
  getSign := fun _ => false
  intersectsSurface := fun _ => true
  cubeNeedsSubdivision := fun _ => true

/-- A solid that is inside where `4 ≤ x` and asks for subdivision only of areas of exponent
at least 4 and of areas whose integer minimum corner is off the plane `x = 0`. -/
def exampleLateHalfSpace : SolidGeometry ℚ where
  getSample := fun p => ⟨if 4 ≤ p.x then 1 else -1, p, ⟨1, 0, 0⟩⟩
  getSign := fun p => decide (4 ≤ p.x)
  intersectsSurface := fun _ => true
  cubeNeedsSubdivision := fun a => decide (4 ≤ a.m_SizeExpo) || decide (a.m_MinPos.x ≠ 0)


/-- A leaf whose only inside lattice point is the interior point `(4, 4, 4)` (index 364),
with the six edge records around it; their vertices are the objects 20 to 25. -/
def exampleInteriorLeaf : GridNode Nat :=
  ⟨⟨fun i => decide (i.val = 364)⟩,
    [⟨20, 283, 364, 0⟩, ⟨21, 355, 364, 1⟩, ⟨22, 363, 364, 2⟩,
      ⟨23, 364, 445, 0⟩, ⟨24, 364, 373, 1⟩, ⟨25, 364, 365, 2⟩]⟩

/-- A store in which every vertex is unmarked and leaf-private (`shared = false`), with
vertex data `10 p` and `vertexIndex` 0. -/
def examplePrivateHeap : VertexHeap Nat := fun p => ⟨p * 10, 0, 1, false, false⟩


/-! ## Vertex store: allocation, registry and the effects of cloning and CSG

The functions above leave the creation of vertices to a `VertexSource`.  Here the source
is instantiated with descriptors of the `init` calls, and the calls are executed in
order against a store of `SharedSurfaceVertex` objects and a registry. -/

/-- Modelled from the spec: `Vertex`, the vertex data of a `SharedSurfaceVertex`
(position and normal); its declaration is not among the sources. -/
structure Vertex (F : Type) where
  position : Vector3 F
  normal : Vector3 F

/-- The store of `SharedSurfaceVertex` objects: the object behind each pointer, which
pointers are allocated, and the pointer the next `new` returns. -/
structure VertexStore (F : Type) where
  objects : VertexHeap (Vertex F)
  live : Nat → Bool
  next : Nat

/-- The expression `new SharedSurfaceVertex` followed by the initialisation of the object. -/
def VertexStore.alloc {F : Type} (s : VertexStore F) (v : SharedSurfaceVertex (Vertex F)) :
    Nat × VertexStore F :=
  (s.next,
    { objects := s.objects.set s.next v
      live := fun q => if q = s.next then true else s.live q
      next := s.next + 1 })

/-- Update of the object behind a pointer. -/
def VertexStore.modify {F : Type} (s : VertexStore F) (p : Nat)
    (f : SharedSurfaceVertex (Vertex F) → SharedSurfaceVertex (Vertex F)) : VertexStore F :=
  { s with objects := s.objects.set p (f (s.objects p)) }

/-- Modelled from the spec: the registry `Vector3iHashGrid<SharedSurfaceVertex*>
sharedVertices[3]` (its header is not among the sources), a map from direction and
global lattice position to a vertex pointer. -/
def Registry : Type := Nat → Vector3i → Option Nat

/-- The registry a CSG operation or a sampling starts with. -/
def Registry.empty : Registry := fun _ _ => none

/-- Insertion of a pointer for a direction and a position. -/
def Registry.insert (r : Registry) (dir : Nat) (pos : Vector3i) (p : Nat) : Registry :=
  fun d q => if d = dir ∧ q = pos then some p else r d q

/-- Modelled from the spec: vertex creation of the five-argument `SurfaceEdge::init` of
`OctreeSF.h` (not among the sources): a new leaf-private vertex with `shared = false`
and reference count 1. -/
def initPrivateVertex {F : Type} (v : Vertex F) (s : VertexStore F) : Nat × VertexStore F :=
  s.alloc { vertex := v, vertexIndex := 0, refCount := 1, marked := false, shared := false }

/-- Modelled from the spec: vertex lookup of the seven-argument `SurfaceEdge::init` of
`OctreeSF.h` (not among the sources): the registry is consulted with the direction and
the global position; on a hit the vertex is reused and its reference count incremented,
on a miss a vertex with `shared = true` and reference count 1 is created and recorded. -/
def initSharedVertex {F : Type} (dir : Nat) (pos : Vector3i) (v : Vertex F)
    (st : VertexStore F × Registry) : Nat × (VertexStore F × Registry) :=
  match st.2 dir pos with
  | some p => (p, (st.1.modify p (fun o => { o with refCount := o.refCount + 1 }), st.2))
  | none =>
    let r := st.1.alloc
      { vertex := v, vertexIndex := 0, refCount := 1, marked := false, shared := true }
    (r.1, (r.2, st.2.insert dir pos r.1))

/-- Modelled from the spec: `SurfaceEdge::deleteSharedVertex` of `OctreeSF.h` (not among
the sources): the reference count is decremented and the vertex is deleted when it
reaches zero. -/
def deleteSharedVertex {F : Type} (p : Nat) (s : VertexStore F) : VertexStore F :=
  { objects := s.objects.set p { s.objects p with refCount := (s.objects p).refCount - 1 }
    live := fun q => if q = p ∧ (s.objects p).refCount - 1 = 0 then false else s.live q
    next := s.next }

/-- What the `sharedVertex` field of a record stands for before the `init` calls are
executed: an existing pointer, or the call that creates a leaf-private vertex, or the
call that looks the vertex up in the registry. -/
inductive VertexRef (F : Type) where
  | existing (p : Nat)
  | newPrivate (vertex : Vertex F)
  | newShared (dir : Nat) (pos : Vector3i) (vertex : Vertex F)

/-- The vertex source that records the `init` calls.  `newVertex currentPos dir stepSize
sdf` stands for the vertex data the absent `init` computes for the edge. -/
def initCalls {F : Type} (newVertex : Vector3 F → Nat → F → SolidGeometry F → Vertex F) :
    VertexSource F (VertexRef F) where
  privateVertex := fun _ dir currentPos stepSize sdf =>
    VertexRef.newPrivate (newVertex currentPos dir stepSize sdf)
  sharedVertex := fun minPos iPos dir currentPos stepSize sdf =>
    VertexRef.newShared dir (minPos + iPos) (newVertex currentPos dir stepSize sdf)

/-- Execution of the `init` call of one record. -/
def runInit {F : Type} (e : SurfaceEdge (VertexRef F)) (st : VertexStore F × Registry) :
    SurfaceEdge Nat × (VertexStore F × Registry) :=
  match e.sharedVertex with
  | VertexRef.existing p =>
    ({ sharedVertex := p, edgeIndex1 := e.edgeIndex1, edgeIndex2 := e.edgeIndex2,
       direction := e.direction }, st)
  | VertexRef.newPrivate v =>
    ({ sharedVertex := (initPrivateVertex v st.1).1, edgeIndex1 := e.edgeIndex1,
       edgeIndex2 := e.edgeIndex2, direction := e.direction },
      ((initPrivateVertex v st.1).2, st.2))
  | VertexRef.newShared d pos v =>
    ({ sharedVertex := (initSharedVertex d pos v st).1, edgeIndex1 := e.edgeIndex1,
       edgeIndex2 := e.edgeIndex2, direction := e.direction },
      (initSharedVertex d pos v st).2)

/-- Execution of the `init` calls of a list of records, in list order, which is the
order in which `computeEdges` pushes the records. -/
def runInits {F : Type} (edges : List (SurfaceEdge (VertexRef F)))
    (st : VertexStore F × Registry) : List (SurfaceEdge Nat) × (VertexStore F × Registry) :=
  edges.foldl (fun acc e => (acc.1 ++ [(runInit e acc.2).1], (runInit e acc.2).2)) ([], st)

/-- The records of a leaf with their pointers marked as existing. -/
def withExisting {F : Type} (edges : List (SurfaceEdge Nat)) : List (SurfaceEdge (VertexRef F)) :=
  edges.map (fun e =>
    { sharedVertex := VertexRef.existing e.sharedVertex, edgeIndex1 := e.edgeIndex1,
      edgeIndex2 := e.edgeIndex2, direction := e.direction })

/-- The constructor of a Grid leaf with its effect on store and registry. -/
def GridNode.createS {F : Type} [FloatOps F]
    (newVertex : Vector3 F → Nat → F → SolidGeometry F → Vertex F) (m_RootArea : Area F)
    (m_CellSize : F) (area : Area F) (implicitSDF : SolidGeometry F)
    (st : VertexStore F × Registry) : GridNode Nat × (VertexStore F × Registry) :=
  let g := GridNode.create (initCalls newVertex) m_RootArea m_CellSize area implicitSDF
  ({ m_Signs := g.m_Signs, m_SurfaceEdges := (runInits g.m_SurfaceEdges st).1 },
    (runInits g.m_SurfaceEdges st).2)

/-- Component `v[j]` of a vector. -/
def Vector3.component {F : Type} (v : Vector3 F) (j : Nat) : F :=
  if j = 0 then v.x else if j = 1 then v.y else v.z

/-- The vector after `v[j] = a`. -/
def Vector3.setComponent {F : Type} (v : Vector3 F) (j : Nat) (a : F) : Vector3 F :=
  if j = 0 then { v with x := a } else if j = 1 then { v with y := a } else { v with z := a }

/-- The comparison `a > b` in terms of `≤`. -/
def FloatOps.gt {F : Type} [FloatOps F] (a b : F) : Bool := FloatOps.le b a && !FloatOps.le a b

/-- The loop `for (int j = 0; j < 3; j++)` of `GridNode::merge` (`farther = true`, test
`newDiff[j]² > oldDiff[j]²`) and of `GridNode::intersect` (`farther = false`, test `<`),
followed by `normal.normalise()`; `normalise` stands for the absent Ogre function. -/
def refineVertex {F : Type} [FloatOps F] (farther : Bool) (normalise : Vector3 F → Vector3 F)
    (s : Sample F) (insidePos : Vector3 F) (v : Vertex F) : Vertex F :=
  let newDiff := s.closestSurfacePos.sub insidePos
  let oldDiff := v.position.sub insidePos
  let r := forLoop 3 (fun j (w : Vertex F) =>
    let n2 := FloatOps.mul (newDiff.component j) (newDiff.component j)
    let o2 := FloatOps.mul (oldDiff.component j) (oldDiff.component j)
    if (if farther then FloatOps.gt n2 o2 else FloatOps.gt o2 n2) then
      { position := w.position.setComponent j (s.closestSurfacePos.component j)
        normal := w.normal.setComponent j (s.normal.component j) }
    else w) v
  { r with normal := normalise r.normal }

/-- Effect on the store of one iteration of the loop over `thisEdgesCopy` in
`GridNode::merge` and `GridNode::intersect`: the vertex of an edge that still crosses is
refined in place when the other solid crosses the edge too; the vertex of an edge that
no longer crosses is released. -/
def keepOrRelease {F : Type} [FloatOps F] (farther : Bool) (normalise : Vector3 F → Vector3 F)
    (m_RootArea : Area F) (m_CellSize : F) (area : Area F) (implicitSDF : SolidGeometry F)
    (m_Signs otherSigns : SignArray) (i : SurfaceEdge Nat) (s : VertexStore F) :
    VertexStore F :=
  if m_Signs.get i.edgeIndex1 != m_Signs.get i.edgeIndex2 then
    if otherSigns.get i.edgeIndex1 != otherSigns.get i.edgeIndex2 then
      let minPos := fromIndex i.edgeIndex1
      let globalPos := getRealPos m_RootArea m_CellSize (area.m_MinPos + minPos)
      let insidePos :=
        if otherSigns.get i.edgeIndex2 then
          getRealPos m_RootArea m_CellSize (area.m_MinPos + fromIndex i.edgeIndex2)
        else globalPos
      let globalPos := globalPos.setComponent i.direction
        (FloatOps.add (globalPos.component i.direction) (FloatOps.mul m_CellSize FloatOps.half))
      let sample := implicitSDF.getSample globalPos
      s.modify i.sharedVertex
        (fun o => { o with vertex := refineVertex farther normalise sample insidePos o.vertex })
    else s
  else deleteSharedVertex i.sharedVertex s

/-- Union of a leaf with an implicit solid, with its effect on store and registry: the
signs and the records are those of `GridNode.merge`; the loop over the old records acts
on the store, then the `init` calls of the new records are executed. -/
def GridNode.mergeS {F : Type} [FloatOps F]
    (newVertex : Vector3 F → Nat → F → SolidGeometry F → Vertex F)
    (normalise : Vector3 F → Vector3 F) (m_RootArea : Area F) (m_CellSize : F) (area : Area F)
    (implicitSDF : SolidGeometry F) (g : GridNode Nat) (st : VertexStore F × Registry) :
    GridNode Nat × (VertexStore F × Registry) :=
  let g2 := GridNode.merge (initCalls newVertex) m_RootArea m_CellSize area implicitSDF
    { m_Signs := g.m_Signs, m_SurfaceEdges := withExisting g.m_SurfaceEdges }
  let otherSigns := computeSigns m_RootArea m_CellSize area implicitSDF SignArray.blank
  let store := g.m_SurfaceEdges.foldl
    (fun s i => keepOrRelease true normalise m_RootArea m_CellSize area implicitSDF g2.m_Signs
      otherSigns i s) st.1
  ({ m_Signs := g2.m_Signs, m_SurfaceEdges := (runInits g2.m_SurfaceEdges (store, st.2)).1 },
    (runInits g2.m_SurfaceEdges (store, st.2)).2)

/-- Intersection of a leaf with an implicit solid, with its effect on store and
registry. -/
def GridNode.intersectS {F : Type} [FloatOps F]
    (newVertex : Vector3 F → Nat → F → SolidGeometry F → Vertex F)
    (normalise : Vector3 F → Vector3 F) (m_RootArea : Area F) (m_CellSize : F) (area : Area F)
    (implicitSDF : SolidGeometry F) (g : GridNode Nat) (st : VertexStore F × Registry) :
    GridNode Nat × (VertexStore F × Registry) :=
  let g2 := GridNode.intersect (initCalls newVertex) m_RootArea m_CellSize area implicitSDF
    { m_Signs := g.m_Signs, m_SurfaceEdges := withExisting g.m_SurfaceEdges }
  let otherSigns := computeSigns m_RootArea m_CellSize area implicitSDF SignArray.blank
  let store := g.m_SurfaceEdges.foldl
    (fun s i => keepOrRelease false normalise m_RootArea m_CellSize area implicitSDF g2.m_Signs
      otherSigns i s) st.1
  ({ m_Signs := g2.m_Signs, m_SurfaceEdges := (runInits g2.m_SurfaceEdges (store, st.2)).1 },
    (runInits g2.m_SurfaceEdges (store, st.2)).2)

/-- The loop `for (int i = 0; i < 8; i++)` over the children of an inner node, each
iteration producing a child and passing the state on. -/
def threadChildren {σ β : Type} (f : Fin 8 → σ → β × σ) (st : σ) : (Fin 8 → β) × σ :=
  let r0 := f 0 st
  let r1 := f 1 r0.2
  let r2 := f 2 r1.2
  let r3 := f 3 r2.2
  let r4 := f 4 r3.2
  let r5 := f 5 r4.2
  let r6 := f 6 r5.2
  let r7 := f 7 r6.2
  (fun i =>
    if i.val = 0 then r0.1 else if i.val = 1 then r1.1 else if i.val = 2 then r2.1
    else if i.val = 3 then r3.1 else if i.val = 4 then r4.1 else if i.val = 5 then r5.1
    else if i.val = 6 then r6.1 else r7.1,
   r7.2)

/-- Tree builder (`OctreeSF::createNode`) with its effect on store and registry. -/
def createNodeS {F : Type} [FloatOps F]
    (newVertex : Vector3 F → Nat → F → SolidGeometry F → Vertex F) (m_RootArea : Area F)
    (m_CellSize : F) (implicitSDF : SolidGeometry F) (area : Area F)
    (st : VertexStore F × Registry) : Node Nat × (VertexStore F × Registry) :=
  if h : area.m_SizeExpo ≤ LEAF_EXPO ∧ implicitSDF.cubeNeedsSubdivision area = true then
    (Node.grid (GridNode.createS newVertex m_RootArea m_CellSize area implicitSDF st).1,
      (GridNode.createS newVertex m_RootArea m_CellSize area implicitSDF st).2)
  else if h2 : implicitSDF.cubeNeedsSubdivision area = true then
    (Node.inner (threadChildren (fun i st2 =>
        createNodeS newVertex m_RootArea m_CellSize implicitSDF (area.getSubAreas i) st2) st).1,
      (threadChildren (fun i st2 =>
        createNodeS newVertex m_RootArea m_CellSize implicitSDF (area.getSubAreas i) st2) st).2)
  else
    (EmptyNode.create area implicitSDF, st)
termination_by (area.m_SizeExpo - LEAF_EXPO).toNat
decreasing_by
  all_goals
    have h3 : ¬ area.m_SizeExpo ≤ LEAF_EXPO := fun h4 => h ⟨h4, h2⟩
    simp only [Area.getSubAreas]
    omega

/-- Destructor of a subtree (`~InnerNode` deletes the eight children in order, `~GridNode`
releases the vertex of every record). -/
def Node.deleteS {F : Type} : Node Nat → VertexStore F → VertexStore F
  | Node.inner c, s =>
    (threadChildren (fun i s2 => ((), (c i).deleteS s2)) s).2
  | Node.empty _, s => s
  | Node.grid g, s => g.m_SurfaceEdges.foldl (fun s2 i => deleteSharedVertex i.sharedVertex s2) s

/-- Copy of a subtree (`Node::clone()`) with its effect on the store: `GridNode::clone`
copies signs and records and increments the reference count of the vertex of every
record. -/
def Node.cloneS {F : Type} : Node Nat → VertexStore F → Node Nat × VertexStore F
  | Node.inner c, s =>
    (Node.inner (threadChildren (fun i s2 => (c i).cloneS s2) s).1,
      (threadChildren (fun i s2 => (c i).cloneS s2) s).2)
  | Node.empty b, s => (EmptyNode.clone b, s)
  | Node.grid g, s =>
    (Node.grid { m_Signs := g.m_Signs, m_SurfaceEdges := g.m_SurfaceEdges },
      g.m_SurfaceEdges.foldl
        (fun s2 i => s2.modify i.sharedVertex (fun o => { o with refCount := o.refCount + 1 })) s)

/-- Union of a subtree with an implicit solid (`OctreeSF::merge(node, implicitSDF, area,
sharedVertices)`) with its effect on store and registry. -/
def mergeS {F : Type} [FloatOps F]
    (newVertex : Vector3 F → Nat → F → SolidGeometry F → Vertex F)
    (normalise : Vector3 F → Vector3 F) (m_RootArea : Area F) (m_CellSize : F)
    (implicitSDF : SolidGeometry F) :
    Node Nat → Area F → VertexStore F × Registry → Node Nat × (VertexStore F × Registry)
  | Node.inner c, area, st =>
    if implicitSDF.cubeNeedsSubdivision area then
      (Node.inner (threadChildren (fun i st2 =>
          mergeS newVertex normalise m_RootArea m_CellSize implicitSDF (c i)
            (area.getSubAreas i) st2) st).1,
        (threadChildren (fun i st2 =>
          mergeS newVertex normalise m_RootArea m_CellSize implicitSDF (c i)
            (area.getSubAreas i) st2) st).2)
    else if !implicitSDF.getSign (area.getCornerVecs 0).2 then (Node.inner c, st)
    else createNodeS newVertex m_RootArea m_CellSize implicitSDF area
      ((Node.inner c).deleteS st.1, st.2)
  | Node.empty s, area, st =>
    if !implicitSDF.cubeNeedsSubdivision area then
      if !implicitSDF.getSign (area.getCornerVecs 0).2 then (Node.empty s, st)
      else createNodeS newVertex m_RootArea m_CellSize implicitSDF area st
    else if s then (Node.empty s, st)
    else createNodeS newVertex m_RootArea m_CellSize implicitSDF area st
  | Node.grid g, area, st =>
    if !implicitSDF.cubeNeedsSubdivision area then
      if !implicitSDF.getSign (area.getCornerVecs 0).2 then (Node.grid g, st)
      else createNodeS newVertex m_RootArea m_CellSize implicitSDF area
        ((Node.grid g).deleteS st.1, st.2)
    else
      (Node.grid (g.mergeS newVertex normalise m_RootArea m_CellSize area implicitSDF st).1,
        (g.mergeS newVertex normalise m_RootArea m_CellSize area implicitSDF st).2)

/-- Intersection of a subtree with an implicit solid (`OctreeSF::intersect(node,
implicitSDF, area, sharedVertices)`) with its effect on store and registry. -/
def intersectS {F : Type} [FloatOps F]
    (newVertex : Vector3 F → Nat → F → SolidGeometry F → Vertex F)
    (normalise : Vector3 F → Vector3 F) (m_RootArea : Area F) (m_CellSize : F)
    (implicitSDF : SolidGeometry F) :
    Node Nat → Area F → VertexStore F × Registry → Node Nat × (VertexStore F × Registry)
  | Node.inner c, area, st =>
    if implicitSDF.cubeNeedsSubdivision area then
      (Node.inner (threadChildren (fun i st2 =>
          intersectS newVertex normalise m_RootArea m_CellSize implicitSDF (c i)
            (area.getSubAreas i) st2) st).1,
        (threadChildren (fun i st2 =>
          intersectS newVertex normalise m_RootArea m_CellSize implicitSDF (c i)
            (area.getSubAreas i) st2) st).2)
    else if implicitSDF.getSign (area.getCornerVecs 0).2 then (Node.inner c, st)
    else (EmptyNode.create area implicitSDF, ((Node.inner c).deleteS st.1, st.2))
  | Node.empty s, area, st =>
    if !implicitSDF.cubeNeedsSubdivision area then
      if implicitSDF.getSign (area.getCornerVecs 0).2 then (Node.empty s, st)
      else (EmptyNode.create area implicitSDF, st)
    else if !s then (Node.empty s, st)
    else createNodeS newVertex m_RootArea m_CellSize implicitSDF area st
  | Node.grid g, area, st =>
    if !implicitSDF.cubeNeedsSubdivision area then
      if implicitSDF.getSign (area.getCornerVecs 0).2 then (Node.grid g, st)
      else (EmptyNode.create area implicitSDF, ((Node.grid g).deleteS st.1, st.2))
    else
      (Node.grid (g.intersectS newVertex normalise m_RootArea m_CellSize area implicitSDF st).1,
        (g.intersectS newVertex normalise m_RootArea m_CellSize area implicitSDF st).2)

/-- Sampling entry point with its effect on the store; the registry lives for the call. -/
def sampleSDFS {F : Type} [FloatOps F]
    (newVertex : Vector3 F → Nat → F → SolidGeometry F → Vertex F) (otherSDF : SolidGeometry F)
    (aabb : AABB F) (maxDepth : Int) (store : VertexStore F) : Tree F Nat × VertexStore F :=
  let aabbSize := aabb.max.sub aabb.min
  let cubeSize := FloatOps.max (FloatOps.max aabbSize.x aabbSize.y) aabbSize.z
  let m_CellSize := FloatOps.div cubeSize (FloatOps.ofInt (shl1 maxDepth))
  let m_RootArea : Area F := ⟨⟨0, 0, 0⟩, maxDepth, aabb.min, cubeSize⟩
  let r := createNodeS newVertex m_RootArea m_CellSize otherSDF m_RootArea
    (store, Registry.empty)
  ({ m_RootNode := r.1, m_RootArea := m_RootArea, m_CellSize := m_CellSize }, r.2.1)

/-- Tree union (`OctreeSF::merge(otherSDF)`) with its effect on the store; the registry
`sharedVertices[3]` is a local of the call. -/
def Tree.mergeS {F : Type} [FloatOps F]
    (newVertex : Vector3 F → Nat → F → SolidGeometry F → Vertex F)
    (normalise : Vector3 F → Vector3 F) (t : Tree F Nat) (otherSDF : SolidGeometry F)
    (store : VertexStore F) : Tree F Nat × VertexStore F :=
  let r := OctreeSF.mergeS newVertex normalise t.m_RootArea t.m_CellSize otherSDF t.m_RootNode
    t.m_RootArea (store, Registry.empty)
  ({ t with m_RootNode := r.1 }, r.2.1)

/-- Tree intersection (`OctreeSF::intersect(otherSDF)`) with its effect on the store. -/
def Tree.intersectS {F : Type} [FloatOps F]
    (newVertex : Vector3 F → Nat → F → SolidGeometry F → Vertex F)
    (normalise : Vector3 F → Vector3 F) (t : Tree F Nat) (otherSDF : SolidGeometry F)
    (store : VertexStore F) : Tree F Nat × VertexStore F :=
  let r := OctreeSF.intersectS newVertex normalise t.m_RootArea t.m_CellSize otherSDF
    t.m_RootNode t.m_RootArea (store, Registry.empty)
  ({ t with m_RootNode := r.1 }, r.2.1)

/-- Tree subtraction (`OctreeSF::subtract(otherSDF)`) with its effect on the store. -/
def Tree.subtractS {F : Type} [FloatOps F]
    (newVertex : Vector3 F → Nat → F → SolidGeometry F → Vertex F)
    (normalise : Vector3 F → Vector3 F) (t : Tree F Nat) (otherSDF : SolidGeometry F)
    (store : VertexStore F) : Tree F Nat × VertexStore F :=
  let r := OctreeSF.intersectS newVertex normalise t.m_RootArea t.m_CellSize
    (OpInvertSDF otherSDF) t.m_RootNode t.m_RootArea (store, Registry.empty)
  ({ t with m_RootNode := r.1 }, r.2.1)

/-- Copy of a tree (`OctreeSF::clone`, the copy constructor) with its effect on the
store. -/
def Tree.cloneS {F : Type} (t : Tree F Nat) (store : VertexStore F) :
    Tree F Nat × VertexStore F :=
  ({ m_RootNode := (t.m_RootNode.cloneS store).1, m_RootArea := t.m_RootArea,
     m_CellSize := t.m_CellSize }, (t.m_RootNode.cloneS store).2)

/-- The store after the reference count of every pointer `p` has grown by `k p`. -/
def VertexStore.addRefs {F : Type} (s : VertexStore F) (k : Nat → Nat) : VertexStore F :=
  { s with
    objects := fun p => { s.objects p with refCount := (s.objects p).refCount + k p } }

/-- Number of edge records of the subtree that reference the vertex `p`. -/
def Node.references (p : Nat) : Node Nat → Nat
  | Node.inner c => ∑ i : Fin 8, (c i).references p
  | Node.empty _ => 0
  | Node.grid g => g.m_SurfaceEdges.countP (fun e => decide (e.sharedVertex = p))

/-- A solid that is inside where `2x ≤ 1`, asks for the subdivision of every area and
reports the sampled point itself as closest surface point. -/
def exampleThinSlab : SolidGeometry ℚ where
  getSample := fun p => ⟨0, p, ⟨1, 0, 0⟩⟩
  getSign := fun p => decide (p.x * 2 ≤ 1)
  intersectsSurface := fun _ => true
  cubeNeedsSubdivision := fun _ => true

/-- A store with every vertex at position `(1/4, 0, 0)`, the pointers 10, 11 and 12
allocated with reference count 1, and 100 as next pointer. -/
def exampleStore : VertexStore ℚ where
  objects := fun _ => ⟨⟨⟨1 / 4, 0, 0⟩, ⟨1, 0, 0⟩⟩, 0, 1, false, true⟩
  live := fun p => decide (p = 10 ∨ p = 11 ∨ p = 12)
  next := 100

/-- The tree whose root is the leaf `exampleCornerLeaf` over `[0, 8]³` with cell size 1. -/
def exampleLeafTree : Tree ℚ Nat := ⟨Node.grid exampleCornerLeaf, exampleArea, 1⟩


/-! ## Reference counting invariant -/

/-- Number of records of a list that reference the vertex `p`. -/
def refsOf (edges : List (SurfaceEdge Nat)) (p : Nat) : Nat :=
  edges.countP (fun e => decide (e.sharedVertex = p))

/-- Number of descriptors of a list that stand for the existing pointer `p`. -/
def existingRefs {F : Type} (edges : List (SurfaceEdge (VertexRef F))) (p : Nat) : Nat :=
  edges.countP (fun e =>
    match e.sharedVertex with
    | VertexRef.existing q => decide (q = p)
    | _ => false)

/-- The store accounts for the reference numbers `ρ`: an allocated vertex has reference
count `ρ p`, which is at least 1; a pointer that is not allocated is referenced nowhere;
allocated pointers lie below the next pointer. -/
structure Accounts {F : Type} (s : VertexStore F) (ρ : Nat → Nat) : Prop where
  count : ∀ p, s.live p = true → (s.objects p).refCount = ρ p ∧ 1 ≤ ρ p
  dead : ∀ p, s.live p = false → ρ p = 0
  bound : ∀ p, s.live p = true → p < s.next

/-- The registry of the running operation holds allocated pointers created since the
operation started (not below `n0`). -/
def Registry.Valid {F : Type} (r : Registry) (s : VertexStore F) (n0 : Nat) : Prop :=
  ∀ d pos q, r d pos = some q → s.live q = true ∧ n0 ≤ q

/-- Every vertex the subtree references lies below `n0`. -/
def Node.Below (n : Node Nat) (n0 : Nat) : Prop := ∀ p, 1 ≤ n.references p → p < n0

/-- The state of a running operation is in order for the reference numbers `ρ`: the store
accounts for `ρ`, the registry is valid, and `n0` is not above the next pointer. -/
def Tracked {F : Type} (n0 : Nat) (st : VertexStore F × Registry) (ρ : Nat → Nat) : Prop :=
  Accounts st.1 ρ ∧ st.2.Valid st.1 n0 ∧ n0 ≤ st.1.next

/-- The operations that create or change trees: `OctreeSF::sampleSDF`, `OctreeSF::clone`
of tree `i`, and `merge`, `intersect`, `subtract` of tree `i` with an implicit solid. -/
inductive Command (F : Type) where
  | sample (sdf : SolidGeometry F) (aabb : AABB F) (maxDepth : Int)
  | clone (i : Nat)
  | merge (i : Nat) (sdf : SolidGeometry F)
  | intersect (i : Nat) (sdf : SolidGeometry F)
  | subtract (i : Nat) (sdf : SolidGeometry F)

/-- The trees that are alive and the store of vertex objects they refer to. -/
structure World (F : Type) where
  trees : List (Tree F Nat)
  store : VertexStore F

/-- Number of edge records in all Grid leaves of all trees that reference the vertex `p`. -/
def World.references {F : Type} (w : World F) (p : Nat) : Nat :=
  (w.trees.map (fun t => t.m_RootNode.references p)).sum

/-- Execution of one operation; an operation on a tree that does not exist does nothing.
`sampleSDF` and `clone` return a new tree, the CSG operations change tree `i` in place. -/
def World.step {F : Type} [FloatOps F]
    (newVertex : Vector3 F → Nat → F → SolidGeometry F → Vertex F)
    (normalise : Vector3 F → Vector3 F) (w : World F) : Command F → World F
  | Command.sample sdf aabb maxDepth =>
    { trees := w.trees ++ [(sampleSDFS newVertex sdf aabb maxDepth w.store).1]
      store := (sampleSDFS newVertex sdf aabb maxDepth w.store).2 }
  | Command.clone i =>
    match w.trees.get? i with
    | some t => { trees := w.trees ++ [(t.cloneS w.store).1], store := (t.cloneS w.store).2 }
    | none => w
  | Command.merge i sdf =>
    match w.trees.get? i with
    | some t =>
      { trees := w.trees.set i (t.mergeS newVertex normalise sdf w.store).1
        store := (t.mergeS newVertex normalise sdf w.store).2 }
    | none => w
  | Command.intersect i sdf =>
    match w.trees.get? i with
    | some t =>
      { trees := w.trees.set i (t.intersectS newVertex normalise sdf w.store).1
        store := (t.intersectS newVertex normalise sdf w.store).2 }
    | none => w
  | Command.subtract i sdf =>
    match w.trees.get? i with
    | some t =>
      { trees := w.trees.set i (t.subtractS newVertex normalise sdf w.store).1
        store := (t.subtractS newVertex normalise sdf w.store).2 }
    | none => w

/-- Execution of a sequence of operations, in order. -/
def World.run {F : Type} [FloatOps F]
    (newVertex : Vector3 F → Nat → F → SolidGeometry F → Vertex F)
    (normalise : Vector3 F → Vector3 F) (w : World F) (cmds : List (Command F)) : World F :=
  cmds.foldl (World.step newVertex normalise) w

/-- The world with the tree `exampleLeafTree` and the store `exampleStore`. -/
def exampleWorld : World ℚ := ⟨[exampleLeafTree], exampleStore⟩


/-! ## Registry invariants -/

/-- The registry only holds pointers below the next pointer whose objects have the
`shared` flag set. -/
def Registry.Sound {F : Type} (r : Registry) (s : VertexStore F) : Prop :=
  ∀ d pos q, r d pos = some q → q < s.next ∧ (s.objects q).shared = true

/-- Every entry of `r` is an entry of `r2`. -/
def Registry.Le (r r2 : Registry) : Prop := ∀ d pos q, r d pos = some q → r2 d pos = some q

/-- A record of a leaf with integer minimum corner `minPos` whose edge fails the interior
test of `computeEdges` refers to the vertex that the registry holds for its direction
and its global lower endpoint. -/
def Registered (r : Registry) (minPos : Vector3i) (e : SurfaceEdge Nat) : Prop :=
  interiorTest e.edgeIndex1 e.direction = false →
    r e.direction (minPos + fromIndex e.edgeIndex1) = some e.sharedVertex

/-- The `init` call of a record whose edge fails the interior test is the registry lookup
for its direction and its global lower endpoint. -/
def SharedCall {F : Type} (minPos : Vector3i) (e : SurfaceEdge (VertexRef F)) : Prop :=
  interiorTest e.edgeIndex1 e.direction = false →
    ∃ v, e.sharedVertex = VertexRef.newShared e.direction (minPos + fromIndex e.edgeIndex1) v

/-- Every record of every Grid leaf of the subtree over the area is `Registered`. -/
def Node.LeavesRegistered {F : Type} [FloatOps F] (r : Registry) : Node Nat → Area F → Prop
  | Node.inner c, a => ∀ i, (c i).LeavesRegistered r (a.getSubAreas i)
  | Node.empty _, _ => True
  | Node.grid g, a => ∀ e, e ∈ g.m_SurfaceEdges → Registered r a.m_MinPos e

/-- The Grid leaf `g` covering the area `la` occurs in the subtree over the area. -/
def Node.HasGridLeaf {F : Type} [FloatOps F] (g : GridNode Nat) (la : Area F) :
    Node Nat → Area F → Prop
  | Node.inner c, a => ∃ i, (c i).HasGridLeaf g la (a.getSubAreas i)
  | Node.empty _, _ => False
  | Node.grid g2, a => g2 = g ∧ a = la

/-- Every pointer the registry holds is at least `n0`. -/
def Registry.Above (r : Registry) (n0 : Nat) : Prop := ∀ d pos q, r d pos = some q → n0 ≤ q

/-- The record stands for an `init` call, not for an existing pointer. -/
def VertexRef.IsCall {F : Type} : VertexRef F → Prop
  | VertexRef.existing _ => False
  | _ => True

/-- A solid that is inside in the band `1/2 ≤ y ≤ 1`; it asks for the subdivision of the
areas of exponent at least 4 and of the areas whose integer minimum corner lies on the
plane `x = 8`. -/
def exampleBandRight : SolidGeometry ℚ where
  getSample := fun p => ⟨0, p, ⟨0, 1, 0⟩⟩
  getSign := fun p => decide (1 / 2 ≤ p.y ∧ p.y ≤ 1)
  intersectsSurface := fun _ => true
  cubeNeedsSubdivision := fun a => decide (4 ≤ a.m_SizeExpo) || decide (a.m_MinPos.x = 8)

/-- The same band with the subdivision of the areas of exponent at least 4 and of the
areas whose integer minimum corner lies on the plane `x = 0`. -/
def exampleBandLeft : SolidGeometry ℚ where
  getSample := fun p => ⟨0, p, ⟨0, 1, 0⟩⟩
  getSign := fun p => decide (1 / 2 ≤ p.y ∧ p.y ≤ 1)
  intersectsSurface := fun _ => true
  cubeNeedsSubdivision := fun a => decide (4 ≤ a.m_SizeExpo) || decide (a.m_MinPos.x = 0)

/-- Vertex data for the examples: the position of the lower endpoint and the normal
`(0, 1, 0)`. -/
def exampleNewVertex : Vector3 ℚ → Nat → ℚ → SolidGeometry ℚ → Vertex ℚ :=
  fun pos _ _ _ => ⟨pos, ⟨0, 1, 0⟩⟩

/-- The store without any vertex. -/
def exampleEmptyStore : VertexStore ℚ where
  objects := fun _ => ⟨⟨⟨0, 0, 0⟩, ⟨0, 0, 0⟩⟩, 0, 0, false, false⟩
  live := fun _ => false
  next := 0

/-- The root area of a tree sampled over `exampleBox` at depth 4. -/
def exampleRootArea : Area ℚ := ⟨⟨0, 0, 0⟩, 4, ⟨0, 0, 0⟩, 8⟩

/-- The tree sampled from `exampleBandRight` over `exampleBox` at depth 4, starting
without vertices, and the store after the sampling. -/
def exampleSampled : Tree ℚ Nat × VertexStore ℚ :=
  sampleSDFS exampleNewVertex exampleBandRight exampleBox 4 exampleEmptyStore

/-- The tree `exampleSampled` after the union with `exampleBandLeft`, and the store after
the union. -/
def exampleMerged : Tree ℚ Nat × VertexStore ℚ :=
  exampleSampled.1.mergeS exampleNewVertex (fun v => v) exampleBandLeft exampleSampled.2


/-- The endpoint whose position the loop over `thisEdgesCopy` of `GridNode::merge` and
`GridNode::intersect` takes as `insidePos`: the upper endpoint when
`otherNode.m_Signs[i->edgeIndex2]` holds, the lower endpoint otherwise. -/
def insideEndpoint {SV : Type} (otherSigns : SignArray) (i : SurfaceEdge SV) : Nat :=
  if otherSigns.get i.edgeIndex2 then i.edgeIndex2 else i.edgeIndex1

/-- The value of `globalPos` after `globalPos[i->direction] += cellSize * 0.5f`: the point
at which the loop over `thisEdgesCopy` samples the other solid. -/
def sampledPoint {F SV : Type} [FloatOps F] (m_RootArea : Area F) (m_CellSize : F)
    (area : Area F) (i : SurfaceEdge SV) : Vector3 F :=
  (getRealPos m_RootArea m_CellSize (area.m_MinPos + fromIndex i.edgeIndex1)).setComponent
    i.direction
    (FloatOps.add
      ((getRealPos m_RootArea m_CellSize (area.m_MinPos + fromIndex i.edgeIndex1)).component
        i.direction)
      (FloatOps.mul m_CellSize FloatOps.half))

/-! ## The legacy octree `OctreeSDF` -/

/-- Half-open containment test of an area (`OctreeSDF::Area::containsPoint`). -/
def Area.containsPoint (a : Area ℚ) (point : Vector3 ℚ) : Bool :=
  decide (point.x ≥ a.m_MinRealPos.x ∧ point.x < a.m_MinRealPos.x + a.m_RealSize
    ∧ point.y ≥ a.m_MinRealPos.y ∧ point.y < a.m_MinRealPos.y + a.m_RealSize
    ∧ point.z ≥ a.m_MinRealPos.z ∧ point.z < a.m_MinRealPos.z + a.m_RealSize)

/-- Integer position of corner `corner` of the area (`Area::getCorner`). -/
def Area.getCorner {F : Type} (a : Area F) (corner : Nat) : Vector3i :=
  a.m_MinPos + (cornerOffset corner).scale (shl1 a.m_SizeExpo)

/-- The lattice point `p` lies in the half-open integer cube
`[m_MinPos, m_MinPos + 2^m_SizeExpo)³` of the area. -/
def Area.cubeContains {F : Type} (a : Area F) (p : Vector3i) : Prop :=
  (a.m_MinPos.x ≤ p.x ∧ p.x < a.m_MinPos.x + shl1 a.m_SizeExpo)
  ∧ (a.m_MinPos.y ≤ p.y ∧ p.y < a.m_MinPos.y + shl1 a.m_SizeExpo)
  ∧ (a.m_MinPos.z ≤ p.z ∧ p.z < a.m_MinPos.z + shl1 a.m_SizeExpo)

/-- The value of `std::numeric_limits<float>::min()`, the smallest positive normalised
`float`, `2^-126`. -/
def floatMinPositive : ℚ := 1 / 2 ^ 126

/-- Lower and upper bound inside an area from the eight corner distances
(`OctreeSDF::Area::getLowerAndUpperBound`), as the pair `(lowerBound, upperBound)`. -/
def Area.getLowerAndUpperBound (a : Area ℚ) (signedDistances : Nat → ℚ) : ℚ × ℚ :=
  let r := forLoop 8
    (fun i (st : ℚ × ℚ) => (min st.1 (signedDistances i), max st.2 (signedDistances i)))
    (exampleFltMax, floatMinPositive)
  (r.1 - a.m_RealSize * (1 / 2), r.2 + a.m_RealSize * (1 / 2))

/-- A `Node*` of the legacy octree: the null pointer, which stands for a leaf, or a node
with its eight child pointers. -/
inductive OctreeSDF.Node where
  | null
  | inner (m_Children : Fin 8 → OctreeSDF.Node)

/-- The test `if (node)`. -/
def OctreeSDF.Node.isNonNull : OctreeSDF.Node → Bool
  | OctreeSDF.Node.null => false
  | OctreeSDF.Node.inner _ => true

/-- Lower and upper bound for a node (`OctreeSDF::getLowerAndUpperBound`): the bounds of
the area for a node, the loop over the corner values for a leaf. -/
def OctreeSDF.getLowerAndUpperBound (node : OctreeSDF.Node) (area : Area ℚ)
    (signedDistances : Nat → ℚ) : ℚ × ℚ :=
  if node.isNonNull then area.getLowerAndUpperBound signedDistances
  else
    forLoop 8
      (fun i (st : ℚ × ℚ) => (min st.1 (signedDistances i), max st.2 (signedDistances i)))
      (exampleFltMax, floatMinPositive)

/-- The members of the legacy octree that `resize` touches: the hash grid of samples
(kept abstract), the root pointer and the root area. -/
structure OctreeSDF (G : Type) where
  m_SDFValues : G
  m_RootNode : OctreeSDF.Node
  m_RootArea : Area ℚ

/-- A `while` loop with a bound on the number of evaluations of its condition: `none`
when the bound is used up before the condition fails. -/
def whileLoop {σ : Type} (cond : σ → Bool) (body : σ → σ) : Nat → σ → Option σ
  | 0, _ => none
  | fuel + 1, s => if cond s then whileLoop cond body fuel (body s) else some s

/-- Body of the first loop of `OctreeSDF::resize`, which grows the root towards the
minimum: the old root becomes child 7 of a new root.  `writeSample p d` stands for
`m_SDFValues[p] = d` and `interpolateLeaf` for the member of that name; both only change
the hash grid. -/
def OctreeSDF.growTowardsMin {G : Type} (writeSample : Vector3i → ℚ → G → G)
    (interpolateLeaf : Area ℚ → G → G) (t : OctreeSDF G) : OctreeSDF G :=
  let e := t.m_RootArea.m_SizeExpo
  let size := t.m_RootArea.m_RealSize
  let area : Area ℚ :=
    { m_MinPos := ⟨t.m_RootArea.m_MinPos.x - shl1 e, t.m_RootArea.m_MinPos.y - shl1 e,
        t.m_RootArea.m_MinPos.z - shl1 e⟩
      m_SizeExpo := e + 1
      m_MinRealPos := ⟨t.m_RootArea.m_MinRealPos.x - size, t.m_RootArea.m_MinRealPos.y - size,
        t.m_RootArea.m_MinRealPos.z - size⟩
      m_RealSize := size * 2 }
  let root := OctreeSDF.Node.inner (fun i => if i.val = 7 then t.m_RootNode else OctreeSDF.Node.null)
  let grid := forLoop 7
    (fun i g => writeSample
      (area.m_MinPos + (⟨bitSet i 4, bitSet i 2, bitSet i 1⟩ : Vector3i).scale (shl1 area.m_SizeExpo))
      (-area.m_RealSize) g) t.m_SDFValues
  { m_SDFValues := interpolateLeaf area grid, m_RootNode := root, m_RootArea := area }

/-- Body of the second loop of `OctreeSDF::resize`, which grows the root towards the
maximum: the old root becomes child 0 of a new root. -/
def OctreeSDF.growTowardsMax {G : Type} (writeSample : Vector3i → ℚ → G → G)
    (interpolateLeaf : Area ℚ → G → G) (t : OctreeSDF G) : OctreeSDF G :=
  let area : Area ℚ :=
    { t.m_RootArea with
      m_RealSize := t.m_RootArea.m_RealSize * 2
      m_SizeExpo := t.m_RootArea.m_SizeExpo + 1 }
  let root := OctreeSDF.Node.inner (fun i => if i.val = 0 then t.m_RootNode else OctreeSDF.Node.null)
  let grid := forLoop 7
    (fun k g => writeSample
      (area.m_MinPos
        + (⟨bitSet (k + 1) 4, bitSet (k + 1) 2, bitSet (k + 1) 1⟩ : Vector3i).scale
            (shl1 area.m_SizeExpo))
      (-area.m_RealSize) g) t.m_SDFValues
  { m_SDFValues := interpolateLeaf area grid, m_RootNode := root, m_RootArea := area }

/-- The member `OctreeSDF::resize`: the two loops one after the other, each with at most
`fuel` evaluations of its condition. -/
def OctreeSDF.resize {G : Type} (writeSample : Vector3i → ℚ → G → G)
    (interpolateLeaf : Area ℚ → G → G) (fuel : Nat) (aabb : AABB ℚ) (t : OctreeSDF G) :
    Option (OctreeSDF G) :=
  (whileLoop (fun s => !s.m_RootArea.toAABB.containsPoint aabb.min)
    (OctreeSDF.growTowardsMin writeSample interpolateLeaf) fuel t).bind
    (whileLoop (fun s => !s.m_RootArea.toAABB.containsPoint aabb.max)
      (OctreeSDF.growTowardsMax writeSample interpolateLeaf) fuel)

/-- The unit cube `[0, 1)³` as a root area of exponent 0. -/
def exampleUnitArea : Area ℚ := ⟨⟨0, 0, 0⟩, 0, ⟨0, 0, 0⟩, 1⟩


/-! ## Aligned subtraction with the state of the other tree -/

/-- The node returned by `OctreeSF::subtractAlignedNode(node, otherNode, area)` together
with the subtree that `otherNode` points to when the call returns.  The branches with an
Empty node only read `otherNode` (`clone` is `const`, the inversion is done on the clone);
the final branch calls `otherGridNode->invert()` on the leaf of the other tree itself. -/
def subtractAlignedNodeS {F SV : Type} [FloatOps F] :
    Node SV → Node SV → Area F → Option (Node SV × Node SV)
  | Node.inner c, Node.inner c2, area =>
    if h : ∀ i, (subtractAlignedNodeS (c i) (c2 i) (area.getSubAreas i)).isSome = true then
      some (Node.inner (fun i =>
          ((subtractAlignedNodeS (c i) (c2 i) (area.getSubAreas i)).get (h i)).1),
        Node.inner (fun i =>
          ((subtractAlignedNodeS (c i) (c2 i) (area.getSubAreas i)).get (h i)).2))
    else none
  | node, Node.empty otherSign, _ =>
    if !otherSign then some (node, Node.empty otherSign)
    else some ((Node.empty otherSign : Node SV).clone.invert, Node.empty otherSign)
  | Node.empty s, otherNode, _ =>
    if !s then some (Node.empty s, otherNode) else some (otherNode.clone.invert, otherNode)
  | Node.grid g, Node.grid g2, _ =>
    some (Node.grid (g.intersectAligned g2.invert), Node.grid g2.invert)
  | _, _, _ => none

/-- Tree subtraction of an aligned tree (`OctreeSF::subtractAlignedOctree`) together with
the other tree as it is when the call returns. -/
def Tree.subtractAlignedOctreeS {F SV : Type} [FloatOps F] (t otherOctree : Tree F SV) :
    Option (Tree F SV × Tree F SV) :=
  (subtractAlignedNodeS t.m_RootNode otherOctree.m_RootNode t.m_RootArea).map
    (fun r => ({ t with m_RootNode := r.1 }, { otherOctree with m_RootNode := r.2 }))

/-! ## Trees reached by sampling and CSG rewrites -/

/-- The trees of the claim on node kinds: a tree built by `sampleSDF` with
`maxDepth ≥ LEAF_EXPO`, rewritten by any sequence of merge, intersect and subtract with a
solid and of aligned operations with another such tree of the same root exponent.  The
argument of an aligned subtraction, whose leaves that call inverts, is such a tree
too. -/
inductive Tree.Built {F SV : Type} [FloatOps F] (vs : VertexSource F SV) : Tree F SV → Prop
  | sample (otherSDF : SolidGeometry F) (aabb : AABB F) (maxDepth : Int) :
      (LEAF_EXPO : Int) ≤ maxDepth → Tree.Built vs (sampleSDF vs otherSDF aabb maxDepth)
  | op (t : Tree F SV) (o : CsgOp F) : Tree.Built vs t → Tree.Built vs (t.applyOp vs o)
  | mergeAligned (t otherOctree t2 : Tree F SV) : Tree.Built vs t → Tree.Built vs otherOctree →
      t.m_RootArea.m_SizeExpo = otherOctree.m_RootArea.m_SizeExpo →
      t.mergeAlignedOctree otherOctree = some t2 → Tree.Built vs t2
  | intersectAligned (t otherOctree t2 : Tree F SV) : Tree.Built vs t →
      Tree.Built vs otherOctree →
      t.m_RootArea.m_SizeExpo = otherOctree.m_RootArea.m_SizeExpo →
      t.intersectAlignedOctree otherOctree = some t2 → Tree.Built vs t2
  | subtractAligned (t otherOctree t2 : Tree F SV) : Tree.Built vs t →
      Tree.Built vs otherOctree →
      t.m_RootArea.m_SizeExpo = otherOctree.m_RootArea.m_SizeExpo →
      t.subtractAlignedOctree otherOctree = some t2 → Tree.Built vs t2
  | subtractedFrom (t otherOctree : Tree F SV) (r : Tree F SV × Tree F SV) : Tree.Built vs t →
      Tree.Built vs otherOctree →
      t.m_RootArea.m_SizeExpo = otherOctree.m_RootArea.m_SizeExpo →
      t.subtractAlignedOctreeS otherOctree = some r → Tree.Built vs r.2

/-! ## Index traversals with a log of the array reads -/

/-- The indices at which `getCubeBitMask(index, signsArray)` reads `signsArray`, in the
order of its statements. -/
def getCubeBitMaskReads (index : Nat) : List Nat :=
  [index, index + 1, index + LEAF_SIZE_1D, index + LEAF_SIZE_1D + 1, index + LEAF_SIZE_2D,
    index + LEAF_SIZE_2D + 1, index + LEAF_SIZE_2D + LEAF_SIZE_1D,
    index + LEAF_SIZE_2D + LEAF_SIZE_1D + 1]

/-- The index pass of one leaf (`GridNode::generateIndices`) with a log, on the state
`((indices, index), log)`: every sub-cell iteration appends its loop variables `x`, `y`,
`z` and the value of the running variable `index` with which it calls `getCubeBitMask`.
The result is the state after the loops. -/
def GridNode.generateIndicesLogged {V : Type} (tlt : TLT) (heap : VertexHeap V)
    (g : GridNode Nat) (indices : List Nat) :
    (Option (List Nat) × Nat) × List (Nat × Nat × Nat × Nat) :=
  forLoop LEAF_SIZE_1D_INNER (fun x st =>
    let st := forLoop LEAF_SIZE_1D_INNER (fun y st =>
      let st := forLoop LEAF_SIZE_1D_INNER
        (fun z (st : (Option (List Nat) × Nat) × List (Nat × Nat × Nat × Nat)) =>
          ((generateIndicesCell tlt heap (surfaceEdgeMaps g.m_SurfaceEdges) g.m_Signs st.1.2
              st.1.1, st.1.2 + 1),
            st.2 ++ [(x, y, z, st.1.2)])) st
      ((st.1.1, st.1.2 + 1), st.2)) st
    ((st.1.1, st.1.2 + LEAF_SIZE_1D), st.2)) ((some indices, 0), [])

/-- The indices at which one iteration of `computeEdges` with an ignore mask reads
`m_Signs`: the test of each direction reads `m_Signs[index]` and the entry one stride
further, and only when the operands of `&&` to its left hold. -/
def computeEdgesIgnoringReads (ignoreEdges : EdgeMask) (x y z index : Nat) : List Nat :=
  (if !ignoreEdges.get 0 index && decide (x < LEAF_SIZE_1D_INNER) then
      [index, index + LEAF_SIZE_2D] else [])
  ++ (if !ignoreEdges.get 1 index && decide (y < LEAF_SIZE_1D_INNER) then
      [index, index + LEAF_SIZE_1D] else [])
  ++ (if !ignoreEdges.get 2 index && decide (z < LEAF_SIZE_1D_INNER) then
      [index, index + 1] else [])

/-- The indices at which one iteration of `computeEdges` without mask reads `m_Signs`. -/
def computeEdgesReads (x y z index : Nat) : List Nat :=
  (if x < LEAF_SIZE_1D_INNER then [index, index + LEAF_SIZE_2D] else [])
  ++ (if y < LEAF_SIZE_1D_INNER then [index, index + LEAF_SIZE_1D] else [])
  ++ (if z < LEAF_SIZE_1D_INNER then [index, index + 1] else [])

/-- Edge computation with an ignore mask (`GridNode::computeEdges`, five-argument form)
with a log of the indices at which it reads `m_Signs`, on the state
`((m_SurfaceEdges, index), log)`. -/
def computeEdgesIgnoringLogged {F SV : Type} [FloatOps F] (vs : VertexSource F SV)
    (m_RootArea : Area F) (m_CellSize : F) (area : Area F) (implicitSDF : SolidGeometry F)
    (ignoreEdges : EdgeMask) (g : GridNode SV) : GridNode SV × List Nat :=
  let r := forLoop LEAF_SIZE_1D (fun x st =>
    forLoop LEAF_SIZE_1D (fun y st =>
      forLoop LEAF_SIZE_1D (fun z (st : (List (SurfaceEdge SV) × Nat) × List Nat) =>
        (computeEdgesIgnoringBody vs m_RootArea m_CellSize area implicitSDF ignoreEdges
            g.m_Signs x y z st.1,
          st.2 ++ computeEdgesIgnoringReads ignoreEdges x y z st.1.2)) st) st)
    ((g.m_SurfaceEdges, 0), [])
  ({ g with m_SurfaceEdges := r.1.1 }, r.2)

/-- Edge computation of a fresh leaf (`GridNode::computeEdges`, four-argument form) with a
log of the indices at which it reads `m_Signs`. -/
def computeEdgesLogged {F SV : Type} [FloatOps F] (vs : VertexSource F SV)
    (m_RootArea : Area F) (m_CellSize : F) (area : Area F) (implicitSDF : SolidGeometry F)
    (g : GridNode SV) : GridNode SV × List Nat :=
  let r := forLoop LEAF_SIZE_1D (fun x st =>
    forLoop LEAF_SIZE_1D (fun y st =>
      forLoop LEAF_SIZE_1D (fun z (st : (List (SurfaceEdge SV) × Nat) × List Nat) =>
        (computeEdgesBody vs m_RootArea m_CellSize area implicitSDF g.m_Signs x y z st.1,
          st.2 ++ computeEdgesReads x y z st.1.2)) st) st)
    ((g.m_SurfaceEdges, 0), [])
  ({ g with m_SurfaceEdges := r.1.1 }, r.2)

/-! ## Mark passes: mesh extraction and memory count of a tree -/

/-- The member `GridNode::markSharedVertices(marked)`: the flag of the vertex of every
record is set to `marked`. -/
def GridNode.markSharedVertices {V : Type} (g : GridNode Nat) (marked : Bool)
    (heap : VertexHeap V) : VertexHeap V :=
  g.m_SurfaceEdges.foldl
    (fun h i => h.set i.sharedVertex { h i.sharedVertex with marked := marked }) heap

/-- Modelled from the spec: `EmptyNode::forEachSurfaceLeaf` of `OctreeSF.h` (not among the
sources), both overloads: an Empty node is no surface leaf, the function is not called. -/
def EmptyNode.forEachSurfaceLeaf {σ : Type} (s : σ) : σ := s

/-- The member `forEachSurfaceLeaf(function)`: an Inner node passes the call to its eight
children in order, a Grid leaf calls `function(this)`. -/
def Node.forEachSurfaceLeaf {σ : Type} (function : GridNode Nat → σ → σ) :
    Node Nat → σ → σ
  | Node.inner c, s =>
    (threadChildren (fun i s2 => ((), (c i).forEachSurfaceLeaf function s2)) s).2
  | Node.empty _, s => EmptyNode.forEachSurfaceLeaf s
  | Node.grid g, s => function g s

/-- The member `forEachSurfaceLeaf(area, function)`: as before, with the area of the
leaf; an Inner node passes the sub-areas of `getSubAreas` to its children. -/
def Node.forEachSurfaceLeafIn {F σ : Type} [FloatOps F]
    (function : GridNode Nat → Area F → σ → σ) : Node Nat → Area F → σ → σ
  | Node.inner c, area, s =>
    (threadChildren
      (fun i s2 => ((), (c i).forEachSurfaceLeafIn function (area.getSubAreas i) s2)) s).2
  | Node.empty _, _, s => EmptyNode.forEachSurfaceLeaf s
  | Node.grid g, area, s => function g area s

/-- The member `OctreeSF::generateVerticesAndIndices(vertices, indices)` on the vertex
store: the vertex pass over all leaves, the index pass over all leaves, which reads the
store left by the vertex pass, and the pass that clears the marks.  The result is the
store, the vertex buffer and the index buffer (`none` when the index pass reads an entry
of `surfaceEdgeMaps` that was never written).  `countLeaves` and the two `reserve` calls
change none of them. -/
def Tree.generateVerticesAndIndices {F V : Type} [FloatOps F] (tlt : TLT) (t : Tree F Nat)
    (heap : VertexHeap V) (vertices : List V) (indices : List Nat) :
    (VertexHeap V × List V) × Option (List Nat) :=
  let st := t.m_RootNode.forEachSurfaceLeaf (fun node st => node.generateVertices st)
    (heap, vertices)
  let ind := t.m_RootNode.forEachSurfaceLeafIn
    (fun node (_ : Area F) (ind : Option (List Nat)) =>
      ind.bind (fun l => node.generateIndices tlt st.1 l))
    t.m_RootArea (some indices)
  ((t.m_RootNode.forEachSurfaceLeaf (fun node h => node.markSharedVertices false h) st.1,
    st.2), ind)

/-- The sizes that `countMemory` adds up: `sizeof` of the three node classes, of
`SurfaceEdge` and of `SharedSurfaceVertex`, and the capacity of the edge vector of a
leaf. -/
structure MemorySizes where
  innerNode : Int
  emptyNode : Int
  gridNode : Int
  surfaceEdge : Int
  sharedSurfaceVertex : Int
  capacity : List (SurfaceEdge Nat) → Int

/-- The member `GridNode::countMemory(memoryCounter)` on the state
`(store, memoryCounter)`: every vertex that is not marked is counted and marked. -/
def GridNode.countMemory {V : Type} (sz : MemorySizes) (g : GridNode Nat)
    (st : VertexHeap V × Int) : VertexHeap V × Int :=
  g.m_SurfaceEdges.foldl
    (fun st i =>
      if !(st.1 i.sharedVertex).marked then
        (st.1.set i.sharedVertex { st.1 i.sharedVertex with marked := true },
          st.2 + sz.sharedSurfaceVertex)
      else st)
    (st.1, st.2 + (sz.gridNode + sz.capacity g.m_SurfaceEdges * sz.surfaceEdge))

/-- Modelled from the spec: `EmptyNode::countMemory` of `OctreeSF.h` (not among the
sources): the size of the node is added to the counter, the vertex store is not
touched. -/
def EmptyNode.countMemory {V : Type} (sz : MemorySizes) (st : VertexHeap V × Int) :
    VertexHeap V × Int :=
  (st.1, st.2 + sz.emptyNode)

/-- The member `countMemory(counter)` of a node: an Inner node adds its size and passes
the call to its eight children in order. -/
def Node.countMemory {V : Type} (sz : MemorySizes) : Node Nat → VertexHeap V × Int →
    VertexHeap V × Int
  | Node.inner c, st =>
    (threadChildren (fun i s2 => ((), (c i).countMemory sz s2)) (st.1, st.2 + sz.innerNode)).2
  | Node.empty _, st => EmptyNode.countMemory sz st
  | Node.grid g, st => g.countMemory sz st

/-- The member `OctreeSF::countMemory()`: the count over the tree followed by the pass
that clears the marks; the result is the store and the returned counter. -/
def Tree.countMemory {F V : Type} (sz : MemorySizes) (t : Tree F Nat) (heap : VertexHeap V) :
    VertexHeap V × Int :=
  let st := t.m_RootNode.countMemory sz (heap, 0)
  (t.m_RootNode.forEachSurfaceLeaf (fun node h => node.markSharedVertices false h) st.1, st.2)

/-- A tree with an Inner root over `[0, 16]³` whose children 0 and 1 are two leaves with
the records of `exampleCornerLeaf` and whose other children are Empty nodes. -/
def exampleTwoLeafTree : Tree ℚ Nat :=
  ⟨Node.inner (fun i => if i.val < 2 then Node.grid exampleCornerLeaf else Node.empty false),
    exampleRootArea, 1⟩

/-- Every vertex that a record of the subtree refers to is unmarked. -/
def Node.Unmarked {V : Type} (n : Node Nat) (heap : VertexHeap V) : Prop :=
  ∀ p, 1 ≤ n.references p → (heap p).marked = false

/-- The store `h` agrees with `h0` in vertex data, `shared` flag and reference count of
every vertex, in the vertex index too when `idx` is false, and in every field of the
vertices that do not satisfy `R`. -/
def MarksOnly {V : Type} (idx : Bool) (R : Nat → Prop) (h0 h : VertexHeap V) : Prop :=
  ∀ p, (h p).vertex = (h0 p).vertex ∧ (h p).shared = (h0 p).shared
    ∧ (h p).refCount = (h0 p).refCount
    ∧ (idx = false → (h p).vertexIndex = (h0 p).vertexIndex)
    ∧ (¬ R p → h p = h0 p)

/-! ## Shared vertices across CSG rewrites -/

/-- The signs `σ` of the global lattice differ at the two endpoints of the edge of
direction `d` whose lower endpoint is `pos`. -/
def signCrossing (σ : Vector3i → Bool) (d : Nat) (pos : Vector3i) : Bool :=
  σ pos != σ (pos + unitVec d)

/-- The registry that holds the entries of `ρ` for the edges at which the signs `σ` differ
and the entries of `r` for all other edges. -/
def Registry.select (σ : Vector3i → Bool) (ρ r : Registry) : Registry :=
  fun d pos => if signCrossing σ d pos then ρ d pos else r d pos

/-- From the store `s` to the store `s2` no pointer is taken back and no `shared` flag of
an object that `s` had handed out has changed. -/
def VertexStore.SharedKept {F : Type} (s s2 : VertexStore F) : Prop :=
  s.next ≤ s2.next ∧ ∀ q, q < s.next → (s2.objects q).shared = (s.objects q).shared

/-- One CSG rewrite of a tree by an implicit solid, with its effect on the store. -/
def Tree.applyOpS {F : Type} [FloatOps F]
    (newVertex : Vector3 F → Nat → F → SolidGeometry F → Vertex F)
    (normalise : Vector3 F → Vector3 F) (t : Tree F Nat) (store : VertexStore F) :
    CsgOp F → Tree F Nat × VertexStore F
  | CsgOp.merge s => t.mergeS newVertex normalise s store
  | CsgOp.intersect s => t.intersectS newVertex normalise s store
  | CsgOp.subtract s => t.subtractS newVertex normalise s store

/-- The trees of the claim on shared vertices, each with the store it lives in: a tree
built by `sampleSDF` at a depth of at least `LEAF_EXPO` from a solid whose
`cubeNeedsSubdivision` is conservative, rewritten by any sequence of merge, intersect and
subtract whose steering solids are conservative, or a copy of such a tree made by `clone`.
Between these steps the store may change in any way that keeps the `shared` flags, as the
work on other trees does. -/
inductive Tree.BuiltS {F : Type} [FloatOps F]
    (newVertex : Vector3 F → Nat → F → SolidGeometry F → Vertex F)
    (normalise : Vector3 F → Vector3 F) : Tree F Nat → VertexStore F → Prop
  | sample (otherSDF : SolidGeometry F) (aabb : AABB F) (maxDepth : Int)
      (store : VertexStore F) : (LEAF_EXPO : Int) ≤ maxDepth →
      Conservative (sampleSDFS newVertex otherSDF aabb maxDepth store).1.m_RootArea
        (sampleSDFS newVertex otherSDF aabb maxDepth store).1.m_CellSize otherSDF →
      Tree.BuiltS newVertex normalise (sampleSDFS newVertex otherSDF aabb maxDepth store).1
        (sampleSDFS newVertex otherSDF aabb maxDepth store).2
  | op (t : Tree F Nat) (store : VertexStore F) (o : CsgOp F) :
      Tree.BuiltS newVertex normalise t store →
      Conservative t.m_RootArea t.m_CellSize o.steeringSolid →
      Tree.BuiltS newVertex normalise (t.applyOpS newVertex normalise store o).1
        (t.applyOpS newVertex normalise store o).2
  | clone (t : Tree F Nat) (store : VertexStore F) :
      Tree.BuiltS newVertex normalise t store →
      Tree.BuiltS newVertex normalise (t.cloneS store).1 (t.cloneS store).2
  | other (t : Tree F Nat) (store store2 : VertexStore F) :
      Tree.BuiltS newVertex normalise t store → store.SharedKept store2 →
      Tree.BuiltS newVertex normalise t store2

/-- What a subtree of a tree of the claim on shared vertices satisfies, for a registry `ρ`
and signs `σ` of the global lattice: the subtree is well formed, its leaves are sign
coherent, every sign it stores is the value of `σ`, and every record of a leaf whose edge
fails the interior test holds the pointer of `ρ`. -/
def Node.SharedAt {F : Type} [FloatOps F] (ρ : Registry) (σ : Vector3i → Bool) (n : Node Nat)
    (a : Area F) : Prop :=
  n.WellFormed a ∧ n.LeavesCoherent ∧ (∀ p b, n.storesSign a p b → b = σ p)
    ∧ n.LeavesRegistered ρ a

/-- The description of an `init` call or of an existing pointer fits the registry `ρ` and
the signs `σ` for a leaf with minimum corner `minPos`: an existing pointer whose edge
fails the interior test is the pointer `ρ` holds for the edge, at which `σ` changes sign;
an `init` call is the registry lookup for an edge at which `σ` does not change sign. -/
def DescriptorFits {F : Type} (ρ : Registry) (σ : Vector3i → Bool) (minPos : Vector3i)
    (e : SurfaceEdge (VertexRef F)) : Prop :=
  (∃ p, e.sharedVertex = VertexRef.existing p
      ∧ (interiorTest e.edgeIndex1 e.direction = false →
          ρ e.direction (minPos + fromIndex e.edgeIndex1) = some p
            ∧ signCrossing σ e.direction (minPos + fromIndex e.edgeIndex1) = true))
    ∨ (SharedCall minPos e
      ∧ signCrossing σ e.direction (minPos + fromIndex e.edgeIndex1) = false)

/-- One step of a rewrite on a subtree over the area `a`, from the state `st` to the
result `res`, for the registry `ρ` and the signs `σ` of the tree before the rewrite and the
signs `σ2` after it: the registry of the rewrite is sound for the store it leaves and has
only grown, no `shared` flag has changed, and the subtree returned satisfies `SharedAt`
for the selection of `ρ` and the registry of the rewrite. -/
def SharedStep {F : Type} [FloatOps F] (ρ : Registry) (σ σ2 : Vector3i → Bool) (a : Area F)
    (st : VertexStore F × Registry) (res : Node Nat × (VertexStore F × Registry)) : Prop :=
  res.2.2.Sound res.2.1 ∧ (st.2.Le res.2.2 ∧ st.1.SharedKept res.2.1)
    ∧ res.1.SharedAt (Registry.select σ ρ res.2.2) σ2 a

/-- The band `1/2 ≤ y ≤ 1` as a solid that asks for the subdivision of every area, so that
its `cubeNeedsSubdivision` is conservative. -/
def exampleBandDense : SolidGeometry ℚ where
  getSample := fun p => ⟨0, p, ⟨0, 1, 0⟩⟩
  getSign := fun p => decide (1 / 2 ≤ p.y ∧ p.y ≤ 1)
  intersectsSurface := fun _ => true
  cubeNeedsSubdivision := fun _ => true

/-- The tree sampled from `exampleBandDense` over `exampleBox` at depth 4, starting without
vertices, and the store after the sampling. -/
def exampleDenseSampled : Tree ℚ Nat × VertexStore ℚ :=
  sampleSDFS exampleNewVertex exampleBandDense exampleBox 4 exampleEmptyStore

/-- The tree `exampleDenseSampled` after the union with `exampleBandDense`, and the store
after the union. -/
def exampleDenseMerged : Tree ℚ Nat × VertexStore ℚ :=
  exampleDenseSampled.1.applyOpS exampleNewVertex (fun v => v) exampleDenseSampled.2
    (CsgOp.merge exampleBandDense)

/-! ## Loop lemmas -/

theorem forLoop_succ {σ : Type} (n : Nat) (body : Nat → σ → σ) (s : σ) :
    forLoop (n + 1) body s = body n (forLoop n body s) := rfl

theorem forLoop_congr {σ : Type} (n : Nat) (f g : Nat → σ → σ)
    (h : ∀ i, i < n → ∀ s, f i s = g i s) (s : σ) : forLoop n f s = forLoop n g s := by
  induction n with
  | zero => rfl
  | succ n ih =>
    rw [forLoop_succ, forLoop_succ, ih (fun i hi => h i (Nat.lt_succ_of_lt hi)),
      h n (Nat.lt_succ_self n)]

theorem forLoop_add {σ : Type} (a b : Nat) (body : Nat → σ → σ) (s : σ) :
    forLoop (a + b) body s = forLoop b (fun i st => body (a + i) st) (forLoop a body s) := by
  induction b with
  | zero => rfl
  | succ b ih =>
    rw [← Nat.add_assoc, forLoop_succ, forLoop_succ, ih]

/-- Two nested counted loops run the body in the order of the linear index `a·m + b`. -/
theorem forLoop_nest {σ : Type} (n m : Nat) (f : Nat → Nat → σ → σ) (s : σ) :
    forLoop n (fun a st => forLoop m (fun b st2 => f a b st2) st) s
      = forLoop (n * m) (fun j st => f (j / m) (j % m) st) s := by
  induction n with
  | zero => simp [forLoop]
  | succ n ih =>
    rw [forLoop_succ, ih, Nat.succ_mul, forLoop_add]
    apply forLoop_congr
    intro i hi st
    have hm : 0 < m := Nat.lt_of_le_of_lt (Nat.zero_le i) hi
    have h1 : (n * m + i) / m = n := by
      rw [Nat.mul_comm, Nat.mul_add_div hm, Nat.div_eq_of_lt hi, Nat.add_zero]
    have h2 : (n * m + i) % m = i := by
      rw [Nat.mul_comm, Nat.mul_add_mod, Nat.mod_eq_of_lt hi]
    rw [h1, h2]

/-- Three nested loops of `LEAF_SIZE_1D` rounds each visit the linear indices in order. -/
theorem forLoop_nest3 {σ : Type} (f : Nat → Nat → Nat → σ → σ) (s : σ) :
    forLoop LEAF_SIZE_1D (fun x st =>
      forLoop LEAF_SIZE_1D (fun y st2 =>
        forLoop LEAF_SIZE_1D (fun z st3 => f x y z st3) st2) st) s
      = forLoop LEAF_SIZE_3D
          (fun j st => f (j / LEAF_SIZE_2D) (j / LEAF_SIZE_1D % LEAF_SIZE_1D) (j % LEAF_SIZE_1D) st)
          s := by
  rw [forLoop_nest LEAF_SIZE_1D LEAF_SIZE_1D
    (fun x y st => forLoop LEAF_SIZE_1D (fun z st3 => f x y z st3) st)]
  rw [forLoop_nest (LEAF_SIZE_1D * LEAF_SIZE_1D) LEAF_SIZE_1D
    (fun j z st => f (j / LEAF_SIZE_1D) (j % LEAF_SIZE_1D) z st)]
  apply forLoop_congr
  intro i _ st
  rw [Nat.div_div_eq_div_mul, Nat.mul_comm LEAF_SIZE_1D LEAF_SIZE_1D]
  rfl

/-- A loop that increments a running counter by one per round keeps it equal to the
round number. -/
theorem forLoop_counter {σ : Type} (n : Nat) (g : Nat → Nat → σ → σ) (s : σ) :
    forLoop n (fun j (st : σ × Nat) => (g j st.2 st.1, st.2 + 1)) (s, 0)
      = (forLoop n (fun j st => g j j st) s, n) := by
  induction n with
  | zero => rfl
  | succ n ih => rw [forLoop_succ, ih, forLoop_succ]

/-! ## Sign arrays -/

theorem LEAF_SIZE_1D_eq : LEAF_SIZE_1D = 9 := rfl

theorem LEAF_SIZE_2D_eq : LEAF_SIZE_2D = 81 := rfl

theorem LEAF_SIZE_3D_eq : LEAF_SIZE_3D = 729 := rfl

theorem LEAF_SIZE_1D_INNER_eq : LEAF_SIZE_1D_INNER = 8 := rfl

theorem SignArray.get_of_lt (a : SignArray) (i : Nat) (h : i < LEAF_SIZE_3D) :
    a.get i = a.entry ⟨i, h⟩ := by
  simp [SignArray.get, h]

theorem SignArray.get_val (a : SignArray) (i : Fin LEAF_SIZE_3D) : a.get i.val = a.entry i := by
  rw [SignArray.get_of_lt a i.val i.isLt]

theorem SignArray.get_set (a : SignArray) (i j : Nat) (v : Bool) :
    (a.set i v).get j = if j = i ∧ j < LEAF_SIZE_3D then v else a.get j := by
  unfold SignArray.get SignArray.set
  by_cases hj : j < LEAF_SIZE_3D
  · by_cases hji : j = i
    · subst hji
      simp [hj]
    · simp [hj, hji]
  · simp [hj]

theorem SignArray.ext_get (a b : SignArray)
    (h : ∀ j, j < LEAF_SIZE_3D → a.get j = b.get j) : a = b := by
  cases a with
  | mk fa =>
    cases b with
    | mk fb =>
      congr 1
      funext j
      have := h j.val j.isLt
      rwa [SignArray.get_of_lt _ j.val j.isLt, SignArray.get_of_lt _ j.val j.isLt] at this

/-- A loop writing `signs[i] = f i signs[i]` for `i < n` changes exactly the entries below `n`. -/
theorem forLoop_pointwise (f : Nat → Bool → Bool) (n : Nat) (s : SignArray) (j : Nat) :
    (forLoop n (fun i (a : SignArray) => a.set i (f i (a.get i))) s).get j
      = if j < n ∧ j < LEAF_SIZE_3D then f j (s.get j) else s.get j := by
  induction n with
  | zero => simp [forLoop]
  | succ n ih =>
    rw [forLoop_succ, SignArray.get_set]
    by_cases hjn : j = n
    · subst hjn
      by_cases hj : j < LEAF_SIZE_3D
      · have e := ih
        simp only [Nat.lt_irrefl, false_and, if_false] at e
        simp [hj, e]
      · simp [hj, ih]
    · have h1 : ¬ (j = n ∧ j < LEAF_SIZE_3D) := fun h => hjn h.1
      rw [if_neg h1, ih]
      by_cases hlt : j < n
      · have h2 : j < n + 1 := Nat.lt_succ_of_lt hlt
        simp [hlt, h2]
      · have h2 : ¬ j < n + 1 := by omega
        simp [hlt, h2]

/-- Closed form of `computeSigns`: entry `j` receives the sign of the solid at the real
position of the lattice point `area.m_MinPos + fromIndex j`. -/
theorem computeSigns_eq {F : Type} [FloatOps F] (R : Area F) (c : F) (area : Area F)
    (sdf : SolidGeometry F) (s : SignArray) :
    computeSigns R c area sdf s
      = forLoop LEAF_SIZE_3D
          (fun j (a : SignArray) =>
            a.set j (sdf.getSign (getRealPos R c (area.m_MinPos + fromIndex j)))) s := by
  unfold computeSigns
  rw [forLoop_nest3 (fun x y z st => computeSignsBody R c area sdf x y z st)]
  have h := forLoop_counter LEAF_SIZE_3D
    (fun j k (a : SignArray) =>
      a.set k (sdf.getSign (getRealPos R c (area.m_MinPos + fromIndex j)))) s
  simp only [computeSignsBody, fromIndex] at h ⊢
  rw [h]

theorem computeSigns_get {F : Type} [FloatOps F] (R : Area F) (c : F) (area : Area F)
    (sdf : SolidGeometry F) (s : SignArray) (j : Nat) (hj : j < LEAF_SIZE_3D) :
    (computeSigns R c area sdf s).get j
      = sdf.getSign (getRealPos R c (area.m_MinPos + fromIndex j)) := by
  rw [computeSigns_eq]
  have h := forLoop_pointwise
    (fun i _ => sdf.getSign (getRealPos R c (area.m_MinPos + fromIndex i))) LEAF_SIZE_3D s j
  simp only [hj, and_self, if_true] at h
  exact h

theorem fromIndex_linear (x y z : Nat) (_hx : x < LEAF_SIZE_1D) (hy : y < LEAF_SIZE_1D)
    (hz : z < LEAF_SIZE_1D) :
    fromIndex (x * LEAF_SIZE_2D + y * LEAF_SIZE_1D + z) = ⟨x, y, z⟩ := by
  simp only [LEAF_SIZE_1D_eq] at hy hz
  simp only [fromIndex, LEAF_SIZE_1D_eq, LEAF_SIZE_2D_eq]
  have h1 : (x * 81 + y * 9 + z) / 81 = x := by omega
  have h2 : (x * 81 + y * 9 + z) / 9 % 9 = y := by omega
  have h3 : (x * 81 + y * 9 + z) % 9 = z := by omega
  rw [h1, h2, h3]

theorem linear_lt (x y z : Nat) (hx : x < LEAF_SIZE_1D) (hy : y < LEAF_SIZE_1D)
    (hz : z < LEAF_SIZE_1D) : x * LEAF_SIZE_2D + y * LEAF_SIZE_1D + z < LEAF_SIZE_3D := by
  simp only [LEAF_SIZE_1D_eq] at hx hy hz
  simp only [LEAF_SIZE_1D_eq, LEAF_SIZE_2D_eq, LEAF_SIZE_3D_eq]
  omega

theorem computeEdgesIgnoring_signs {F SV : Type} [FloatOps F] (vs : VertexSource F SV)
    (R : Area F) (c : F) (area : Area F) (sdf : SolidGeometry F) (m : EdgeMask)
    (g : GridNode SV) : (computeEdgesIgnoring vs R c area sdf m g).m_Signs = g.m_Signs := by
  unfold computeEdgesIgnoring
  rfl

theorem computeEdges_signs {F SV : Type} [FloatOps F] (vs : VertexSource F SV)
    (R : Area F) (c : F) (area : Area F) (sdf : SolidGeometry F)
    (g : GridNode SV) : (computeEdges vs R c area sdf g).m_Signs = g.m_Signs := by
  unfold computeEdges
  rfl

theorem GridNode.merge_get {F SV : Type} [FloatOps F] (vs : VertexSource F SV)
    (R : Area F) (c : F) (area : Area F) (sdf : SolidGeometry F) (g : GridNode SV)
    (j : Nat) (hj : j < LEAF_SIZE_3D) :
    (g.merge vs R c area sdf).m_Signs.get j
      = (g.m_Signs.get j || sdf.getSign (getRealPos R c (area.m_MinPos + fromIndex j))) := by
  unfold GridNode.merge
  simp only [computeEdgesIgnoring_signs]
  have h := forLoop_pointwise
    (fun i b => b || (computeSigns R c area sdf SignArray.blank).get i) LEAF_SIZE_3D g.m_Signs j
  simp only [hj, and_self, if_true] at h
  rw [h, computeSigns_get R c area sdf _ j hj]

theorem GridNode.intersect_get {F SV : Type} [FloatOps F] (vs : VertexSource F SV)
    (R : Area F) (c : F) (area : Area F) (sdf : SolidGeometry F) (g : GridNode SV)
    (j : Nat) (hj : j < LEAF_SIZE_3D) :
    (g.intersect vs R c area sdf).m_Signs.get j
      = (g.m_Signs.get j && sdf.getSign (getRealPos R c (area.m_MinPos + fromIndex j))) := by
  unfold GridNode.intersect
  simp only [computeEdgesIgnoring_signs]
  have h := forLoop_pointwise
    (fun i b => b && (computeSigns R c area sdf SignArray.blank).get i) LEAF_SIZE_3D g.m_Signs j
  simp only [hj, and_self, if_true] at h
  rw [h, computeSigns_get R c area sdf _ j hj]

theorem GridNode.invert_get {SV : Type} (g : GridNode SV) (j : Nat) (hj : j < LEAF_SIZE_3D) :
    g.invert.m_Signs.get j = !g.m_Signs.get j := by
  unfold GridNode.invert
  have h := forLoop_pointwise (fun _ b => !b) LEAF_SIZE_3D g.m_Signs j
  simp only [hj, and_self, if_true] at h
  exact h

theorem GridNode.invert_twice {SV : Type} (g : GridNode SV) : g.invert.invert = g := by
  have hs : g.invert.invert.m_Signs = g.m_Signs := by
    apply SignArray.ext_get
    intro j hj
    rw [GridNode.invert_get _ j hj, GridNode.invert_get _ j hj, Bool.not_not]
  have he : g.invert.invert.m_SurfaceEdges = g.m_SurfaceEdges := rfl
  cases g with
  | mk signs edges =>
    cases h : (GridNode.mk signs edges).invert.invert with
    | mk signs2 edges2 =>
      rw [h] at hs he
      simp only at hs he
      rw [hs, he]

/-! ## Edge computation -/

theorem emplaceEdge_eq {F SV : Type} [FloatOps F] (vs : VertexSource F SV) (R : Area F) (c : F)
    (area : Area F) (sdf : SolidGeometry F) (interior : Bool) (iPos : Vector3i) (dir : Nat)
    (es : List (SurfaceEdge SV)) :
    emplaceEdge vs R c area sdf interior iPos dir es
      = es ++ [emplaced vs R c area sdf interior iPos dir] := by
  unfold emplaceEdge emplaced
  cases interior <;> simp

theorem emplaced_direction {F SV : Type} [FloatOps F] (vs : VertexSource F SV) (R : Area F)
    (c : F) (area : Area F) (sdf : SolidGeometry F) (interior : Bool) (iPos : Vector3i)
    (dir : Nat) : (emplaced vs R c area sdf interior iPos dir).direction = dir := by
  unfold emplaced
  cases interior <;> simp [SurfaceEdge.init, SurfaceEdge.initShared]

theorem emplaced_edgeIndex1 {F SV : Type} [FloatOps F] (vs : VertexSource F SV) (R : Area F)
    (c : F) (area : Area F) (sdf : SolidGeometry F) (interior : Bool) (iPos : Vector3i)
    (dir : Nat) : (emplaced vs R c area sdf interior iPos dir).edgeIndex1 = toIndex iPos := by
  unfold emplaced
  cases interior <;> simp [SurfaceEdge.init, SurfaceEdge.initShared]

theorem emplaced_edgeIndex2 {F SV : Type} [FloatOps F] (vs : VertexSource F SV) (R : Area F)
    (c : F) (area : Area F) (sdf : SolidGeometry F) (interior : Bool) (iPos : Vector3i)
    (dir : Nat) :
    (emplaced vs R c area sdf interior iPos dir).edgeIndex2 = toIndex (iPos + unitVec dir) := by
  unfold emplaced
  cases interior <;> simp [SurfaceEdge.init, SurfaceEdge.initShared]

theorem toIndex_fromIndex (j : Nat) : toIndex (fromIndex j) = j := by
  simp only [toIndex, fromIndex, LEAF_SIZE_1D_eq, LEAF_SIZE_2D_eq]
  omega

theorem toIndex_fromIndex_step (j d : Nat) (hd : d < 3) :
    toIndex (fromIndex j + unitVec d) = j + stride d := by
  have h : fromIndex j + unitVec d = Vector3i.add (fromIndex j) (unitVec d) := rfl
  rw [h]
  simp only [toIndex, fromIndex, unitVec, stride, Vector3i.add, LEAF_SIZE_1D_eq, LEAF_SIZE_2D_eq]
  interval_cases d <;> simp <;> omega

theorem computeEdgesIgnoringBody_eq {F SV : Type} [FloatOps F] (vs : VertexSource F SV)
    (R : Area F) (c : F) (area : Area F) (sdf : SolidGeometry F) (ign : EdgeMask)
    (signs : SignArray) (j : Nat) (es : List (SurfaceEdge SV)) :
    computeEdgesIgnoringBody vs R c area sdf ign signs (j / LEAF_SIZE_2D)
        (j / LEAF_SIZE_1D % LEAF_SIZE_1D) (j % LEAF_SIZE_1D) (es, j)
      = (es ++ newEdgesAt vs R c area sdf ign signs j, j + 1) := by
  have t0 : edgeTest ign signs 0 j
      = (!ign.get 0 j && decide (j / LEAF_SIZE_2D < LEAF_SIZE_1D_INNER)
          && (signs.get j != signs.get (j + LEAF_SIZE_2D))) := by
    simp [edgeTest, coordOf, crossing, stride]
  have t1 : edgeTest ign signs 1 j
      = (!ign.get 1 j && decide (j / LEAF_SIZE_1D % LEAF_SIZE_1D < LEAF_SIZE_1D_INNER)
          && (signs.get j != signs.get (j + LEAF_SIZE_1D))) := by
    simp [edgeTest, coordOf, crossing, stride]
  have t2 : edgeTest ign signs 2 j
      = (!ign.get 2 j && decide (j % LEAF_SIZE_1D < LEAF_SIZE_1D_INNER)
          && (signs.get j != signs.get (j + 1))) := by
    simp [edgeTest, coordOf, crossing, stride]
  have i0 : interiorTest j 0
      = (decide (j / LEAF_SIZE_1D % LEAF_SIZE_1D > 0)
          && decide (j / LEAF_SIZE_1D % LEAF_SIZE_1D < LEAF_SIZE_1D_INNER)
          && decide (j % LEAF_SIZE_1D > 0) && decide (j % LEAF_SIZE_1D < LEAF_SIZE_1D_INNER)) := by
    simp [interiorTest, coordOf]
  have i1 : interiorTest j 1
      = (decide (j / LEAF_SIZE_2D > 0) && decide (j / LEAF_SIZE_2D < LEAF_SIZE_1D_INNER)
          && decide (j % LEAF_SIZE_1D > 0) && decide (j % LEAF_SIZE_1D < LEAF_SIZE_1D_INNER)) := by
    simp [interiorTest, coordOf]
  have i2 : interiorTest j 2
      = (decide (j / LEAF_SIZE_1D % LEAF_SIZE_1D > 0)
          && decide (j / LEAF_SIZE_1D % LEAF_SIZE_1D < LEAF_SIZE_1D_INNER)
          && decide (j / LEAF_SIZE_2D > 0) && decide (j / LEAF_SIZE_2D < LEAF_SIZE_1D_INNER)) := by
    simp [interiorTest, coordOf]
  unfold computeEdgesIgnoringBody newEdgesAt
  rw [t0, t1, t2, i0, i1, i2]
  simp only [emplaceEdge_eq]
  have hf : fromIndex j = ⟨((j / LEAF_SIZE_2D : Nat) : Int),
      ((j / LEAF_SIZE_1D % LEAF_SIZE_1D : Nat) : Int), ((j % LEAF_SIZE_1D : Nat) : Int)⟩ := rfl
  rw [hf]
  split_ifs <;> simp

/-- Closed form of the masked edge computation: round `j` appends `newEdgesAt j`. -/
theorem computeEdgesIgnoring_edges {F SV : Type} [FloatOps F] (vs : VertexSource F SV)
    (R : Area F) (c : F) (area : Area F) (sdf : SolidGeometry F) (ign : EdgeMask)
    (g : GridNode SV) :
    (computeEdgesIgnoring vs R c area sdf ign g).m_SurfaceEdges
      = forLoop LEAF_SIZE_3D (fun j es => es ++ newEdgesAt vs R c area sdf ign g.m_Signs j)
          g.m_SurfaceEdges := by
  unfold computeEdgesIgnoring
  simp only
  rw [forLoop_nest3 (fun x y z st => computeEdgesIgnoringBody vs R c area sdf ign g.m_Signs x y z st)]
  have h := forLoop_counter LEAF_SIZE_3D
    (fun j k (es : List (SurfaceEdge SV)) =>
      (computeEdgesIgnoringBody vs R c area sdf ign g.m_Signs (j / LEAF_SIZE_2D)
        (j / LEAF_SIZE_1D % LEAF_SIZE_1D) (j % LEAF_SIZE_1D) (es, k)).1) g.m_SurfaceEdges
  have h1 : forLoop LEAF_SIZE_3D
      (fun j st => computeEdgesIgnoringBody vs R c area sdf ign g.m_Signs (j / LEAF_SIZE_2D)
        (j / LEAF_SIZE_1D % LEAF_SIZE_1D) (j % LEAF_SIZE_1D) st) (g.m_SurfaceEdges, 0)
      = forLoop LEAF_SIZE_3D
          (fun j (st : List (SurfaceEdge SV) × Nat) =>
            ((computeEdgesIgnoringBody vs R c area sdf ign g.m_Signs (j / LEAF_SIZE_2D)
              (j / LEAF_SIZE_1D % LEAF_SIZE_1D) (j % LEAF_SIZE_1D) (st.1, st.2)).1, st.2 + 1))
          (g.m_SurfaceEdges, 0) :=
    forLoop_congr _ _ _ (fun _ _ _ => rfl) _
  rw [h1, h]
  simp only
  apply forLoop_congr
  intro i _ es
  rw [computeEdgesIgnoringBody_eq]

theorem edgeCount_append {SV : Type} (a b : List (SurfaceEdge SV)) (d i : Nat) :
    edgeCount (a ++ b) d i = edgeCount a d i + edgeCount b d i := by
  unfold edgeCount
  exact List.countP_append _ a b

theorem edgeCount_nil {SV : Type} (d i : Nat) : edgeCount ([] : List (SurfaceEdge SV)) d i = 0 := rfl

theorem edgeCount_singleton {SV : Type} (e : SurfaceEdge SV) (d i : Nat) :
    edgeCount [e] d i = if e.direction = d ∧ e.edgeIndex1 = i then 1 else 0 := by
  unfold edgeCount
  by_cases h : e.direction = d ∧ e.edgeIndex1 = i
  · simp [List.countP_cons, h]
  · rw [if_neg h]
    simp only [List.countP_cons, List.countP_nil, decide_eq_true_eq, h, if_false]

theorem edgeCount_newEdgesAt {F SV : Type} [FloatOps F] (vs : VertexSource F SV)
    (R : Area F) (c : F) (area : Area F) (sdf : SolidGeometry F) (ign : EdgeMask)
    (signs : SignArray) (j d i : Nat) :
    edgeCount (newEdgesAt vs R c area sdf ign signs j : List (SurfaceEdge SV)) d i
      = if i = j ∧ d < 3 ∧ edgeTest ign signs d j = true then 1 else 0 := by
  unfold newEdgesAt
  rw [edgeCount_append, edgeCount_append]
  have piece : ∀ k : Nat, edgeCount
      (if edgeTest ign signs k j = true then
        [emplaced vs R c area sdf (interiorTest j k) (fromIndex j) k]
      else ([] : List (SurfaceEdge SV))) d i
      = if edgeTest ign signs k j = true ∧ k = d ∧ j = i then 1 else 0 := by
    intro k
    by_cases ht : edgeTest ign signs k j = true
    · rw [if_pos ht, edgeCount_singleton, emplaced_direction, emplaced_edgeIndex1,
        toIndex_fromIndex]
      simp [ht]
    · rw [if_neg ht, edgeCount_nil]
      simp [ht]
  rw [piece 0, piece 1, piece 2]
  by_cases hij : i = j
  · subst hij
    by_cases hd0 : d = 0
    · subst hd0
      simp
    · by_cases hd1 : d = 1
      · subst hd1
        simp
      · by_cases hd2 : d = 2
        · subst hd2
          simp
        · have hd3 : ¬ d < 3 := by omega
          have e0 : ¬ (0 = d) := fun h => hd0 h.symm
          have e1 : ¬ (1 = d) := fun h => hd1 h.symm
          have e2 : ¬ (2 = d) := fun h => hd2 h.symm
          simp [hd3, e0, e1, e2]
  · have hji : ¬ (j = i) := fun h => hij h.symm
    simp [hij, hji]

theorem edgeCount_forLoop {F SV : Type} [FloatOps F] (vs : VertexSource F SV)
    (R : Area F) (c : F) (area : Area F) (sdf : SolidGeometry F) (ign : EdgeMask)
    (signs : SignArray) (n : Nat) (es0 : List (SurfaceEdge SV)) (d i : Nat) :
    edgeCount (forLoop n (fun j es => es ++ newEdgesAt vs R c area sdf ign signs j) es0) d i
      = edgeCount es0 d i
        + if i < n ∧ d < 3 ∧ edgeTest ign signs d i = true then 1 else 0 := by
  induction n with
  | zero => simp [forLoop]
  | succ n ih =>
    rw [forLoop_succ, edgeCount_append, ih, edgeCount_newEdgesAt]
    by_cases hin : i = n
    · subst hin
      simp
    · by_cases hlt : i < n
      · have h2 : i < n + 1 := Nat.lt_succ_of_lt hlt
        simp [hin, hlt, h2]
      · have h2 : ¬ i < n + 1 := by omega
        simp [hin, hlt, h2]

theorem mem_newEdgesAt {F SV : Type} [FloatOps F] (vs : VertexSource F SV)
    (R : Area F) (c : F) (area : Area F) (sdf : SolidGeometry F) (ign : EdgeMask)
    (signs : SignArray) (j : Nat) (e : SurfaceEdge SV)
    (he : e ∈ newEdgesAt vs R c area sdf ign signs j) :
    e.direction < 3 ∧ e.edgeIndex1 = j ∧ e.edgeIndex2 = j + stride e.direction
      ∧ edgeTest ign signs e.direction j = true := by
  have key : ∀ k : Nat, k < 3 → edgeTest ign signs k j = true →
      e = emplaced vs R c area sdf (interiorTest j k) (fromIndex j) k →
      e.direction < 3 ∧ e.edgeIndex1 = j ∧ e.edgeIndex2 = j + stride e.direction
        ∧ edgeTest ign signs e.direction j = true := by
    intro k hk ht hek
    subst hek
    rw [emplaced_direction, emplaced_edgeIndex1, emplaced_edgeIndex2, toIndex_fromIndex,
      toIndex_fromIndex_step j k hk]
    exact ⟨hk, rfl, rfl, ht⟩
  unfold newEdgesAt at he
  rw [List.mem_append, List.mem_append] at he
  rcases he with (h | h) | h
  · by_cases ht : edgeTest ign signs 0 j = true
    · rw [if_pos ht, List.mem_singleton] at h
      exact key 0 (by decide) ht h
    · rw [if_neg ht] at h
      cases h
  · by_cases ht : edgeTest ign signs 1 j = true
    · rw [if_pos ht, List.mem_singleton] at h
      exact key 1 (by decide) ht h
    · rw [if_neg ht] at h
      cases h
  · by_cases ht : edgeTest ign signs 2 j = true
    · rw [if_pos ht, List.mem_singleton] at h
      exact key 2 (by decide) ht h
    · rw [if_neg ht] at h
      cases h

theorem mem_forLoop_newEdges {F SV : Type} [FloatOps F] (vs : VertexSource F SV)
    (R : Area F) (c : F) (area : Area F) (sdf : SolidGeometry F) (ign : EdgeMask)
    (signs : SignArray) (n : Nat) (es0 : List (SurfaceEdge SV)) (e : SurfaceEdge SV)
    (he : e ∈ forLoop n (fun j es => es ++ newEdgesAt vs R c area sdf ign signs j) es0) :
    e ∈ es0 ∨ ∃ j, j < n ∧ e ∈ newEdgesAt vs R c area sdf ign signs j := by
  induction n with
  | zero => exact Or.inl he
  | succ n ih =>
    rw [forLoop_succ, List.mem_append] at he
    rcases he with h | h
    · rcases ih h with h1 | ⟨j, hj, h2⟩
      · exact Or.inl h1
      · exact Or.inr ⟨j, Nat.lt_succ_of_lt hj, h2⟩
    · exact Or.inr ⟨n, Nat.lt_succ_self n, h⟩

/-- The loop of the masked edge computation only appends: the result is the old list
followed by the new records. -/
theorem forLoop_newEdges_append {F SV : Type} [FloatOps F] (vs : VertexSource F SV)
    (R : Area F) (c : F) (area : Area F) (sdf : SolidGeometry F) (ign : EdgeMask)
    (signs : SignArray) (n : Nat) (es0 : List (SurfaceEdge SV)) :
    forLoop n (fun j es => es ++ newEdgesAt vs R c area sdf ign signs j) es0
      = es0 ++ forLoop n (fun j es => es ++ newEdgesAt vs R c area sdf ign signs j) [] := by
  induction n with
  | zero => simp [forLoop]
  | succ n ih => rw [forLoop_succ, forLoop_succ, ih, List.append_assoc]

/-! ## Keeping the old edges that still cross -/

theorem EdgeMask.get_zero (d i : Nat) : EdgeMask.zero.get d i = false := by
  unfold EdgeMask.get EdgeMask.zero
  split <;> rfl

theorem EdgeMask.get_set_mask (m : EdgeMask) (d i d2 i2 : Nat) (v : Bool) :
    (m.set d i v).get d2 i2
      = if d2 = d ∧ i2 = i ∧ d2 < 3 ∧ i2 < LEAF_SIZE_3D then v else m.get d2 i2 := by
  unfold EdgeMask.get EdgeMask.set
  by_cases h : d2 < 3 ∧ i2 < LEAF_SIZE_3D
  · by_cases h2 : d2 = d ∧ i2 = i
    · simp [h, h2, h.1, h.2]
      rcases h2 with ⟨rfl, rfl⟩
      simp [h.1, h.2]
    · have h3 : ¬ (d2 = d ∧ i2 = i ∧ d2 < 3 ∧ i2 < LEAF_SIZE_3D) := fun h4 => h2 ⟨h4.1, h4.2.1⟩
      simp [h, h2, h3]
  · have h3 : ¬ (d2 = d ∧ i2 = i ∧ d2 < 3 ∧ i2 < LEAF_SIZE_3D) := fun h4 => h ⟨h4.2.2.1, h4.2.2.2⟩
    simp [h, h3]

theorem keepCrossingEdges_foldl {SV : Type} (signs : SignArray) (es : List (SurfaceEdge SV))
    (acc : List (SurfaceEdge SV)) (m : EdgeMask) :
    (es.foldl
      (fun (st : List (SurfaceEdge SV) × EdgeMask) i =>
        if signs.get i.edgeIndex1 != signs.get i.edgeIndex2 then
          (st.1 ++ [i], st.2.set i.direction i.edgeIndex1 true)
        else st) (acc, m)).1 = acc ++ es.filter (stillCrosses signs)
    ∧ ∀ d i,
      ((es.foldl
        (fun (st : List (SurfaceEdge SV) × EdgeMask) i =>
          if signs.get i.edgeIndex1 != signs.get i.edgeIndex2 then
            (st.1 ++ [i], st.2.set i.direction i.edgeIndex1 true)
          else st) (acc, m)).2.get d i = true
        ↔ (m.get d i = true ∨ (d < 3 ∧ i < LEAF_SIZE_3D ∧
            ∃ e, e ∈ es.filter (stillCrosses signs) ∧ e.direction = d ∧ e.edgeIndex1 = i))) := by
  induction es generalizing acc m with
  | nil => simp
  | cons e es ih =>
    rw [List.foldl_cons]
    by_cases hc : (signs.get e.edgeIndex1 != signs.get e.edgeIndex2) = true
    · have hs : stillCrosses signs e = true := hc
      rw [if_pos hc]
      obtain ⟨h1, h2⟩ := ih (acc ++ [e]) (m.set e.direction e.edgeIndex1 true)
      refine ⟨?_, ?_⟩
      · rw [h1, List.filter_cons_of_pos hs]
        simp
      · intro d i
        rw [h2 d i, EdgeMask.get_set_mask, List.filter_cons_of_pos hs]
        constructor
        · rintro (h | ⟨hd, hi, e2, he2, hk⟩)
          · by_cases hk : d = e.direction ∧ i = e.edgeIndex1 ∧ d < 3 ∧ i < LEAF_SIZE_3D
            · exact Or.inr ⟨hk.2.2.1, hk.2.2.2, e, List.mem_cons_self _ _, hk.1.symm, hk.2.1.symm⟩
            · rw [if_neg hk] at h
              exact Or.inl h
          · exact Or.inr ⟨hd, hi, e2, List.mem_cons_of_mem _ he2, hk⟩
        · rintro (h | ⟨hd, hi, e2, he2, hk1, hk2⟩)
          · left
            by_cases hk : d = e.direction ∧ i = e.edgeIndex1 ∧ d < 3 ∧ i < LEAF_SIZE_3D
            · rw [if_pos hk]
            · rw [if_neg hk]
              exact h
          · rcases List.mem_cons.mp he2 with rfl | hmem
            · left
              rw [if_pos ⟨hk1.symm, hk2.symm, hd, hi⟩]
            · exact Or.inr ⟨hd, hi, e2, hmem, hk1, hk2⟩
    · have hs : ¬ stillCrosses signs e = true := hc
      rw [if_neg hc]
      obtain ⟨h1, h2⟩ := ih acc m
      refine ⟨?_, ?_⟩
      · rw [h1, List.filter_cons_of_neg hs]
      · intro d i
        rw [h2 d i, List.filter_cons_of_neg hs]

theorem keepCrossingEdges_fst {SV : Type} (signs : SignArray) (es : List (SurfaceEdge SV)) :
    (keepCrossingEdges signs es).1 = es.filter (stillCrosses signs) := by
  have h := (keepCrossingEdges_foldl signs es [] EdgeMask.zero).1
  simpa [keepCrossingEdges] using h

theorem keepCrossingEdges_mask {SV : Type} (signs : SignArray) (es : List (SurfaceEdge SV))
    (d i : Nat) :
    (keepCrossingEdges signs es).2.get d i = true
      ↔ (d < 3 ∧ i < LEAF_SIZE_3D ∧ 0 < edgeCount (es.filter (stillCrosses signs)) d i) := by
  have h := (keepCrossingEdges_foldl signs es [] EdgeMask.zero).2 d i
  unfold keepCrossingEdges
  rw [h, EdgeMask.get_zero]
  unfold edgeCount
  rw [List.countP_pos_iff]
  constructor
  · rintro (h | ⟨hd, hi, e, he, hk1, hk2⟩)
    · cases h
    · exact ⟨hd, hi, e, he, by simp [hk1, hk2]⟩
  · rintro ⟨hd, hi, e, he, hk⟩
    simp only [decide_eq_true_eq] at hk
    exact Or.inr ⟨hd, hi, e, he, hk.1, hk.2⟩

/-- Among well-formed records, the kept ones at a lattice edge are all old ones there when
the edge crosses under the new signs, and none otherwise. -/
theorem edgeCount_filter_stillCrosses {SV : Type} (signs : SignArray)
    (es : List (SurfaceEdge SV))
    (hwf : ∀ e, e ∈ es → e.edgeIndex2 = e.edgeIndex1 + stride e.direction) (d i : Nat) :
    edgeCount (es.filter (stillCrosses signs)) d i
      = if crossing signs d i = true then edgeCount es d i else 0 := by
  unfold edgeCount
  rw [List.countP_filter]
  by_cases hc : crossing signs d i = true
  · rw [if_pos hc]
    apply List.countP_congr
    intro e he
    simp only [Bool.and_eq_true, decide_eq_true_eq]
    constructor
    · exact fun h => h.1
    · intro h
      refine ⟨h, ?_⟩
      unfold stillCrosses
      rw [hwf e he, h.1, h.2]
      exact hc
  · rw [if_neg hc, List.countP_eq_zero]
    intro e he
    simp only [Bool.and_eq_true, decide_eq_true_eq, not_and]
    intro h hs
    apply hc
    unfold stillCrosses at hs
    rw [hwf e he, h.1, h.2] at hs
    exact hs

/-! ## Coherence of the rebuilt edge list -/

/-- Count of the records the masked edge computation appends after the old edges that
still cross were kept: one for a lattice edge that crosses and had no old record. -/
theorem edgeCount_rebuild_new {F SV : Type} [FloatOps F] (vs : VertexSource F SV)
    (R : Area F) (c : F) (area : Area F) (sdf : SolidGeometry F) (signs : SignArray)
    (old : List (SurfaceEdge SV))
    (hwf : ∀ e, e ∈ old → e.edgeIndex2 = e.edgeIndex1 + stride e.direction)
    (d i : Nat) (hl : IsLatticeEdge d i) :
    edgeCount
        (forLoop LEAF_SIZE_3D
          (fun j es => es ++ newEdgesAt vs R c area sdf (keepCrossingEdges signs old).2 signs j)
          ([] : List (SurfaceEdge SV))) d i
      = if crossing signs d i = true ∧ edgeCount old d i = 0 then 1 else 0 := by
  rw [edgeCount_forLoop, edgeCount_nil, Nat.zero_add]
  obtain ⟨hd, hi, hco⟩ := hl
  have hm := keepCrossingEdges_mask signs old d i
  rw [edgeCount_filter_stillCrosses signs old hwf d i] at hm
  by_cases hc : crossing signs d i = true
  · rw [if_pos hc] at hm
    by_cases h0 : edgeCount old d i = 0
    · have hmf : (keepCrossingEdges signs old).2.get d i = false := by
        cases hg : (keepCrossingEdges signs old).2.get d i with
        | false => rfl
        | true =>
          have := (hm.mp hg).2.2
          omega
      have ht : edgeTest (keepCrossingEdges signs old).2 signs d i = true := by
        unfold edgeTest
        rw [hmf, hc]
        simp [hco]
      rw [if_pos ⟨hi, hd, ht⟩, if_pos ⟨hc, h0⟩]
    · have hmt : (keepCrossingEdges signs old).2.get d i = true :=
        hm.mpr ⟨hd, hi, Nat.pos_of_ne_zero h0⟩
      have ht : ¬ edgeTest (keepCrossingEdges signs old).2 signs d i = true := by
        unfold edgeTest
        rw [hmt]
        simp
      rw [if_neg (fun h => ht h.2.2), if_neg (fun h => h0 h.2)]
  · have ht : ¬ edgeTest (keepCrossingEdges signs old).2 signs d i = true := by
      unfold edgeTest
      intro h
      simp only [Bool.and_eq_true] at h
      exact hc h.2
    rw [if_neg (fun h => ht h.2.2), if_neg (fun h => hc h.1)]

/-- Keeping the old edges that still cross and running the masked edge computation
yields a sign-coherent leaf, provided the old records are well formed and unique per
direction and lower endpoint. -/
theorem rebuild_coherent {F SV : Type} [FloatOps F] (vs : VertexSource F SV)
    (R : Area F) (c : F) (area : Area F) (sdf : SolidGeometry F) (signs : SignArray)
    (old : List (SurfaceEdge SV))
    (hwf : ∀ e, e ∈ old →
      IsLatticeEdge e.direction e.edgeIndex1 ∧ e.edgeIndex2 = e.edgeIndex1 + stride e.direction)
    (huniq : ∀ d i, IsLatticeEdge d i → edgeCount old d i ≤ 1) :
    SignCoherent
      (computeEdgesIgnoring vs R c area sdf (keepCrossingEdges signs old).2
        { m_Signs := signs, m_SurfaceEdges := (keepCrossingEdges signs old).1 }) := by
  have hed : (computeEdgesIgnoring vs R c area sdf (keepCrossingEdges signs old).2
      { m_Signs := signs, m_SurfaceEdges := (keepCrossingEdges signs old).1 }).m_SurfaceEdges
      = forLoop LEAF_SIZE_3D
          (fun j es => es ++ newEdgesAt vs R c area sdf (keepCrossingEdges signs old).2 signs j)
          (old.filter (stillCrosses signs)) := by
    rw [computeEdgesIgnoring_edges]
    simp only
    rw [keepCrossingEdges_fst]
  have hsg := computeEdgesIgnoring_signs vs R c area sdf (keepCrossingEdges signs old).2
    { m_Signs := signs, m_SurfaceEdges := (keepCrossingEdges signs old).1 }
  simp only at hsg
  have hmem : ∀ e, e ∈ (computeEdgesIgnoring vs R c area sdf (keepCrossingEdges signs old).2
      { m_Signs := signs, m_SurfaceEdges := (keepCrossingEdges signs old).1 }).m_SurfaceEdges →
      (e ∈ old ∧ stillCrosses signs e = true) ∨
      ∃ j, j < LEAF_SIZE_3D ∧ e ∈ newEdgesAt vs R c area sdf (keepCrossingEdges signs old).2 signs j := by
    intro e he
    rw [hed] at he
    rcases mem_forLoop_newEdges vs R c area sdf _ signs _ _ e he with h | h
    · exact Or.inl (List.mem_filter.mp h)
    · exact Or.inr h
  refine ⟨?_, ?_, ?_⟩
  · intro e he
    rcases hmem e he with ⟨ho, _⟩ | ⟨j, hj, hn⟩
    · exact hwf e ho
    · obtain ⟨h1, h2, h3, h4⟩ := mem_newEdgesAt vs R c area sdf _ signs j e hn
      refine ⟨⟨h1, by rw [h2]; exact hj, ?_⟩, by rw [h2]; exact h3⟩
      unfold edgeTest at h4
      simp only [Bool.and_eq_true, decide_eq_true_eq] at h4
      rw [h2]
      exact h4.1.2
  · intro e he
    rw [hsg]
    rcases hmem e he with ⟨_, hs⟩ | ⟨j, _, hn⟩
    · unfold stillCrosses at hs
      simpa using hs
    · obtain ⟨_, h2, h3, h4⟩ := mem_newEdgesAt vs R c area sdf _ signs j e hn
      unfold edgeTest crossing at h4
      simp only [Bool.and_eq_true] at h4
      rw [h2, h3]
      simpa using h4.2
  · intro d i hl
    rw [hsg, hed, forLoop_newEdges_append, edgeCount_append,
      edgeCount_rebuild_new vs R c area sdf signs old (fun e he => (hwf e he).2) d i hl,
      edgeCount_filter_stillCrosses signs old (fun e he => (hwf e he).2) d i]
    have hu := huniq d i hl
    by_cases hc : crossing signs d i = true
    · by_cases h0 : edgeCount old d i = 0
      · simp [hc, h0]
      · have h1 : edgeCount old d i = 1 := by omega
        simp [hc, h1]
    · simp [hc]

theorem rebuild_edges {F SV : Type} [FloatOps F] (vs : VertexSource F SV)
    (R : Area F) (c : F) (area : Area F) (sdf : SolidGeometry F) (signs : SignArray)
    (old : List (SurfaceEdge SV)) :
    (computeEdgesIgnoring vs R c area sdf (keepCrossingEdges signs old).2
        { m_Signs := signs, m_SurfaceEdges := (keepCrossingEdges signs old).1 }).m_SurfaceEdges
      = old.filter (stillCrosses signs)
        ++ forLoop LEAF_SIZE_3D
            (fun j es => es ++ newEdgesAt vs R c area sdf (keepCrossingEdges signs old).2 signs j)
            ([] : List (SurfaceEdge SV)) := by
  rw [computeEdgesIgnoring_edges]
  simp only
  rw [keepCrossingEdges_fst, forLoop_newEdges_append]

theorem computeEdgesBody_eq_ignoring {F SV : Type} [FloatOps F] (vs : VertexSource F SV)
    (R : Area F) (c : F) (area : Area F) (sdf : SolidGeometry F) (signs : SignArray)
    (x y z : Nat) (st : List (SurfaceEdge SV) × Nat) :
    computeEdgesBody vs R c area sdf signs x y z st
      = computeEdgesIgnoringBody vs R c area sdf EdgeMask.zero signs x y z st := by
  unfold computeEdgesBody computeEdgesIgnoringBody
  simp only [EdgeMask.get_zero, Bool.not_false, Bool.true_and]

/-- The unmasked edge computation is the masked one with the all-false mask. -/
theorem computeEdges_eq_ignoring {F SV : Type} [FloatOps F] (vs : VertexSource F SV)
    (R : Area F) (c : F) (area : Area F) (sdf : SolidGeometry F) (g : GridNode SV) :
    computeEdges vs R c area sdf g = computeEdgesIgnoring vs R c area sdf EdgeMask.zero g := by
  unfold computeEdges computeEdgesIgnoring
  simp only [computeEdgesBody_eq_ignoring]

theorem GridNode.create_eq {F SV : Type} [FloatOps F] (vs : VertexSource F SV)
    (R : Area F) (c : F) (area : Area F) (sdf : SolidGeometry F) :
    (GridNode.create vs R c area sdf : GridNode SV)
      = computeEdgesIgnoring vs R c area sdf
          (keepCrossingEdges (computeSigns R c area sdf SignArray.blank)
            ([] : List (SurfaceEdge SV))).2
          { m_Signs := computeSigns R c area sdf SignArray.blank
            m_SurfaceEdges := (keepCrossingEdges (computeSigns R c area sdf SignArray.blank)
              ([] : List (SurfaceEdge SV))).1 } := by
  unfold GridNode.create
  rw [computeEdges_eq_ignoring]
  rfl

theorem GridNode.create_signs {F SV : Type} [FloatOps F] (vs : VertexSource F SV)
    (R : Area F) (c : F) (area : Area F) (sdf : SolidGeometry F) :
    (GridNode.create vs R c area sdf : GridNode SV).m_Signs
      = computeSigns R c area sdf SignArray.blank := by
  unfold GridNode.create
  rw [computeEdges_signs]

theorem GridNode.create_coherent {F SV : Type} [FloatOps F] (vs : VertexSource F SV)
    (R : Area F) (c : F) (area : Area F) (sdf : SolidGeometry F) :
    SignCoherent (GridNode.create vs R c area sdf : GridNode SV) := by
  rw [GridNode.create_eq]
  apply rebuild_coherent
  · intro e he
    cases he
  · intro d i _
    rw [edgeCount_nil]
    exact Nat.zero_le 1

theorem coordOf_linear (x y z d : Nat) (hx : x < LEAF_SIZE_1D) (hy : y < LEAF_SIZE_1D)
    (hz : z < LEAF_SIZE_1D) :
    coordOf (x * LEAF_SIZE_2D + y * LEAF_SIZE_1D + z) d
      = if d = 0 then x else if d = 1 then y else z := by
  simp only [LEAF_SIZE_1D_eq] at hx hy hz
  simp only [coordOf, LEAF_SIZE_1D_eq, LEAF_SIZE_2D_eq]
  have h1 : (x * 81 + y * 9 + z) / 81 = x := by omega
  have h2 : (x * 81 + y * 9 + z) / 9 % 9 = y := by omega
  have h3 : (x * 81 + y * 9 + z) % 9 = z := by omega
  rw [h1, h2, h3]

theorem SignCoherent.count_le_one {SV : Type} {g : GridNode SV} (h : SignCoherent g)
    (d i : Nat) (hl : IsLatticeEdge d i) : edgeCount g.m_SurfaceEdges d i ≤ 1 := by
  rw [h.count d i hl]
  split <;> omega

theorem SignCoherent.count_eq_zero_iff {SV : Type} {g : GridNode SV} (h : SignCoherent g)
    (d i : Nat) (hl : IsLatticeEdge d i) :
    edgeCount g.m_SurfaceEdges d i = 0 ↔ crossing g.m_Signs d i = false := by
  rw [h.count d i hl]
  cases crossing g.m_Signs d i <;> simp

/-! ## The tree builder -/

theorem createNode_eq {F SV : Type} [FloatOps F] (vs : VertexSource F SV) (R : Area F) (c : F)
    (sdf : SolidGeometry F) (area : Area F) :
    (createNode vs R c sdf area : Node SV)
      = if sdf.cubeNeedsSubdivision area = false then
          Node.empty (sdf.getSign area.toAABB.getCenter)
        else if area.m_SizeExpo ≤ LEAF_EXPO then
          Node.grid (GridNode.create vs R c area sdf)
        else
          Node.inner (fun i => createNode vs R c sdf (area.getSubAreas i)) := by
  rw [createNode]
  cases hn : sdf.cubeNeedsSubdivision area with
  | false => simp [EmptyNode.create]
  | true =>
    by_cases he : area.m_SizeExpo ≤ LEAF_EXPO
    · simp [he]
    · simp [he]

theorem getSubAreas_sizeExpo {F : Type} [FloatOps F] (a : Area F) (i : Fin 8) :
    (a.getSubAreas i).m_SizeExpo = a.m_SizeExpo - 1 := rfl

/-- Induction along the recursion of the tree builder: a property of areas holds everywhere
if it holds for an area whenever it holds for the sub-areas of an area above `LEAF_EXPO`. -/
theorem area_induction {F : Type} [FloatOps F] (P : Area F → Prop)
    (step : ∀ a : Area F, ((LEAF_EXPO : Int) < a.m_SizeExpo → ∀ i, P (a.getSubAreas i)) → P a)
    (a : Area F) : P a := by
  have key : ∀ n : Nat, ∀ a : Area F, (a.m_SizeExpo - LEAF_EXPO).toNat = n → P a := by
    intro n
    induction n with
    | zero =>
      intro a ha
      apply step
      intro hlt
      omega
    | succ n ih =>
      intro a ha
      apply step
      intro _ i
      apply ih
      rw [getSubAreas_sizeExpo]
      omega
  exact key _ a rfl

theorem createNode_gridLeaves {F SV : Type} [FloatOps F] (vs : VertexSource F SV) (R : Area F)
    (c : F) (sdf : SolidGeometry F) (area : Area F) :
    (createNode vs R c sdf area : Node SV).GridLeavesAt
      (fun a => a.m_SizeExpo = min area.m_SizeExpo LEAF_EXPO) area := by
  induction area using area_induction with
  | step a ih =>
    rw [createNode_eq]
    cases hn : sdf.cubeNeedsSubdivision a with
    | false => simp [Node.GridLeavesAt]
    | true =>
      by_cases he : a.m_SizeExpo ≤ LEAF_EXPO
      · simp only [he, if_true, Node.GridLeavesAt]
        simp [he]
      · simp only [he, if_false, Node.GridLeavesAt]
        intro i
        have hlt : (LEAF_EXPO : Int) < a.m_SizeExpo := by omega
        have h := ih hlt i
        have e : min (a.getSubAreas i).m_SizeExpo (LEAF_EXPO : Int) = min a.m_SizeExpo LEAF_EXPO := by
          rw [getSubAreas_sizeExpo]
          omega
        rw [e] at h
        exact h

/-! ## Lattice coverage -/

theorem Vector3i.add_x (a b : Vector3i) : (a + b).x = a.x + b.x := rfl

theorem Vector3i.add_y (a b : Vector3i) : (a + b).y = a.y + b.y := rfl

theorem Vector3i.add_z (a b : Vector3i) : (a + b).z = a.z + b.z := rfl

theorem Vector3i.ext_iff3 (a b : Vector3i) : a = b ↔ a.x = b.x ∧ a.y = b.y ∧ a.z = b.z := by
  cases a
  cases b
  simp

theorem shl1_pos (n : Int) : 0 < shl1 n := by
  unfold shl1
  positivity

theorem shl1_double (e : Int) (h : 1 ≤ e) : shl1 e = 2 * shl1 (e - 1) := by
  unfold shl1
  have h2 : e.toNat = (e - 1).toNat + 1 := by omega
  rw [h2, pow_succ]
  ring

theorem shl1_leaf : shl1 (LEAF_EXPO : Int) = 8 := by
  decide

theorem cornerOffset_cases (i : Fin 8) :
    ((cornerOffset i.val).x = 0 ∨ (cornerOffset i.val).x = 1)
    ∧ ((cornerOffset i.val).y = 0 ∨ (cornerOffset i.val).y = 1)
    ∧ ((cornerOffset i.val).z = 0 ∨ (cornerOffset i.val).z = 1) := by
  fin_cases i <;> decide

theorem exists_cornerOffset (bx bY bz : Bool) :
    ∃ i : Fin 8, cornerOffset i.val
      = ⟨if bx then 1 else 0, if bY then 1 else 0, if bz then 1 else 0⟩ := by
  cases bx <;> cases bY <;> cases bz
  · exact ⟨0, by decide⟩
  · exact ⟨1, by decide⟩
  · exact ⟨2, by decide⟩
  · exact ⟨3, by decide⟩
  · exact ⟨4, by decide⟩
  · exact ⟨5, by decide⟩
  · exact ⟨6, by decide⟩
  · exact ⟨7, by decide⟩

theorem getSubAreas_minPos {F : Type} [FloatOps F] (a : Area F) (i : Fin 8) :
    (a.getSubAreas i).m_MinPos
      = a.m_MinPos + (cornerOffset i.val).scale (shl1 (a.m_SizeExpo - 1)) := rfl

/-- The closed cube of a sub-area lies inside the closed cube of its parent. -/
theorem containsLattice_of_sub {F : Type} [FloatOps F] (a : Area F) (i : Fin 8)
    (p : Vector3i) (he : (LEAF_EXPO : Int) < a.m_SizeExpo)
    (h : (a.getSubAreas i).containsLattice p) : a.containsLattice p := by
  unfold Area.containsLattice at h ⊢
  rw [getSubAreas_minPos, getSubAreas_sizeExpo] at h
  simp only [Vector3i.add_x, Vector3i.add_y, Vector3i.add_z, Vector3i.scale] at h
  have hd := shl1_double a.m_SizeExpo (by omega)
  have hp := shl1_pos (a.m_SizeExpo - 1)
  obtain ⟨hx, hy, hz⟩ := cornerOffset_cases i
  rcases hx with hx | hx <;> rcases hy with hy | hy <;> rcases hz with hz | hz <;>
    rw [hx, hy, hz] at h <;> omega

/-- The closed cubes of the eight sub-areas cover the closed cube of their parent. -/
theorem exists_sub_containsLattice {F : Type} [FloatOps F] (a : Area F) (p : Vector3i)
    (he : (LEAF_EXPO : Int) < a.m_SizeExpo) (h : a.containsLattice p) :
    ∃ i, (a.getSubAreas i).containsLattice p := by
  unfold Area.containsLattice at h
  have hd := shl1_double a.m_SizeExpo (by omega)
  obtain ⟨i, hi⟩ := exists_cornerOffset
    (decide (a.m_MinPos.x + shl1 (a.m_SizeExpo - 1) < p.x))
    (decide (a.m_MinPos.y + shl1 (a.m_SizeExpo - 1) < p.y))
    (decide (a.m_MinPos.z + shl1 (a.m_SizeExpo - 1) < p.z))
  refine ⟨i, ?_⟩
  unfold Area.containsLattice
  rw [getSubAreas_minPos, getSubAreas_sizeExpo, hi]
  simp only [Vector3i.add_x, Vector3i.add_y, Vector3i.add_z, Vector3i.scale]
  by_cases hx : a.m_MinPos.x + shl1 (a.m_SizeExpo - 1) < p.x <;>
    by_cases hy : a.m_MinPos.y + shl1 (a.m_SizeExpo - 1) < p.y <;>
    by_cases hz : a.m_MinPos.z + shl1 (a.m_SizeExpo - 1) < p.z <;>
    simp only [hx, hy, hz, decide_True, decide_False, if_true, if_false, Bool.false_eq_true] <;>
    omega

/-- Every lattice point for which a well-formed subtree stores a sign lies in the closed
cube of its area. -/
theorem containsLattice_of_storesSign {F SV : Type} [FloatOps F] (n : Node SV) :
    ∀ (a : Area F) (p : Vector3i) (b : Bool), n.WellFormed a → n.storesSign a p b →
      a.containsLattice p := by
  induction n with
  | inner ch ih =>
    intro a p b hw hs
    obtain ⟨hlt, hch⟩ := hw
    obtain ⟨i, hi⟩ := hs
    exact containsLattice_of_sub a i p hlt (ih i _ p b (hch i) hi)
  | empty s =>
    intro a p b _ hs
    exact hs.1
  | grid g =>
    intro a p b hw hs
    obtain ⟨x, y, z, hx, hy, hz, hp, _⟩ := hs
    have hw2 : a.m_SizeExpo = LEAF_EXPO := hw
    unfold Area.containsLattice
    rw [hw2, shl1_leaf, hp]
    simp only [Vector3i.add_x, Vector3i.add_y, Vector3i.add_z]
    simp only [LEAF_SIZE_1D_eq] at hx hy hz
    omega

/-- A well-formed subtree stores a sign for every lattice point of the closed cube of its
area. -/
theorem exists_storesSign {F SV : Type} [FloatOps F] (n : Node SV) :
    ∀ (a : Area F) (p : Vector3i), n.WellFormed a → a.containsLattice p →
      ∃ b, n.storesSign a p b := by
  induction n with
  | inner ch ih =>
    intro a p hw hc
    obtain ⟨hlt, hch⟩ := hw
    obtain ⟨i, hi⟩ := exists_sub_containsLattice a p hlt hc
    obtain ⟨b, hb⟩ := ih i _ p (hch i) hi
    exact ⟨b, i, hb⟩
  | empty s =>
    intro a p _ hc
    exact ⟨s, hc, rfl⟩
  | grid g =>
    intro a p hw hc
    have hw2 : a.m_SizeExpo = LEAF_EXPO := hw
    unfold Area.containsLattice at hc
    rw [hw2, shl1_leaf] at hc
    refine ⟨_, (p.x - a.m_MinPos.x).toNat, (p.y - a.m_MinPos.y).toNat,
      (p.z - a.m_MinPos.z).toNat, ?_, ?_, ?_, ?_, rfl⟩
    · rw [LEAF_SIZE_1D_eq]
      omega
    · rw [LEAF_SIZE_1D_eq]
      omega
    · rw [LEAF_SIZE_1D_eq]
      omega
    · rw [Vector3i.ext_iff3]
      simp only [Vector3i.add_x, Vector3i.add_y, Vector3i.add_z]
      omega

/-! ## Signs stored after sampling and after a union -/

theorem createNode_wellFormed {F SV : Type} [FloatOps F] (vs : VertexSource F SV) (R : Area F)
    (c : F) (sdf : SolidGeometry F) (area : Area F) :
    (LEAF_EXPO : Int) ≤ area.m_SizeExpo →
      (createNode vs R c sdf area : Node SV).WellFormed area := by
  induction area using area_induction with
  | step a ih =>
    intro hle
    rw [createNode_eq]
    cases hn : sdf.cubeNeedsSubdivision a with
    | false =>
      simp only [if_true]
      exact hle
    | true =>
      by_cases he : a.m_SizeExpo ≤ LEAF_EXPO
      · simp only [he, if_true, Bool.true_eq_false, if_false]
        show a.m_SizeExpo = LEAF_EXPO
        omega
      · simp only [he, if_false, Bool.true_eq_false]
        have hlt : (LEAF_EXPO : Int) < a.m_SizeExpo := by omega
        refine ⟨hlt, fun i => ih hlt i ?_⟩
        rw [getSubAreas_sizeExpo]
        omega

theorem grid_storesSign_create {F SV : Type} [FloatOps F] (vs : VertexSource F SV) (R : Area F)
    (c : F) (sdf : SolidGeometry F) (a : Area F) (p : Vector3i) (b : Bool)
    (h : (Node.grid (GridNode.create vs R c a sdf : GridNode SV)).storesSign a p b) :
    b = sdf.getSign (getRealPos R c p) := by
  obtain ⟨x, y, z, hx, hy, hz, hp, hb⟩ := h
  rw [hb, hp, GridNode.create_signs, computeSigns_get R c a sdf _ _ (linear_lt x y z hx hy hz),
    fromIndex_linear x y z hx hy hz]

/-- Every sign stored by a freshly sampled subtree is the sign of the solid at the real
position of the lattice point, when the solid is conservative. -/
theorem createNode_storesSign {F SV : Type} [FloatOps F] (vs : VertexSource F SV) (R : Area F)
    (c : F) (sdf : SolidGeometry F) (hs : Conservative R c sdf) (area : Area F) :
    SubAreaOf R area → ∀ (p : Vector3i) (b : Bool),
      (createNode vs R c sdf area : Node SV).storesSign area p b →
        b = sdf.getSign (getRealPos R c p) := by
  induction area using area_induction with
  | step a ih =>
    intro hsub p b h
    rw [createNode_eq] at h
    cases hn : sdf.cubeNeedsSubdivision a with
    | false =>
      simp only [hn, if_true] at h
      obtain ⟨hc, hb⟩ := h
      obtain ⟨h1, h2⟩ := hs a hsub hn
      rw [hb, h2, h1 p hc]
    | true =>
      by_cases he : a.m_SizeExpo ≤ LEAF_EXPO
      · simp only [hn, he, if_true, Bool.true_eq_false, if_false] at h
        exact grid_storesSign_create vs R c sdf a p b h
      · simp only [hn, he, if_false, Bool.true_eq_false] at h
        have hlt : (LEAF_EXPO : Int) < a.m_SizeExpo := by omega
        obtain ⟨i, hi⟩ := h
        exact ih hlt i (SubAreaOf.step a i hsub hlt) p b hi

/-- The branch of `merge` taken where the solid needs no subdivision. -/
theorem merge_uniform_sound {F SV : Type} [FloatOps F] (vs : VertexSource F SV) (R : Area F)
    (c : F) (sdf : SolidGeometry F) (hs : Conservative R c sdf) (n : Node SV) (a : Area F)
    (hsub : SubAreaOf R a) (hw : n.WellFormed a) (hn : sdf.cubeNeedsSubdivision a = false)
    (p : Vector3i) (b2 : Bool)
    (h : (if (!sdf.getSign (a.getCornerVecs 0).2) = true then n
          else createNode vs R c sdf a).storesSign a p b2) :
    ∃ b, n.storesSign a p b ∧ b2 = (b || sdf.getSign (getRealPos R c p)) := by
  obtain ⟨h1, h2⟩ := hs a hsub hn
  cases hg : sdf.getSign (a.getCornerVecs 0).2 with
  | false =>
    simp only [hg, Bool.not_false, if_true] at h
    have hc := containsLattice_of_storesSign n a p b2 hw h
    refine ⟨b2, h, ?_⟩
    rw [h1 p hc, hg, Bool.or_false]
  | true =>
    simp only [hg, Bool.not_true, Bool.false_eq_true, if_false] at h
    rw [createNode_eq] at h
    simp only [hn, if_true] at h
    obtain ⟨hc, hb⟩ := h
    obtain ⟨b, hb2⟩ := exists_storesSign n a p hw hc
    refine ⟨b, hb2, ?_⟩
    rw [hb, h2, h1 p hc, hg, Bool.or_true]

theorem merge_uniform_complete {F SV : Type} [FloatOps F] (vs : VertexSource F SV) (R : Area F)
    (c : F) (sdf : SolidGeometry F) (hs : Conservative R c sdf) (n : Node SV) (a : Area F)
    (hsub : SubAreaOf R a) (hw : n.WellFormed a) (hn : sdf.cubeNeedsSubdivision a = false)
    (p : Vector3i) (b : Bool) (h : n.storesSign a p b) :
    (if (!sdf.getSign (a.getCornerVecs 0).2) = true then n
      else createNode vs R c sdf a).storesSign a p (b || sdf.getSign (getRealPos R c p)) := by
  obtain ⟨h1, h2⟩ := hs a hsub hn
  have hc := containsLattice_of_storesSign n a p b hw h
  cases hg : sdf.getSign (a.getCornerVecs 0).2 with
  | false =>
    simp only [Bool.not_false, if_true]
    rw [h1 p hc, hg, Bool.or_false]
    exact h
  | true =>
    simp only [Bool.not_true, Bool.false_eq_true, if_false]
    rw [createNode_eq]
    simp only [hn, if_true]
    refine ⟨hc, ?_⟩
    rw [h2, h1 p hc, hg, Bool.or_true]

/-- Soundness of the union: every sign stored after `merge` is an old sign of the same
lattice point combined by OR with the sign of the solid there. -/
theorem merge_storesSign_sound {F SV : Type} [FloatOps F] (vs : VertexSource F SV) (R : Area F)
    (c : F) (sdf : SolidGeometry F) (hs : Conservative R c sdf) (n : Node SV) :
    ∀ (a : Area F), SubAreaOf R a → n.WellFormed a → ∀ (p : Vector3i) (b2 : Bool),
      (merge vs R c sdf n a).storesSign a p b2 →
        ∃ b, n.storesSign a p b ∧ b2 = (b || sdf.getSign (getRealPos R c p)) := by
  induction n with
  | inner ch ih =>
    intro a hsub hw p b2 h
    unfold merge at h
    cases hn : sdf.cubeNeedsSubdivision a with
    | true =>
      simp only [hn, if_true] at h
      obtain ⟨i, hi⟩ := h
      obtain ⟨b, hb, hb2⟩ := ih i _ (SubAreaOf.step a i hsub hw.1) (hw.2 i) p b2 hi
      exact ⟨b, ⟨i, hb⟩, hb2⟩
    | false =>
      simp only [hn, Bool.false_eq_true, if_false] at h
      exact merge_uniform_sound vs R c sdf hs _ a hsub hw hn p b2 h
  | empty s0 =>
    intro a hsub hw p b2 h
    unfold merge at h
    cases hn : sdf.cubeNeedsSubdivision a with
    | false =>
      simp only [hn, Bool.not_false, if_true] at h
      exact merge_uniform_sound vs R c sdf hs _ a hsub hw hn p b2 h
    | true =>
      simp only [hn, Bool.not_true, Bool.false_eq_true, if_false] at h
      cases s0 with
      | true =>
        simp only [if_true] at h
        exact ⟨true, ⟨h.1, rfl⟩, by rw [h.2, Bool.true_or]⟩
      | false =>
        simp only [Bool.false_eq_true, if_false] at h
        have hb := createNode_storesSign vs R c sdf hs a hsub p b2 h
        have hc := containsLattice_of_storesSign _ a p b2
          (createNode_wellFormed vs R c sdf a hw) h
        exact ⟨false, ⟨hc, rfl⟩, by rw [hb, Bool.false_or]⟩
  | grid g =>
    intro a hsub hw p b2 h
    unfold merge at h
    cases hn : sdf.cubeNeedsSubdivision a with
    | false =>
      simp only [hn, Bool.not_false, if_true] at h
      exact merge_uniform_sound vs R c sdf hs _ a hsub hw hn p b2 h
    | true =>
      simp only [hn, Bool.not_true, Bool.false_eq_true, if_false] at h
      obtain ⟨x, y, z, hx, hy, hz, hp, hb⟩ := h
      refine ⟨g.m_Signs.get (x * LEAF_SIZE_2D + y * LEAF_SIZE_1D + z),
        ⟨x, y, z, hx, hy, hz, hp, rfl⟩, ?_⟩
      rw [hb, GridNode.merge_get vs R c a sdf g _ (linear_lt x y z hx hy hz),
        fromIndex_linear x y z hx hy hz, hp]

/-- Completeness of the union: for every sign stored before `merge`, the tree afterwards
stores that sign combined by OR with the sign of the solid, for the same lattice point. -/
theorem merge_storesSign_complete {F SV : Type} [FloatOps F] (vs : VertexSource F SV)
    (R : Area F) (c : F) (sdf : SolidGeometry F) (hs : Conservative R c sdf) (n : Node SV) :
    ∀ (a : Area F), SubAreaOf R a → n.WellFormed a → ∀ (p : Vector3i) (b : Bool),
      n.storesSign a p b →
        (merge vs R c sdf n a).storesSign a p (b || sdf.getSign (getRealPos R c p)) := by
  induction n with
  | inner ch ih =>
    intro a hsub hw p b h
    unfold merge
    cases hn : sdf.cubeNeedsSubdivision a with
    | true =>
      simp only [if_true]
      obtain ⟨i, hi⟩ := h
      exact ⟨i, ih i _ (SubAreaOf.step a i hsub hw.1) (hw.2 i) p b hi⟩
    | false =>
      simp only [Bool.false_eq_true, if_false]
      exact merge_uniform_complete vs R c sdf hs _ a hsub hw hn p b h
  | empty s0 =>
    intro a hsub hw p b h
    unfold merge
    cases hn : sdf.cubeNeedsSubdivision a with
    | false =>
      simp only [Bool.not_false, if_true]
      exact merge_uniform_complete vs R c sdf hs _ a hsub hw hn p b h
    | true =>
      simp only [Bool.not_true, Bool.false_eq_true, if_false]
      obtain ⟨hc, hb⟩ := h
      cases s0 with
      | true =>
        simp only [if_true]
        rw [hb, Bool.true_or]
        exact ⟨hc, rfl⟩
      | false =>
        simp only [Bool.false_eq_true, if_false]
        rw [hb, Bool.false_or]
        obtain ⟨b3, h3⟩ := exists_storesSign (createNode vs R c sdf a : Node SV) a p
          (createNode_wellFormed vs R c sdf a hw) hc
        have e := createNode_storesSign vs R c sdf hs a hsub p b3 h3
        rw [← e]
        exact h3
  | grid g =>
    intro a hsub hw p b h
    unfold merge
    cases hn : sdf.cubeNeedsSubdivision a with
    | false =>
      simp only [Bool.not_false, if_true]
      exact merge_uniform_complete vs R c sdf hs _ a hsub hw hn p b h
    | true =>
      simp only [Bool.not_true, Bool.false_eq_true, if_false]
      obtain ⟨x, y, z, hx, hy, hz, hp, hb⟩ := h
      refine ⟨x, y, z, hx, hy, hz, hp, ?_⟩
      rw [hb, GridNode.merge_get vs R c a sdf g _ (linear_lt x y z hx hy hz),
        fromIndex_linear x y z hx hy hz, hp]

/-! ## Idempotence of leaf and tree CSG -/

theorem GridNode.ext_fields {SV : Type} (g g2 : GridNode SV) (h1 : g.m_Signs = g2.m_Signs)
    (h2 : g.m_SurfaceEdges = g2.m_SurfaceEdges) : g = g2 := by
  cases g
  cases g2
  simp only at h1 h2
  rw [h1, h2]

/-- On a sign-coherent leaf, keeping the crossing edges and running the masked edge
computation changes nothing. -/
theorem rebuild_id {F SV : Type} [FloatOps F] (vs : VertexSource F SV)
    (R : Area F) (c : F) (area : Area F) (sdf : SolidGeometry F) (g : GridNode SV)
    (h : SignCoherent g) :
    computeEdgesIgnoring vs R c area sdf (keepCrossingEdges g.m_Signs g.m_SurfaceEdges).2
        { m_Signs := g.m_Signs
          m_SurfaceEdges := (keepCrossingEdges g.m_Signs g.m_SurfaceEdges).1 } = g := by
  apply GridNode.ext_fields
  · rw [computeEdgesIgnoring_signs]
  · rw [rebuild_edges]
    have hf : g.m_SurfaceEdges.filter (stillCrosses g.m_Signs) = g.m_SurfaceEdges := by
      rw [List.filter_eq_self]
      intro e he
      have := h.differ e he
      unfold stillCrosses
      simpa using this
    have hn : forLoop LEAF_SIZE_3D
        (fun j es => es ++ newEdgesAt vs R c area sdf
          (keepCrossingEdges g.m_Signs g.m_SurfaceEdges).2 g.m_Signs j)
        ([] : List (SurfaceEdge SV)) = [] := by
      rw [List.eq_nil_iff_forall_not_mem]
      intro e he
      rcases mem_forLoop_newEdges vs R c area sdf _ g.m_Signs _ _ e he with h0 | ⟨j, hj, hm⟩
      · cases h0
      · obtain ⟨h1, h2, _, h4⟩ := mem_newEdgesAt vs R c area sdf _ g.m_Signs j e hm
        have hl : IsLatticeEdge e.direction j := by
          refine ⟨h1, hj, ?_⟩
          unfold edgeTest at h4
          simp only [Bool.and_eq_true, decide_eq_true_eq] at h4
          exact h4.1.2
        have hc := edgeCount_rebuild_new vs R c area sdf g.m_Signs g.m_SurfaceEdges
          (fun e2 he2 => (h.wellFormed e2 he2).2) e.direction j hl
        have hz : ¬ (crossing g.m_Signs e.direction j = true
            ∧ edgeCount g.m_SurfaceEdges e.direction j = 0) := by
          rintro ⟨hcr, h0⟩
          rw [h.count e.direction j hl, if_pos hcr] at h0
          exact Nat.one_ne_zero h0
        rw [if_neg hz] at hc
        unfold edgeCount at hc
        rw [List.countP_eq_zero] at hc
        apply hc e he
        simp [h2]
    rw [hf, hn, List.append_nil]

theorem GridNode.merge_create {F SV : Type} [FloatOps F] (vs : VertexSource F SV)
    (R : Area F) (c : F) (area : Area F) (sdf : SolidGeometry F) :
    (GridNode.create vs R c area sdf : GridNode SV).merge vs R c area sdf
      = GridNode.create vs R c area sdf := by
  have hs : forLoop LEAF_SIZE_3D
      (fun i (s : SignArray) =>
        s.set i (s.get i || (computeSigns R c area sdf SignArray.blank).get i))
      (GridNode.create vs R c area sdf : GridNode SV).m_Signs
      = (GridNode.create vs R c area sdf : GridNode SV).m_Signs := by
    apply SignArray.ext_get
    intro j hj
    have h := forLoop_pointwise
      (fun i b => b || (computeSigns R c area sdf SignArray.blank).get i) LEAF_SIZE_3D
      (GridNode.create vs R c area sdf : GridNode SV).m_Signs j
    simp only [hj, and_self, if_true] at h
    rw [h, GridNode.create_signs, Bool.or_self]
  unfold GridNode.merge
  simp only
  rw [hs]
  exact rebuild_id vs R c area sdf _ (GridNode.create_coherent vs R c area sdf)

theorem GridNode.intersect_create {F SV : Type} [FloatOps F] (vs : VertexSource F SV)
    (R : Area F) (c : F) (area : Area F) (sdf : SolidGeometry F) :
    (GridNode.create vs R c area sdf : GridNode SV).intersect vs R c area sdf
      = GridNode.create vs R c area sdf := by
  have hs : forLoop LEAF_SIZE_3D
      (fun i (s : SignArray) =>
        s.set i (s.get i && (computeSigns R c area sdf SignArray.blank).get i))
      (GridNode.create vs R c area sdf : GridNode SV).m_Signs
      = (GridNode.create vs R c area sdf : GridNode SV).m_Signs := by
    apply SignArray.ext_get
    intro j hj
    have h := forLoop_pointwise
      (fun i b => b && (computeSigns R c area sdf SignArray.blank).get i) LEAF_SIZE_3D
      (GridNode.create vs R c area sdf : GridNode SV).m_Signs j
    simp only [hj, and_self, if_true] at h
    rw [h, GridNode.create_signs, Bool.and_self]
  unfold GridNode.intersect
  simp only
  rw [hs]
  exact rebuild_id vs R c area sdf _ (GridNode.create_coherent vs R c area sdf)

theorem merge_createNode {F SV : Type} [FloatOps F] (vs : VertexSource F SV) (R : Area F)
    (c : F) (sdf : SolidGeometry F) (area : Area F) :
    merge vs R c sdf (createNode vs R c sdf area : Node SV) area
      = createNode vs R c sdf area := by
  induction area using area_induction with
  | step a ih =>
    rw [createNode_eq]
    cases hn : sdf.cubeNeedsSubdivision a with
    | false =>
      simp only [if_true]
      unfold merge
      simp only [hn, Bool.not_false, if_true]
      split
      · rfl
      · rw [createNode_eq]
        simp only [hn, if_true]
    | true =>
      by_cases he : a.m_SizeExpo ≤ LEAF_EXPO
      · simp only [he, if_true, Bool.true_eq_false, if_false]
        unfold merge
        simp only [hn, Bool.not_true, Bool.false_eq_true, if_false]
        rw [GridNode.merge_create]
      · simp only [he, if_false, Bool.true_eq_false]
        have hlt : (LEAF_EXPO : Int) < a.m_SizeExpo := by omega
        unfold merge
        simp only [hn, if_true]
        congr 1
        funext i
        exact ih hlt i

theorem intersect_createNode {F SV : Type} [FloatOps F] (vs : VertexSource F SV) (R : Area F)
    (c : F) (sdf : SolidGeometry F) (area : Area F) :
    intersect vs R c sdf (createNode vs R c sdf area : Node SV) area
      = createNode vs R c sdf area := by
  induction area using area_induction with
  | step a ih =>
    rw [createNode_eq]
    cases hn : sdf.cubeNeedsSubdivision a with
    | false =>
      simp only [if_true]
      unfold intersect
      simp only [hn, Bool.not_false, if_true]
      split
      · rfl
      · rfl
    | true =>
      by_cases he : a.m_SizeExpo ≤ LEAF_EXPO
      · simp only [he, if_true, Bool.true_eq_false, if_false]
        unfold intersect
        simp only [hn, Bool.not_true, Bool.false_eq_true, if_false]
        rw [GridNode.intersect_create]
      · simp only [he, if_false, Bool.true_eq_false]
        have hlt : (LEAF_EXPO : Int) < a.m_SizeExpo := by omega
        unfold intersect
        simp only [hn, if_true]
        congr 1
        funext i
        exact ih hlt i

/-! ## Subtracting the sampled solid -/

theorem intersect_inverted_createNode {F SV : Type} [FloatOps F] (vs : VertexSource F SV)
    (R : Area F) (c : F) (sdf : SolidGeometry F)
    (h1 : ∀ a, (OpInvertSDF sdf).cubeNeedsSubdivision a = sdf.cubeNeedsSubdivision a)
    (h2 : ∀ p, (OpInvertSDF sdf).getSign p = !sdf.getSign p)
    (h3 : ∀ a, SubAreaOf R a → sdf.cubeNeedsSubdivision a = false →
      sdf.getSign a.toAABB.getCenter = sdf.getSign (a.getCornerVecs 0).2)
    (area : Area F) :
    SubAreaOf R area →
      (intersect vs R c (OpInvertSDF sdf) (createNode vs R c sdf area : Node SV) area).SameShape
          (createNode vs R c sdf area : Node SV)
      ∧ (intersect vs R c (OpInvertSDF sdf) (createNode vs R c sdf area : Node SV)
          area).AllSignsOutside := by
  induction area using area_induction with
  | step a ih =>
    intro hsub
    rw [createNode_eq]
    cases hn : sdf.cubeNeedsSubdivision a with
    | false =>
      simp only [if_true]
      unfold intersect
      simp only [h1, hn, Bool.not_false, if_true, h2]
      have hc := h3 a hsub hn
      cases hg : sdf.getSign (a.getCornerVecs 0).2 with
      | false =>
        simp only [Bool.not_false, if_true]
        rw [hc, hg]
        exact ⟨trivial, rfl⟩
      | true =>
        simp only [Bool.not_true, Bool.false_eq_true, if_false]
        unfold EmptyNode.create
        rw [h2, hc, hg]
        exact ⟨trivial, rfl⟩
    | true =>
      by_cases he : a.m_SizeExpo ≤ LEAF_EXPO
      · simp only [he, if_true, Bool.true_eq_false, if_false]
        unfold intersect
        simp only [h1, hn, Bool.not_true, Bool.false_eq_true, if_false]
        refine ⟨trivial, ?_⟩
        intro i
        have hg := GridNode.intersect_get vs R c a (OpInvertSDF sdf)
          (GridNode.create vs R c a sdf : GridNode SV) i.val i.isLt
        rw [SignArray.get_val, GridNode.create_signs,
          computeSigns_get R c a sdf _ i.val i.isLt, h2, Bool.and_not_self] at hg
        exact hg
      · simp only [he, if_false, Bool.true_eq_false]
        have hlt : (LEAF_EXPO : Int) < a.m_SizeExpo := by omega
        unfold intersect
        simp only [h1, hn, if_true]
        exact ⟨fun i => (ih hlt i (SubAreaOf.step a i hsub hlt)).1,
          fun i => (ih hlt i (SubAreaOf.step a i hsub hlt)).2⟩

theorem leafRebuilt_of_coherent {F SV : Type} [FloatOps F] (vs : VertexSource F SV)
    (R : Area F) (c : F) (area : Area F) (sdf : SolidGeometry F) (signs : SignArray)
    (g : GridNode SV) (h : SignCoherent g) :
    LeafRebuilt g
      (computeEdgesIgnoring vs R c area sdf (keepCrossingEdges signs g.m_SurfaceEdges).2
        { m_Signs := signs, m_SurfaceEdges := (keepCrossingEdges signs g.m_SurfaceEdges).1 }) := by
  refine ⟨rebuild_coherent vs R c area sdf signs g.m_SurfaceEdges h.wellFormed
    (fun d i hl => h.count_le_one d i hl),
    forLoop LEAF_SIZE_3D
      (fun j es => es ++ newEdgesAt vs R c area sdf
        (keepCrossingEdges signs g.m_SurfaceEdges).2 signs j) [], ?_, ?_⟩
  · rw [rebuild_edges, computeEdgesIgnoring_signs]
  · intro d i hl
    rw [edgeCount_rebuild_new vs R c area sdf signs g.m_SurfaceEdges
      (fun e he => (h.wellFormed e he).2) d i hl, computeEdgesIgnoring_signs]
    have e : (edgeCount g.m_SurfaceEdges d i = 0) = (crossing g.m_Signs d i = false) :=
      propext (h.count_eq_zero_iff d i hl)
    simp only [e]

theorem sampleSDF_root {F SV : Type} [FloatOps F] (vs : VertexSource F SV)
    (solid : SolidGeometry F) (box : AABB F) (maxDepth : Int) :
    (sampleSDF vs solid box maxDepth).m_RootNode
      = createNode vs (sampleSDF vs solid box maxDepth).m_RootArea
          (sampleSDF vs solid box maxDepth).m_CellSize solid
          (sampleSDF vs solid box maxDepth).m_RootArea := rfl

theorem edgeCount_create {F SV : Type} [FloatOps F] (vs : VertexSource F SV)
    (R : Area F) (c : F) (area : Area F) (sdf : SolidGeometry F) (d i : Nat) :
    edgeCount (GridNode.create vs R c area sdf : GridNode SV).m_SurfaceEdges d i
      = if i < LEAF_SIZE_3D ∧ d < 3 ∧ coordOf i d < LEAF_SIZE_1D_INNER
          ∧ crossing (GridNode.create vs R c area sdf : GridNode SV).m_Signs d i = true
        then 1 else 0 := by
  rw [GridNode.create_signs]
  unfold GridNode.create
  rw [computeEdges_eq_ignoring, computeEdgesIgnoring_edges, edgeCount_forLoop, edgeCount_nil,
    Nat.zero_add]
  simp only [edgeTest, EdgeMask.get_zero, Bool.not_false, Bool.true_and, Bool.and_eq_true,
    decide_eq_true_eq]

theorem inLeaf_step (x y z d : Nat) (hx : x < LEAF_SIZE_1D) (hy : y < LEAF_SIZE_1D)
    (hz : z < LEAF_SIZE_1D) (hd : d < 3) :
    ((⟨x, y, z⟩ : Vector3i) + unitVec d).inLeaf
      ↔ coordOf (x * LEAF_SIZE_2D + y * LEAF_SIZE_1D + z) d < LEAF_SIZE_1D_INNER := by
  rw [coordOf_linear x y z d hx hy hz]
  have h : (⟨x, y, z⟩ : Vector3i) + unitVec d = Vector3i.add ⟨x, y, z⟩ (unitVec d) := rfl
  rw [h]
  simp only [Vector3i.inLeaf, Vector3i.add, unitVec, LEAF_SIZE_1D_eq, LEAF_SIZE_1D_INNER_eq]
  simp only [LEAF_SIZE_1D_eq] at hx hy hz
  interval_cases d <;> simp <;> omega

theorem toIndex_linear (x y z : Nat) :
    toIndex ⟨x, y, z⟩ = x * LEAF_SIZE_2D + y * LEAF_SIZE_1D + z := by
  simp only [toIndex]
  omega

/-! ## Facts about the example solids -/

theorem exampleHalfSpace_inverted_needs (a : Area ℚ) :
    (OpInvertSDF exampleHalfSpace).cubeNeedsSubdivision a
      = exampleHalfSpace.cubeNeedsSubdivision a := rfl

theorem exampleHalfSpace_inverted_sign (p : Vector3 ℚ) :
    (OpInvertSDF exampleHalfSpace).getSign p = !exampleHalfSpace.getSign p := by
  unfold OpInvertSDF SolidGeometry.defaultGetSign exampleHalfSpace
  simp only [FloatOps.le, FloatOps.zero, FloatOps.mul, FloatOps.negOne]
  by_cases h : p.x * 2 ≤ 5
  · simp [h]
  · simp [h]

theorem exampleHalfSpace_centre (a : Area ℚ)
    (h : exampleHalfSpace.cubeNeedsSubdivision a = false) :
    exampleHalfSpace.getSign a.toAABB.getCenter
      = exampleHalfSpace.getSign (a.getCornerVecs 0).2 := by
  unfold exampleHalfSpace SolidGeometry.defaultCubeNeedsSubdivision at h
  unfold exampleHalfSpace
  simp only [Area.toAABB, Vector3.add, AABB.getCenter, Vector3.scale, Area.getCornerVecs,
    cornerOffset, bitSet, FloatOps.add, FloatOps.mul, FloatOps.half, FloatOps.ofInt] at h ⊢
  simp only [bne_eq_false_iff_eq, decide_eq_decide] at h
  rw [decide_eq_decide]
  norm_num
  constructor
  · intro hc
    by_contra hn
    have h2 : ¬ (a.m_MinRealPos.x + a.m_RealSize) * 2 ≤ 5 := fun h3 => hn (h.mpr h3)
    linarith
  · intro hc
    have h2 := h.mp hc
    linarith

theorem exampleHalfSpace_needs_root (maxDepth : Int) :
    exampleHalfSpace.cubeNeedsSubdivision
      (sampleSDF exampleVertices exampleHalfSpace exampleBox maxDepth).m_RootArea = true := by
  unfold exampleHalfSpace SolidGeometry.defaultCubeNeedsSubdivision sampleSDF exampleBox
  simp only [Area.toAABB, Vector3.add, Vector3.sub, FloatOps.add, FloatOps.sub, FloatOps.max]
  norm_num

/-! ## Exact arithmetic on areas -/

theorem rat_add (a b : ℚ) : FloatOps.add a b = a + b := rfl

theorem rat_sub (a b : ℚ) : FloatOps.sub a b = a - b := rfl

theorem rat_mul (a b : ℚ) : FloatOps.mul a b = a * b := rfl

theorem rat_div (a b : ℚ) : FloatOps.div a b = a / b := rfl

theorem rat_max (a b : ℚ) : FloatOps.max a b = max a b := by
  show (if a ≤ b then b else a) = max a b
  by_cases h : a ≤ b
  · rw [if_pos h, max_eq_right h]
  · rw [if_neg h, max_eq_left (le_of_lt (not_le.mp h))]

theorem rat_ofInt (n : Int) : (FloatOps.ofInt n : ℚ) = (n : ℚ) := rfl

theorem rat_half : (FloatOps.half : ℚ) = 1 / 2 := rfl

theorem cornerOffset_bits (i : Fin 8) :
    cornerOffset i.val = ⟨bitOf i.val 2, bitOf i.val 1, bitOf i.val 0⟩ := by
  fin_cases i <;> decide

theorem shl1_cast (e : Int) (he : 0 ≤ e) : ((shl1 e : Int) : ℚ) = (2 : ℚ) ^ e := by
  unfold shl1
  obtain ⟨n, rfl⟩ := Int.eq_ofNat_of_zero_le he
  simp

theorem reachedFrom_expo_nonneg {F : Type} [FloatOps F] (root a : Area F)
    (h : ReachedFrom root a) (hr : 0 ≤ root.m_SizeExpo) : 0 ≤ a.m_SizeExpo := by
  induction h with
  | root => exact hr
  | sub a i _ he _ =>
    rw [getSubAreas_sizeExpo]
    omega

theorem getRealPos_rat (R : Area ℚ) (cs : ℚ) (p : Vector3i) :
    getRealPos R cs p
      = ⟨R.m_MinRealPos.x + (p.x : ℚ) * cs, R.m_MinRealPos.y + (p.y : ℚ) * cs,
         R.m_MinRealPos.z + (p.z : ℚ) * cs⟩ := rfl

theorem Vector3.ext_components {F : Type} (a b : Vector3 F) :
    a = b ↔ a.x = b.x ∧ a.y = b.y ∧ a.z = b.z := by
  cases a
  cases b
  simp

/-- In exact arithmetic every area reached from a root whose real side is
`cellSize · 2^e` and whose real minimum is the real position of its integer minimum has
the same two properties. -/
theorem area_agrees (R : Area ℚ) (cs : ℚ) (hR : 0 ≤ R.m_SizeExpo)
    (hsize : R.m_RealSize = cs * (2 : ℚ) ^ R.m_SizeExpo)
    (hmin : R.m_MinRealPos = getRealPos R cs R.m_MinPos) (a : Area ℚ)
    (h : ReachedFrom R a) :
    a.m_RealSize = cs * (2 : ℚ) ^ a.m_SizeExpo
    ∧ a.m_MinRealPos = getRealPos R cs a.m_MinPos := by
  induction h with
  | root => exact ⟨hsize, hmin⟩
  | sub a i hreach he ih =>
    obtain ⟨ih1, ih2⟩ := ih
    have h0 : 0 ≤ a.m_SizeExpo - 1 := by omega
    have hpow : (2 : ℚ) ^ (a.m_SizeExpo - 1) = (2 : ℚ) ^ a.m_SizeExpo / 2 := by
      rw [zpow_sub_one₀ (by norm_num : (2 : ℚ) ≠ 0)]
      ring
    have hhalf : (a.getSubAreas i).m_RealSize = a.m_RealSize / 2 := by
      show FloatOps.mul a.m_RealSize FloatOps.half = _
      rw [rat_mul, rat_half]
      ring
    refine ⟨?_, ?_⟩
    · rw [hhalf, getSubAreas_sizeExpo, hpow, ih1]
      ring
    · have hm : (a.getSubAreas i).m_MinRealPos
          = ⟨a.m_MinRealPos.x + ((cornerOffset i.val).x : ℚ) * (a.m_RealSize / 2),
             a.m_MinRealPos.y + ((cornerOffset i.val).y : ℚ) * (a.m_RealSize / 2),
             a.m_MinRealPos.z + ((cornerOffset i.val).z : ℚ) * (a.m_RealSize / 2)⟩ := by
        show Vector3.add a.m_MinRealPos _ = _
        simp only [Vector3.add, rat_add, rat_mul, rat_ofInt, rat_half]
        congr 1 <;> ring
      rw [hm, ih2, getRealPos_rat, getRealPos_rat, getSubAreas_minPos, ih1]
      have hc := shl1_cast (a.m_SizeExpo - 1) h0
      rw [Vector3.ext_components]
      simp only [Vector3i.add_x, Vector3i.add_y, Vector3i.add_z, Vector3i.scale,
        Int.cast_add, Int.cast_mul, hc, hpow]
      refine ⟨?_, ?_, ?_⟩ <;> ring

/-! ## The box solid and the intersection solid -/

theorem AABB.containsPoint_iff (b : AABB ℚ) (p : Vector3 ℚ) :
    b.containsPoint p = true
      ↔ (p.x ≥ b.min.x ∧ p.x < b.max.x ∧ p.y ≥ b.min.y ∧ p.y < b.max.y
          ∧ p.z ≥ b.min.z ∧ p.z < b.max.z) := by
  unfold AABB.containsPoint
  rw [decide_eq_true_eq]

theorem AABB.getCorner_zero (round : ℚ → ℚ) (q : AABB ℚ) (h : q.SizeExact round) :
    q.getCorner round 0 = q.min := by
  obtain ⟨h0, ⟨hx, hy, hz⟩, _, _⟩ := h
  unfold AABB.getCorner
  rw [Vector3.ext_components]
  have h4 : bitSet 0 4 = 0 := by decide
  have h2 : bitSet 0 2 = 0 := by decide
  have h1 : (((0 &&& 1 : Nat) : Int)) = 0 := by decide
  simp only [h4, h2, h1, Int.cast_zero, zero_mul, h0, add_zero, hx, hy, hz]
  exact ⟨trivial, trivial, trivial⟩

theorem AABB.getCorner_seven (round : ℚ → ℚ) (q : AABB ℚ) (h : q.SizeExact round) :
    q.getCorner round 7 = q.max := by
  obtain ⟨_, _, ⟨hx, hy, hz⟩, sx, sy, sz⟩ := h
  unfold AABB.getCorner
  rw [Vector3.ext_components]
  have h4 : bitSet 7 4 = 1 := by decide
  have h2 : bitSet 7 2 = 1 := by decide
  have h1 : (((7 &&& 1 : Nat) : Int)) = 1 := by decide
  simp only [h4, h2, h1, Int.cast_one, one_mul, sx, sy, sz, add_sub_cancel, hx, hy, hz]
  exact ⟨trivial, trivial, trivial⟩

theorem AABB.sizeExact_id (q : AABB ℚ) : q.SizeExact (fun x => x) :=
  ⟨rfl, ⟨rfl, rfl, rfl⟩, ⟨rfl, rfl, rfl⟩, rfl, rfl, rfl⟩

/-- The binade of a rational number whose absolute value is the natural number `n`. -/
theorem roundToFloat_log (x : ℚ) (n m : Nat) (hx : |x| = (n : ℚ)) (h1 : 2 ^ m ≤ n)
    (h2 : n < 2 ^ (m + 1)) : Int.log 2 |x| = (m : Int) := by
  rw [hx, Int.log_natCast, Nat.log_eq_of_pow_le_of_lt_pow h1 h2]

theorem roundToFloat_zero : roundToFloat 0 = 0 := by
  unfold roundToFloat
  simp

theorem roundToFloat_one : roundToFloat 1 = 1 := by
  have hl : Int.log 2 |(1 : ℚ)| = 0 :=
    roundToFloat_log 1 1 0 (by norm_num) (by norm_num) (by norm_num)
  unfold roundToFloat
  rw [hl]
  have hfl : ⌊(1 : ℚ) / 2 ^ (max (0 : Int) (-126) - 23)⌋ = 8388608 := by
    rw [Int.floor_eq_iff]
    norm_num
  simp only [hfl]
  norm_num

theorem roundToFloat_two : roundToFloat 2 = 2 := by
  have hl : Int.log 2 |(2 : ℚ)| = 1 :=
    roundToFloat_log 2 2 1 (by norm_num) (by norm_num) (by norm_num)
  unfold roundToFloat
  rw [hl]
  have hfl : ⌊(2 : ℚ) / 2 ^ (max (1 : Int) (-126) - 23)⌋ = 8388608 := by
    rw [Int.floor_eq_iff]
    norm_num
  simp only [hfl]
  norm_num

/-- The sum `2^24 + 1` lies halfway between the floats `2^24` and `2^24 + 2` and is rounded
to the even one. -/
theorem roundToFloat_tie : roundToFloat 16777217 = 16777216 := by
  have hl : Int.log 2 |(16777217 : ℚ)| = 24 :=
    roundToFloat_log 16777217 16777217 24 (by norm_num) (by norm_num) (by norm_num)
  unfold roundToFloat
  rw [hl]
  have hfl : ⌊(16777217 : ℚ) / 2 ^ (max (24 : Int) (-126) - 23)⌋ = 8388608 := by
    rw [Int.floor_eq_iff]
    norm_num
  simp only [hfl]
  norm_num

theorem roundToFloat_pow24 : roundToFloat 16777216 = 16777216 := by
  have hl : Int.log 2 |(16777216 : ℚ)| = 24 :=
    roundToFloat_log 16777216 16777216 24 (by norm_num) (by norm_num) (by norm_num)
  unfold roundToFloat
  rw [hl]
  have hfl : ⌊(16777216 : ℚ) / 2 ^ (max (24 : Int) (-126) - 23)⌋ = 8388608 := by
    rw [Int.floor_eq_iff]
    norm_num
  simp only [hfl]
  norm_num

theorem roundToFloat_neg_pow24 : roundToFloat (-16777216) = -16777216 := by
  have hl : Int.log 2 |(-16777216 : ℚ)| = 24 :=
    roundToFloat_log (-16777216) 16777216 24 (by norm_num) (by norm_num) (by norm_num)
  unfold roundToFloat
  rw [hl]
  have hfl : ⌊(-16777216 : ℚ) / 2 ^ (max (24 : Int) (-126) - 23)⌋ = -8388608 := by
    rw [Int.floor_eq_iff]
    norm_num
  simp only [hfl]
  norm_num

/-- One coordinate of a corner of the query box `[-2^24, 1]³` as `float` arithmetic
computes it: the size `2^24 + 1` is rounded to `2^24`, so the coordinate is `-2^24` for
the bit 0 and `0` for the bit 1. -/
theorem roundToFloat_wide_coordinate (b : Int) (hb : b = 0 ∨ b = 1) :
    roundToFloat (-16777216 + roundToFloat ((b : ℚ) * roundToFloat (1 - (-16777216))))
      = -16777216 ∨
    roundToFloat (-16777216 + roundToFloat ((b : ℚ) * roundToFloat (1 - (-16777216))))
      = 0 := by
  have hs : (1 : ℚ) - (-16777216) = 16777217 := by norm_num
  rw [hs, roundToFloat_tie]
  rcases hb with hb | hb
  · left
    rw [hb, Int.cast_zero, zero_mul, roundToFloat_zero, add_zero, roundToFloat_neg_pow24]
  · right
    rw [hb, Int.cast_one, one_mul, roundToFloat_pow24]
    have h0 : (-16777216 : ℚ) + 16777216 = 0 := by norm_num
    rw [h0, roundToFloat_zero]

theorem bitSet_cases (i m : Nat) : bitSet i m = 0 ∨ bitSet i m = 1 := by
  unfold bitSet
  split_ifs
  · exact Or.inr rfl
  · exact Or.inl rfl

theorem and_one_cases (i : Nat) : (((i &&& 1 : Nat) : Int)) = 0 ∨ (((i &&& 1 : Nat) : Int)) = 1 := by
  rw [Nat.and_one_is_mod]
  omega

theorem exampleWideQuery_corner_inside (corner : Nat) :
    exampleDeepBox.containsPoint (exampleWideQuery.getCorner roundToFloat corner) = true := by
  rw [AABB.containsPoint_iff]
  unfold AABB.getCorner
  simp only [exampleWideQuery, exampleDeepBox]
  rcases roundToFloat_wide_coordinate _ (bitSet_cases corner 4) with hx | hx <;>
  rcases roundToFloat_wide_coordinate _ (bitSet_cases corner 2) with hy | hy <;>
  rcases roundToFloat_wide_coordinate _ (and_one_cases corner) with hz | hz <;>
  · rw [hx, hy, hz]
    norm_num

theorem exampleUnitQuery_sizeExact :
    (⟨⟨1, 1, 1⟩, ⟨2, 2, 2⟩⟩ : AABB ℚ).SizeExact roundToFloat := by
  have h21 : (2 : ℚ) - 1 = 1 := by norm_num
  unfold AABB.SizeExact
  simp only [h21, roundToFloat_zero, roundToFloat_one, roundToFloat_two]
  exact ⟨trivial, ⟨trivial, trivial, trivial⟩, ⟨trivial, trivial, trivial⟩, trivial, trivial,
    trivial⟩

theorem roundToFloat_unit_coordinate (b : Int) (hb : b = 0 ∨ b = 1) :
    roundToFloat (1 + roundToFloat ((b : ℚ) * roundToFloat (2 - 1))) = 1 ∨
    roundToFloat (1 + roundToFloat ((b : ℚ) * roundToFloat (2 - 1))) = 2 := by
  have hs : (2 : ℚ) - 1 = 1 := by norm_num
  rw [hs, roundToFloat_one]
  rcases hb with hb | hb
  · left
    rw [hb, Int.cast_zero, zero_mul, roundToFloat_zero, add_zero, roundToFloat_one]
  · right
    rw [hb, Int.cast_one, one_mul, roundToFloat_one]
    have h0 : (1 : ℚ) + 1 = 2 := by norm_num
    rw [h0, roundToFloat_two]

theorem exampleUnitQuery_surface :
    AABBGeometry.intersectsSurface roundToFloat
        (fun aMin aMax bMin bMax => decide (aMax < bMin ∨ bMax < aMin))
        exampleBox ⟨⟨1, 1, 1⟩, ⟨2, 2, 2⟩⟩ = false := by
  unfold AABBGeometry.intersectsSurface
  split_ifs
  · rfl
  · rw [List.any_eq_false]
    intro i _
    have hc : exampleBox.containsPoint
        ((⟨⟨1, 1, 1⟩, ⟨2, 2, 2⟩⟩ : AABB ℚ).getCorner roundToFloat i) = true := by
      rw [AABB.containsPoint_iff]
      unfold AABB.getCorner
      simp only [exampleBox]
      rcases roundToFloat_unit_coordinate _ (bitSet_cases i 4) with hx | hx <;>
      rcases roundToFloat_unit_coordinate _ (bitSet_cases i 2) with hy | hy <;>
      rcases roundToFloat_unit_coordinate _ (and_one_cases i) with hz | hz <;>
      · rw [hx, hy, hz]
        norm_num
    rw [hc]
    simp

/-- The selection loop of `OpIntersectionSDF::getSample` over a list of samples given by
`f`, started from any sample: when no element lies below the start, the start is returned;
otherwise the sample of the first element that attains the minimum. -/
theorem intersection_fold {α K : Type} [LinearOrder K] (f : α → Sample K) (l : List α) :
    ∀ acc : Sample K,
      ((∀ c, c ∈ l → ¬ (f c).signedDistance < acc.signedDistance) →
        l.foldl
          (fun minSample i =>
            if (f i).signedDistance < minSample.signedDistance then f i else minSample) acc
          = acc)
      ∧ ((∃ c, c ∈ l ∧ (f c).signedDistance < acc.signedDistance) →
        ∃ l1 c l2, l = l1 ++ c :: l2
          ∧ l.foldl
              (fun minSample i =>
                if (f i).signedDistance < minSample.signedDistance then f i else minSample)
              acc = f c
          ∧ (f c).signedDistance < acc.signedDistance
          ∧ (∀ d, d ∈ l1 → (f c).signedDistance < (f d).signedDistance)
          ∧ (∀ d, d ∈ l2 → (f c).signedDistance ≤ (f d).signedDistance)) := by
  induction l with
  | nil =>
    intro acc
    exact ⟨fun _ => rfl, fun ⟨c, hc, _⟩ => absurd hc (List.not_mem_nil c)⟩
  | cons c t ih =>
    intro acc
    constructor
    · intro h
      rw [List.foldl_cons, if_neg (h c (List.mem_cons_self c t))]
      exact (ih acc).1 (fun d hd => h d (List.mem_cons_of_mem c hd))
    · intro h
      rw [List.foldl_cons]
      by_cases hc : (f c).signedDistance < acc.signedDistance
      · rw [if_pos hc]
        by_cases ht : ∃ d, d ∈ t ∧ (f d).signedDistance < (f c).signedDistance
        · obtain ⟨l1, d, l2, hl, hr, hlt, h1, h2⟩ := (ih (f c)).2 ht
          refine ⟨c :: l1, d, l2, by rw [hl]; rfl, hr, lt_trans hlt hc, ?_, h2⟩
          intro x hx
          rcases List.mem_cons.mp hx with rfl | hx1
          · exact hlt
          · exact h1 x hx1
        · have hn : ∀ d, d ∈ t → ¬ (f d).signedDistance < (f c).signedDistance :=
            fun d hd hlt => ht ⟨d, hd, hlt⟩
          refine ⟨[], c, t, rfl, (ih (f c)).1 hn, hc, ?_, ?_⟩
          · intro d hd
            exact absurd hd (List.not_mem_nil d)
          · intro d hd
            exact not_lt.mp (hn d hd)
      · rw [if_neg hc]
        obtain ⟨d, hd, hdlt⟩ := h
        have hdt : d ∈ t := by
          rcases List.mem_cons.mp hd with rfl | hd1
          · exact absurd hdlt hc
          · exact hd1
        obtain ⟨l1, e, l2, hl, hr, hlt, h1, h2⟩ := (ih acc).2 ⟨d, hdt, hdlt⟩
        refine ⟨c :: l1, e, l2, by rw [hl]; rfl, hr, hlt, ?_, h2⟩
        intro x hx
        rcases List.mem_cons.mp hx with rfl | hx1
        · exact lt_of_lt_of_le hlt (not_lt.mp hc)
        · exact h1 x hx1

/-- The loop of `OpIntersectionSDF::getSample` on the pair of `minSample` and the local
`sample` selects among the successive contents of the local. -/
theorem intersection_fold_local {K : Type} [LinearOrder K] (point : Vector3 K)
    (l : List (Vector3 K → Sample K → Sample K)) :
    ∀ acc sample : Sample K,
      (l.foldl
        (fun (st : Sample K × Sample K) i =>
          let sample := i point st.2
          if sample.signedDistance < st.1.signedDistance then (sample, sample)
          else (st.1, sample))
        (acc, sample)).1
      = (OpIntersectionSDF.localSamples l point sample).foldl
          (fun minSample s =>
            if (id s).signedDistance < minSample.signedDistance then id s else minSample)
          acc := by
  induction l with
  | nil =>
    intro acc sample
    rfl
  | cons c t ih =>
    intro acc sample
    rw [List.foldl_cons]
    unfold OpIntersectionSDF.localSamples
    rw [List.foldl_cons]
    by_cases hc : (c point sample).signedDistance < acc.signedDistance
    · simp only [id, if_pos hc]
      exact ih _ _
    · simp only [id, if_neg hc]
      exact ih _ _

theorem OpIntersectionSDF.getSample_eq {K : Type} [LinearOrder K] (fltMax : K)
    (m_SDFs : List (Vector3 K → Sample K → Sample K)) (point : Vector3 K)
    (minSample sample : Sample K) :
    OpIntersectionSDF.getSample fltMax m_SDFs point minSample sample
      = (OpIntersectionSDF.localSamples m_SDFs point sample).foldl
          (fun minSample s =>
            if (id s).signedDistance < minSample.signedDistance then id s else minSample)
          { minSample with signedDistance := fltMax } :=
  intersection_fold_local point m_SDFs _ sample

/-- When every child assigns every member of the sample (its result does not depend on the
previous content of the object), the successive contents of the local are the children's
samples. -/
theorem OpIntersectionSDF.localSamples_whole {K : Type} (point : Vector3 K)
    (l : List (Vector3 K → Sample K → Sample K))
    (hw : ∀ i, i ∈ l → ∀ s s2 : Sample K, i point s = i point s2) (sample0 : Sample K) :
    ∀ sample : Sample K,
      OpIntersectionSDF.localSamples l point sample = l.map (fun i => i point sample0) := by
  induction l with
  | nil =>
    intro sample
    rfl
  | cons c t ih =>
    intro sample
    unfold OpIntersectionSDF.localSamples
    rw [List.map_cons, hw c (List.mem_cons_self c t) sample sample0,
      ih (fun i hi => hw i (List.mem_cons_of_mem c hi)) (c point sample0)]

/-! ## Inversion, sampling log and corner mask -/

theorem latticeEdge_upper_lt (d i : Nat) (h : IsLatticeEdge d i) :
    i + stride d < LEAF_SIZE_3D := by
  obtain ⟨hd, hi, hc⟩ := h
  simp only [LEAF_SIZE_3D_eq] at hi ⊢
  have hinner : LEAF_SIZE_1D_INNER = 8 := rfl
  simp only [coordOf, LEAF_SIZE_1D_eq, LEAF_SIZE_2D_eq, hinner] at hc
  simp only [stride, LEAF_SIZE_1D_eq, LEAF_SIZE_2D_eq]
  by_cases h0 : d = 0
  · simp only [h0, if_true] at hc ⊢
    omega
  · by_cases h1 : d = 1
    · simp only [h1, if_true, one_ne_zero, if_false] at hc ⊢
      omega
    · simp only [h0, h1, if_false] at hc ⊢
      omega

theorem GridNode.invert_edges {SV : Type} (g : GridNode SV) :
    g.invert.m_SurfaceEdges = g.m_SurfaceEdges := rfl

theorem GridNode.invert_coherent {SV : Type} (g : GridNode SV) (h : SignCoherent g) :
    SignCoherent g.invert := by
  refine ⟨?_, ?_, ?_⟩
  · intro e he
    exact h.wellFormed e he
  · intro e he
    have hw := h.wellFormed e he
    have h1 : e.edgeIndex1 < LEAF_SIZE_3D := hw.1.2.1
    have h2 : e.edgeIndex2 < LEAF_SIZE_3D := by
      rw [hw.2]
      exact latticeEdge_upper_lt _ _ hw.1
    rw [GridNode.invert_get g _ h1, GridNode.invert_get g _ h2]
    intro hc
    exact h.differ e he (Bool.not_inj hc)
  · intro d i hdi
    have h1 : i < LEAF_SIZE_3D := hdi.2.1
    have h2 := latticeEdge_upper_lt d i hdi
    have hcr : crossing g.invert.m_Signs d i = crossing g.m_Signs d i := by
      unfold crossing
      rw [GridNode.invert_get g _ h1, GridNode.invert_get g _ h2]
      cases g.m_Signs.get i <;> cases g.m_Signs.get (i + stride d) <;> rfl
    rw [hcr]
    exact h.count d i hdi

theorem computeSignsLogged_loop {σ : Type} (n : Nat) (g : Nat → Nat → σ → σ) (s : σ) :
    forLoop n (fun j (st : (σ × Nat) × List Nat) =>
        ((g j st.1.2 st.1.1, st.1.2 + 1), st.2 ++ [st.1.2])) ((s, 0), [])
      = ((forLoop n (fun j st => g j j st) s, n), List.range n) := by
  induction n with
  | zero => rfl
  | succ n ih => rw [forLoop_succ, ih, forLoop_succ, List.range_succ]

theorem computeSignsLogged_eq {F : Type} [FloatOps F] (R : Area F) (c : F) (area : Area F)
    (sdf : SolidGeometry F) (s : SignArray) :
    computeSignsLogged R c area sdf s
      = (computeSigns R c area sdf s, List.range LEAF_SIZE_3D) := by
  rw [computeSigns_eq]
  unfold computeSignsLogged
  rw [forLoop_nest3 (fun x y z (st : (SignArray × Nat) × List Nat) =>
    (computeSignsBody R c area sdf x y z st.1, st.2 ++ [st.1.2]))]
  have h := computeSignsLogged_loop LEAF_SIZE_3D
    (fun j k (a : SignArray) =>
      a.set k (sdf.getSign (getRealPos R c (area.m_MinPos + fromIndex j)))) s
  simp only [computeSignsBody, fromIndex] at h ⊢
  rw [h]

theorem getCubeBitMask_eq (index : Nat) (signs : SignArray) :
    getCubeBitMask index signs
      = (signs.get index).toNat
        + 2 * (signs.get (index + 1)).toNat
        + 4 * (signs.get (index + LEAF_SIZE_1D)).toNat
        + 8 * (signs.get (index + LEAF_SIZE_1D + 1)).toNat
        + 16 * (signs.get (index + LEAF_SIZE_2D)).toNat
        + 32 * (signs.get (index + LEAF_SIZE_2D + 1)).toNat
        + 64 * (signs.get (index + LEAF_SIZE_2D + LEAF_SIZE_1D)).toNat
        + 128 * (signs.get (index + LEAF_SIZE_2D + LEAF_SIZE_1D + 1)).toNat := by
  unfold getCubeBitMask
  cases signs.get index <;> cases signs.get (index + 1)
    <;> cases signs.get (index + LEAF_SIZE_1D) <;> cases signs.get (index + LEAF_SIZE_1D + 1)
    <;> cases signs.get (index + LEAF_SIZE_2D) <;> cases signs.get (index + LEAF_SIZE_2D + 1)
    <;> cases signs.get (index + LEAF_SIZE_2D + LEAF_SIZE_1D)
    <;> cases signs.get (index + LEAF_SIZE_2D + LEAF_SIZE_1D + 1) <;> rfl

theorem getCubeBitMask_testBit (idx : Nat) (signs : SignArray) (i : Fin 8) :
    signs.get (idx + ((i.val >>> 2) &&& 1) * LEAF_SIZE_1D ^ 2
        + ((i.val >>> 1) &&& 1) * LEAF_SIZE_1D + (i.val &&& 1))
      = (getCubeBitMask idx signs).testBit i.val := by
  rw [getCubeBitMask_eq]
  have e0 : idx + 0 * LEAF_SIZE_1D ^ 2 + 0 * LEAF_SIZE_1D + 0 = idx := by omega
  have e1 : idx + 0 * LEAF_SIZE_1D ^ 2 + 0 * LEAF_SIZE_1D + 1 = idx + 1 := by omega
  have e2 : idx + 0 * LEAF_SIZE_1D ^ 2 + 1 * LEAF_SIZE_1D + 0 = idx + LEAF_SIZE_1D := by
    omega
  have e3 : idx + 0 * LEAF_SIZE_1D ^ 2 + 1 * LEAF_SIZE_1D + 1 = idx + LEAF_SIZE_1D + 1 := by
    omega
  have e4 : idx + 1 * LEAF_SIZE_1D ^ 2 + 0 * LEAF_SIZE_1D + 0 = idx + LEAF_SIZE_2D := by
    norm_num [LEAF_SIZE_1D_eq, LEAF_SIZE_2D_eq]
  have e5 : idx + 1 * LEAF_SIZE_1D ^ 2 + 0 * LEAF_SIZE_1D + 1 = idx + LEAF_SIZE_2D + 1 := by
    norm_num [LEAF_SIZE_1D_eq, LEAF_SIZE_2D_eq]
  have e6 : idx + 1 * LEAF_SIZE_1D ^ 2 + 1 * LEAF_SIZE_1D + 0
      = idx + LEAF_SIZE_2D + LEAF_SIZE_1D := by
    norm_num [LEAF_SIZE_1D_eq, LEAF_SIZE_2D_eq]
  have e7 : idx + 1 * LEAF_SIZE_1D ^ 2 + 1 * LEAF_SIZE_1D + 1
      = idx + LEAF_SIZE_2D + LEAF_SIZE_1D + 1 := by
    norm_num [LEAF_SIZE_1D_eq, LEAF_SIZE_2D_eq]
  fin_cases i
  · show signs.get (idx + 0 * LEAF_SIZE_1D ^ 2 + 0 * LEAF_SIZE_1D + 0) = _
    rw [e0]
    cases signs.get idx <;> cases signs.get (idx + 1)
      <;> cases signs.get (idx + LEAF_SIZE_1D) <;> cases signs.get (idx + LEAF_SIZE_1D + 1)
      <;> cases signs.get (idx + LEAF_SIZE_2D) <;> cases signs.get (idx + LEAF_SIZE_2D + 1)
      <;> cases signs.get (idx + LEAF_SIZE_2D + LEAF_SIZE_1D)
      <;> cases signs.get (idx + LEAF_SIZE_2D + LEAF_SIZE_1D + 1) <;> rfl
  · show signs.get (idx + 0 * LEAF_SIZE_1D ^ 2 + 0 * LEAF_SIZE_1D + 1) = _
    rw [e1]
    cases signs.get idx <;> cases signs.get (idx + 1)
      <;> cases signs.get (idx + LEAF_SIZE_1D) <;> cases signs.get (idx + LEAF_SIZE_1D + 1)
      <;> cases signs.get (idx + LEAF_SIZE_2D) <;> cases signs.get (idx + LEAF_SIZE_2D + 1)
      <;> cases signs.get (idx + LEAF_SIZE_2D + LEAF_SIZE_1D)
      <;> cases signs.get (idx + LEAF_SIZE_2D + LEAF_SIZE_1D + 1) <;> rfl
  · show signs.get (idx + 0 * LEAF_SIZE_1D ^ 2 + 1 * LEAF_SIZE_1D + 0) = _
    rw [e2]
    cases signs.get idx <;> cases signs.get (idx + 1)
      <;> cases signs.get (idx + LEAF_SIZE_1D) <;> cases signs.get (idx + LEAF_SIZE_1D + 1)
      <;> cases signs.get (idx + LEAF_SIZE_2D) <;> cases signs.get (idx + LEAF_SIZE_2D + 1)
      <;> cases signs.get (idx + LEAF_SIZE_2D + LEAF_SIZE_1D)
      <;> cases signs.get (idx + LEAF_SIZE_2D + LEAF_SIZE_1D + 1) <;> rfl
  · show signs.get (idx + 0 * LEAF_SIZE_1D ^ 2 + 1 * LEAF_SIZE_1D + 1) = _
    rw [e3]
    cases signs.get idx <;> cases signs.get (idx + 1)
      <;> cases signs.get (idx + LEAF_SIZE_1D) <;> cases signs.get (idx + LEAF_SIZE_1D + 1)
      <;> cases signs.get (idx + LEAF_SIZE_2D) <;> cases signs.get (idx + LEAF_SIZE_2D + 1)
      <;> cases signs.get (idx + LEAF_SIZE_2D + LEAF_SIZE_1D)
      <;> cases signs.get (idx + LEAF_SIZE_2D + LEAF_SIZE_1D + 1) <;> rfl
  · show signs.get (idx + 1 * LEAF_SIZE_1D ^ 2 + 0 * LEAF_SIZE_1D + 0) = _
    rw [e4]
    cases signs.get idx <;> cases signs.get (idx + 1)
      <;> cases signs.get (idx + LEAF_SIZE_1D) <;> cases signs.get (idx + LEAF_SIZE_1D + 1)
      <;> cases signs.get (idx + LEAF_SIZE_2D) <;> cases signs.get (idx + LEAF_SIZE_2D + 1)
      <;> cases signs.get (idx + LEAF_SIZE_2D + LEAF_SIZE_1D)
      <;> cases signs.get (idx + LEAF_SIZE_2D + LEAF_SIZE_1D + 1) <;> rfl
  · show signs.get (idx + 1 * LEAF_SIZE_1D ^ 2 + 0 * LEAF_SIZE_1D + 1) = _
    rw [e5]
    cases signs.get idx <;> cases signs.get (idx + 1)
      <;> cases signs.get (idx + LEAF_SIZE_1D) <;> cases signs.get (idx + LEAF_SIZE_1D + 1)
      <;> cases signs.get (idx + LEAF_SIZE_2D) <;> cases signs.get (idx + LEAF_SIZE_2D + 1)
      <;> cases signs.get (idx + LEAF_SIZE_2D + LEAF_SIZE_1D)
      <;> cases signs.get (idx + LEAF_SIZE_2D + LEAF_SIZE_1D + 1) <;> rfl
  · show signs.get (idx + 1 * LEAF_SIZE_1D ^ 2 + 1 * LEAF_SIZE_1D + 0) = _
    rw [e6]
    cases signs.get idx <;> cases signs.get (idx + 1)
      <;> cases signs.get (idx + LEAF_SIZE_1D) <;> cases signs.get (idx + LEAF_SIZE_1D + 1)
      <;> cases signs.get (idx + LEAF_SIZE_2D) <;> cases signs.get (idx + LEAF_SIZE_2D + 1)
      <;> cases signs.get (idx + LEAF_SIZE_2D + LEAF_SIZE_1D)
      <;> cases signs.get (idx + LEAF_SIZE_2D + LEAF_SIZE_1D + 1) <;> rfl
  · show signs.get (idx + 1 * LEAF_SIZE_1D ^ 2 + 1 * LEAF_SIZE_1D + 1) = _
    rw [e7]
    cases signs.get idx <;> cases signs.get (idx + 1)
      <;> cases signs.get (idx + LEAF_SIZE_1D) <;> cases signs.get (idx + LEAF_SIZE_1D + 1)
      <;> cases signs.get (idx + LEAF_SIZE_2D) <;> cases signs.get (idx + LEAF_SIZE_2D + 1)
      <;> cases signs.get (idx + LEAF_SIZE_2D + LEAF_SIZE_1D)
      <;> cases signs.get (idx + LEAF_SIZE_2D + LEAF_SIZE_1D + 1) <;> rfl

theorem getCubeBitMask_lt (idx : Nat) (signs : SignArray) :
    getCubeBitMask idx signs < 2 ^ 8 := by
  rw [getCubeBitMask_eq]
  cases signs.get idx <;> cases signs.get (idx + 1)
    <;> cases signs.get (idx + LEAF_SIZE_1D) <;> cases signs.get (idx + LEAF_SIZE_1D + 1)
    <;> cases signs.get (idx + LEAF_SIZE_2D) <;> cases signs.get (idx + LEAF_SIZE_2D + 1)
    <;> cases signs.get (idx + LEAF_SIZE_2D + LEAF_SIZE_1D)
    <;> cases signs.get (idx + LEAF_SIZE_2D + LEAF_SIZE_1D + 1) <;> decide

/-! ## Vertex pass -/

theorem generateVerticesBody_inv {V : Type} (heap : VertexHeap V) (buffer : List V)
    (acc : List Nat) (st : VertexHeap V × List V) (i : SurfaceEdge Nat)
    (h : EmittedSoFar heap buffer acc st) :
    EmittedSoFar heap buffer
      (if (heap i.sharedVertex).shared = true ∧ i.sharedVertex ∉ acc then
        acc ++ [i.sharedVertex] else acc)
      (generateVerticesBody i st) := by
  unfold generateVerticesBody
  by_cases hs : (heap i.sharedVertex).shared = true
  · by_cases hm : i.sharedVertex ∈ acc
    · have hmk : (st.1 i.sharedVertex).marked = true := (h.marked _).mpr hm
      simp only [hm, not_true_eq_false, and_false, if_false, hmk, Bool.not_true,
        Bool.false_and, Bool.false_eq_true]
      exact h
    · have hmk : (st.1 i.sharedVertex).marked = false := by
        rw [← Bool.not_eq_true, h.marked]
        exact hm
      have hsh : (st.1 i.sharedVertex).shared = true := by rw [h.shared, hs]
      have hcond : (!(st.1 i.sharedVertex).marked && (st.1 i.sharedVertex).shared) = true := by
        rw [hmk, hsh]
        rfl
      dsimp only
      rw [if_pos hcond, if_pos ⟨hs, hm⟩]
      refine ⟨?_, ?_, ?_, ?_, ?_, ?_⟩
      · show st.2 ++ [(st.1 i.sharedVertex).vertex] = _
        rw [h.buf, h.vertex, List.map_append, List.append_assoc]
        rfl
      · intro p
        show (VertexHeap.set st.1 i.sharedVertex _ p).shared = _
        unfold VertexHeap.set
        by_cases hp : p = i.sharedVertex
        · rw [if_pos hp, hp]
          exact h.shared _
        · rw [if_neg hp]
          exact h.shared p
      · intro p
        show (VertexHeap.set st.1 i.sharedVertex _ p).vertex = _
        unfold VertexHeap.set
        by_cases hp : p = i.sharedVertex
        · rw [if_pos hp, hp]
          exact h.vertex _
        · rw [if_neg hp]
          exact h.vertex p
      · intro p
        show (VertexHeap.set st.1 i.sharedVertex _ p).marked = true ↔ _
        unfold VertexHeap.set
        by_cases hp : p = i.sharedVertex
        · rw [if_pos hp, hp]
          simp
        · rw [if_neg hp, h.marked p]
          simp [hp]
      · intro p hpm
        show (VertexHeap.set st.1 i.sharedVertex _ p).vertexIndex = _
        unfold VertexHeap.set
        by_cases hp : p = i.sharedVertex
        · rw [if_pos hp, hp, List.indexOf_append_of_not_mem hm, List.indexOf_cons_self]
          show st.2.length = _
          rw [h.buf, List.length_append, List.length_map]
          rfl
        · rw [if_neg hp]
          have hpa : p ∈ acc := by
            rcases List.mem_append.mp hpm with h1 | h1
            · exact h1
            · exact absurd (List.mem_singleton.mp h1) hp
          rw [List.indexOf_append_of_mem hpa]
          exact h.index p hpa
      · rw [List.nodup_append]
        refine ⟨h.nodup, List.nodup_singleton _, ?_⟩
        intro x hx hx2
        rw [List.mem_singleton] at hx2
        rw [hx2] at hx
        exact hm hx
  · have hsh : (st.1 i.sharedVertex).shared = false := by
      rw [h.shared, ← Bool.not_eq_true]
      exact hs
    simp only [hs, false_and, if_false, hsh, Bool.and_false, Bool.false_eq_true]
    exact h

theorem generateVertices_fold_inv {V : Type} (heap : VertexHeap V) (buffer : List V)
    (edges : List (SurfaceEdge Nat)) :
    ∀ (acc : List Nat) (st : VertexHeap V × List V), EmittedSoFar heap buffer acc st →
      EmittedSoFar heap buffer
        ((edges.map (fun e => e.sharedVertex)).foldl
          (fun acc p => if (heap p).shared = true ∧ p ∉ acc then acc ++ [p] else acc) acc)
        (edges.foldl (fun st i => generateVerticesBody i st) st) := by
  induction edges with
  | nil => exact fun _ _ h => h
  | cons e t ih =>
    intro acc st h
    rw [List.map_cons, List.foldl_cons, List.foldl_cons]
    exact ih _ _ (generateVerticesBody_inv heap buffer acc st e h)

theorem generateVerticesAll_inv {V : Type} (heap : VertexHeap V) (buffer : List V)
    (leaves : List (GridNode Nat)) :
    ∀ (acc : List Nat) (st : VertexHeap V × List V), EmittedSoFar heap buffer acc st →
      EmittedSoFar heap buffer
        ((leafReferences leaves).foldl
          (fun acc p => if (heap p).shared = true ∧ p ∉ acc then acc ++ [p] else acc) acc)
        (generateVerticesAll leaves st) := by
  induction leaves with
  | nil => exact fun _ _ h => h
  | cons g t ih =>
    intro acc st h
    show EmittedSoFar heap buffer _ (generateVerticesAll t (g.generateVertices st))
    rw [leafReferences, List.foldl_append]
    exact ih _ _ (generateVertices_fold_inv heap buffer g.m_SurfaceEdges acc st h)

theorem emittedSoFar_start {V : Type} (heap : VertexHeap V) (buffer : List V)
    (hmarked : ∀ p, (heap p).marked = false) : EmittedSoFar heap buffer [] (heap, buffer) := by
  refine ⟨by simp, fun _ => rfl, fun _ => rfl, ?_, ?_, List.nodup_nil⟩
  · intro p
    simp [hmarked p]
  · intro p hp
    exact absurd hp (List.not_mem_nil p)

theorem mem_firstReferences_fold {V : Type} (heap : VertexHeap V) (refs : List Nat) :
    ∀ (acc : List Nat) (p : Nat),
      p ∈ refs.foldl
          (fun acc p => if (heap p).shared = true ∧ p ∉ acc then acc ++ [p] else acc) acc
        ↔ p ∈ acc ∨ (p ∈ refs ∧ (heap p).shared = true) := by
  induction refs with
  | nil =>
    intro acc p
    simp
  | cons r t ih =>
    intro acc p
    rw [List.foldl_cons, ih]
    by_cases hc : (heap r).shared = true ∧ r ∉ acc
    · rw [if_pos hc, List.mem_append, List.mem_singleton, List.mem_cons]
      constructor
      · rintro ((h | h) | h)
        · exact Or.inl h
        · exact Or.inr ⟨Or.inl h, by rw [h]; exact hc.1⟩
        · exact Or.inr ⟨Or.inr h.1, h.2⟩
      · rintro (h | ⟨h | h, hs⟩)
        · exact Or.inl (Or.inl h)
        · exact Or.inl (Or.inr h)
        · exact Or.inr ⟨h, hs⟩
    · rw [if_neg hc, List.mem_cons]
      constructor
      · rintro (h | h)
        · exact Or.inl h
        · exact Or.inr ⟨Or.inr h.1, h.2⟩
      · rintro (h | ⟨h | h, hs⟩)
        · exact Or.inl h
        · rw [h] at hs
          by_cases hr : r ∈ acc
          · exact Or.inl (h ▸ hr)
          · exact absurd ⟨hs, hr⟩ hc
        · exact Or.inr ⟨h, hs⟩

theorem firstReferences_snoc {V : Type} (heap : VertexHeap V) (refs : List Nat) (r : Nat) :
    firstReferences heap (refs ++ [r])
      = if (heap r).shared = true ∧ r ∉ firstReferences heap refs then
          firstReferences heap refs ++ [r]
        else firstReferences heap refs := by
  unfold firstReferences
  rw [List.foldl_append]
  rfl

theorem mem_firstReferences {V : Type} (heap : VertexHeap V) (refs : List Nat) (p : Nat) :
    p ∈ firstReferences heap refs ↔ p ∈ refs ∧ (heap p).shared = true := by
  unfold firstReferences
  rw [mem_firstReferences_fold]
  simp

theorem firstReferences_order {V : Type} (heap : VertexHeap V) (refs : List Nat) :
    ∀ p q, p ∈ firstReferences heap refs → q ∈ firstReferences heap refs →
      ((firstReferences heap refs).indexOf p < (firstReferences heap refs).indexOf q
        ↔ refs.indexOf p < refs.indexOf q) := by
  induction refs using List.reverseRecOn with
  | nil =>
    intro p q hp
    exact absurd hp (List.not_mem_nil p)
  | append_singleton l r ih =>
    intro p q hp hq
    rw [firstReferences_snoc] at hp hq ⊢
    by_cases hc : (heap r).shared = true ∧ r ∉ firstReferences heap l
    · rw [if_pos hc] at hp hq ⊢
      have hrl : r ∉ l := fun hrl => hc.2 ((mem_firstReferences heap l r).mpr ⟨hrl, hc.1⟩)
      have old : ∀ x, x ∈ firstReferences heap l →
          (firstReferences heap l ++ [r]).indexOf x = (firstReferences heap l).indexOf x
          ∧ (l ++ [r]).indexOf x = l.indexOf x
          ∧ (firstReferences heap l).indexOf x < (firstReferences heap l).length
          ∧ l.indexOf x < l.length := by
        intro x hx
        have hxl : x ∈ l := ((mem_firstReferences heap l x).mp hx).1
        exact ⟨List.indexOf_append_of_mem hx, List.indexOf_append_of_mem hxl,
          List.indexOf_lt_length.mpr hx, List.indexOf_lt_length.mpr hxl⟩
      have new1 : (firstReferences heap l ++ [r]).indexOf r = (firstReferences heap l).length := by
        rw [List.indexOf_append_of_not_mem hc.2, List.indexOf_cons_self]
        rfl
      have new2 : (l ++ [r]).indexOf r = l.length := by
        rw [List.indexOf_append_of_not_mem hrl, List.indexOf_cons_self]
        rfl
      rcases List.mem_append.mp hp with hp1 | hp1
      · rcases List.mem_append.mp hq with hq1 | hq1
        · rw [(old p hp1).1, (old p hp1).2.1, (old q hq1).1, (old q hq1).2.1]
          exact ih p q hp1 hq1
        · rw [List.mem_singleton] at hq1
          rw [hq1, new1, new2, (old p hp1).1, (old p hp1).2.1]
          exact ⟨fun _ => (old p hp1).2.2.2, fun _ => (old p hp1).2.2.1⟩
      · rw [List.mem_singleton] at hp1
        rcases List.mem_append.mp hq with hq1 | hq1
        · rw [hp1, new1, new2, (old q hq1).1, (old q hq1).2.1]
          constructor
          · intro h
            exact absurd h (not_lt.mpr (le_of_lt (old q hq1).2.2.1))
          · intro h
            exact absurd h (not_lt.mpr (le_of_lt (old q hq1).2.2.2))
        · rw [List.mem_singleton] at hq1
          rw [hp1, hq1]
          simp
    · rw [if_neg hc] at hp hq ⊢
      have hpl : p ∈ l := ((mem_firstReferences heap l p).mp hp).1
      have hql : q ∈ l := ((mem_firstReferences heap l q).mp hq).1
      rw [List.indexOf_append_of_mem hpl, List.indexOf_append_of_mem hql]
      exact ih p q hp hq

/-! ## Index pass -/

theorem indexLoop_inner {α : Type} (f : Nat → α → α) (n : Nat) (a : α) (b : Nat) :
    forLoop n (fun _ (st : α × Nat) => (f st.2 st.1, st.2 + 1)) (a, b)
      = ((List.range n).foldl (fun a z => f (b + z) a) a, b + n) := by
  induction n with
  | zero => rfl
  | succ n ih =>
    rw [forLoop_succ, ih, List.range_succ, List.foldl_append]
    rfl

theorem indexLoop_outer {α : Type} (inner : α × Nat → α × Nat) (F : Nat → α → α) (k w : Nat)
    (hinner : ∀ a b, inner (a, b) = (F b a, b + w)) (n : Nat) (a : α) (b : Nat) :
    forLoop n (fun _ (st : α × Nat) => ((inner st).1, (inner st).2 + k)) (a, b)
      = ((List.range n).foldl (fun a y => F (b + y * (w + k)) a) a, b + n * (w + k)) := by
  induction n with
  | zero => simp [forLoop]
  | succ n ih =>
    rw [forLoop_succ, ih, List.range_succ, List.foldl_append]
    simp only [hinner, List.foldl_cons, List.foldl_nil]
    congr 1
    ring

theorem foldl_flatMap_eq {α β γ : Type} (f : γ → β → γ) (g : α → List β) (l : List α) :
    ∀ c : γ, (l.flatMap g).foldl f c = l.foldl (fun c x => (g x).foldl f c) c := by
  induction l with
  | nil => exact fun _ => rfl
  | cons x t ih =>
    intro c
    rw [List.flatMap_cons, List.foldl_append, ih]
    rfl

theorem GridNode.generateIndices_eq {V : Type} (tlt : TLT) (heap : VertexHeap V)
    (g : GridNode Nat) (indices : List Nat) :
    g.generateIndices tlt heap indices
      = subCells.foldl
          (fun acc idx =>
            generateIndicesCell tlt heap (surfaceEdgeMaps g.m_SurfaceEdges) g.m_Signs idx acc)
          (some indices) := by
  unfold GridNode.generateIndices
  have hz : ∀ (a : Option (List Nat)) (b : Nat),
      forLoop LEAF_SIZE_1D_INNER (fun _ (st : Option (List Nat) × Nat) =>
          (generateIndicesCell tlt heap (surfaceEdgeMaps g.m_SurfaceEdges) g.m_Signs st.2 st.1,
            st.2 + 1)) (a, b)
        = ((List.range LEAF_SIZE_1D_INNER).foldl
            (fun a z => generateIndicesCell tlt heap (surfaceEdgeMaps g.m_SurfaceEdges)
              g.m_Signs (b + z) a) a, b + LEAF_SIZE_1D_INNER) :=
    fun a b => indexLoop_inner _ _ a b
  have hy := indexLoop_outer
    (fun st => forLoop LEAF_SIZE_1D_INNER (fun _ (st : Option (List Nat) × Nat) =>
      (generateIndicesCell tlt heap (surfaceEdgeMaps g.m_SurfaceEdges) g.m_Signs st.2 st.1,
        st.2 + 1)) st)
    (fun b a => (List.range LEAF_SIZE_1D_INNER).foldl
      (fun a z => generateIndicesCell tlt heap (surfaceEdgeMaps g.m_SurfaceEdges)
        g.m_Signs (b + z) a) a)
    1 LEAF_SIZE_1D_INNER hz LEAF_SIZE_1D_INNER
  have hx := indexLoop_outer
    (fun st => forLoop LEAF_SIZE_1D_INNER (fun _ (st : Option (List Nat) × Nat) =>
      ((forLoop LEAF_SIZE_1D_INNER (fun _ (st : Option (List Nat) × Nat) =>
        (generateIndicesCell tlt heap (surfaceEdgeMaps g.m_SurfaceEdges) g.m_Signs st.2 st.1,
          st.2 + 1)) st).1,
       (forLoop LEAF_SIZE_1D_INNER (fun _ (st : Option (List Nat) × Nat) =>
        (generateIndicesCell tlt heap (surfaceEdgeMaps g.m_SurfaceEdges) g.m_Signs st.2 st.1,
          st.2 + 1)) st).2 + 1)) st)
    (fun b a => (List.range LEAF_SIZE_1D_INNER).foldl
      (fun a y => (List.range LEAF_SIZE_1D_INNER).foldl
        (fun a z => generateIndicesCell tlt heap (surfaceEdgeMaps g.m_SurfaceEdges)
          g.m_Signs (b + y * (LEAF_SIZE_1D_INNER + 1) + z) a) a) a)
    LEAF_SIZE_1D (LEAF_SIZE_1D_INNER * (LEAF_SIZE_1D_INNER + 1)) hy LEAF_SIZE_1D_INNER
    (some indices) 0
  dsimp only at hx ⊢
  rw [hx]
  dsimp only
  unfold subCells
  rw [foldl_flatMap_eq]
  apply List.foldl_ext
  intro a x _
  rw [foldl_flatMap_eq]
  apply List.foldl_ext
  intro a2 y _
  rw [List.foldl_map]
  apply List.foldl_ext
  intro a3 z _
  have e : 0 + x * (LEAF_SIZE_1D_INNER * (LEAF_SIZE_1D_INNER + 1) + LEAF_SIZE_1D)
      + y * (LEAF_SIZE_1D_INNER + 1) + z = x * LEAF_SIZE_2D + y * LEAF_SIZE_1D + z := by
    have h8 : LEAF_SIZE_1D_INNER = 8 := rfl
    rw [h8, LEAF_SIZE_1D_eq, LEAF_SIZE_2D_eq]
    omega
  rw [e]
theorem surfaceEdgeMaps_snoc (l : List (SurfaceEdge Nat)) (i : SurfaceEdge Nat) (d j : Nat) :
    surfaceEdgeMaps (l ++ [i]) d j
      = if d = i.direction ∧ j = i.edgeIndex1 then some i else surfaceEdgeMaps l d j := by
  unfold surfaceEdgeMaps
  rw [List.foldl_append]
  rfl

theorem surfaceEdgeMaps_eq_find (edges : List (SurfaceEdge Nat)) (d j : Nat) :
    edgeCount edges d j ≤ 1 →
      surfaceEdgeMaps edges d j
        = edges.find? (fun e => decide (e.direction = d ∧ e.edgeIndex1 = j)) := by
  induction edges using List.reverseRecOn with
  | nil => exact fun _ => rfl
  | append_singleton l i ih =>
    intro h
    unfold edgeCount at h ih
    rw [List.countP_append] at h
    rw [surfaceEdgeMaps_snoc, List.find?_append]
    by_cases hi : i.direction = d ∧ i.edgeIndex1 = j
    · have hone : List.countP (fun e => decide (e.direction = d ∧ e.edgeIndex1 = j)) [i] = 1 := by
        simp [List.countP_cons, hi]
      have hzero : List.countP (fun e => decide (e.direction = d ∧ e.edgeIndex1 = j)) l = 0 := by
        omega
      have hnone : l.find? (fun e => decide (e.direction = d ∧ e.edgeIndex1 = j)) = none := by
        rw [List.find?_eq_none]
        exact List.countP_eq_zero.mp hzero
      rw [hnone, if_pos ⟨hi.1.symm, hi.2.symm⟩]
      simp [List.find?_cons, hi]
    · have hlast : [i].find? (fun e => decide (e.direction = d ∧ e.edgeIndex1 = j)) = none := by
        simp [List.find?_cons, hi]
      have hne : ¬ (d = i.direction ∧ j = i.edgeIndex1) := fun hc => hi ⟨hc.1.symm, hc.2.symm⟩
      rw [hlast, if_neg hne, Option.or_none]
      exact ih (by omega)

theorem find_isSome_of_count (edges : List (SurfaceEdge Nat)) (d j : Nat)
    (h : edgeCount edges d j = 1) :
    ∃ e, edges.find? (fun e => decide (e.direction = d ∧ e.edgeIndex1 = j)) = some e := by
  have hpos : 0 < List.countP (fun e => decide (e.direction = d ∧ e.edgeIndex1 = j)) edges := by
    unfold edgeCount at h
    omega
  have hs := List.find?_isSome.mpr (List.countP_pos_iff.mp hpos)
  exact Option.isSome_iff_exists.mp hs

theorem cornerVertexIndex_eq {V : Type} (tlt : TLT) (heap : VertexHeap V) (g : GridNode Nat)
    (idx p : Nat) (hm : (tlt.directedEdges p).minCornerIndex < 8)
    (hcount : edgeCount g.m_SurfaceEdges (tlt.directedEdges p).direction
      (idx + cornerLinearOffset (tlt.directedEdges p).minCornerIndex) = 1) :
    cornerVertexIndex heap (surfaceEdgeMaps g.m_SurfaceEdges) idx (tlt.directedEdges p)
      = some (cornerIndexOf tlt heap g idx p) := by
  unfold cornerVertexIndex cornerIndexOf edgeVertexIndex
  have hoff : idx + ((tlt.directedEdges p).minCornerIndex &&& 1)
        + (((tlt.directedEdges p).minCornerIndex &&& 2) >>> 1) * LEAF_SIZE_1D
        + (((tlt.directedEdges p).minCornerIndex &&& 4) >>> 2) * LEAF_SIZE_2D
      = idx + cornerLinearOffset (tlt.directedEdges p).minCornerIndex := by
    unfold cornerLinearOffset
    generalize (tlt.directedEdges p).minCornerIndex = m at hm
    have hb : (m &&& 1) = m % 2 ∧ ((m &&& 2) >>> 1) = m / 2 % 2
        ∧ ((m &&& 4) >>> 2) = m / 4 % 2 := by
      interval_cases m <;> decide
    rw [hb.1, hb.2.1, hb.2.2]
    omega
  rw [hoff, surfaceEdgeMaps_eq_find _ _ _ (le_of_eq hcount)]
  obtain ⟨e, he⟩ := find_isSome_of_count _ _ _ hcount
  rw [he]
  rfl

theorem mem_subCells (idx : Nat) :
    idx ∈ subCells ↔ ∃ x y z, x < LEAF_SIZE_1D_INNER ∧ y < LEAF_SIZE_1D_INNER
      ∧ z < LEAF_SIZE_1D_INNER ∧ idx = x * LEAF_SIZE_2D + y * LEAF_SIZE_1D + z := by
  unfold subCells
  simp only [List.mem_flatMap, List.mem_map, List.mem_range]
  constructor
  · rintro ⟨x, hx, y, hy, z, hz, rfl⟩
    exact ⟨x, y, z, hx, hy, hz, rfl⟩
  · rintro ⟨x, y, z, hx, hy, hz, rfl⟩
    exact ⟨x, hx, y, hy, z, hz, rfl⟩

/-- In a coherent leaf, a sub-cell edge whose corner bits differ in the mask of the
sub-cell has exactly one record. -/
theorem edgeCount_of_mask (g : GridNode Nat) (hcoh : SignCoherent g) (idx : Nat)
    (hidx : idx ∈ subCells) (d m : Nat) (hd : d < 3) (hm : m < 8)
    (hbit : m / 2 ^ (2 - d) % 2 = 0)
    (hdiff : (getCubeBitMask idx g.m_Signs).testBit m
      ≠ (getCubeBitMask idx g.m_Signs).testBit (m + 2 ^ (2 - d))) :
    edgeCount g.m_SurfaceEdges d (idx + cornerLinearOffset m) = 1 := by
  obtain ⟨x, y, z, hx, hy, hz, rfl⟩ := (mem_subCells idx).mp hidx
  have h8 : LEAF_SIZE_1D_INNER = 8 := rfl
  rw [h8] at hx hy hz
  have hm2 : m + 2 ^ (2 - d) < 8 := by
    interval_cases d <;> interval_cases m <;> simp at hbit ⊢
  have t1 := getCubeBitMask_testBit (x * LEAF_SIZE_2D + y * LEAF_SIZE_1D + z) g.m_Signs ⟨m, hm⟩
  have t2 := getCubeBitMask_testBit (x * LEAF_SIZE_2D + y * LEAF_SIZE_1D + z) g.m_Signs
    ⟨m + 2 ^ (2 - d), hm2⟩
  rw [← t1, ← t2] at hdiff
  have o1 : x * LEAF_SIZE_2D + y * LEAF_SIZE_1D + z + ((m >>> 2) &&& 1) * LEAF_SIZE_1D ^ 2
      + ((m >>> 1) &&& 1) * LEAF_SIZE_1D + (m &&& 1)
      = x * LEAF_SIZE_2D + y * LEAF_SIZE_1D + z + cornerLinearOffset m := by
    unfold cornerLinearOffset
    have hb : ((m >>> 2) &&& 1) = m / 4 % 2 ∧ ((m >>> 1) &&& 1) = m / 2 % 2
        ∧ (m &&& 1) = m % 2 := by
      interval_cases m <;> decide
    rw [hb.1, hb.2.1, hb.2.2, LEAF_SIZE_1D_eq, LEAF_SIZE_2D_eq]
    omega
  have o2 : x * LEAF_SIZE_2D + y * LEAF_SIZE_1D + z
      + (((m + 2 ^ (2 - d)) >>> 2) &&& 1) * LEAF_SIZE_1D ^ 2
      + (((m + 2 ^ (2 - d)) >>> 1) &&& 1) * LEAF_SIZE_1D + ((m + 2 ^ (2 - d)) &&& 1)
      = x * LEAF_SIZE_2D + y * LEAF_SIZE_1D + z + cornerLinearOffset m + stride d := by
    unfold cornerLinearOffset stride
    rw [LEAF_SIZE_1D_eq, LEAF_SIZE_2D_eq]
    interval_cases d <;> interval_cases m <;> simp at hbit ⊢
  simp only [Fin.val_mk] at hdiff
  rw [o1, o2] at hdiff
  have hlat : IsLatticeEdge d (x * LEAF_SIZE_2D + y * LEAF_SIZE_1D + z + cornerLinearOffset m) := by
    refine ⟨hd, ?_, ?_⟩
    · unfold cornerLinearOffset
      rw [LEAF_SIZE_1D_eq, LEAF_SIZE_2D_eq, LEAF_SIZE_3D_eq]
      omega
    · unfold cornerLinearOffset coordOf
      rw [h8, LEAF_SIZE_1D_eq, LEAF_SIZE_2D_eq]
      interval_cases d <;> interval_cases m <;> simp at hbit ⊢ <;> omega
  rw [hcoh.count _ _ hlat]
  unfold crossing
  simp [hdiff]

theorem generateIndicesTriangle_fold {V : Type} (tlt : TLT) (heap : VertexHeap V)
    (g : GridNode Nat) (idx : Nat) (tris : List Triangle)
    (h : ∀ t, t ∈ tris → ∀ p, p ∈ [t.p1, t.p2, t.p3] →
      cornerVertexIndex heap (surfaceEdgeMaps g.m_SurfaceEdges) idx (tlt.directedEdges p)
        = some (cornerIndexOf tlt heap g idx p)) :
    ∀ acc : List Nat,
      tris.foldl
          (fun indices i2 =>
            generateIndicesTriangle tlt heap (surfaceEdgeMaps g.m_SurfaceEdges) idx i2 indices)
          (some acc)
        = some (acc ++ tris.flatMap (fun t =>
            [cornerIndexOf tlt heap g idx t.p1, cornerIndexOf tlt heap g idx t.p2,
              cornerIndexOf tlt heap g idx t.p3])) := by
  induction tris with
  | nil =>
    intro acc
    simp
  | cons t rest ih =>
    intro acc
    have h1 := h t (List.mem_cons_self _ _) t.p1 (by simp)
    have h2 := h t (List.mem_cons_self _ _) t.p2 (by simp)
    have h3 := h t (List.mem_cons_self _ _) t.p3 (by simp)
    rw [List.foldl_cons]
    have hstep : generateIndicesTriangle tlt heap (surfaceEdgeMaps g.m_SurfaceEdges) idx t
        (some acc)
        = some (acc ++ [cornerIndexOf tlt heap g idx t.p1, cornerIndexOf tlt heap g idx t.p2,
            cornerIndexOf tlt heap g idx t.p3]) := by
      unfold generateIndicesTriangle
      rw [h1, h2, h3]
    rw [hstep, ih (fun t2 ht2 => h t2 (List.mem_cons_of_mem _ ht2)), List.flatMap_cons,
      List.append_assoc]

theorem generateIndicesCell_eq {V : Type} (tlt : TLT) (heap : VertexHeap V) (g : GridNode Nat)
    (hcoh : SignCoherent g) (htab : tlt.Consistent) (idx : Nat) (hidx : idx ∈ subCells)
    (acc : List Nat) :
    generateIndicesCell tlt heap (surfaceEdgeMaps g.m_SurfaceEdges) g.m_Signs idx (some acc)
      = some (acc ++ cellIndices tlt heap g idx) := by
  unfold generateIndicesCell cellIndices
  dsimp only
  by_cases hmix : getCubeBitMask idx g.m_Signs ≠ 0 ∧ getCubeBitMask idx g.m_Signs ≠ 255
  · have hn : ¬ (getCubeBitMask idx g.m_Signs = 0 ∨ getCubeBitMask idx g.m_Signs = 255) := by
      intro hc
      rcases hc with hc | hc
      · exact hmix.1 hc
      · exact hmix.2 hc
    rw [if_pos hmix, if_neg hn]
    apply generateIndicesTriangle_fold
    intro t ht p hp
    obtain ⟨hd, hm, hbit, hdiff⟩ := htab _ t ht p hp
    exact cornerVertexIndex_eq tlt heap g idx p hm
      (edgeCount_of_mask g hcoh idx hidx _ _ hd hm hbit hdiff)
  · have hn : getCubeBitMask idx g.m_Signs = 0 ∨ getCubeBitMask idx g.m_Signs = 255 := by
      by_cases h0 : getCubeBitMask idx g.m_Signs = 0
      · exact Or.inl h0
      · by_cases h1 : getCubeBitMask idx g.m_Signs = 255
        · exact Or.inr h1
        · exact absurd ⟨h0, h1⟩ hmix
    rw [if_neg hmix, if_pos hn, List.append_nil]

theorem foldl_cells_eq {β : Type} (f : Nat → Option (List β) → Option (List β))
    (c : Nat → List β) (l : List Nat)
    (h : ∀ idx, idx ∈ l → ∀ acc, f idx (some acc) = some (acc ++ c idx)) :
    ∀ acc : List β,
      l.foldl (fun a idx => f idx a) (some acc) = some (acc ++ l.flatMap c) := by
  induction l with
  | nil =>
    intro acc
    simp
  | cons x t ih =>
    intro acc
    rw [List.foldl_cons, h x (List.mem_cons_self _ _),
      ih (fun idx hidx => h idx (List.mem_cons_of_mem _ hidx)), List.flatMap_cons,
      List.append_assoc]

theorem length_flatMap_cells (c : Nat → List Nat) (n : Nat → Nat) (l : List Nat)
    (h : ∀ idx, (c idx).length = 3 * n idx) :
    (l.flatMap c).length = 3 * (l.map n).sum := by
  induction l with
  | nil => rfl
  | cons x t ih =>
    rw [List.flatMap_cons, List.length_append, ih, h, List.map_cons, List.sum_cons]
    ring

theorem cellIndices_length {V : Type} (tlt : TLT) (heap : VertexHeap V) (g : GridNode Nat)
    (idx : Nat) :
    (cellIndices tlt heap g idx).length
      = 3 * (if getCubeBitMask idx g.m_Signs = 0 ∨ getCubeBitMask idx g.m_Signs = 255 then 0
          else (tlt.indexTable (getCubeBitMask idx g.m_Signs)).length) := by
  unfold cellIndices
  split_ifs
  · rfl
  · generalize tlt.indexTable (getCubeBitMask idx g.m_Signs) = tris
    induction tris with
    | nil => rfl
    | cons t rest ih =>
      rw [List.flatMap_cons, List.length_append, ih, List.length_cons]
      simp only [List.length_cons, List.length_nil]
      ring
theorem exampleCornerLeaf_get (j : Nat) :
    exampleCornerLeaf.m_Signs.get j = decide (j = 0) := by
  unfold exampleCornerLeaf SignArray.get
  by_cases h : j < LEAF_SIZE_3D
  · rw [dif_pos h]
  · rw [dif_neg h]
    have : j ≠ 0 := by
      intro h0
      rw [h0] at h
      exact h (by decide)
    simp [this]

theorem exampleCornerLeaf_coherent : SignCoherent exampleCornerLeaf := by
  refine ⟨?_, ?_, ?_⟩
  · intro e he
    simp only [exampleCornerLeaf, List.mem_cons, List.mem_singleton, List.not_mem_nil,
      or_false] at he
    rcases he with rfl | rfl | rfl <;> decide
  · intro e he
    rw [exampleCornerLeaf_get, exampleCornerLeaf_get]
    simp only [exampleCornerLeaf, List.mem_cons, List.mem_singleton, List.not_mem_nil,
      or_false] at he
    rcases he with rfl | rfl | rfl <;> decide
  · intro d i hdi
    have hs : 0 < stride d := by
      unfold stride
      split_ifs <;> decide
    unfold crossing
    rw [exampleCornerLeaf_get, exampleCornerLeaf_get]
    have hne : i + stride d ≠ 0 := by omega
    have hd := hdi.1
    by_cases hi : i = 0
    · subst hi
      interval_cases d <;> rfl
    · have hz : edgeCount exampleCornerLeaf.m_SurfaceEdges d i = 0 := by
        unfold edgeCount
        rw [List.countP_eq_zero]
        intro e he
        simp only [exampleCornerLeaf, List.mem_cons, List.mem_singleton, List.not_mem_nil,
          or_false] at he
        have hi2 : ¬ (0 = i) := fun h => hi h.symm
        rcases he with rfl | rfl | rfl <;> simp [hi2]
      rw [hz]
      simp [hi, hne]

theorem exampleTable_consistent : exampleTable.Consistent := by
  intro mask t ht p hp
  unfold exampleTable at ht
  dsimp only at ht
  by_cases hm : mask = 1
  · rw [if_pos hm, List.mem_singleton] at ht
    subst ht
    subst hm
    simp only [List.mem_cons, List.mem_singleton, List.not_mem_nil, or_false] at hp
    rcases hp with rfl | rfl | rfl <;> decide
  · rw [if_neg hm] at ht
    exact absurd ht (List.not_mem_nil t)

/-! ## Signs stored after an intersection, and over sequences of rewrites -/

theorem wellFormed_expo {F SV : Type} [FloatOps F] (n : Node SV) (a : Area F)
    (hw : n.WellFormed a) : (LEAF_EXPO : Int) ≤ a.m_SizeExpo := by
  cases n with
  | inner c => exact le_of_lt hw.1
  | empty s => exact hw
  | grid g =>
    have h : a.m_SizeExpo = LEAF_EXPO := hw
    omega

theorem merge_wellFormed {F SV : Type} [FloatOps F] (vs : VertexSource F SV) (R : Area F)
    (c : F) (sdf : SolidGeometry F) (n : Node SV) :
    ∀ a : Area F, n.WellFormed a → (merge vs R c sdf n a).WellFormed a := by
  induction n with
  | inner ch ih =>
    intro a hw
    unfold merge
    split_ifs
    · exact ⟨hw.1, fun i => ih i _ (hw.2 i)⟩
    · exact hw
    · exact createNode_wellFormed vs R c sdf a (le_of_lt hw.1)
  | empty s =>
    intro a hw
    unfold merge
    split_ifs
    · exact hw
    · exact createNode_wellFormed vs R c sdf a hw
    · exact hw
    · exact createNode_wellFormed vs R c sdf a hw
  | grid g =>
    intro a hw
    unfold merge
    split_ifs
    · exact hw
    · exact createNode_wellFormed vs R c sdf a (wellFormed_expo _ a hw)
    · exact hw

theorem intersect_wellFormed {F SV : Type} [FloatOps F] (vs : VertexSource F SV) (R : Area F)
    (c : F) (sdf : SolidGeometry F) (n : Node SV) :
    ∀ a : Area F, n.WellFormed a → (intersect vs R c sdf n a).WellFormed a := by
  induction n with
  | inner ch ih =>
    intro a hw
    unfold intersect
    split_ifs
    · exact ⟨hw.1, fun i => ih i _ (hw.2 i)⟩
    · exact hw
    · exact le_of_lt hw.1
  | empty s =>
    intro a hw
    unfold intersect
    split_ifs
    · exact hw
    · exact hw
    · exact hw
    · exact createNode_wellFormed vs R c sdf a hw
  | grid g =>
    intro a hw
    unfold intersect
    split_ifs
    · exact hw
    · exact wellFormed_expo _ a hw
    · exact hw

/-- The branch of `intersect` taken where the solid needs no subdivision. -/
theorem intersect_uniform_sound {F SV : Type} [FloatOps F] (R : Area F)
    (c : F) (sdf : SolidGeometry F) (hs : Conservative R c sdf) (n : Node SV) (a : Area F)
    (hsub : SubAreaOf R a) (hw : n.WellFormed a) (hn : sdf.cubeNeedsSubdivision a = false)
    (p : Vector3i) (b2 : Bool)
    (h : (if sdf.getSign (a.getCornerVecs 0).2 = true then n
          else EmptyNode.create a sdf).storesSign a p b2) :
    ∃ b, n.storesSign a p b ∧ b2 = (b && sdf.getSign (getRealPos R c p)) := by
  obtain ⟨h1, h2⟩ := hs a hsub hn
  cases hg : sdf.getSign (a.getCornerVecs 0).2 with
  | true =>
    simp only [hg, if_true] at h
    have hc := containsLattice_of_storesSign n a p b2 hw h
    refine ⟨b2, h, ?_⟩
    rw [h1 p hc, hg, Bool.and_true]
  | false =>
    simp only [hg, Bool.false_eq_true, if_false] at h
    obtain ⟨hc, hb⟩ := h
    obtain ⟨b, hb2⟩ := exists_storesSign n a p hw hc
    refine ⟨b, hb2, ?_⟩
    rw [hb, h2, h1 p hc, hg, Bool.and_false]

/-- Soundness of the intersection: every sign stored after `intersect` is an old sign of
the same lattice point combined by AND with the sign of the solid there. -/
theorem intersect_storesSign_sound {F SV : Type} [FloatOps F] (vs : VertexSource F SV)
    (R : Area F) (c : F) (sdf : SolidGeometry F) (hs : Conservative R c sdf) (n : Node SV) :
    ∀ (a : Area F), SubAreaOf R a → n.WellFormed a → ∀ (p : Vector3i) (b2 : Bool),
      (intersect vs R c sdf n a).storesSign a p b2 →
        ∃ b, n.storesSign a p b ∧ b2 = (b && sdf.getSign (getRealPos R c p)) := by
  induction n with
  | inner ch ih =>
    intro a hsub hw p b2 h
    unfold intersect at h
    cases hn : sdf.cubeNeedsSubdivision a with
    | true =>
      simp only [hn, if_true] at h
      obtain ⟨i, hi⟩ := h
      obtain ⟨b, hb, hb2⟩ := ih i _ (SubAreaOf.step a i hsub hw.1) (hw.2 i) p b2 hi
      exact ⟨b, ⟨i, hb⟩, hb2⟩
    | false =>
      simp only [hn, Bool.false_eq_true, if_false] at h
      exact intersect_uniform_sound R c sdf hs _ a hsub hw hn p b2 h
  | empty s0 =>
    intro a hsub hw p b2 h
    unfold intersect at h
    cases hn : sdf.cubeNeedsSubdivision a with
    | false =>
      simp only [hn, Bool.not_false, if_true] at h
      exact intersect_uniform_sound R c sdf hs _ a hsub hw hn p b2 h
    | true =>
      simp only [hn, Bool.not_true, Bool.false_eq_true, if_false] at h
      cases s0 with
      | false =>
        simp only [Bool.not_false, if_true] at h
        exact ⟨false, ⟨h.1, rfl⟩, by rw [h.2, Bool.false_and]⟩
      | true =>
        simp only [Bool.not_true, Bool.false_eq_true, if_false] at h
        have hb := createNode_storesSign vs R c sdf hs a hsub p b2 h
        have hc := containsLattice_of_storesSign _ a p b2
          (createNode_wellFormed vs R c sdf a hw) h
        exact ⟨true, ⟨hc, rfl⟩, by rw [hb, Bool.true_and]⟩
  | grid g =>
    intro a hsub hw p b2 h
    unfold intersect at h
    cases hn : sdf.cubeNeedsSubdivision a with
    | false =>
      simp only [hn, Bool.not_false, if_true] at h
      exact intersect_uniform_sound R c sdf hs _ a hsub hw hn p b2 h
    | true =>
      simp only [hn, Bool.not_true, Bool.false_eq_true, if_false] at h
      obtain ⟨x, y, z, hx, hy, hz, hp, hb⟩ := h
      refine ⟨g.m_Signs.get (x * LEAF_SIZE_2D + y * LEAF_SIZE_1D + z),
        ⟨x, y, z, hx, hy, hz, hp, rfl⟩, ?_⟩
      rw [hb, GridNode.intersect_get vs R c a sdf g _ (linear_lt x y z hx hy hz),
        fromIndex_linear x y z hx hy hz, hp]

theorem storesSign_of_gridStoresSign {F SV : Type} [FloatOps F] (n : Node SV) :
    ∀ (a : Area F) (p : Vector3i) (b : Bool), n.gridStoresSign a p b → n.storesSign a p b := by
  induction n with
  | inner ch ih =>
    intro a p b h
    obtain ⟨i, hi⟩ := h
    exact ⟨i, ih i _ p b hi⟩
  | empty s =>
    intro a p b h
    exact h.elim
  | grid g =>
    intro a p b h
    exact h

/-- Over a sequence of rewrites by conservative solids, a well-formed tree whose stored
signs are the values of one function of the lattice point stays such a tree. -/
theorem applyOps_functional {F SV : Type} [FloatOps F] (vs : VertexSource F SV) (R : Area F)
    (c : F) (ops : List (CsgOp F))
    (hops : ∀ op, op ∈ ops → Conservative R c op.steeringSolid) :
    ∀ (t : Tree F SV), t.m_RootArea = R → t.m_CellSize = c → t.m_RootNode.WellFormed R →
      (∃ σ : Vector3i → Bool, ∀ p b, t.m_RootNode.storesSign R p b → b = σ p) →
      ∃ σ : Vector3i → Bool, ∀ p b,
        (ops.foldl (fun t op => t.applyOp vs op) t).m_RootNode.storesSign R p b → b = σ p := by
  induction ops with
  | nil => exact fun t _ _ _ h => h
  | cons op rest ih =>
    intro t hR hc hw hσ
    obtain ⟨σ, hσ⟩ := hσ
    rw [List.foldl_cons]
    have hcons := hops op (List.mem_cons_self _ _)
    have hrest : ∀ o, o ∈ rest → Conservative R c o.steeringSolid :=
      fun o ho => hops o (List.mem_cons_of_mem _ ho)
    cases op with
    | merge s =>
      refine ih hrest (t.merge vs s) hR hc ?_ ?_
      · show (merge vs t.m_RootArea t.m_CellSize s t.m_RootNode t.m_RootArea).WellFormed R
        rw [hR]
        exact merge_wellFormed vs R _ s _ R hw
      · refine ⟨fun p => σ p || s.getSign (getRealPos R c p), ?_⟩
        intro p b h
        have h2 : (merge vs R c s t.m_RootNode R).storesSign R p b := by
          have e : (t.merge vs s).m_RootNode = merge vs R c s t.m_RootNode R := by
            show merge vs t.m_RootArea t.m_CellSize s t.m_RootNode t.m_RootArea = _
            rw [hR, hc]
          rw [← e]
          exact h
        obtain ⟨b0, hb0, hb⟩ := merge_storesSign_sound vs R c s hcons _ R SubAreaOf.refl hw p b h2
        rw [hb, hσ p b0 hb0]
    | intersect s =>
      refine ih hrest (t.intersect vs s) hR hc ?_ ?_
      · show (intersect vs t.m_RootArea t.m_CellSize s t.m_RootNode t.m_RootArea).WellFormed R
        rw [hR]
        exact intersect_wellFormed vs R _ s _ R hw
      · refine ⟨fun p => σ p && s.getSign (getRealPos R c p), ?_⟩
        intro p b h
        have h2 : (intersect vs R c s t.m_RootNode R).storesSign R p b := by
          have e : (t.intersect vs s).m_RootNode = intersect vs R c s t.m_RootNode R := by
            show intersect vs t.m_RootArea t.m_CellSize s t.m_RootNode t.m_RootArea = _
            rw [hR, hc]
          rw [← e]
          exact h
        obtain ⟨b0, hb0, hb⟩ :=
          intersect_storesSign_sound vs R c s hcons _ R SubAreaOf.refl hw p b h2
        rw [hb, hσ p b0 hb0]
    | subtract s =>
      refine ih hrest (t.subtract vs s) hR hc ?_ ?_
      · show (intersect vs t.m_RootArea t.m_CellSize (OpInvertSDF s) t.m_RootNode
          t.m_RootArea).WellFormed R
        rw [hR]
        exact intersect_wellFormed vs R _ _ _ R hw
      · refine ⟨fun p => σ p && (OpInvertSDF s).getSign (getRealPos R c p), ?_⟩
        intro p b h
        have h2 : (intersect vs R c (OpInvertSDF s) t.m_RootNode R).storesSign R p b := by
          have e : (t.subtract vs s).m_RootNode
              = intersect vs R c (OpInvertSDF s) t.m_RootNode R := by
            show intersect vs t.m_RootArea t.m_CellSize (OpInvertSDF s) t.m_RootNode
              t.m_RootArea = _
            rw [hR, hc]
          rw [← e]
          exact h
        obtain ⟨b0, hb0, hb⟩ :=
          intersect_storesSign_sound vs R c (OpInvertSDF s) hcons _ R SubAreaOf.refl hw p b h2
        rw [hb, hσ p b0 hb0]
theorem exampleDenseOutside_root : (sampleSDF exampleVertices exampleDenseOutside exampleBox 4).m_RootNode
    = Node.inner (fun i => Node.grid (GridNode.create exampleVertices
        (sampleSDF exampleVertices exampleDenseOutside exampleBox 4).m_RootArea
        (sampleSDF exampleVertices exampleDenseOutside exampleBox 4).m_CellSize
        ((sampleSDF exampleVertices exampleDenseOutside exampleBox 4).m_RootArea.getSubAreas i)
        exampleDenseOutside)) := by
  rw [sampleSDF_root, createNode_eq]
  have hn : exampleDenseOutside.cubeNeedsSubdivision
      (sampleSDF exampleVertices exampleDenseOutside exampleBox 4).m_RootArea = true := rfl
  have he : ¬ ((sampleSDF exampleVertices exampleDenseOutside exampleBox 4).m_RootArea.m_SizeExpo
      ≤ (LEAF_EXPO : Int)) := by
    show ¬ ((4 : Int) ≤ (LEAF_EXPO : Int))
    decide
  rw [hn, if_neg Bool.true_eq_false_eq_False, if_neg he]
  congr 1
  funext i
  rw [createNode_eq]
  have hn2 : exampleDenseOutside.cubeNeedsSubdivision
      ((sampleSDF exampleVertices exampleDenseOutside exampleBox 4).m_RootArea.getSubAreas i)
      = true := rfl
  have he2 : ((sampleSDF exampleVertices exampleDenseOutside exampleBox 4).m_RootArea.getSubAreas
      i).m_SizeExpo ≤ (LEAF_EXPO : Int) := by
    show (4 : Int) - 1 ≤ (LEAF_EXPO : Int)
    decide
  rw [hn2, if_neg Bool.true_eq_false_eq_False, if_pos he2]

theorem exampleDenseOutside_cell : (sampleSDF exampleVertices exampleDenseOutside exampleBox 4).m_CellSize
    = 1 / 2 := by
  show FloatOps.div (FloatOps.max (FloatOps.max (FloatOps.sub (8 : ℚ) 0) (FloatOps.sub (8 : ℚ) 0))
    (FloatOps.sub (8 : ℚ) 0)) (FloatOps.ofInt (shl1 4)) = 1 / 2
  rw [rat_div, rat_max, rat_max, rat_sub, rat_ofInt]
  have h16 : shl1 4 = 16 := by decide
  rw [h16]
  norm_num


/-! ## Leaf-private vertices in the mesh passes -/

theorem generateIndices_cells {V : Type} (tlt : TLT) (heap : VertexHeap V)
    (g : GridNode Nat) (indices : List Nat) (hcoh : SignCoherent g) (htab : tlt.Consistent) :
    g.generateIndices tlt heap indices
      = some (indices ++ subCells.flatMap (fun idx => cellIndices tlt heap g idx)) := by
  rw [GridNode.generateIndices_eq]
  exact foldl_cells_eq
    (fun idx acc =>
      generateIndicesCell tlt heap (surfaceEdgeMaps g.m_SurfaceEdges) g.m_Signs idx acc)
    (fun idx => cellIndices tlt heap g idx) subCells
    (fun idx hidx acc => generateIndicesCell_eq tlt heap g hcoh htab idx hidx acc) indices

/-- The vertex pass pushes nothing for leaves all of whose vertices are leaf-private. -/
theorem generateVerticesAll_private {V : Type} (heap : VertexHeap V) (buffer : List V)
    (leaves : List (GridNode Nat)) (hpriv : ∀ p, (heap p).shared = false) :
    generateVerticesAll leaves (heap, buffer) = (heap, buffer) := by
  have hbody : ∀ (i : SurfaceEdge Nat), generateVerticesBody i (heap, buffer) = (heap, buffer) := by
    intro i
    unfold generateVerticesBody
    simp [hpriv]
  have hfold : ∀ edges : List (SurfaceEdge Nat),
      edges.foldl (fun st i => generateVerticesBody i st) (heap, buffer) = (heap, buffer) := by
    intro edges
    induction edges with
    | nil => rfl
    | cons e t ih => rw [List.foldl_cons, hbody, ih]
  induction leaves with
  | nil => rfl
  | cons g t ih =>
    show generateVerticesAll t (g.generateVertices (heap, buffer)) = _
    unfold GridNode.generateVertices
    rw [hfold, ih]

theorem exampleInteriorLeaf_get (j : Nat) :
    exampleInteriorLeaf.m_Signs.get j = decide (j = 364) := by
  unfold exampleInteriorLeaf SignArray.get
  by_cases h : j < LEAF_SIZE_3D
  · rw [dif_pos h]
  · rw [dif_neg h]
    have : j ≠ 364 := by
      intro h0
      rw [h0] at h
      exact h (by decide)
    simp [this]

theorem exampleInteriorLeaf_coherent : SignCoherent exampleInteriorLeaf := by
  refine ⟨?_, ?_, ?_⟩
  · intro e he
    simp only [exampleInteriorLeaf, List.mem_cons, List.mem_singleton, List.not_mem_nil,
      or_false] at he
    rcases he with rfl | rfl | rfl | rfl | rfl | rfl <;> decide
  · intro e he
    rw [exampleInteriorLeaf_get, exampleInteriorLeaf_get]
    simp only [exampleInteriorLeaf, List.mem_cons, List.mem_singleton, List.not_mem_nil,
      or_false] at he
    rcases he with rfl | rfl | rfl | rfl | rfl | rfl <;> decide
  · intro d i hdi
    unfold crossing
    rw [exampleInteriorLeaf_get, exampleInteriorLeaf_get]
    have hd := hdi.1
    unfold edgeCount exampleInteriorLeaf stride
    rw [LEAF_SIZE_1D_eq, LEAF_SIZE_2D_eq]
    interval_cases d
    · by_cases h1 : i = 364
      · subst h1
        decide
      · by_cases h2 : i = 283
        · subst h2
          decide
        · have h3 : ¬ (i + 81 = 364) := by omega
          have h4 : ¬ (283 = i) := fun h => h2 h.symm
          have h5 : ¬ (364 = i) := fun h => h1 h.symm
          simp [List.countP_cons, h1, h3, h4, h5]
    · by_cases h1 : i = 364
      · subst h1
        decide
      · by_cases h2 : i = 355
        · subst h2
          decide
        · have h3 : ¬ (i + 9 = 364) := by omega
          have h4 : ¬ (355 = i) := fun h => h2 h.symm
          have h5 : ¬ (364 = i) := fun h => h1 h.symm
          simp [List.countP_cons, h1, h3, h4, h5]
    · by_cases h1 : i = 364
      · subst h1
        decide
      · by_cases h2 : i = 363
        · subst h2
          decide
        · have h3 : ¬ (i + 1 = 364) := by omega
          have h4 : ¬ (363 = i) := fun h => h2 h.symm
          have h5 : ¬ (364 = i) := fun h => h1 h.symm
          simp [List.countP_cons, h1, h3, h4, h5]

theorem exampleInteriorLeaf_mask : getCubeBitMask 364 exampleInteriorLeaf.m_Signs = 1 := by
  rw [getCubeBitMask_eq]
  simp only [exampleInteriorLeaf_get, LEAF_SIZE_1D_eq, LEAF_SIZE_2D_eq]
  decide

/-! ## Vertex store: frame and counting lemmas -/

theorem threadChildren_fst {σ β : Type} (f : Fin 8 → σ → β × σ) (g : Fin 8 → β)
    (h : ∀ i st, (f i st).1 = g i) (st : σ) : (threadChildren f st).1 = g := by
  funext i
  unfold threadChildren
  simp only [h]
  have hi := i.isLt
  split_ifs with h0 h1 h2 h3 h4 h5 h6
  · exact congrArg g (Fin.ext h0.symm)
  · exact congrArg g (Fin.ext h1.symm)
  · exact congrArg g (Fin.ext h2.symm)
  · exact congrArg g (Fin.ext h3.symm)
  · exact congrArg g (Fin.ext h4.symm)
  · exact congrArg g (Fin.ext h5.symm)
  · exact congrArg g (Fin.ext h6.symm)
  · exact congrArg g (Fin.ext (by
      show (7 : Nat) = i.val
      omega))

theorem threadChildren_snd {σ β : Type} (f : Fin 8 → σ → β × σ) (st : σ) :
    (threadChildren f st).2
      = (f 7 (f 6 (f 5 (f 4 (f 3 (f 2 (f 1 (f 0 st).2).2).2).2).2).2).2).2 := rfl

/-- An invariant of the state that every iteration preserves holds after the loop over
the children, and every child is produced from a state that satisfies it. -/
theorem threadChildren_inv {σ β : Type} (f : Fin 8 → σ → β × σ) (P : σ → Prop)
    (h : ∀ i st, P st → P (f i st).2) (st : σ) (hst : P st) :
    P (threadChildren f st).2
      ∧ ∀ i, ∃ st2, P st2 ∧ (threadChildren f st).1 i = (f i st2).1 := by
  have p0 := h 0 st hst
  have p1 := h 1 _ p0
  have p2 := h 2 _ p1
  have p3 := h 3 _ p2
  have p4 := h 4 _ p3
  have p5 := h 5 _ p4
  have p6 := h 6 _ p5
  have p7 := h 7 _ p6
  refine ⟨p7, ?_⟩
  intro i
  unfold threadChildren
  simp only
  have hi := i.isLt
  split_ifs with h0 h1 h2 h3 h4 h5 h6
  · exact ⟨_, hst, by rw [show i = 0 from Fin.ext h0]⟩
  · exact ⟨_, p0, by rw [show i = 1 from Fin.ext h1]⟩
  · exact ⟨_, p1, by rw [show i = 2 from Fin.ext h2]⟩
  · exact ⟨_, p2, by rw [show i = 3 from Fin.ext h3]⟩
  · exact ⟨_, p3, by rw [show i = 4 from Fin.ext h4]⟩
  · exact ⟨_, p4, by rw [show i = 5 from Fin.ext h5]⟩
  · exact ⟨_, p5, by rw [show i = 6 from Fin.ext h6]⟩
  · exact ⟨_, p6, by rw [show i = 7 from Fin.ext (by
      show i.val = 7
      omega)]⟩

theorem VertexStore.addRefs_addRefs {F : Type} (s : VertexStore F) (k1 k2 : Nat → Nat) :
    (s.addRefs k1).addRefs k2 = s.addRefs (fun p => k1 p + k2 p) := by
  unfold VertexStore.addRefs
  simp only [Nat.add_assoc]

theorem VertexStore.addRefs_zero {F : Type} (s : VertexStore F) :
    s.addRefs (fun _ => 0) = s := by
  unfold VertexStore.addRefs
  simp

theorem VertexStore.modify_incRef {F : Type} (s : VertexStore F) (q : Nat) :
    s.modify q (fun o => { o with refCount := o.refCount + 1 })
      = s.addRefs (fun p => if p = q then 1 else 0) := by
  unfold VertexStore.modify VertexStore.addRefs VertexHeap.set
  congr 1
  funext p
  by_cases h : p = q
  · simp only [h, if_true]
  · simp only [h, if_false, Nat.add_zero]

theorem cloneS_grid_store {F : Type} (edges : List (SurfaceEdge Nat)) :
    ∀ s : VertexStore F,
      edges.foldl
          (fun s2 i => s2.modify i.sharedVertex (fun o => { o with refCount := o.refCount + 1 }))
          s
        = s.addRefs (fun p => edges.countP (fun e => decide (e.sharedVertex = p))) := by
  induction edges with
  | nil =>
    intro s
    exact (VertexStore.addRefs_zero s).symm
  | cons e t ih =>
    intro s
    rw [List.foldl_cons, ih, VertexStore.modify_incRef, VertexStore.addRefs_addRefs]
    congr 1
    funext p
    rw [List.countP_cons]
    by_cases h : p = e.sharedVertex
    · have h2 : e.sharedVertex = p := h.symm
      simp only [h, if_true, decide_True]
      omega
    · have h2 : ¬ e.sharedVertex = p := fun hc => h hc.symm
      simp only [h, h2, if_false, decide_False, Bool.false_eq_true]
      omega

theorem Node.cloneS_eq {F : Type} (n : Node Nat) :
    ∀ s : VertexStore F, n.cloneS s = (n, s.addRefs (fun p => n.references p)) := by
  induction n with
  | inner c ih =>
    intro s
    unfold Node.cloneS
    have h1 : (threadChildren (fun i s2 => (c i).cloneS s2) s).1 = c :=
      threadChildren_fst _ c (fun i st => by rw [ih i]) s
    rw [h1, threadChildren_snd]
    simp only [ih, VertexStore.addRefs_addRefs]
    congr 2
    funext p
    show _ = ∑ i : Fin 8, (c i).references p
    rw [Fin.sum_univ_eight]
  | empty b =>
    intro s
    unfold Node.cloneS EmptyNode.clone
    rw [show (fun p => (Node.empty b : Node Nat).references p) = fun _ => 0 from rfl,
      VertexStore.addRefs_zero]
  | grid g =>
    intro s
    unfold Node.cloneS
    rw [cloneS_grid_store]
    rfl
theorem rat_le (a b : ℚ) : FloatOps.le a b = decide (a ≤ b) := rfl

theorem VertexHeap.set_apply {V : Type} (h : VertexHeap V) (p q : Nat)
    (v : SharedSurfaceVertex V) : h.set p v q = if q = p then v else h q := rfl

/-- Executing an `init` call moves no existing vertex and never lowers the next pointer. -/
theorem runInit_frame {F : Type} (e : SurfaceEdge (VertexRef F)) (st : VertexStore F × Registry)
    (p : Nat) (hp : p < st.1.next) :
    ((runInit e st).2.1.objects p).vertex = (st.1.objects p).vertex
      ∧ st.1.next ≤ (runInit e st).2.1.next := by
  unfold runInit
  cases e.sharedVertex with
  | existing q => exact ⟨rfl, le_refl _⟩
  | newPrivate v =>
    simp only [initPrivateVertex, VertexStore.alloc, VertexHeap.set_apply]
    have hne : ¬ p = st.1.next := by omega
    rw [if_neg hne]
    exact ⟨rfl, Nat.le_succ _⟩
  | newShared d pos v =>
    simp only [initSharedVertex]
    cases st.2 d pos with
    | some q =>
      simp only [VertexStore.modify, VertexHeap.set_apply]
      refine ⟨?_, le_refl _⟩
      by_cases hq : p = q
      · rw [if_pos hq, hq]
      · rw [if_neg hq]
    | none =>
      simp only [VertexStore.alloc, VertexHeap.set_apply]
      have hne : ¬ p = st.1.next := by omega
      rw [if_neg hne]
      exact ⟨rfl, Nat.le_succ _⟩

theorem runInits_frame {F : Type} (edges : List (SurfaceEdge (VertexRef F))) (p : Nat) :
    ∀ (acc : List (SurfaceEdge Nat) × (VertexStore F × Registry)), p < acc.2.1.next →
      (((edges.foldl
          (fun acc e => (acc.1 ++ [(runInit e acc.2).1], (runInit e acc.2).2)) acc).2.1.objects
            p).vertex = (acc.2.1.objects p).vertex)
        ∧ acc.2.1.next
          ≤ (edges.foldl
              (fun acc e => (acc.1 ++ [(runInit e acc.2).1], (runInit e acc.2).2))
              acc).2.1.next := by
  induction edges with
  | nil => exact fun acc _ => ⟨rfl, le_refl _⟩
  | cons e t ih =>
    intro acc hp
    rw [List.foldl_cons]
    obtain ⟨h1, h2⟩ := runInit_frame e acc.2 p hp
    obtain ⟨h3, h4⟩ := ih (acc.1 ++ [(runInit e acc.2).1], (runInit e acc.2).2)
      (lt_of_lt_of_le hp h2)
    exact ⟨h3.trans h1, le_trans h2 h4⟩

theorem keepOrRelease_next {F : Type} [FloatOps F] (farther : Bool)
    (normalise : Vector3 F → Vector3 F) (R : Area F) (c : F) (area : Area F)
    (sdf : SolidGeometry F) (signs other : SignArray) (i : SurfaceEdge Nat)
    (s : VertexStore F) :
    (keepOrRelease farther normalise R c area sdf signs other i s).next = s.next := by
  unfold keepOrRelease
  split_ifs <;> rfl

theorem keepOrRelease_other {F : Type} [FloatOps F] (farther : Bool)
    (normalise : Vector3 F → Vector3 F) (R : Area F) (c : F) (area : Area F)
    (sdf : SolidGeometry F) (signs other : SignArray) (i : SurfaceEdge Nat)
    (s : VertexStore F) (p : Nat) (hp : p ≠ i.sharedVertex) :
    (keepOrRelease farther normalise R c area sdf signs other i s).objects p = s.objects p := by
  unfold keepOrRelease
  by_cases h1 : (signs.get i.edgeIndex1 != signs.get i.edgeIndex2) = true
  · rw [if_pos h1]
    by_cases h2 : (other.get i.edgeIndex1 != other.get i.edgeIndex2) = true
    · rw [if_pos h2]
      simp only [VertexStore.modify, VertexHeap.set_apply]
      rw [if_neg hp]
    · rw [if_neg h2]
  · rw [if_neg h1]
    simp only [deleteSharedVertex, VertexHeap.set_apply]
    rw [if_neg hp]

theorem keepOrRelease_fold_next {F : Type} [FloatOps F] (farther : Bool)
    (normalise : Vector3 F → Vector3 F) (R : Area F) (c : F) (area : Area F)
    (sdf : SolidGeometry F) (signs other : SignArray) (edges : List (SurfaceEdge Nat)) :
    ∀ s : VertexStore F,
      (edges.foldl (fun s i => keepOrRelease farther normalise R c area sdf signs other i s)
        s).next = s.next := by
  induction edges with
  | nil => exact fun _ => rfl
  | cons e t ih =>
    intro s
    rw [List.foldl_cons, ih, keepOrRelease_next]

/-- After the union of a leaf, the vertex data of an existing pointer is what the loop
over the old records made of it: the `init` calls of the new records move no existing
vertex. -/
theorem GridNode.mergeS_vertex {F : Type} [FloatOps F]
    (newVertex : Vector3 F → Nat → F → SolidGeometry F → Vertex F)
    (normalise : Vector3 F → Vector3 F) (R : Area F) (c : F) (area : Area F)
    (sdf : SolidGeometry F) (g : GridNode Nat) (st : VertexStore F × Registry) (p : Nat)
    (hp : p < st.1.next) :
    ((g.mergeS newVertex normalise R c area sdf st).2.1.objects p).vertex
      = ((g.m_SurfaceEdges.foldl
          (fun s i => keepOrRelease true normalise R c area sdf
            (GridNode.merge (initCalls newVertex) R c area sdf
              { m_Signs := g.m_Signs, m_SurfaceEdges := withExisting g.m_SurfaceEdges }).m_Signs
            (computeSigns R c area sdf SignArray.blank) i s) st.1).objects p).vertex := by
  have h := runInits_frame
    (GridNode.merge (initCalls newVertex) R c area sdf
      { m_Signs := g.m_Signs, m_SurfaceEdges := withExisting g.m_SurfaceEdges }).m_SurfaceEdges p
    ([], (g.m_SurfaceEdges.foldl
        (fun s i => keepOrRelease true normalise R c area sdf
          (GridNode.merge (initCalls newVertex) R c area sdf
            { m_Signs := g.m_Signs, m_SurfaceEdges := withExisting g.m_SurfaceEdges }).m_Signs
          (computeSigns R c area sdf SignArray.blank) i s) st.1, st.2))
    (by
      simp only
      rw [keepOrRelease_fold_next]
      exact hp)
  unfold GridNode.mergeS runInits
  simp only at h ⊢
  exact h.1

/-- The union of a tree whose root is a Grid leaf that the solid subdivides: the vertex
data of an existing pointer is what the loop over the old records of the leaf made of
it. -/
theorem Tree.mergeS_vertex_grid {F : Type} [FloatOps F]
    (newVertex : Vector3 F → Nat → F → SolidGeometry F → Vertex F)
    (normalise : Vector3 F → Vector3 F) (t : Tree F Nat) (sdf : SolidGeometry F)
    (store : VertexStore F) (g : GridNode Nat) (hroot : t.m_RootNode = Node.grid g)
    (hn : sdf.cubeNeedsSubdivision t.m_RootArea = true) (p : Nat) (hp : p < store.next) :
    ((Tree.mergeS newVertex normalise t sdf store).2.objects p).vertex
      = ((g.m_SurfaceEdges.foldl
          (fun s i => keepOrRelease true normalise t.m_RootArea t.m_CellSize t.m_RootArea sdf
            (GridNode.merge (initCalls newVertex) t.m_RootArea t.m_CellSize t.m_RootArea sdf
              { m_Signs := g.m_Signs, m_SurfaceEdges := withExisting g.m_SurfaceEdges }).m_Signs
            (computeSigns t.m_RootArea t.m_CellSize t.m_RootArea sdf SignArray.blank) i s)
          store).objects p).vertex := by
  unfold Tree.mergeS
  rw [hroot]
  unfold OctreeSF.mergeS
  rw [hn]
  simp only [Bool.not_true, Bool.false_eq_true, if_false]
  exact GridNode.mergeS_vertex newVertex normalise t.m_RootArea t.m_CellSize t.m_RootArea sdf g
    (store, Registry.empty) p hp

/-- The effect of the loop over the old records on the vertex of a record that still
crosses, that the other solid crosses too, and whose upper endpoint is outside the other
solid. -/
theorem keepOrRelease_refines {F : Type} [FloatOps F] (farther : Bool)
    (normalise : Vector3 F → Vector3 F) (R : Area F) (c : F) (area : Area F)
    (sdf : SolidGeometry F) (signs other : SignArray) (i : SurfaceEdge Nat)
    (s : VertexStore F)
    (h1 : (signs.get i.edgeIndex1 != signs.get i.edgeIndex2) = true)
    (h2 : (other.get i.edgeIndex1 != other.get i.edgeIndex2) = true)
    (h3 : other.get i.edgeIndex2 = false) :
    ((keepOrRelease farther normalise R c area sdf signs other i s).objects
        i.sharedVertex).vertex
      = refineVertex farther normalise
          (sdf.getSample
            ((getRealPos R c (area.m_MinPos + fromIndex i.edgeIndex1)).setComponent i.direction
              (FloatOps.add
                ((getRealPos R c (area.m_MinPos + fromIndex i.edgeIndex1)).component i.direction)
                (FloatOps.mul c FloatOps.half))))
          (getRealPos R c (area.m_MinPos + fromIndex i.edgeIndex1))
          (s.objects i.sharedVertex).vertex := by
  unfold keepOrRelease
  rw [if_pos h1, if_pos h2, h3]
  simp only [Bool.false_eq_true, if_false, VertexStore.modify, VertexHeap.set_apply, if_true]

theorem Node.clone_eq {SV : Type} (n : Node SV) : n.clone = n := by
  induction n with
  | inner c ih =>
    show Node.inner (fun i => (c i).clone) = Node.inner c
    congr 1
    funext i
    exact ih i
  | empty s => rfl
  | grid g => rfl

/-! ## Reference counting: the primitive effects -/

theorem Accounts.congr {F : Type} {s : VertexStore F} {ρ ρ2 : Nat → Nat} (h : Accounts s ρ)
    (he : ∀ p, ρ2 p = ρ p) : Accounts s ρ2 := by
  refine ⟨?_, ?_, h.bound⟩
  · intro p hp
    rw [he]
    exact h.count p hp
  · intro p hp
    rw [he]
    exact h.dead p hp

theorem Accounts.live_of_pos {F : Type} {s : VertexStore F} {ρ : Nat → Nat} (h : Accounts s ρ)
    (p : Nat) (hp : 1 ≤ ρ p) : s.live p = true := by
  cases hl : s.live p with
  | true => rfl
  | false =>
    have := h.dead p hl
    omega

theorem Accounts.next_dead {F : Type} {s : VertexStore F} {ρ : Nat → Nat} (h : Accounts s ρ)
    (p : Nat) (hp : s.next ≤ p) : s.live p = false ∧ ρ p = 0 := by
  cases hl : s.live p with
  | true =>
    have := h.bound p hl
    omega
  | false => exact ⟨rfl, h.dead p hl⟩

/-- Allocation of a vertex with reference count 1 together with one new reference. -/
theorem Accounts.alloc {F : Type} {s : VertexStore F} {ρ ρ2 : Nat → Nat} (h : Accounts s ρ)
    (o : SharedSurfaceVertex (Vertex F)) (ho : o.refCount = 1)
    (he : ∀ p, ρ2 p = ρ p + if p = s.next then 1 else 0) : Accounts (s.alloc o).2 ρ2 := by
  have hn := (h.next_dead s.next (le_refl _)).2
  refine ⟨?_, ?_, ?_⟩
  · intro p hp
    simp only [VertexStore.alloc, VertexHeap.set_apply] at hp ⊢
    rw [he]
    by_cases hpn : p = s.next
    · rw [if_pos hpn, if_pos hpn, hpn, hn, ho]
      exact ⟨rfl, le_refl _⟩
    · rw [if_neg hpn] at hp
      rw [if_neg hpn, if_neg hpn, Nat.add_zero]
      exact h.count p hp
  · intro p hp
    simp only [VertexStore.alloc] at hp
    rw [he]
    by_cases hpn : p = s.next
    · rw [if_pos hpn] at hp
      exact absurd hp (by decide)
    · rw [if_neg hpn] at hp
      rw [if_neg hpn, Nat.add_zero]
      exact h.dead p hp
  · intro p hp
    simp only [VertexStore.alloc] at hp ⊢
    by_cases hpn : p = s.next
    · omega
    · rw [if_neg hpn] at hp
      have := h.bound p hp
      omega

/-- A further reference to an allocated vertex together with the increment of its
reference count. -/
theorem Accounts.incRef {F : Type} {s : VertexStore F} {ρ ρ2 : Nat → Nat} (h : Accounts s ρ)
    (q : Nat) (hq : s.live q = true)
    (he : ∀ p, ρ2 p = ρ p + if p = q then 1 else 0) :
    Accounts (s.modify q (fun o => { o with refCount := o.refCount + 1 })) ρ2 := by
  refine ⟨?_, ?_, ?_⟩
  · intro p hp
    have hp2 : s.live p = true := hp
    simp only [VertexStore.modify, VertexHeap.set_apply]
    rw [he]
    obtain ⟨h1, h2⟩ := h.count p hp2
    by_cases hpq : p = q
    · rw [if_pos hpq, if_pos hpq]
      rw [hpq] at h1 h2
      simp only
      rw [hpq]
      omega
    · rw [if_neg hpq, if_neg hpq, Nat.add_zero]
      exact ⟨h1, h2⟩
  · intro p hp
    have hp2 : s.live p = false := hp
    rw [he]
    have hpq : p ≠ q := by
      intro hc
      rw [hc, hq] at hp2
      exact absurd hp2 (by decide)
    rw [if_neg hpq, Nat.add_zero]
    exact h.dead p hp2
  · intro p hp
    exact h.bound p hp

/-- The release of one reference. -/
theorem Accounts.release {F : Type} {s : VertexStore F} {ρ ρ2 : Nat → Nat} (q : Nat)
    (h : Accounts s ρ) (he : ∀ p, ρ p = ρ2 p + if p = q then 1 else 0) :
    Accounts (deleteSharedVertex q s) ρ2 := by
  have hq1 : 1 ≤ ρ q := by
    rw [he q, if_pos rfl]
    omega
  have hlq := h.live_of_pos q hq1
  obtain ⟨hc, _⟩ := h.count q hlq
  have hρq : ρ q = ρ2 q + 1 := by rw [he q, if_pos rfl]
  refine ⟨?_, ?_, ?_⟩
  · intro p hp
    simp only [deleteSharedVertex, VertexHeap.set_apply] at hp ⊢
    by_cases hpq : p = q
    · rw [if_pos hpq]
      simp only
      subst hpq
      have hne : ¬ ((s.objects p).refCount - 1 = 0) := by
        intro hz
        simp only [hz, and_self, if_true] at hp
        exact absurd hp (by decide)
      omega
    · rw [if_neg hpq]
      have hp2 : s.live p = true := by
        have : ¬ (p = q ∧ (s.objects q).refCount - 1 = 0) := fun hc2 => hpq hc2.1
        rw [if_neg this] at hp
        exact hp
      have := h.count p hp2
      have e := he p
      rw [if_neg hpq, Nat.add_zero] at e
      omega
  · intro p hp
    simp only [deleteSharedVertex] at hp
    by_cases hpq : p = q
    · subst hpq
      by_cases hz : (s.objects p).refCount - 1 = 0
      · omega
      · have : ¬ (p = p ∧ (s.objects p).refCount - 1 = 0) := fun hc2 => hz hc2.2
        rw [if_neg this, hlq] at hp
        exact absurd hp (by decide)
    · have : ¬ (p = q ∧ (s.objects q).refCount - 1 = 0) := fun hc2 => hpq hc2.1
      rw [if_neg this] at hp
      have := h.dead p hp
      have e := he p
      rw [if_neg hpq, Nat.add_zero] at e
      omega
  · intro p hp
    simp only [deleteSharedVertex] at hp ⊢
    by_cases hc2 : p = q ∧ (s.objects q).refCount - 1 = 0
    · rw [if_pos hc2] at hp
      exact absurd hp (by decide)
    · rw [if_neg hc2] at hp
      exact h.bound p hp

/-- A change of vertex data leaves the accounting as it is. -/
theorem Accounts.modifyVertex {F : Type} {s : VertexStore F} {ρ : Nat → Nat} (h : Accounts s ρ)
    (q : Nat) (f : Vertex F → Vertex F) :
    Accounts (s.modify q (fun o => { o with vertex := f o.vertex })) ρ := by
  refine ⟨?_, h.dead, h.bound⟩
  intro p hp
  have hp2 : s.live p = true := hp
  simp only [VertexStore.modify, VertexHeap.set_apply]
  by_cases hpq : p = q
  · rw [if_pos hpq, ← hpq]
    exact h.count p hp2
  · rw [if_neg hpq]
    exact h.count p hp2
theorem refsOf_nil (p : Nat) : refsOf [] p = 0 := rfl

theorem refsOf_append (a b : List (SurfaceEdge Nat)) (p : Nat) :
    refsOf (a ++ b) p = refsOf a p + refsOf b p := by
  unfold refsOf
  rw [List.countP_append]

theorem refsOf_cons (e : SurfaceEdge Nat) (t : List (SurfaceEdge Nat)) (p : Nat) :
    refsOf (e :: t) p = refsOf t p + if p = e.sharedVertex then 1 else 0 := by
  unfold refsOf
  rw [List.countP_cons]
  by_cases h : p = e.sharedVertex
  · rw [if_pos h, if_pos (by simp [h])]
  · rw [if_neg h, if_neg (by
      simp only [decide_eq_true_eq]
      exact fun hc => h hc.symm)]

theorem refsOf_singleton (e : SurfaceEdge Nat) (p : Nat) :
    refsOf [e] p = if p = e.sharedVertex then 1 else 0 := by
  rw [refsOf_cons, refsOf_nil, Nat.zero_add]

theorem refsOf_pos_of_mem (l : List (SurfaceEdge Nat)) (e : SurfaceEdge Nat) (he : e ∈ l) :
    1 ≤ refsOf l e.sharedVertex := by
  unfold refsOf
  exact List.countP_pos_iff.mpr ⟨e, he, by simp⟩

theorem existingRefs_append {F : Type} (a b : List (SurfaceEdge (VertexRef F))) (p : Nat) :
    existingRefs (a ++ b) p = existingRefs a p + existingRefs b p := by
  unfold existingRefs
  rw [List.countP_append]

theorem existingRefs_cons {F : Type} (e : SurfaceEdge (VertexRef F))
    (t : List (SurfaceEdge (VertexRef F))) (p : Nat) :
    existingRefs (e :: t) p = existingRefs t p + existingRefs [e] p := by
  have h := existingRefs_append [e] t p
  rw [List.singleton_append] at h
  omega

theorem existingRefs_withExisting {F : Type} (l : List (SurfaceEdge Nat)) (p : Nat) :
    existingRefs (withExisting l : List (SurfaceEdge (VertexRef F))) p = refsOf l p := by
  unfold existingRefs refsOf withExisting
  rw [List.countP_map]
  rfl

/-- Executing one `init` call keeps the accounting: the reference of the resulting record
is counted, whether its vertex existed, was found in the registry or was created. -/
theorem runInit_accounts {F : Type} (e : SurfaceEdge (VertexRef F))
    (st : VertexStore F × Registry) (ρ base : Nat → Nat) (n0 : Nat)
    (h : Accounts st.1 ρ) (hv : st.2.Valid st.1 n0) (hn : n0 ≤ st.1.next)
    (he : ∀ p, ρ p = base p + existingRefs [e] p) :
    Accounts (runInit e st).2.1 (fun p => base p + refsOf [(runInit e st).1] p)
      ∧ (runInit e st).2.2.Valid (runInit e st).2.1 n0
      ∧ st.1.next ≤ (runInit e st).2.1.next := by
  unfold runInit
  cases hsv : e.sharedVertex with
  | existing q =>
    simp only
    refine ⟨h.congr ?_, hv, le_refl _⟩
    intro p
    rw [he p, refsOf_singleton]
    unfold existingRefs
    rw [List.countP_cons, List.countP_nil, hsv]
    by_cases hpq : p = q
    · simp [hpq]
    · have : ¬ q = p := fun hc => hpq hc.symm
      simp [hpq, this]
  | newPrivate v =>
    simp only
    have hb : ∀ p, ρ p = base p := by
      intro p
      rw [he p]
      unfold existingRefs
      rw [List.countP_cons, List.countP_nil, hsv]
      simp
    refine ⟨?_, ?_, ?_⟩
    · refine h.alloc _ rfl ?_
      intro p
      simp only [refsOf_singleton, initPrivateVertex, VertexStore.alloc]
      rw [hb p]
    · intro d pos q hq
      obtain ⟨h1, h2⟩ := hv d pos q hq
      refine ⟨?_, h2⟩
      simp only [initPrivateVertex, VertexStore.alloc]
      rw [h1]
      split_ifs <;> rfl
    · simp only [initPrivateVertex, VertexStore.alloc]
      omega
  | newShared d pos v =>
    simp only
    have hb : ∀ p, ρ p = base p := by
      intro p
      rw [he p]
      unfold existingRefs
      rw [List.countP_cons, List.countP_nil, hsv]
      simp
    unfold initSharedVertex
    cases hreg : st.2 d pos with
    | some q =>
      simp only
      obtain ⟨hq1, hq2⟩ := hv d pos q hreg
      refine ⟨?_, ?_, le_refl _⟩
      · refine h.incRef q hq1 ?_
        intro p
        simp only [refsOf_singleton]
        rw [hb p]
      · intro d2 pos2 q2 h2
        exact hv d2 pos2 q2 h2
    | none =>
      simp only
      refine ⟨?_, ?_, ?_⟩
      · refine h.alloc _ rfl ?_
        intro p
        simp only [refsOf_singleton, VertexStore.alloc]
        rw [hb p]
      · intro d2 pos2 q2 h2
        simp only [Registry.insert, VertexStore.alloc] at h2 ⊢
        by_cases hk : d2 = d ∧ pos2 = pos
        · rw [if_pos hk] at h2
          have hq : st.1.next = q2 := Option.some.inj h2
          rw [← hq, if_pos rfl]
          exact ⟨rfl, hn⟩
        · rw [if_neg hk] at h2
          obtain ⟨h3, h4⟩ := hv d2 pos2 q2 h2
          refine ⟨?_, h4⟩
          rw [h3]
          split_ifs <;> rfl
      · simp only [VertexStore.alloc]
        omega

/-- Executing the `init` calls of a list of records keeps the accounting. -/
theorem runInits_fold_accounts {F : Type} (edges : List (SurfaceEdge (VertexRef F)))
    (n0 : Nat) :
    ∀ (acc : List (SurfaceEdge Nat) × (VertexStore F × Registry)) (base : Nat → Nat),
      Accounts acc.2.1 (fun p => base p + refsOf acc.1 p + existingRefs edges p) →
      acc.2.2.Valid acc.2.1 n0 → n0 ≤ acc.2.1.next →
      Accounts (edges.foldl
          (fun acc e => (acc.1 ++ [(runInit e acc.2).1], (runInit e acc.2).2)) acc).2.1
        (fun p => base p + refsOf (edges.foldl
          (fun acc e => (acc.1 ++ [(runInit e acc.2).1], (runInit e acc.2).2)) acc).1 p)
      ∧ (edges.foldl
          (fun acc e => (acc.1 ++ [(runInit e acc.2).1], (runInit e acc.2).2)) acc).2.2.Valid
          (edges.foldl
            (fun acc e => (acc.1 ++ [(runInit e acc.2).1], (runInit e acc.2).2)) acc).2.1 n0
      ∧ acc.2.1.next ≤ (edges.foldl
          (fun acc e => (acc.1 ++ [(runInit e acc.2).1], (runInit e acc.2).2)) acc).2.1.next := by
  induction edges with
  | nil =>
    intro acc base h hv hn
    refine ⟨h.congr ?_, hv, le_refl _⟩
    intro p
    simp [existingRefs]
  | cons e t ih =>
    intro acc base h hv hn
    rw [List.foldl_cons]
    obtain ⟨h1, h2, h3⟩ := runInit_accounts e acc.2
      (fun p => base p + refsOf acc.1 p + existingRefs (e :: t) p)
      (fun p => base p + refsOf acc.1 p + existingRefs t p) n0 h hv hn
      (by
        intro p
        simp only
        rw [existingRefs_cons]
        omega)
    obtain ⟨h4, h5, h6⟩ := ih (acc.1 ++ [(runInit e acc.2).1], (runInit e acc.2).2) base
      (h1.congr (by
        intro p
        simp only
        rw [refsOf_append]
        omega))
      h2 (le_trans hn h3)
    exact ⟨h4, h5, le_trans h3 h6⟩

theorem runInits_accounts {F : Type} (edges : List (SurfaceEdge (VertexRef F)))
    (st : VertexStore F × Registry) (base : Nat → Nat) (n0 : Nat)
    (h : Accounts st.1 (fun p => base p + existingRefs edges p))
    (hv : st.2.Valid st.1 n0) (hn : n0 ≤ st.1.next) :
    Accounts (runInits edges st).2.1 (fun p => base p + refsOf (runInits edges st).1 p)
      ∧ (runInits edges st).2.2.Valid (runInits edges st).2.1 n0
      ∧ st.1.next ≤ (runInits edges st).2.1.next := by
  unfold runInits
  exact runInits_fold_accounts edges n0 ([], st) base
    (h.congr (by
      intro p
      simp [refsOf_nil])) hv hn
theorem Registry.Valid.objects {F : Type} {r : Registry} {s s2 : VertexStore F} {n0 : Nat}
    (hv : r.Valid s n0) (hl : ∀ q, n0 ≤ q → s2.live q = s.live q) : r.Valid s2 n0 := by
  intro d pos q hq
  obtain ⟨h1, h2⟩ := hv d pos q hq
  exact ⟨(hl q h2).trans h1, h2⟩

theorem deleteSharedVertex_live {F : Type} (q : Nat) (s : VertexStore F) (n0 : Nat)
    (hq : q < n0) (x : Nat) (hx : n0 ≤ x) : (deleteSharedVertex q s).live x = s.live x := by
  simp only [deleteSharedVertex]
  have : ¬ (x = q ∧ (s.objects q).refCount - 1 = 0) := fun hc => by omega
  rw [if_neg this]

/-- The destructor of a Grid leaf releases the references of its records. -/
theorem deleteFold_accounts {F : Type} (edges : List (SurfaceEdge Nat)) (r : Registry)
    (n0 : Nat) (hb : ∀ e, e ∈ edges → e.sharedVertex < n0) :
    ∀ (s : VertexStore F) (base : Nat → Nat),
      Accounts s (fun p => base p + refsOf edges p) → r.Valid s n0 →
      Accounts (edges.foldl (fun s2 i => deleteSharedVertex i.sharedVertex s2) s) base
        ∧ r.Valid (edges.foldl (fun s2 i => deleteSharedVertex i.sharedVertex s2) s) n0
        ∧ (edges.foldl (fun s2 i => deleteSharedVertex i.sharedVertex s2) s).next = s.next := by
  induction edges with
  | nil =>
    intro s base h hv
    refine ⟨h.congr ?_, hv, rfl⟩
    intro p
    simp [refsOf_nil]
  | cons e t ih =>
    intro s base h hv
    rw [List.foldl_cons]
    have h1 : Accounts (deleteSharedVertex e.sharedVertex s) (fun p => base p + refsOf t p) := by
      refine Accounts.release e.sharedVertex h ?_
      intro p
      rw [refsOf_cons]
      omega
    have h2 : r.Valid (deleteSharedVertex e.sharedVertex s) n0 :=
      hv.objects (deleteSharedVertex_live e.sharedVertex s n0 (hb e (List.mem_cons_self _ _)))
    obtain ⟨h3, h4, h5⟩ := ih (fun e2 he2 => hb e2 (List.mem_cons_of_mem _ he2))
      (deleteSharedVertex e.sharedVertex s) base h1 h2
    exact ⟨h3, h4, h5⟩

/-- The loop over the old records of a leaf keeps the references of the records that
still cross and releases the others. -/
theorem keepOrRelease_fold_accounts {F : Type} [FloatOps F] (farther : Bool)
    (normalise : Vector3 F → Vector3 F) (R : Area F) (c : F) (area : Area F)
    (sdf : SolidGeometry F) (signs other : SignArray) (edges : List (SurfaceEdge Nat))
    (r : Registry) (n0 : Nat) (hb : ∀ e, e ∈ edges → e.sharedVertex < n0) :
    ∀ (s : VertexStore F) (base : Nat → Nat),
      Accounts s (fun p => base p + refsOf edges p) → r.Valid s n0 →
      Accounts (edges.foldl
          (fun s i => keepOrRelease farther normalise R c area sdf signs other i s) s)
        (fun p => base p + refsOf (edges.filter (stillCrosses signs)) p)
      ∧ r.Valid (edges.foldl
          (fun s i => keepOrRelease farther normalise R c area sdf signs other i s) s) n0 := by
  induction edges with
  | nil =>
    intro s base h hv
    exact ⟨h, hv⟩
  | cons e t ih =>
    intro s base h hv
    rw [List.foldl_cons]
    have hb2 : ∀ e2, e2 ∈ t → e2.sharedVertex < n0 :=
      fun e2 he2 => hb e2 (List.mem_cons_of_mem _ he2)
    by_cases h1 : (signs.get e.edgeIndex1 != signs.get e.edgeIndex2) = true
    · have hf : (e :: t).filter (stillCrosses signs) = e :: t.filter (stillCrosses signs) := by
        rw [List.filter_cons, if_pos (by
          unfold stillCrosses
          exact h1)]
      rw [hf]
      have hk : Accounts (keepOrRelease farther normalise R c area sdf signs other e s)
            (fun p => (base p + (if p = e.sharedVertex then 1 else 0)) + refsOf t p)
          ∧ r.Valid (keepOrRelease farther normalise R c area sdf signs other e s) n0 := by
        have h0 : Accounts s
            (fun p => (base p + (if p = e.sharedVertex then 1 else 0)) + refsOf t p) := by
          refine h.congr ?_
          intro p
          rw [refsOf_cons]
          omega
        unfold keepOrRelease
        rw [if_pos h1]
        by_cases h2 : (other.get e.edgeIndex1 != other.get e.edgeIndex2) = true
        · rw [if_pos h2]
          exact ⟨h0.modifyVertex _ _, hv.objects (fun _ _ => rfl)⟩
        · rw [if_neg h2]
          exact ⟨h0, hv⟩
      obtain ⟨h3, h4⟩ := ih hb2 _ _ hk.1 hk.2
      refine ⟨h3.congr ?_, h4⟩
      intro p
      rw [refsOf_cons]
      omega
    · have hf : (e :: t).filter (stillCrosses signs) = t.filter (stillCrosses signs) := by
        rw [List.filter_cons, if_neg (by
          unfold stillCrosses
          exact h1)]
      rw [hf]
      have hk : Accounts (keepOrRelease farther normalise R c area sdf signs other e s)
            (fun p => base p + refsOf t p)
          ∧ r.Valid (keepOrRelease farther normalise R c area sdf signs other e s) n0 := by
        unfold keepOrRelease
        rw [if_neg h1]
        refine ⟨Accounts.release e.sharedVertex h ?_,
          hv.objects (deleteSharedVertex_live e.sharedVertex s n0
            (hb e (List.mem_cons_self _ _)))⟩
        intro p
        rw [refsOf_cons]
        omega
      exact ih hb2 _ _ hk.1 hk.2

theorem withExisting_filter {F : Type} (signs : SignArray) (l : List (SurfaceEdge Nat)) :
    (withExisting l : List (SurfaceEdge (VertexRef F))).filter (stillCrosses signs)
      = withExisting (l.filter (stillCrosses signs)) := by
  unfold withExisting
  rw [List.filter_map]
  rfl

theorem existingRefs_emplaced {F : Type} [FloatOps F]
    (newVertex : Vector3 F → Nat → F → SolidGeometry F → Vertex F) (R : Area F) (c : F)
    (area : Area F) (sdf : SolidGeometry F) (b : Bool) (iPos : Vector3i) (d : Nat) (p : Nat) :
    existingRefs [emplaced (initCalls newVertex) R c area sdf b iPos d] p = 0 := by
  unfold existingRefs emplaced
  cases b <;> rfl

theorem existingRefs_newEdgesAt {F : Type} [FloatOps F]
    (newVertex : Vector3 F → Nat → F → SolidGeometry F → Vertex F) (R : Area F) (c : F)
    (area : Area F) (sdf : SolidGeometry F) (ign : EdgeMask) (signs : SignArray) (j p : Nat) :
    existingRefs (newEdgesAt (initCalls newVertex) R c area sdf ign signs j) p = 0 := by
  unfold newEdgesAt
  rw [existingRefs_append, existingRefs_append]
  have hnil : existingRefs ([] : List (SurfaceEdge (VertexRef F))) p = 0 := rfl
  split_ifs <;> simp only [existingRefs_emplaced, hnil]

theorem existingRefs_newEdges {F : Type} [FloatOps F]
    (newVertex : Vector3 F → Nat → F → SolidGeometry F → Vertex F) (R : Area F) (c : F)
    (area : Area F) (sdf : SolidGeometry F) (ign : EdgeMask) (signs : SignArray) (p : Nat)
    (n : Nat) :
    existingRefs (forLoop n
      (fun j es => es ++ newEdgesAt (initCalls newVertex) R c area sdf ign signs j)
      ([] : List (SurfaceEdge (VertexRef F)))) p = 0 := by
  induction n with
  | zero => rfl
  | succ n ih => rw [forLoop_succ, existingRefs_append, ih, existingRefs_newEdgesAt]
theorem Tracked.recount {F : Type} {n0 : Nat} {st : VertexStore F × Registry} {ρ ρ2 : Nat → Nat}
    (h : Tracked n0 st ρ) (he : ∀ p, ρ2 p = ρ p) : Tracked n0 st ρ2 :=
  ⟨h.1.congr he, h.2.1, h.2.2⟩

/-- The rebuild of the edge list of a leaf (loop over the old records, then the `init`
calls of the resulting list) keeps the accounting. -/
theorem rebuildS_tracked {F : Type} [FloatOps F]
    (newVertex : Vector3 F → Nat → F → SolidGeometry F → Vertex F) (farther : Bool)
    (normalise : Vector3 F → Vector3 F) (R : Area F) (c : F) (area : Area F)
    (sdf : SolidGeometry F) (signs other : SignArray) (old : List (SurfaceEdge Nat))
    (st : VertexStore F × Registry) (base : Nat → Nat) (n0 : Nat)
    (hb : ∀ e, e ∈ old → e.sharedVertex < n0)
    (h : Tracked n0 st (fun p => base p + refsOf old p)) :
    Tracked n0
      (runInits
        (computeEdgesIgnoring (initCalls newVertex) R c area sdf
          (keepCrossingEdges signs (withExisting old : List (SurfaceEdge (VertexRef F)))).2
          { m_Signs := signs
            m_SurfaceEdges :=
              (keepCrossingEdges signs
                (withExisting old : List (SurfaceEdge (VertexRef F)))).1 }).m_SurfaceEdges
        (old.foldl (fun s i => keepOrRelease farther normalise R c area sdf signs other i s) st.1,
          st.2)).2
      (fun p => base p + refsOf (runInits
        (computeEdgesIgnoring (initCalls newVertex) R c area sdf
          (keepCrossingEdges signs (withExisting old : List (SurfaceEdge (VertexRef F)))).2
          { m_Signs := signs
            m_SurfaceEdges :=
              (keepCrossingEdges signs
                (withExisting old : List (SurfaceEdge (VertexRef F)))).1 }).m_SurfaceEdges
        (old.foldl (fun s i => keepOrRelease farther normalise R c area sdf signs other i s) st.1,
          st.2)).1 p) := by
  obtain ⟨h1, h2, h3⟩ := h
  obtain ⟨k1, k2⟩ := keepOrRelease_fold_accounts farther normalise R c area sdf signs other old
    st.2 n0 hb st.1 base h1 h2
  have k3 := keepOrRelease_fold_next farther normalise R c area sdf signs other old st.1
  rw [rebuild_edges]
  obtain ⟨r1, r2, r3⟩ := runInits_accounts
    ((withExisting old : List (SurfaceEdge (VertexRef F))).filter (stillCrosses signs)
      ++ forLoop LEAF_SIZE_3D
          (fun j es => es ++ newEdgesAt (initCalls newVertex) R c area sdf
            (keepCrossingEdges signs (withExisting old : List (SurfaceEdge (VertexRef F)))).2
            signs j) [])
    (old.foldl (fun s i => keepOrRelease farther normalise R c area sdf signs other i s) st.1,
      st.2) base n0
    (k1.congr (by
      intro p
      rw [existingRefs_append, existingRefs_newEdges, withExisting_filter,
        existingRefs_withExisting, Nat.add_zero]))
    k2 (by
      show n0 ≤ _
      rw [k3]
      exact h3)
  refine ⟨r1, r2, ?_⟩
  refine le_trans ?_ r3
  show n0 ≤ _
  rw [k3]
  exact h3

theorem GridNode.mergeS_leaf_tracked {F : Type} [FloatOps F]
    (newVertex : Vector3 F → Nat → F → SolidGeometry F → Vertex F)
    (normalise : Vector3 F → Vector3 F) (R : Area F) (c : F) (area : Area F)
    (sdf : SolidGeometry F) (g : GridNode Nat) (st : VertexStore F × Registry)
    (base : Nat → Nat) (n0 : Nat) (hb : ∀ e, e ∈ g.m_SurfaceEdges → e.sharedVertex < n0)
    (h : Tracked n0 st (fun p => base p + refsOf g.m_SurfaceEdges p)) :
    Tracked n0 (g.mergeS newVertex normalise R c area sdf st).2
      (fun p => base p
        + refsOf (g.mergeS newVertex normalise R c area sdf st).1.m_SurfaceEdges p) := by
  unfold GridNode.mergeS GridNode.merge
  simp only [computeEdgesIgnoring_signs]
  exact rebuildS_tracked newVertex true normalise R c area sdf _ _ g.m_SurfaceEdges st base n0
    hb h

theorem GridNode.intersectS_leaf_tracked {F : Type} [FloatOps F]
    (newVertex : Vector3 F → Nat → F → SolidGeometry F → Vertex F)
    (normalise : Vector3 F → Vector3 F) (R : Area F) (c : F) (area : Area F)
    (sdf : SolidGeometry F) (g : GridNode Nat) (st : VertexStore F × Registry)
    (base : Nat → Nat) (n0 : Nat) (hb : ∀ e, e ∈ g.m_SurfaceEdges → e.sharedVertex < n0)
    (h : Tracked n0 st (fun p => base p + refsOf g.m_SurfaceEdges p)) :
    Tracked n0 (g.intersectS newVertex normalise R c area sdf st).2
      (fun p => base p
        + refsOf (g.intersectS newVertex normalise R c area sdf st).1.m_SurfaceEdges p) := by
  unfold GridNode.intersectS GridNode.intersect
  simp only [computeEdgesIgnoring_signs]
  exact rebuildS_tracked newVertex false normalise R c area sdf _ _ g.m_SurfaceEdges st base n0
    hb h

theorem GridNode.createS_tracked {F : Type} [FloatOps F]
    (newVertex : Vector3 F → Nat → F → SolidGeometry F → Vertex F) (R : Area F) (c : F)
    (area : Area F) (sdf : SolidGeometry F) (st : VertexStore F × Registry)
    (base : Nat → Nat) (n0 : Nat) (h : Tracked n0 st base) :
    Tracked n0 (GridNode.createS newVertex R c area sdf st).2
      (fun p => base p + refsOf (GridNode.createS newVertex R c area sdf st).1.m_SurfaceEdges p) := by
  unfold GridNode.createS
  simp only
  rw [GridNode.create_eq]
  exact rebuildS_tracked newVertex true (fun v => v) R c area sdf _
    SignArray.blank [] st base n0 (fun e he => absurd he (List.not_mem_nil e))
    (h.recount (fun p => by simp [refsOf_nil]))
/-- Accounting along the loop over the eight children: if every iteration turns the
references `old i` of its child into the references of what it produces, the loop turns
the sum of the old references into the sum of the new ones. -/
theorem threadChildren_accounts {σ β : Type} (f : Fin 8 → σ → β × σ)
    (P : σ → (Nat → Nat) → Prop)
    (hP : ∀ st ρ ρ2, (∀ p, ρ2 p = ρ p) → P st ρ → P st ρ2)
    (old : Fin 8 → Nat → Nat) (newRefs : β → Nat → Nat)
    (h : ∀ i st (base : Nat → Nat), P st (fun p => base p + old i p) →
      P (f i st).2 (fun p => base p + newRefs (f i st).1 p))
    (st : σ) (base : Nat → Nat) (hst : P st (fun p => base p + ∑ i : Fin 8, old i p)) :
    P (threadChildren f st).2
      (fun p => base p + ∑ i : Fin 8, newRefs ((threadChildren f st).1 i) p) := by
  have t0 : (threadChildren f st).1 0 = (f 0 st).1 := rfl
  have t1 : (threadChildren f st).1 1 = (f 1 (f 0 st).2).1 := rfl
  have t2 : (threadChildren f st).1 2 = (f 2 (f 1 (f 0 st).2).2).1 := rfl
  have t3 : (threadChildren f st).1 3 = (f 3 (f 2 (f 1 (f 0 st).2).2).2).1 := rfl
  have t4 : (threadChildren f st).1 4 = (f 4 (f 3 (f 2 (f 1 (f 0 st).2).2).2).2).1 := rfl
  have t5 : (threadChildren f st).1 5
      = (f 5 (f 4 (f 3 (f 2 (f 1 (f 0 st).2).2).2).2).2).1 := rfl
  have t6 : (threadChildren f st).1 6
      = (f 6 (f 5 (f 4 (f 3 (f 2 (f 1 (f 0 st).2).2).2).2).2).2).1 := rfl
  have t7 : (threadChildren f st).1 7
      = (f 7 (f 6 (f 5 (f 4 (f 3 (f 2 (f 1 (f 0 st).2).2).2).2).2).2).2).1 := rfl
  rw [threadChildren_snd]
  simp only [Fin.sum_univ_eight, t0, t1, t2, t3, t4, t5, t6, t7]
  simp only [Fin.sum_univ_eight] at hst
  have q0 := h 0 st
    (fun p => base p + old 1 p + old 2 p + old 3 p + old 4 p + old 5 p + old 6 p + old 7 p)
    (hP _ _ _ (fun p => by beta_reduce; omega) hst)
  have q1 := h 1 _
    (fun p => base p + newRefs (f 0 st).1 p + old 2 p + old 3 p + old 4 p + old 5 p + old 6 p
      + old 7 p)
    (hP _ _ _ (fun p => by beta_reduce; omega) q0)
  have q2 := h 2 _
    (fun p => base p + newRefs (f 0 st).1 p + newRefs (f 1 (f 0 st).2).1 p + old 3 p + old 4 p
      + old 5 p + old 6 p + old 7 p)
    (hP _ _ _ (fun p => by beta_reduce; omega) q1)
  have q3 := h 3 _
    (fun p => base p + newRefs (f 0 st).1 p + newRefs (f 1 (f 0 st).2).1 p
      + newRefs (f 2 (f 1 (f 0 st).2).2).1 p + old 4 p + old 5 p + old 6 p + old 7 p)
    (hP _ _ _ (fun p => by beta_reduce; omega) q2)
  have q4 := h 4 _
    (fun p => base p + newRefs (f 0 st).1 p + newRefs (f 1 (f 0 st).2).1 p
      + newRefs (f 2 (f 1 (f 0 st).2).2).1 p + newRefs (f 3 (f 2 (f 1 (f 0 st).2).2).2).1 p
      + old 5 p + old 6 p + old 7 p)
    (hP _ _ _ (fun p => by beta_reduce; omega) q3)
  have q5 := h 5 _
    (fun p => base p + newRefs (f 0 st).1 p + newRefs (f 1 (f 0 st).2).1 p
      + newRefs (f 2 (f 1 (f 0 st).2).2).1 p + newRefs (f 3 (f 2 (f 1 (f 0 st).2).2).2).1 p
      + newRefs (f 4 (f 3 (f 2 (f 1 (f 0 st).2).2).2).2).1 p + old 6 p + old 7 p)
    (hP _ _ _ (fun p => by beta_reduce; omega) q4)
  have q6 := h 6 _
    (fun p => base p + newRefs (f 0 st).1 p + newRefs (f 1 (f 0 st).2).1 p
      + newRefs (f 2 (f 1 (f 0 st).2).2).1 p + newRefs (f 3 (f 2 (f 1 (f 0 st).2).2).2).1 p
      + newRefs (f 4 (f 3 (f 2 (f 1 (f 0 st).2).2).2).2).1 p
      + newRefs (f 5 (f 4 (f 3 (f 2 (f 1 (f 0 st).2).2).2).2).2).1 p + old 7 p)
    (hP _ _ _ (fun p => by beta_reduce; omega) q5)
  have q7 := h 7 _
    (fun p => base p + newRefs (f 0 st).1 p + newRefs (f 1 (f 0 st).2).1 p
      + newRefs (f 2 (f 1 (f 0 st).2).2).1 p + newRefs (f 3 (f 2 (f 1 (f 0 st).2).2).2).1 p
      + newRefs (f 4 (f 3 (f 2 (f 1 (f 0 st).2).2).2).2).1 p
      + newRefs (f 5 (f 4 (f 3 (f 2 (f 1 (f 0 st).2).2).2).2).2).1 p
      + newRefs (f 6 (f 5 (f 4 (f 3 (f 2 (f 1 (f 0 st).2).2).2).2).2).2).1 p)
    (hP _ _ _ (fun p => by beta_reduce; omega) q6)
  exact hP _ _ _ (fun p => by beta_reduce; omega) q7
theorem Node.references_inner (c : Fin 8 → Node Nat) (p : Nat) :
    (Node.inner c).references p = ∑ i : Fin 8, (c i).references p := rfl

theorem Node.references_empty (b : Bool) (p : Nat) :
    (Node.empty b : Node Nat).references p = 0 := rfl

theorem Node.references_grid (g : GridNode Nat) (p : Nat) :
    (Node.grid g).references p = refsOf g.m_SurfaceEdges p := rfl

theorem Node.Below.child {c : Fin 8 → Node Nat} {n0 : Nat} (h : (Node.inner c).Below n0)
    (i : Fin 8) : (c i).Below n0 := by
  intro p hp
  apply h p
  rw [Node.references_inner]
  exact le_trans hp
    (Finset.single_le_sum (f := fun i => (c i).references p) (fun _ _ => Nat.zero_le _)
      (Finset.mem_univ i))

theorem Node.Below.edges {g : GridNode Nat} {n0 : Nat} (h : (Node.grid g).Below n0)
    (e : SurfaceEdge Nat) (he : e ∈ g.m_SurfaceEdges) : e.sharedVertex < n0 :=
  h e.sharedVertex (refsOf_pos_of_mem _ e he)

/-- The tree builder counts the references of the subtree it builds. -/
theorem createNodeS_tracked {F : Type} [FloatOps F]
    (newVertex : Vector3 F → Nat → F → SolidGeometry F → Vertex F) (R : Area F) (c : F)
    (sdf : SolidGeometry F) (n0 : Nat) (area : Area F) :
    ∀ (st : VertexStore F × Registry) (base : Nat → Nat), Tracked n0 st base →
      Tracked n0 (createNodeS newVertex R c sdf area st).2
        (fun p => base p + (createNodeS newVertex R c sdf area st).1.references p) := by
  induction area using area_induction with
  | step a ih =>
    intro st base h
    rw [createNodeS]
    by_cases h1 : a.m_SizeExpo ≤ LEAF_EXPO ∧ sdf.cubeNeedsSubdivision a = true
    · rw [dif_pos h1]
      simp only [Node.references_grid]
      exact GridNode.createS_tracked newVertex R c a sdf st base n0 h
    · rw [dif_neg h1]
      by_cases h2 : sdf.cubeNeedsSubdivision a = true
      · rw [dif_pos h2]
        have hlt : (LEAF_EXPO : Int) < a.m_SizeExpo := by
          by_contra hc
          exact h1 ⟨by omega, h2⟩
        simp only [Node.references_inner]
        exact threadChildren_accounts
          (fun i st2 => createNodeS newVertex R c sdf (a.getSubAreas i) st2) (Tracked n0)
          (fun _ _ _ he hh => hh.recount he) (fun _ _ => 0) (fun n p => n.references p)
          (fun i st2 base2 hh => ih hlt i st2 base2 (hh.recount (fun p => by simp)))
          st base (h.recount (fun p => by simp))
      · rw [dif_neg h2]
        exact h.recount (fun p => by simp [EmptyNode.create, Node.references_empty])

/-- The destructor of a subtree releases the references of the subtree. -/
theorem Node.deleteS_tracked {F : Type} (r : Registry) (n0 : Nat) (n : Node Nat) :
    ∀ (s : VertexStore F) (base : Nat → Nat), n.Below n0 →
      Tracked n0 (s, r) (fun p => base p + n.references p) →
      Tracked n0 (n.deleteS s, r) base := by
  induction n with
  | inner c ih =>
    intro s base hb h
    unfold Node.deleteS
    have := threadChildren_accounts (fun i s2 => ((), (c i).deleteS s2))
      (fun s2 ρ => Tracked n0 (s2, r) ρ) (fun _ _ _ he hh => hh.recount he)
      (fun i p => (c i).references p) (fun _ _ => 0)
      (fun i s2 base2 hh => (ih i s2 base2 (hb.child i) hh).recount (fun p => by simp))
      s base h
    exact this.recount (fun p => by simp)
  | empty b =>
    intro s base _ h
    exact h.recount (fun p => by simp [Node.references_empty])
  | grid g =>
    intro s base hb h
    unfold Node.deleteS
    obtain ⟨h1, h2, h3⟩ := h
    obtain ⟨k1, k2, k3⟩ := deleteFold_accounts g.m_SurfaceEdges r n0 hb.edges s base h1 h2
    refine ⟨k1, k2, ?_⟩
    show n0 ≤ _
    rw [k3]
    exact h3

/-- The union of a subtree with an implicit solid keeps the accounting. -/
theorem mergeS_tracked {F : Type} [FloatOps F]
    (newVertex : Vector3 F → Nat → F → SolidGeometry F → Vertex F)
    (normalise : Vector3 F → Vector3 F) (R : Area F) (c : F) (sdf : SolidGeometry F)
    (n0 : Nat) (n : Node Nat) :
    ∀ (area : Area F) (st : VertexStore F × Registry) (base : Nat → Nat), n.Below n0 →
      Tracked n0 st (fun p => base p + n.references p) →
      Tracked n0 (mergeS newVertex normalise R c sdf n area st).2
        (fun p => base p + (mergeS newVertex normalise R c sdf n area st).1.references p) := by
  induction n with
  | inner ch ih =>
    intro area st base hb h
    unfold mergeS
    by_cases h1 : sdf.cubeNeedsSubdivision area = true
    · rw [if_pos h1]
      simp only [Node.references_inner]
      exact threadChildren_accounts
        (fun i st2 => mergeS newVertex normalise R c sdf (ch i) (area.getSubAreas i) st2)
        (Tracked n0) (fun _ _ _ he hh => hh.recount he) (fun i p => (ch i).references p)
        (fun n p => n.references p)
        (fun i st2 base2 hh => ih i (area.getSubAreas i) st2 base2 (hb.child i) hh)
        st base h
    · rw [if_neg h1]
      by_cases h2 : (!sdf.getSign (area.getCornerVecs 0).2) = true
      · rw [if_pos h2]
        exact h
      · rw [if_neg h2]
        exact createNodeS_tracked newVertex R c sdf n0 area _ base
          (Node.deleteS_tracked st.2 n0 (Node.inner ch) st.1 base hb h)
  | empty b =>
    intro area st base hb h
    have h0 : Tracked n0 st base := h.recount (fun p => by simp [Node.references_empty])
    unfold mergeS
    by_cases h1 : (!sdf.cubeNeedsSubdivision area) = true
    · rw [if_pos h1]
      by_cases h2 : (!sdf.getSign (area.getCornerVecs 0).2) = true
      · rw [if_pos h2]
        exact h
      · rw [if_neg h2]
        exact createNodeS_tracked newVertex R c sdf n0 area st base h0
    · rw [if_neg h1]
      by_cases h2 : b = true
      · rw [if_pos h2]
        exact h
      · rw [if_neg h2]
        exact createNodeS_tracked newVertex R c sdf n0 area st base h0
  | grid g =>
    intro area st base hb h
    unfold mergeS
    by_cases h1 : (!sdf.cubeNeedsSubdivision area) = true
    · rw [if_pos h1]
      by_cases h2 : (!sdf.getSign (area.getCornerVecs 0).2) = true
      · rw [if_pos h2]
        exact h
      · rw [if_neg h2]
        exact createNodeS_tracked newVertex R c sdf n0 area _ base
          (Node.deleteS_tracked st.2 n0 (Node.grid g) st.1 base hb h)
    · rw [if_neg h1]
      simp only [Node.references_grid]
      exact GridNode.mergeS_leaf_tracked newVertex normalise R c area sdf g st base n0 hb.edges h

/-- The intersection of a subtree with an implicit solid keeps the accounting. -/
theorem intersectS_tracked {F : Type} [FloatOps F]
    (newVertex : Vector3 F → Nat → F → SolidGeometry F → Vertex F)
    (normalise : Vector3 F → Vector3 F) (R : Area F) (c : F) (sdf : SolidGeometry F)
    (n0 : Nat) (n : Node Nat) :
    ∀ (area : Area F) (st : VertexStore F × Registry) (base : Nat → Nat), n.Below n0 →
      Tracked n0 st (fun p => base p + n.references p) →
      Tracked n0 (intersectS newVertex normalise R c sdf n area st).2
        (fun p => base p + (intersectS newVertex normalise R c sdf n area st).1.references p) := by
  induction n with
  | inner ch ih =>
    intro area st base hb h
    unfold intersectS
    by_cases h1 : sdf.cubeNeedsSubdivision area = true
    · rw [if_pos h1]
      simp only [Node.references_inner]
      exact threadChildren_accounts
        (fun i st2 => intersectS newVertex normalise R c sdf (ch i) (area.getSubAreas i) st2)
        (Tracked n0) (fun _ _ _ he hh => hh.recount he) (fun i p => (ch i).references p)
        (fun n p => n.references p)
        (fun i st2 base2 hh => ih i (area.getSubAreas i) st2 base2 (hb.child i) hh)
        st base h
    · rw [if_neg h1]
      by_cases h2 : sdf.getSign (area.getCornerVecs 0).2 = true
      · rw [if_pos h2]
        exact h
      · rw [if_neg h2]
        exact (Node.deleteS_tracked st.2 n0 (Node.inner ch) st.1 base hb h).recount
          (fun p => by simp [EmptyNode.create, Node.references_empty])
  | empty b =>
    intro area st base hb h
    have h0 : Tracked n0 st base := h.recount (fun p => by simp [Node.references_empty])
    unfold intersectS
    by_cases h1 : (!sdf.cubeNeedsSubdivision area) = true
    · rw [if_pos h1]
      by_cases h2 : sdf.getSign (area.getCornerVecs 0).2 = true
      · rw [if_pos h2]
        exact h
      · rw [if_neg h2]
        exact h0.recount (fun p => by simp [EmptyNode.create, Node.references_empty])
    · rw [if_neg h1]
      by_cases h2 : (!b) = true
      · rw [if_pos h2]
        exact h
      · rw [if_neg h2]
        exact createNodeS_tracked newVertex R c sdf n0 area st base h0
  | grid g =>
    intro area st base hb h
    unfold intersectS
    by_cases h1 : (!sdf.cubeNeedsSubdivision area) = true
    · rw [if_pos h1]
      by_cases h2 : sdf.getSign (area.getCornerVecs 0).2 = true
      · rw [if_pos h2]
        exact h
      · rw [if_neg h2]
        exact (Node.deleteS_tracked st.2 n0 (Node.grid g) st.1 base hb h).recount
          (fun p => by simp [EmptyNode.create, Node.references_empty])
    · rw [if_neg h1]
      simp only [Node.references_grid]
      exact GridNode.intersectS_leaf_tracked newVertex normalise R c area sdf g st base n0 hb.edges h
theorem Registry.empty_valid {F : Type} (s : VertexStore F) (n0 : Nat) :
    Registry.empty.Valid s n0 := by
  intro d pos q hq
  exact absurd hq (by simp [Registry.empty])

/-- The accounting after `clone`: the reference count of every vertex grows by the number
of copied records that reference it. -/
theorem Accounts.addRefs {F : Type} {s : VertexStore F} {ρ : Nat → Nat} (h : Accounts s ρ)
    (k : Nat → Nat) (hk : ∀ p, k p ≤ ρ p) : Accounts (s.addRefs k) (fun p => ρ p + k p) := by
  refine ⟨?_, ?_, ?_⟩
  · intro p hp
    have hp2 : s.live p = true := hp
    obtain ⟨h1, h2⟩ := h.count p hp2
    simp only [VertexStore.addRefs]
    omega
  · intro p hp
    have hp2 : s.live p = false := hp
    have h1 := h.dead p hp2
    have h2 := hk p
    omega
  · intro p hp
    exact h.bound p hp

theorem World.references_append {F : Type} (ts : List (Tree F Nat)) (t : Tree F Nat)
    (s : VertexStore F) (p : Nat) :
    (World.mk (ts ++ [t]) s).references p
      = (ts.map (fun t => t.m_RootNode.references p)).sum + t.m_RootNode.references p := by
  unfold World.references
  simp

theorem get_split {α : Type} (l : List α) :
    ∀ (i : Nat) (a : α), l.get? i = some a →
      ∃ l1 l2, l = l1 ++ a :: l2 ∧ ∀ b, l.set i b = l1 ++ b :: l2 := by
  induction l with
  | nil =>
    intro i a h
    simp at h
  | cons x t ih =>
    intro i a h
    cases i with
    | zero =>
      simp only [List.get?_cons_zero, Option.some.injEq] at h
      exact ⟨[], t, by rw [h]; rfl, fun b => rfl⟩
    | succ i =>
      simp only [List.get?_cons_succ] at h
      obtain ⟨l1, l2, e1, e2⟩ := ih i a h
      refine ⟨x :: l1, l2, by rw [e1]; rfl, ?_⟩
      intro b
      rw [List.set_cons_succ, e2 b]
      rfl

theorem World.references_split {F : Type} (l1 l2 : List (Tree F Nat)) (t : Tree F Nat)
    (s : VertexStore F) (p : Nat) :
    (World.mk (l1 ++ t :: l2) s).references p
      = ((l1.map (fun t => t.m_RootNode.references p)).sum
          + (l2.map (fun t => t.m_RootNode.references p)).sum) + t.m_RootNode.references p := by
  unfold World.references
  simp only [List.map_append, List.map_cons, List.sum_append, List.sum_cons]
  omega

/-- A tree of a world whose store accounts for the references only refers to pointers
below the next pointer. -/
theorem Accounts.below {F : Type} {s : VertexStore F} {ρ : Nat → Nat} (h : Accounts s ρ)
    (n : Node Nat) (hn : ∀ p, n.references p ≤ ρ p) : n.Below s.next := by
  intro p hp
  exact h.bound p (h.live_of_pos p (le_trans hp (hn p)))

/-- Every operation keeps the accounting of the world. -/
theorem World.step_accounts {F : Type} [FloatOps F]
    (newVertex : Vector3 F → Nat → F → SolidGeometry F → Vertex F)
    (normalise : Vector3 F → Vector3 F) (w : World F) (cmd : Command F)
    (h : Accounts w.store w.references) :
    Accounts (w.step newVertex normalise cmd).store (w.step newVertex normalise cmd).references := by
  cases cmd with
  | sample sdf aabb maxDepth =>
    simp only [World.step]
    have ht : Tracked w.store.next (w.store, Registry.empty) w.references :=
      ⟨h, Registry.empty_valid _ _, le_refl _⟩
    have hc := createNodeS_tracked newVertex
      (⟨⟨0, 0, 0⟩, maxDepth, aabb.min,
        FloatOps.max (FloatOps.max (aabb.max.sub aabb.min).x (aabb.max.sub aabb.min).y)
          (aabb.max.sub aabb.min).z⟩ : Area F)
      (FloatOps.div
        (FloatOps.max (FloatOps.max (aabb.max.sub aabb.min).x (aabb.max.sub aabb.min).y)
          (aabb.max.sub aabb.min).z) (FloatOps.ofInt (shl1 maxDepth)))
      sdf w.store.next
      (⟨⟨0, 0, 0⟩, maxDepth, aabb.min,
        FloatOps.max (FloatOps.max (aabb.max.sub aabb.min).x (aabb.max.sub aabb.min).y)
          (aabb.max.sub aabb.min).z⟩ : Area F) _ _ ht
    refine hc.1.congr ?_
    intro p
    rw [World.references_append]
    rfl
  | clone i =>
    simp only [World.step]
    cases hg : w.trees.get? i with
    | none => exact h
    | some t =>
      simp only
      obtain ⟨l1, l2, e1, _⟩ := get_split w.trees i t hg
      have hle : ∀ p, t.m_RootNode.references p ≤ w.references p := by
        intro p
        have := World.references_split l1 l2 t w.store p
        rw [← e1] at this
        have e0 : (World.mk w.trees w.store).references p = w.references p := rfl
        omega
      unfold Tree.cloneS
      rw [Node.cloneS_eq]
      refine (h.addRefs _ hle).congr ?_
      intro p
      rw [World.references_append]
      rfl
  | merge i sdf =>
    simp only [World.step]
    cases hg : w.trees.get? i with
    | none => exact h
    | some t =>
      simp only
      obtain ⟨l1, l2, e1, e2⟩ := get_split w.trees i t hg
      rw [e2]
      have e0 : ∀ p, w.references p
          = ((l1.map (fun t => t.m_RootNode.references p)).sum
            + (l2.map (fun t => t.m_RootNode.references p)).sum)
            + t.m_RootNode.references p := by
        intro p
        have := World.references_split l1 l2 t w.store p
        rw [← e1] at this
        exact this
      have hb : t.m_RootNode.Below w.store.next :=
        h.below _ (fun p => by rw [e0 p]; omega)
      have ht : Tracked w.store.next (w.store, Registry.empty)
          (fun p => ((l1.map (fun t => t.m_RootNode.references p)).sum
            + (l2.map (fun t => t.m_RootNode.references p)).sum)
            + t.m_RootNode.references p) :=
        ⟨h.congr (fun p => (e0 p).symm), Registry.empty_valid _ _, le_refl _⟩
      have hc := mergeS_tracked newVertex normalise t.m_RootArea t.m_CellSize sdf w.store.next
        t.m_RootNode t.m_RootArea _ _ hb ht
      refine hc.1.congr ?_
      intro p
      rw [World.references_split]
      rfl
  | intersect i sdf =>
    simp only [World.step]
    cases hg : w.trees.get? i with
    | none => exact h
    | some t =>
      simp only
      obtain ⟨l1, l2, e1, e2⟩ := get_split w.trees i t hg
      rw [e2]
      have e0 : ∀ p, w.references p
          = ((l1.map (fun t => t.m_RootNode.references p)).sum
            + (l2.map (fun t => t.m_RootNode.references p)).sum)
            + t.m_RootNode.references p := by
        intro p
        have := World.references_split l1 l2 t w.store p
        rw [← e1] at this
        exact this
      have hb : t.m_RootNode.Below w.store.next :=
        h.below _ (fun p => by rw [e0 p]; omega)
      have ht : Tracked w.store.next (w.store, Registry.empty)
          (fun p => ((l1.map (fun t => t.m_RootNode.references p)).sum
            + (l2.map (fun t => t.m_RootNode.references p)).sum)
            + t.m_RootNode.references p) :=
        ⟨h.congr (fun p => (e0 p).symm), Registry.empty_valid _ _, le_refl _⟩
      have hc := intersectS_tracked newVertex normalise t.m_RootArea t.m_CellSize sdf
        w.store.next t.m_RootNode t.m_RootArea _ _ hb ht
      refine hc.1.congr ?_
      intro p
      rw [World.references_split]
      rfl
  | subtract i sdf =>
    simp only [World.step]
    cases hg : w.trees.get? i with
    | none => exact h
    | some t =>
      simp only
      obtain ⟨l1, l2, e1, e2⟩ := get_split w.trees i t hg
      rw [e2]
      have e0 : ∀ p, w.references p
          = ((l1.map (fun t => t.m_RootNode.references p)).sum
            + (l2.map (fun t => t.m_RootNode.references p)).sum)
            + t.m_RootNode.references p := by
        intro p
        have := World.references_split l1 l2 t w.store p
        rw [← e1] at this
        exact this
      have hb : t.m_RootNode.Below w.store.next :=
        h.below _ (fun p => by rw [e0 p]; omega)
      have ht : Tracked w.store.next (w.store, Registry.empty)
          (fun p => ((l1.map (fun t => t.m_RootNode.references p)).sum
            + (l2.map (fun t => t.m_RootNode.references p)).sum)
            + t.m_RootNode.references p) :=
        ⟨h.congr (fun p => (e0 p).symm), Registry.empty_valid _ _, le_refl _⟩
      have hc := intersectS_tracked newVertex normalise t.m_RootArea t.m_CellSize
        (OpInvertSDF sdf) w.store.next t.m_RootNode t.m_RootArea _ _ hb ht
      refine hc.1.congr ?_
      intro p
      rw [World.references_split]
      rfl

theorem World.run_accounts {F : Type} [FloatOps F]
    (newVertex : Vector3 F → Nat → F → SolidGeometry F → Vertex F)
    (normalise : Vector3 F → Vector3 F) (cmds : List (Command F)) :
    ∀ w : World F, Accounts w.store w.references →
      Accounts (w.run newVertex normalise cmds).store
        (w.run newVertex normalise cmds).references := by
  induction cmds with
  | nil => exact fun w h => h
  | cons c t ih =>
    intro w h
    unfold World.run
    rw [List.foldl_cons]
    exact ih _ (World.step_accounts newVertex normalise w c h)

theorem exampleWorld_accounts : Accounts exampleWorld.store exampleWorld.references := by
  have hr : ∀ p, exampleWorld.references p
      = (if p = 10 then 1 else 0) + (if p = 11 then 1 else 0) + (if p = 12 then 1 else 0) := by
    intro p
    unfold World.references exampleWorld exampleLeafTree
    simp only [List.map_cons, List.map_nil, List.sum_cons, List.sum_nil, Node.references_grid,
      exampleCornerLeaf, refsOf_cons, refsOf_nil]
    omega
  refine ⟨?_, ?_, ?_⟩
  · intro p hp
    rw [hr]
    have hp2 : decide (p = 10 ∨ p = 11 ∨ p = 12) = true := hp
    simp only [decide_eq_true_eq] at hp2
    refine ⟨?_, ?_⟩
    · show 1 = _
      rcases hp2 with h | h | h <;> simp [h]
    · rcases hp2 with h | h | h <;> simp [h]
  · intro p hp
    rw [hr]
    have hp2 : decide (p = 10 ∨ p = 11 ∨ p = 12) = false := hp
    simp only [decide_eq_false_iff_not, not_or] at hp2
    simp [hp2.1, hp2.2.1, hp2.2.2]
  · intro p hp
    have hp2 : decide (p = 10 ∨ p = 11 ∨ p = 12) = true := hp
    simp only [decide_eq_true_eq] at hp2
    show p < 100
    omega

/-! ## Registry: one vertex per direction and global position -/

theorem Registry.Le.refl (r : Registry) : r.Le r := fun _ _ _ h => h

theorem Registry.Le.trans {r1 r2 r3 : Registry} (h1 : r1.Le r2) (h2 : r2.Le r3) : r1.Le r3 :=
  fun d pos q h => h2 d pos q (h1 d pos q h)

theorem Registered.mono {r r2 : Registry} {minPos : Vector3i} {e : SurfaceEdge Nat}
    (h : Registered r minPos e) (hle : r.Le r2) : Registered r2 minPos e :=
  fun hi => hle _ _ _ (h hi)

/-- Executing one `init` call keeps the registry sound, only adds entries to it, and
leaves the record of a registry lookup with the pointer the registry holds for its key. -/
theorem runInit_registry {F : Type} (e : SurfaceEdge (VertexRef F))
    (st : VertexStore F × Registry) (minPos : Vector3i) (hs : st.2.Sound st.1)
    (hc : SharedCall minPos e) :
    (runInit e st).2.2.Sound (runInit e st).2.1 ∧ st.2.Le (runInit e st).2.2
      ∧ Registered (runInit e st).2.2 minPos (runInit e st).1 := by
  unfold runInit
  cases hsv : e.sharedVertex with
  | existing q =>
    simp only
    refine ⟨hs, Registry.Le.refl _, ?_⟩
    intro hi
    obtain ⟨v, hv⟩ := hc hi
    rw [hsv] at hv
    cases hv
  | newPrivate v =>
    simp only
    refine ⟨?_, Registry.Le.refl _, ?_⟩
    · intro d pos q hq
      obtain ⟨h1, h2⟩ := hs d pos q hq
      simp only [initPrivateVertex, VertexStore.alloc, VertexHeap.set_apply]
      have hne : ¬ q = st.1.next := by omega
      rw [if_neg hne]
      exact ⟨by omega, h2⟩
    · intro hi
      obtain ⟨v2, hv⟩ := hc hi
      rw [hsv] at hv
      cases hv
  | newShared d pos v =>
    simp only
    have hkey : ∀ hi : interiorTest e.edgeIndex1 e.direction = false,
        d = e.direction ∧ pos = minPos + fromIndex e.edgeIndex1 := by
      intro hi
      obtain ⟨v2, hv⟩ := hc hi
      rw [hsv] at hv
      injection hv with h1 h2 h3
      exact ⟨h1, h2⟩
    unfold initSharedVertex
    cases hreg : st.2 d pos with
    | some q =>
      simp only
      refine ⟨?_, Registry.Le.refl _, ?_⟩
      · intro d2 pos2 q2 h2
        obtain ⟨h3, h4⟩ := hs d2 pos2 q2 h2
        refine ⟨h3, ?_⟩
        simp only [VertexStore.modify, VertexHeap.set_apply]
        by_cases hq : q2 = q
        · rw [if_pos hq]
          rw [hq] at h4
          exact h4
        · rw [if_neg hq]
          exact h4
      · intro hi
        obtain ⟨h1, h2⟩ := hkey hi
        show st.2 e.direction (minPos + fromIndex e.edgeIndex1) = some q
        rw [← h1, ← h2]
        exact hreg
    | none =>
      simp only
      refine ⟨?_, ?_, ?_⟩
      · intro d2 pos2 q2 h2
        simp only [Registry.insert, VertexStore.alloc, VertexHeap.set_apply] at h2 ⊢
        by_cases hk : d2 = d ∧ pos2 = pos
        · rw [if_pos hk] at h2
          have hq : st.1.next = q2 := Option.some.inj h2
          rw [← hq, if_pos rfl]
          exact ⟨Nat.lt_succ_self _, rfl⟩
        · rw [if_neg hk] at h2
          obtain ⟨h3, h4⟩ := hs d2 pos2 q2 h2
          have hne : ¬ q2 = st.1.next := by omega
          rw [if_neg hne]
          exact ⟨by omega, h4⟩
      · intro d2 pos2 q2 h2
        simp only [Registry.insert]
        by_cases hk : d2 = d ∧ pos2 = pos
        · rw [hk.1, hk.2, hreg] at h2
          cases h2
        · rw [if_neg hk]
          exact h2
      · intro hi
        obtain ⟨h1, h2⟩ := hkey hi
        show Registry.insert st.2 d pos st.1.next e.direction
          (minPos + fromIndex e.edgeIndex1) = some st.1.next
        simp only [Registry.insert]
        rw [if_pos ⟨h1.symm, h2.symm⟩]

theorem runInits_fold_registry {F : Type} (edges : List (SurfaceEdge (VertexRef F)))
    (minPos : Vector3i) (hc : ∀ e, e ∈ edges → SharedCall minPos e) :
    ∀ (acc : List (SurfaceEdge Nat) × (VertexStore F × Registry)),
      acc.2.2.Sound acc.2.1 → (∀ o, o ∈ acc.1 → Registered acc.2.2 minPos o) →
      (edges.foldl
          (fun acc e => (acc.1 ++ [(runInit e acc.2).1], (runInit e acc.2).2)) acc).2.2.Sound
        (edges.foldl
          (fun acc e => (acc.1 ++ [(runInit e acc.2).1], (runInit e acc.2).2)) acc).2.1
      ∧ acc.2.2.Le (edges.foldl
          (fun acc e => (acc.1 ++ [(runInit e acc.2).1], (runInit e acc.2).2)) acc).2.2
      ∧ ∀ o, o ∈ (edges.foldl
          (fun acc e => (acc.1 ++ [(runInit e acc.2).1], (runInit e acc.2).2)) acc).1 →
        Registered (edges.foldl
          (fun acc e => (acc.1 ++ [(runInit e acc.2).1], (runInit e acc.2).2)) acc).2.2
          minPos o := by
  induction edges with
  | nil =>
    intro acc hs ho
    exact ⟨hs, Registry.Le.refl _, ho⟩
  | cons e t ih =>
    intro acc hs ho
    rw [List.foldl_cons]
    obtain ⟨h1, h2, h3⟩ := runInit_registry e acc.2 minPos hs (hc e (List.mem_cons_self _ _))
    obtain ⟨h4, h5, h6⟩ := ih (fun e2 he2 => hc e2 (List.mem_cons_of_mem _ he2))
      (acc.1 ++ [(runInit e acc.2).1], (runInit e acc.2).2) h1
      (by
        intro o hm
        rw [List.mem_append, List.mem_singleton] at hm
        rcases hm with hm | hm
        · exact (ho o hm).mono h2
        · rw [hm]
          exact h3)
    exact ⟨h4, h2.trans h5, h6⟩

theorem sharedCall_emplaced {F : Type} [FloatOps F]
    (newVertex : Vector3 F → Nat → F → SolidGeometry F → Vertex F) (R : Area F) (c : F)
    (area : Area F) (sdf : SolidGeometry F) (j k : Nat) :
    SharedCall area.m_MinPos
      (emplaced (initCalls newVertex) R c area sdf (interiorTest j k) (fromIndex j) k) := by
  intro hi
  rw [emplaced_edgeIndex1, emplaced_direction, toIndex_fromIndex] at hi ⊢
  unfold emplaced
  rw [hi]
  exact ⟨_, rfl⟩

theorem mem_newEdgesAt_emplaced {F SV : Type} [FloatOps F] (vs : VertexSource F SV)
    (R : Area F) (c : F) (area : Area F) (sdf : SolidGeometry F) (ign : EdgeMask)
    (signs : SignArray) (j : Nat) (e : SurfaceEdge SV)
    (he : e ∈ newEdgesAt vs R c area sdf ign signs j) :
    ∃ k, e = emplaced vs R c area sdf (interiorTest j k) (fromIndex j) k := by
  unfold newEdgesAt at he
  rw [List.mem_append, List.mem_append] at he
  rcases he with (h | h) | h
  · by_cases ht : edgeTest ign signs 0 j = true
    · rw [if_pos ht, List.mem_singleton] at h
      exact ⟨0, h⟩
    · rw [if_neg ht] at h
      cases h
  · by_cases ht : edgeTest ign signs 1 j = true
    · rw [if_pos ht, List.mem_singleton] at h
      exact ⟨1, h⟩
    · rw [if_neg ht] at h
      cases h
  · by_cases ht : edgeTest ign signs 2 j = true
    · rw [if_pos ht, List.mem_singleton] at h
      exact ⟨2, h⟩
    · rw [if_neg ht] at h
      cases h

/-- The constructor of a Grid leaf keeps the registry sound, only adds entries, and every
record of the leaf whose edge fails the interior test holds the registry's pointer. -/
theorem GridNode.createS_registry {F : Type} [FloatOps F]
    (newVertex : Vector3 F → Nat → F → SolidGeometry F → Vertex F) (R : Area F) (c : F)
    (area : Area F) (sdf : SolidGeometry F) (st : VertexStore F × Registry)
    (hs : st.2.Sound st.1) :
    (GridNode.createS newVertex R c area sdf st).2.2.Sound
        (GridNode.createS newVertex R c area sdf st).2.1
      ∧ st.2.Le (GridNode.createS newVertex R c area sdf st).2.2
      ∧ ∀ o, o ∈ (GridNode.createS newVertex R c area sdf st).1.m_SurfaceEdges →
        Registered (GridNode.createS newVertex R c area sdf st).2.2 area.m_MinPos o := by
  unfold GridNode.createS runInits
  simp only
  refine runInits_fold_registry _ area.m_MinPos ?_ ([], st) hs
    (fun o ho => absurd ho (List.not_mem_nil o))
  intro e he
  unfold GridNode.create at he
  rw [computeEdges_eq_ignoring, computeEdgesIgnoring_edges] at he
  rcases mem_forLoop_newEdges _ _ _ _ _ _ _ _ _ e he with h | ⟨j, _, h⟩
  · exact absurd h (List.not_mem_nil e)
  · obtain ⟨k, hk⟩ := mem_newEdgesAt_emplaced _ _ _ _ _ _ _ j e h
    rw [hk]
    exact sharedCall_emplaced newVertex R c area sdf j k
/-- A property of the children that only grows along the loop over the eight children:
if every iteration keeps the invariant `P`, moves the state up in the order `M`, and
produces a child that satisfies `Q` in the state it leaves, then after the loop every
child satisfies `Q` in the final state. -/
theorem threadChildren_mono {σ β : Type} (f : Fin 8 → σ → β × σ) (P : σ → Prop)
    (M : σ → σ → Prop) (Q : Fin 8 → β → σ → Prop)
    (hM : ∀ a b c, M a b → M b c → M a c)
    (hQ : ∀ i b s s2, Q i b s → M s s2 → Q i b s2)
    (h : ∀ i st, P st → P (f i st).2 ∧ M st (f i st).2 ∧ Q i (f i st).1 (f i st).2)
    (st : σ) (hst : P st) :
    P (threadChildren f st).2 ∧ M st (threadChildren f st).2
      ∧ ∀ i, Q i ((threadChildren f st).1 i) (threadChildren f st).2 := by
  obtain ⟨p0, m0, q0⟩ := h 0 st hst
  obtain ⟨p1, m1, q1⟩ := h 1 _ p0
  obtain ⟨p2, m2, q2⟩ := h 2 _ p1
  obtain ⟨p3, m3, q3⟩ := h 3 _ p2
  obtain ⟨p4, m4, q4⟩ := h 4 _ p3
  obtain ⟨p5, m5, q5⟩ := h 5 _ p4
  obtain ⟨p6, m6, q6⟩ := h 6 _ p5
  obtain ⟨p7, m7, q7⟩ := h 7 _ p6
  have n6 := m7
  have n5 := hM _ _ _ m6 n6
  have n4 := hM _ _ _ m5 n5
  have n3 := hM _ _ _ m4 n4
  have n2 := hM _ _ _ m3 n3
  have n1 := hM _ _ _ m2 n2
  have n0 := hM _ _ _ m1 n1
  rw [threadChildren_snd]
  refine ⟨p7, hM _ _ _ m0 n0, ?_⟩
  intro i
  have hi := i.isLt
  have hcases : i = 0 ∨ i = 1 ∨ i = 2 ∨ i = 3 ∨ i = 4 ∨ i = 5 ∨ i = 6 ∨ i = 7 := by
    rcases i with ⟨v, hv⟩
    simp only [Fin.ext_iff]
    show v = 0 ∨ v = 1 ∨ v = 2 ∨ v = 3 ∨ v = 4 ∨ v = 5 ∨ v = 6 ∨ v = 7
    omega
  rcases hcases with e | e | e | e | e | e | e | e <;> subst e
  · exact hQ _ _ _ _ q0 n0
  · exact hQ _ _ _ _ q1 n1
  · exact hQ _ _ _ _ q2 n2
  · exact hQ _ _ _ _ q3 n3
  · exact hQ _ _ _ _ q4 n4
  · exact hQ _ _ _ _ q5 n5
  · exact hQ _ _ _ _ q6 n6
  · exact q7

theorem Node.LeavesRegistered.grow {F : Type} [FloatOps F] {r r2 : Registry} (hle : r.Le r2)
    (n : Node Nat) : ∀ a : Area F, n.LeavesRegistered r a → n.LeavesRegistered r2 a := by
  induction n with
  | inner c ih =>
    intro a h i
    exact ih i _ (h i)
  | empty b => exact fun _ _ => trivial
  | grid g =>
    intro a h e he
    exact (h e he).mono hle

theorem Node.LeavesRegistered.leaf {F : Type} [FloatOps F] {r : Registry} (g : GridNode Nat)
    (la : Area F) (n : Node Nat) :
    ∀ a : Area F, n.LeavesRegistered r a → n.HasGridLeaf g la a →
      ∀ e, e ∈ g.m_SurfaceEdges → Registered r la.m_MinPos e := by
  induction n with
  | inner c ih =>
    intro a h hl
    obtain ⟨i, hi⟩ := hl
    exact ih i _ (h i) hi
  | empty b =>
    intro a _ hl
    exact absurd hl (fun hf => hf)
  | grid g2 =>
    intro a h hl
    obtain ⟨h1, h2⟩ := hl
    subst h1
    subst h2
    exact h

/-- The tree builder keeps the registry sound, only adds entries, and every record of the
built subtree whose edge fails the interior test holds the registry's pointer. -/
theorem createNodeS_registry {F : Type} [FloatOps F]
    (newVertex : Vector3 F → Nat → F → SolidGeometry F → Vertex F) (R : Area F) (c : F)
    (sdf : SolidGeometry F) (area : Area F) :
    ∀ st : VertexStore F × Registry, st.2.Sound st.1 →
      (createNodeS newVertex R c sdf area st).2.2.Sound
          (createNodeS newVertex R c sdf area st).2.1
        ∧ st.2.Le (createNodeS newVertex R c sdf area st).2.2
        ∧ (createNodeS newVertex R c sdf area st).1.LeavesRegistered
            (createNodeS newVertex R c sdf area st).2.2 area := by
  induction area using area_induction with
  | step a ih =>
    intro st hs
    rw [createNodeS]
    by_cases h1 : a.m_SizeExpo ≤ LEAF_EXPO ∧ sdf.cubeNeedsSubdivision a = true
    · rw [dif_pos h1]
      simp only [Node.LeavesRegistered]
      exact GridNode.createS_registry newVertex R c a sdf st hs
    · rw [dif_neg h1]
      by_cases h2 : sdf.cubeNeedsSubdivision a = true
      · rw [dif_pos h2]
        have hlt : (LEAF_EXPO : Int) < a.m_SizeExpo := by
          by_contra hc
          exact h1 ⟨by omega, h2⟩
        simp only [Node.LeavesRegistered]
        exact threadChildren_mono
          (fun i st2 => createNodeS newVertex R c sdf (a.getSubAreas i) st2)
          (fun st2 => st2.2.Sound st2.1) (fun s1 s2 => s1.2.Le s2.2)
          (fun i n st2 => n.LeavesRegistered st2.2 (a.getSubAreas i))
          (fun _ _ _ h12 h23 => h12.trans h23)
          (fun i n s1 s2 hq hm => Node.LeavesRegistered.grow hm n _ hq)
          (fun i st2 hs2 => ih hlt i st2 hs2) st hs
      · rw [dif_neg h2]
        exact ⟨hs, Registry.Le.refl _, trivial⟩
/-! ## The tree builder case by case, and the records of a new leaf -/

theorem createNodeS_grid {F : Type} [FloatOps F]
    (newVertex : Vector3 F → Nat → F → SolidGeometry F → Vertex F) (R : Area F) (c : F)
    (sdf : SolidGeometry F) (area : Area F) (st : VertexStore F × Registry)
    (he : area.m_SizeExpo ≤ LEAF_EXPO) (hn : sdf.cubeNeedsSubdivision area = true) :
    createNodeS newVertex R c sdf area st
      = (Node.grid (GridNode.createS newVertex R c area sdf st).1,
          (GridNode.createS newVertex R c area sdf st).2) := by
  rw [createNodeS, dif_pos ⟨he, hn⟩]

theorem createNodeS_empty {F : Type} [FloatOps F]
    (newVertex : Vector3 F → Nat → F → SolidGeometry F → Vertex F) (R : Area F) (c : F)
    (sdf : SolidGeometry F) (area : Area F) (st : VertexStore F × Registry)
    (hn : sdf.cubeNeedsSubdivision area = false) :
    createNodeS newVertex R c sdf area st = (EmptyNode.create area sdf, st) := by
  have h1 : ¬ (area.m_SizeExpo ≤ LEAF_EXPO ∧ sdf.cubeNeedsSubdivision area = true) := by
    rw [hn]
    exact fun h => absurd h.2 (by decide)
  have h2 : ¬ (sdf.cubeNeedsSubdivision area = true) := by
    rw [hn]
    decide
  rw [createNodeS, dif_neg h1, dif_neg h2]

theorem createNodeS_inner {F : Type} [FloatOps F]
    (newVertex : Vector3 F → Nat → F → SolidGeometry F → Vertex F) (R : Area F) (c : F)
    (sdf : SolidGeometry F) (area : Area F) (st : VertexStore F × Registry)
    (he : ¬ area.m_SizeExpo ≤ LEAF_EXPO) (hn : sdf.cubeNeedsSubdivision area = true) :
    createNodeS newVertex R c sdf area st
      = (Node.inner (threadChildren (fun i st2 =>
            createNodeS newVertex R c sdf (area.getSubAreas i) st2) st).1,
          (threadChildren (fun i st2 =>
            createNodeS newVertex R c sdf (area.getSubAreas i) st2) st).2) := by
  have h1 : ¬ (area.m_SizeExpo ≤ LEAF_EXPO ∧ sdf.cubeNeedsSubdivision area = true) :=
    fun h => he h.1
  rw [createNodeS, dif_neg h1, dif_pos hn]

theorem runInit_record {F : Type} (e : SurfaceEdge (VertexRef F))
    (st : VertexStore F × Registry) :
    (runInit e st).1.direction = e.direction ∧ (runInit e st).1.edgeIndex1 = e.edgeIndex1 := by
  unfold runInit
  cases e.sharedVertex <;> exact ⟨rfl, rfl⟩

theorem runInits_fold_edgeCount {F : Type} (edges : List (SurfaceEdge (VertexRef F)))
    (d i : Nat) :
    ∀ (acc : List (SurfaceEdge Nat) × (VertexStore F × Registry)),
      edgeCount (edges.foldl
        (fun acc e => (acc.1 ++ [(runInit e acc.2).1], (runInit e acc.2).2)) acc).1 d i
        = edgeCount acc.1 d i + edgeCount edges d i := by
  induction edges with
  | nil =>
    intro acc
    rw [List.foldl_nil, edgeCount_nil, Nat.add_zero]
  | cons e t ih =>
    intro acc
    rw [List.foldl_cons, ih]
    have h1 : edgeCount (e :: t) d i = edgeCount [e] d i + edgeCount t d i := by
      rw [← edgeCount_append]
      rfl
    rw [h1, edgeCount_append]
    have h2 : edgeCount [(runInit e acc.2).1] d i = edgeCount [e] d i := by
      unfold edgeCount
      rw [List.countP_cons, List.countP_cons, List.countP_nil, List.countP_nil,
        (runInit_record e acc.2).1, (runInit_record e acc.2).2]
    rw [h2]
    omega

/-- A new leaf holds a record for every lattice edge at whose endpoints the solid has
different signs. -/
theorem GridNode.createS_has_record {F : Type} [FloatOps F]
    (newVertex : Vector3 F → Nat → F → SolidGeometry F → Vertex F) (R : Area F) (c : F)
    (area : Area F) (sdf : SolidGeometry F) (st : VertexStore F × Registry) (d i : Nat)
    (hi : i + stride d < LEAF_SIZE_3D) (hd : d < 3) (hc : coordOf i d < LEAF_SIZE_1D_INNER)
    (hs : sdf.getSign (getRealPos R c (area.m_MinPos + fromIndex i))
      ≠ sdf.getSign (getRealPos R c (area.m_MinPos + fromIndex (i + stride d)))) :
    ∃ e, e ∈ (GridNode.createS newVertex R c area sdf st).1.m_SurfaceEdges
      ∧ e.direction = d ∧ e.edgeIndex1 = i := by
  have h1 : edgeCount (GridNode.createS newVertex R c area sdf st).1.m_SurfaceEdges d i = 1 := by
    unfold GridNode.createS runInits
    simp only
    rw [runInits_fold_edgeCount, edgeCount_nil, Nat.zero_add, edgeCount_create,
      GridNode.create_signs]
    have hi2 : i < LEAF_SIZE_3D := by omega
    have hcr : crossing (computeSigns R c area sdf SignArray.blank) d i = true := by
      unfold crossing
      rw [computeSigns_get _ _ _ _ _ _ hi2, computeSigns_get _ _ _ _ _ _ hi]
      simpa using hs
    rw [if_pos ⟨hi2, hd, hc, hcr⟩]
  unfold edgeCount at h1
  have h2 : 0 < List.countP (fun e => decide (e.direction = d ∧ e.edgeIndex1 = i))
      (GridNode.createS newVertex R c area sdf st).1.m_SurfaceEdges := by omega
  obtain ⟨e, he, hp⟩ := List.countP_pos_iff.mp h2
  simp only [decide_eq_true_eq] at hp
  exact ⟨e, he, hp.1, hp.2⟩

theorem runInit_above {F : Type} (e : SurfaceEdge (VertexRef F))
    (st : VertexStore F × Registry) (n0 : Nat) (ha : st.2.Above n0) (hn : n0 ≤ st.1.next)
    (hc : e.sharedVertex.IsCall) :
    (runInit e st).2.2.Above n0 ∧ n0 ≤ (runInit e st).2.1.next
      ∧ n0 ≤ (runInit e st).1.sharedVertex := by
  unfold runInit
  cases hsv : e.sharedVertex with
  | existing q =>
    rw [hsv] at hc
    exact absurd hc (fun hf => hf)
  | newPrivate v =>
    simp only [initPrivateVertex, VertexStore.alloc]
    exact ⟨ha, by omega, hn⟩
  | newShared d pos v =>
    simp only
    unfold initSharedVertex
    cases hreg : st.2 d pos with
    | some q =>
      simp only
      exact ⟨ha, hn, ha d pos q hreg⟩
    | none =>
      simp only [VertexStore.alloc]
      refine ⟨?_, by omega, hn⟩
      intro d2 pos2 q2 h2
      simp only [Registry.insert] at h2
      by_cases hk : d2 = d ∧ pos2 = pos
      · rw [if_pos hk] at h2
        have hq : st.1.next = q2 := Option.some.inj h2
        omega
      · rw [if_neg hk] at h2
        exact ha d2 pos2 q2 h2

theorem runInits_fold_above {F : Type} (edges : List (SurfaceEdge (VertexRef F))) (n0 : Nat)
    (hc : ∀ e, e ∈ edges → e.sharedVertex.IsCall) :
    ∀ (acc : List (SurfaceEdge Nat) × (VertexStore F × Registry)),
      acc.2.2.Above n0 → n0 ≤ acc.2.1.next → (∀ o, o ∈ acc.1 → n0 ≤ o.sharedVertex) →
      ∀ o, o ∈ (edges.foldl
          (fun acc e => (acc.1 ++ [(runInit e acc.2).1], (runInit e acc.2).2)) acc).1 →
        n0 ≤ o.sharedVertex := by
  induction edges with
  | nil =>
    intro acc _ _ ho
    exact ho
  | cons e t ih =>
    intro acc ha hn ho
    rw [List.foldl_cons]
    obtain ⟨h1, h2, h3⟩ := runInit_above e acc.2 n0 ha hn (hc e (List.mem_cons_self _ _))
    refine ih (fun e2 he2 => hc e2 (List.mem_cons_of_mem _ he2))
      (acc.1 ++ [(runInit e acc.2).1], (runInit e acc.2).2) h1 h2 ?_
    intro o hm
    rw [List.mem_append, List.mem_singleton] at hm
    rcases hm with hm | hm
    · exact ho o hm
    · rw [hm]
      exact h3

/-- Every record of a new leaf refers to a vertex that was created since the registry was
empty: its pointer is not below the pointer `n0` that was next at that time. -/
theorem GridNode.createS_above {F : Type} [FloatOps F]
    (newVertex : Vector3 F → Nat → F → SolidGeometry F → Vertex F) (R : Area F) (c : F)
    (area : Area F) (sdf : SolidGeometry F) (st : VertexStore F × Registry) (n0 : Nat)
    (ha : st.2.Above n0) (hn : n0 ≤ st.1.next) :
    ∀ o, o ∈ (GridNode.createS newVertex R c area sdf st).1.m_SurfaceEdges →
      n0 ≤ o.sharedVertex := by
  unfold GridNode.createS runInits
  simp only
  refine runInits_fold_above _ n0 ?_ ([], st) ha hn
    (fun o ho => absurd ho (List.not_mem_nil o))
  intro e he
  unfold GridNode.create at he
  rw [computeEdges_eq_ignoring, computeEdgesIgnoring_edges] at he
  rcases mem_forLoop_newEdges _ _ _ _ _ _ _ _ _ e he with h | ⟨j, _, h⟩
  · exact absurd h (List.not_mem_nil e)
  · obtain ⟨k, hk⟩ := mem_newEdgesAt_emplaced _ _ _ _ _ _ _ j e h
    rw [hk]
    unfold emplaced
    cases interiorTest j k <;> exact trivial
/-! ## The sampled band and its union -/

theorem threadChildren_child0 {σ β : Type} (f : Fin 8 → σ → β × σ) (st : σ) :
    (threadChildren f st).1 0 = (f 0 st).1 := rfl

theorem threadChildren_child4 {σ β : Type} (f : Fin 8 → σ → β × σ) (st : σ) :
    (threadChildren f st).1 4 = (f 4 (f 3 (f 2 (f 1 (f 0 st).2).2).2).2).1 := rfl

theorem threadChildren_child5 {σ β : Type} (f : Fin 8 → σ → β × σ) (st : σ) :
    (threadChildren f st).1 5 = (f 5 (f 4 (f 3 (f 2 (f 1 (f 0 st).2).2).2).2).2).1 := rfl

theorem exampleSampled_eq :
    exampleSampled
      = (⟨(createNodeS exampleNewVertex exampleRootArea (1 / 2) exampleBandRight exampleRootArea
            (exampleEmptyStore, Registry.empty)).1, exampleRootArea, 1 / 2⟩,
          (createNodeS exampleNewVertex exampleRootArea (1 / 2) exampleBandRight exampleRootArea
            (exampleEmptyStore, Registry.empty)).2.1) := by
  have hR : (⟨⟨0, 0, 0⟩, 4, exampleBox.min,
      FloatOps.max (FloatOps.max (exampleBox.max.sub exampleBox.min).x
        (exampleBox.max.sub exampleBox.min).y) (exampleBox.max.sub exampleBox.min).z⟩ : Area ℚ)
      = exampleRootArea := by
    unfold exampleRootArea exampleBox
    simp only [Vector3.sub, rat_max, rat_sub]
    norm_num
  have hc : FloatOps.div
      (FloatOps.max (FloatOps.max (exampleBox.max.sub exampleBox.min).x
        (exampleBox.max.sub exampleBox.min).y) (exampleBox.max.sub exampleBox.min).z)
      (FloatOps.ofInt (shl1 4)) = (1 / 2 : ℚ) := by
    have h16 : shl1 4 = 16 := by decide
    unfold exampleBox
    simp only [Vector3.sub, rat_max, rat_sub, rat_div, rat_ofInt, h16]
    norm_num
  unfold exampleSampled sampleSDFS
  simp only
  rw [hR, hc]
theorem exampleBand_sign (p : Vector3i) :
    exampleBandRight.getSign (getRealPos exampleRootArea (1 / 2) p)
      = decide (1 ≤ p.y ∧ p.y ≤ 2) := by
  rw [getRealPos_rat]
  show decide ((1 / 2 : ℚ) ≤ (0 : ℚ) + (p.y : ℚ) * (1 / 2) ∧ (0 : ℚ) + (p.y : ℚ) * (1 / 2) ≤ 1)
    = decide (1 ≤ p.y ∧ p.y ≤ 2)
  have h1 : ((1 / 2 : ℚ) ≤ (0 : ℚ) + (p.y : ℚ) * (1 / 2)) ↔ 1 ≤ p.y := by
    constructor
    · intro h
      have : (1 : ℚ) ≤ (p.y : ℚ) := by linarith
      exact_mod_cast this
    · intro h
      have : (1 : ℚ) ≤ (p.y : ℚ) := by exact_mod_cast h
      linarith
  have h2 : ((0 : ℚ) + (p.y : ℚ) * (1 / 2) ≤ 1) ↔ p.y ≤ 2 := by
    constructor
    · intro h
      have : (p.y : ℚ) ≤ 2 := by linarith
      exact_mod_cast this
    · intro h
      have : (p.y : ℚ) ≤ 2 := by exact_mod_cast h
      linarith
  simp only [h1, h2]

theorem exampleBandLeft_sign (p : Vector3 ℚ) :
    exampleBandLeft.getSign p = exampleBandRight.getSign p := rfl

theorem tree_root_of_eq {F : Type} (X : Node Nat × (VertexStore F × Registry))
    (c : Fin 8 → Node Nat) (st : VertexStore F × Registry) (R : Area F) (cs : F)
    (T : Tree F Nat × VertexStore F) (hX : X = (Node.inner c, st))
    (hT : T = (⟨X.1, R, cs⟩, X.2.1)) :
    T.1.m_RootNode = Node.inner c ∧ T.2 = st.1 := by
  subst hX
  subst hT
  exact ⟨rfl, rfl⟩

theorem exampleSampled_root :
    exampleSampled.1.m_RootNode
      = Node.inner (threadChildren (fun i st2 =>
          createNodeS exampleNewVertex exampleRootArea (1 / 2) exampleBandRight
            (exampleRootArea.getSubAreas i) st2) (exampleEmptyStore, Registry.empty)).1
    ∧ exampleSampled.2
      = (threadChildren (fun i st2 =>
          createNodeS exampleNewVertex exampleRootArea (1 / 2) exampleBandRight
            (exampleRootArea.getSubAreas i) st2) (exampleEmptyStore, Registry.empty)).2.1 := by
  have he : ¬ exampleRootArea.m_SizeExpo ≤ (LEAF_EXPO : Int) := by
    show ¬ ((4 : Int) ≤ (LEAF_EXPO : Int))
    decide
  have hn : exampleBandRight.cubeNeedsSubdivision exampleRootArea = true := rfl
  exact tree_root_of_eq _ _ _ exampleRootArea (1 / 2) exampleSampled
    (createNodeS_inner exampleNewVertex exampleRootArea (1 / 2) exampleBandRight
      exampleRootArea (exampleEmptyStore, Registry.empty) he hn)
    exampleSampled_eq
theorem exampleSampled_empty (k : Fin 8) (hk : k.val < 4) (st : VertexStore ℚ × Registry) :
    createNodeS exampleNewVertex exampleRootArea (1 / 2) exampleBandRight
        (exampleRootArea.getSubAreas k) st
      = (Node.empty false, st) := by
  have hn : exampleBandRight.cubeNeedsSubdivision (exampleRootArea.getSubAreas k) = false := by
    have hcases : k = 0 ∨ k = 1 ∨ k = 2 ∨ k = 3 := by
      rcases k with ⟨v, hv⟩
      simp only [Fin.ext_iff]
      show v = 0 ∨ v = 1 ∨ v = 2 ∨ v = 3
      simp only at hk
      omega
    rcases hcases with e | e | e | e <;> subst e <;> decide
  rw [createNodeS_empty _ _ _ _ _ _ hn]
  have hs : exampleBandRight.getSign (exampleRootArea.getSubAreas k).toAABB.getCenter
      = false := by
    show decide (_ ∧ _) = false
    rw [decide_eq_false_iff_not]
    have hy : (cornerOffset k.val).y = 0 ∨ (cornerOffset k.val).y = 1 := by
      unfold cornerOffset bitSet
      simp only
      split_ifs <;> simp
    simp only [Area.toAABB, AABB.getCenter, Area.getSubAreas, exampleRootArea, Vector3.add,
      Vector3.scale, rat_add, rat_mul, rat_half, rat_ofInt]
    rcases hy with h | h <;> rw [h] <;> norm_num
  unfold EmptyNode.create
  rw [hs]

theorem exampleSampled_child4 :
    (threadChildren (fun i st2 =>
        createNodeS exampleNewVertex exampleRootArea (1 / 2) exampleBandRight
          (exampleRootArea.getSubAreas i) st2) (exampleEmptyStore, Registry.empty)).1 4
      = Node.grid (GridNode.createS exampleNewVertex exampleRootArea (1 / 2)
          (exampleRootArea.getSubAreas 4) exampleBandRight
          (exampleEmptyStore, Registry.empty)).1 := by
  rw [threadChildren_child4]
  simp only [exampleSampled_empty 0 (by decide), exampleSampled_empty 1 (by decide),
    exampleSampled_empty 2 (by decide), exampleSampled_empty 3 (by decide)]
  rw [createNodeS_grid _ _ _ _ _ _ (by decide) (by decide)]

theorem exampleSampled_child0 :
    (threadChildren (fun i st2 =>
        createNodeS exampleNewVertex exampleRootArea (1 / 2) exampleBandRight
          (exampleRootArea.getSubAreas i) st2) (exampleEmptyStore, Registry.empty)).1 0
      = Node.empty false := by
  rw [threadChildren_child0]
  simp only [exampleSampled_empty 0 (by decide)]

theorem threadChildren_child5_of {σ β : Type} (f : Fin 8 → σ → β × σ) (st : σ)
    (h : ∀ k : Fin 8, k.val < 4 → ∀ s, (f k s).2 = s) (g4 : β) (s4 : σ)
    (h4 : f 4 st = (g4, s4)) (g5 : β) (s5 : σ) (h5 : f 5 s4 = (g5, s5)) :
    (threadChildren f st).1 5 = g5 := by
  rw [threadChildren_child5, h 0 (by decide), h 1 (by decide), h 2 (by decide),
    h 3 (by decide), h4, h5]

theorem exampleSampled_child5 :
    (threadChildren (fun i st2 =>
        createNodeS exampleNewVertex exampleRootArea (1 / 2) exampleBandRight
          (exampleRootArea.getSubAreas i) st2) (exampleEmptyStore, Registry.empty)).1 5
      = Node.grid (GridNode.createS exampleNewVertex exampleRootArea (1 / 2)
          (exampleRootArea.getSubAreas 5) exampleBandRight
          (GridNode.createS exampleNewVertex exampleRootArea (1 / 2)
            (exampleRootArea.getSubAreas 4) exampleBandRight
            (exampleEmptyStore, Registry.empty)).2).1 :=
  threadChildren_child5_of _ _
    (fun k hk s => by rw [exampleSampled_empty k hk s])
    _ _
    (createNodeS_grid exampleNewVertex exampleRootArea (1 / 2) exampleBandRight
      (exampleRootArea.getSubAreas 4) (exampleEmptyStore, Registry.empty) (by decide)
      (by decide))
    _ _
    (createNodeS_grid exampleNewVertex exampleRootArea (1 / 2) exampleBandRight
      (exampleRootArea.getSubAreas 5)
      (GridNode.createS exampleNewVertex exampleRootArea (1 / 2)
        (exampleRootArea.getSubAreas 4) exampleBandRight
        (exampleEmptyStore, Registry.empty)).2 (by decide) (by decide))
theorem sampled_fields_of_eq {F : Type} (n : Node Nat) (R : Area F) (cs : F)
    (s : VertexStore F) (T : Tree F Nat × VertexStore F) (hT : T = (⟨n, R, cs⟩, s)) :
    T.1.m_RootArea = R ∧ T.1.m_CellSize = cs := by
  subst hT
  exact ⟨rfl, rfl⟩

theorem exampleSampled_fields :
    exampleSampled.1.m_RootArea = exampleRootArea ∧ exampleSampled.1.m_CellSize = 1 / 2 :=
  sampled_fields_of_eq _ _ _ _ _ exampleSampled_eq

theorem Tree.mergeS_root_inner {F : Type} [FloatOps F]
    (newVertex : Vector3 F → Nat → F → SolidGeometry F → Vertex F)
    (normalise : Vector3 F → Vector3 F) (t : Tree F Nat) (sdf : SolidGeometry F)
    (store : VertexStore F) (c : Fin 8 → Node Nat) (hroot : t.m_RootNode = Node.inner c)
    (hn : sdf.cubeNeedsSubdivision t.m_RootArea = true) :
    (t.mergeS newVertex normalise sdf store).1.m_RootNode
      = Node.inner (threadChildren (fun i st2 =>
          OctreeSF.mergeS newVertex normalise t.m_RootArea t.m_CellSize sdf (c i)
            (t.m_RootArea.getSubAreas i) st2) (store, Registry.empty)).1 := by
  unfold Tree.mergeS
  simp only
  rw [hroot, OctreeSF.mergeS, if_pos hn]

theorem mergeS_empty_create {F : Type} [FloatOps F]
    (newVertex : Vector3 F → Nat → F → SolidGeometry F → Vertex F)
    (normalise : Vector3 F → Vector3 F) (R : Area F) (c : F) (sdf : SolidGeometry F)
    (area : Area F) (st : VertexStore F × Registry)
    (hn : sdf.cubeNeedsSubdivision area = true) :
    mergeS newVertex normalise R c sdf (Node.empty false) area st
      = createNodeS newVertex R c sdf area st := by
  unfold mergeS
  rw [hn]
  simp only [Bool.not_true, Bool.false_eq_true, if_false]

theorem mergeS_grid_keep {F : Type} [FloatOps F]
    (newVertex : Vector3 F → Nat → F → SolidGeometry F → Vertex F)
    (normalise : Vector3 F → Vector3 F) (R : Area F) (c : F) (sdf : SolidGeometry F)
    (g : GridNode Nat) (area : Area F) (st : VertexStore F × Registry)
    (hn : sdf.cubeNeedsSubdivision area = false)
    (hs : sdf.getSign (area.getCornerVecs 0).2 = false) :
    mergeS newVertex normalise R c sdf (Node.grid g) area st = (Node.grid g, st) := by
  unfold mergeS
  rw [hn, hs]
  simp only [Bool.not_false, if_true]

theorem exampleEmptyStore_tracked :
    Tracked 0 (exampleEmptyStore, Registry.empty) (fun _ => 0) := by
  refine ⟨⟨?_, fun _ _ => rfl, ?_⟩, Registry.empty_valid _ _, le_refl _⟩
  · intro p hp
    exact absurd (show false = true from hp) (by decide)
  · intro p hp
    exact absurd (show false = true from hp) (by decide)

/-- The subtree the tree builder returns only refers to vertices below the next pointer. -/
theorem createNodeS_below {F : Type} [FloatOps F]
    (newVertex : Vector3 F → Nat → F → SolidGeometry F → Vertex F) (R : Area F) (c : F)
    (sdf : SolidGeometry F) (n0 : Nat) (area : Area F) (st : VertexStore F × Registry)
    (base : Nat → Nat) (h : Tracked n0 st base) :
    (createNodeS newVertex R c sdf area st).1.Below
      (createNodeS newVertex R c sdf area st).2.1.next :=
  (createNodeS_tracked newVertex R c sdf n0 area st base h).1.below _
    (fun _ => Nat.le_add_left _ _)

theorem below_child_of_eq {F : Type} (X : Node Nat × (VertexStore F × Registry))
    (c : Fin 8 → Node Nat) (st : VertexStore F × Registry) (hX : X = (Node.inner c, st))
    (hb : X.1.Below X.2.1.next) (i : Fin 8) (g : GridNode Nat) (hg : c i = Node.grid g)
    (e : SurfaceEdge Nat) (he : e ∈ g.m_SurfaceEdges) : e.sharedVertex < st.1.next := by
  subst hX
  have h1 := hb.child i
  rw [hg] at h1
  exact h1.edges e he

/-- Every record of the leaf of `exampleSampled` at `(8, 0, 0)` refers to a vertex that
existed when the sampling was over. -/
theorem exampleSampled_leaf4_below (e : SurfaceEdge Nat)
    (he : e ∈ (GridNode.createS exampleNewVertex exampleRootArea (1 / 2)
      (exampleRootArea.getSubAreas 4) exampleBandRight
      (exampleEmptyStore, Registry.empty)).1.m_SurfaceEdges) :
    e.sharedVertex < exampleSampled.2.next := by
  have he2 : ¬ exampleRootArea.m_SizeExpo ≤ (LEAF_EXPO : Int) := by
    show ¬ ((4 : Int) ≤ (LEAF_EXPO : Int))
    decide
  have hn : exampleBandRight.cubeNeedsSubdivision exampleRootArea = true := rfl
  rw [exampleSampled_root.2]
  exact below_child_of_eq _ _ _
    (createNodeS_inner exampleNewVertex exampleRootArea (1 / 2) exampleBandRight
      exampleRootArea (exampleEmptyStore, Registry.empty) he2 hn)
    (createNodeS_below exampleNewVertex exampleRootArea (1 / 2) exampleBandRight 0
      exampleRootArea (exampleEmptyStore, Registry.empty) (fun _ => 0)
      exampleEmptyStore_tracked)
    4 _ exampleSampled_child4 e he
theorem exampleMerged_root :
    exampleMerged.1.m_RootNode
      = Node.inner (threadChildren (fun i st2 =>
          mergeS exampleNewVertex (fun v => v) exampleRootArea (1 / 2) exampleBandLeft
            ((threadChildren (fun i st2 =>
              createNodeS exampleNewVertex exampleRootArea (1 / 2) exampleBandRight
                (exampleRootArea.getSubAreas i) st2) (exampleEmptyStore, Registry.empty)).1 i)
            (exampleRootArea.getSubAreas i) st2) (exampleSampled.2, Registry.empty)).1 := by
  have h := Tree.mergeS_root_inner exampleNewVertex (fun v => v) exampleSampled.1
    exampleBandLeft exampleSampled.2 _ exampleSampled_root.1
    (by
      rw [exampleSampled_fields.1]
      rfl)
  rw [exampleSampled_fields.1, exampleSampled_fields.2] at h
  exact h

theorem exampleMerged_child0 :
    (threadChildren (fun i st2 =>
        mergeS exampleNewVertex (fun v => v) exampleRootArea (1 / 2) exampleBandLeft
          ((threadChildren (fun i st2 =>
            createNodeS exampleNewVertex exampleRootArea (1 / 2) exampleBandRight
              (exampleRootArea.getSubAreas i) st2) (exampleEmptyStore, Registry.empty)).1 i)
          (exampleRootArea.getSubAreas i) st2) (exampleSampled.2, Registry.empty)).1 0
      = Node.grid (GridNode.createS exampleNewVertex exampleRootArea (1 / 2)
          (exampleRootArea.getSubAreas 0) exampleBandLeft
          (exampleSampled.2, Registry.empty)).1 := by
  rw [threadChildren_child0]
  rw [exampleSampled_child0, mergeS_empty_create _ _ _ _ _ _ _ (by decide),
    createNodeS_grid _ _ _ _ _ _ (by decide) (by decide)]

theorem exampleMerged_child4 :
    (threadChildren (fun i st2 =>
        mergeS exampleNewVertex (fun v => v) exampleRootArea (1 / 2) exampleBandLeft
          ((threadChildren (fun i st2 =>
            createNodeS exampleNewVertex exampleRootArea (1 / 2) exampleBandRight
              (exampleRootArea.getSubAreas i) st2) (exampleEmptyStore, Registry.empty)).1 i)
          (exampleRootArea.getSubAreas i) st2) (exampleSampled.2, Registry.empty)).1 4
      = Node.grid (GridNode.createS exampleNewVertex exampleRootArea (1 / 2)
          (exampleRootArea.getSubAreas 4) exampleBandRight
          (exampleEmptyStore, Registry.empty)).1 := by
  have hs : exampleBandLeft.getSign ((exampleRootArea.getSubAreas 4).getCornerVecs 0).2
      = false := by
    show decide (_ ∧ _) = false
    rw [decide_eq_false_iff_not]
    simp only [Area.getCornerVecs, Area.getSubAreas, exampleRootArea, cornerOffset, bitSet,
      Vector3.add, rat_add, rat_mul, rat_half, rat_ofInt]
    split_ifs <;> norm_num
  rw [threadChildren_child4]
  rw [exampleSampled_child4, mergeS_grid_keep _ _ _ _ _ _ _ _ (by decide) hs]

theorem exampleBand_crossing (sdf : SolidGeometry ℚ)
    (hsdf : ∀ p, sdf.getSign p = exampleBandRight.getSign p) (area : Area ℚ) (i : Nat)
    (h0 : (area.m_MinPos + fromIndex i).y = 0)
    (h1 : (area.m_MinPos + fromIndex (i + stride 1)).y = 1) :
    sdf.getSign (getRealPos exampleRootArea (1 / 2) (area.m_MinPos + fromIndex i))
      ≠ sdf.getSign (getRealPos exampleRootArea (1 / 2)
          (area.m_MinPos + fromIndex (i + stride 1))) := by
  rw [hsdf, hsdf, exampleBand_sign, exampleBand_sign, h0, h1]
  decide
theorem hasGridLeaf_of_root {F : Type} [FloatOps F] (n : Node Nat) (c : Fin 8 → Node Nat)
    (i : Fin 8) (g : GridNode Nat) (a : Area F) (hroot : n = Node.inner c)
    (h : c i = Node.grid g) : n.HasGridLeaf g (a.getSubAreas i) a := by
  subst hroot
  refine ⟨i, ?_⟩
  rw [h]
  exact ⟨rfl, rfl⟩

/-- A leaf built from one of the two bands holds a record of direction `y` with local
lower endpoint index `i` whenever the lower endpoint has `y = 0`. -/
theorem exampleBand_record (sdf : SolidGeometry ℚ)
    (hsdf : ∀ p, sdf.getSign p = exampleBandRight.getSign p) (area : Area ℚ)
    (st : VertexStore ℚ × Registry) (i : Nat) (hi : i + stride 1 < LEAF_SIZE_3D)
    (hc : coordOf i 1 < LEAF_SIZE_1D_INNER)
    (h0 : (area.m_MinPos + fromIndex i).y = 0)
    (h1 : (area.m_MinPos + fromIndex (i + stride 1)).y = 1) :
    ∃ e, e ∈ (GridNode.createS exampleNewVertex exampleRootArea (1 / 2) area sdf
        st).1.m_SurfaceEdges
      ∧ e.direction = 1 ∧ e.edgeIndex1 = i :=
  GridNode.createS_has_record exampleNewVertex exampleRootArea (1 / 2) area sdf st
    1 i hi (by decide) hc (exampleBand_crossing sdf hsdf area i h0 h1)

theorem exampleMerged_leaves :
    exampleMerged.1.m_RootNode.HasGridLeaf
        (GridNode.createS exampleNewVertex exampleRootArea (1 / 2)
          (exampleRootArea.getSubAreas 0) exampleBandLeft
          (exampleSampled.2, Registry.empty)).1
        (exampleRootArea.getSubAreas 0) exampleRootArea
      ∧ exampleMerged.1.m_RootNode.HasGridLeaf
        (GridNode.createS exampleNewVertex exampleRootArea (1 / 2)
          (exampleRootArea.getSubAreas 4) exampleBandRight
          (exampleEmptyStore, Registry.empty)).1
        (exampleRootArea.getSubAreas 4) exampleRootArea :=
  ⟨hasGridLeaf_of_root _ _ 0 _ exampleRootArea exampleMerged_root exampleMerged_child0,
    hasGridLeaf_of_root _ _ 4 _ exampleRootArea exampleMerged_root exampleMerged_child4⟩

theorem exampleSampled_leaves :
    exampleSampled.1.m_RootNode.HasGridLeaf
        (GridNode.createS exampleNewVertex exampleRootArea (1 / 2)
          (exampleRootArea.getSubAreas 4) exampleBandRight
          (exampleEmptyStore, Registry.empty)).1
        (exampleRootArea.getSubAreas 4) exampleRootArea
      ∧ exampleSampled.1.m_RootNode.HasGridLeaf
        (GridNode.createS exampleNewVertex exampleRootArea (1 / 2)
          (exampleRootArea.getSubAreas 5) exampleBandRight
          (GridNode.createS exampleNewVertex exampleRootArea (1 / 2)
            (exampleRootArea.getSubAreas 4) exampleBandRight
            (exampleEmptyStore, Registry.empty)).2).1
        (exampleRootArea.getSubAreas 5) exampleRootArea :=
  ⟨hasGridLeaf_of_root _ _ 4 _ exampleRootArea exampleSampled_root.1 exampleSampled_child4,
    hasGridLeaf_of_root _ _ 5 _ exampleRootArea exampleSampled_root.1 exampleSampled_child5⟩

/-- Every record of a leaf built with an empty registry refers to a vertex created by
the construction. -/
theorem GridNode.createS_fresh {F : Type} [FloatOps F]
    (newVertex : Vector3 F → Nat → F → SolidGeometry F → Vertex F) (R : Area F) (c : F)
    (area : Area F) (sdf : SolidGeometry F) (s : VertexStore F) (o : SurfaceEdge Nat)
    (ho : o ∈ (GridNode.createS newVertex R c area sdf (s, Registry.empty)).1.m_SurfaceEdges) :
    s.next ≤ o.sharedVertex :=
  GridNode.createS_above newVertex R c area sdf (s, Registry.empty) s.next
    (fun d pos q hq => absurd hq (by simp [Registry.empty])) (le_refl _) o ho

theorem exampleSampled_def :
    exampleSampled
      = sampleSDFS exampleNewVertex exampleBandRight exampleBox 4 exampleEmptyStore := rfl

theorem exampleSampled_leaves_rooted :
    (sampleSDFS exampleNewVertex exampleBandRight exampleBox 4
        exampleEmptyStore).1.m_RootNode.HasGridLeaf
        (GridNode.createS exampleNewVertex exampleRootArea (1 / 2)
          (exampleRootArea.getSubAreas 4) exampleBandRight
          (exampleEmptyStore, Registry.empty)).1
        (exampleRootArea.getSubAreas 4)
        (sampleSDFS exampleNewVertex exampleBandRight exampleBox 4
          exampleEmptyStore).1.m_RootArea
      ∧ (sampleSDFS exampleNewVertex exampleBandRight exampleBox 4
        exampleEmptyStore).1.m_RootNode.HasGridLeaf
        (GridNode.createS exampleNewVertex exampleRootArea (1 / 2)
          (exampleRootArea.getSubAreas 5) exampleBandRight
          (GridNode.createS exampleNewVertex exampleRootArea (1 / 2)
            (exampleRootArea.getSubAreas 4) exampleBandRight
            (exampleEmptyStore, Registry.empty)).2).1
        (exampleRootArea.getSubAreas 5)
        (sampleSDFS exampleNewVertex exampleBandRight exampleBox 4
          exampleEmptyStore).1.m_RootArea := by
  rw [← exampleSampled_def, exampleSampled_fields.1]
  exact exampleSampled_leaves

/-! ## The refinement of kept vertices -/

theorem inside_endpoint_bool (a1 a2 o1 o2 : Bool) (e1 e2 : Nat) (A O M : Nat → Bool)
    (hA1 : A e1 = a1) (hA2 : A e2 = a2) (hO1 : O e1 = o1) (hO2 : O e2 = o2)
    (hc : (o1 != o2) = true) :
    O (if o2 then e2 else e1) = true
      ∧ (((∀ k, M k = (A k || O k)) → (M e1 != M e2) = true →
          M (if o2 then e2 else e1) = true
            ∧ ((a1 != a2) = true → A (if o2 then e2 else e1) = true)))
      ∧ (((∀ k, M k = (A k && O k)) → (M e1 != M e2) = true →
          M (if o2 then e2 else e1) = true
            ∧ ((a1 != a2) = true → A (if o2 then e2 else e1) = true))) := by
  cases o2
  · have ho1 : o1 = true := by
      cases o1
      · exact absurd hc (by decide)
      · rfl
    subst ho1
    simp only [Bool.false_eq_true, if_false]
    refine ⟨hO1, ?_, ?_⟩
    · intro hM hd
      rw [hM e1, hM e2, hA1, hA2, hO1, hO2] at hd
      rw [hM e1, hA1, hO1]
      refine ⟨by simp, ?_⟩
      intro hx
      cases a1 <;> cases a2 <;> simp_all
    · intro hM hd
      rw [hM e1, hM e2, hA1, hA2, hO1, hO2] at hd
      rw [hM e1, hA1, hO1]
      cases a1 <;> cases a2 <;> simp_all
  · have ho1 : o1 = false := by
      cases o1
      · rfl
      · exact absurd hc (by decide)
    subst ho1
    simp only [if_true]
    refine ⟨hO2, ?_, ?_⟩
    · intro hM hd
      rw [hM e1, hM e2, hA1, hA2, hO1, hO2] at hd
      rw [hM e2, hA2, hO2]
      refine ⟨by simp, ?_⟩
      intro hx
      cases a1 <;> cases a2 <;> simp_all
    · intro hM hd
      rw [hM e1, hM e2, hA1, hA2, hO1, hO2] at hd
      rw [hM e2, hA2, hO2]
      cases a1 <;> cases a2 <;> simp_all
theorem keepOrRelease_refined {F : Type} [FloatOps F] (farther : Bool)
    (normalise : Vector3 F → Vector3 F) (R : Area F) (c : F) (area : Area F)
    (sdf : SolidGeometry F) (signs other : SignArray) (i : SurfaceEdge Nat)
    (s : VertexStore F)
    (h1 : (signs.get i.edgeIndex1 != signs.get i.edgeIndex2) = true)
    (h2 : (other.get i.edgeIndex1 != other.get i.edgeIndex2) = true) :
    ((keepOrRelease farther normalise R c area sdf signs other i s).objects
        i.sharedVertex).vertex
      = refineVertex farther normalise (sdf.getSample (sampledPoint R c area i))
          (getRealPos R c (area.m_MinPos + fromIndex (insideEndpoint other i)))
          (s.objects i.sharedVertex).vertex := by
  unfold keepOrRelease sampledPoint insideEndpoint
  rw [if_pos h1, if_pos h2]
  simp only [VertexStore.modify, VertexHeap.set_apply, if_true]
  cases other.get i.edgeIndex2 <;> rfl

theorem keepOrRelease_unchanged {F : Type} [FloatOps F] (farther : Bool)
    (normalise : Vector3 F → Vector3 F) (R : Area F) (c : F) (area : Area F)
    (sdf : SolidGeometry F) (signs other : SignArray) (i : SurfaceEdge Nat)
    (s : VertexStore F)
    (h1 : (signs.get i.edgeIndex1 != signs.get i.edgeIndex2) = true)
    (h2 : ¬ (other.get i.edgeIndex1 != other.get i.edgeIndex2) = true) :
    keepOrRelease farther normalise R c area sdf signs other i s = s := by
  unfold keepOrRelease
  rw [if_pos h1, if_neg h2]

theorem keepOrRelease_at_congr {F : Type} [FloatOps F] (farther : Bool)
    (normalise : Vector3 F → Vector3 F) (R : Area F) (c : F) (area : Area F)
    (sdf : SolidGeometry F) (signs other : SignArray) (i : SurfaceEdge Nat)
    (s s2 : VertexStore F) (h : s.objects i.sharedVertex = s2.objects i.sharedVertex) :
    (keepOrRelease farther normalise R c area sdf signs other i s).objects i.sharedVertex
      = (keepOrRelease farther normalise R c area sdf signs other i s2).objects
          i.sharedVertex := by
  unfold keepOrRelease
  by_cases h1 : (signs.get i.edgeIndex1 != signs.get i.edgeIndex2) = true
  · rw [if_pos h1, if_pos h1]
    by_cases h2 : (other.get i.edgeIndex1 != other.get i.edgeIndex2) = true
    · rw [if_pos h2, if_pos h2]
      simp only [VertexStore.modify, VertexHeap.set_apply, if_true, h]
    · rw [if_neg h2, if_neg h2]
      exact h
  · rw [if_neg h1, if_neg h1]
    simp only [deleteSharedVertex, VertexHeap.set_apply, if_true, h]

theorem keepOrRelease_fold_other {F : Type} [FloatOps F] (farther : Bool)
    (normalise : Vector3 F → Vector3 F) (R : Area F) (c : F) (area : Area F)
    (sdf : SolidGeometry F) (signs other : SignArray) (p : Nat)
    (edges : List (SurfaceEdge Nat)) (hp : ∀ e, e ∈ edges → p ≠ e.sharedVertex) :
    ∀ s : VertexStore F,
      (edges.foldl (fun s i => keepOrRelease farther normalise R c area sdf signs other i s)
        s).objects p = s.objects p := by
  induction edges with
  | nil => exact fun _ => rfl
  | cons e t ih =>
    intro s
    rw [List.foldl_cons, ih (fun e2 he2 => hp e2 (List.mem_cons_of_mem _ he2)),
      keepOrRelease_other _ _ _ _ _ _ _ _ e s p (hp e (List.mem_cons_self _ _))]

/-- In the loop over the old records, the vertex of a record is touched by the iteration
of that record only, when no other record of the leaf refers to the same vertex. -/
theorem keepOrRelease_fold_at {F : Type} [FloatOps F] (farther : Bool)
    (normalise : Vector3 F → Vector3 F) (R : Area F) (c : F) (area : Area F)
    (sdf : SolidGeometry F) (signs other : SignArray) (edges : List (SurfaceEdge Nat))
    (hnd : (edges.map (fun e => e.sharedVertex)).Nodup) (i : SurfaceEdge Nat)
    (hi : i ∈ edges) :
    ∀ s : VertexStore F,
      (edges.foldl (fun s i => keepOrRelease farther normalise R c area sdf signs other i s)
        s).objects i.sharedVertex
        = (keepOrRelease farther normalise R c area sdf signs other i s).objects
            i.sharedVertex := by
  induction edges with
  | nil => exact absurd hi (List.not_mem_nil i)
  | cons e t ih =>
    intro s
    rw [List.map_cons, List.nodup_cons] at hnd
    rw [List.foldl_cons]
    rcases List.mem_cons.mp hi with he | ht
    · subst he
      refine keepOrRelease_fold_other _ _ _ _ _ _ _ _ _ t ?_ _
      intro e2 he2 hc
      exact hnd.1 (List.mem_map.mpr ⟨e2, he2, hc.symm⟩)
    · rw [ih hnd.2 ht]
      refine keepOrRelease_at_congr _ _ _ _ _ _ _ _ i _ _ ?_
      refine keepOrRelease_other _ _ _ _ _ _ _ _ e s _ ?_
      intro hc
      exact hnd.1 (List.mem_map.mpr ⟨i, ht, hc⟩)

theorem GridNode.intersectS_vertex {F : Type} [FloatOps F]
    (newVertex : Vector3 F → Nat → F → SolidGeometry F → Vertex F)
    (normalise : Vector3 F → Vector3 F) (R : Area F) (c : F) (area : Area F)
    (sdf : SolidGeometry F) (g : GridNode Nat) (st : VertexStore F × Registry) (p : Nat)
    (hp : p < st.1.next) :
    ((g.intersectS newVertex normalise R c area sdf st).2.1.objects p).vertex
      = ((g.m_SurfaceEdges.foldl
          (fun s i => keepOrRelease false normalise R c area sdf
            (GridNode.intersect (initCalls newVertex) R c area sdf
              { m_Signs := g.m_Signs, m_SurfaceEdges := withExisting g.m_SurfaceEdges }).m_Signs
            (computeSigns R c area sdf SignArray.blank) i s) st.1).objects p).vertex := by
  have h := runInits_frame
    (GridNode.intersect (initCalls newVertex) R c area sdf
      { m_Signs := g.m_Signs, m_SurfaceEdges := withExisting g.m_SurfaceEdges }).m_SurfaceEdges p
    ([], (g.m_SurfaceEdges.foldl
        (fun s i => keepOrRelease false normalise R c area sdf
          (GridNode.intersect (initCalls newVertex) R c area sdf
            { m_Signs := g.m_Signs, m_SurfaceEdges := withExisting g.m_SurfaceEdges }).m_Signs
          (computeSigns R c area sdf SignArray.blank) i s) st.1, st.2))
    (by
      simp only
      rw [keepOrRelease_fold_next]
      exact hp)
  unfold GridNode.intersectS runInits
  simp only at h ⊢
  exact h.1

theorem rat_gt (a b : ℚ) : FloatOps.gt a b = decide (b < a) := by
  unfold FloatOps.gt
  rw [rat_le, rat_le]
  by_cases h : b < a
  · simp [h, le_of_lt h, not_le.mpr h]
  · have h2 : a ≤ b := not_lt.mp h
    simp [h, h2]

/-- Each coordinate of a refined vertex, in exact arithmetic: the sampled coordinate when
its distance from the inside endpoint is larger (union) or smaller (intersection) than
that of the old coordinate, the old coordinate otherwise. -/
theorem refineVertex_component (farther : Bool) (normalise : Vector3 ℚ → Vector3 ℚ)
    (s : Sample ℚ) (insidePos : Vector3 ℚ) (v : Vertex ℚ) (j : Nat) (hj : j < 3) :
    (refineVertex farther normalise s insidePos v).position.component j
      = if (if farther then
              |v.position.component j - insidePos.component j|
                < |s.closestSurfacePos.component j - insidePos.component j|
            else
              |s.closestSurfacePos.component j - insidePos.component j|
                < |v.position.component j - insidePos.component j|)
        then s.closestSurfacePos.component j else v.position.component j := by
  have hsq : ∀ a b : ℚ, a * a < b * b ↔ |a| < |b| := by
    intro a b
    rw [← sq, ← sq]
    exact sq_lt_sq
  have hcases : j = 0 ∨ j = 1 ∨ j = 2 := by omega
  unfold refineVertex
  simp only [forLoop, rat_gt, rat_mul, Vector3.sub, rat_sub, decide_eq_true_eq, hsq]
  rcases hcases with h | h | h <;> subst h <;> cases farther <;>
    simp only [Vector3.component, Vector3.setComponent, if_true, if_false, Bool.false_eq_true,
      OfNat.ofNat_ne_zero, OfNat.ofNat_ne_one, one_ne_zero] <;>
    split_ifs <;> simp_all
/-! ## Sub-areas -/

/-- The three bits of a child index and the fields of the sub-area they select. -/
theorem getSubAreas_bits (a : Area ℚ) (i : Fin 8) :
    ∃ bx by_ bz : Int, (bx = 0 ∨ bx = 1) ∧ (by_ = 0 ∨ by_ = 1) ∧ (bz = 0 ∨ bz = 1)
      ∧ (i.val : Int) = 4 * bx + 2 * by_ + bz
      ∧ cornerOffset i.val = ⟨bx, by_, bz⟩
      ∧ (a.getSubAreas i).m_MinPos
          = ⟨a.m_MinPos.x + bx * shl1 (a.m_SizeExpo - 1),
             a.m_MinPos.y + by_ * shl1 (a.m_SizeExpo - 1),
             a.m_MinPos.z + bz * shl1 (a.m_SizeExpo - 1)⟩
      ∧ (a.getSubAreas i).m_MinRealPos
          = ⟨a.m_MinRealPos.x + (bx : ℚ) * (a.m_RealSize / 2),
             a.m_MinRealPos.y + (by_ : ℚ) * (a.m_RealSize / 2),
             a.m_MinRealPos.z + (bz : ℚ) * (a.m_RealSize / 2)⟩
      ∧ (a.getSubAreas i).m_RealSize = a.m_RealSize / 2
      ∧ (a.getSubAreas i).m_SizeExpo = a.m_SizeExpo - 1 := by
  have key : ∀ bx by_ bz : Int, cornerOffset i.val = ⟨bx, by_, bz⟩ →
      (a.getSubAreas i).m_MinPos
          = ⟨a.m_MinPos.x + bx * shl1 (a.m_SizeExpo - 1),
             a.m_MinPos.y + by_ * shl1 (a.m_SizeExpo - 1),
             a.m_MinPos.z + bz * shl1 (a.m_SizeExpo - 1)⟩
      ∧ (a.getSubAreas i).m_MinRealPos
          = ⟨a.m_MinRealPos.x + (bx : ℚ) * (a.m_RealSize / 2),
             a.m_MinRealPos.y + (by_ : ℚ) * (a.m_RealSize / 2),
             a.m_MinRealPos.z + (bz : ℚ) * (a.m_RealSize / 2)⟩
      ∧ (a.getSubAreas i).m_RealSize = a.m_RealSize / 2
      ∧ (a.getSubAreas i).m_SizeExpo = a.m_SizeExpo - 1 := by
    intro bx by_ bz h
    refine ⟨?_, ?_, ?_, rfl⟩
    · unfold Area.getSubAreas
      simp only [h]
      rfl
    · unfold Area.getSubAreas
      simp only [h, Vector3.add, rat_add, rat_mul, rat_half, rat_ofInt]
      rw [Vector3.ext_components]
      refine ⟨?_, ?_, ?_⟩ <;> simp only <;> ring
    · unfold Area.getSubAreas
      simp only [rat_mul, rat_half]
      ring
  have hcases : i = 0 ∨ i = 1 ∨ i = 2 ∨ i = 3 ∨ i = 4 ∨ i = 5 ∨ i = 6 ∨ i = 7 := by
    rcases i with ⟨v, hv⟩
    simp only [Fin.ext_iff]
    show v = 0 ∨ v = 1 ∨ v = 2 ∨ v = 3 ∨ v = 4 ∨ v = 5 ∨ v = 6 ∨ v = 7
    omega
  rcases hcases with e | e | e | e | e | e | e | e <;> subst e
  · exact ⟨0, 0, 0, by decide, by decide, by decide, by decide, by decide, key 0 0 0 (by decide)⟩
  · exact ⟨0, 0, 1, by decide, by decide, by decide, by decide, by decide, key 0 0 1 (by decide)⟩
  · exact ⟨0, 1, 0, by decide, by decide, by decide, by decide, by decide, key 0 1 0 (by decide)⟩
  · exact ⟨0, 1, 1, by decide, by decide, by decide, by decide, by decide, key 0 1 1 (by decide)⟩
  · exact ⟨1, 0, 0, by decide, by decide, by decide, by decide, by decide, key 1 0 0 (by decide)⟩
  · exact ⟨1, 0, 1, by decide, by decide, by decide, by decide, by decide, key 1 0 1 (by decide)⟩
  · exact ⟨1, 1, 0, by decide, by decide, by decide, by decide, by decide, key 1 1 0 (by decide)⟩
  · exact ⟨1, 1, 1, by decide, by decide, by decide, by decide, by decide, key 1 1 1 (by decide)⟩
theorem fin_of_bits (bx by_ bz : Int) (hx : bx = 0 ∨ bx = 1) (hy : by_ = 0 ∨ by_ = 1)
    (hz : bz = 0 ∨ bz = 1) : ∃ i : Fin 8, cornerOffset i.val = ⟨bx, by_, bz⟩ := by
  rcases hx with hx | hx <;> rcases hy with hy | hy <;> rcases hz with hz | hz <;> subst hx
    <;> subst hy <;> subst hz
  · exact ⟨0, by decide⟩
  · exact ⟨1, by decide⟩
  · exact ⟨2, by decide⟩
  · exact ⟨3, by decide⟩
  · exact ⟨4, by decide⟩
  · exact ⟨5, by decide⟩
  · exact ⟨6, by decide⟩
  · exact ⟨7, by decide⟩

theorem subArea_fields (a : Area ℚ) (i : Fin 8) (bx by_ bz : Int)
    (hoff : cornerOffset i.val = ⟨bx, by_, bz⟩) :
    (a.getSubAreas i).m_MinPos
        = ⟨a.m_MinPos.x + bx * shl1 (a.m_SizeExpo - 1),
           a.m_MinPos.y + by_ * shl1 (a.m_SizeExpo - 1),
           a.m_MinPos.z + bz * shl1 (a.m_SizeExpo - 1)⟩
      ∧ (a.getSubAreas i).m_MinRealPos
        = ⟨a.m_MinRealPos.x + (bx : ℚ) * (a.m_RealSize / 2),
           a.m_MinRealPos.y + (by_ : ℚ) * (a.m_RealSize / 2),
           a.m_MinRealPos.z + (bz : ℚ) * (a.m_RealSize / 2)⟩
      ∧ (a.getSubAreas i).m_RealSize = a.m_RealSize / 2
      ∧ (a.getSubAreas i).m_SizeExpo = a.m_SizeExpo - 1 := by
  obtain ⟨cx, cy, cz, _, _, _, _, hoff2, h1, h2, h3, h4⟩ := getSubAreas_bits a i
  rw [hoff] at hoff2
  injection hoff2 with ex ey ez
  subst ex
  subst ey
  subst ez
  exact ⟨h1, h2, h3, h4⟩

theorem bits_of_fin (i : Fin 8) :
    ∃ bx by_ bz : Int, (bx = 0 ∨ bx = 1) ∧ (by_ = 0 ∨ by_ = 1) ∧ (bz = 0 ∨ bz = 1)
      ∧ (i.val : Int) = 4 * bx + 2 * by_ + bz ∧ cornerOffset i.val = ⟨bx, by_, bz⟩ := by
  obtain ⟨bx, by_, bz, hx, hy, hz, hi, hoff, _⟩ := getSubAreas_bits
    (⟨⟨0, 0, 0⟩, 0, ⟨0, 0, 0⟩, 0⟩ : Area ℚ) i
  exact ⟨bx, by_, bz, hx, hy, hz, hi, hoff⟩

theorem interval_split_int (m p S b : Int) (hb : b = 0 ∨ b = 1) (hS : 0 < S) :
    (m + b * S ≤ p ∧ p < m + b * S + S) ↔
      (m ≤ p ∧ p < m + 2 * S) ∧ (b = 0 ↔ p < m + S) := by
  rcases hb with hb | hb <;> subst hb <;> constructor <;> intro h <;> omega

theorem interval_split_rat (m p s : ℚ) (b : Int) (hb : b = 0 ∨ b = 1) :
    (p ≥ m + (b : ℚ) * (s / 2) ∧ p < m + (b : ℚ) * (s / 2) + s / 2) ↔
      (p ≥ m ∧ p < m + s) ∧ (b = 0 ↔ p < m + s / 2) := by
  rcases hb with hb | hb <;> subst hb
  · simp only [Int.cast_zero, zero_mul, add_zero, true_iff]
    constructor
    · intro h
      exact ⟨⟨h.1, by linarith⟩, h.2⟩
    · intro h
      exact ⟨h.1.1, h.2⟩
  · simp only [Int.cast_one, one_mul]
    constructor
    · intro h
      refine ⟨⟨by linarith, by linarith⟩, ?_⟩
      constructor
      · intro h0
        exact absurd h0 (by decide)
      · intro h1
        linarith
    · intro h
      refine ⟨?_, by linarith⟩
      by_contra hc
      have := h.2.2 (by linarith)
      exact absurd this (by decide)
theorem subArea_cubeContains (a : Area ℚ) (he : 1 ≤ a.m_SizeExpo) (i : Fin 8)
    (bx by_ bz : Int) (hx : bx = 0 ∨ bx = 1) (hy : by_ = 0 ∨ by_ = 1) (hz : bz = 0 ∨ bz = 1)
    (hoff : cornerOffset i.val = ⟨bx, by_, bz⟩) (p : Vector3i) :
    ((a.getSubAreas i).cubeContains p ↔
      a.cubeContains p ∧ (bx = 0 ↔ p.x < a.m_MinPos.x + shl1 (a.m_SizeExpo - 1))
        ∧ (by_ = 0 ↔ p.y < a.m_MinPos.y + shl1 (a.m_SizeExpo - 1))
        ∧ (bz = 0 ↔ p.z < a.m_MinPos.z + shl1 (a.m_SizeExpo - 1))) := by
  have hS := shl1_pos (a.m_SizeExpo - 1)
  have h2 := shl1_double a.m_SizeExpo he
  obtain ⟨f1, _, _, f4⟩ := subArea_fields a i bx by_ bz hoff
  unfold Area.cubeContains
  rw [f1, f4, h2]
  simp only
  rw [interval_split_int _ _ _ _ hx hS, interval_split_int _ _ _ _ hy hS,
    interval_split_int _ _ _ _ hz hS]
  constructor
  · rintro ⟨⟨a1, b1⟩, ⟨a2, b2⟩, ⟨a3, b3⟩⟩
    exact ⟨⟨a1, a2, a3⟩, b1, b2, b3⟩
  · rintro ⟨⟨a1, a2, a3⟩, b1, b2, b3⟩
    exact ⟨⟨a1, b1⟩, ⟨a2, b2⟩, ⟨a3, b3⟩⟩

theorem subArea_containsPoint (a : Area ℚ) (i : Fin 8)
    (bx by_ bz : Int) (hx : bx = 0 ∨ bx = 1) (hy : by_ = 0 ∨ by_ = 1) (hz : bz = 0 ∨ bz = 1)
    (hoff : cornerOffset i.val = ⟨bx, by_, bz⟩) (p : Vector3 ℚ) :
    ((a.getSubAreas i).containsPoint p = true ↔
      a.containsPoint p = true ∧ (bx = 0 ↔ p.x < a.m_MinRealPos.x + a.m_RealSize / 2)
        ∧ (by_ = 0 ↔ p.y < a.m_MinRealPos.y + a.m_RealSize / 2)
        ∧ (bz = 0 ↔ p.z < a.m_MinRealPos.z + a.m_RealSize / 2)) := by
  obtain ⟨_, f2, f3, _⟩ := subArea_fields a i bx by_ bz hoff
  unfold Area.containsPoint
  rw [f2, f3]
  simp only [decide_eq_true_eq]
  have ex := interval_split_rat a.m_MinRealPos.x p.x a.m_RealSize bx hx
  have ey := interval_split_rat a.m_MinRealPos.y p.y a.m_RealSize by_ hy
  have ez := interval_split_rat a.m_MinRealPos.z p.z a.m_RealSize bz hz
  constructor
  · rintro ⟨x1, x2, y1, y2, z1, z2⟩
    obtain ⟨⟨xa, xb⟩, xi⟩ := ex.mp ⟨x1, x2⟩
    obtain ⟨⟨ya, yb⟩, yi⟩ := ey.mp ⟨y1, y2⟩
    obtain ⟨⟨za, zb⟩, zi⟩ := ez.mp ⟨z1, z2⟩
    exact ⟨⟨xa, xb, ya, yb, za, zb⟩, xi, yi, zi⟩
  · rintro ⟨⟨xa, xb, ya, yb, za, zb⟩, xi, yi, zi⟩
    obtain ⟨x1, x2⟩ := ex.mpr ⟨⟨xa, xb⟩, xi⟩
    obtain ⟨y1, y2⟩ := ey.mpr ⟨⟨ya, yb⟩, yi⟩
    obtain ⟨z1, z2⟩ := ez.mpr ⟨⟨za, zb⟩, zi⟩
    exact ⟨x1, x2, y1, y2, z1, z2⟩

theorem cornerOffset_injective (i j : Fin 8) (bx by_ bz : Int)
    (hi : cornerOffset i.val = ⟨bx, by_, bz⟩) (hj : cornerOffset j.val = ⟨bx, by_, bz⟩) :
    i = j := by
  obtain ⟨cx, cy, cz, _, _, _, ei, oi⟩ := bits_of_fin i
  obtain ⟨dx, dy, dz, _, _, _, ej, oj⟩ := bits_of_fin j
  rw [hi] at oi
  rw [hj] at oj
  injection oi with a1 a2 a3
  injection oj with b1 b2 b3
  apply Fin.ext
  omega

theorem bit_eq_of_iff (b c : Int) (hb : b = 0 ∨ b = 1) (hc : c = 0 ∨ c = 1) (P : Prop)
    (h1 : b = 0 ↔ P) (h2 : c = 0 ↔ P) : b = c := by
  rcases hb with h | h <;> rcases hc with g | g <;> subst h <;> subst g
  · rfl
  · exact absurd (h2.mpr (h1.mp rfl)) (by decide)
  · exact absurd (h1.mpr (h2.mp rfl)) (by decide)
  · rfl

theorem bit_ite (P : Prop) [Decidable P] :
    ((if P then (0 : Int) else 1) = 0 ∨ (if P then (0 : Int) else 1) = 1)
      ∧ ((if P then (0 : Int) else 1) = 0 ↔ P) := by
  by_cases h : P
  · rw [if_pos h]
    exact ⟨Or.inl rfl, ⟨fun _ => h, fun _ => rfl⟩⟩
  · rw [if_neg h]
    exact ⟨Or.inr rfl, ⟨fun h1 => absurd h1 (by decide), fun h1 => absurd h1 h⟩⟩

theorem subAreas_cover_cube (a : Area ℚ) (he : 1 ≤ a.m_SizeExpo) (p : Vector3i) :
    a.cubeContains p ↔ ∃ i, (a.getSubAreas i).cubeContains p := by
  constructor
  · intro hp
    have bx := bit_ite (p.x < a.m_MinPos.x + shl1 (a.m_SizeExpo - 1))
    have by_ := bit_ite (p.y < a.m_MinPos.y + shl1 (a.m_SizeExpo - 1))
    have bz := bit_ite (p.z < a.m_MinPos.z + shl1 (a.m_SizeExpo - 1))
    obtain ⟨i, hi⟩ := fin_of_bits _ _ _ bx.1 by_.1 bz.1
    exact ⟨i, (subArea_cubeContains a he i _ _ _ bx.1 by_.1 bz.1 hi p).mpr
      ⟨hp, bx.2, by_.2, bz.2⟩⟩
  · rintro ⟨i, hi⟩
    obtain ⟨bx, by_, bz, hx, hy, hz, _, hoff⟩ := bits_of_fin i
    exact ((subArea_cubeContains a he i bx by_ bz hx hy hz hoff p).mp hi).1

theorem subAreas_cube_disjoint (a : Area ℚ) (he : 1 ≤ a.m_SizeExpo) (p : Vector3i)
    (i j : Fin 8) (hi : (a.getSubAreas i).cubeContains p)
    (hj : (a.getSubAreas j).cubeContains p) : i = j := by
  obtain ⟨bx, by_, bz, hx, hy, hz, _, hoff⟩ := bits_of_fin i
  obtain ⟨cx, cy, cz, gx, gy, gz, _, goff⟩ := bits_of_fin j
  have ki := (subArea_cubeContains a he i bx by_ bz hx hy hz hoff p).mp hi
  have kj := (subArea_cubeContains a he j cx cy cz gx gy gz goff p).mp hj
  have e1 := bit_eq_of_iff bx cx hx gx _ ki.2.1 kj.2.1
  have e2 := bit_eq_of_iff by_ cy hy gy _ ki.2.2.1 kj.2.2.1
  have e3 := bit_eq_of_iff bz cz hz gz _ ki.2.2.2 kj.2.2.2
  subst e1
  subst e2
  subst e3
  exact cornerOffset_injective i j _ _ _ hoff goff

theorem subAreas_contain_once (a : Area ℚ) (p : Vector3 ℚ)
    (hp : a.containsPoint p = true) :
    ∃ i, (a.getSubAreas i).containsPoint p = true
      ∧ ∀ j, (a.getSubAreas j).containsPoint p = true → j = i := by
  have bx := bit_ite (p.x < a.m_MinRealPos.x + a.m_RealSize / 2)
  have by_ := bit_ite (p.y < a.m_MinRealPos.y + a.m_RealSize / 2)
  have bz := bit_ite (p.z < a.m_MinRealPos.z + a.m_RealSize / 2)
  obtain ⟨i, hi⟩ := fin_of_bits _ _ _ bx.1 by_.1 bz.1
  refine ⟨i, (subArea_containsPoint a i _ _ _ bx.1 by_.1 bz.1 hi p).mpr
    ⟨hp, bx.2, by_.2, bz.2⟩, ?_⟩
  intro j hj
  obtain ⟨cx, cy, cz, gx, gy, gz, _, goff⟩ := bits_of_fin j
  have kj := (subArea_containsPoint a j cx cy cz gx gy gz goff p).mp hj
  have e1 := bit_eq_of_iff cx _ gx bx.1 _ kj.2.1 bx.2
  have e2 := bit_eq_of_iff cy _ gy by_.1 _ kj.2.2.1 by_.2
  have e3 := bit_eq_of_iff cz _ gz bz.1 _ kj.2.2.2 bz.2
  rw [← e1, ← e2, ← e3] at hi
  exact cornerOffset_injective j i _ _ _ goff hi

theorem subAreas_corner (a : Area ℚ) (he : 1 ≤ a.m_SizeExpo) (i : Fin 8) :
    (a.getSubAreas i).getCorner i.val = a.getCorner i.val := by
  have h2 := shl1_double a.m_SizeExpo he
  obtain ⟨bx, by_, bz, hx, hy, hz, _, hoff⟩ := bits_of_fin i
  obtain ⟨f1, _, _, f4⟩ := subArea_fields a i bx by_ bz hoff
  unfold Area.getCorner
  rw [f1, f4, hoff, h2]
  show (⟨_, _, _⟩ : Vector3i) = ⟨_, _, _⟩
  simp only [Vector3i.scale]
  congr 1 <;> ring
/-! ## The legacy octree: bounds and resize -/

theorem whileLoop_never {σ : Type} (cond : σ → Bool) (body : σ → σ) (I : σ → Prop)
    (h : ∀ s, I s → cond s = true ∧ I (body s)) :
    ∀ (fuel : Nat) (s : σ), I s → whileLoop cond body fuel s = none := by
  intro fuel
  induction fuel with
  | zero => exact fun _ _ => rfl
  | succ n ih =>
    intro s hs
    unfold whileLoop
    rw [if_pos (h s hs).1]
    exact ih _ (h s hs).2

/-- The vertex of the record pushed by `emplaceEdge`: the new leaf-private vertex when
the interior test holds, the registry's vertex otherwise. -/
theorem emplaced_sharedVertex {F SV : Type} [FloatOps F] (vs : VertexSource F SV) (R : Area F)
    (c : F) (area : Area F) (sdf : SolidGeometry F) (b : Bool) (iPos : Vector3i) (dir : Nat) :
    (emplaced vs R c area sdf b iPos dir).sharedVertex
      = if b = true then
          vs.privateVertex iPos dir (getRealPos R c (area.m_MinPos + iPos)) c sdf
        else vs.sharedVertex area.m_MinPos iPos dir (getRealPos R c (area.m_MinPos + iPos)) c sdf := by
  unfold emplaced
  cases b
  · rfl
  · rfl

/-- The interior test of direction `d` looks at the two coordinates other than `d`. -/
theorem interiorTest_iff (j d : Nat) (hd : d < 3) :
    interiorTest j d = true
      ↔ ∀ k, k < 3 → k ≠ d → 0 < coordOf j k ∧ coordOf j k < LEAF_SIZE_1D_INNER := by
  unfold interiorTest
  interval_cases d
  · simp only [if_true, Bool.and_eq_true, decide_eq_true_eq, gt_iff_lt]
    constructor
    · rintro ⟨⟨⟨h1, h2⟩, h3⟩, h4⟩ k hk hne
      interval_cases k
      · exact absurd rfl hne
      · exact ⟨h1, h2⟩
      · exact ⟨h3, h4⟩
    · intro h
      exact ⟨⟨⟨(h 1 (by decide) (by decide)).1, (h 1 (by decide) (by decide)).2⟩,
        (h 2 (by decide) (by decide)).1⟩, (h 2 (by decide) (by decide)).2⟩
  · simp only [if_true, Bool.and_eq_true, decide_eq_true_eq, gt_iff_lt, one_ne_zero, if_false]
    constructor
    · rintro ⟨⟨⟨h1, h2⟩, h3⟩, h4⟩ k hk hne
      interval_cases k
      · exact ⟨h1, h2⟩
      · exact absurd rfl hne
      · exact ⟨h3, h4⟩
    · intro h
      exact ⟨⟨⟨(h 0 (by decide) (by decide)).1, (h 0 (by decide) (by decide)).2⟩,
        (h 2 (by decide) (by decide)).1⟩, (h 2 (by decide) (by decide)).2⟩
  · simp only [if_true, Bool.and_eq_true, decide_eq_true_eq, gt_iff_lt, OfNat.ofNat_ne_zero,
      OfNat.ofNat_ne_one, if_false]
    constructor
    · rintro ⟨⟨⟨h1, h2⟩, h3⟩, h4⟩ k hk hne
      interval_cases k
      · exact ⟨h3, h4⟩
      · exact ⟨h1, h2⟩
      · exact absurd rfl hne
    · intro h
      exact ⟨⟨⟨(h 1 (by decide) (by decide)).1, (h 1 (by decide) (by decide)).2⟩,
        (h 0 (by decide) (by decide)).1⟩, (h 0 (by decide) (by decide)).2⟩

/-- Every record in the list after the rounds of the masked edge computation is an old
record or the record that `emplaceEdge` pushes for its own direction and lower
endpoint. -/
theorem mem_forLoop_emplaced {F SV : Type} [FloatOps F] (vs : VertexSource F SV)
    (R : Area F) (c : F) (area : Area F) (sdf : SolidGeometry F) (ign : EdgeMask)
    (signs : SignArray) (n : Nat) (es0 : List (SurfaceEdge SV)) (e : SurfaceEdge SV)
    (he : e ∈ forLoop n (fun j es => es ++ newEdgesAt vs R c area sdf ign signs j) es0) :
    e ∈ es0 ∨ (e.direction < 3 ∧ e.edgeIndex1 < n
      ∧ edgeTest ign signs e.direction e.edgeIndex1 = true
      ∧ e = emplaced vs R c area sdf (interiorTest e.edgeIndex1 e.direction)
          (fromIndex e.edgeIndex1) e.direction) := by
  rcases mem_forLoop_newEdges vs R c area sdf ign signs n es0 e he with h | ⟨j, hj, h⟩
  · exact Or.inl h
  · right
    obtain ⟨hd, h1, _, ht⟩ := mem_newEdgesAt vs R c area sdf ign signs j e h
    obtain ⟨k, hk⟩ := mem_newEdgesAt_emplaced vs R c area sdf ign signs j e h
    have hdir : e.direction = k := by
      rw [hk, emplaced_direction]
    rw [h1, hdir]
    rw [hdir] at hd ht
    exact ⟨hd, hj, ht, hk⟩

/-- The edge computation pushes the record of every crossing lattice edge. -/
theorem computeEdges_has_emplaced {F SV : Type} [FloatOps F] (vs : VertexSource F SV)
    (R : Area F) (c : F) (area : Area F) (sdf : SolidGeometry F) (signs : SignArray)
    (d i : Nat) (hi : i < LEAF_SIZE_3D) (hd : d < 3)
    (ht : edgeTest EdgeMask.zero signs d i = true) :
    emplaced vs R c area sdf (interiorTest i d) (fromIndex i) d
      ∈ (computeEdges vs R c area sdf ⟨signs, []⟩ : GridNode SV).m_SurfaceEdges := by
  have hcount : edgeCount (computeEdges vs R c area sdf ⟨signs, []⟩ : GridNode SV).m_SurfaceEdges
      d i = 1 := by
    rw [computeEdges_eq_ignoring, computeEdgesIgnoring_edges, edgeCount_forLoop, edgeCount_nil,
      Nat.zero_add, if_pos ⟨hi, hd, ht⟩]
  have hpos : 0 < List.countP (fun e => decide (e.direction = d ∧ e.edgeIndex1 = i))
      (computeEdges vs R c area sdf ⟨signs, []⟩ : GridNode SV).m_SurfaceEdges := by
    have h := hcount
    unfold edgeCount at h
    rw [h]
    exact Nat.one_pos
  rw [List.countP_pos_iff] at hpos
  obtain ⟨e, he, hp⟩ := hpos
  rw [decide_eq_true_eq] at hp
  have hmem := he
  rw [computeEdges_eq_ignoring, computeEdgesIgnoring_edges] at hmem
  rcases mem_forLoop_emplaced vs R c area sdf EdgeMask.zero signs LEAF_SIZE_3D [] e hmem
    with h | ⟨_, _, _, h⟩
  · cases h
  · rw [hp.1, hp.2] at h
    rw [← h]
    exact he

/-- Signs of the thin slab on the lattice of `exampleArea` with cell size 1. -/
theorem exampleThinSlab_sign (k : Nat) (hk : k < LEAF_SIZE_3D) :
    (computeSigns exampleArea 1 exampleArea exampleThinSlab SignArray.blank).get k
      = decide ((((k / LEAF_SIZE_2D : Nat) : Int) : ℚ) * 2 ≤ 1) := by
  rw [computeSigns_get _ _ _ _ _ _ hk]
  show decide (_ ≤ (1 : ℚ)) = _
  rw [getRealPos_rat]
  simp [exampleArea, Vector3i.add_x, fromIndex]

/-- The x-edge of the thin slab from `(0, 4, 4)` to `(1, 4, 4)` passes the edge test. -/
theorem exampleThinSlab_edgeTest :
    edgeTest EdgeMask.zero
      (computeSigns exampleArea 1 exampleArea exampleThinSlab SignArray.blank) 0 40 = true := by
  have h40 : (40 : Nat) < LEAF_SIZE_3D := by decide
  have h121 : (40 + stride 0 : Nat) < LEAF_SIZE_3D := by decide
  unfold edgeTest crossing
  rw [exampleThinSlab_sign 40 h40, exampleThinSlab_sign (40 + stride 0) h121]
  have a : (40 / LEAF_SIZE_2D : Nat) = 0 := by decide
  have b : ((40 + stride 0) / LEAF_SIZE_2D : Nat) = 1 := by decide
  have cc : coordOf 40 0 < LEAF_SIZE_1D_INNER := by decide
  rw [a, b]
  simp [EdgeMask.get_zero, cc]

/-- The record that the edge computation pushes for that x-edge. -/
theorem exampleThinSlab_record :
    emplaced exampleVertices exampleArea 1 exampleArea exampleThinSlab (interiorTest 40 0)
        (fromIndex 40) 0
      = (⟨(false, ⟨0, 4, 4⟩, 0), 40, 121, 0⟩ : SurfaceEdge (Bool × Vector3i × Nat)) := by
  have h : interiorTest 40 0 = true := by decide
  rw [h]
  rfl

/-- Whether a node is well formed over an area depends on the exponent of the area
only. -/
theorem wellFormed_of_expo_eq {F SV : Type} [FloatOps F] (n : Node SV) :
    ∀ a b : Area F, a.m_SizeExpo = b.m_SizeExpo → n.WellFormed a → n.WellFormed b := by
  induction n with
  | inner c ih =>
    intro a b hab hw
    have h1 : (LEAF_EXPO : Int) < a.m_SizeExpo := hw.1
    have h2 : ∀ i, (c i).WellFormed (a.getSubAreas i) := hw.2
    refine ⟨?_, fun i => ih i (a.getSubAreas i) (b.getSubAreas i) ?_ (h2 i)⟩
    · rw [← hab]
      exact h1
    · show a.m_SizeExpo - 1 = b.m_SizeExpo - 1
      rw [hab]
  | empty s =>
    intro a b hab hw
    have h1 : (LEAF_EXPO : Int) ≤ a.m_SizeExpo := hw
    show (LEAF_EXPO : Int) ≤ b.m_SizeExpo
    rw [← hab]
    exact h1
  | grid g =>
    intro a b hab hw
    have h1 : a.m_SizeExpo = LEAF_EXPO := hw
    show b.m_SizeExpo = LEAF_EXPO
    rw [← hab]
    exact h1

theorem invert_wellFormed {F SV : Type} [FloatOps F] (n : Node SV) :
    ∀ a : Area F, n.WellFormed a → n.invert.WellFormed a := by
  induction n with
  | inner c ih =>
    intro a hw
    exact ⟨hw.1, fun i => ih i _ (hw.2 i)⟩
  | empty s =>
    intro a hw
    exact hw
  | grid g =>
    intro a hw
    exact hw

/-- On two well-formed subtrees over the same area the aligned union reaches its final
branch only with two Grid leaves: it returns a node, and the node is well formed. -/
theorem mergeAlignedNode_wellFormed {F SV : Type} [FloatOps F] (n : Node SV) :
    ∀ (o : Node SV) (a : Area F), n.WellFormed a → o.WellFormed a →
      ∃ r, mergeAlignedNode n o a = some r ∧ r.WellFormed a := by
  induction n with
  | inner c ih =>
    intro o a hn ho
    cases o with
    | inner c2 =>
      have hall : ∀ i, ∃ r, mergeAlignedNode (c i) (c2 i) (a.getSubAreas i) = some r
          ∧ r.WellFormed (a.getSubAreas i) := fun i => ih i (c2 i) _ (hn.2 i) (ho.2 i)
      have hsome : ∀ i, (mergeAlignedNode (c i) (c2 i) (a.getSubAreas i)).isSome = true := by
        intro i
        obtain ⟨r, hr, _⟩ := hall i
        rw [hr]
        rfl
      rw [mergeAlignedNode, dif_pos hsome]
      refine ⟨_, rfl, hn.1, fun i => ?_⟩
      obtain ⟨r, hr, hw⟩ := hall i
      have hg : (mergeAlignedNode (c i) (c2 i) (a.getSubAreas i)).get (hsome i) = r := by
        simp only [hr, Option.get_some]
      beta_reduce
      rw [hg]
      exact hw
    | empty s =>
      rw [mergeAlignedNode]
      · split_ifs
        · exact ⟨_, rfl, hn⟩
        · exact ⟨_, rfl, le_of_lt hn.1⟩
    | grid g2 =>
      have h1 : (LEAF_EXPO : Int) < a.m_SizeExpo := hn.1
      have h2 : a.m_SizeExpo = LEAF_EXPO := ho
      rw [h2] at h1
      exact absurd h1 (lt_irrefl _)
  | empty s =>
    intro o a hn ho
    cases o with
    | inner c2 =>
      rw [mergeAlignedNode]
      · split_ifs
        · exact ⟨_, rfl, hn⟩
        · rw [Node.clone_eq]
          exact ⟨_, rfl, ho⟩
      · intro otherSign h
        cases h
    | empty s2 =>
      rw [mergeAlignedNode]
      · split_ifs
        · exact ⟨_, rfl, hn⟩
        · exact ⟨_, rfl, ho⟩
    | grid g2 =>
      rw [mergeAlignedNode]
      · split_ifs
        · exact ⟨_, rfl, hn⟩
        · rw [Node.clone_eq]
          exact ⟨_, rfl, ho⟩
      · intro otherSign h
        cases h
  | grid g =>
    intro o a hn ho
    cases o with
    | inner c2 =>
      have h1 : (LEAF_EXPO : Int) < a.m_SizeExpo := ho.1
      have h2 : a.m_SizeExpo = LEAF_EXPO := hn
      rw [h2] at h1
      exact absurd h1 (lt_irrefl _)
    | empty s2 =>
      rw [mergeAlignedNode]
      · split_ifs
        · exact ⟨_, rfl, hn⟩
        · exact ⟨_, rfl, ho⟩
    | grid g2 =>
      rw [mergeAlignedNode]
      exact ⟨_, rfl, hn⟩
/-- On two well-formed subtrees over the same area the aligned intersection reaches its final
branch only with two Grid leaves: it returns a node, and the node is well formed. -/
theorem intersectAlignedNode_wellFormed {F SV : Type} [FloatOps F] (n : Node SV) :
    ∀ (o : Node SV) (a : Area F), n.WellFormed a → o.WellFormed a →
      ∃ r, intersectAlignedNode n o a = some r ∧ r.WellFormed a := by
  induction n with
  | inner c ih =>
    intro o a hn ho
    cases o with
    | inner c2 =>
      have hall : ∀ i, ∃ r, intersectAlignedNode (c i) (c2 i) (a.getSubAreas i) = some r
          ∧ r.WellFormed (a.getSubAreas i) := fun i => ih i (c2 i) _ (hn.2 i) (ho.2 i)
      have hsome : ∀ i, (intersectAlignedNode (c i) (c2 i) (a.getSubAreas i)).isSome = true := by
        intro i
        obtain ⟨r, hr, _⟩ := hall i
        rw [hr]
        rfl
      rw [intersectAlignedNode, dif_pos hsome]
      refine ⟨_, rfl, hn.1, fun i => ?_⟩
      obtain ⟨r, hr, hw⟩ := hall i
      have hg : (intersectAlignedNode (c i) (c2 i) (a.getSubAreas i)).get (hsome i) = r := by
        simp only [hr, Option.get_some]
      beta_reduce
      rw [hg]
      exact hw
    | empty s =>
      rw [intersectAlignedNode]
      · split_ifs
        · exact ⟨_, rfl, hn⟩
        · exact ⟨_, rfl, le_of_lt hn.1⟩
    | grid g2 =>
      have h1 : (LEAF_EXPO : Int) < a.m_SizeExpo := hn.1
      have h2 : a.m_SizeExpo = LEAF_EXPO := ho
      rw [h2] at h1
      exact absurd h1 (lt_irrefl _)
  | empty s =>
    intro o a hn ho
    cases o with
    | inner c2 =>
      rw [intersectAlignedNode]
      · split_ifs
        · exact ⟨_, rfl, hn⟩
        · rw [Node.clone_eq]
          exact ⟨_, rfl, ho⟩
      · intro otherSign h
        cases h
    | empty s2 =>
      rw [intersectAlignedNode]
      · split_ifs
        · exact ⟨_, rfl, hn⟩
        · exact ⟨_, rfl, ho⟩
    | grid g2 =>
      rw [intersectAlignedNode]
      · split_ifs
        · exact ⟨_, rfl, hn⟩
        · rw [Node.clone_eq]
          exact ⟨_, rfl, ho⟩
      · intro otherSign h
        cases h
  | grid g =>
    intro o a hn ho
    cases o with
    | inner c2 =>
      have h1 : (LEAF_EXPO : Int) < a.m_SizeExpo := ho.1
      have h2 : a.m_SizeExpo = LEAF_EXPO := hn
      rw [h2] at h1
      exact absurd h1 (lt_irrefl _)
    | empty s2 =>
      rw [intersectAlignedNode]
      · split_ifs
        · exact ⟨_, rfl, hn⟩
        · exact ⟨_, rfl, ho⟩
    | grid g2 =>
      rw [intersectAlignedNode]
      exact ⟨_, rfl, hn⟩

/-- On two well-formed subtrees over the same area the aligned subtraction reaches its final
branch only with two Grid leaves: it returns a node, and the node is well formed. -/
theorem subtractAlignedNode_wellFormed {F SV : Type} [FloatOps F] (n : Node SV) :
    ∀ (o : Node SV) (a : Area F), n.WellFormed a → o.WellFormed a →
      ∃ r, subtractAlignedNode n o a = some r ∧ r.WellFormed a := by
  induction n with
  | inner c ih =>
    intro o a hn ho
    cases o with
    | inner c2 =>
      have hall : ∀ i, ∃ r, subtractAlignedNode (c i) (c2 i) (a.getSubAreas i) = some r
          ∧ r.WellFormed (a.getSubAreas i) := fun i => ih i (c2 i) _ (hn.2 i) (ho.2 i)
      have hsome : ∀ i, (subtractAlignedNode (c i) (c2 i) (a.getSubAreas i)).isSome = true := by
        intro i
        obtain ⟨r, hr, _⟩ := hall i
        rw [hr]
        rfl
      rw [subtractAlignedNode, dif_pos hsome]
      refine ⟨_, rfl, hn.1, fun i => ?_⟩
      obtain ⟨r, hr, hw⟩ := hall i
      have hg : (subtractAlignedNode (c i) (c2 i) (a.getSubAreas i)).get (hsome i) = r := by
        simp only [hr, Option.get_some]
      beta_reduce
      rw [hg]
      exact hw
    | empty s =>
      rw [subtractAlignedNode]
      · split_ifs
        · exact ⟨_, rfl, hn⟩
        · exact ⟨_, rfl, le_of_lt hn.1⟩
    | grid g2 =>
      have h1 : (LEAF_EXPO : Int) < a.m_SizeExpo := hn.1
      have h2 : a.m_SizeExpo = LEAF_EXPO := ho
      rw [h2] at h1
      exact absurd h1 (lt_irrefl _)
  | empty s =>
    intro o a hn ho
    cases o with
    | inner c2 =>
      rw [subtractAlignedNode]
      · split_ifs
        · exact ⟨_, rfl, hn⟩
        · rw [Node.clone_eq]
          exact ⟨_, rfl, invert_wellFormed _ _ ho⟩
      · intro otherSign h
        cases h
    | empty s2 =>
      rw [subtractAlignedNode]
      · split_ifs
        · exact ⟨_, rfl, hn⟩
        · exact ⟨_, rfl, ho⟩
    | grid g2 =>
      rw [subtractAlignedNode]
      · split_ifs
        · exact ⟨_, rfl, hn⟩
        · rw [Node.clone_eq]
          exact ⟨_, rfl, invert_wellFormed _ _ ho⟩
      · intro otherSign h
        cases h
  | grid g =>
    intro o a hn ho
    cases o with
    | inner c2 =>
      have h1 : (LEAF_EXPO : Int) < a.m_SizeExpo := ho.1
      have h2 : a.m_SizeExpo = LEAF_EXPO := hn
      rw [h2] at h1
      exact absurd h1 (lt_irrefl _)
    | empty s2 =>
      rw [subtractAlignedNode]
      · split_ifs
        · exact ⟨_, rfl, hn⟩
        · exact ⟨_, rfl, ho⟩
    | grid g2 =>
      rw [subtractAlignedNode]
      exact ⟨_, rfl, hn⟩

/-- The same for the aligned subtraction with the state of the other subtree: both the
returned node and the other subtree after the call are well formed. -/
theorem subtractAlignedNodeS_wellFormed {F SV : Type} [FloatOps F] (n : Node SV) :
    ∀ (o : Node SV) (a : Area F), n.WellFormed a → o.WellFormed a →
      ∃ r, subtractAlignedNodeS n o a = some r ∧ r.1.WellFormed a ∧ r.2.WellFormed a := by
  induction n with
  | inner c ih =>
    intro o a hn ho
    cases o with
    | inner c2 =>
      have hall : ∀ i, ∃ r, subtractAlignedNodeS (c i) (c2 i) (a.getSubAreas i) = some r
          ∧ r.1.WellFormed (a.getSubAreas i) ∧ r.2.WellFormed (a.getSubAreas i) :=
        fun i => ih i (c2 i) _ (hn.2 i) (ho.2 i)
      have hsome : ∀ i, (subtractAlignedNodeS (c i) (c2 i) (a.getSubAreas i)).isSome = true := by
        intro i
        obtain ⟨r, hr, _⟩ := hall i
        rw [hr]
        rfl
      have hget : ∀ i,
          ((subtractAlignedNodeS (c i) (c2 i) (a.getSubAreas i)).get (hsome i)).1.WellFormed
              (a.getSubAreas i)
            ∧ ((subtractAlignedNodeS (c i) (c2 i) (a.getSubAreas i)).get (hsome i)).2.WellFormed
              (a.getSubAreas i) := by
        intro i
        obtain ⟨r, hr, hw⟩ := hall i
        have hg : (subtractAlignedNodeS (c i) (c2 i) (a.getSubAreas i)).get (hsome i) = r := by
          simp only [hr, Option.get_some]
        rw [hg]
        exact hw
      rw [subtractAlignedNodeS, dif_pos hsome]
      exact ⟨_, rfl, ⟨hn.1, fun i => (hget i).1⟩, ⟨ho.1, fun i => (hget i).2⟩⟩
    | empty s =>
      rw [subtractAlignedNodeS]
      · split_ifs
        · exact ⟨_, rfl, hn, ho⟩
        · exact ⟨_, rfl, le_of_lt hn.1, ho⟩
    | grid g2 =>
      have h1 : (LEAF_EXPO : Int) < a.m_SizeExpo := hn.1
      have h2 : a.m_SizeExpo = LEAF_EXPO := ho
      rw [h2] at h1
      exact absurd h1 (lt_irrefl _)
  | empty s =>
    intro o a hn ho
    cases o with
    | inner c2 =>
      rw [subtractAlignedNodeS]
      · split_ifs
        · exact ⟨_, rfl, hn, ho⟩
        · rw [Node.clone_eq]
          exact ⟨_, rfl, invert_wellFormed _ _ ho, ho⟩
      · intro otherSign h
        cases h
    | empty s2 =>
      rw [subtractAlignedNodeS]
      · split_ifs
        · exact ⟨_, rfl, hn, ho⟩
        · exact ⟨_, rfl, ho, ho⟩
    | grid g2 =>
      rw [subtractAlignedNodeS]
      · split_ifs
        · exact ⟨_, rfl, hn, ho⟩
        · rw [Node.clone_eq]
          exact ⟨_, rfl, invert_wellFormed _ _ ho, ho⟩
      · intro otherSign h
        cases h
  | grid g =>
    intro o a hn ho
    cases o with
    | inner c2 =>
      have h1 : (LEAF_EXPO : Int) < a.m_SizeExpo := ho.1
      have h2 : a.m_SizeExpo = LEAF_EXPO := hn
      rw [h2] at h1
      exact absurd h1 (lt_irrefl _)
    | empty s2 =>
      rw [subtractAlignedNodeS]
      · split_ifs
        · exact ⟨_, rfl, hn, ho⟩
        · exact ⟨_, rfl, ho, ho⟩
    | grid g2 =>
      rw [subtractAlignedNodeS]
      exact ⟨_, rfl, hn, ho⟩
theorem sampleSDF_wellFormed {F SV : Type} [FloatOps F] (vs : VertexSource F SV)
    (otherSDF : SolidGeometry F) (aabb : AABB F) (maxDepth : Int)
    (h : (LEAF_EXPO : Int) ≤ maxDepth) :
    (sampleSDF vs otherSDF aabb maxDepth).m_RootNode.WellFormed
      (sampleSDF vs otherSDF aabb maxDepth).m_RootArea := by
  unfold sampleSDF
  exact createNode_wellFormed vs _ _ otherSDF _ h

theorem applyOp_wellFormed {F SV : Type} [FloatOps F] (vs : VertexSource F SV)
    (t : Tree F SV) (o : CsgOp F) (h : t.m_RootNode.WellFormed t.m_RootArea) :
    (t.applyOp vs o).m_RootNode.WellFormed (t.applyOp vs o).m_RootArea := by
  cases o with
  | merge s => exact merge_wellFormed vs _ _ s _ _ h
  | intersect s => exact intersect_wellFormed vs _ _ s _ _ h
  | subtract s => exact intersect_wellFormed vs _ _ (OpInvertSDF s) _ _ h

theorem Tree.mergeAligned_wellFormed {F SV : Type} [FloatOps F] (t o : Tree F SV)
    (ht : t.m_RootNode.WellFormed t.m_RootArea) (ho : o.m_RootNode.WellFormed o.m_RootArea)
    (he : t.m_RootArea.m_SizeExpo = o.m_RootArea.m_SizeExpo) :
    ∃ t2, t.mergeAlignedOctree o = some t2 ∧ t2.m_RootNode.WellFormed t2.m_RootArea := by
  obtain ⟨r, hr, hw⟩ := mergeAlignedNode_wellFormed t.m_RootNode o.m_RootNode t.m_RootArea ht
    (wellFormed_of_expo_eq _ _ _ he.symm ho)
  refine ⟨{ t with m_RootNode := r }, ?_, hw⟩
  unfold Tree.mergeAlignedOctree
  rw [hr]
  rfl

theorem Tree.intersectAligned_wellFormed {F SV : Type} [FloatOps F] (t o : Tree F SV)
    (ht : t.m_RootNode.WellFormed t.m_RootArea) (ho : o.m_RootNode.WellFormed o.m_RootArea)
    (he : t.m_RootArea.m_SizeExpo = o.m_RootArea.m_SizeExpo) :
    ∃ t2, t.intersectAlignedOctree o = some t2 ∧ t2.m_RootNode.WellFormed t2.m_RootArea := by
  obtain ⟨r, hr, hw⟩ := intersectAlignedNode_wellFormed t.m_RootNode o.m_RootNode t.m_RootArea
    ht (wellFormed_of_expo_eq _ _ _ he.symm ho)
  refine ⟨{ t with m_RootNode := r }, ?_, hw⟩
  unfold Tree.intersectAlignedOctree
  rw [hr]
  rfl

theorem Tree.subtractAligned_wellFormed {F SV : Type} [FloatOps F] (t o : Tree F SV)
    (ht : t.m_RootNode.WellFormed t.m_RootArea) (ho : o.m_RootNode.WellFormed o.m_RootArea)
    (he : t.m_RootArea.m_SizeExpo = o.m_RootArea.m_SizeExpo) :
    ∃ t2, t.subtractAlignedOctree o = some t2 ∧ t2.m_RootNode.WellFormed t2.m_RootArea := by
  obtain ⟨r, hr, hw⟩ := subtractAlignedNode_wellFormed t.m_RootNode o.m_RootNode t.m_RootArea
    ht (wellFormed_of_expo_eq _ _ _ he.symm ho)
  refine ⟨{ t with m_RootNode := r }, ?_, hw⟩
  unfold Tree.subtractAlignedOctree
  rw [hr]
  rfl

theorem Tree.subtractedFrom_wellFormed {F SV : Type} [FloatOps F] (t o : Tree F SV)
    (ht : t.m_RootNode.WellFormed t.m_RootArea) (ho : o.m_RootNode.WellFormed o.m_RootArea)
    (he : t.m_RootArea.m_SizeExpo = o.m_RootArea.m_SizeExpo) :
    ∃ r, t.subtractAlignedOctreeS o = some r ∧ r.1.m_RootNode.WellFormed r.1.m_RootArea
      ∧ r.2.m_RootNode.WellFormed r.2.m_RootArea := by
  obtain ⟨r, hr, hw1, hw2⟩ := subtractAlignedNodeS_wellFormed t.m_RootNode o.m_RootNode
    t.m_RootArea ht (wellFormed_of_expo_eq _ _ _ he.symm ho)
  refine ⟨({ t with m_RootNode := r.1 }, { o with m_RootNode := r.2 }), ?_, hw1,
    wellFormed_of_expo_eq _ _ _ he hw2⟩
  unfold Tree.subtractAlignedOctreeS
  rw [hr]
  rfl

/-- Every tree reached by sampling and CSG rewrites is well formed over its root area. -/
theorem built_wellFormed {F SV : Type} [FloatOps F] (vs : VertexSource F SV)
    (t : Tree F SV) (h : Tree.Built vs t) : t.m_RootNode.WellFormed t.m_RootArea := by
  induction h with
  | sample otherSDF aabb maxDepth hd => exact sampleSDF_wellFormed vs otherSDF aabb maxDepth hd
  | op t o _ ih => exact applyOp_wellFormed vs t o ih
  | mergeAligned t o t2 _ _ he hr iht iho =>
    obtain ⟨t3, h3, hw⟩ := Tree.mergeAligned_wellFormed t o iht iho he
    rw [hr] at h3
    rw [Option.some.inj h3]
    exact hw
  | intersectAligned t o t2 _ _ he hr iht iho =>
    obtain ⟨t3, h3, hw⟩ := Tree.intersectAligned_wellFormed t o iht iho he
    rw [hr] at h3
    rw [Option.some.inj h3]
    exact hw
  | subtractAligned t o t2 _ _ he hr iht iho =>
    obtain ⟨t3, h3, hw⟩ := Tree.subtractAligned_wellFormed t o iht iho he
    rw [hr] at h3
    rw [Option.some.inj h3]
    exact hw
  | subtractedFrom t o r _ _ he hr iht iho =>
    obtain ⟨r3, h3, _, hw⟩ := Tree.subtractedFrom_wellFormed t o iht iho he
    rw [hr] at h3
    rw [Option.some.inj h3]
    exact hw

/-- A loop on a state with an extra component simulates the loop on the rest of the
state. -/
theorem forLoop_project {σ τ : Type} (p : σ → τ) (n : Nat) (f : Nat → σ → σ)
    (g : Nat → τ → τ) (h : ∀ i s, p (f i s) = g i (p s)) (s : σ) :
    p (forLoop n f s) = forLoop n g (p s) := by
  induction n with
  | zero => rfl
  | succ n ih => rw [forLoop_succ, forLoop_succ, h, ih]

/-- The innermost loop of a traversal with running index and log. -/
theorem traceLoop_inner {β : Type} (h : Nat → Nat → β) (n : Nat) (b : Nat) (l : List β) :
    forLoop n (fun z (st : Nat × List β) => (st.1 + 1, st.2 ++ [h z st.1])) (b, l)
      = (b + n, l ++ (List.range n).map (fun z => h z (b + z))) := by
  induction n with
  | zero => simp [forLoop]
  | succ n ih =>
    rw [forLoop_succ, ih, List.range_succ, List.map_append]
    simp only [List.map_cons, List.map_nil, List.append_assoc]
    rfl

/-- An outer loop of a traversal with running index and log, around a loop that advances
the index by `w` and appends the entries `H y b`. -/
theorem traceLoop_outer {β : Type} (inner : Nat → Nat × List β → Nat × List β)
    (H : Nat → Nat → List β) (k w : Nat)
    (hinner : ∀ y b l, inner y (b, l) = (b + w, l ++ H y b)) (n : Nat) (b : Nat)
    (l : List β) :
    forLoop n (fun y (st : Nat × List β) => ((inner y st).1 + k, (inner y st).2)) (b, l)
      = (b + n * (w + k), l ++ (List.range n).flatMap (fun y => H y (b + y * (w + k)))) := by
  induction n with
  | zero => simp [forLoop]
  | succ n ih =>
    rw [forLoop_succ, ih, List.range_succ, List.flatMap_append]
    simp only [hinner, List.flatMap_cons, List.flatMap_nil, List.append_nil, List.append_assoc]
    congr 1
    ring

/-- A loop with running counter and a log of entries that depend on the round and the
counter. -/
theorem loggedLoop_counter {σ β : Type} (n : Nat) (g : Nat → Nat → σ → σ)
    (r : Nat → Nat → List β) (s : σ) :
    forLoop n (fun j (st : (σ × Nat) × List β) =>
        ((g j st.1.2 st.1.1, st.1.2 + 1), st.2 ++ r j st.1.2)) ((s, 0), [])
      = ((forLoop n (fun j st => g j j st) s, n), (List.range n).flatMap (fun j => r j j)) := by
  induction n with
  | zero => rfl
  | succ n ih =>
    rw [forLoop_succ, ih, forLoop_succ, List.range_succ, List.flatMap_append]
    simp only [List.flatMap_cons, List.flatMap_nil, List.append_nil]
/-- Three nested loops with a running index that is advanced by one per innermost round,
by `k1` more after every middle round and by `k2` more after every outer round: the log
lists the rounds in order, each with the index it ran with. -/
theorem traceLoop_nest3 {α β : Type} (f : Nat → α → α) (h : Nat → Nat → Nat → Nat → β)
    (N k1 k2 : Nat) (a : α) :
    (forLoop N (fun x st =>
    let st := forLoop N (fun y st =>
      let st := forLoop N (fun z (st : (α × Nat) × List β) =>
          ((f st.1.2 st.1.1, st.1.2 + 1), st.2 ++ [h x y z st.1.2])) st
      ((st.1.1, st.1.2 + k1), st.2)) st
    ((st.1.1, st.1.2 + k2), st.2))
      ((a, 0), [])).2
      = (List.range N).flatMap (fun x => (List.range N).flatMap (fun y =>
          (List.range N).map (fun z =>
            h x y z (0 + x * (N * (N + k1) + k2) + y * (N + k1) + z)))) := by
  have hz : ∀ x y (st : (α × Nat) × List β),
      (fun st : (α × Nat) × List β => (st.1.2, st.2)) (forLoop N (fun z (st : (α × Nat) × List β) =>
          ((f st.1.2 st.1.1, st.1.2 + 1), st.2 ++ [h x y z st.1.2])) st)
        = (st.1.2 + N, st.2 ++ (List.range N).map (fun z => h x y z (st.1.2 + z))) := by
    intro x y st
    refine Eq.trans (forLoop_project (fun st : (α × Nat) × List β => (st.1.2, st.2)) N
      (fun z (st : (α × Nat) × List β) =>
          ((f st.1.2 st.1.1, st.1.2 + 1), st.2 ++ [h x y z st.1.2]))
      (fun z (q : Nat × List β) => (q.1 + 1, q.2 ++ [h x y z q.1])) (fun _ _ => rfl) st) ?_
    exact traceLoop_inner (fun z i => h x y z i) N st.1.2 st.2
  have hy : ∀ x (st : (α × Nat) × List β),
      (fun st : (α × Nat) × List β => (st.1.2, st.2)) (forLoop N (fun y st =>
      let st := forLoop N (fun z (st : (α × Nat) × List β) =>
          ((f st.1.2 st.1.1, st.1.2 + 1), st.2 ++ [h x y z st.1.2])) st
      ((st.1.1, st.1.2 + k1), st.2)) st)
        = (st.1.2 + N * (N + k1), st.2 ++ (List.range N).flatMap (fun y =>
            (List.range N).map (fun z => h x y z (st.1.2 + y * (N + k1) + z)))) := by
    intro x st
    refine Eq.trans (forLoop_project (fun st : (α × Nat) × List β => (st.1.2, st.2)) N
      (fun y st =>
      let st := forLoop N (fun z (st : (α × Nat) × List β) =>
          ((f st.1.2 st.1.1, st.1.2 + 1), st.2 ++ [h x y z st.1.2])) st
      ((st.1.1, st.1.2 + k1), st.2))
      (fun y (q : Nat × List β) =>
        (((fun y (q : Nat × List β) =>
            (q.1 + N, q.2 ++ (List.range N).map (fun z => h x y z (q.1 + z)))) y q).1 + k1,
          ((fun y (q : Nat × List β) =>
            (q.1 + N, q.2 ++ (List.range N).map (fun z => h x y z (q.1 + z)))) y q).2))
      (fun y s => by
        have e2 := hz x y s
        simp only [Prod.mk.injEq] at e2
        simp only [e2.1, e2.2]) st) ?_
    exact traceLoop_outer _ (fun y b => (List.range N).map (fun z => h x y z (b + z))) k1 N
      (fun _ _ _ => rfl) N st.1.2 st.2
  have e : (fun st : (α × Nat) × List β => (st.1.2, st.2)) (forLoop N (fun x st =>
    let st := forLoop N (fun y st =>
      let st := forLoop N (fun z (st : (α × Nat) × List β) =>
          ((f st.1.2 st.1.1, st.1.2 + 1), st.2 ++ [h x y z st.1.2])) st
      ((st.1.1, st.1.2 + k1), st.2)) st
    ((st.1.1, st.1.2 + k2), st.2)) ((a, 0), []))
      = (0 + N * (N * (N + k1) + k2), [] ++ (List.range N).flatMap (fun x =>
          (List.range N).flatMap (fun y =>
            (List.range N).map (fun z => h x y z (0 + x * (N * (N + k1) + k2)
              + y * (N + k1) + z))))) := by
    refine Eq.trans (forLoop_project (fun st : (α × Nat) × List β => (st.1.2, st.2)) N
      (fun x st =>
    let st := forLoop N (fun y st =>
      let st := forLoop N (fun z (st : (α × Nat) × List β) =>
          ((f st.1.2 st.1.1, st.1.2 + 1), st.2 ++ [h x y z st.1.2])) st
      ((st.1.1, st.1.2 + k1), st.2)) st
    ((st.1.1, st.1.2 + k2), st.2))
      (fun x (q : Nat × List β) =>
        (((fun x (q : Nat × List β) =>
          (q.1 + N * (N + k1), q.2 ++ (List.range N).flatMap (fun y =>
            (List.range N).map (fun z => h x y z (q.1 + y * (N + k1) + z))))) x q).1 + k2,
          ((fun x (q : Nat × List β) =>
          (q.1 + N * (N + k1), q.2 ++ (List.range N).flatMap (fun y =>
            (List.range N).map (fun z => h x y z (q.1 + y * (N + k1) + z))))) x q).2))
      (fun x s => by
        have e2 := hy x s
        simp only [Prod.mk.injEq] at e2
        simp only [e2.1, e2.2]) ((a, 0), [])) ?_
    exact traceLoop_outer _ (fun x b => (List.range N).flatMap (fun y =>
        (List.range N).map (fun z => h x y z (b + y * (N + k1) + z)))) k2 (N * (N + k1))
      (fun _ _ _ => rfl) N 0 []
  have e3 := congrArg Prod.snd e
  simp only [List.nil_append] at e3
  exact e3

/-- Forgetting the log of the three nested loops gives the loops without log. -/
theorem traceLoop_nest3_state {α β : Type} (f : Nat → α → α)
    (h : Nat → Nat → Nat → Nat → β) (N k1 k2 : Nat) (s : (α × Nat) × List β) :
    (forLoop N (fun x st =>
    let st := forLoop N (fun y st =>
      let st := forLoop N (fun z (st : (α × Nat) × List β) =>
          ((f st.1.2 st.1.1, st.1.2 + 1), st.2 ++ [h x y z st.1.2])) st
      ((st.1.1, st.1.2 + k1), st.2)) st
    ((st.1.1, st.1.2 + k2), st.2))
      s).1
      = forLoop N (fun _ st =>
    let st := forLoop N (fun _ st =>
      let st := forLoop N (fun _ (st : α × Nat) => (f st.2 st.1, st.2 + 1)) st
      (st.1, st.2 + k1)) st
    (st.1, st.2 + k2)) s.1 := by
  have hz : ∀ x y (st : (α × Nat) × List β),
      (forLoop N (fun z (st : (α × Nat) × List β) =>
          ((f st.1.2 st.1.1, st.1.2 + 1), st.2 ++ [h x y z st.1.2])) st).1
        = forLoop N (fun _ (st : α × Nat) => (f st.2 st.1, st.2 + 1)) st.1 :=
    fun x y st => forLoop_project (fun st : (α × Nat) × List β => st.1) N
      (fun z (st : (α × Nat) × List β) =>
          ((f st.1.2 st.1.1, st.1.2 + 1), st.2 ++ [h x y z st.1.2]))
      (fun _ (st : α × Nat) => (f st.2 st.1, st.2 + 1))
      (fun _ _ => rfl) st
  have hy : ∀ x (st : (α × Nat) × List β),
      (forLoop N (fun y st =>
      let st := forLoop N (fun z (st : (α × Nat) × List β) =>
          ((f st.1.2 st.1.1, st.1.2 + 1), st.2 ++ [h x y z st.1.2])) st
      ((st.1.1, st.1.2 + k1), st.2)) st).1
        = forLoop N (fun _ st =>
      let st := forLoop N (fun _ (st : α × Nat) => (f st.2 st.1, st.2 + 1)) st
      (st.1, st.2 + k1))
            st.1 :=
    fun x st => forLoop_project (fun st : (α × Nat) × List β => st.1) N
      (fun y st =>
      let st := forLoop N (fun z (st : (α × Nat) × List β) =>
          ((f st.1.2 st.1.1, st.1.2 + 1), st.2 ++ [h x y z st.1.2])) st
      ((st.1.1, st.1.2 + k1), st.2))
      (fun _ st =>
      let st := forLoop N (fun _ (st : α × Nat) => (f st.2 st.1, st.2 + 1)) st
      (st.1, st.2 + k1))
      (fun y s => by
        have e2 := hz x y s
        simp only [e2]) st
  exact forLoop_project (fun st : (α × Nat) × List β => st.1) N
    (fun x st =>
    let st := forLoop N (fun y st =>
      let st := forLoop N (fun z (st : (α × Nat) × List β) =>
          ((f st.1.2 st.1.1, st.1.2 + 1), st.2 ++ [h x y z st.1.2])) st
      ((st.1.1, st.1.2 + k1), st.2)) st
    ((st.1.1, st.1.2 + k2), st.2))
    (fun _ st =>
    let st := forLoop N (fun _ st =>
      let st := forLoop N (fun _ (st : α × Nat) => (f st.2 st.1, st.2 + 1)) st
      (st.1, st.2 + k1)) st
    (st.1, st.2 + k2))
    (fun x s => by
      have e2 := hy x s
      simp only [] at e2
      simp only [e2]) s
theorem GridNode.generateIndicesLogged_fst {V : Type} (tlt : TLT) (heap : VertexHeap V)
    (g : GridNode Nat) (indices : List Nat) :
    (g.generateIndicesLogged tlt heap indices).1.1 = g.generateIndices tlt heap indices := by
  unfold GridNode.generateIndicesLogged GridNode.generateIndices
  exact congrArg Prod.fst
    (traceLoop_nest3_state
      (generateIndicesCell tlt heap (surfaceEdgeMaps g.m_SurfaceEdges) g.m_Signs)
      (fun x y z i => (x, y, z, i)) LEAF_SIZE_1D_INNER 1 LEAF_SIZE_1D
      ((some indices, 0), []))

theorem GridNode.generateIndicesLogged_log {V : Type} (tlt : TLT) (heap : VertexHeap V)
    (g : GridNode Nat) (indices : List Nat) :
    (g.generateIndicesLogged tlt heap indices).2
      = (List.range LEAF_SIZE_1D_INNER).flatMap (fun x =>
          (List.range LEAF_SIZE_1D_INNER).flatMap (fun y =>
            (List.range LEAF_SIZE_1D_INNER).map (fun z =>
              (x, y, z, x * LEAF_SIZE_2D + y * LEAF_SIZE_1D + z)))) := by
  have hidx : ∀ x y z : Nat,
      0 + x * (LEAF_SIZE_1D_INNER * (LEAF_SIZE_1D_INNER + 1) + LEAF_SIZE_1D)
          + y * (LEAF_SIZE_1D_INNER + 1) + z
        = x * LEAF_SIZE_2D + y * LEAF_SIZE_1D + z := by
    intro x y z
    simp only [LEAF_SIZE_1D_INNER_eq, LEAF_SIZE_1D_eq, LEAF_SIZE_2D_eq]
    omega
  have e := traceLoop_nest3
    (generateIndicesCell tlt heap (surfaceEdgeMaps g.m_SurfaceEdges) g.m_Signs)
    (fun x y z i => (x, y, z, i)) LEAF_SIZE_1D_INNER 1 LEAF_SIZE_1D (some indices)
  unfold GridNode.generateIndicesLogged
  refine Eq.trans e ?_
  simp only [hidx]

/-- The reads of `getCubeBitMask` for the sub-cell `(x, y, z)` address the eight lattice
points `(x + dx, y + dy, z + dz)`. -/
theorem getCubeBitMaskReads_corners (x y z : Nat) :
    getCubeBitMaskReads (x * LEAF_SIZE_2D + y * LEAF_SIZE_1D + z)
      = [x * LEAF_SIZE_2D + y * LEAF_SIZE_1D + z,
          x * LEAF_SIZE_2D + y * LEAF_SIZE_1D + (z + 1),
          x * LEAF_SIZE_2D + (y + 1) * LEAF_SIZE_1D + z,
          x * LEAF_SIZE_2D + (y + 1) * LEAF_SIZE_1D + (z + 1),
          (x + 1) * LEAF_SIZE_2D + y * LEAF_SIZE_1D + z,
          (x + 1) * LEAF_SIZE_2D + y * LEAF_SIZE_1D + (z + 1),
          (x + 1) * LEAF_SIZE_2D + (y + 1) * LEAF_SIZE_1D + z,
          (x + 1) * LEAF_SIZE_2D + (y + 1) * LEAF_SIZE_1D + (z + 1)] := by
  unfold getCubeBitMaskReads
  simp only [LEAF_SIZE_1D_eq, LEAF_SIZE_2D_eq, List.cons.injEq, and_true]
  refine ⟨trivial, ?_, ?_, ?_, ?_, ?_, ?_, ?_⟩ <;> omega

theorem getCubeBitMaskReads_lt (x y z : Nat) (hx : x < LEAF_SIZE_1D_INNER)
    (hy : y < LEAF_SIZE_1D_INNER) (hz : z < LEAF_SIZE_1D_INNER) :
    (getCubeBitMaskReads (x * LEAF_SIZE_2D + y * LEAF_SIZE_1D + z)).all
      (fun i => decide (i < LEAF_SIZE_3D)) = true := by
  unfold getCubeBitMaskReads
  simp only [LEAF_SIZE_1D_INNER_eq] at hx hy hz
  simp only [LEAF_SIZE_1D_eq, LEAF_SIZE_2D_eq, LEAF_SIZE_3D_eq, List.all_cons, List.all_nil,
    Bool.and_true, Bool.and_eq_true, decide_eq_true_eq]
  refine ⟨?_, ?_, ?_, ?_, ?_, ?_, ?_, ?_⟩ <;> omega

/-- The corner mask is made of the signs at the logged indices, the first read in bit 0. -/
theorem getCubeBitMask_of_reads (index : Nat) (signs : SignArray) :
    getCubeBitMask index signs
      = ((getCubeBitMaskReads index).map (fun i => (signs.get i).toNat)).foldr
          (fun b acc => b + 2 * acc) 0 := by
  rw [getCubeBitMask_eq]
  unfold getCubeBitMaskReads
  simp only [List.map_cons, List.map_nil, List.foldr_cons, List.foldr_nil]
  omega

theorem computeEdgesIgnoringReads_lt (ign : EdgeMask) (j : Nat) (hj : j < LEAF_SIZE_3D)
    (i : Nat)
    (hi : i ∈ computeEdgesIgnoringReads ign (j / LEAF_SIZE_2D)
      (j / LEAF_SIZE_1D % LEAF_SIZE_1D) (j % LEAF_SIZE_1D) j) : i < LEAF_SIZE_3D := by
  unfold computeEdgesIgnoringReads at hi
  simp only [LEAF_SIZE_1D_eq, LEAF_SIZE_2D_eq, LEAF_SIZE_3D_eq, LEAF_SIZE_1D_INNER_eq] at hi hj ⊢
  rw [List.mem_append, List.mem_append] at hi
  rcases hi with (h | h) | h
  · split_ifs at h with hc
    · simp only [Bool.and_eq_true, decide_eq_true_eq] at hc
      simp only [List.mem_cons, List.mem_singleton, List.not_mem_nil, or_false] at h
      omega
    · exact absurd h (List.not_mem_nil _)
  · split_ifs at h with hc
    · simp only [Bool.and_eq_true, decide_eq_true_eq] at hc
      simp only [List.mem_cons, List.mem_singleton, List.not_mem_nil, or_false] at h
      omega
    · exact absurd h (List.not_mem_nil _)
  · split_ifs at h with hc
    · simp only [Bool.and_eq_true, decide_eq_true_eq] at hc
      simp only [List.mem_cons, List.mem_singleton, List.not_mem_nil, or_false] at h
      omega
    · exact absurd h (List.not_mem_nil _)

theorem computeEdgesReads_lt (j : Nat) (hj : j < LEAF_SIZE_3D) (i : Nat)
    (hi : i ∈ computeEdgesReads (j / LEAF_SIZE_2D) (j / LEAF_SIZE_1D % LEAF_SIZE_1D)
      (j % LEAF_SIZE_1D) j) : i < LEAF_SIZE_3D := by
  unfold computeEdgesReads at hi
  simp only [LEAF_SIZE_1D_eq, LEAF_SIZE_2D_eq, LEAF_SIZE_3D_eq, LEAF_SIZE_1D_INNER_eq] at hi hj ⊢
  rw [List.mem_append, List.mem_append] at hi
  rcases hi with (h | h) | h
  · split_ifs at h with hc
    · simp only [List.mem_cons, List.mem_singleton, List.not_mem_nil, or_false] at h
      omega
    · exact absurd h (List.not_mem_nil _)
  · split_ifs at h with hc
    · simp only [List.mem_cons, List.mem_singleton, List.not_mem_nil, or_false] at h
      omega
    · exact absurd h (List.not_mem_nil _)
  · split_ifs at h with hc
    · simp only [List.mem_cons, List.mem_singleton, List.not_mem_nil, or_false] at h
      omega
    · exact absurd h (List.not_mem_nil _)

theorem computeEdgesIgnoringLogged_fst {F SV : Type} [FloatOps F] (vs : VertexSource F SV)
    (R : Area F) (c : F) (area : Area F) (sdf : SolidGeometry F) (ign : EdgeMask)
    (g : GridNode SV) :
    (computeEdgesIgnoringLogged vs R c area sdf ign g).1
      = computeEdgesIgnoring vs R c area sdf ign g := by
  unfold computeEdgesIgnoringLogged computeEdgesIgnoring
  simp only
  rw [forLoop_nest3 (fun x y z (st : (List (SurfaceEdge SV) × Nat) × List Nat) =>
      (computeEdgesIgnoringBody vs R c area sdf ign g.m_Signs x y z st.1,
        st.2 ++ computeEdgesIgnoringReads ign x y z st.1.2)),
    forLoop_nest3 (fun x y z st =>
      computeEdgesIgnoringBody vs R c area sdf ign g.m_Signs x y z st)]
  have e := forLoop_project (fun st : (List (SurfaceEdge SV) × Nat) × List Nat => st.1)
    LEAF_SIZE_3D
    (fun j (st : (List (SurfaceEdge SV) × Nat) × List Nat) =>
      (computeEdgesIgnoringBody vs R c area sdf ign g.m_Signs (j / LEAF_SIZE_2D)
          (j / LEAF_SIZE_1D % LEAF_SIZE_1D) (j % LEAF_SIZE_1D) st.1,
        st.2 ++ computeEdgesIgnoringReads ign (j / LEAF_SIZE_2D)
          (j / LEAF_SIZE_1D % LEAF_SIZE_1D) (j % LEAF_SIZE_1D) st.1.2))
    (fun j st => computeEdgesIgnoringBody vs R c area sdf ign g.m_Signs (j / LEAF_SIZE_2D)
      (j / LEAF_SIZE_1D % LEAF_SIZE_1D) (j % LEAF_SIZE_1D) st)
    (fun _ _ => rfl) ((g.m_SurfaceEdges, 0), [])
  simp only at e
  rw [e]

theorem computeEdgesIgnoringLogged_log {F SV : Type} [FloatOps F] (vs : VertexSource F SV)
    (R : Area F) (c : F) (area : Area F) (sdf : SolidGeometry F) (ign : EdgeMask)
    (g : GridNode SV) :
    (computeEdgesIgnoringLogged vs R c area sdf ign g).2
      = (List.range LEAF_SIZE_3D).flatMap (fun j =>
          computeEdgesIgnoringReads ign (j / LEAF_SIZE_2D) (j / LEAF_SIZE_1D % LEAF_SIZE_1D)
            (j % LEAF_SIZE_1D) j) := by
  unfold computeEdgesIgnoringLogged
  simp only
  rw [forLoop_nest3 (fun x y z (st : (List (SurfaceEdge SV) × Nat) × List Nat) =>
      (computeEdgesIgnoringBody vs R c area sdf ign g.m_Signs x y z st.1,
        st.2 ++ computeEdgesIgnoringReads ign x y z st.1.2))]
  have h := loggedLoop_counter LEAF_SIZE_3D
    (fun j k (es : List (SurfaceEdge SV)) =>
      (computeEdgesIgnoringBody vs R c area sdf ign g.m_Signs (j / LEAF_SIZE_2D)
        (j / LEAF_SIZE_1D % LEAF_SIZE_1D) (j % LEAF_SIZE_1D) (es, k)).1)
    (fun j k => computeEdgesIgnoringReads ign (j / LEAF_SIZE_2D)
      (j / LEAF_SIZE_1D % LEAF_SIZE_1D) (j % LEAF_SIZE_1D) k) g.m_SurfaceEdges
  have h1 : forLoop LEAF_SIZE_3D
      (fun j (st : (List (SurfaceEdge SV) × Nat) × List Nat) =>
        (computeEdgesIgnoringBody vs R c area sdf ign g.m_Signs (j / LEAF_SIZE_2D)
            (j / LEAF_SIZE_1D % LEAF_SIZE_1D) (j % LEAF_SIZE_1D) st.1,
          st.2 ++ computeEdgesIgnoringReads ign (j / LEAF_SIZE_2D)
            (j / LEAF_SIZE_1D % LEAF_SIZE_1D) (j % LEAF_SIZE_1D) st.1.2))
      ((g.m_SurfaceEdges, 0), [])
      = forLoop LEAF_SIZE_3D
          (fun j (st : (List (SurfaceEdge SV) × Nat) × List Nat) =>
            (((computeEdgesIgnoringBody vs R c area sdf ign g.m_Signs (j / LEAF_SIZE_2D)
              (j / LEAF_SIZE_1D % LEAF_SIZE_1D) (j % LEAF_SIZE_1D) (st.1.1, st.1.2)).1,
              st.1.2 + 1),
              st.2 ++ computeEdgesIgnoringReads ign (j / LEAF_SIZE_2D)
                (j / LEAF_SIZE_1D % LEAF_SIZE_1D) (j % LEAF_SIZE_1D) st.1.2))
          ((g.m_SurfaceEdges, 0), []) :=
    forLoop_congr _ _ _ (fun _ _ _ => rfl) _
  rw [h1, h]

theorem computeEdgesLogged_fst {F SV : Type} [FloatOps F] (vs : VertexSource F SV)
    (R : Area F) (c : F) (area : Area F) (sdf : SolidGeometry F) (g : GridNode SV) :
    (computeEdgesLogged vs R c area sdf g).1 = computeEdges vs R c area sdf g := by
  unfold computeEdgesLogged computeEdges
  simp only
  rw [forLoop_nest3 (fun x y z (st : (List (SurfaceEdge SV) × Nat) × List Nat) =>
      (computeEdgesBody vs R c area sdf g.m_Signs x y z st.1,
        st.2 ++ computeEdgesReads x y z st.1.2)),
    forLoop_nest3 (fun x y z st => computeEdgesBody vs R c area sdf g.m_Signs x y z st)]
  have e := forLoop_project (fun st : (List (SurfaceEdge SV) × Nat) × List Nat => st.1)
    LEAF_SIZE_3D
    (fun j (st : (List (SurfaceEdge SV) × Nat) × List Nat) =>
      (computeEdgesBody vs R c area sdf g.m_Signs (j / LEAF_SIZE_2D)
          (j / LEAF_SIZE_1D % LEAF_SIZE_1D) (j % LEAF_SIZE_1D) st.1,
        st.2 ++ computeEdgesReads (j / LEAF_SIZE_2D)
          (j / LEAF_SIZE_1D % LEAF_SIZE_1D) (j % LEAF_SIZE_1D) st.1.2))
    (fun j st => computeEdgesBody vs R c area sdf g.m_Signs (j / LEAF_SIZE_2D)
      (j / LEAF_SIZE_1D % LEAF_SIZE_1D) (j % LEAF_SIZE_1D) st)
    (fun _ _ => rfl) ((g.m_SurfaceEdges, 0), [])
  simp only at e
  rw [e]

theorem computeEdgesLogged_log {F SV : Type} [FloatOps F] (vs : VertexSource F SV)
    (R : Area F) (c : F) (area : Area F) (sdf : SolidGeometry F) (g : GridNode SV) :
    (computeEdgesLogged vs R c area sdf g).2
      = (List.range LEAF_SIZE_3D).flatMap (fun j =>
          computeEdgesReads (j / LEAF_SIZE_2D) (j / LEAF_SIZE_1D % LEAF_SIZE_1D)
            (j % LEAF_SIZE_1D) j) := by
  unfold computeEdgesLogged
  simp only
  rw [forLoop_nest3 (fun x y z (st : (List (SurfaceEdge SV) × Nat) × List Nat) =>
      (computeEdgesBody vs R c area sdf g.m_Signs x y z st.1,
        st.2 ++ computeEdgesReads x y z st.1.2))]
  have h := loggedLoop_counter LEAF_SIZE_3D
    (fun j k (es : List (SurfaceEdge SV)) =>
      (computeEdgesBody vs R c area sdf g.m_Signs (j / LEAF_SIZE_2D)
        (j / LEAF_SIZE_1D % LEAF_SIZE_1D) (j % LEAF_SIZE_1D) (es, k)).1)
    (fun j k => computeEdgesReads (j / LEAF_SIZE_2D)
      (j / LEAF_SIZE_1D % LEAF_SIZE_1D) (j % LEAF_SIZE_1D) k) g.m_SurfaceEdges
  have h1 : forLoop LEAF_SIZE_3D
      (fun j (st : (List (SurfaceEdge SV) × Nat) × List Nat) =>
        (computeEdgesBody vs R c area sdf g.m_Signs (j / LEAF_SIZE_2D)
            (j / LEAF_SIZE_1D % LEAF_SIZE_1D) (j % LEAF_SIZE_1D) st.1,
          st.2 ++ computeEdgesReads (j / LEAF_SIZE_2D)
            (j / LEAF_SIZE_1D % LEAF_SIZE_1D) (j % LEAF_SIZE_1D) st.1.2))
      ((g.m_SurfaceEdges, 0), [])
      = forLoop LEAF_SIZE_3D
          (fun j (st : (List (SurfaceEdge SV) × Nat) × List Nat) =>
            (((computeEdgesBody vs R c area sdf g.m_Signs (j / LEAF_SIZE_2D)
              (j / LEAF_SIZE_1D % LEAF_SIZE_1D) (j % LEAF_SIZE_1D) (st.1.1, st.1.2)).1,
              st.1.2 + 1),
              st.2 ++ computeEdgesReads (j / LEAF_SIZE_2D)
                (j / LEAF_SIZE_1D % LEAF_SIZE_1D) (j % LEAF_SIZE_1D) st.1.2))
          ((g.m_SurfaceEdges, 0), []) :=
    forLoop_congr _ _ _ (fun _ _ _ => rfl) _
  rw [h1, h]

theorem all_lt_of_flatMap (r : Nat → List Nat) (n b : Nat)
    (h : ∀ j, j < n → ∀ i, i ∈ r j → i < b) :
    ((List.range n).flatMap r).all (fun i => decide (i < b)) = true := by
  rw [List.all_eq_true]
  intro i hi
  rw [List.mem_flatMap] at hi
  obtain ⟨j, hj, hij⟩ := hi
  rw [decide_eq_true_eq]
  exact h j (List.mem_range.1 hj) i hij

theorem MarksOnly.same {V : Type} (idx : Bool) (R : Nat → Prop) (h : VertexHeap V) :
    MarksOnly idx R h h :=
  fun _ => ⟨rfl, rfl, rfl, fun _ => rfl, fun _ => rfl⟩

theorem MarksOnly.write {V : Type} {idx : Bool} {R : Nat → Prop} {h0 h : VertexHeap V}
    (hm : MarksOnly idx R h0 h) (q : Nat) (hq : R q) (v : SharedSurfaceVertex V)
    (h1 : v.vertex = (h q).vertex) (h2 : v.shared = (h q).shared)
    (h3 : v.refCount = (h q).refCount)
    (h4 : idx = false → v.vertexIndex = (h q).vertexIndex) :
    MarksOnly idx R h0 (h.set q v) := by
  intro p
  unfold VertexHeap.set
  by_cases hp : p = q
  · rw [if_pos hp]
    obtain ⟨a, b, c, d, _⟩ := hm q
    rw [hp]
    exact ⟨h1.trans a, h2.trans b, h3.trans c, fun hi => (h4 hi).trans (d hi),
      fun hn => absurd hq hn⟩
  · rw [if_neg hp]
    exact hm p

theorem generateVerticesBody_marksOnly {V : Type} (R : Nat → Prop) (h0 : VertexHeap V)
    (i : SurfaceEdge Nat) (hi : R i.sharedVertex) (st : VertexHeap V × List V)
    (hm : MarksOnly true R h0 st.1) : MarksOnly true R h0 (generateVerticesBody i st).1 := by
  unfold generateVerticesBody
  simp only
  split_ifs
  · exact hm.write i.sharedVertex hi _ rfl rfl rfl (fun hc => absurd hc (by decide))
  · exact hm

theorem GridNode.generateVertices_marksOnly {V : Type} (R : Nat → Prop) (h0 : VertexHeap V)
    (g : GridNode Nat) (hg : ∀ e, e ∈ g.m_SurfaceEdges → R e.sharedVertex)
    (st : VertexHeap V × List V) (hm : MarksOnly true R h0 st.1) :
    MarksOnly true R h0 (g.generateVertices st).1 := by
  unfold GridNode.generateVertices
  have key : ∀ (l : List (SurfaceEdge Nat)), (∀ e, e ∈ l → R e.sharedVertex) →
      ∀ st : VertexHeap V × List V, MarksOnly true R h0 st.1 →
        MarksOnly true R h0 (l.foldl (fun st i => generateVerticesBody i st) st).1 := by
    intro l
    induction l with
    | nil => exact fun _ _ h => h
    | cons e t ih =>
      intro hl st hst
      rw [List.foldl_cons]
      exact ih (fun e2 he2 => hl e2 (List.mem_cons_of_mem _ he2)) _
        (generateVerticesBody_marksOnly R h0 e (hl e (List.mem_cons_self _ _)) st hst)
  exact key _ hg st hm

theorem GridNode.markSharedVertices_marksOnly {V : Type} (idx : Bool) (R : Nat → Prop)
    (h0 : VertexHeap V) (b : Bool) (g : GridNode Nat)
    (hg : ∀ e, e ∈ g.m_SurfaceEdges → R e.sharedVertex) (h : VertexHeap V)
    (hm : MarksOnly idx R h0 h) : MarksOnly idx R h0 (g.markSharedVertices b h) := by
  unfold GridNode.markSharedVertices
  have key : ∀ (l : List (SurfaceEdge Nat)), (∀ e, e ∈ l → R e.sharedVertex) →
      ∀ h : VertexHeap V, MarksOnly idx R h0 h →
        MarksOnly idx R h0 (l.foldl
          (fun h i => h.set i.sharedVertex { h i.sharedVertex with marked := b }) h) := by
    intro l
    induction l with
    | nil => exact fun _ _ h => h
    | cons e t ih =>
      intro hl h hh
      rw [List.foldl_cons]
      exact ih (fun e2 he2 => hl e2 (List.mem_cons_of_mem _ he2)) _
        (hh.write e.sharedVertex (hl e (List.mem_cons_self _ _)) _ rfl rfl rfl (fun _ => rfl))
  exact key _ hg h hm

theorem GridNode.countMemory_marksOnly {V : Type} (sz : MemorySizes) (R : Nat → Prop)
    (h0 : VertexHeap V) (g : GridNode Nat)
    (hg : ∀ e, e ∈ g.m_SurfaceEdges → R e.sharedVertex) (st : VertexHeap V × Int)
    (hm : MarksOnly false R h0 st.1) : MarksOnly false R h0 (g.countMemory sz st).1 := by
  unfold GridNode.countMemory
  have key : ∀ (l : List (SurfaceEdge Nat)), (∀ e, e ∈ l → R e.sharedVertex) →
      ∀ st : VertexHeap V × Int, MarksOnly false R h0 st.1 →
        MarksOnly false R h0 (l.foldl
          (fun (st : VertexHeap V × Int) i =>
            if !(st.1 i.sharedVertex).marked then
              (st.1.set i.sharedVertex { st.1 i.sharedVertex with marked := true },
                st.2 + sz.sharedSurfaceVertex)
            else st) st).1 := by
    intro l
    induction l with
    | nil => exact fun _ _ h => h
    | cons e t ih =>
      intro hl st hst
      rw [List.foldl_cons]
      apply ih (fun e2 he2 => hl e2 (List.mem_cons_of_mem _ he2))
      split_ifs
      · exact hst.write e.sharedVertex (hl e (List.mem_cons_self _ _)) _ rfl rfl rfl
          (fun _ => rfl)
      · exact hst
  exact key _ hg _ hm

theorem references_child_le (c : Fin 8 → Node Nat) (i : Fin 8) (p : Nat)
    (hp : 1 ≤ (c i).references p) : 1 ≤ (Node.inner c).references p := by
  rw [Node.references_inner]
  exact le_trans hp
    (Finset.single_le_sum (f := fun i => (c i).references p) (fun _ _ => Nat.zero_le _)
      (Finset.mem_univ i))

theorem references_inner_pos (c : Fin 8 → Node Nat) (p : Nat)
    (hp : 1 ≤ (Node.inner c).references p) : ∃ i, 1 ≤ (c i).references p := by
  rw [Node.references_inner] at hp
  by_contra hne
  have hz : ∀ i ∈ (Finset.univ : Finset (Fin 8)), (c i).references p = 0 := by
    intro i _
    by_contra h0
    exact hne ⟨i, Nat.one_le_iff_ne_zero.2 h0⟩
  rw [Finset.sum_eq_zero hz] at hp
  exact absurd hp (by decide)

/-- A property of the state that `function` preserves on every leaf whose records refer
to vertices in `R` is preserved by the traversal of a subtree whose references are in
`R`. -/
theorem Node.forEachSurfaceLeaf_inv {σ : Type} (f : GridNode Nat → σ → σ) (P : σ → Prop)
    (R : Nat → Prop)
    (hf : ∀ g s, (∀ e, e ∈ g.m_SurfaceEdges → R e.sharedVertex) → P s → P (f g s))
    (n : Node Nat) :
    (∀ p, 1 ≤ n.references p → R p) → ∀ s, P s → P (n.forEachSurfaceLeaf f s) := by
  induction n with
  | inner c ih =>
    intro hR s hs
    rw [Node.forEachSurfaceLeaf]
    exact (threadChildren_inv
      (fun i s2 => ((), (c i).forEachSurfaceLeaf f s2)) P
      (fun i st hst => ih i (fun p hp => hR p (references_child_le c i p hp)) st hst) s hs).1
  | empty b =>
    intro _ s hs
    rw [Node.forEachSurfaceLeaf]
    exact hs
  | grid g =>
    intro hR s hs
    rw [Node.forEachSurfaceLeaf]
    exact hf g s (fun e he => hR _ (refsOf_pos_of_mem _ e he)) hs

theorem Node.countMemory_frame {V : Type} (sz : MemorySizes) (R : Nat → Prop)
    (h0 : VertexHeap V) (n : Node Nat) :
    (∀ p, 1 ≤ n.references p → R p) → ∀ st : VertexHeap V × Int,
      MarksOnly false R h0 st.1 → MarksOnly false R h0 (n.countMemory sz st).1 := by
  induction n with
  | inner c ih =>
    intro hR st hst
    rw [Node.countMemory]
    exact (threadChildren_inv
      (fun i s2 => ((), (c i).countMemory sz s2)) (fun s => MarksOnly false R h0 s.1)
      (fun i s hs => ih i (fun p hp => hR p (references_child_le c i p hp)) s hs)
      (st.1, st.2 + sz.innerNode) hst).1
  | empty b =>
    intro _ st hst
    rw [Node.countMemory]
    exact hst
  | grid g =>
    intro hR st hst
    rw [Node.countMemory]
    exact GridNode.countMemory_marksOnly sz R h0 g
      (fun e he => hR _ (refsOf_pos_of_mem _ e he)) st hst

/-- After `markSharedVertices(false)` the vertex of every record of the leaf is unmarked,
and no vertex that was unmarked is marked. -/
theorem GridNode.markSharedVertices_clears {V : Type} (g : GridNode Nat) (h : VertexHeap V) :
    (∀ e, e ∈ g.m_SurfaceEdges → ((g.markSharedVertices false h) e.sharedVertex).marked = false)
      ∧ ∀ p, (h p).marked = false → ((g.markSharedVertices false h) p).marked = false := by
  unfold GridNode.markSharedVertices
  have key : ∀ (l : List (SurfaceEdge Nat)) (h : VertexHeap V),
      (∀ e, e ∈ l → ((l.foldl
          (fun h i => h.set i.sharedVertex { h i.sharedVertex with marked := false }) h)
          e.sharedVertex).marked = false)
        ∧ ∀ p, (h p).marked = false → ((l.foldl
          (fun h i => h.set i.sharedVertex { h i.sharedVertex with marked := false }) h)
          p).marked = false := by
    intro l
    induction l with
    | nil =>
      intro h
      exact ⟨fun e he => absurd he (List.not_mem_nil _), fun _ hp => hp⟩
    | cons e t ih =>
      intro h
      rw [List.foldl_cons]
      obtain ⟨a, b⟩ := ih (h.set e.sharedVertex { h e.sharedVertex with marked := false })
      have hset : ∀ p, (h p).marked = false →
          ((h.set e.sharedVertex { h e.sharedVertex with marked := false }) p).marked
            = false := by
        intro p hp
        unfold VertexHeap.set
        split_ifs
        · rfl
        · exact hp
      refine ⟨?_, fun p hp => b p (hset p hp)⟩
      intro e2 he2
      rcases List.mem_cons.1 he2 with h1 | h1
      · rw [h1]
        apply b
        unfold VertexHeap.set
        rw [if_pos rfl]
      · exact a e2 h1
  exact key _ h

/-- The pass that clears the marks leaves every vertex the subtree refers to unmarked, and
no vertex that was unmarked is marked. -/
theorem Node.clearMarks {V : Type} (n : Node Nat) :
    ∀ h : VertexHeap V,
      n.Unmarked (n.forEachSurfaceLeaf (fun node h => node.markSharedVertices false h) h)
        ∧ ∀ p, (h p).marked = false →
          ((n.forEachSurfaceLeaf (fun node h => node.markSharedVertices false h) h) p).marked
            = false := by
  induction n with
  | inner c ih =>
    intro h
    rw [Node.forEachSurfaceLeaf]
    obtain ⟨_, hM, hQ⟩ := threadChildren_mono
      (fun i s2 => ((), (c i).forEachSurfaceLeaf
        (fun node (h : VertexHeap V) => node.markSharedVertices false h) s2))
      (fun _ => True)
      (fun a b => ∀ p, (a p).marked = false → (b p).marked = false)
      (fun i _ s => (c i).Unmarked s)
      (fun a b c hab hbc p hp => hbc p (hab p hp))
      (fun i _ s s2 hq hm p hp => hm p (hq p hp))
      (fun i st _ => ⟨trivial, (ih i st).2, (ih i st).1⟩) h trivial
    refine ⟨?_, hM⟩
    intro p hp
    obtain ⟨i, hi⟩ := references_inner_pos c p hp
    exact hQ i p hi
  | empty b =>
    intro h
    rw [Node.forEachSurfaceLeaf]
    exact ⟨fun p hp => absurd hp (by rw [Node.references_empty]; decide), fun _ hp => hp⟩
  | grid g =>
    intro h
    rw [Node.forEachSurfaceLeaf]
    obtain ⟨a, b⟩ := g.markSharedVertices_clears h
    refine ⟨?_, b⟩
    intro p hp
    rw [Node.references_grid] at hp
    unfold refsOf at hp
    obtain ⟨e, he, hep⟩ := List.countP_pos_iff.1 hp
    rw [decide_eq_true_eq] at hep
    rw [← hep]
    exact a e he
theorem Tree.generateVerticesAndIndices_heap {F V : Type} [FloatOps F] (tlt : TLT)
    (t : Tree F Nat) (heap : VertexHeap V) (vertices : List V) (indices : List Nat) :
    (t.generateVerticesAndIndices tlt heap vertices indices).1.1
      = t.m_RootNode.forEachSurfaceLeaf (fun node h => node.markSharedVertices false h)
          (t.m_RootNode.forEachSurfaceLeaf (fun node st => node.generateVertices st)
            (heap, vertices)).1 := rfl

theorem Tree.countMemory_heap {F V : Type} (sz : MemorySizes) (t : Tree F Nat)
    (heap : VertexHeap V) :
    (t.countMemory sz heap).1
      = t.m_RootNode.forEachSurfaceLeaf (fun node h => node.markSharedVertices false h)
          (t.m_RootNode.countMemory sz (heap, 0)).1 := rfl

theorem SharedSurfaceVertex.eq_of_fields {V : Type} (a b : SharedSurfaceVertex V)
    (h1 : a.vertex = b.vertex) (h2 : a.vertexIndex = b.vertexIndex)
    (h3 : a.refCount = b.refCount) (h4 : a.marked = b.marked) (h5 : a.shared = b.shared) :
    a = b := by
  cases a
  cases b
  simp only at h1 h2 h3 h4 h5
  rw [h1, h2, h3, h4, h5]

/-- The store after `generateVerticesAndIndices` differs from the store before at most in
marks and vertex indices of vertices the tree refers to, and these are unmarked. -/
theorem Tree.generateVerticesAndIndices_marks {F V : Type} [FloatOps F] (tlt : TLT)
    (t : Tree F Nat) (heap : VertexHeap V) (vertices : List V) (indices : List Nat) :
    t.m_RootNode.Unmarked (t.generateVerticesAndIndices tlt heap vertices indices).1.1
      ∧ MarksOnly true (fun p => 1 ≤ t.m_RootNode.references p) heap
          (t.generateVerticesAndIndices tlt heap vertices indices).1.1 := by
  rw [Tree.generateVerticesAndIndices_heap]
  have m1 : MarksOnly true (fun p => 1 ≤ t.m_RootNode.references p) heap
      (t.m_RootNode.forEachSurfaceLeaf (fun node st => node.generateVertices st)
        (heap, vertices)).1 :=
    Node.forEachSurfaceLeaf_inv (fun node (st : VertexHeap V × List V) => node.generateVertices st)
      (fun s => MarksOnly true (fun p => 1 ≤ t.m_RootNode.references p) heap s.1)
      (fun p => 1 ≤ t.m_RootNode.references p)
      (fun g s hg hs => GridNode.generateVertices_marksOnly _ heap g hg s hs)
      t.m_RootNode (fun _ hp => hp) (heap, vertices) (MarksOnly.same _ _ heap)
  refine ⟨(Node.clearMarks t.m_RootNode _).1, ?_⟩
  exact Node.forEachSurfaceLeaf_inv
    (fun node (h : VertexHeap V) => node.markSharedVertices false h)
    (fun s => MarksOnly true (fun p => 1 ≤ t.m_RootNode.references p) heap s)
    (fun p => 1 ≤ t.m_RootNode.references p)
    (fun g s hg hs => GridNode.markSharedVertices_marksOnly true _ heap false g hg s hs)
    t.m_RootNode (fun _ hp => hp) _ m1

/-- The store after `countMemory` differs from the store before at most in the marks of
vertices the tree refers to, and these are unmarked. -/
theorem Tree.countMemory_marks {F V : Type} (sz : MemorySizes) (t : Tree F Nat)
    (heap : VertexHeap V) :
    t.m_RootNode.Unmarked (t.countMemory sz heap).1
      ∧ MarksOnly false (fun p => 1 ≤ t.m_RootNode.references p) heap
          (t.countMemory sz heap).1 := by
  rw [Tree.countMemory_heap]
  have m1 : MarksOnly false (fun p => 1 ≤ t.m_RootNode.references p) heap
      (t.m_RootNode.countMemory sz (heap, 0)).1 :=
    Node.countMemory_frame sz _ heap t.m_RootNode (fun _ hp => hp) (heap, 0)
      (MarksOnly.same _ _ heap)
  refine ⟨(Node.clearMarks t.m_RootNode _).1, ?_⟩
  exact Node.forEachSurfaceLeaf_inv
    (fun node (h : VertexHeap V) => node.markSharedVertices false h)
    (fun s => MarksOnly false (fun p => 1 ≤ t.m_RootNode.references p) heap s)
    (fun p => 1 ≤ t.m_RootNode.references p)
    (fun g s hg hs => GridNode.markSharedVertices_marksOnly false _ heap false g hg s hs)
    t.m_RootNode (fun _ hp => hp) _ m1

theorem exampleTwoLeafTree_unmarked : exampleTwoLeafTree.m_RootNode.Unmarked exampleHeap :=
  fun _ _ => rfl

/-! ## Shared vertices across CSG rewrites -/

theorem VertexStore.SharedKept.unmoved {F : Type} (s : VertexStore F) : s.SharedKept s :=
  ⟨le_refl _, fun _ _ => rfl⟩

theorem VertexStore.SharedKept.chain {F : Type} {s1 s2 s3 : VertexStore F}
    (h1 : s1.SharedKept s2) (h2 : s2.SharedKept s3) : s1.SharedKept s3 :=
  ⟨le_trans h1.1 h2.1, fun q hq =>
    (h2.2 q (lt_of_lt_of_le hq h1.1)).trans (h1.2 q hq)⟩

theorem Registry.Sound.kept {F : Type} {r : Registry} {s s2 : VertexStore F}
    (h : r.Sound s) (hk : s.SharedKept s2) : r.Sound s2 := by
  intro d pos q hq
  obtain ⟨h1, h2⟩ := h d pos q hq
  exact ⟨lt_of_lt_of_le h1 hk.1, (hk.2 q h1).trans h2⟩

theorem Registry.select_sound {F : Type} (σ : Vector3i → Bool) {ρ r : Registry}
    {s : VertexStore F} (h1 : ρ.Sound s) (h2 : r.Sound s) : (Registry.select σ ρ r).Sound s := by
  intro d pos q hq
  unfold Registry.select at hq
  by_cases hc : signCrossing σ d pos = true
  · rw [if_pos hc] at hq
    exact h1 d pos q hq
  · rw [if_neg hc] at hq
    exact h2 d pos q hq

theorem Registry.select_le (σ : Vector3i → Bool) (ρ : Registry) {r r2 : Registry}
    (h : r.Le r2) : (Registry.select σ ρ r).Le (Registry.select σ ρ r2) := by
  intro d pos q hq
  unfold Registry.select at hq ⊢
  by_cases hc : signCrossing σ d pos = true
  · rw [if_pos hc] at hq ⊢
    exact hq
  · rw [if_neg hc] at hq ⊢
    exact h d pos q hq

/-- Executing one `init` call changes no `shared` flag of an existing object. -/
theorem runInit_sharedKept {F : Type} (e : SurfaceEdge (VertexRef F))
    (st : VertexStore F × Registry) : st.1.SharedKept (runInit e st).2.1 := by
  unfold runInit
  cases e.sharedVertex with
  | existing q => exact VertexStore.SharedKept.unmoved _
  | newPrivate v =>
    refine ⟨Nat.le_succ _, ?_⟩
    intro q hq
    simp only [initPrivateVertex, VertexStore.alloc, VertexHeap.set_apply]
    have hne : ¬ q = st.1.next := by omega
    rw [if_neg hne]
  | newShared d pos v =>
    simp only [initSharedVertex]
    cases st.2 d pos with
    | some p =>
      refine ⟨le_refl _, ?_⟩
      intro q _
      simp only [VertexStore.modify, VertexHeap.set_apply]
      by_cases hq : q = p
      · rw [if_pos hq, hq]
      · rw [if_neg hq]
    | none =>
      refine ⟨Nat.le_succ _, ?_⟩
      intro q hq
      simp only [VertexStore.alloc, VertexHeap.set_apply]
      have hne : ¬ q = st.1.next := by omega
      rw [if_neg hne]

theorem runInits_fold_sharedKept {F : Type} (edges : List (SurfaceEdge (VertexRef F))) :
    ∀ (acc : List (SurfaceEdge Nat) × (VertexStore F × Registry)),
      acc.2.1.SharedKept (edges.foldl
        (fun acc e => (acc.1 ++ [(runInit e acc.2).1], (runInit e acc.2).2)) acc).2.1 := by
  induction edges with
  | nil => exact fun acc => VertexStore.SharedKept.unmoved _
  | cons e t ih =>
    intro acc
    rw [List.foldl_cons]
    exact (runInit_sharedKept e acc.2).chain
      (ih (acc.1 ++ [(runInit e acc.2).1], (runInit e acc.2).2))

theorem deleteSharedVertex_sharedKept {F : Type} (p : Nat) (s : VertexStore F) :
    s.SharedKept (deleteSharedVertex p s) := by
  refine ⟨le_refl _, ?_⟩
  intro q _
  simp only [deleteSharedVertex, VertexHeap.set_apply]
  by_cases hq : q = p
  · rw [if_pos hq, hq]
  · rw [if_neg hq]

theorem keepOrRelease_sharedKept {F : Type} [FloatOps F] (farther : Bool)
    (normalise : Vector3 F → Vector3 F) (R : Area F) (c : F) (area : Area F)
    (sdf : SolidGeometry F) (signs other : SignArray) (i : SurfaceEdge Nat)
    (s : VertexStore F) :
    s.SharedKept (keepOrRelease farther normalise R c area sdf signs other i s) := by
  unfold keepOrRelease
  by_cases h1 : (signs.get i.edgeIndex1 != signs.get i.edgeIndex2) = true
  · rw [if_pos h1]
    by_cases h2 : (other.get i.edgeIndex1 != other.get i.edgeIndex2) = true
    · rw [if_pos h2]
      refine ⟨le_refl _, ?_⟩
      intro q _
      simp only [VertexStore.modify, VertexHeap.set_apply]
      by_cases hq : q = i.sharedVertex
      · rw [if_pos hq, hq]
      · rw [if_neg hq]
    · rw [if_neg h2]
      exact VertexStore.SharedKept.unmoved _
  · rw [if_neg h1]
    exact deleteSharedVertex_sharedKept _ _

theorem keepOrRelease_fold_sharedKept {F : Type} [FloatOps F] (farther : Bool)
    (normalise : Vector3 F → Vector3 F) (R : Area F) (c : F) (area : Area F)
    (sdf : SolidGeometry F) (signs other : SignArray) (edges : List (SurfaceEdge Nat)) :
    ∀ s : VertexStore F,
      s.SharedKept
        (edges.foldl (fun s i => keepOrRelease farther normalise R c area sdf signs other i s)
          s) := by
  induction edges with
  | nil => exact fun s => VertexStore.SharedKept.unmoved _
  | cons e t ih =>
    intro s
    rw [List.foldl_cons]
    exact (keepOrRelease_sharedKept farther normalise R c area sdf signs other e s).chain
      (ih _)

theorem deleteShared_fold_sharedKept {F : Type} (edges : List (SurfaceEdge Nat)) :
    ∀ s : VertexStore F,
      s.SharedKept (edges.foldl (fun s2 i => deleteSharedVertex i.sharedVertex s2) s) := by
  induction edges with
  | nil => exact fun s => VertexStore.SharedKept.unmoved _
  | cons e t ih =>
    intro s
    rw [List.foldl_cons]
    exact (deleteSharedVertex_sharedKept _ s).chain (ih _)

theorem Node.deleteS_sharedKept {F : Type} (n : Node Nat) :
    ∀ s : VertexStore F, s.SharedKept (n.deleteS s) := by
  induction n with
  | inner c ih =>
    intro s
    unfold Node.deleteS
    rw [threadChildren_snd]
    exact (ih 0 _).chain ((ih 1 _).chain ((ih 2 _).chain ((ih 3 _).chain ((ih 4 _).chain
      ((ih 5 _).chain ((ih 6 _).chain (ih 7 _)))))))
  | empty b => exact fun s => VertexStore.SharedKept.unmoved _
  | grid g =>
    intro s
    exact deleteShared_fold_sharedKept g.m_SurfaceEdges s

theorem VertexStore.addRefs_sharedKept {F : Type} (s : VertexStore F) (k : Nat → Nat) :
    s.SharedKept (s.addRefs k) :=
  ⟨le_refl _, fun _ _ => rfl⟩

/-- Executing an `init` call leaves direction and endpoint indices of the record as they
are, and an existing pointer too. -/
theorem runInit_fields {F : Type} (e : SurfaceEdge (VertexRef F))
    (st : VertexStore F × Registry) :
    (runInit e st).1.direction = e.direction ∧ (runInit e st).1.edgeIndex1 = e.edgeIndex1
      ∧ (runInit e st).1.edgeIndex2 = e.edgeIndex2
      ∧ ∀ p, e.sharedVertex = VertexRef.existing p →
          (runInit e st).1.sharedVertex = p ∧ (runInit e st).2 = st := by
  unfold runInit
  cases e.sharedVertex with
  | existing q =>
    refine ⟨rfl, rfl, rfl, ?_⟩
    intro p hp
    injection hp with hp
    exact ⟨hp, rfl⟩
  | newPrivate v =>
    refine ⟨rfl, rfl, rfl, ?_⟩
    intro p hp
    cases hp
  | newShared d pos v =>
    refine ⟨rfl, rfl, rfl, ?_⟩
    intro p hp
    cases hp

/-- Every record the `init` calls return has the direction and the endpoint indices of one
of the descriptions. -/
theorem runInits_fold_mem {F : Type} (edges : List (SurfaceEdge (VertexRef F))) :
    ∀ (acc : List (SurfaceEdge Nat) × (VertexStore F × Registry)) (o : SurfaceEdge Nat),
      o ∈ (edges.foldl
        (fun acc e => (acc.1 ++ [(runInit e acc.2).1], (runInit e acc.2).2)) acc).1 →
      o ∈ acc.1 ∨ ∃ e, e ∈ edges ∧ o.direction = e.direction ∧ o.edgeIndex1 = e.edgeIndex1
        ∧ o.edgeIndex2 = e.edgeIndex2 := by
  induction edges with
  | nil => exact fun acc o h => Or.inl h
  | cons e t ih =>
    intro acc o h
    rw [List.foldl_cons] at h
    rcases ih _ o h with h1 | ⟨e2, he2, h2⟩
    · rw [List.mem_append, List.mem_singleton] at h1
      rcases h1 with h1 | h1
      · exact Or.inl h1
      · obtain ⟨f1, f2, f3, _⟩ := runInit_fields e acc.2
        refine Or.inr ⟨e, List.mem_cons_self _ _, ?_, ?_, ?_⟩
        · rw [h1, f1]
        · rw [h1, f2]
        · rw [h1, f3]
    · exact Or.inr ⟨e2, List.mem_cons_of_mem _ he2, h2⟩

/-- The leaf whose records are what the `init` calls of a sign-coherent list of
descriptions return is sign coherent. -/
theorem signCoherent_runInits {F : Type} (g2 : GridNode (VertexRef F)) (h : SignCoherent g2)
    (st : VertexStore F × Registry) :
    SignCoherent
      ({ m_Signs := g2.m_Signs, m_SurfaceEdges := (runInits g2.m_SurfaceEdges st).1 } :
        GridNode Nat) := by
  refine ⟨?_, ?_, ?_⟩
  · intro o ho
    rcases runInits_fold_mem g2.m_SurfaceEdges ([], st) o ho with h1 | ⟨e, he, f1, f2, f3⟩
    · exact absurd h1 (List.not_mem_nil o)
    · rw [f1, f2, f3]
      exact h.wellFormed e he
  · intro o ho
    rcases runInits_fold_mem g2.m_SurfaceEdges ([], st) o ho with h1 | ⟨e, he, f1, f2, f3⟩
    · exact absurd h1 (List.not_mem_nil o)
    · show g2.m_Signs.get o.edgeIndex1 ≠ g2.m_Signs.get o.edgeIndex2
      rw [f2, f3]
      exact h.differ e he
  · intro d i hl
    show edgeCount (runInits g2.m_SurfaceEdges st).1 d i = _
    unfold runInits
    rw [runInits_fold_edgeCount, edgeCount_nil, Nat.zero_add]
    exact h.count d i hl

theorem edgeCount_withExisting {F : Type} (l : List (SurfaceEdge Nat)) (d i : Nat) :
    edgeCount (withExisting l : List (SurfaceEdge (VertexRef F))) d i = edgeCount l d i := by
  unfold edgeCount withExisting
  rw [List.countP_map]
  rfl

theorem mem_withExisting {F : Type} (l : List (SurfaceEdge Nat))
    (e : SurfaceEdge (VertexRef F)) (he : e ∈ (withExisting l : List (SurfaceEdge (VertexRef F)))) :
    ∃ o, o ∈ l ∧ e.sharedVertex = VertexRef.existing o.sharedVertex
      ∧ e.direction = o.direction ∧ e.edgeIndex1 = o.edgeIndex1
      ∧ e.edgeIndex2 = o.edgeIndex2 := by
  unfold withExisting at he
  rw [List.mem_map] at he
  obtain ⟨o, ho, hoe⟩ := he
  refine ⟨o, ho, ?_⟩
  rw [← hoe]
  exact ⟨rfl, rfl, rfl, rfl⟩

/-- Executing the `init` calls of descriptions that fit `ρ` and `σ` keeps the registry
sound, only adds entries to it, and every record returned refers to the pointer that the
selection of `ρ` and the registry holds for its edge. -/
theorem runInits_fold_select {F : Type} (edges : List (SurfaceEdge (VertexRef F)))
    (minPos : Vector3i) (ρ : Registry) (σ : Vector3i → Bool)
    (hc : ∀ e, e ∈ edges → DescriptorFits ρ σ minPos e) :
    ∀ (acc : List (SurfaceEdge Nat) × (VertexStore F × Registry)),
      acc.2.2.Sound acc.2.1 →
      (∀ o, o ∈ acc.1 → Registered (Registry.select σ ρ acc.2.2) minPos o) →
      (edges.foldl
          (fun acc e => (acc.1 ++ [(runInit e acc.2).1], (runInit e acc.2).2)) acc).2.2.Sound
        (edges.foldl
          (fun acc e => (acc.1 ++ [(runInit e acc.2).1], (runInit e acc.2).2)) acc).2.1
      ∧ acc.2.2.Le (edges.foldl
          (fun acc e => (acc.1 ++ [(runInit e acc.2).1], (runInit e acc.2).2)) acc).2.2
      ∧ ∀ o, o ∈ (edges.foldl
          (fun acc e => (acc.1 ++ [(runInit e acc.2).1], (runInit e acc.2).2)) acc).1 →
        Registered (Registry.select σ ρ (edges.foldl
          (fun acc e => (acc.1 ++ [(runInit e acc.2).1], (runInit e acc.2).2)) acc).2.2)
          minPos o := by
  induction edges with
  | nil =>
    intro acc hs ho
    exact ⟨hs, Registry.Le.refl _, ho⟩
  | cons e t ih =>
    intro acc hs ho
    rw [List.foldl_cons]
    have step : (runInit e acc.2).2.2.Sound (runInit e acc.2).2.1
        ∧ acc.2.2.Le (runInit e acc.2).2.2
        ∧ Registered (Registry.select σ ρ (runInit e acc.2).2.2) minPos (runInit e acc.2).1 := by
      obtain ⟨f1, f2, _, f4⟩ := runInit_fields e acc.2
      rcases hc e (List.mem_cons_self _ _) with ⟨p, hp, hreg⟩ | ⟨hcall, hnc⟩
      · obtain ⟨g1, g2⟩ := f4 p hp
        rw [g2]
        refine ⟨hs, Registry.Le.refl _, ?_⟩
        intro hi
        rw [f1, f2] at hi ⊢
        obtain ⟨k1, k2⟩ := hreg hi
        unfold Registry.select
        rw [if_pos k2, k1, g1]
      · obtain ⟨k1, k2, k3⟩ := runInit_registry e acc.2 minPos hs hcall
        refine ⟨k1, k2, ?_⟩
        intro hi
        have k4 := k3 hi
        rw [f1, f2] at k4 ⊢
        unfold Registry.select
        rw [hnc]
        exact k4
    obtain ⟨h1, h2, h3⟩ := step
    obtain ⟨h4, h5, h6⟩ := ih (fun e2 he2 => hc e2 (List.mem_cons_of_mem _ he2))
      (acc.1 ++ [(runInit e acc.2).1], (runInit e acc.2).2) h1
      (by
        intro o hm
        rw [List.mem_append, List.mem_singleton] at hm
        rcases hm with hm | hm
        · exact (ho o hm).mono (Registry.select_le σ ρ h2)
        · rw [hm]
          exact h3)
    exact ⟨h4, h2.trans h5, h6⟩

theorem Vector3i.add_assoc3 (a b c : Vector3i) : a + (b + c) = a + b + c := by
  rw [Vector3i.ext_iff3]
  simp only [Vector3i.add_x, Vector3i.add_y, Vector3i.add_z]
  refine ⟨?_, ?_, ?_⟩ <;> omega

/-- The upper endpoint of a lattice edge is one unit step from the lower endpoint. -/
theorem fromIndex_stride (d i : Nat) (h : IsLatticeEdge d i) :
    fromIndex (i + stride d) = fromIndex i + unitVec d := by
  obtain ⟨hd, hi, hc⟩ := h
  simp only [LEAF_SIZE_3D_eq] at hi
  have hinner : LEAF_SIZE_1D_INNER = 8 := rfl
  simp only [coordOf, LEAF_SIZE_1D_eq, LEAF_SIZE_2D_eq, hinner] at hc
  rw [Vector3i.ext_iff3]
  simp only [Vector3i.add_x, Vector3i.add_y, Vector3i.add_z, fromIndex, unitVec, stride,
    LEAF_SIZE_1D_eq, LEAF_SIZE_2D_eq]
  by_cases h0 : d = 0
  · simp only [h0, if_true] at hc ⊢
    refine ⟨?_, ?_, ?_⟩ <;> omega
  · by_cases h1 : d = 1
    · simp only [h1, if_true, one_ne_zero, if_false] at hc ⊢
      refine ⟨?_, ?_, ?_⟩ <;> omega
    · have h2 : d = 2 := by omega
      have e0 : ¬ (2 : Nat) = 0 := by decide
      have e1 : ¬ (2 : Nat) = 1 := by decide
      simp only [h2, e0, e1, if_false] at hc ⊢
      have q1 : (i + 1) / 9 = i / 9 := by omega
      have hx : (i + 1) / 81 = i / 81 := by
        rw [show 81 = 9 * 9 from rfl, ← Nat.div_div_eq_div_mul, ← Nat.div_div_eq_div_mul, q1]
      have q2 : (i + 1) % 9 = i % 9 + 1 := by omega
      rw [hx, q1, q2]
      refine ⟨?_, ?_, ?_⟩
      · omega
      · omega
      · push_cast
        rfl

/-- Where the sign lattice of a leaf holds the values of `σ`, a lattice edge of the leaf
crosses exactly when `σ` changes sign along it. -/
theorem crossing_eq_signCrossing (signs : SignArray) (σ : Vector3i → Bool) (minPos : Vector3i)
    (hσ : ∀ j, j < LEAF_SIZE_3D → signs.get j = σ (minPos + fromIndex j)) (d i : Nat)
    (h : IsLatticeEdge d i) :
    crossing signs d i = signCrossing σ d (minPos + fromIndex i) := by
  unfold crossing signCrossing
  rw [hσ i h.2.1, hσ (i + stride d) (latticeEdge_upper_lt d i h), fromIndex_stride d i h,
    Vector3i.add_assoc3]

/-- The rebuild of the edge list of a leaf (loop over the old records, then the `init`
calls of the resulting list), when the old records refer to the pointers of `ρ` and sit
exactly on the edges at which `σ` changes sign: the registry stays sound and only grows,
no `shared` flag changes, the new leaf is sign coherent, and every record refers to the
pointer that the selection of `ρ` and the registry holds for its edge. -/
theorem rebuildS_shared {F : Type} [FloatOps F]
    (newVertex : Vector3 F → Nat → F → SolidGeometry F → Vertex F) (farther : Bool)
    (normalise : Vector3 F → Vector3 F) (R : Area F) (c : F) (area : Area F)
    (sdf : SolidGeometry F) (signs other : SignArray) (old : List (SurfaceEdge Nat))
    (st : VertexStore F × Registry) (ρ : Registry) (σ : Vector3i → Bool)
    (hwf : ∀ e, e ∈ old →
      IsLatticeEdge e.direction e.edgeIndex1 ∧ e.edgeIndex2 = e.edgeIndex1 + stride e.direction)
    (huniq : ∀ d i, IsLatticeEdge d i → edgeCount old d i ≤ 1)
    (hold : ∀ e, e ∈ old → Registered ρ area.m_MinPos e
      ∧ signCrossing σ e.direction (area.m_MinPos + fromIndex e.edgeIndex1) = true)
    (hnew : ∀ d i, IsLatticeEdge d i → edgeCount old d i = 0 →
      signCrossing σ d (area.m_MinPos + fromIndex i) = false)
    (hs : st.2.Sound st.1) :
    (runInits
        (computeEdgesIgnoring (initCalls newVertex) R c area sdf
          (keepCrossingEdges signs (withExisting old : List (SurfaceEdge (VertexRef F)))).2
          { m_Signs := signs
            m_SurfaceEdges :=
              (keepCrossingEdges signs
                (withExisting old : List (SurfaceEdge (VertexRef F)))).1 }).m_SurfaceEdges
        (old.foldl (fun s i => keepOrRelease farther normalise R c area sdf signs other i s) st.1,
          st.2)).2.2.Sound
      (runInits
        (computeEdgesIgnoring (initCalls newVertex) R c area sdf
          (keepCrossingEdges signs (withExisting old : List (SurfaceEdge (VertexRef F)))).2
          { m_Signs := signs
            m_SurfaceEdges :=
              (keepCrossingEdges signs
                (withExisting old : List (SurfaceEdge (VertexRef F)))).1 }).m_SurfaceEdges
        (old.foldl (fun s i => keepOrRelease farther normalise R c area sdf signs other i s) st.1,
          st.2)).2.1
    ∧ st.2.Le (runInits
        (computeEdgesIgnoring (initCalls newVertex) R c area sdf
          (keepCrossingEdges signs (withExisting old : List (SurfaceEdge (VertexRef F)))).2
          { m_Signs := signs
            m_SurfaceEdges :=
              (keepCrossingEdges signs
                (withExisting old : List (SurfaceEdge (VertexRef F)))).1 }).m_SurfaceEdges
        (old.foldl (fun s i => keepOrRelease farther normalise R c area sdf signs other i s) st.1,
          st.2)).2.2
    ∧ st.1.SharedKept (runInits
        (computeEdgesIgnoring (initCalls newVertex) R c area sdf
          (keepCrossingEdges signs (withExisting old : List (SurfaceEdge (VertexRef F)))).2
          { m_Signs := signs
            m_SurfaceEdges :=
              (keepCrossingEdges signs
                (withExisting old : List (SurfaceEdge (VertexRef F)))).1 }).m_SurfaceEdges
        (old.foldl (fun s i => keepOrRelease farther normalise R c area sdf signs other i s) st.1,
          st.2)).2.1
    ∧ SignCoherent
        ({ m_Signs := signs
           m_SurfaceEdges := (runInits
            (computeEdgesIgnoring (initCalls newVertex) R c area sdf
              (keepCrossingEdges signs (withExisting old : List (SurfaceEdge (VertexRef F)))).2
              { m_Signs := signs
                m_SurfaceEdges :=
                  (keepCrossingEdges signs
                    (withExisting old : List (SurfaceEdge (VertexRef F)))).1 }).m_SurfaceEdges
            (old.foldl
              (fun s i => keepOrRelease farther normalise R c area sdf signs other i s) st.1,
              st.2)).1 } : GridNode Nat)
    ∧ ∀ o, o ∈ (runInits
        (computeEdgesIgnoring (initCalls newVertex) R c area sdf
          (keepCrossingEdges signs (withExisting old : List (SurfaceEdge (VertexRef F)))).2
          { m_Signs := signs
            m_SurfaceEdges :=
              (keepCrossingEdges signs
                (withExisting old : List (SurfaceEdge (VertexRef F)))).1 }).m_SurfaceEdges
        (old.foldl (fun s i => keepOrRelease farther normalise R c area sdf signs other i s) st.1,
          st.2)).1 →
      Registered (Registry.select σ ρ (runInits
        (computeEdgesIgnoring (initCalls newVertex) R c area sdf
          (keepCrossingEdges signs (withExisting old : List (SurfaceEdge (VertexRef F)))).2
          { m_Signs := signs
            m_SurfaceEdges :=
              (keepCrossingEdges signs
                (withExisting old : List (SurfaceEdge (VertexRef F)))).1 }).m_SurfaceEdges
        (old.foldl (fun s i => keepOrRelease farther normalise R c area sdf signs other i s) st.1,
          st.2)).2.2) area.m_MinPos o := by
  have hwf2 : ∀ e, e ∈ (withExisting old : List (SurfaceEdge (VertexRef F))) →
      IsLatticeEdge e.direction e.edgeIndex1
        ∧ e.edgeIndex2 = e.edgeIndex1 + stride e.direction := by
    intro e he
    obtain ⟨o, ho, _, hd, hi1, hi2⟩ := mem_withExisting old e he
    rw [hd, hi1, hi2]
    exact hwf o ho
  have huniq2 : ∀ d i, IsLatticeEdge d i →
      edgeCount (withExisting old : List (SurfaceEdge (VertexRef F))) d i ≤ 1 := by
    intro d i hl
    rw [edgeCount_withExisting]
    exact huniq d i hl
  have hcoh := rebuild_coherent (initCalls newVertex) R c area sdf signs
    (withExisting old : List (SurfaceEdge (VertexRef F))) hwf2 huniq2
  have hco2 := signCoherent_runInits _ hcoh
    (old.foldl (fun s i => keepOrRelease farther normalise R c area sdf signs other i s) st.1,
      st.2)
  rw [computeEdgesIgnoring_signs] at hco2
  unfold runInits at hco2 ⊢
  have hkept := keepOrRelease_fold_sharedKept farther normalise R c area sdf signs other old st.1
  have hfits : ∀ e, e ∈ (computeEdgesIgnoring (initCalls newVertex) R c area sdf
      (keepCrossingEdges signs (withExisting old : List (SurfaceEdge (VertexRef F)))).2
      { m_Signs := signs
        m_SurfaceEdges :=
          (keepCrossingEdges signs
            (withExisting old : List (SurfaceEdge (VertexRef F)))).1 }).m_SurfaceEdges →
      DescriptorFits ρ σ area.m_MinPos e := by
    intro e he
    rw [rebuild_edges, List.mem_append] at he
    rcases he with he | he
    · rw [withExisting_filter] at he
      obtain ⟨o, ho, hsv, hd, hi1, _⟩ := mem_withExisting _ e he
      have ho2 := List.mem_of_mem_filter ho
      refine Or.inl ⟨o.sharedVertex, hsv, ?_⟩
      intro hi
      rw [hd, hi1] at hi ⊢
      exact ⟨(hold o ho2).1 hi, (hold o ho2).2⟩
    · rcases mem_forLoop_newEdges _ _ _ _ _ _ _ _ _ e he with h | ⟨j, hj, h⟩
      · exact absurd h (List.not_mem_nil e)
      · obtain ⟨k, hk⟩ := mem_newEdgesAt_emplaced _ _ _ _ _ _ _ j e h
        obtain ⟨m1, m2, _, m4⟩ := mem_newEdgesAt _ _ _ _ _ _ _ j e h
        refine Or.inr ⟨?_, ?_⟩
        · rw [hk]
          exact sharedCall_emplaced newVertex R c area sdf j k
        · rw [m2]
          simp only [edgeTest, Bool.and_eq_true, Bool.not_eq_true', decide_eq_true_eq] at m4
          obtain ⟨⟨n1, n2⟩, n3⟩ := m4
          have hl : IsLatticeEdge e.direction j := ⟨m1, hj, n2⟩
          apply hnew e.direction j hl
          by_contra hne
          have hpos : 0 < edgeCount
              ((withExisting old : List (SurfaceEdge (VertexRef F))).filter (stillCrosses signs))
              e.direction j := by
            rw [edgeCount_filter_stillCrosses signs _ (fun e2 he2 => (hwf2 e2 he2).2), if_pos n3,
              edgeCount_withExisting]
            omega
          have hm := (keepCrossingEdges_mask signs
            (withExisting old : List (SurfaceEdge (VertexRef F))) e.direction j).mpr
            ⟨m1, hj, hpos⟩
          rw [n1] at hm
          exact Bool.noConfusion hm
  obtain ⟨r1, r2, r3⟩ := runInits_fold_select _ area.m_MinPos ρ σ hfits
    ([], (old.foldl (fun s i => keepOrRelease farther normalise R c area sdf signs other i s)
      st.1, st.2))
    (hs.kept hkept) (fun o ho => absurd ho (List.not_mem_nil o))
  have r4 := runInits_fold_sharedKept
    (computeEdgesIgnoring (initCalls newVertex) R c area sdf
      (keepCrossingEdges signs (withExisting old : List (SurfaceEdge (VertexRef F)))).2
      { m_Signs := signs
        m_SurfaceEdges :=
          (keepCrossingEdges signs
            (withExisting old : List (SurfaceEdge (VertexRef F)))).1 }).m_SurfaceEdges
    ([], (old.foldl (fun s i => keepOrRelease farther normalise R c area sdf signs other i s)
      st.1, st.2))
  refine ⟨r1, r2, hkept.chain r4, ?_, r3⟩
  exact hco2

theorem containsLattice_fromIndex {F : Type} [FloatOps F] (a : Area F)
    (h : a.m_SizeExpo = LEAF_EXPO) (j : Nat) (hj : j < LEAF_SIZE_3D) :
    a.containsLattice (a.m_MinPos + fromIndex j) := by
  unfold Area.containsLattice
  rw [h, shl1_leaf]
  simp only [LEAF_SIZE_3D_eq] at hj
  simp only [Vector3i.add_x, Vector3i.add_y, Vector3i.add_z, fromIndex, LEAF_SIZE_1D_eq,
    LEAF_SIZE_2D_eq]
  refine ⟨⟨?_, ?_⟩, ⟨?_, ?_⟩, ⟨?_, ?_⟩⟩ <;> omega

/-- The entries of the sign lattice of a leaf whose stored signs are the values of `σ`. -/
theorem grid_signs_functional {F : Type} [FloatOps F] (g : GridNode Nat) (a : Area F)
    (σ : Vector3i → Bool)
    (h : ∀ p b, (Node.grid g : Node Nat).storesSign a p b → b = σ p) (j : Nat)
    (hj : j < LEAF_SIZE_3D) : g.m_Signs.get j = σ (a.m_MinPos + fromIndex j) := by
  simp only [LEAF_SIZE_3D_eq] at hj
  have hx : j / 81 < 9 := by omega
  have hy : j / 9 % 9 < 9 := by omega
  have hz : j % 9 < 9 := by omega
  have hlin : j / 81 * 81 + j / 9 % 9 * 9 + j % 9 = j := by omega
  apply h (a.m_MinPos + fromIndex j) (g.m_Signs.get j)
  refine ⟨j / 81, j / 9 % 9, j % 9, ?_, ?_, ?_, ?_, ?_⟩
  · rw [LEAF_SIZE_1D_eq]
    exact hx
  · rw [LEAF_SIZE_1D_eq]
    exact hy
  · rw [LEAF_SIZE_1D_eq]
    exact hz
  · simp only [fromIndex, LEAF_SIZE_1D_eq, LEAF_SIZE_2D_eq]
  · rw [LEAF_SIZE_1D_eq, LEAF_SIZE_2D_eq, hlin]

/-- The records of a sign-coherent leaf whose signs are the values of `σ` sit exactly on
the lattice edges at which `σ` changes sign. -/
theorem records_on_crossings {F : Type} [FloatOps F] (g : GridNode Nat) (a : Area F)
    (σ : Vector3i → Bool) (hc : SignCoherent g)
    (hσ : ∀ j, j < LEAF_SIZE_3D → g.m_Signs.get j = σ (a.m_MinPos + fromIndex j)) :
    (∀ e, e ∈ g.m_SurfaceEdges →
      signCrossing σ e.direction (a.m_MinPos + fromIndex e.edgeIndex1) = true)
    ∧ (∀ d i, IsLatticeEdge d i → edgeCount g.m_SurfaceEdges d i = 0 →
      signCrossing σ d (a.m_MinPos + fromIndex i) = false) := by
  constructor
  · intro e he
    obtain ⟨hl, h2⟩ := hc.wellFormed e he
    rw [← crossing_eq_signCrossing g.m_Signs σ a.m_MinPos hσ e.direction e.edgeIndex1 hl]
    have hd := hc.differ e he
    rw [h2] at hd
    unfold crossing
    cases h3 : g.m_Signs.get e.edgeIndex1 <;>
      cases h4 : g.m_Signs.get (e.edgeIndex1 + stride e.direction) <;>
      simp_all
  · intro d i hl h0
    rw [← crossing_eq_signCrossing g.m_Signs σ a.m_MinPos hσ d i hl]
    exact (hc.count_eq_zero_iff d i hl).mp h0

/-- The constructor of a Grid leaf over an area on which `σ` is constant: registry and
store as for the rebuild, the leaf is sign coherent, holds the signs of the solid, and
every record refers to the pointer of the registry. -/
theorem GridNode.createS_shared {F : Type} [FloatOps F]
    (newVertex : Vector3 F → Nat → F → SolidGeometry F → Vertex F) (R : Area F) (c : F)
    (area : Area F) (sdf : SolidGeometry F) (st : VertexStore F × Registry) (ρ : Registry)
    (σ : Vector3i → Bool)
    (hflat : ∀ d i, IsLatticeEdge d i →
      signCrossing σ d (area.m_MinPos + fromIndex i) = false)
    (hs : st.2.Sound st.1) :
    (GridNode.createS newVertex R c area sdf st).2.2.Sound
        (GridNode.createS newVertex R c area sdf st).2.1
      ∧ st.2.Le (GridNode.createS newVertex R c area sdf st).2.2
      ∧ st.1.SharedKept (GridNode.createS newVertex R c area sdf st).2.1
      ∧ SignCoherent (GridNode.createS newVertex R c area sdf st).1
      ∧ ∀ o, o ∈ (GridNode.createS newVertex R c area sdf st).1.m_SurfaceEdges →
        Registered (Registry.select σ ρ (GridNode.createS newVertex R c area sdf st).2.2)
          area.m_MinPos o := by
  unfold GridNode.createS
  simp only
  rw [GridNode.create_eq]
  simp only [computeEdgesIgnoring_signs]
  have key := rebuildS_shared newVertex true (fun v => v) R c area sdf
    (computeSigns R c area sdf SignArray.blank) SignArray.blank [] st ρ σ
    (fun e he => absurd he (List.not_mem_nil e))
    (fun d i _ => by rw [edgeCount_nil]; exact Nat.zero_le _)
    (fun e he => absurd he (List.not_mem_nil e))
    (fun d i hl _ => hflat d i hl) hs
  have e1 : (withExisting ([] : List (SurfaceEdge Nat)) : List (SurfaceEdge (VertexRef F)))
      = [] := rfl
  rw [e1, List.foldl_nil, Prod.mk.eta] at key
  exact key

theorem GridNode.createS_signs {F : Type} [FloatOps F]
    (newVertex : Vector3 F → Nat → F → SolidGeometry F → Vertex F) (R : Area F) (c : F)
    (area : Area F) (sdf : SolidGeometry F) (st : VertexStore F × Registry) :
    (GridNode.createS newVertex R c area sdf st).1.m_Signs
      = computeSigns R c area sdf SignArray.blank :=
  GridNode.create_signs (initCalls newVertex) R c area sdf

/-- The union of a sign-coherent leaf whose signs are the values of `σ` and whose records
refer to the pointers of `ρ`. -/
theorem GridNode.mergeS_leaf_shared {F : Type} [FloatOps F]
    (newVertex : Vector3 F → Nat → F → SolidGeometry F → Vertex F)
    (normalise : Vector3 F → Vector3 F) (R : Area F) (c : F) (area : Area F)
    (sdf : SolidGeometry F) (g : GridNode Nat) (st : VertexStore F × Registry) (ρ : Registry)
    (σ : Vector3i → Bool) (hc : SignCoherent g)
    (hσ : ∀ j, j < LEAF_SIZE_3D → g.m_Signs.get j = σ (area.m_MinPos + fromIndex j))
    (hreg : ∀ e, e ∈ g.m_SurfaceEdges → Registered ρ area.m_MinPos e)
    (hs : st.2.Sound st.1) :
    (g.mergeS newVertex normalise R c area sdf st).2.2.Sound
        (g.mergeS newVertex normalise R c area sdf st).2.1
      ∧ st.2.Le (g.mergeS newVertex normalise R c area sdf st).2.2
      ∧ st.1.SharedKept (g.mergeS newVertex normalise R c area sdf st).2.1
      ∧ SignCoherent (g.mergeS newVertex normalise R c area sdf st).1
      ∧ ∀ o, o ∈ (g.mergeS newVertex normalise R c area sdf st).1.m_SurfaceEdges →
        Registered (Registry.select σ ρ (g.mergeS newVertex normalise R c area sdf st).2.2)
          area.m_MinPos o := by
  obtain ⟨k1, k2⟩ := records_on_crossings g area σ hc hσ
  unfold GridNode.mergeS GridNode.merge
  simp only [computeEdgesIgnoring_signs]
  exact rebuildS_shared newVertex true normalise R c area sdf _ _ g.m_SurfaceEdges st ρ σ
    hc.wellFormed (fun d i hl => hc.count_le_one d i hl)
    (fun e he => ⟨hreg e he, k1 e he⟩) k2 hs

theorem GridNode.mergeS_signs {F : Type} [FloatOps F]
    (newVertex : Vector3 F → Nat → F → SolidGeometry F → Vertex F)
    (normalise : Vector3 F → Vector3 F) (R : Area F) (c : F) (area : Area F)
    (sdf : SolidGeometry F) (g : GridNode Nat) (st : VertexStore F × Registry) (j : Nat)
    (hj : j < LEAF_SIZE_3D) :
    (g.mergeS newVertex normalise R c area sdf st).1.m_Signs.get j
      = (g.m_Signs.get j || sdf.getSign (getRealPos R c (area.m_MinPos + fromIndex j))) :=
  GridNode.merge_get (initCalls newVertex) R c area sdf
    { m_Signs := g.m_Signs, m_SurfaceEdges := withExisting g.m_SurfaceEdges } j hj

/-- The intersection of a sign-coherent leaf whose signs are the values of `σ` and whose
records refer to the pointers of `ρ`. -/
theorem GridNode.intersectS_leaf_shared {F : Type} [FloatOps F]
    (newVertex : Vector3 F → Nat → F → SolidGeometry F → Vertex F)
    (normalise : Vector3 F → Vector3 F) (R : Area F) (c : F) (area : Area F)
    (sdf : SolidGeometry F) (g : GridNode Nat) (st : VertexStore F × Registry) (ρ : Registry)
    (σ : Vector3i → Bool) (hc : SignCoherent g)
    (hσ : ∀ j, j < LEAF_SIZE_3D → g.m_Signs.get j = σ (area.m_MinPos + fromIndex j))
    (hreg : ∀ e, e ∈ g.m_SurfaceEdges → Registered ρ area.m_MinPos e)
    (hs : st.2.Sound st.1) :
    (g.intersectS newVertex normalise R c area sdf st).2.2.Sound
        (g.intersectS newVertex normalise R c area sdf st).2.1
      ∧ st.2.Le (g.intersectS newVertex normalise R c area sdf st).2.2
      ∧ st.1.SharedKept (g.intersectS newVertex normalise R c area sdf st).2.1
      ∧ SignCoherent (g.intersectS newVertex normalise R c area sdf st).1
      ∧ ∀ o, o ∈ (g.intersectS newVertex normalise R c area sdf st).1.m_SurfaceEdges →
        Registered (Registry.select σ ρ (g.intersectS newVertex normalise R c area sdf st).2.2)
          area.m_MinPos o := by
  obtain ⟨k1, k2⟩ := records_on_crossings g area σ hc hσ
  unfold GridNode.intersectS GridNode.intersect
  simp only [computeEdgesIgnoring_signs]
  exact rebuildS_shared newVertex false normalise R c area sdf _ _ g.m_SurfaceEdges st ρ σ
    hc.wellFormed (fun d i hl => hc.count_le_one d i hl)
    (fun e he => ⟨hreg e he, k1 e he⟩) k2 hs

theorem GridNode.intersectS_signs {F : Type} [FloatOps F]
    (newVertex : Vector3 F → Nat → F → SolidGeometry F → Vertex F)
    (normalise : Vector3 F → Vector3 F) (R : Area F) (c : F) (area : Area F)
    (sdf : SolidGeometry F) (g : GridNode Nat) (st : VertexStore F × Registry) (j : Nat)
    (hj : j < LEAF_SIZE_3D) :
    (g.intersectS newVertex normalise R c area sdf st).1.m_Signs.get j
      = (g.m_Signs.get j && sdf.getSign (getRealPos R c (area.m_MinPos + fromIndex j))) :=
  GridNode.intersect_get (initCalls newVertex) R c area sdf
    { m_Signs := g.m_Signs, m_SurfaceEdges := withExisting g.m_SurfaceEdges } j hj

theorem Node.SharedAt.inner {F : Type} [FloatOps F] {ρ : Registry} {σ : Vector3i → Bool}
    (c : Fin 8 → Node Nat) (a : Area F) (hlt : (LEAF_EXPO : Int) < a.m_SizeExpo)
    (h : ∀ i, (c i).SharedAt ρ σ (a.getSubAreas i)) : (Node.inner c).SharedAt ρ σ a := by
  refine ⟨⟨hlt, fun i => (h i).1⟩, fun i => (h i).2.1, ?_, fun i => (h i).2.2.2⟩
  intro p b hb
  obtain ⟨i, hi⟩ := hb
  exact (h i).2.2.1 p b hi

theorem Node.SharedAt.subtree {F : Type} [FloatOps F] {ρ : Registry} {σ : Vector3i → Bool}
    {c : Fin 8 → Node Nat} {a : Area F} (h : (Node.inner c).SharedAt ρ σ a) (i : Fin 8) :
    (c i).SharedAt ρ σ (a.getSubAreas i) :=
  ⟨h.1.2 i, h.2.1 i, fun p b hb => h.2.2.1 p b ⟨i, hb⟩, h.2.2.2 i⟩

theorem Node.SharedAt.emptyNode {F : Type} [FloatOps F] (ρ : Registry) (σ : Vector3i → Bool)
    (s : Bool) (a : Area F) (he : (LEAF_EXPO : Int) ≤ a.m_SizeExpo)
    (h : ∀ p, a.containsLattice p → s = σ p) : (Node.empty s : Node Nat).SharedAt ρ σ a := by
  refine ⟨he, trivial, ?_, trivial⟩
  intro p b hb
  obtain ⟨hc, hs⟩ := hb
  rw [hs]
  exact h p hc

theorem Node.SharedAt.grid {F : Type} [FloatOps F] (ρ : Registry) (σ : Vector3i → Bool)
    (g : GridNode Nat) (a : Area F) (he : a.m_SizeExpo = LEAF_EXPO) (hc : SignCoherent g)
    (hσ : ∀ p b, (Node.grid g : Node Nat).storesSign a p b → b = σ p)
    (hreg : ∀ e, e ∈ g.m_SurfaceEdges → Registered ρ a.m_MinPos e) :
    (Node.grid g).SharedAt ρ σ a :=
  ⟨he, hc, hσ, hreg⟩

theorem Node.SharedAt.growRegistry {F : Type} [FloatOps F] {ρ r r2 : Registry}
    {σ σ2 : Vector3i → Bool} {n : Node Nat} {a : Area F} (hle : r.Le r2)
    (h : n.SharedAt (Registry.select σ ρ r) σ2 a) : n.SharedAt (Registry.select σ ρ r2) σ2 a :=
  ⟨h.1, h.2.1, h.2.2.1,
    Node.LeavesRegistered.grow (Registry.select_le σ ρ hle) n a h.2.2.2⟩

/-- The records of a subtree whose signs are the values of `σ` sit on edges at which `σ`
changes sign, so a registry that agrees with `ρ` on those edges serves them as well. -/
theorem Node.LeavesRegistered.select {F : Type} [FloatOps F] (ρ r : Registry)
    (σ : Vector3i → Bool) (n : Node Nat) :
    ∀ a : Area F, n.SharedAt ρ σ a → n.LeavesRegistered (Registry.select σ ρ r) a := by
  induction n with
  | inner c ih =>
    intro a h i
    exact ih i _ (h.subtree i)
  | empty b => exact fun _ _ => trivial
  | grid g =>
    intro a h e he
    obtain ⟨_, hc, hσ, hreg⟩ := h
    obtain ⟨k1, _⟩ := records_on_crossings g a σ hc (grid_signs_functional g a σ hσ)
    intro hi
    unfold Registry.select
    rw [if_pos (k1 e he)]
    exact hreg e he hi

/-- A subtree that a rewrite leaves as it is, over an area on which the new signs are the
old ones. -/
theorem Node.SharedAt.carried {F : Type} [FloatOps F] {ρ : Registry} {σ : Vector3i → Bool}
    {n : Node Nat} {a : Area F} (r : Registry) (σ2 : Vector3i → Bool) (h : n.SharedAt ρ σ a)
    (hσ : ∀ p, a.containsLattice p → σ2 p = σ p) :
    n.SharedAt (Registry.select σ ρ r) σ2 a := by
  refine ⟨h.1, h.2.1, ?_, Node.LeavesRegistered.select ρ r σ n a h⟩
  intro p b hb
  rw [hσ p (containsLattice_of_storesSign n a p b h.1 hb)]
  exact h.2.2.1 p b hb

/-- The tree builder over an area on which `σ` is constant, for a conservative solid: the
registry stays sound and only grows, no `shared` flag changes, and the subtree built is
well formed and sign coherent, stores the signs of the solid, and its records refer to the
pointers of the registry. -/
theorem createNodeS_shared {F : Type} [FloatOps F]
    (newVertex : Vector3 F → Nat → F → SolidGeometry F → Vertex F) (R : Area F) (c : F)
    (sdf : SolidGeometry F) (hB : Conservative R c sdf) (ρ : Registry) (σ : Vector3i → Bool)
    (area : Area F) :
    SubAreaOf R area → (LEAF_EXPO : Int) ≤ area.m_SizeExpo →
    (∀ p q, area.containsLattice p → area.containsLattice q → σ p = σ q) →
    ∀ st : VertexStore F × Registry, st.2.Sound st.1 →
      (createNodeS newVertex R c sdf area st).2.2.Sound
          (createNodeS newVertex R c sdf area st).2.1
        ∧ (st.2.Le (createNodeS newVertex R c sdf area st).2.2
          ∧ st.1.SharedKept (createNodeS newVertex R c sdf area st).2.1)
        ∧ (createNodeS newVertex R c sdf area st).1.SharedAt
            (Registry.select σ ρ (createNodeS newVertex R c sdf area st).2.2)
            (fun p => sdf.getSign (getRealPos R c p)) area := by
  induction area using area_induction with
  | step a ih =>
    intro hsub hle hflat st hs
    by_cases hn : sdf.cubeNeedsSubdivision a = true
    · by_cases he : a.m_SizeExpo ≤ LEAF_EXPO
      · rw [createNodeS_grid newVertex R c sdf a st he hn]
        have hexp : a.m_SizeExpo = LEAF_EXPO := by omega
        have hf : ∀ d i, IsLatticeEdge d i →
            signCrossing σ d (a.m_MinPos + fromIndex i) = false := by
          intro d i hl
          unfold signCrossing
          rw [← Vector3i.add_assoc3, ← fromIndex_stride d i hl,
            hflat _ _ (containsLattice_fromIndex a hexp i hl.2.1)
              (containsLattice_fromIndex a hexp (i + stride d) (latticeEdge_upper_lt d i hl))]
          cases σ (a.m_MinPos + fromIndex (i + stride d)) <;> rfl
        obtain ⟨k1, k2, k3, k4, k5⟩ :=
          GridNode.createS_shared newVertex R c a sdf st ρ σ hf hs
        dsimp only
        refine ⟨k1, ⟨k2, k3⟩, Node.SharedAt.grid _ _ _ a hexp k4 ?_ k5⟩
        intro p b hb
        obtain ⟨x, y, z, hx, hy, hz, hp, hb2⟩ := hb
        rw [hb2, hp, GridNode.createS_signs,
          computeSigns_get R c a sdf _ _ (linear_lt x y z hx hy hz),
          fromIndex_linear x y z hx hy hz]
      · rw [createNodeS_inner newVertex R c sdf a st he hn]
        have hlt : (LEAF_EXPO : Int) < a.m_SizeExpo := by omega
        obtain ⟨k1, k2, k3⟩ := threadChildren_mono
          (fun i st2 => createNodeS newVertex R c sdf (a.getSubAreas i) st2)
          (fun st2 => st2.2.Sound st2.1)
          (fun s1 s2 => s1.2.Le s2.2 ∧ s1.1.SharedKept s2.1)
          (fun i n st2 => n.SharedAt (Registry.select σ ρ st2.2)
            (fun p => sdf.getSign (getRealPos R c p)) (a.getSubAreas i))
          (fun _ _ _ h12 h23 => ⟨h12.1.trans h23.1, h12.2.chain h23.2⟩)
          (fun i n s1 s2 hq hm => hq.growRegistry hm.1)
          (fun i st2 hs2 => ih hlt i (SubAreaOf.step a i hsub hlt)
            (by rw [getSubAreas_sizeExpo]; omega)
            (fun p q hp hq => hflat p q (containsLattice_of_sub a i p hlt hp)
              (containsLattice_of_sub a i q hlt hq)) st2 hs2)
          st hs
        exact ⟨k1, k2, Node.SharedAt.inner _ a hlt k3⟩
    · have hn2 : sdf.cubeNeedsSubdivision a = false := by
        cases h : sdf.cubeNeedsSubdivision a
        · rfl
        · exact absurd h hn
      rw [createNodeS_empty newVertex R c sdf a st hn2]
      refine ⟨hs, ⟨Registry.Le.refl _, VertexStore.SharedKept.unmoved _⟩, ?_⟩
      obtain ⟨h1, h2⟩ := hB a hsub hn2
      exact Node.SharedAt.emptyNode _ _ _ a hle (fun p hp => by rw [h2, h1 p hp])

theorem SharedStep.unchanged {F : Type} [FloatOps F] {ρ : Registry} {σ : Vector3i → Bool}
    (σ2 : Vector3i → Bool) {n : Node Nat} {a : Area F} (st : VertexStore F × Registry)
    (h : n.SharedAt ρ σ a) (hs : st.2.Sound st.1)
    (hσ : ∀ p, a.containsLattice p → σ2 p = σ p) : SharedStep ρ σ σ2 a st (n, st) :=
  ⟨hs, ⟨Registry.Le.refl _, VertexStore.SharedKept.unmoved _⟩, h.carried st.2 σ2 hσ⟩

theorem SharedStep.toEmpty {F : Type} [FloatOps F] (ρ : Registry) (σ σ2 : Vector3i → Bool)
    (s : Bool) (a : Area F) (st : VertexStore F × Registry) (s2 : VertexStore F)
    (he : (LEAF_EXPO : Int) ≤ a.m_SizeExpo) (hs : st.2.Sound st.1) (hk : st.1.SharedKept s2)
    (h : ∀ p, a.containsLattice p → s = σ2 p) :
    SharedStep ρ σ σ2 a st (Node.empty s, (s2, st.2)) :=
  ⟨hs.kept hk, ⟨Registry.Le.refl _, hk⟩, Node.SharedAt.emptyNode _ _ s a he h⟩

/-- The loop over the eight children of an inner node, each child rewritten by a step. -/
theorem SharedStep.children {F : Type} [FloatOps F] (ρ : Registry) (σ σ2 : Vector3i → Bool)
    (a : Area F) (f : Fin 8 → VertexStore F × Registry → Node Nat × (VertexStore F × Registry))
    (hlt : (LEAF_EXPO : Int) < a.m_SizeExpo)
    (h : ∀ i st2, st2.2.Sound st2.1 → SharedStep ρ σ σ2 (a.getSubAreas i) st2 (f i st2))
    (st : VertexStore F × Registry) (hs : st.2.Sound st.1) :
    SharedStep ρ σ σ2 a st (Node.inner (threadChildren f st).1, (threadChildren f st).2) := by
  obtain ⟨k1, k2, k3⟩ := threadChildren_mono f
    (fun st2 => st2.2.Sound st2.1)
    (fun s1 s2 => s1.2.Le s2.2 ∧ s1.1.SharedKept s2.1)
    (fun i n st2 => n.SharedAt (Registry.select σ ρ st2.2) σ2 (a.getSubAreas i))
    (fun _ _ _ h12 h23 => ⟨h12.1.trans h23.1, h12.2.chain h23.2⟩)
    (fun i n s1 s2 hq hm => hq.growRegistry hm.1)
    (fun i st2 hs2 => h i st2 hs2) st hs
  exact ⟨k1, k2, Node.SharedAt.inner _ a hlt k3⟩

/-- A step that starts after the store has been changed without touching a `shared` flag. -/
theorem SharedStep.after {F : Type} [FloatOps F] {ρ : Registry} {σ σ2 : Vector3i → Bool}
    {a : Area F} {st : VertexStore F × Registry} {s1 : VertexStore F}
    {res : Node Nat × (VertexStore F × Registry)} (hk : st.1.SharedKept s1)
    (h : SharedStep ρ σ σ2 a (s1, st.2) res) : SharedStep ρ σ σ2 a st res :=
  ⟨h.1, ⟨h.2.1.1, hk.chain h.2.1.2⟩, h.2.2⟩

theorem SharedStep.signs_congr {F : Type} [FloatOps F] {ρ : Registry} {σ σ2 σ3 : Vector3i → Bool}
    {a : Area F} {st : VertexStore F × Registry}
    {res : Node Nat × (VertexStore F × Registry)} (h : SharedStep ρ σ σ2 a st res)
    (hσ : ∀ p, a.containsLattice p → σ2 p = σ3 p) : SharedStep ρ σ σ3 a st res := by
  refine ⟨h.1, h.2.1, h.2.2.1, h.2.2.2.1, ?_, h.2.2.2.2.2⟩
  intro p b hb
  rw [← hσ p (containsLattice_of_storesSign res.1 a p b h.2.2.1 hb)]
  exact h.2.2.2.2.1 p b hb

theorem createNodeS_step {F : Type} [FloatOps F]
    (newVertex : Vector3 F → Nat → F → SolidGeometry F → Vertex F) (R : Area F) (c : F)
    (sdf : SolidGeometry F) (hB : Conservative R c sdf) (ρ : Registry) (σ : Vector3i → Bool)
    (area : Area F) (hsub : SubAreaOf R area) (hle : (LEAF_EXPO : Int) ≤ area.m_SizeExpo)
    (hflat : ∀ p q, area.containsLattice p → area.containsLattice q → σ p = σ q)
    (st : VertexStore F × Registry) (hs : st.2.Sound st.1) :
    SharedStep ρ σ (fun p => sdf.getSign (getRealPos R c p)) area st
      (createNodeS newVertex R c sdf area st) :=
  createNodeS_shared newVertex R c sdf hB ρ σ area hsub hle hflat st hs

/-- The signs an Empty node stores are constant on its area. -/
theorem Node.SharedAt.flat {F : Type} [FloatOps F] {ρ : Registry} {σ : Vector3i → Bool}
    {s : Bool} {a : Area F} (h : (Node.empty s : Node Nat).SharedAt ρ σ a) (p : Vector3i)
    (hp : a.containsLattice p) : σ p = s :=
  (h.2.2.1 p s ⟨hp, rfl⟩).symm

theorem bool_not_true_iff (b : Bool) : ¬ ((!b) = true) ↔ b = true := by
  cases b <;> simp

/-- The union of a subtree with a conservative solid is a step to the signs `σ ∨ solid`. -/
theorem mergeS_shared {F : Type} [FloatOps F]
    (newVertex : Vector3 F → Nat → F → SolidGeometry F → Vertex F)
    (normalise : Vector3 F → Vector3 F) (R : Area F) (c : F) (sdf : SolidGeometry F)
    (hB : Conservative R c sdf) (ρ : Registry) (σ : Vector3i → Bool) (n : Node Nat) :
    ∀ (area : Area F) (st : VertexStore F × Registry), SubAreaOf R area →
      n.SharedAt ρ σ area → st.2.Sound st.1 →
      SharedStep ρ σ (fun p => σ p || sdf.getSign (getRealPos R c p)) area st
        (mergeS newVertex normalise R c sdf n area st) := by
  have outside : ∀ (m : Node Nat) (area : Area F) (st : VertexStore F × Registry),
      SubAreaOf R area → m.SharedAt ρ σ area → st.2.Sound st.1 →
      sdf.cubeNeedsSubdivision area = false → sdf.getSign (area.getCornerVecs 0).2 = false →
      SharedStep ρ σ (fun p => σ p || sdf.getSign (getRealPos R c p)) area st (m, st) := by
    intro m area st hsub h hs hn hg
    refine SharedStep.unchanged _ st h hs ?_
    intro p hp
    show (σ p || sdf.getSign (getRealPos R c p)) = σ p
    rw [(hB area hsub hn).1 p hp, hg, Bool.or_false]
  have inside : ∀ (m : Node Nat) (area : Area F) (st : VertexStore F × Registry)
      (s1 : VertexStore F), SubAreaOf R area → m.SharedAt ρ σ area → st.2.Sound st.1 →
      st.1.SharedKept s1 →
      sdf.cubeNeedsSubdivision area = false → sdf.getSign (area.getCornerVecs 0).2 = true →
      SharedStep ρ σ (fun p => σ p || sdf.getSign (getRealPos R c p)) area st
        (createNodeS newVertex R c sdf area (s1, st.2)) := by
    intro m area st s1 hsub h hs hk hn hg
    rw [createNodeS_empty newVertex R c sdf area _ hn]
    unfold EmptyNode.create
    refine SharedStep.toEmpty ρ σ _ _ area st s1 (wellFormed_expo m area h.1) hs hk ?_
    intro p hp
    show _ = (σ p || sdf.getSign (getRealPos R c p))
    rw [(hB area hsub hn).1 p hp, (hB area hsub hn).2, hg, Bool.or_true]
  have fresh : ∀ (area : Area F) (st : VertexStore F × Registry),
      SubAreaOf R area → (Node.empty false : Node Nat).SharedAt ρ σ area → st.2.Sound st.1 →
      SharedStep ρ σ (fun p => σ p || sdf.getSign (getRealPos R c p)) area st
        (createNodeS newVertex R c sdf area st) := by
    intro area st hsub h hs
    refine (createNodeS_step newVertex R c sdf hB ρ σ area hsub h.1
      (fun p q hp hq => (h.flat p hp).trans (h.flat q hq).symm) st hs).signs_congr ?_
    intro p hp
    show sdf.getSign (getRealPos R c p) = (σ p || sdf.getSign (getRealPos R c p))
    rw [h.flat p hp, Bool.false_or]
  induction n with
  | inner ch ih =>
    intro area st hsub h hs
    unfold mergeS
    by_cases h1 : sdf.cubeNeedsSubdivision area = true
    · rw [if_pos h1]
      exact SharedStep.children ρ σ _ area
        (fun i st2 => mergeS newVertex normalise R c sdf (ch i) (area.getSubAreas i) st2)
        h.1.1
        (fun i st2 hs2 => ih i (area.getSubAreas i) st2 (SubAreaOf.step area i hsub h.1.1)
          (h.subtree i) hs2)
        st hs
    · rw [if_neg h1]
      have hn : sdf.cubeNeedsSubdivision area = false := by
        cases hx : sdf.cubeNeedsSubdivision area
        · rfl
        · exact absurd hx h1
      by_cases h2 : (!sdf.getSign (area.getCornerVecs 0).2) = true
      · rw [if_pos h2]
        exact outside _ area st hsub h hs hn (by
          cases hx : sdf.getSign (area.getCornerVecs 0).2
          · rfl
          · rw [hx] at h2
            exact absurd h2 (by decide))
      · rw [if_neg h2]
        exact inside _ area st _ hsub h hs (Node.deleteS_sharedKept _ st.1) hn
          ((bool_not_true_iff _).mp h2)
  | empty b =>
    intro area st hsub h hs
    unfold mergeS
    by_cases h1 : (!sdf.cubeNeedsSubdivision area) = true
    · rw [if_pos h1]
      have hn : sdf.cubeNeedsSubdivision area = false := by
        cases hx : sdf.cubeNeedsSubdivision area
        · rfl
        · rw [hx] at h1
          exact absurd h1 (by decide)
      by_cases h2 : (!sdf.getSign (area.getCornerVecs 0).2) = true
      · rw [if_pos h2]
        exact outside _ area st hsub h hs hn (by
          cases hx : sdf.getSign (area.getCornerVecs 0).2
          · rfl
          · rw [hx] at h2
            exact absurd h2 (by decide))
      · rw [if_neg h2]
        have k := inside _ area st st.1 hsub h hs (VertexStore.SharedKept.unmoved _) hn
          ((bool_not_true_iff _).mp h2)
        rw [Prod.mk.eta] at k
        exact k
    · rw [if_neg h1]
      by_cases h2 : b = true
      · rw [if_pos h2]
        refine SharedStep.unchanged _ st h hs ?_
        intro p hp
        show (σ p || sdf.getSign (getRealPos R c p)) = σ p
        rw [h.flat p hp, h2, Bool.true_or]
      · rw [if_neg h2]
        have hb : b = false := by
          cases b
          · rfl
          · exact absurd rfl h2
        rw [hb] at h
        exact fresh area st hsub h hs
  | grid g =>
    intro area st hsub h hs
    unfold mergeS
    by_cases h1 : (!sdf.cubeNeedsSubdivision area) = true
    · rw [if_pos h1]
      have hn : sdf.cubeNeedsSubdivision area = false := by
        cases hx : sdf.cubeNeedsSubdivision area
        · rfl
        · rw [hx] at h1
          exact absurd h1 (by decide)
      by_cases h2 : (!sdf.getSign (area.getCornerVecs 0).2) = true
      · rw [if_pos h2]
        exact outside _ area st hsub h hs hn (by
          cases hx : sdf.getSign (area.getCornerVecs 0).2
          · rfl
          · rw [hx] at h2
            exact absurd h2 (by decide))
      · rw [if_neg h2]
        exact inside _ area st _ hsub h hs (Node.deleteS_sharedKept _ st.1) hn
          ((bool_not_true_iff _).mp h2)
    · rw [if_neg h1]
      obtain ⟨hw, hc, hσ, hreg⟩ := h
      have hσ2 := grid_signs_functional g area σ hσ
      obtain ⟨k1, k2, k3, k4, k5⟩ :=
        GridNode.mergeS_leaf_shared newVertex normalise R c area sdf g st ρ σ hc hσ2 hreg hs
      unfold SharedStep
      dsimp only
      refine ⟨k1, ⟨k2, k3⟩, Node.SharedAt.grid _ _ _ area hw k4 ?_ k5⟩
      intro p b hb
      obtain ⟨x, y, z, hx, hy, hz, hp, hb2⟩ := hb
      rw [hb2, GridNode.mergeS_signs newVertex normalise R c area sdf g st _
          (linear_lt x y z hx hy hz),
        hσ2 _ (linear_lt x y z hx hy hz), fromIndex_linear x y z hx hy hz, hp]

/-- The intersection of a subtree with a conservative solid is a step to the signs
`σ ∧ solid`. -/
theorem intersectS_shared {F : Type} [FloatOps F]
    (newVertex : Vector3 F → Nat → F → SolidGeometry F → Vertex F)
    (normalise : Vector3 F → Vector3 F) (R : Area F) (c : F) (sdf : SolidGeometry F)
    (hB : Conservative R c sdf) (ρ : Registry) (σ : Vector3i → Bool) (n : Node Nat) :
    ∀ (area : Area F) (st : VertexStore F × Registry), SubAreaOf R area →
      n.SharedAt ρ σ area → st.2.Sound st.1 →
      SharedStep ρ σ (fun p => σ p && sdf.getSign (getRealPos R c p)) area st
        (intersectS newVertex normalise R c sdf n area st) := by
  have inside : ∀ (m : Node Nat) (area : Area F) (st : VertexStore F × Registry),
      SubAreaOf R area → m.SharedAt ρ σ area → st.2.Sound st.1 →
      sdf.cubeNeedsSubdivision area = false → sdf.getSign (area.getCornerVecs 0).2 = true →
      SharedStep ρ σ (fun p => σ p && sdf.getSign (getRealPos R c p)) area st (m, st) := by
    intro m area st hsub h hs hn hg
    refine SharedStep.unchanged _ st h hs ?_
    intro p hp
    show (σ p && sdf.getSign (getRealPos R c p)) = σ p
    rw [(hB area hsub hn).1 p hp, hg, Bool.and_true]
  have outside : ∀ (m : Node Nat) (area : Area F) (st : VertexStore F × Registry)
      (s1 : VertexStore F), SubAreaOf R area → m.SharedAt ρ σ area → st.2.Sound st.1 →
      st.1.SharedKept s1 →
      sdf.cubeNeedsSubdivision area = false → sdf.getSign (area.getCornerVecs 0).2 = false →
      SharedStep ρ σ (fun p => σ p && sdf.getSign (getRealPos R c p)) area st
        (EmptyNode.create area sdf, (s1, st.2)) := by
    intro m area st s1 hsub h hs hk hn hg
    unfold EmptyNode.create
    refine SharedStep.toEmpty ρ σ _ _ area st s1 (wellFormed_expo m area h.1) hs hk ?_
    intro p hp
    show _ = (σ p && sdf.getSign (getRealPos R c p))
    rw [(hB area hsub hn).1 p hp, (hB area hsub hn).2, hg, Bool.and_false]
  have fresh : ∀ (area : Area F) (st : VertexStore F × Registry),
      SubAreaOf R area → (Node.empty true : Node Nat).SharedAt ρ σ area → st.2.Sound st.1 →
      SharedStep ρ σ (fun p => σ p && sdf.getSign (getRealPos R c p)) area st
        (createNodeS newVertex R c sdf area st) := by
    intro area st hsub h hs
    refine (createNodeS_step newVertex R c sdf hB ρ σ area hsub h.1
      (fun p q hp hq => (h.flat p hp).trans (h.flat q hq).symm) st hs).signs_congr ?_
    intro p hp
    show sdf.getSign (getRealPos R c p) = (σ p && sdf.getSign (getRealPos R c p))
    rw [h.flat p hp, Bool.true_and]
  have notTrue : ∀ b : Bool, ¬ b = true → b = false := by
    intro b hb
    cases b
    · rfl
    · exact absurd rfl hb
  induction n with
  | inner ch ih =>
    intro area st hsub h hs
    unfold intersectS
    by_cases h1 : sdf.cubeNeedsSubdivision area = true
    · rw [if_pos h1]
      exact SharedStep.children ρ σ _ area
        (fun i st2 => intersectS newVertex normalise R c sdf (ch i) (area.getSubAreas i) st2)
        h.1.1
        (fun i st2 hs2 => ih i (area.getSubAreas i) st2 (SubAreaOf.step area i hsub h.1.1)
          (h.subtree i) hs2)
        st hs
    · rw [if_neg h1]
      by_cases h2 : sdf.getSign (area.getCornerVecs 0).2 = true
      · rw [if_pos h2]
        exact inside _ area st hsub h hs (notTrue _ h1) h2
      · rw [if_neg h2]
        exact outside _ area st _ hsub h hs (Node.deleteS_sharedKept _ st.1) (notTrue _ h1)
          (notTrue _ h2)
  | empty b =>
    intro area st hsub h hs
    unfold intersectS
    by_cases h1 : (!sdf.cubeNeedsSubdivision area) = true
    · rw [if_pos h1]
      have hn : sdf.cubeNeedsSubdivision area = false := by
        cases hx : sdf.cubeNeedsSubdivision area
        · rfl
        · rw [hx] at h1
          exact absurd h1 (by decide)
      by_cases h2 : sdf.getSign (area.getCornerVecs 0).2 = true
      · rw [if_pos h2]
        exact inside _ area st hsub h hs hn h2
      · rw [if_neg h2]
        have k := outside _ area st st.1 hsub h hs (VertexStore.SharedKept.unmoved _) hn
          (notTrue _ h2)
        rw [Prod.mk.eta] at k
        exact k
    · rw [if_neg h1]
      by_cases h2 : (!b) = true
      · rw [if_pos h2]
        refine SharedStep.unchanged _ st h hs ?_
        intro p hp
        show (σ p && sdf.getSign (getRealPos R c p)) = σ p
        have hb : b = false := by
          cases b
          · rfl
          · exact absurd h2 (by decide)
        rw [h.flat p hp, hb, Bool.false_and]
      · rw [if_neg h2]
        have hb : b = true := (bool_not_true_iff b).mp h2
        rw [hb] at h
        exact fresh area st hsub h hs
  | grid g =>
    intro area st hsub h hs
    unfold intersectS
    by_cases h1 : (!sdf.cubeNeedsSubdivision area) = true
    · rw [if_pos h1]
      have hn : sdf.cubeNeedsSubdivision area = false := by
        cases hx : sdf.cubeNeedsSubdivision area
        · rfl
        · rw [hx] at h1
          exact absurd h1 (by decide)
      by_cases h2 : sdf.getSign (area.getCornerVecs 0).2 = true
      · rw [if_pos h2]
        exact inside _ area st hsub h hs hn h2
      · rw [if_neg h2]
        exact outside _ area st _ hsub h hs (Node.deleteS_sharedKept _ st.1) hn (notTrue _ h2)
    · rw [if_neg h1]
      obtain ⟨hw, hc, hσ, hreg⟩ := h
      have hσ2 := grid_signs_functional g area σ hσ
      obtain ⟨k1, k2, k3, k4, k5⟩ :=
        GridNode.intersectS_leaf_shared newVertex normalise R c area sdf g st ρ σ hc hσ2 hreg hs
      unfold SharedStep
      dsimp only
      refine ⟨k1, ⟨k2, k3⟩, Node.SharedAt.grid _ _ _ area hw k4 ?_ k5⟩
      intro p b hb
      obtain ⟨x, y, z, hx, hy, hz, hp, hb2⟩ := hb
      rw [hb2, GridNode.intersectS_signs newVertex normalise R c area sdf g st _
          (linear_lt x y z hx hy hz),
        hσ2 _ (linear_lt x y z hx hy hz), fromIndex_linear x y z hx hy hz, hp]

theorem Registry.empty_sound {F : Type} (s : VertexStore F) : Registry.empty.Sound s :=
  fun _ _ _ h => Option.noConfusion h

/-- A tree built by `sampleSDF` from a conservative solid satisfies `SharedAt` for the
registry of the sampling and the signs of the solid. -/
theorem sampleSDFS_shared {F : Type} [FloatOps F]
    (newVertex : Vector3 F → Nat → F → SolidGeometry F → Vertex F) (sdf : SolidGeometry F)
    (aabb : AABB F) (maxDepth : Int) (store : VertexStore F)
    (hdepth : (LEAF_EXPO : Int) ≤ maxDepth)
    (hB : Conservative (sampleSDFS newVertex sdf aabb maxDepth store).1.m_RootArea
      (sampleSDFS newVertex sdf aabb maxDepth store).1.m_CellSize sdf) :
    ∃ (ρ : Registry) (σ : Vector3i → Bool),
      (sampleSDFS newVertex sdf aabb maxDepth store).1.m_RootNode.SharedAt ρ σ
          (sampleSDFS newVertex sdf aabb maxDepth store).1.m_RootArea
        ∧ ρ.Sound (sampleSDFS newVertex sdf aabb maxDepth store).2 := by
  obtain ⟨h1, _, h3⟩ := createNodeS_shared newVertex
    (sampleSDFS newVertex sdf aabb maxDepth store).1.m_RootArea
    (sampleSDFS newVertex sdf aabb maxDepth store).1.m_CellSize sdf hB Registry.empty
    (fun _ => false) (sampleSDFS newVertex sdf aabb maxDepth store).1.m_RootArea
    SubAreaOf.refl hdepth (fun _ _ _ _ => rfl) (store, Registry.empty)
    (Registry.empty_sound store)
  exact ⟨_, _, h3, Registry.select_sound _ (Registry.empty_sound _) h1⟩

/-- One CSG rewrite with a conservative steering solid keeps `SharedAt`, for the selection
of the old registry and the registry of the rewrite. -/
theorem Tree.applyOpS_shared {F : Type} [FloatOps F]
    (newVertex : Vector3 F → Nat → F → SolidGeometry F → Vertex F)
    (normalise : Vector3 F → Vector3 F) (t : Tree F Nat) (store : VertexStore F) (o : CsgOp F)
    (hB : Conservative t.m_RootArea t.m_CellSize o.steeringSolid)
    (h : ∃ (ρ : Registry) (σ : Vector3i → Bool),
      t.m_RootNode.SharedAt ρ σ t.m_RootArea ∧ ρ.Sound store) :
    ∃ (ρ : Registry) (σ : Vector3i → Bool),
      (t.applyOpS newVertex normalise store o).1.m_RootNode.SharedAt ρ σ
          (t.applyOpS newVertex normalise store o).1.m_RootArea
        ∧ ρ.Sound (t.applyOpS newVertex normalise store o).2 := by
  obtain ⟨ρ, σ, h1, h2⟩ := h
  cases o with
  | merge s =>
    obtain ⟨k1, ⟨_, k3⟩, k4⟩ := mergeS_shared newVertex normalise t.m_RootArea t.m_CellSize s
      hB ρ σ t.m_RootNode t.m_RootArea (store, Registry.empty) SubAreaOf.refl h1
      (Registry.empty_sound store)
    exact ⟨_, _, k4, Registry.select_sound _ (h2.kept k3) k1⟩
  | intersect s =>
    obtain ⟨k1, ⟨_, k3⟩, k4⟩ := intersectS_shared newVertex normalise t.m_RootArea
      t.m_CellSize s hB ρ σ t.m_RootNode t.m_RootArea (store, Registry.empty) SubAreaOf.refl h1
      (Registry.empty_sound store)
    exact ⟨_, _, k4, Registry.select_sound _ (h2.kept k3) k1⟩
  | subtract s =>
    obtain ⟨k1, ⟨_, k3⟩, k4⟩ := intersectS_shared newVertex normalise t.m_RootArea
      t.m_CellSize (OpInvertSDF s) hB ρ σ t.m_RootNode t.m_RootArea (store, Registry.empty)
      SubAreaOf.refl h1 (Registry.empty_sound store)
    exact ⟨_, _, k4, Registry.select_sound _ (h2.kept k3) k1⟩

/-- Every tree of the claim on shared vertices satisfies `SharedAt` for some registry that
is sound for the store and some signs of the global lattice. -/
theorem Tree.BuiltS.shared {F : Type} [FloatOps F]
    {newVertex : Vector3 F → Nat → F → SolidGeometry F → Vertex F}
    {normalise : Vector3 F → Vector3 F} {t : Tree F Nat} {store : VertexStore F}
    (h : Tree.BuiltS newVertex normalise t store) :
    ∃ (ρ : Registry) (σ : Vector3i → Bool),
      t.m_RootNode.SharedAt ρ σ t.m_RootArea ∧ ρ.Sound store := by
  induction h with
  | sample sdf aabb maxDepth store hdepth hB =>
    exact sampleSDFS_shared newVertex sdf aabb maxDepth store hdepth hB
  | op t store o _ hB ih =>
    exact Tree.applyOpS_shared newVertex normalise t store o hB ih
  | clone t store _ ih =>
    obtain ⟨ρ, σ, h1, h2⟩ := ih
    unfold Tree.cloneS
    rw [Node.cloneS_eq]
    exact ⟨ρ, σ, h1, h2.kept (VertexStore.addRefs_sharedKept _ _)⟩
  | other t store store2 _ hk ih =>
    obtain ⟨ρ, σ, h1, h2⟩ := ih
    exact ⟨ρ, σ, h1, h2.kept hk⟩

/-! ## No operation changes a `shared` flag -/

theorem threadChildren_sharedKept {F β : Type}
    (f : Fin 8 → VertexStore F × Registry → β × (VertexStore F × Registry))
    (h : ∀ (i : Fin 8) (st : VertexStore F × Registry), st.1.SharedKept (f i st).2.1)
    (st : VertexStore F × Registry) :
    st.1.SharedKept (threadChildren f st).2.1 :=
  (threadChildren_inv f (fun (st2 : VertexStore F × Registry) => st.1.SharedKept st2.1)
    (fun i st2 h2 => h2.chain (h i st2)) st (VertexStore.SharedKept.unmoved _)).1

theorem rebuildS_sharedKept {F : Type} [FloatOps F]
    (newVertex : Vector3 F → Nat → F → SolidGeometry F → Vertex F) (farther : Bool)
    (normalise : Vector3 F → Vector3 F) (R : Area F) (c : F) (area : Area F)
    (sdf : SolidGeometry F) (signs other : SignArray) (old : List (SurfaceEdge Nat))
    (st : VertexStore F × Registry) :
    st.1.SharedKept (runInits
        (computeEdgesIgnoring (initCalls newVertex) R c area sdf
          (keepCrossingEdges signs (withExisting old : List (SurfaceEdge (VertexRef F)))).2
          { m_Signs := signs
            m_SurfaceEdges :=
              (keepCrossingEdges signs
                (withExisting old : List (SurfaceEdge (VertexRef F)))).1 }).m_SurfaceEdges
        (old.foldl (fun s i => keepOrRelease farther normalise R c area sdf signs other i s) st.1,
          st.2)).2.1 := by
  have hkept := keepOrRelease_fold_sharedKept farther normalise R c area sdf signs other old st.1
  have r4 := runInits_fold_sharedKept
    (computeEdgesIgnoring (initCalls newVertex) R c area sdf
      (keepCrossingEdges signs (withExisting old : List (SurfaceEdge (VertexRef F)))).2
      { m_Signs := signs
        m_SurfaceEdges :=
          (keepCrossingEdges signs
            (withExisting old : List (SurfaceEdge (VertexRef F)))).1 }).m_SurfaceEdges
    ([], (old.foldl (fun s i => keepOrRelease farther normalise R c area sdf signs other i s)
      st.1, st.2))
  unfold runInits
  exact hkept.chain r4

theorem GridNode.createS_sharedKept {F : Type} [FloatOps F]
    (newVertex : Vector3 F → Nat → F → SolidGeometry F → Vertex F) (R : Area F) (c : F)
    (area : Area F) (sdf : SolidGeometry F) (st : VertexStore F × Registry) :
    st.1.SharedKept (GridNode.createS newVertex R c area sdf st).2.1 := by
  unfold GridNode.createS runInits
  simp only
  exact runInits_fold_sharedKept _ ([], st)

theorem GridNode.mergeS_leaf_sharedKept {F : Type} [FloatOps F]
    (newVertex : Vector3 F → Nat → F → SolidGeometry F → Vertex F)
    (normalise : Vector3 F → Vector3 F) (R : Area F) (c : F) (area : Area F)
    (sdf : SolidGeometry F) (g : GridNode Nat) (st : VertexStore F × Registry) :
    st.1.SharedKept (g.mergeS newVertex normalise R c area sdf st).2.1 := by
  unfold GridNode.mergeS GridNode.merge
  simp only [computeEdgesIgnoring_signs]
  exact rebuildS_sharedKept newVertex true normalise R c area sdf _ _ g.m_SurfaceEdges st

theorem GridNode.intersectS_leaf_sharedKept {F : Type} [FloatOps F]
    (newVertex : Vector3 F → Nat → F → SolidGeometry F → Vertex F)
    (normalise : Vector3 F → Vector3 F) (R : Area F) (c : F) (area : Area F)
    (sdf : SolidGeometry F) (g : GridNode Nat) (st : VertexStore F × Registry) :
    st.1.SharedKept (g.intersectS newVertex normalise R c area sdf st).2.1 := by
  unfold GridNode.intersectS GridNode.intersect
  simp only [computeEdgesIgnoring_signs]
  exact rebuildS_sharedKept newVertex false normalise R c area sdf _ _ g.m_SurfaceEdges st

theorem createNodeS_sharedKept {F : Type} [FloatOps F]
    (newVertex : Vector3 F → Nat → F → SolidGeometry F → Vertex F) (R : Area F) (c : F)
    (sdf : SolidGeometry F) (area : Area F) :
    ∀ st : VertexStore F × Registry,
      st.1.SharedKept (createNodeS newVertex R c sdf area st).2.1 := by
  induction area using area_induction with
  | step a ih =>
    intro st
    by_cases hn : sdf.cubeNeedsSubdivision a = true
    · by_cases he : a.m_SizeExpo ≤ LEAF_EXPO
      · rw [createNodeS_grid newVertex R c sdf a st he hn]
        dsimp only
        exact GridNode.createS_sharedKept newVertex R c a sdf st
      · rw [createNodeS_inner newVertex R c sdf a st he hn]
        dsimp only
        exact threadChildren_sharedKept
          (fun i st2 => createNodeS newVertex R c sdf (a.getSubAreas i) st2)
          (fun i st2 => ih (by omega) i st2) st
    · have hn2 : sdf.cubeNeedsSubdivision a = false := by
        cases h : sdf.cubeNeedsSubdivision a
        · rfl
        · exact absurd h hn
      rw [createNodeS_empty newVertex R c sdf a st hn2]
      exact VertexStore.SharedKept.unmoved _

theorem mergeS_sharedKept {F : Type} [FloatOps F]
    (newVertex : Vector3 F → Nat → F → SolidGeometry F → Vertex F)
    (normalise : Vector3 F → Vector3 F) (R : Area F) (c : F) (sdf : SolidGeometry F)
    (n : Node Nat) :
    ∀ (area : Area F) (st : VertexStore F × Registry),
      st.1.SharedKept (mergeS newVertex normalise R c sdf n area st).2.1 := by
  induction n with
  | inner ch ih =>
    intro area st
    unfold mergeS
    by_cases h1 : sdf.cubeNeedsSubdivision area = true
    · rw [if_pos h1]
      dsimp only
      exact threadChildren_sharedKept
        (fun i st2 => mergeS newVertex normalise R c sdf (ch i) (area.getSubAreas i) st2)
        (fun i st2 => ih i _ st2) st
    · rw [if_neg h1]
      by_cases h2 : (!sdf.getSign (area.getCornerVecs 0).2) = true
      · rw [if_pos h2]
        exact VertexStore.SharedKept.unmoved _
      · rw [if_neg h2]
        exact (Node.deleteS_sharedKept (Node.inner ch) st.1).chain
          (createNodeS_sharedKept newVertex R c sdf area ((Node.inner ch).deleteS st.1, st.2))
  | empty b =>
    intro area st
    unfold mergeS
    by_cases h1 : (!sdf.cubeNeedsSubdivision area) = true
    · rw [if_pos h1]
      by_cases h2 : (!sdf.getSign (area.getCornerVecs 0).2) = true
      · rw [if_pos h2]
        exact VertexStore.SharedKept.unmoved _
      · rw [if_neg h2]
        exact createNodeS_sharedKept newVertex R c sdf area st
    · rw [if_neg h1]
      by_cases h2 : b = true
      · rw [if_pos h2]
        exact VertexStore.SharedKept.unmoved _
      · rw [if_neg h2]
        exact createNodeS_sharedKept newVertex R c sdf area st
  | grid g =>
    intro area st
    unfold mergeS
    by_cases h1 : (!sdf.cubeNeedsSubdivision area) = true
    · rw [if_pos h1]
      by_cases h2 : (!sdf.getSign (area.getCornerVecs 0).2) = true
      · rw [if_pos h2]
        exact VertexStore.SharedKept.unmoved _
      · rw [if_neg h2]
        exact (Node.deleteS_sharedKept (Node.grid g) st.1).chain
          (createNodeS_sharedKept newVertex R c sdf area ((Node.grid g).deleteS st.1, st.2))
    · rw [if_neg h1]
      dsimp only
      exact GridNode.mergeS_leaf_sharedKept newVertex normalise R c area sdf g st

theorem intersectS_sharedKept {F : Type} [FloatOps F]
    (newVertex : Vector3 F → Nat → F → SolidGeometry F → Vertex F)
    (normalise : Vector3 F → Vector3 F) (R : Area F) (c : F) (sdf : SolidGeometry F)
    (n : Node Nat) :
    ∀ (area : Area F) (st : VertexStore F × Registry),
      st.1.SharedKept (intersectS newVertex normalise R c sdf n area st).2.1 := by
  induction n with
  | inner ch ih =>
    intro area st
    unfold intersectS
    by_cases h1 : sdf.cubeNeedsSubdivision area = true
    · rw [if_pos h1]
      dsimp only
      exact threadChildren_sharedKept
        (fun i st2 => intersectS newVertex normalise R c sdf (ch i) (area.getSubAreas i) st2)
        (fun i st2 => ih i _ st2) st
    · rw [if_neg h1]
      by_cases h2 : sdf.getSign (area.getCornerVecs 0).2 = true
      · rw [if_pos h2]
        exact VertexStore.SharedKept.unmoved _
      · rw [if_neg h2]
        exact Node.deleteS_sharedKept (Node.inner ch) st.1
  | empty b =>
    intro area st
    unfold intersectS
    by_cases h1 : (!sdf.cubeNeedsSubdivision area) = true
    · rw [if_pos h1]
      by_cases h2 : sdf.getSign (area.getCornerVecs 0).2 = true
      · rw [if_pos h2]
        exact VertexStore.SharedKept.unmoved _
      · rw [if_neg h2]
        exact VertexStore.SharedKept.unmoved _
    · rw [if_neg h1]
      by_cases h2 : (!b) = true
      · rw [if_pos h2]
        exact VertexStore.SharedKept.unmoved _
      · rw [if_neg h2]
        exact createNodeS_sharedKept newVertex R c sdf area st
  | grid g =>
    intro area st
    unfold intersectS
    by_cases h1 : (!sdf.cubeNeedsSubdivision area) = true
    · rw [if_pos h1]
      by_cases h2 : sdf.getSign (area.getCornerVecs 0).2 = true
      · rw [if_pos h2]
        exact VertexStore.SharedKept.unmoved _
      · rw [if_neg h2]
        exact Node.deleteS_sharedKept (Node.grid g) st.1
    · rw [if_neg h1]
      dsimp only
      exact GridNode.intersectS_leaf_sharedKept newVertex normalise R c area sdf g st

theorem sampleSDFS_sharedKept {F : Type} [FloatOps F]
    (newVertex : Vector3 F → Nat → F → SolidGeometry F → Vertex F) (sdf : SolidGeometry F)
    (aabb : AABB F) (maxDepth : Int) (store : VertexStore F) :
    store.SharedKept (sampleSDFS newVertex sdf aabb maxDepth store).2 := by
  unfold sampleSDFS
  dsimp only
  exact createNodeS_sharedKept newVertex _ _ sdf _ (store, Registry.empty)

theorem Tree.mergeS_tree_sharedKept {F : Type} [FloatOps F]
    (newVertex : Vector3 F → Nat → F → SolidGeometry F → Vertex F)
    (normalise : Vector3 F → Vector3 F) (t : Tree F Nat) (sdf : SolidGeometry F)
    (store : VertexStore F) :
    store.SharedKept (t.mergeS newVertex normalise sdf store).2 := by
  unfold Tree.mergeS
  dsimp only
  exact OctreeSF.mergeS_sharedKept newVertex normalise _ _ sdf _ _ (store, Registry.empty)

theorem Tree.intersectS_tree_sharedKept {F : Type} [FloatOps F]
    (newVertex : Vector3 F → Nat → F → SolidGeometry F → Vertex F)
    (normalise : Vector3 F → Vector3 F) (t : Tree F Nat) (sdf : SolidGeometry F)
    (store : VertexStore F) :
    store.SharedKept (t.intersectS newVertex normalise sdf store).2 := by
  unfold Tree.intersectS
  dsimp only
  exact OctreeSF.intersectS_sharedKept newVertex normalise _ _ sdf _ _ (store, Registry.empty)

theorem Tree.subtractS_sharedKept {F : Type} [FloatOps F]
    (newVertex : Vector3 F → Nat → F → SolidGeometry F → Vertex F)
    (normalise : Vector3 F → Vector3 F) (t : Tree F Nat) (sdf : SolidGeometry F)
    (store : VertexStore F) :
    store.SharedKept (t.subtractS newVertex normalise sdf store).2 := by
  unfold Tree.subtractS
  dsimp only
  exact OctreeSF.intersectS_sharedKept newVertex normalise _ _ (OpInvertSDF sdf) _ _
    (store, Registry.empty)

theorem Tree.cloneS_sharedKept {F : Type} (t : Tree F Nat) (store : VertexStore F) :
    store.SharedKept (t.cloneS store).2 := by
  unfold Tree.cloneS
  rw [Node.cloneS_eq]
  exact VertexStore.addRefs_sharedKept _ _

/-- No operation on any tree changes the `shared` flag of an object that exists or takes a
pointer back: the step `other` of `Tree.BuiltS` covers the work on other trees. -/
theorem World.step_sharedKept {F : Type} [FloatOps F]
    (newVertex : Vector3 F → Nat → F → SolidGeometry F → Vertex F)
    (normalise : Vector3 F → Vector3 F) (w : World F) (cmd : Command F) :
    w.store.SharedKept (w.step newVertex normalise cmd).store := by
  cases cmd with
  | sample sdf aabb maxDepth =>
    simp only [World.step]
    exact sampleSDFS_sharedKept newVertex sdf aabb maxDepth w.store
  | clone i =>
    simp only [World.step]
    cases w.trees.get? i with
    | none => exact VertexStore.SharedKept.unmoved _
    | some t =>
      simp only
      exact Tree.cloneS_sharedKept t w.store
  | merge i sdf =>
    simp only [World.step]
    cases w.trees.get? i with
    | none => exact VertexStore.SharedKept.unmoved _
    | some t =>
      simp only
      exact Tree.mergeS_tree_sharedKept newVertex normalise t sdf w.store
  | intersect i sdf =>
    simp only [World.step]
    cases w.trees.get? i with
    | none => exact VertexStore.SharedKept.unmoved _
    | some t =>
      simp only
      exact Tree.intersectS_tree_sharedKept newVertex normalise t sdf w.store
  | subtract i sdf =>
    simp only [World.step]
    cases w.trees.get? i with
    | none => exact VertexStore.SharedKept.unmoved _
    | some t =>
      simp only
      exact Tree.subtractS_sharedKept newVertex normalise t sdf w.store

/-! ## The dense band and its union -/

theorem threadChildren_child1 {σ β : Type} (f : Fin 8 → σ → β × σ) (st : σ) :
    (threadChildren f st).1 1 = (f 1 (f 0 st).2).1 := rfl

theorem threadChildren_child0_of {σ β : Type} (f : Fin 8 → σ → β × σ) (st : σ) (g0 : β)
    (s0 : σ) (h0 : f 0 st = (g0, s0)) : (threadChildren f st).1 0 = g0 := by
  rw [threadChildren_child0, h0]

theorem threadChildren_child1_of {σ β : Type} (f : Fin 8 → σ → β × σ) (st : σ) (g0 : β)
    (s0 : σ) (h0 : f 0 st = (g0, s0)) (g1 : β) (s1 : σ) (h1 : f 1 s0 = (g1, s1)) :
    (threadChildren f st).1 1 = g1 := by
  rw [threadChildren_child1, h0, h1]

theorem Tree.applyOpS_merge {F : Type} [FloatOps F]
    (newVertex : Vector3 F → Nat → F → SolidGeometry F → Vertex F)
    (normalise : Vector3 F → Vector3 F) (t : Tree F Nat) (store : VertexStore F)
    (s : SolidGeometry F) :
    t.applyOpS newVertex normalise store (CsgOp.merge s) = t.mergeS newVertex normalise s store :=
  rfl

theorem mergeS_grid_rebuild {F : Type} [FloatOps F]
    (newVertex : Vector3 F → Nat → F → SolidGeometry F → Vertex F)
    (normalise : Vector3 F → Vector3 F) (R : Area F) (c : F) (sdf : SolidGeometry F)
    (g : GridNode Nat) (area : Area F) (st : VertexStore F × Registry)
    (hn : sdf.cubeNeedsSubdivision area = true) :
    mergeS newVertex normalise R c sdf (Node.grid g) area st
      = (Node.grid (g.mergeS newVertex normalise R c area sdf st).1,
          (g.mergeS newVertex normalise R c area sdf st).2) := by
  unfold mergeS
  rw [hn]
  simp only [Bool.not_true, Bool.false_eq_true, if_false]

theorem GridNode.createS_coherent {F : Type} [FloatOps F]
    (newVertex : Vector3 F → Nat → F → SolidGeometry F → Vertex F) (R : Area F) (c : F)
    (area : Area F) (sdf : SolidGeometry F) (st : VertexStore F × Registry) :
    SignCoherent (GridNode.createS newVertex R c area sdf st).1 :=
  signCoherent_runInits _ (GridNode.create_coherent (initCalls newVertex) R c area sdf) st

theorem GridNode.mergeS_coherent {F : Type} [FloatOps F]
    (newVertex : Vector3 F → Nat → F → SolidGeometry F → Vertex F)
    (normalise : Vector3 F → Vector3 F) (R : Area F) (c : F) (area : Area F)
    (sdf : SolidGeometry F) (g : GridNode Nat) (st : VertexStore F × Registry)
    (hc : SignCoherent g) : SignCoherent (g.mergeS newVertex normalise R c area sdf st).1 := by
  have hwf2 : ∀ e, e ∈ (withExisting g.m_SurfaceEdges : List (SurfaceEdge (VertexRef F))) →
      IsLatticeEdge e.direction e.edgeIndex1
        ∧ e.edgeIndex2 = e.edgeIndex1 + stride e.direction := by
    intro e he
    obtain ⟨o, ho, _, hd, hi1, hi2⟩ := mem_withExisting g.m_SurfaceEdges e he
    rw [hd, hi1, hi2]
    exact hc.wellFormed o ho
  have huniq2 : ∀ d i, IsLatticeEdge d i →
      edgeCount (withExisting g.m_SurfaceEdges : List (SurfaceEdge (VertexRef F))) d i ≤ 1 := by
    intro d i hl
    rw [edgeCount_withExisting]
    exact hc.count_le_one d i hl
  unfold GridNode.mergeS GridNode.merge
  simp only [computeEdgesIgnoring_signs]
  have hcoh := rebuild_coherent (initCalls newVertex) R c area sdf
    (forLoop LEAF_SIZE_3D
      (fun i s => s.set i (s.get i || (computeSigns R c area sdf SignArray.blank).get i))
      g.m_Signs)
    (withExisting g.m_SurfaceEdges : List (SurfaceEdge (VertexRef F))) hwf2 huniq2
  have hco2 := signCoherent_runInits _ hcoh
    (g.m_SurfaceEdges.foldl
      (fun s i => keepOrRelease true normalise R c area sdf
        (forLoop LEAF_SIZE_3D
          (fun i s => s.set i (s.get i || (computeSigns R c area sdf SignArray.blank).get i))
          g.m_Signs)
        (computeSigns R c area sdf SignArray.blank) i s) st.1, st.2)
  rw [computeEdgesIgnoring_signs] at hco2
  exact hco2

/-- A leaf after a union holds a record for every lattice edge that crosses under its
signs. -/
theorem GridNode.mergeS_has_record {F : Type} [FloatOps F]
    (newVertex : Vector3 F → Nat → F → SolidGeometry F → Vertex F)
    (normalise : Vector3 F → Vector3 F) (R : Area F) (c : F) (area : Area F)
    (sdf : SolidGeometry F) (g : GridNode Nat) (st : VertexStore F × Registry)
    (hc : SignCoherent g) (d i : Nat) (hl : IsLatticeEdge d i)
    (hcr : crossing (g.mergeS newVertex normalise R c area sdf st).1.m_Signs d i = true) :
    ∃ e, e ∈ (g.mergeS newVertex normalise R c area sdf st).1.m_SurfaceEdges
      ∧ e.direction = d ∧ e.edgeIndex1 = i := by
  have h1 := (GridNode.mergeS_coherent newVertex normalise R c area sdf g st hc).count d i hl
  rw [if_pos hcr] at h1
  unfold edgeCount at h1
  have h2 : 0 < List.countP (fun e => decide (e.direction = d ∧ e.edgeIndex1 = i))
      (g.mergeS newVertex normalise R c area sdf st).1.m_SurfaceEdges := by omega
  obtain ⟨e, he, hp⟩ := List.countP_pos_iff.mp h2
  simp only [decide_eq_true_eq] at hp
  exact ⟨e, he, hp.1, hp.2⟩

theorem sampleSDFS_exampleBox (sdf : SolidGeometry ℚ) (store : VertexStore ℚ) :
    sampleSDFS exampleNewVertex sdf exampleBox 4 store
      = (⟨(createNodeS exampleNewVertex exampleRootArea (1 / 2) sdf exampleRootArea
            (store, Registry.empty)).1, exampleRootArea, 1 / 2⟩,
          (createNodeS exampleNewVertex exampleRootArea (1 / 2) sdf exampleRootArea
            (store, Registry.empty)).2.1) := by
  have hR : (⟨⟨0, 0, 0⟩, 4, exampleBox.min,
      FloatOps.max (FloatOps.max (exampleBox.max.sub exampleBox.min).x
        (exampleBox.max.sub exampleBox.min).y) (exampleBox.max.sub exampleBox.min).z⟩ : Area ℚ)
      = exampleRootArea := by
    unfold exampleRootArea exampleBox
    simp only [Vector3.sub, rat_max, rat_sub]
    norm_num
  have hc : FloatOps.div
      (FloatOps.max (FloatOps.max (exampleBox.max.sub exampleBox.min).x
        (exampleBox.max.sub exampleBox.min).y) (exampleBox.max.sub exampleBox.min).z)
      (FloatOps.ofInt (shl1 4)) = (1 / 2 : ℚ) := by
    have h16 : shl1 4 = 16 := by decide
    unfold exampleBox
    simp only [Vector3.sub, rat_max, rat_sub, rat_div, rat_ofInt, h16]
    norm_num
  unfold sampleSDFS
  simp only
  rw [hR, hc]

theorem exampleBandDense_conservative (R : Area ℚ) (c : ℚ) :
    Conservative R c exampleBandDense :=
  fun _ _ h => Bool.noConfusion h

theorem exampleDenseSampled_root :
    exampleDenseSampled.1.m_RootNode
      = Node.inner (threadChildren (fun i st2 =>
          createNodeS exampleNewVertex exampleRootArea (1 / 2) exampleBandDense
            (exampleRootArea.getSubAreas i) st2) (exampleEmptyStore, Registry.empty)).1
    ∧ exampleDenseSampled.2
      = (threadChildren (fun i st2 =>
          createNodeS exampleNewVertex exampleRootArea (1 / 2) exampleBandDense
            (exampleRootArea.getSubAreas i) st2) (exampleEmptyStore, Registry.empty)).2.1 := by
  have he : ¬ exampleRootArea.m_SizeExpo ≤ (LEAF_EXPO : Int) := by
    show ¬ ((4 : Int) ≤ (LEAF_EXPO : Int))
    decide
  have hn : exampleBandDense.cubeNeedsSubdivision exampleRootArea = true := rfl
  exact tree_root_of_eq _ _ _ exampleRootArea (1 / 2) exampleDenseSampled
    (createNodeS_inner exampleNewVertex exampleRootArea (1 / 2) exampleBandDense
      exampleRootArea (exampleEmptyStore, Registry.empty) he hn)
    (sampleSDFS_exampleBox exampleBandDense exampleEmptyStore)

theorem exampleDenseSampled_fields :
    exampleDenseSampled.1.m_RootArea = exampleRootArea
      ∧ exampleDenseSampled.1.m_CellSize = 1 / 2 :=
  sampled_fields_of_eq _ _ _ _ _ (sampleSDFS_exampleBox exampleBandDense exampleEmptyStore)

theorem exampleDenseSampled_child0 :
    (threadChildren (fun i st2 =>
        createNodeS exampleNewVertex exampleRootArea (1 / 2) exampleBandDense
          (exampleRootArea.getSubAreas i) st2) (exampleEmptyStore, Registry.empty)).1 0
      = Node.grid (GridNode.createS exampleNewVertex exampleRootArea (1 / 2)
          (exampleRootArea.getSubAreas 0) exampleBandDense
          (exampleEmptyStore, Registry.empty)).1 :=
  threadChildren_child0_of _ _ _ _
    (createNodeS_grid exampleNewVertex exampleRootArea (1 / 2) exampleBandDense
      (exampleRootArea.getSubAreas 0) (exampleEmptyStore, Registry.empty) (by decide) rfl)

theorem exampleDenseSampled_child1 :
    (threadChildren (fun i st2 =>
        createNodeS exampleNewVertex exampleRootArea (1 / 2) exampleBandDense
          (exampleRootArea.getSubAreas i) st2) (exampleEmptyStore, Registry.empty)).1 1
      = Node.grid (GridNode.createS exampleNewVertex exampleRootArea (1 / 2)
          (exampleRootArea.getSubAreas 1) exampleBandDense
          (GridNode.createS exampleNewVertex exampleRootArea (1 / 2)
            (exampleRootArea.getSubAreas 0) exampleBandDense
            (exampleEmptyStore, Registry.empty)).2).1 :=
  threadChildren_child1_of _ _ _ _
    (createNodeS_grid exampleNewVertex exampleRootArea (1 / 2) exampleBandDense
      (exampleRootArea.getSubAreas 0) (exampleEmptyStore, Registry.empty) (by decide) rfl)
    _ _
    (createNodeS_grid exampleNewVertex exampleRootArea (1 / 2) exampleBandDense
      (exampleRootArea.getSubAreas 1)
      (GridNode.createS exampleNewVertex exampleRootArea (1 / 2)
        (exampleRootArea.getSubAreas 0) exampleBandDense
        (exampleEmptyStore, Registry.empty)).2 (by decide) rfl)

theorem exampleDenseMerged_eq :
    exampleDenseMerged
      = exampleDenseSampled.1.mergeS exampleNewVertex (fun v => v) exampleBandDense
          exampleDenseSampled.2 :=
  Tree.applyOpS_merge _ _ _ _ _

theorem Tree.mergeS_rootArea {F : Type} [FloatOps F]
    (newVertex : Vector3 F → Nat → F → SolidGeometry F → Vertex F)
    (normalise : Vector3 F → Vector3 F) (t : Tree F Nat) (sdf : SolidGeometry F)
    (store : VertexStore F) :
    (t.mergeS newVertex normalise sdf store).1.m_RootArea = t.m_RootArea := rfl

theorem exampleDenseMerged_root :
    exampleDenseMerged.1.m_RootNode
      = Node.inner (threadChildren (fun i st2 =>
          mergeS exampleNewVertex (fun v => v) exampleRootArea (1 / 2) exampleBandDense
            ((threadChildren (fun i st2 =>
              createNodeS exampleNewVertex exampleRootArea (1 / 2) exampleBandDense
                (exampleRootArea.getSubAreas i) st2) (exampleEmptyStore, Registry.empty)).1 i)
            (exampleRootArea.getSubAreas i) st2) (exampleDenseSampled.2, Registry.empty)).1
      ∧ exampleDenseMerged.1.m_RootArea = exampleRootArea := by
  have h := Tree.mergeS_root_inner exampleNewVertex (fun v => v) exampleDenseSampled.1
    exampleBandDense exampleDenseSampled.2 _ exampleDenseSampled_root.1
    (by
      rw [exampleDenseSampled_fields.1]
      rfl)
  rw [exampleDenseSampled_fields.1, exampleDenseSampled_fields.2] at h
  rw [exampleDenseMerged_eq]
  refine ⟨h, ?_⟩
  rw [Tree.mergeS_rootArea]
  exact exampleDenseSampled_fields.1

theorem exampleBandDense_sign (p : Vector3i) :
    exampleBandDense.getSign (getRealPos exampleRootArea (1 / 2) p)
      = decide (1 ≤ p.y ∧ p.y ≤ 2) :=
  exampleBand_sign p

/-- After the union with the dense band, a leaf that held the signs of the band has a
record of direction `y` with local lower endpoint index `i` whenever the lower endpoint
has `y = 0`. -/
theorem exampleDense_record (g : GridNode Nat) (area : Area ℚ) (st : VertexStore ℚ × Registry)
    (hc : SignCoherent g)
    (hg : ∀ j, j < LEAF_SIZE_3D → g.m_Signs.get j
      = exampleBandDense.getSign (getRealPos exampleRootArea (1 / 2)
          (area.m_MinPos + fromIndex j)))
    (i : Nat) (hl : IsLatticeEdge 1 i)
    (h0 : (area.m_MinPos + fromIndex i).y = 0)
    (h1 : (area.m_MinPos + fromIndex (i + stride 1)).y = 1) :
    ∃ e, e ∈ (g.mergeS exampleNewVertex (fun v => v) exampleRootArea (1 / 2) area
        exampleBandDense st).1.m_SurfaceEdges
      ∧ e.direction = 1 ∧ e.edgeIndex1 = i := by
  refine GridNode.mergeS_has_record exampleNewVertex (fun v => v) exampleRootArea (1 / 2) area
    exampleBandDense g st hc 1 i hl ?_
  have hi2 := latticeEdge_upper_lt 1 i hl
  unfold crossing
  rw [GridNode.mergeS_signs _ _ _ _ _ _ _ _ _ hl.2.1, GridNode.mergeS_signs _ _ _ _ _ _ _ _ _ hi2,
    hg i hl.2.1, hg _ hi2, exampleBandDense_sign, exampleBandDense_sign, h0, h1]
  decide

theorem GridNode.createS_get {F : Type} [FloatOps F]
    (newVertex : Vector3 F → Nat → F → SolidGeometry F → Vertex F) (R : Area F) (c : F)
    (area : Area F) (sdf : SolidGeometry F) (st : VertexStore F × Registry) (j : Nat)
    (hj : j < LEAF_SIZE_3D) :
    (GridNode.createS newVertex R c area sdf st).1.m_Signs.get j
      = sdf.getSign (getRealPos R c (area.m_MinPos + fromIndex j)) := by
  rw [GridNode.createS_signs, computeSigns_get R c area sdf _ j hj]

/-- The two leaves of `exampleDenseMerged` at `(0, 0, 0)` and `(0, 0, 8)`. -/
theorem exampleDenseMerged_leaves :
    exampleDenseMerged.1.m_RootNode.HasGridLeaf
        ((GridNode.createS exampleNewVertex exampleRootArea (1 / 2)
          (exampleRootArea.getSubAreas 0) exampleBandDense
          (exampleEmptyStore, Registry.empty)).1.mergeS exampleNewVertex (fun v => v)
            exampleRootArea (1 / 2) (exampleRootArea.getSubAreas 0) exampleBandDense
            (exampleDenseSampled.2, Registry.empty)).1
        (exampleRootArea.getSubAreas 0) exampleDenseMerged.1.m_RootArea
      ∧ exampleDenseMerged.1.m_RootNode.HasGridLeaf
        ((GridNode.createS exampleNewVertex exampleRootArea (1 / 2)
          (exampleRootArea.getSubAreas 1) exampleBandDense
          (GridNode.createS exampleNewVertex exampleRootArea (1 / 2)
            (exampleRootArea.getSubAreas 0) exampleBandDense
            (exampleEmptyStore, Registry.empty)).2).1.mergeS exampleNewVertex (fun v => v)
            exampleRootArea (1 / 2) (exampleRootArea.getSubAreas 1) exampleBandDense
            ((GridNode.createS exampleNewVertex exampleRootArea (1 / 2)
              (exampleRootArea.getSubAreas 0) exampleBandDense
              (exampleEmptyStore, Registry.empty)).1.mergeS exampleNewVertex (fun v => v)
                exampleRootArea (1 / 2) (exampleRootArea.getSubAreas 0) exampleBandDense
                (exampleDenseSampled.2, Registry.empty)).2).1
        (exampleRootArea.getSubAreas 1) exampleDenseMerged.1.m_RootArea := by
  have h0 : (fun (i : Fin 8) (st2 : VertexStore ℚ × Registry) =>
      mergeS exampleNewVertex (fun v => v) exampleRootArea (1 / 2) exampleBandDense
        ((threadChildren (fun i st2 =>
          createNodeS exampleNewVertex exampleRootArea (1 / 2) exampleBandDense
            (exampleRootArea.getSubAreas i) st2) (exampleEmptyStore, Registry.empty)).1 i)
        (exampleRootArea.getSubAreas i) st2) 0 (exampleDenseSampled.2, Registry.empty)
      = (Node.grid ((GridNode.createS exampleNewVertex exampleRootArea (1 / 2)
          (exampleRootArea.getSubAreas 0) exampleBandDense
          (exampleEmptyStore, Registry.empty)).1.mergeS exampleNewVertex (fun v => v)
            exampleRootArea (1 / 2) (exampleRootArea.getSubAreas 0) exampleBandDense
            (exampleDenseSampled.2, Registry.empty)).1,
        ((GridNode.createS exampleNewVertex exampleRootArea (1 / 2)
          (exampleRootArea.getSubAreas 0) exampleBandDense
          (exampleEmptyStore, Registry.empty)).1.mergeS exampleNewVertex (fun v => v)
            exampleRootArea (1 / 2) (exampleRootArea.getSubAreas 0) exampleBandDense
            (exampleDenseSampled.2, Registry.empty)).2) := by
    dsimp only
    rw [exampleDenseSampled_child0]
    exact mergeS_grid_rebuild _ _ _ _ _ _ _ _ rfl
  have h1 : (fun (i : Fin 8) (st2 : VertexStore ℚ × Registry) =>
      mergeS exampleNewVertex (fun v => v) exampleRootArea (1 / 2) exampleBandDense
        ((threadChildren (fun i st2 =>
          createNodeS exampleNewVertex exampleRootArea (1 / 2) exampleBandDense
            (exampleRootArea.getSubAreas i) st2) (exampleEmptyStore, Registry.empty)).1 i)
        (exampleRootArea.getSubAreas i) st2) 1
        ((GridNode.createS exampleNewVertex exampleRootArea (1 / 2)
          (exampleRootArea.getSubAreas 0) exampleBandDense
          (exampleEmptyStore, Registry.empty)).1.mergeS exampleNewVertex (fun v => v)
            exampleRootArea (1 / 2) (exampleRootArea.getSubAreas 0) exampleBandDense
            (exampleDenseSampled.2, Registry.empty)).2
      = (Node.grid ((GridNode.createS exampleNewVertex exampleRootArea (1 / 2)
          (exampleRootArea.getSubAreas 1) exampleBandDense
          (GridNode.createS exampleNewVertex exampleRootArea (1 / 2)
            (exampleRootArea.getSubAreas 0) exampleBandDense
            (exampleEmptyStore, Registry.empty)).2).1.mergeS exampleNewVertex (fun v => v)
            exampleRootArea (1 / 2) (exampleRootArea.getSubAreas 1) exampleBandDense
            ((GridNode.createS exampleNewVertex exampleRootArea (1 / 2)
              (exampleRootArea.getSubAreas 0) exampleBandDense
              (exampleEmptyStore, Registry.empty)).1.mergeS exampleNewVertex (fun v => v)
                exampleRootArea (1 / 2) (exampleRootArea.getSubAreas 0) exampleBandDense
                (exampleDenseSampled.2, Registry.empty)).2).1,
        ((GridNode.createS exampleNewVertex exampleRootArea (1 / 2)
          (exampleRootArea.getSubAreas 1) exampleBandDense
          (GridNode.createS exampleNewVertex exampleRootArea (1 / 2)
            (exampleRootArea.getSubAreas 0) exampleBandDense
            (exampleEmptyStore, Registry.empty)).2).1.mergeS exampleNewVertex (fun v => v)
            exampleRootArea (1 / 2) (exampleRootArea.getSubAreas 1) exampleBandDense
            ((GridNode.createS exampleNewVertex exampleRootArea (1 / 2)
              (exampleRootArea.getSubAreas 0) exampleBandDense
              (exampleEmptyStore, Registry.empty)).1.mergeS exampleNewVertex (fun v => v)
                exampleRootArea (1 / 2) (exampleRootArea.getSubAreas 0) exampleBandDense
                (exampleDenseSampled.2, Registry.empty)).2).2) := by
    dsimp only
    rw [exampleDenseSampled_child1]
    exact mergeS_grid_rebuild _ _ _ _ _ _ _ _ rfl
  rw [exampleDenseMerged_root.2]
  exact ⟨hasGridLeaf_of_root _ _ 0 _ exampleRootArea exampleDenseMerged_root.1
      (threadChildren_child0_of _ _ _ _ h0),
    hasGridLeaf_of_root _ _ 1 _ exampleRootArea exampleDenseMerged_root.1
      (threadChildren_child1_of _ _ _ _ h0 _ _ h1)⟩

theorem exampleDenseMerged_built :
    Tree.BuiltS exampleNewVertex (fun v => v) exampleDenseMerged.1 exampleDenseMerged.2 :=
  Tree.BuiltS.op exampleDenseSampled.1 exampleDenseSampled.2 (CsgOp.merge exampleBandDense)
    (Tree.BuiltS.sample exampleBandDense exampleBox 4 exampleEmptyStore (by decide)
      (exampleBandDense_conservative _ _))
    (exampleBandDense_conservative _ _)

/-! ## The claims -/

/-- C1: tree-level union.  For a tree `T` built by `sampleSDF` with root exponent at least
`LEAF_EXPO` and a solid `s` whose `cubeNeedsSubdivision` is conservative on the areas of
`T`, the signs stored after `T.merge(s)` are the old signs combined by OR with the sign of
`s` at the real position of the lattice point. -/
theorem merge_tree_signs {F SV : Type} [FloatOps F] (vs : VertexSource F SV)
    (solid : SolidGeometry F) (box : AABB F) (maxDepth : Int) (s : SolidGeometry F)
    (hdepth : (LEAF_EXPO : Int) ≤ maxDepth)
    (hs : Conservative (sampleSDF vs solid box maxDepth).m_RootArea
      (sampleSDF vs solid box maxDepth).m_CellSize s) :
    Tree.SignsAreUnion (sampleSDF vs solid box maxDepth)
      ((sampleSDF vs solid box maxDepth).merge vs s) s := by
  have hw : (sampleSDF vs solid box maxDepth).m_RootNode.WellFormed
      (sampleSDF vs solid box maxDepth).m_RootArea :=
    createNode_wellFormed vs _ _ solid _ hdepth
  exact ⟨fun p b2 h => merge_storesSign_sound vs _ _ s hs _ _ SubAreaOf.refl hw p b2 h,
    fun p b h => merge_storesSign_complete vs _ _ s hs _ _ SubAreaOf.refl hw p b h⟩

/-- Witness for C1: the half space sampled at depth 4 over `[0, 8]³`, united with the solid
that fills all of space. -/
theorem merge_tree_signs_witness :
    (LEAF_EXPO : Int) ≤ 4
    ∧ Conservative (sampleSDF exampleVertices exampleHalfSpace exampleBox 4).m_RootArea
        (sampleSDF exampleVertices exampleHalfSpace exampleBox 4).m_CellSize exampleFullSpace
    ∧ Tree.SignsAreUnion (sampleSDF exampleVertices exampleHalfSpace exampleBox 4)
        ((sampleSDF exampleVertices exampleHalfSpace exampleBox 4).merge exampleVertices
          exampleFullSpace) exampleFullSpace :=
  ⟨by decide, fun _ _ _ => ⟨fun _ _ => rfl, rfl⟩,
    merge_tree_signs exampleVertices exampleHalfSpace exampleBox 4 exampleFullSpace (by decide)
      (fun _ _ _ => ⟨fun _ _ => rfl, rfl⟩)⟩

/-- C2: leaf union signs.  After `GridNode::merge` the sign at every lattice index `i` is
the old sign OR the sign of the solid at the real position of `area.m_MinPos + fromIndex i`;
in terms of the sampling loop, entry `x·S² + y·S + z` is combined with the sign at
`area.m_MinPos + (x, y, z)`. -/
theorem gridNode_merge_signs {F SV : Type} [FloatOps F] (vs : VertexSource F SV)
    (R : Area F) (c : F) (area : Area F) (s : SolidGeometry F) (g : GridNode SV) :
    (∀ i : Fin LEAF_SIZE_3D,
      (g.merge vs R c area s).m_Signs.entry i
        = (g.m_Signs.entry i || s.getSign (getRealPos R c (area.m_MinPos + fromIndex i.val))))
    ∧ (∀ x y z : Fin LEAF_SIZE_1D,
      (g.merge vs R c area s).m_Signs.get (x.val * LEAF_SIZE_2D + y.val * LEAF_SIZE_1D + z.val)
        = (g.m_Signs.get (x.val * LEAF_SIZE_2D + y.val * LEAF_SIZE_1D + z.val)
            || s.getSign (getRealPos R c (area.m_MinPos + ⟨x.val, y.val, z.val⟩)))) := by
  constructor
  · intro i
    have h := GridNode.merge_get vs R c area s g i.val i.isLt
    rw [SignArray.get_val, SignArray.get_val] at h
    exact h
  · intro x y z
    rw [GridNode.merge_get vs R c area s g _ (linear_lt _ _ _ x.isLt y.isLt z.isLt),
      fromIndex_linear _ _ _ x.isLt y.isLt z.isLt]

/-- C3: leaf intersection signs.  After `GridNode::intersect` the sign at every lattice
index `i` is the old sign AND the sign of the solid at the real position of
`area.m_MinPos + fromIndex i`; entry `x·S² + y·S + z` is combined with the sign at
`area.m_MinPos + (x, y, z)`. -/
theorem gridNode_intersect_signs {F SV : Type} [FloatOps F] (vs : VertexSource F SV)
    (R : Area F) (c : F) (area : Area F) (s : SolidGeometry F) (g : GridNode SV) :
    (∀ i : Fin LEAF_SIZE_3D,
      (g.intersect vs R c area s).m_Signs.entry i
        = (g.m_Signs.entry i && s.getSign (getRealPos R c (area.m_MinPos + fromIndex i.val))))
    ∧ (∀ x y z : Fin LEAF_SIZE_1D,
      (g.intersect vs R c area s).m_Signs.get
          (x.val * LEAF_SIZE_2D + y.val * LEAF_SIZE_1D + z.val)
        = (g.m_Signs.get (x.val * LEAF_SIZE_2D + y.val * LEAF_SIZE_1D + z.val)
            && s.getSign (getRealPos R c (area.m_MinPos + ⟨x.val, y.val, z.val⟩)))) := by
  constructor
  · intro i
    have h := GridNode.intersect_get vs R c area s g i.val i.isLt
    rw [SignArray.get_val, SignArray.get_val] at h
    exact h
  · intro x y z
    rw [GridNode.intersect_get vs R c area s g _ (linear_lt _ _ _ x.isLt y.isLt z.isLt),
      fromIndex_linear _ _ _ x.isLt y.isLt z.isLt]

/-- C4: sign coherence after sampling.  The leaf built by `computeSigns` followed by
`computeEdges` has exactly one record for every lattice edge whose endpoint signs differ,
none for a lattice edge whose endpoint signs are equal, and the endpoint signs of every
record differ. -/
theorem gridNode_create_sign_coherent {F SV : Type} [FloatOps F] (vs : VertexSource F SV)
    (R : Area F) (c : F) (area : Area F) (s : SolidGeometry F) :
    SignCoherent (GridNode.create vs R c area s : GridNode SV)
    ∧ ∀ (d : Fin 3) (x y z : Fin LEAF_SIZE_1D),
        edgeCount (GridNode.create vs R c area s : GridNode SV).m_SurfaceEdges d.val
            (toIndex ⟨x.val, y.val, z.val⟩)
          = if ((⟨x.val, y.val, z.val⟩ : Vector3i) + unitVec d.val).inLeaf
                ∧ (GridNode.create vs R c area s : GridNode SV).m_Signs.get
                    (toIndex ⟨x.val, y.val, z.val⟩)
                  ≠ (GridNode.create vs R c area s : GridNode SV).m_Signs.get
                    (toIndex ((⟨x.val, y.val, z.val⟩ : Vector3i) + unitVec d.val))
            then 1 else 0 := by
  refine ⟨GridNode.create_coherent vs R c area s, ?_⟩
  intro d x y z
  have hstep : toIndex ((⟨x.val, y.val, z.val⟩ : Vector3i) + unitVec d.val)
      = toIndex ⟨x.val, y.val, z.val⟩ + stride d.val := by
    rw [← fromIndex_linear _ _ _ x.isLt y.isLt z.isLt, toIndex_fromIndex_step _ _ d.isLt,
      toIndex_fromIndex]
  rw [hstep, edgeCount_create]
  have hl := linear_lt _ _ _ x.isLt y.isLt z.isLt
  simp only [inLeaf_step _ _ _ _ x.isLt y.isLt z.isLt d.isLt, toIndex_linear, hl, d.isLt,
    true_and, crossing, bne_iff_ne, ne_eq]

/-- C5: sign coherence is preserved by leaf CSG.  For a sign-coherent leaf, the leaf after
`GridNode::merge` and the leaf after `GridNode::intersect` are sign coherent for the
combined signs; the kept records are exactly the old records that still cross, and the
masked edge computation adds exactly one record for every newly crossing lattice edge. -/
theorem leaf_csg_preserves_coherence {F SV : Type} [FloatOps F] (vs : VertexSource F SV)
    (R : Area F) (c : F) (area : Area F) (s : SolidGeometry F) (g : GridNode SV)
    (h : SignCoherent g) :
    LeafRebuilt g (g.merge vs R c area s) ∧ LeafRebuilt g (g.intersect vs R c area s) :=
  ⟨leafRebuilt_of_coherent vs R c area s _ g h, leafRebuilt_of_coherent vs R c area s _ g h⟩

/-- Witness for C5: the leaf sampled from the half space over the area `[0, 8]³`, united and
intersected with the solid that fills all of space. -/
theorem leaf_csg_preserves_coherence_witness :
    SignCoherent (GridNode.create exampleVertices
        (sampleSDF exampleVertices exampleHalfSpace exampleBox 3).m_RootArea 1
        (sampleSDF exampleVertices exampleHalfSpace exampleBox 3).m_RootArea exampleHalfSpace)
    ∧ (LeafRebuilt
        (GridNode.create exampleVertices
          (sampleSDF exampleVertices exampleHalfSpace exampleBox 3).m_RootArea 1
          (sampleSDF exampleVertices exampleHalfSpace exampleBox 3).m_RootArea exampleHalfSpace)
        ((GridNode.create exampleVertices
          (sampleSDF exampleVertices exampleHalfSpace exampleBox 3).m_RootArea 1
          (sampleSDF exampleVertices exampleHalfSpace exampleBox 3).m_RootArea
          exampleHalfSpace).merge exampleVertices
            (sampleSDF exampleVertices exampleHalfSpace exampleBox 3).m_RootArea 1
            (sampleSDF exampleVertices exampleHalfSpace exampleBox 3).m_RootArea
            exampleFullSpace)
      ∧ LeafRebuilt
        (GridNode.create exampleVertices
          (sampleSDF exampleVertices exampleHalfSpace exampleBox 3).m_RootArea 1
          (sampleSDF exampleVertices exampleHalfSpace exampleBox 3).m_RootArea exampleHalfSpace)
        ((GridNode.create exampleVertices
          (sampleSDF exampleVertices exampleHalfSpace exampleBox 3).m_RootArea 1
          (sampleSDF exampleVertices exampleHalfSpace exampleBox 3).m_RootArea
          exampleHalfSpace).intersect exampleVertices
            (sampleSDF exampleVertices exampleHalfSpace exampleBox 3).m_RootArea 1
            (sampleSDF exampleVertices exampleHalfSpace exampleBox 3).m_RootArea
            exampleFullSpace)) :=
  ⟨GridNode.create_coherent _ _ _ _ _,
    leaf_csg_preserves_coherence exampleVertices _ 1 _ exampleFullSpace _
      (GridNode.create_coherent _ _ _ _ _)⟩

/-- C6: tree builder rule.  `createNode(a, s)` is an Empty node with sign
`s.getSign(centre of a)` when `s.cubeNeedsSubdivision(a)` is false; otherwise a Grid leaf
when the exponent of `a` is at most `LEAF_EXPO`; otherwise an Inner node whose child `i`
is `createNode(subAreas(a)[i], s)`. -/
theorem createNode_rule {F SV : Type} [FloatOps F] (vs : VertexSource F SV) (R : Area F)
    (c : F) (s : SolidGeometry F) (a : Area F) :
    (createNode vs R c s a : Node SV)
      = if s.cubeNeedsSubdivision a = false then
          Node.empty (s.getSign a.toAABB.getCenter)
        else if a.m_SizeExpo ≤ LEAF_EXPO then
          Node.grid (GridNode.create vs R c a s)
        else
          Node.inner (fun i => createNode vs R c s (a.getSubAreas i)) :=
  createNode_eq vs R c s a

/-- C7, as stated, fails: sampling the half space with `maxDepth = 0` yields a root that is
a Grid leaf over an area of exponent 0, not `LEAF_EXPO`. -/
theorem sampleSDF_depth_zero_grid_leaf :
    (0 : Int) ≤ 0
    ∧ ¬ (sampleSDF exampleVertices exampleHalfSpace exampleBox 0).m_RootNode.GridLeavesAt
        (fun a => a.m_SizeExpo = LEAF_EXPO)
        (sampleSDF exampleVertices exampleHalfSpace exampleBox 0).m_RootArea := by
  refine ⟨le_refl _, ?_⟩
  have hn := exampleHalfSpace_needs_root 0
  have he : (sampleSDF exampleVertices exampleHalfSpace exampleBox 0).m_RootNode
      = Node.grid (GridNode.create exampleVertices
          (sampleSDF exampleVertices exampleHalfSpace exampleBox 0).m_RootArea
          (sampleSDF exampleVertices exampleHalfSpace exampleBox 0).m_CellSize
          (sampleSDF exampleVertices exampleHalfSpace exampleBox 0).m_RootArea
          exampleHalfSpace) := by
    have hle : (sampleSDF exampleVertices exampleHalfSpace exampleBox 0).m_RootArea.m_SizeExpo
        ≤ (LEAF_EXPO : Int) := by
      show (0 : Int) ≤ (LEAF_EXPO : Int)
      decide
    rw [sampleSDF_root, createNode_eq, hn, if_neg Bool.true_eq_false_eq_False, if_pos hle]
  rw [he]
  show ¬ ((0 : Int) = LEAF_EXPO)
  decide

/-- C7, amended: every Grid leaf of the tree returned by `sampleSDF(solid, box, maxDepth)`
covers an area of exponent `min(maxDepth, LEAF_EXPO)`: exactly `LEAF_EXPO` when
`maxDepth ≥ LEAF_EXPO`, and `maxDepth` (the root itself is the leaf) below that. -/
theorem sampleSDF_grid_leaf_exponent {F SV : Type} [FloatOps F] (vs : VertexSource F SV)
    (solid : SolidGeometry F) (box : AABB F) (maxDepth : Int) :
    (sampleSDF vs solid box maxDepth).m_RootNode.GridLeavesAt
      (fun a => a.m_SizeExpo = min maxDepth LEAF_EXPO)
      (sampleSDF vs solid box maxDepth).m_RootArea := by
  exact createNode_gridLeaves vs (sampleSDF vs solid box maxDepth).m_RootArea
    (sampleSDF vs solid box maxDepth).m_CellSize solid
    (sampleSDF vs solid box maxDepth).m_RootArea

/-- C8: invert is an involution.  Applying `invert` twice to any tree gives back the same
tree: the same node structure, the same sign at every Empty node and at every lattice
index of every Grid leaf. -/
theorem invert_invert {SV : Type} (n : Node SV) : n.invert.invert = n := by
  induction n with
  | inner ch ih =>
    show Node.inner (fun i => (ch i).invert.invert) = Node.inner ch
    congr 1
    funext i
    exact ih i
  | empty s =>
    show Node.empty (!!s) = Node.empty s
    rw [Bool.not_not]
  | grid g =>
    show Node.grid g.invert.invert = Node.grid g
    rw [GridNode.invert_twice]

/-- C9: CSG idempotence.  For `T = sampleSDF(A, box, depth)`, both `T.merge(A)` and
`T.intersect(A)` leave the tree as it is: every node keeps its kind, every Empty sign and
every Grid leaf sign entry (and every edge record) is unchanged. -/
theorem csg_idempotent {F SV : Type} [FloatOps F] (vs : VertexSource F SV)
    (A : SolidGeometry F) (box : AABB F) (depth : Int) :
    (sampleSDF vs A box depth).merge vs A = sampleSDF vs A box depth
    ∧ (sampleSDF vs A box depth).intersect vs A = sampleSDF vs A box depth := by
  constructor
  · unfold Tree.merge sampleSDF
    simp only
    rw [merge_createNode]
  · unfold Tree.intersect sampleSDF
    simp only
    rw [intersect_createNode]

/-- C10, as stated, fails: after sampling the half space at depth 3 and subtracting it, the
root is still a Grid leaf, so not every leaf is an Empty node. -/
theorem subtract_self_keeps_grid_leaf :
    ¬ ((sampleSDF exampleVertices exampleHalfSpace exampleBox 3).subtract exampleVertices
        exampleHalfSpace).m_RootNode.AllEmptyOutside := by
  have hn := exampleHalfSpace_needs_root 3
  have he : (sampleSDF exampleVertices exampleHalfSpace exampleBox 3).m_RootNode
      = Node.grid (GridNode.create exampleVertices
          (sampleSDF exampleVertices exampleHalfSpace exampleBox 3).m_RootArea
          (sampleSDF exampleVertices exampleHalfSpace exampleBox 3).m_CellSize
          (sampleSDF exampleVertices exampleHalfSpace exampleBox 3).m_RootArea
          exampleHalfSpace) := by
    have hle : (sampleSDF exampleVertices exampleHalfSpace exampleBox 3).m_RootArea.m_SizeExpo
        ≤ (LEAF_EXPO : Int) := by
      show (3 : Int) ≤ (LEAF_EXPO : Int)
      decide
    rw [sampleSDF_root, createNode_eq, hn, if_neg Bool.true_eq_false_eq_False, if_pos hle]
  unfold Tree.subtract
  simp only
  rw [he]
  unfold intersect
  rw [exampleHalfSpace_inverted_needs, hn]
  exact fun h => h

/-- C10, amended: when the sampled solid reports equal signs at the centre and the minimum
corner of every area it does not subdivide, and its inverted solid answers
`cubeNeedsSubdivision` as the solid does and `getSign` with the negated sign, then after
`T.subtract(A)` the tree has the node structure of `T` (Grid leaves remain Grid leaves) and
every stored sign is outside: every Empty node has sign false and every Grid leaf has
sign false at every lattice index. -/
theorem subtract_self_all_outside {F SV : Type} [FloatOps F] (vs : VertexSource F SV)
    (A : SolidGeometry F) (box : AABB F) (depth : Int)
    (h1 : ∀ a, (OpInvertSDF A).cubeNeedsSubdivision a = A.cubeNeedsSubdivision a)
    (h2 : ∀ p, (OpInvertSDF A).getSign p = !A.getSign p)
    (h3 : ∀ a, SubAreaOf (sampleSDF vs A box depth).m_RootArea a →
      A.cubeNeedsSubdivision a = false →
        A.getSign a.toAABB.getCenter = A.getSign (a.getCornerVecs 0).2) :
    ((sampleSDF vs A box depth).subtract vs A).m_RootNode.SameShape
        (sampleSDF vs A box depth).m_RootNode
    ∧ ((sampleSDF vs A box depth).subtract vs A).m_RootNode.AllSignsOutside :=
  intersect_inverted_createNode vs _ _ A h1 h2 h3 _ SubAreaOf.refl

/-- Witness for the amended C10: the half space sampled at depth 4 over `[0, 8]³`. -/
theorem subtract_self_all_outside_witness :
    (∀ a, (OpInvertSDF exampleHalfSpace).cubeNeedsSubdivision a
      = exampleHalfSpace.cubeNeedsSubdivision a)
    ∧ (∀ p, (OpInvertSDF exampleHalfSpace).getSign p = !exampleHalfSpace.getSign p)
    ∧ (∀ a, SubAreaOf (sampleSDF exampleVertices exampleHalfSpace exampleBox 4).m_RootArea a →
        exampleHalfSpace.cubeNeedsSubdivision a = false →
          exampleHalfSpace.getSign a.toAABB.getCenter
            = exampleHalfSpace.getSign (a.getCornerVecs 0).2)
    ∧ (((sampleSDF exampleVertices exampleHalfSpace exampleBox 4).subtract exampleVertices
          exampleHalfSpace).m_RootNode.SameShape
        (sampleSDF exampleVertices exampleHalfSpace exampleBox 4).m_RootNode
      ∧ ((sampleSDF exampleVertices exampleHalfSpace exampleBox 4).subtract exampleVertices
          exampleHalfSpace).m_RootNode.AllSignsOutside) :=
  ⟨exampleHalfSpace_inverted_needs, exampleHalfSpace_inverted_sign,
    fun a _ h => exampleHalfSpace_centre a h,
    subtract_self_all_outside exampleVertices exampleHalfSpace exampleBox 4
      exampleHalfSpace_inverted_needs exampleHalfSpace_inverted_sign
      (fun a _ h => exampleHalfSpace_centre a h)⟩

/-- C19: root sizing, in exact arithmetic.  For a box with `min ≤ max` and `maxDepth` in
`0..30`, `sampleSDF` creates a root area with integer minimum `(0,0,0)`, exponent
`maxDepth`, real minimum `box.min` and real side `c`, the largest of the three extents,
and sets the cell size to `c / 2^maxDepth`; the root cube `[box.min, box.min + c]³`
contains the box, and `getInverseCellSize() * cellSize = 1` when `c > 0`. -/
theorem sampleSDF_root_sizing {SV : Type} (vs : VertexSource ℚ SV) (solid : SolidGeometry ℚ)
    (box : AABB ℚ) (maxDepth : Int) (hdepth : 0 ≤ maxDepth ∧ maxDepth ≤ 30)
    (hbox : box.min.x ≤ box.max.x ∧ box.min.y ≤ box.max.y ∧ box.min.z ≤ box.max.z) :
    (sampleSDF vs solid box maxDepth).m_RootArea.m_MinPos = ⟨0, 0, 0⟩
    ∧ (sampleSDF vs solid box maxDepth).m_RootArea.m_SizeExpo = maxDepth
    ∧ (sampleSDF vs solid box maxDepth).m_RootArea.m_MinRealPos = box.min
    ∧ (sampleSDF vs solid box maxDepth).m_RootArea.m_RealSize
        = max (max (box.max.x - box.min.x) (box.max.y - box.min.y)) (box.max.z - box.min.z)
    ∧ (sampleSDF vs solid box maxDepth).m_CellSize
        = max (max (box.max.x - box.min.x) (box.max.y - box.min.y)) (box.max.z - box.min.z)
          / (2 : ℚ) ^ maxDepth
    ∧ 0 ≤ (sampleSDF vs solid box maxDepth).m_RootArea.m_RealSize
    ∧ ((sampleSDF vs solid box maxDepth).m_RootArea.toAABB.min = box.min
      ∧ box.max.x ≤ (sampleSDF vs solid box maxDepth).m_RootArea.toAABB.max.x
      ∧ box.max.y ≤ (sampleSDF vs solid box maxDepth).m_RootArea.toAABB.max.y
      ∧ box.max.z ≤ (sampleSDF vs solid box maxDepth).m_RootArea.toAABB.max.z)
    ∧ (0 < (sampleSDF vs solid box maxDepth).m_RootArea.m_RealSize →
        (sampleSDF vs solid box maxDepth).getInverseCellSize
          * (sampleSDF vs solid box maxDepth).m_CellSize = 1) := by
  have hsize : (sampleSDF vs solid box maxDepth).m_RootArea.m_RealSize
      = max (max (box.max.x - box.min.x) (box.max.y - box.min.y))
          (box.max.z - box.min.z) := by
    show FloatOps.max (FloatOps.max _ _) _ = _
    rw [rat_max, rat_max]
    rfl
  have hcell : (sampleSDF vs solid box maxDepth).m_CellSize
      = (sampleSDF vs solid box maxDepth).m_RootArea.m_RealSize / (2 : ℚ) ^ maxDepth := by
    show FloatOps.div _ (FloatOps.ofInt (shl1 maxDepth)) = _
    rw [rat_div, rat_ofInt, shl1_cast maxDepth hdepth.1]
    rfl
  have hinv : (sampleSDF vs solid box maxDepth).getInverseCellSize
      = (2 : ℚ) ^ maxDepth / (sampleSDF vs solid box maxDepth).m_RootArea.m_RealSize := by
    show FloatOps.div (FloatOps.ofInt (shl1 maxDepth)) _ = _
    rw [rat_div, rat_ofInt, shl1_cast maxDepth hdepth.1]
  have hx : box.max.x - box.min.x
      ≤ max (max (box.max.x - box.min.x) (box.max.y - box.min.y)) (box.max.z - box.min.z) :=
    le_trans (le_max_left _ _) (le_max_left _ _)
  have hy : box.max.y - box.min.y
      ≤ max (max (box.max.x - box.min.x) (box.max.y - box.min.y)) (box.max.z - box.min.z) :=
    le_trans (le_max_right _ _) (le_max_left _ _)
  have hz : box.max.z - box.min.z
      ≤ max (max (box.max.x - box.min.x) (box.max.y - box.min.y)) (box.max.z - box.min.z) :=
    le_max_right _ _
  have hmaxc : (sampleSDF vs solid box maxDepth).m_RootArea.toAABB.max
      = ⟨box.min.x + (sampleSDF vs solid box maxDepth).m_RootArea.m_RealSize,
         box.min.y + (sampleSDF vs solid box maxDepth).m_RootArea.m_RealSize,
         box.min.z + (sampleSDF vs solid box maxDepth).m_RootArea.m_RealSize⟩ := rfl
  refine ⟨rfl, rfl, rfl, hsize, ?_, ?_, ⟨rfl, ?_, ?_, ?_⟩, ?_⟩
  · rw [hcell, hsize]
  · rw [hsize]
    have := hbox.1
    linarith
  · rw [hmaxc, hsize]
    show box.max.x ≤ box.min.x + _
    linarith
  · rw [hmaxc, hsize]
    show box.max.y ≤ box.min.y + _
    linarith
  · rw [hmaxc, hsize]
    show box.max.z ≤ box.min.z + _
    linarith
  · intro hc
    rw [hinv, hcell]
    have h2 : (2 : ℚ) ^ maxDepth ≠ 0 := zpow_ne_zero _ (by norm_num)
    field_simp

/-- Witness for C19: the box `[0, 8]³` sampled at depth 4. -/
theorem sampleSDF_root_sizing_witness :
    ((0 : Int) ≤ 4 ∧ (4 : Int) ≤ 30)
    ∧ (exampleBox.min.x ≤ exampleBox.max.x ∧ exampleBox.min.y ≤ exampleBox.max.y
        ∧ exampleBox.min.z ≤ exampleBox.max.z)
    ∧ (sampleSDF exampleVertices exampleHalfSpace exampleBox 4).m_RootArea.m_RealSize
        = max (max (exampleBox.max.x - exampleBox.min.x) (exampleBox.max.y - exampleBox.min.y))
            (exampleBox.max.z - exampleBox.min.z)
    ∧ (sampleSDF exampleVertices exampleHalfSpace exampleBox 4).m_CellSize
        = max (max (exampleBox.max.x - exampleBox.min.x) (exampleBox.max.y - exampleBox.min.y))
            (exampleBox.max.z - exampleBox.min.z) / (2 : ℚ) ^ (4 : Int) :=
  ⟨by decide, by simp [exampleBox],
    (sampleSDF_root_sizing exampleVertices exampleHalfSpace exampleBox 4 (by decide)
      (by simp [exampleBox])).2.2.2.1,
    (sampleSDF_root_sizing exampleVertices exampleHalfSpace exampleBox 4 (by decide)
      (by simp [exampleBox])).2.2.2.2.1⟩

/-- C20: `getSubAreas`, in exact arithmetic.  For an area of exponent `e ≥ 1` and every
`i` in `0..7`, sub-area `i` has exponent `e - 1`, half the real side, integer minimum
`minPos + 2^(e-1) · (bit2 i, bit1 i, bit0 i)` and real minimum
`minRealPos + (side / 2) · (bit2 i, bit1 i, bit0 i)`; two steps of `2^(e-1)` make the
parent's side `2^e`. -/
theorem getSubAreas_spec (a : Area ℚ) (i : Fin 8) (he : 1 ≤ a.m_SizeExpo) :
    (a.getSubAreas i).m_SizeExpo = a.m_SizeExpo - 1
    ∧ (a.getSubAreas i).m_RealSize = a.m_RealSize / 2
    ∧ (a.getSubAreas i).m_MinPos
        = ⟨a.m_MinPos.x + 2 ^ (a.m_SizeExpo - 1).toNat * bitOf i.val 2,
           a.m_MinPos.y + 2 ^ (a.m_SizeExpo - 1).toNat * bitOf i.val 1,
           a.m_MinPos.z + 2 ^ (a.m_SizeExpo - 1).toNat * bitOf i.val 0⟩
    ∧ (a.getSubAreas i).m_MinRealPos
        = ⟨a.m_MinRealPos.x + a.m_RealSize / 2 * (bitOf i.val 2 : ℚ),
           a.m_MinRealPos.y + a.m_RealSize / 2 * (bitOf i.val 1 : ℚ),
           a.m_MinRealPos.z + a.m_RealSize / 2 * (bitOf i.val 0 : ℚ)⟩
    ∧ 2 * shl1 (a.m_SizeExpo - 1) = shl1 a.m_SizeExpo := by
  refine ⟨rfl, ?_, ?_, ?_, (shl1_double a.m_SizeExpo he).symm⟩
  · show FloatOps.mul a.m_RealSize FloatOps.half = _
    rw [rat_mul, rat_half]
    ring
  · rw [getSubAreas_minPos, cornerOffset_bits]
    show Vector3i.add _ _ = _
    simp only [Vector3i.add, Vector3i.scale, shl1]
    rw [Vector3i.ext_iff3]
    refine ⟨?_, ?_, ?_⟩ <;> simp only <;> ring
  · show Vector3.add a.m_MinRealPos _ = _
    rw [cornerOffset_bits]
    simp only [Vector3.add, rat_add, rat_mul, rat_ofInt, rat_half]
    congr 1 <;> ring

/-- Witness for C20: child 5 of the area `[0, 8]³` of exponent 4. -/
theorem getSubAreas_spec_witness :
    (1 : Int) ≤ (sampleSDF exampleVertices exampleHalfSpace exampleBox 4).m_RootArea.m_SizeExpo
    ∧ ((sampleSDF exampleVertices exampleHalfSpace exampleBox 4).m_RootArea.getSubAreas
        5).m_SizeExpo
        = (sampleSDF exampleVertices exampleHalfSpace exampleBox 4).m_RootArea.m_SizeExpo - 1 :=
  ⟨by decide,
    (getSubAreas_spec (sampleSDF exampleVertices exampleHalfSpace exampleBox 4).m_RootArea 5
      (by decide)).1⟩

/-- C21: area real/integer agreement, in exact arithmetic.  For every area reached from
the root area of `sampleSDF` by repeated `getSubAreas`, the real side is
`cellSize · 2^e`, the real minimum corner is `rootMinReal + minPos · cellSize`, and the
real position of each corner from `getCornerVecs` equals `getRealPos` of the integer
corner. -/
theorem area_real_integer_agreement {SV : Type} (vs : VertexSource ℚ SV)
    (solid : SolidGeometry ℚ) (box : AABB ℚ) (maxDepth : Int) (hdepth : 0 ≤ maxDepth)
    (a : Area ℚ) (h : ReachedFrom (sampleSDF vs solid box maxDepth).m_RootArea a) :
    a.m_RealSize = (sampleSDF vs solid box maxDepth).m_CellSize * (2 : ℚ) ^ a.m_SizeExpo
    ∧ a.m_MinRealPos
        = ⟨box.min.x + (a.m_MinPos.x : ℚ) * (sampleSDF vs solid box maxDepth).m_CellSize,
           box.min.y + (a.m_MinPos.y : ℚ) * (sampleSDF vs solid box maxDepth).m_CellSize,
           box.min.z + (a.m_MinPos.z : ℚ) * (sampleSDF vs solid box maxDepth).m_CellSize⟩
    ∧ ∀ k : Fin 8, (a.getCornerVecs k.val).2
        = getRealPos (sampleSDF vs solid box maxDepth).m_RootArea
            (sampleSDF vs solid box maxDepth).m_CellSize (a.getCornerVecs k.val).1 := by
  have h2 : (2 : ℚ) ^ maxDepth ≠ 0 := zpow_ne_zero _ (by norm_num)
  have hcell : (sampleSDF vs solid box maxDepth).m_CellSize
      = (sampleSDF vs solid box maxDepth).m_RootArea.m_RealSize / (2 : ℚ) ^ maxDepth := by
    show FloatOps.div _ (FloatOps.ofInt (shl1 maxDepth)) = _
    rw [rat_div, rat_ofInt, shl1_cast maxDepth hdepth]
    rfl
  have hsize : (sampleSDF vs solid box maxDepth).m_RootArea.m_RealSize
      = (sampleSDF vs solid box maxDepth).m_CellSize
        * (2 : ℚ) ^ (sampleSDF vs solid box maxDepth).m_RootArea.m_SizeExpo := by
    rw [hcell]
    show _ = _ / (2 : ℚ) ^ maxDepth * (2 : ℚ) ^ maxDepth
    field_simp
  have hmin : (sampleSDF vs solid box maxDepth).m_RootArea.m_MinRealPos
      = getRealPos (sampleSDF vs solid box maxDepth).m_RootArea
          (sampleSDF vs solid box maxDepth).m_CellSize
          (sampleSDF vs solid box maxDepth).m_RootArea.m_MinPos := by
    rw [getRealPos_rat, Vector3.ext_components]
    show box.min.x = box.min.x + ((0 : Int) : ℚ) * _
      ∧ box.min.y = box.min.y + ((0 : Int) : ℚ) * _
      ∧ box.min.z = box.min.z + ((0 : Int) : ℚ) * _
    simp
  obtain ⟨h1, h3⟩ := area_agrees _ _ hdepth hsize hmin a h
  have he := reachedFrom_expo_nonneg _ a h hdepth
  refine ⟨h1, ?_, ?_⟩
  · rw [h3, getRealPos_rat]
    rfl
  · intro k
    have hc := shl1_cast a.m_SizeExpo he
    have hv : (a.getCornerVecs k.val).2
        = ⟨a.m_MinRealPos.x + a.m_RealSize * ((cornerOffset k.val).x : ℚ),
           a.m_MinRealPos.y + a.m_RealSize * ((cornerOffset k.val).y : ℚ),
           a.m_MinRealPos.z + a.m_RealSize * ((cornerOffset k.val).z : ℚ)⟩ := rfl
    have hi : (a.getCornerVecs k.val).1
        = a.m_MinPos + (cornerOffset k.val).scale (shl1 a.m_SizeExpo) := rfl
    rw [hv, hi, h3, getRealPos_rat, getRealPos_rat, h1, Vector3.ext_components]
    simp only [Vector3i.add_x, Vector3i.add_y, Vector3i.add_z, Vector3i.scale,
      Int.cast_add, Int.cast_mul, hc]
    refine ⟨?_, ?_, ?_⟩ <;> ring

/-- Witness for C21: child 5 of the root of the half space sampled at depth 4 over
`[0, 8]³`. -/
theorem area_real_integer_agreement_witness :
    (0 : Int) ≤ 4
    ∧ ReachedFrom (sampleSDF exampleVertices exampleHalfSpace exampleBox 4).m_RootArea
        ((sampleSDF exampleVertices exampleHalfSpace exampleBox 4).m_RootArea.getSubAreas 5)
    ∧ ((sampleSDF exampleVertices exampleHalfSpace exampleBox 4).m_RootArea.getSubAreas
        5).m_RealSize
        = (sampleSDF exampleVertices exampleHalfSpace exampleBox 4).m_CellSize
          * (2 : ℚ) ^ ((sampleSDF exampleVertices exampleHalfSpace exampleBox
              4).m_RootArea.getSubAreas 5).m_SizeExpo :=
  ⟨by decide, ReachedFrom.sub _ 5 ReachedFrom.root (by decide),
    (area_real_integer_agreement exampleVertices exampleHalfSpace exampleBox 4 (by decide) _
      (ReachedFrom.sub _ 5 ReachedFrom.root (by decide))).1⟩

/-- C22 (as stated, refuted): in `float` arithmetic the size `2^24 + 1` of the query box
`[-2^24, 1]³` is rounded to `2^24`, so `getCorner` places its eight corners at coordinates
`-2^24` and `0`, all inside the solid `[-2^25, 1/2]³`.  With any interval test
`intersectsSurface` returns false, although the query box contains the point `(0, 0, 0)`
inside the solid and the point `(3/4, 0, 0)` outside it. -/
theorem aabbGeometry_rounded_corner_misses_surface :
    (∀ intervalDoesNotOverlap : ℚ → ℚ → ℚ → ℚ → Bool,
        AABBGeometry.intersectsSurface roundToFloat intervalDoesNotOverlap exampleDeepBox
          exampleWideQuery = false)
      ∧ exampleWideQuery.getCorner roundToFloat 7 = ⟨0, 0, 0⟩
      ∧ exampleWideQuery.containsPoint ⟨0, 0, 0⟩ = true
      ∧ exampleWideQuery.containsPoint ⟨3 / 4, 0, 0⟩ = true
      ∧ AABBGeometry.getSign exampleDeepBox ⟨0, 0, 0⟩ = true
      ∧ AABBGeometry.getSign exampleDeepBox ⟨3 / 4, 0, 0⟩ = false := by
  refine ⟨?_, ?_, ?_, ?_, ?_, ?_⟩
  · intro f
    unfold AABBGeometry.intersectsSurface
    split_ifs
    · rfl
    · rw [List.any_eq_false]
      intro i _
      rw [exampleWideQuery_corner_inside i]
      simp
  · unfold AABB.getCorner
    have hs : (1 : ℚ) - (-16777216) = 16777217 := by norm_num
    have h0 : (-16777216 : ℚ) + 16777216 = 0 := by norm_num
    have h4 : bitSet 7 4 = 1 := by decide
    have h2 : bitSet 7 2 = 1 := by decide
    have h1 : (((7 &&& 1 : Nat) : Int)) = 1 := by decide
    simp only [exampleWideQuery, h4, h2, h1, Int.cast_one, one_mul, hs, roundToFloat_tie,
      roundToFloat_pow24, h0, roundToFloat_zero]
  · rw [AABB.containsPoint_iff]
    norm_num [exampleWideQuery]
  · rw [AABB.containsPoint_iff]
    norm_num [exampleWideQuery]
  · unfold AABBGeometry.getSign
    rw [AABB.containsPoint_iff]
    norm_num [exampleDeepBox]
  · unfold AABBGeometry.getSign
    rw [← Bool.not_eq_true, AABB.containsPoint_iff]
    norm_num [exampleDeepBox]

/-- C22 (amended): the surface test of the box solid is conservative for every query box on
which the corner computation meets no rounding error, in particular for every query box in
exact arithmetic.  If `intersectsSurface(box)` returns false for such a box, `getSign` has
the same value at every point the query box contains (half-open on max).  The interval
test of the absent `MathMisc.h` is a parameter that, when it answers "no overlap",
separates the two closed intervals up to touching. -/
theorem aabbGeometry_conservative (round : ℚ → ℚ)
    (intervalDoesNotOverlap : ℚ → ℚ → ℚ → ℚ → Bool)
    (hsep : ∀ aMin aMax bMin bMax, intervalDoesNotOverlap aMin aMax bMin bMax = true →
      aMax ≤ bMin ∨ bMax ≤ aMin)
    (solid box : AABB ℚ) (hexact : box.SizeExact round)
    (h : AABBGeometry.intersectsSurface round intervalDoesNotOverlap solid box = false)
    (p p2 : Vector3 ℚ) (hp : box.containsPoint p = true) (hp2 : box.containsPoint p2 = true) :
    AABBGeometry.getSign solid p = AABBGeometry.getSign solid p2 := by
  rw [AABB.containsPoint_iff] at hp hp2
  unfold AABBGeometry.getSign
  unfold AABBGeometry.intersectsSurface at h
  by_cases hi : solid.intersectsAABB intervalDoesNotOverlap box = true
  · simp only [hi, Bool.not_true, Bool.false_eq_true, if_false] at h
    rw [List.any_eq_false] at h
    have h0 := h 0 (by simp)
    have h7 := h 7 (by simp)
    rw [AABB.getCorner_zero round box hexact] at h0
    rw [AABB.getCorner_seven round box hexact] at h7
    simp only [Bool.not_eq_true', Bool.not_eq_false] at h0 h7
    rw [AABB.containsPoint_iff] at h0 h7
    have e1 : solid.containsPoint p = true := by
      rw [AABB.containsPoint_iff]
      refine ⟨?_, ?_, ?_, ?_, ?_, ?_⟩ <;> linarith [hp.1, hp.2.1, hp.2.2.1, hp.2.2.2.1,
        hp.2.2.2.2.1, hp.2.2.2.2.2, h0.1, h0.2.2.1, h0.2.2.2.2.1, h7.2.1, h7.2.2.2.1,
        h7.2.2.2.2.2]
    have e2 : solid.containsPoint p2 = true := by
      rw [AABB.containsPoint_iff]
      refine ⟨?_, ?_, ?_, ?_, ?_, ?_⟩ <;> linarith [hp2.1, hp2.2.1, hp2.2.2.1, hp2.2.2.2.1,
        hp2.2.2.2.2.1, hp2.2.2.2.2, h0.1, h0.2.2.1, h0.2.2.2.2.1, h7.2.1, h7.2.2.2.1,
        h7.2.2.2.2.2]
    rw [e1, e2]
  · have outside : ∀ q : Vector3 ℚ, (q.x ≥ box.min.x ∧ q.x < box.max.x ∧ q.y ≥ box.min.y
        ∧ q.y < box.max.y ∧ q.z ≥ box.min.z ∧ q.z < box.max.z) →
        solid.containsPoint q = false := by
      intro q hq
      rw [← Bool.not_eq_true, AABB.containsPoint_iff]
      intro hc
      unfold AABB.intersectsAABB at hi
      by_cases hx : intervalDoesNotOverlap solid.min.x solid.max.x box.min.x box.max.x = true
      · rcases hsep _ _ _ _ hx with h1 | h1 <;> linarith [hq.1, hq.2.1, hc.1, hc.2.1]
      · by_cases hy : intervalDoesNotOverlap solid.min.y solid.max.y box.min.y box.max.y = true
        · rcases hsep _ _ _ _ hy with h1 | h1 <;>
            linarith [hq.2.2.1, hq.2.2.2.1, hc.2.2.1, hc.2.2.2.1]
        · by_cases hz : intervalDoesNotOverlap solid.min.z solid.max.z box.min.z box.max.z
              = true
          · rcases hsep _ _ _ _ hz with h1 | h1 <;>
              linarith [hq.2.2.2.2.1, hq.2.2.2.2.2, hc.2.2.2.2.1, hc.2.2.2.2.2]
          · simp [hx, hy, hz] at hi
    rw [outside p hp, outside p2 hp2]

theorem aabbGeometry_conservative_witness :
    AABB.SizeExact roundToFloat ⟨⟨1, 1, 1⟩, ⟨2, 2, 2⟩⟩
      ∧ AABBGeometry.intersectsSurface roundToFloat
        (fun aMin aMax bMin bMax => decide (aMax < bMin ∨ bMax < aMin))
        exampleBox ⟨⟨1, 1, 1⟩, ⟨2, 2, 2⟩⟩ = false
      ∧ AABBGeometry.getSign exampleBox ⟨1, 1, 1⟩
          = AABBGeometry.getSign exampleBox ⟨3 / 2, 1, 1⟩ :=
  ⟨exampleUnitQuery_sizeExact, exampleUnitQuery_surface,
    aabbGeometry_conservative roundToFloat
    (fun aMin aMax bMin bMax => decide (aMax < bMin ∨ bMax < aMin))
    (by
      intro aMin aMax bMin bMax hd
      simp only [decide_eq_true_eq] at hd
      rcases hd with h1 | h1
      · exact Or.inl (le_of_lt h1)
      · exact Or.inr (le_of_lt h1))
    exampleBox ⟨⟨1, 1, 1⟩, ⟨2, 2, 2⟩⟩ exampleUnitQuery_sizeExact exampleUnitQuery_surface
    ⟨1, 1, 1⟩ ⟨3 / 2, 1, 1⟩
    (by rw [AABB.containsPoint_iff]; norm_num)
    (by rw [AABB.containsPoint_iff]; norm_num)⟩

/-- C23 (as stated, refuted): the point `(1, 1, 1)` is inside the box `[0, 8]³`
(`getSign` is true) and the signed distance written by `getSample` is `1`, which is not
negative. -/
theorem aabbGeometry_inside_distance_positive :
    AABBGeometry.getSign exampleBox ⟨1, 1, 1⟩ = true
      ∧ AABBGeometry.signedDistance (fun x => x) (fun _ _ => 0) exampleBox ⟨1, 1, 1⟩ = 1
      ∧ ¬ AABBGeometry.signedDistance (fun x => x) (fun _ _ => 0) exampleBox ⟨1, 1, 1⟩ < 0 := by
  have hc : exampleBox.containsPoint ⟨1, 1, 1⟩ = true := by
    rw [AABB.containsPoint_iff]
    norm_num [exampleBox]
  have hd : AABBGeometry.signedDistance (fun x => x) (fun _ _ => 0) exampleBox ⟨1, 1, 1⟩ = 1 := by
    unfold AABBGeometry.signedDistance
    rw [if_pos hc]
    norm_num [exampleBox, Vector3.minComponent]
  refine ⟨hc, hd, ?_⟩
  rw [hd]
  norm_num

/-- C23 (amended): the sign convention of the code is the opposite one.  With a square
root that is never negative, the signed distance written by `getSample` is non-negative
when the point is inside the box (`getSign` true) and non-positive when it is outside. -/
theorem aabbGeometry_distance_sign (sqrtf : ℚ → ℚ) (squaredDistance : AABB ℚ → Vector3 ℚ → ℚ)
    (hsqrt : ∀ x, 0 ≤ sqrtf x) (b : AABB ℚ) (p : Vector3 ℚ) :
    (AABBGeometry.getSign b p = true →
        0 ≤ AABBGeometry.signedDistance sqrtf squaredDistance b p)
      ∧ (AABBGeometry.getSign b p = false →
        AABBGeometry.signedDistance sqrtf squaredDistance b p ≤ 0) := by
  unfold AABBGeometry.getSign AABBGeometry.signedDistance
  constructor
  · intro h
    rw [if_pos h]
    rw [AABB.containsPoint_iff] at h
    simp only [Vector3.minComponent, le_min_iff]
    refine ⟨⟨⟨?_, ?_⟩, ?_⟩, ⟨?_, ?_⟩, ?_⟩ <;> linarith [h.1, h.2.1, h.2.2.1, h.2.2.2.1, h.2.2.2.2.1,
      h.2.2.2.2.2]
  · intro h
    rw [h]
    simp only [Bool.false_eq_true, if_false]
    linarith [hsqrt (squaredDistance b p)]

theorem aabbGeometry_distance_sign_witness :
    (AABBGeometry.getSign exampleBox ⟨1, 1, 1⟩ = true →
        0 ≤ AABBGeometry.signedDistance (fun x => |x|) (fun _ p => p.x * p.x) exampleBox
          ⟨1, 1, 1⟩)
      ∧ (AABBGeometry.getSign exampleBox ⟨1, 1, 1⟩ = false →
        AABBGeometry.signedDistance (fun x => |x|) (fun _ p => p.x * p.x) exampleBox
          ⟨1, 1, 1⟩ ≤ 0) :=
  aabbGeometry_distance_sign (fun x => |x|) (fun _ p => p.x * p.x) (fun x => abs_nonneg x)
    exampleBox ⟨1, 1, 1⟩

/-- C24 (as stated, refuted), two inputs.  With the single child whose signed distance is
the largest finite float everywhere, the strict comparison against the sentinel never
succeeds, so the returned sample keeps the caller's position and normal and is not the
child's sample.  With a child that assigns every member (distance 5, normal `(1, 0, 0)`)
followed by the box solid `[0, 8]³`, whose `getSample` assigns the signed distance only, the
result at `(1, 1, 1)` has the distance 1 of the box but the position and the normal the
first child wrote, although the first child does not attain the minimum. -/
theorem intersection_sentinel_keeps_caller_sample :
    (OpIntersectionSDF.getSample exampleFltMax [exampleConstantSolid exampleFltMax]
        ⟨0, 0, 0⟩ ⟨0, ⟨5, 5, 5⟩, ⟨0, 0, 1⟩⟩ ⟨0, ⟨0, 0, 0⟩, ⟨0, 0, 0⟩⟩
      = ⟨exampleFltMax, ⟨5, 5, 5⟩, ⟨0, 0, 1⟩⟩
    ∧ OpIntersectionSDF.getSample exampleFltMax [exampleConstantSolid exampleFltMax]
        ⟨0, 0, 0⟩ ⟨0, ⟨5, 5, 5⟩, ⟨0, 0, 1⟩⟩ ⟨0, ⟨0, 0, 0⟩, ⟨0, 0, 0⟩⟩
      ≠ exampleConstantSolid exampleFltMax ⟨0, 0, 0⟩ ⟨0, ⟨0, 0, 0⟩, ⟨0, 0, 0⟩⟩)
    ∧ (OpIntersectionSDF.getSample exampleFltMax
          [exampleConstantSolid 5,
            AABBGeometry.getSample (fun x => x) (fun _ _ => 0) exampleBox]
          ⟨1, 1, 1⟩ ⟨0, ⟨5, 5, 5⟩, ⟨0, 0, 1⟩⟩ ⟨0, ⟨0, 0, 0⟩, ⟨0, 0, 0⟩⟩
        = ⟨1, ⟨1, 1, 1⟩, ⟨1, 0, 0⟩⟩
      ∧ exampleConstantSolid 5 ⟨1, 1, 1⟩ ⟨0, ⟨0, 0, 0⟩, ⟨0, 0, 0⟩⟩
        = ⟨5, ⟨1, 1, 1⟩, ⟨1, 0, 0⟩⟩
      ∧ AABBGeometry.getSample (fun x => x) (fun _ _ => 0) exampleBox ⟨1, 1, 1⟩
          ⟨0, ⟨0, 0, 0⟩, ⟨0, 0, 0⟩⟩
        = ⟨1, ⟨0, 0, 0⟩, ⟨0, 0, 0⟩⟩) := by
  have hmax : ¬ exampleFltMax < exampleFltMax := lt_irrefl _
  have h5 : (5 : ℚ) < exampleFltMax := by
    unfold exampleFltMax
    norm_num
  have hc : exampleBox.containsPoint ⟨1, 1, 1⟩ = true := by
    rw [AABB.containsPoint_iff]
    norm_num [exampleBox]
  have hd : AABBGeometry.signedDistance (fun x => x) (fun _ _ => 0) exampleBox ⟨1, 1, 1⟩ = 1 := by
    unfold AABBGeometry.signedDistance
    rw [if_pos hc]
    norm_num [exampleBox, Vector3.minComponent]
  have h : OpIntersectionSDF.getSample exampleFltMax [exampleConstantSolid exampleFltMax]
        ⟨0, 0, 0⟩ ⟨0, ⟨5, 5, 5⟩, ⟨0, 0, 1⟩⟩ ⟨0, ⟨0, 0, 0⟩, ⟨0, 0, 0⟩⟩
      = ⟨exampleFltMax, ⟨5, 5, 5⟩, ⟨0, 0, 1⟩⟩ := by
    unfold OpIntersectionSDF.getSample
    simp only [List.foldl_cons, List.foldl_nil, exampleConstantSolid, if_neg hmax]
  refine ⟨⟨h, ?_⟩, ?_, rfl, ?_⟩
  · rw [h]
    intro he
    have h2 := congrArg (fun s => s.normal.z) he
    simp [exampleConstantSolid] at h2
  · unfold OpIntersectionSDF.getSample
    simp only [List.foldl_cons, List.foldl_nil, exampleConstantSolid, AABBGeometry.getSample,
      hd, if_pos h5]
    norm_num
  · unfold AABBGeometry.getSample
    rw [hd]

/-- C24 (amended): every child writes into the one local sample object, so the candidates
are the successive contents of that object (`localSamples`): what the child assigned, and
for the members it does not assign what earlier children left.  When some candidate has a
signed distance below the largest finite float, the returned sample is the first
candidate in list order that attains the minimum of the signed distances: the candidates
split as `l1 ++ s :: l2` with the result equal to `s`, every candidate before `s` strictly
farther and every candidate after `s` at least as far.  When moreover every child assigns
every member of the sample, the children split as `k1 ++ c :: k2` with the result equal to
the sample of `c`, every child before `c` strictly farther and every child after `c` at
least as far. -/
theorem intersection_first_minimum {K : Type} [LinearOrder K] (fltMax : K)
    (m_SDFs : List (Vector3 K → Sample K → Sample K)) (point : Vector3 K)
    (minSample sample : Sample K)
    (h : ∃ s, s ∈ OpIntersectionSDF.localSamples m_SDFs point sample
      ∧ s.signedDistance < fltMax) :
    (∃ l1 s l2, OpIntersectionSDF.localSamples m_SDFs point sample = l1 ++ s :: l2
      ∧ OpIntersectionSDF.getSample fltMax m_SDFs point minSample sample = s
      ∧ (∀ d, d ∈ l1 → s.signedDistance < d.signedDistance)
      ∧ (∀ d, d ∈ l2 → s.signedDistance ≤ d.signedDistance))
    ∧ ((∀ i, i ∈ m_SDFs → ∀ s s2 : Sample K, i point s = i point s2) →
      ∃ k1 c k2, m_SDFs = k1 ++ c :: k2
        ∧ OpIntersectionSDF.getSample fltMax m_SDFs point minSample sample = c point sample
        ∧ (∀ d, d ∈ k1 →
            (c point sample).signedDistance < (d point sample).signedDistance)
        ∧ (∀ d, d ∈ k2 →
            (c point sample).signedDistance ≤ (d point sample).signedDistance)) := by
  constructor
  · obtain ⟨l1, c, l2, hl, hr, _, h1, h2⟩ :=
      (intersection_fold id (OpIntersectionSDF.localSamples m_SDFs point sample)
        { minSample with signedDistance := fltMax }).2 h
    exact ⟨l1, c, l2, hl, (OpIntersectionSDF.getSample_eq fltMax m_SDFs point minSample
      sample).trans hr, h1, h2⟩
  · intro hw
    have hls := OpIntersectionSDF.localSamples_whole point m_SDFs hw sample sample
    have h3 : ∃ c, c ∈ m_SDFs ∧ (c point sample).signedDistance
        < ({ minSample with signedDistance := fltMax } : Sample K).signedDistance := by
      obtain ⟨s, hs, hlt⟩ := h
      rw [hls, List.mem_map] at hs
      obtain ⟨c, hc, rfl⟩ := hs
      exact ⟨c, hc, hlt⟩
    obtain ⟨k1, c, k2, hl, hr, _, h1, h2⟩ :=
      (intersection_fold (fun i : Vector3 K → Sample K → Sample K => i point sample) m_SDFs
        { minSample with signedDistance := fltMax }).2 h3
    refine ⟨k1, c, k2, hl, ?_, h1, h2⟩
    rw [OpIntersectionSDF.getSample_eq, hls, List.foldl_map]
    exact hr

theorem intersection_first_minimum_witness :
    (∃ l1 s l2, OpIntersectionSDF.localSamples
          [exampleConstantSolid 3,
            AABBGeometry.getSample (fun x => x) (fun _ _ => 0) exampleBox,
            exampleConstantSolid 1]
          ⟨1, 1, 1⟩ ⟨0, ⟨0, 0, 0⟩, ⟨0, 0, 0⟩⟩ = l1 ++ s :: l2
      ∧ OpIntersectionSDF.getSample exampleFltMax
          [exampleConstantSolid 3,
            AABBGeometry.getSample (fun x => x) (fun _ _ => 0) exampleBox,
            exampleConstantSolid 1]
          ⟨1, 1, 1⟩ ⟨0, ⟨5, 5, 5⟩, ⟨0, 0, 1⟩⟩ ⟨0, ⟨0, 0, 0⟩, ⟨0, 0, 0⟩⟩ = s
      ∧ (∀ d, d ∈ l1 → s.signedDistance < d.signedDistance)
      ∧ (∀ d, d ∈ l2 → s.signedDistance ≤ d.signedDistance))
    ∧ ((∀ i, i ∈ [exampleConstantSolid 3,
            AABBGeometry.getSample (fun x => x) (fun _ _ => 0) exampleBox,
            exampleConstantSolid 1] →
          ∀ s s2 : Sample ℚ, i ⟨1, 1, 1⟩ s = i ⟨1, 1, 1⟩ s2) →
      ∃ k1 c k2, [exampleConstantSolid 3,
            AABBGeometry.getSample (fun x => x) (fun _ _ => 0) exampleBox,
            exampleConstantSolid 1] = k1 ++ c :: k2
        ∧ OpIntersectionSDF.getSample exampleFltMax
            [exampleConstantSolid 3,
              AABBGeometry.getSample (fun x => x) (fun _ _ => 0) exampleBox,
              exampleConstantSolid 1]
            ⟨1, 1, 1⟩ ⟨0, ⟨5, 5, 5⟩, ⟨0, 0, 1⟩⟩ ⟨0, ⟨0, 0, 0⟩, ⟨0, 0, 0⟩⟩
          = c ⟨1, 1, 1⟩ ⟨0, ⟨0, 0, 0⟩, ⟨0, 0, 0⟩⟩
        ∧ (∀ d, d ∈ k1 →
            (c ⟨1, 1, 1⟩ ⟨0, ⟨0, 0, 0⟩, ⟨0, 0, 0⟩⟩).signedDistance
              < (d ⟨1, 1, 1⟩ ⟨0, ⟨0, 0, 0⟩, ⟨0, 0, 0⟩⟩).signedDistance)
        ∧ (∀ d, d ∈ k2 →
            (c ⟨1, 1, 1⟩ ⟨0, ⟨0, 0, 0⟩, ⟨0, 0, 0⟩⟩).signedDistance
              ≤ (d ⟨1, 1, 1⟩ ⟨0, ⟨0, 0, 0⟩, ⟨0, 0, 0⟩⟩).signedDistance)) :=
  intersection_first_minimum exampleFltMax
    [exampleConstantSolid 3,
      AABBGeometry.getSample (fun x => x) (fun _ _ => 0) exampleBox,
      exampleConstantSolid 1]
    ⟨1, 1, 1⟩ ⟨0, ⟨5, 5, 5⟩, ⟨0, 0, 1⟩⟩ ⟨0, ⟨0, 0, 0⟩, ⟨0, 0, 0⟩⟩
    ⟨exampleConstantSolid 3 ⟨1, 1, 1⟩ ⟨0, ⟨0, 0, 0⟩, ⟨0, 0, 0⟩⟩, List.mem_cons_self _ _, by
      show (3 : ℚ) < exampleFltMax
      unfold exampleFltMax
      norm_num⟩

/-- C25 (as stated, refuted): on the area `[0, 8]³` the solid `exampleUnreportedSurface`
needs no subdivision and is outside at the minimum corner, yet intersecting the Empty
node of sign inside with it yields an Empty node of sign inside, because the replacement
node takes the sign of the solid at the centre `(4, 4, 4)`. -/
theorem intersect_replacement_sign_inside :
    exampleUnreportedSurface.cubeNeedsSubdivision exampleArea = false
      ∧ exampleUnreportedSurface.getSign (exampleArea.getCornerVecs 0).2 = false
      ∧ intersect exampleVertices exampleArea 1 exampleUnreportedSurface (Node.empty true)
          exampleArea = Node.empty true := by
  have hn : exampleUnreportedSurface.cubeNeedsSubdivision exampleArea = false := rfl
  have hs : exampleUnreportedSurface.getSign (exampleArea.getCornerVecs 0).2 = false := by
    simp [exampleUnreportedSurface, exampleArea, Area.getCornerVecs, cornerOffset, bitSet,
      rat_add, rat_mul, rat_ofInt]
  refine ⟨hn, hs, ?_⟩
  unfold intersect
  rw [hn, hs]
  simp [EmptyNode.create, exampleUnreportedSurface, exampleArea, Area.toAABB,
    AABB.getCenter, Vector3.add, Vector3.scale, rat_add, rat_mul, rat_half]
  norm_num

/-- C25 (amended): for every node `n`, area `a` and solid `s` with
`s.cubeNeedsSubdivision(a) = false`: when `s` is outside at the minimum corner of `a`,
`intersect` replaces `n` by the Empty node whose sign is the sign of `s` at the centre of
`a` (outside whenever `s` is outside there too); when `s` is inside at the minimum
corner, `n` is returned unchanged. -/
theorem intersect_uniform_region {F SV : Type} [FloatOps F] (vs : VertexSource F SV)
    (m_RootArea : Area F) (m_CellSize : F) (s : SolidGeometry F) (n : Node SV) (a : Area F)
    (hneeds : s.cubeNeedsSubdivision a = false) :
    (s.getSign (a.getCornerVecs 0).2 = false →
        intersect vs m_RootArea m_CellSize s n a = Node.empty (s.getSign a.toAABB.getCenter)
        ∧ (s.getSign a.toAABB.getCenter = false →
            intersect vs m_RootArea m_CellSize s n a = Node.empty false))
      ∧ (s.getSign (a.getCornerVecs 0).2 = true →
        intersect vs m_RootArea m_CellSize s n a = n) := by
  have key : intersect vs m_RootArea m_CellSize s n a
      = if s.getSign (a.getCornerVecs 0).2 then n
        else Node.empty (s.getSign a.toAABB.getCenter) := by
    cases n with
    | inner c =>
      unfold intersect
      rw [hneeds]
      simp [EmptyNode.create]
    | empty b =>
      unfold intersect
      rw [hneeds]
      simp [EmptyNode.create]
    | grid g =>
      unfold intersect
      rw [hneeds]
      simp [EmptyNode.create]
  constructor
  · intro h
    rw [key, h]
    refine ⟨by simp, ?_⟩
    intro hc
    rw [hc]
    simp
  · intro h
    rw [key, h]
    simp

theorem intersect_uniform_region_witness :
    (exampleHalfSpace.getSign
          (({ m_MinPos := ⟨8, 0, 0⟩, m_SizeExpo := 3, m_MinRealPos := ⟨8, 0, 0⟩,
              m_RealSize := 8 } : Area ℚ).getCornerVecs 0).2 = false →
        intersect exampleVertices exampleArea 1 exampleHalfSpace (Node.empty true)
            ⟨⟨8, 0, 0⟩, 3, ⟨8, 0, 0⟩, 8⟩
          = Node.empty (exampleHalfSpace.getSign
              ({ m_MinPos := ⟨8, 0, 0⟩, m_SizeExpo := 3, m_MinRealPos := ⟨8, 0, 0⟩,
                 m_RealSize := 8 } : Area ℚ).toAABB.getCenter)
        ∧ (exampleHalfSpace.getSign
              ({ m_MinPos := ⟨8, 0, 0⟩, m_SizeExpo := 3, m_MinRealPos := ⟨8, 0, 0⟩,
                 m_RealSize := 8 } : Area ℚ).toAABB.getCenter = false →
            intersect exampleVertices exampleArea 1 exampleHalfSpace (Node.empty true)
                ⟨⟨8, 0, 0⟩, 3, ⟨8, 0, 0⟩, 8⟩ = Node.empty false))
      ∧ (exampleHalfSpace.getSign
          (({ m_MinPos := ⟨8, 0, 0⟩, m_SizeExpo := 3, m_MinRealPos := ⟨8, 0, 0⟩,
              m_RealSize := 8 } : Area ℚ).getCornerVecs 0).2 = true →
        intersect exampleVertices exampleArea 1 exampleHalfSpace (Node.empty true)
            ⟨⟨8, 0, 0⟩, 3, ⟨8, 0, 0⟩, 8⟩ = Node.empty true) :=
  intersect_uniform_region exampleVertices exampleArea 1 exampleHalfSpace (Node.empty true)
    ⟨⟨8, 0, 0⟩, 3, ⟨8, 0, 0⟩, 8⟩ (by
      simp [exampleHalfSpace, SolidGeometry.defaultCubeNeedsSubdivision, Area.toAABB,
        Vector3.add, rat_add]
      norm_num)

/-- C26: invert keeps edges valid.  For every subtree, `invert` yields the same node
structure with the sign of every Empty node flipped, every lattice entry of every Grid
leaf flipped and every list of edge records unchanged; and if every Grid leaf satisfied
sign coherence before `invert`, every Grid leaf satisfies it afterwards. -/
theorem invert_flips_signs_only {SV : Type} (n : Node SV) :
    n.SignsFlipped n.invert ∧ (n.LeavesCoherent → n.invert.LeavesCoherent) := by
  induction n with
  | inner ch ih =>
    constructor
    · show ∀ i, (ch i).SignsFlipped (ch i).invert
      exact fun i => (ih i).1
    · intro h
      show ∀ i, (ch i).invert.LeavesCoherent
      exact fun i => (ih i).2 (h i)
  | empty s =>
    exact ⟨rfl, fun _ => trivial⟩
  | grid g =>
    constructor
    · show g.invert.m_SurfaceEdges = g.m_SurfaceEdges
        ∧ ∀ i, g.invert.m_Signs.entry i = !g.m_Signs.entry i
      refine ⟨rfl, ?_⟩
      intro i
      have h := GridNode.invert_get g i.val i.isLt
      rw [SignArray.get_val, SignArray.get_val] at h
      exact h
    · intro h
      exact GridNode.invert_coherent g h

theorem invert_flips_signs_only_witness :
    (Node.grid (GridNode.create exampleVertices exampleArea 1 exampleArea exampleHalfSpace) :
        Node (Bool × Vector3i × Nat)).LeavesCoherent
      ∧ (Node.grid (GridNode.create exampleVertices exampleArea 1 exampleArea
          exampleHalfSpace) : Node (Bool × Vector3i × Nat)).invert.LeavesCoherent :=
  ⟨GridNode.create_coherent exampleVertices exampleArea 1 exampleArea exampleHalfSpace,
    (invert_flips_signs_only
      (Node.grid (GridNode.create exampleVertices exampleArea 1 exampleArea
        exampleHalfSpace))).2
      (GridNode.create_coherent exampleVertices exampleArea 1 exampleArea exampleHalfSpace)⟩

/-- C27: sign sampling layout.  After `computeSigns` the entry at linear index
`x·S² + y·S + z`, for all `0 ≤ x, y, z < S`, is the sign of the solid at the real position
of `area.m_MinPos + (x, y, z)`; and the indices written by the loop, in order, are
`0, 1, …, S³ - 1`, so each of the `S³` entries is written exactly once. -/
theorem computeSigns_layout {F : Type} [FloatOps F] (R : Area F) (c : F) (area : Area F)
    (s : SolidGeometry F) (m_Signs : SignArray) :
    (∀ x y z : Fin LEAF_SIZE_1D,
      (computeSigns R c area s m_Signs).get
          (x.val * LEAF_SIZE_2D + y.val * LEAF_SIZE_1D + z.val)
        = s.getSign (getRealPos R c (area.m_MinPos + ⟨x.val, y.val, z.val⟩)))
    ∧ (computeSignsLogged R c area s m_Signs).1 = computeSigns R c area s m_Signs
    ∧ (computeSignsLogged R c area s m_Signs).2 = List.range LEAF_SIZE_3D
    ∧ (computeSignsLogged R c area s m_Signs).2.length = LEAF_SIZE_1D ^ 3
    ∧ ∀ i : Fin LEAF_SIZE_3D, (computeSignsLogged R c area s m_Signs).2.count i.val = 1 := by
  have e1 : (computeSignsLogged R c area s m_Signs).1 = computeSigns R c area s m_Signs := by
    rw [computeSignsLogged_eq]
  have e2 : (computeSignsLogged R c area s m_Signs).2 = List.range LEAF_SIZE_3D := by
    rw [computeSignsLogged_eq]
  rw [e2]
  refine ⟨?_, e1, Eq.refl _, ?_, ?_⟩
  · intro x y z
    rw [computeSigns_get R c area s m_Signs _ (linear_lt _ _ _ x.isLt y.isLt z.isLt),
      fromIndex_linear _ _ _ x.isLt y.isLt z.isLt]
  · rw [List.length_range, LEAF_SIZE_3D_eq, LEAF_SIZE_1D_eq]
    norm_num
  · intro i
    exact List.count_eq_one_of_mem (List.nodup_range _) (List.mem_range.mpr i.isLt)

/-- C28: corner mask bit order.  Bit `i` (for `i` in `0..7`) of `getCubeBitMask(idx, signs)`
is the sign at `idx + ((i>>2)&1)·S² + ((i>>1)&1)·S + (i&1)`; the mask is 0 exactly when
all eight corner signs are outside and 255 exactly when all are inside. -/
theorem getCubeBitMask_bits (idx : Nat) (signs : SignArray) :
    (∀ i : Fin 8,
      (getCubeBitMask idx signs).testBit i.val
        = signs.get (idx + ((i.val >>> 2) &&& 1) * LEAF_SIZE_1D ^ 2
            + ((i.val >>> 1) &&& 1) * LEAF_SIZE_1D + (i.val &&& 1)))
    ∧ (getCubeBitMask idx signs = 0
        ↔ ∀ i : Fin 8, signs.get (idx + ((i.val >>> 2) &&& 1) * LEAF_SIZE_1D ^ 2
            + ((i.val >>> 1) &&& 1) * LEAF_SIZE_1D + (i.val &&& 1)) = false)
    ∧ (getCubeBitMask idx signs = 255
        ↔ ∀ i : Fin 8, signs.get (idx + ((i.val >>> 2) &&& 1) * LEAF_SIZE_1D ^ 2
            + ((i.val >>> 1) &&& 1) * LEAF_SIZE_1D + (i.val &&& 1)) = true) := by
  have key : ∀ i : Fin 8,
      signs.get (idx + ((i.val >>> 2) &&& 1) * LEAF_SIZE_1D ^ 2
          + ((i.val >>> 1) &&& 1) * LEAF_SIZE_1D + (i.val &&& 1))
        = (getCubeBitMask idx signs).testBit i.val := getCubeBitMask_testBit idx signs
  have hlt : getCubeBitMask idx signs < 2 ^ 8 := getCubeBitMask_lt idx signs
  refine ⟨fun i => (key i).symm, ?_, ?_⟩
  · simp only [key]
    constructor
    · intro h i
      rw [h]
      exact Nat.zero_testBit i.val
    · intro h
      apply Nat.eq_of_testBit_eq
      intro j
      rw [Nat.zero_testBit]
      by_cases hj : j < 8
      · exact h ⟨j, hj⟩
      · exact Nat.testBit_lt_two_pow
          (lt_of_lt_of_le hlt (Nat.pow_le_pow_right (by decide) (not_lt.mp hj)))
  · simp only [key]
    constructor
    · intro h i
      rw [h]
      fin_cases i <;> decide
    · intro h
      apply Nat.eq_of_testBit_eq
      intro j
      by_cases hj : j < 8
      · rw [h ⟨j, hj⟩]
        have h8 : ∀ k : Fin 8, Nat.testBit 255 k.val = true := by decide
        exact (h8 ⟨j, hj⟩).symm
      · rw [Nat.testBit_lt_two_pow
            (lt_of_lt_of_le hlt (Nat.pow_le_pow_right (by decide) (not_lt.mp hj))),
          Nat.testBit_lt_two_pow
            (lt_of_lt_of_le (by decide : 255 < 2 ^ 8)
              (Nat.pow_le_pow_right (by decide) (not_lt.mp hj)))]

/-- C30: vertex emission deduplicates.  Starting from a store in which no vertex is
marked, after the vertex pass over any sequence of Grid leaves with one output buffer:
the buffer is the old buffer followed by the vertex data of the shared vertices
referenced by the leaves, each exactly once (the list has no duplicates and contains
exactly the referenced vertices whose `shared` flag is set), in the order of first
reference; the `vertexIndex` of each is its position in the buffer, and the buffer holds
its vertex data there. -/
theorem generateVertices_deduplicates {V : Type} (heap : VertexHeap V) (buffer : List V)
    (leaves : List (GridNode Nat)) (hmarked : ∀ p, (heap p).marked = false) :
    (generateVerticesAll leaves (heap, buffer)).2
        = buffer ++ (firstReferences heap (leafReferences leaves)).map (fun p => (heap p).vertex)
      ∧ (firstReferences heap (leafReferences leaves)).Nodup
      ∧ (∀ p, p ∈ firstReferences heap (leafReferences leaves)
          ↔ p ∈ leafReferences leaves ∧ (heap p).shared = true)
      ∧ (∀ p q, p ∈ firstReferences heap (leafReferences leaves) →
          q ∈ firstReferences heap (leafReferences leaves) →
          ((firstReferences heap (leafReferences leaves)).indexOf p
              < (firstReferences heap (leafReferences leaves)).indexOf q
            ↔ (leafReferences leaves).indexOf p < (leafReferences leaves).indexOf q))
      ∧ (∀ p, p ∈ leafReferences leaves → (heap p).shared = true →
          ((generateVerticesAll leaves (heap, buffer)).1 p).vertexIndex
              = buffer.length + (firstReferences heap (leafReferences leaves)).indexOf p
            ∧ (generateVerticesAll leaves (heap, buffer)).2.get?
                ((generateVerticesAll leaves (heap, buffer)).1 p).vertexIndex
              = some (heap p).vertex)
      ∧ (∀ k, k < buffer.length →
          (generateVerticesAll leaves (heap, buffer)).2.get? k = buffer.get? k) := by
  have inv := generateVerticesAll_inv heap buffer leaves [] (heap, buffer)
    (emittedSoFar_start heap buffer hmarked)
  have hfr : (leafReferences leaves).foldl
      (fun acc p => if (heap p).shared = true ∧ p ∉ acc then acc ++ [p] else acc) []
      = firstReferences heap (leafReferences leaves) := rfl
  rw [hfr] at inv
  refine ⟨inv.buf, inv.nodup, mem_firstReferences heap _, firstReferences_order heap _, ?_, ?_⟩
  · intro p hp hs
    have hmem := (mem_firstReferences heap (leafReferences leaves) p).mpr ⟨hp, hs⟩
    have hidx := inv.index p hmem
    refine ⟨hidx, ?_⟩
    rw [hidx, inv.buf, List.get?_eq_getElem?, List.getElem?_append_right (Nat.le_add_right _ _),
      Nat.add_sub_cancel_left, List.getElem?_map,
      List.getElem?_eq_getElem (List.indexOf_lt_length.mpr hmem), List.getElem_indexOf]
    rfl
  · intro k hk
    rw [inv.buf, List.get?_eq_getElem?, List.get?_eq_getElem?, List.getElem?_append_left hk]

theorem generateVertices_deduplicates_witness :
    (generateVerticesAll
        [⟨SignArray.blank, [⟨7, 0, 1, 2⟩, ⟨9, 1, 2, 2⟩, ⟨7, 2, 3, 2⟩]⟩,
          ⟨SignArray.blank, [⟨9, 0, 1, 2⟩, ⟨8, 1, 2, 2⟩]⟩]
        ((fun p => ⟨p * 10, 0, 1, false, decide (p ≠ 8)⟩ : VertexHeap Nat), [5])).2
      = [5, 70, 90] := by
  have h := (generateVertices_deduplicates
    (fun p => ⟨p * 10, 0, 1, false, decide (p ≠ 8)⟩ : VertexHeap Nat) [5]
    [⟨SignArray.blank, [⟨7, 0, 1, 2⟩, ⟨9, 1, 2, 2⟩, ⟨7, 2, 3, 2⟩]⟩,
      ⟨SignArray.blank, [⟨9, 0, 1, 2⟩, ⟨8, 1, 2, 2⟩]⟩]
    (fun _ => rfl)).1
  rw [h]
  decide

/-- C29: index emission.  For a Grid leaf that satisfies sign coherence and a table that
only references sub-cell edges whose corner bits differ in the mask, `generateIndices`
succeeds and appends, sub-cell by sub-cell in x-major, then y, then z order, nothing for
a sub-cell whose mask is 0 or 255 and otherwise, for each triangle of `indexTable[mask]` in
table order, the three indices of `p1`, `p2`, `p3`, each the `vertexIndex` of the record
whose direction is the directed edge's direction and whose lower endpoint is the
sub-cell index plus the offset (bit 2, bit 1, bit 0) of `minCornerIndex`; that record
exists and is the only one; the number of appended indices is 3 times the sum of the
table triangle counts over the mixed sub-cells. -/
theorem generateIndices_emission {V : Type} (tlt : TLT) (heap : VertexHeap V)
    (g : GridNode Nat) (indices : List Nat) (hcoh : SignCoherent g) (htab : tlt.Consistent) :
    g.generateIndices tlt heap indices
        = some (indices ++ subCells.flatMap (fun idx => cellIndices tlt heap g idx))
      ∧ (subCells.flatMap (fun idx => cellIndices tlt heap g idx)).length
          = 3 * (subCells.map (fun idx =>
              if getCubeBitMask idx g.m_Signs = 0 ∨ getCubeBitMask idx g.m_Signs = 255 then 0
              else (tlt.indexTable (getCubeBitMask idx g.m_Signs)).length)).sum
      ∧ (∀ idx, idx ∈ subCells →
          ∀ t, t ∈ tlt.indexTable (getCubeBitMask idx g.m_Signs) →
          ∀ p, p ∈ [t.p1, t.p2, t.p3] →
            edgeCount g.m_SurfaceEdges (tlt.directedEdges p).direction
              (idx + cornerLinearOffset (tlt.directedEdges p).minCornerIndex) = 1)
      ∧ (∀ x y z : Fin LEAF_SIZE_1D_INNER,
          x.val * LEAF_SIZE_2D + y.val * LEAF_SIZE_1D + z.val ∈ subCells) := by
  refine ⟨?_, ?_, ?_, ?_⟩
  · rw [GridNode.generateIndices_eq]
    exact foldl_cells_eq
      (fun idx acc =>
        generateIndicesCell tlt heap (surfaceEdgeMaps g.m_SurfaceEdges) g.m_Signs idx acc)
      (fun idx => cellIndices tlt heap g idx) subCells
      (fun idx hidx acc => generateIndicesCell_eq tlt heap g hcoh htab idx hidx acc) indices
  · exact length_flatMap_cells _ _ subCells (fun idx => cellIndices_length tlt heap g idx)
  · intro idx hidx t ht p hp
    obtain ⟨hd, hm, hbit, hdiff⟩ := htab _ t ht p hp
    exact edgeCount_of_mask g hcoh idx hidx _ _ hd hm hbit hdiff
  · intro x y z
    exact (mem_subCells _).mpr ⟨x.val, y.val, z.val, x.isLt, y.isLt, z.isLt, rfl⟩

theorem generateIndices_emission_witness :
    SignCoherent exampleCornerLeaf ∧ exampleTable.Consistent
      ∧ exampleCornerLeaf.generateIndices exampleTable exampleHeap [4]
        = some ([4] ++ subCells.flatMap (fun idx =>
            cellIndices exampleTable exampleHeap exampleCornerLeaf idx)) :=
  ⟨exampleCornerLeaf_coherent, exampleTable_consistent,
    (generateIndices_emission exampleTable exampleHeap exampleCornerLeaf [4]
      exampleCornerLeaf_coherent exampleTable_consistent).1⟩

/-- C16 (refuted by the code): the aligned leaf operations execute no statement, so for
two Grid leaves `mergeAlignedNode` and `intersectAlignedNode` return the first leaf with
its own signs.  With the first leaf all outside and the second inside at index 0 the
union keeps `false` where `S1 OR S2` is true; with the leaves exchanged the intersection
keeps `true` where `S1 AND S2` is false. -/
theorem aligned_leaf_keeps_own_signs :
    (∀ (g g2 : GridNode Nat) (area : Area ℚ),
        mergeAlignedNode (Node.grid g) (Node.grid g2) area = some (Node.grid g)
        ∧ intersectAlignedNode (Node.grid g) (Node.grid g2) area = some (Node.grid g))
      ∧ mergeAlignedNode (Node.grid exampleBlankLeaf) (Node.grid exampleCornerLeaf) exampleArea
          = some (Node.grid exampleBlankLeaf)
      ∧ exampleBlankLeaf.m_Signs.get 0 = false
      ∧ (exampleBlankLeaf.m_Signs.get 0 || exampleCornerLeaf.m_Signs.get 0) = true
      ∧ intersectAlignedNode (Node.grid exampleCornerLeaf) (Node.grid exampleBlankLeaf)
          exampleArea = some (Node.grid exampleCornerLeaf)
      ∧ exampleCornerLeaf.m_Signs.get 0 = true
      ∧ (exampleCornerLeaf.m_Signs.get 0 && exampleBlankLeaf.m_Signs.get 0) = false := by
  have hb : exampleBlankLeaf.m_Signs.get 0 = false := by
    unfold exampleBlankLeaf SignArray.get SignArray.blank
    split_ifs <;> rfl
  have hc : exampleCornerLeaf.m_Signs.get 0 = true := by
    rw [exampleCornerLeaf_get]
    rfl
  refine ⟨fun g g2 area => ⟨rfl, rfl⟩, rfl, hb, ?_, rfl, hc, ?_⟩
  · rw [hb, hc]
    rfl
  · rw [hb, hc]
    rfl

/-- C17 (as stated, refuted): the receiver is the Empty tree of sign outside over
`[0, 8]³` with cell size 1, the other tree the Empty tree of sign inside over a different
root area with cell size 2.  `mergeAlignedOctree` reports no failure and replaces the
receiver's root node. -/
theorem aligned_merge_accepts_mismatched_trees :
    exampleArea.m_MinPos ≠ exampleOtherArea.m_MinPos
      ∧ exampleArea.m_SizeExpo ≠ exampleOtherArea.m_SizeExpo
      ∧ (1 : ℚ) ≠ 2
      ∧ Tree.mergeAlignedOctree
          ({ m_RootNode := Node.empty false, m_RootArea := exampleArea, m_CellSize := 1 } :
            Tree ℚ Nat)
          { m_RootNode := Node.empty true, m_RootArea := exampleOtherArea, m_CellSize := 2 }
        = some { m_RootNode := Node.empty true, m_RootArea := exampleArea, m_CellSize := 1 }
      ∧ (Node.empty true : Node Nat) ≠ Node.empty false := by
  refine ⟨by decide, by decide, by norm_num, rfl, ?_⟩
  intro h
  cases h

/-- C17 (amended): the aligned operations make no check of root areas or cell sizes.
Their outcome does not depend on the root area and the cell size of the other tree, and
the tree they produce keeps the root area and the cell size of the receiver. -/
theorem aligned_csg_ignores_other_geometry {F SV : Type} [FloatOps F] (t : Tree F SV)
    (n : Node SV) (a a2 : Area F) (c c2 : F) :
    (t.mergeAlignedOctree ⟨n, a, c⟩ = t.mergeAlignedOctree ⟨n, a2, c2⟩
      ∧ t.intersectAlignedOctree ⟨n, a, c⟩ = t.intersectAlignedOctree ⟨n, a2, c2⟩
      ∧ t.subtractAlignedOctree ⟨n, a, c⟩ = t.subtractAlignedOctree ⟨n, a2, c2⟩)
    ∧ (∀ r, r ∈ [t.mergeAlignedOctree ⟨n, a, c⟩, t.intersectAlignedOctree ⟨n, a, c⟩,
          t.subtractAlignedOctree ⟨n, a, c⟩] →
        ∀ t2, r = some t2 → t2.m_RootArea = t.m_RootArea ∧ t2.m_CellSize = t.m_CellSize) := by
  refine ⟨⟨rfl, rfl, rfl⟩, ?_⟩
  intro r hr t2 ht2
  simp only [List.mem_cons, List.mem_singleton, List.not_mem_nil, or_false] at hr
  subst ht2
  rcases hr with h | h | h
  · unfold Tree.mergeAlignedOctree at h
    cases hm : mergeAlignedNode t.m_RootNode n t.m_RootArea with
    | none => rw [hm] at h; cases h
    | some m =>
      rw [hm] at h
      simp only [Option.map_some', Option.some.injEq] at h
      rw [h]
      exact ⟨rfl, rfl⟩
  · unfold Tree.intersectAlignedOctree at h
    cases hm : intersectAlignedNode t.m_RootNode n t.m_RootArea with
    | none => rw [hm] at h; cases h
    | some m =>
      rw [hm] at h
      simp only [Option.map_some', Option.some.injEq] at h
      rw [h]
      exact ⟨rfl, rfl⟩
  · unfold Tree.subtractAlignedOctree at h
    cases hm : subtractAlignedNode t.m_RootNode n t.m_RootArea with
    | none => rw [hm] at h; cases h
    | some m =>
      rw [hm] at h
      simp only [Option.map_some', Option.some.injEq] at h
      rw [h]
      exact ⟨rfl, rfl⟩

/-- C18: ray miss.  Whenever the box test of a node's area fails for the current best
`t`, `rayIntersectUpdate` returns false without calling any child and without extracting
any leaf mesh, and leaves `t` unchanged; in particular `rayIntersectClosest` returns
false with an empty log of visits when the test of the root area fails for the largest
float. -/
theorem ray_miss_rejects {F SV : Type} [FloatOps F] (intersectAABB : AABB F → F → Bool)
    (leafHit : GridNode SV → Area F → F → Option F) (n : Node SV) (area : Area F) (t : F)
    (log : List (Visit F)) (c : F) (hmiss : intersectAABB area.toAABB t = false) :
    n.rayIntersectUpdate intersectAABB leafHit area (t, log) = (false, (t, log))
      ∧ Tree.rayIntersectClosest intersectAABB leafHit t ⟨n, area, c⟩ = (false, (t, [])) := by
  have h : ∀ log2 : List (Visit F),
      n.rayIntersectUpdate intersectAABB leafHit area (t, log2) = (false, (t, log2)) := by
    intro log2
    cases n with
    | inner ch =>
      unfold Node.rayIntersectUpdate
      simp [hmiss]
    | empty s =>
      unfold Node.rayIntersectUpdate
      rfl
    | grid g =>
      unfold Node.rayIntersectUpdate
      simp [hmiss]
  exact ⟨h log, h []⟩

theorem ray_miss_rejects_witness :
    (Node.inner (fun _ => Node.grid exampleCornerLeaf) : Node Nat).rayIntersectUpdate
        (fun b t => decide (b.min.x < t)) (fun _ _ t => some (t / 2)) exampleOtherArea
        ((5 : ℚ), [])
      = (false, ((5 : ℚ), []))
    ∧ Tree.rayIntersectClosest (fun b t => decide (b.min.x < t)) (fun _ _ t => some (t / 2))
        (5 : ℚ) ⟨(Node.inner (fun _ => Node.grid exampleCornerLeaf) : Node Nat),
          exampleOtherArea, 2⟩
      = (false, ((5 : ℚ), [])) :=
  ray_miss_rejects (fun b t => decide (b.min.x < t)) (fun _ _ t => some (t / 2))
    (Node.inner (fun _ => Node.grid exampleCornerLeaf)) exampleOtherArea 5 [] 2
    (by
      simp only [exampleOtherArea, Area.toAABB, decide_eq_false_iff_not, not_lt]
      norm_num)

/-- C12 (as stated, refuted): sample the solid `exampleDenseOutside` over `[0, 8]³` at
depth 4 (eight Grid leaves, every sign outside) and merge `exampleLateHalfSpace`, which
reports no subdivision for the leaves on the plane `x = 0` although its sign changes on
their face `x = 8`.  Afterwards the leaf at `(0, 0, 0)` stores outside and the leaf at
`(8, 0, 0)` stores inside for the same lattice point `(8, 0, 0)`. -/
theorem merge_breaks_sibling_consistency :
    ((sampleSDF exampleVertices exampleDenseOutside exampleBox 4).merge exampleVertices
        exampleLateHalfSpace).m_RootNode.gridStoresSign
        (sampleSDF exampleVertices exampleDenseOutside exampleBox 4).m_RootArea ⟨8, 0, 0⟩ false
    ∧ ((sampleSDF exampleVertices exampleDenseOutside exampleBox 4).merge exampleVertices
        exampleLateHalfSpace).m_RootNode.gridStoresSign
        (sampleSDF exampleVertices exampleDenseOutside exampleBox 4).m_RootArea ⟨8, 0, 0⟩
        true := by
  have hroot := exampleDenseOutside_root
  have hcell := exampleDenseOutside_cell
  have hmin : (sampleSDF exampleVertices exampleDenseOutside exampleBox
      4).m_RootArea.m_MinRealPos = ⟨0, 0, 0⟩ := rfl
  unfold Tree.merge
  simp only
  rw [hroot]
  unfold merge
  have hn : exampleLateHalfSpace.cubeNeedsSubdivision
      (sampleSDF exampleVertices exampleDenseOutside exampleBox 4).m_RootArea = true := by
    decide
  rw [hn]
  simp only [if_true]
  constructor
  · refine ⟨0, ?_⟩
    unfold merge
    have hn0 : exampleLateHalfSpace.cubeNeedsSubdivision
        ((sampleSDF exampleVertices exampleDenseOutside exampleBox 4).m_RootArea.getSubAreas 0)
        = false := by
      decide
    have hs0 : exampleLateHalfSpace.getSign
        (((sampleSDF exampleVertices exampleDenseOutside exampleBox 4).m_RootArea.getSubAreas
          0).getCornerVecs 0).2 = false := by
      show decide ((4 : ℚ) ≤ _) = false
      rw [decide_eq_false_iff_not]
      simp only [Area.getCornerVecs, Area.getSubAreas, sampleSDF, exampleBox, cornerOffset,
        bitSet, rat_add, rat_mul, rat_ofInt, rat_max, rat_sub, rat_half, Vector3.sub,
        Vector3.add]
      norm_num [rat_add]
    rw [hn0, hs0]
    simp only [Bool.not_false, if_true]
    refine ⟨8, 0, 0, by decide, by decide, by decide, by decide, ?_⟩
    rw [GridNode.create_signs, computeSigns_get _ _ _ _ _ _ (by decide)]
    rfl
  · refine ⟨4, ?_⟩
    unfold merge
    have hn4 : exampleLateHalfSpace.cubeNeedsSubdivision
        ((sampleSDF exampleVertices exampleDenseOutside exampleBox 4).m_RootArea.getSubAreas 4)
        = true := by
      decide
    rw [hn4]
    simp only [Bool.not_true, Bool.false_eq_true, if_false]
    refine ⟨0, 0, 0, by decide, by decide, by decide, by decide, ?_⟩
    rw [GridNode.merge_get _ _ _ _ _ _ _ (by decide), GridNode.create_signs,
      computeSigns_get _ _ _ _ _ _ (by decide), getRealPos_rat, hcell, hmin]
    show true = (false || decide ((4 : ℚ) ≤ _))
    have hp : (((sampleSDF exampleVertices exampleDenseOutside exampleBox
        4).m_RootArea.getSubAreas 4).m_MinPos + fromIndex (0 * LEAF_SIZE_2D + 0 * LEAF_SIZE_1D + 0)).x
        = 8 := by
      decide
    rw [hp]
    norm_num

/-- C12 (amended): for a tree sampled at a depth of at least `LEAF_EXPO` from a solid
whose `cubeNeedsSubdivision` is conservative and then rewritten by any sequence of
merge, intersect and subtract whose steering solids are conservative, any two Grid
leaves whose lattices contain the same global lattice point store the same sign for it. -/
theorem sibling_sign_consistency {F SV : Type} [FloatOps F] (vs : VertexSource F SV)
    (A : SolidGeometry F) (box : AABB F) (maxDepth : Int) (ops : List (CsgOp F))
    (hdepth : (LEAF_EXPO : Int) ≤ maxDepth)
    (hA : Conservative (sampleSDF vs A box maxDepth).m_RootArea
      (sampleSDF vs A box maxDepth).m_CellSize A)
    (hops : ∀ op, op ∈ ops →
      Conservative (sampleSDF vs A box maxDepth).m_RootArea
        (sampleSDF vs A box maxDepth).m_CellSize op.steeringSolid)
    (p : Vector3i) (b b2 : Bool)
    (h1 : (ops.foldl (fun t op => t.applyOp vs op)
        (sampleSDF vs A box maxDepth)).m_RootNode.gridStoresSign
      (sampleSDF vs A box maxDepth).m_RootArea p b)
    (h2 : (ops.foldl (fun t op => t.applyOp vs op)
        (sampleSDF vs A box maxDepth)).m_RootNode.gridStoresSign
      (sampleSDF vs A box maxDepth).m_RootArea p b2) :
    b = b2 := by
  obtain ⟨σ, hσ⟩ := applyOps_functional vs _ _ ops hops (sampleSDF vs A box maxDepth) rfl rfl
    (createNode_wellFormed vs _ _ A _ hdepth)
    ⟨fun p => A.getSign (getRealPos (sampleSDF vs A box maxDepth).m_RootArea
        (sampleSDF vs A box maxDepth).m_CellSize p),
      fun p b h => createNode_storesSign vs _ _ A hA _ SubAreaOf.refl p b h⟩
  rw [hσ p b (storesSign_of_gridStoresSign _ _ p b h1),
    hσ p b2 (storesSign_of_gridStoresSign _ _ p b2 h2)]

theorem sibling_sign_consistency_witness :
    (LEAF_EXPO : Int) ≤ 4
      ∧ ((([CsgOp.merge exampleDenseOutside] : List (CsgOp ℚ)).foldl
            (fun t op => t.applyOp exampleVertices op)
            (sampleSDF exampleVertices exampleDenseOutside exampleBox 4)).m_RootNode.gridStoresSign
          (sampleSDF exampleVertices exampleDenseOutside exampleBox 4).m_RootArea ⟨8, 0, 0⟩ false)
      ∧ false = false :=
  have hA : Conservative (sampleSDF exampleVertices exampleDenseOutside exampleBox 4).m_RootArea
      (sampleSDF exampleVertices exampleDenseOutside exampleBox 4).m_CellSize
      exampleDenseOutside := fun _ _ h => Bool.noConfusion h
  have hops : ∀ op, op ∈ ([CsgOp.merge exampleDenseOutside] : List (CsgOp ℚ)) →
      Conservative (sampleSDF exampleVertices exampleDenseOutside exampleBox 4).m_RootArea
        (sampleSDF exampleVertices exampleDenseOutside exampleBox 4).m_CellSize
        op.steeringSolid := by
    intro op hop
    rw [List.mem_singleton] at hop
    rw [hop]
    exact hA
  have hleaf : ∀ (i : Fin 8) (x : Nat), x < LEAF_SIZE_1D →
      (([CsgOp.merge exampleDenseOutside] : List (CsgOp ℚ)).foldl
          (fun t op => t.applyOp exampleVertices op)
          (sampleSDF exampleVertices exampleDenseOutside exampleBox 4)).m_RootNode.gridStoresSign
        (sampleSDF exampleVertices exampleDenseOutside exampleBox 4).m_RootArea
        (((sampleSDF exampleVertices exampleDenseOutside exampleBox 4).m_RootArea.getSubAreas
          i).m_MinPos + ⟨x, 0, 0⟩) false := by
    intro i x hx
    show (merge exampleVertices _ _ exampleDenseOutside
      (sampleSDF exampleVertices exampleDenseOutside exampleBox 4).m_RootNode _).gridStoresSign
      _ _ false
    rw [exampleDenseOutside_root]
    unfold merge
    have hn : ∀ a : Area ℚ, exampleDenseOutside.cubeNeedsSubdivision a = true := fun _ => rfl
    rw [hn]
    simp only [if_true]
    refine ⟨i, ?_⟩
    unfold merge
    rw [hn]
    simp only [Bool.not_true, Bool.false_eq_true, if_false]
    refine ⟨x, 0, 0, hx, by decide, by decide, rfl, ?_⟩
    rw [GridNode.merge_get _ _ _ _ _ _ _ (linear_lt x 0 0 hx (by decide) (by decide)),
      GridNode.create_signs,
      computeSigns_get _ _ _ _ _ _ (linear_lt x 0 0 hx (by decide) (by decide))]
    rfl
  ⟨by decide, hleaf 0 8 (by decide),
    sibling_sign_consistency exampleVertices exampleDenseOutside exampleBox 4
      [CsgOp.merge exampleDenseOutside] (by decide) hA hops ⟨8, 0, 0⟩ false false
      (hleaf 0 8 (by decide)) (hleaf 4 0 (by decide))⟩

/-- C15 (refuted by the code): the vertex pass skips every vertex whose `shared` flag is
false and leaves the store and the buffer as they are, while the index pass still
appends the `vertexIndex` of such vertices.  For the sign-coherent leaf whose only inside
point is the interior lattice point `(4, 4, 4)`, all of whose six vertices are
leaf-private, and a consistent table, the vertex buffer stays empty and the index pass
succeeds with a list that contains the index of the edge with direction 0 and lower
endpoint 364: that index is not smaller than the length of the vertex buffer. -/
theorem private_vertex_index_out_of_range :
    SignCoherent exampleInteriorLeaf ∧ exampleTable.Consistent
      ∧ (∀ (heap : VertexHeap Nat) (buffer : List Nat) (leaves : List (GridNode Nat)),
          (∀ p, (heap p).shared = false) →
            generateVerticesAll leaves (heap, buffer) = (heap, buffer))
      ∧ generateVerticesAll [exampleInteriorLeaf] (examplePrivateHeap, []) = (examplePrivateHeap, [])
      ∧ ∃ out, exampleInteriorLeaf.generateIndices exampleTable
            (generateVerticesAll [exampleInteriorLeaf] (examplePrivateHeap, [])).1 [] = some out
          ∧ cornerIndexOf exampleTable examplePrivateHeap exampleInteriorLeaf 364 0 ∈ out
          ∧ ¬ (cornerIndexOf exampleTable examplePrivateHeap exampleInteriorLeaf 364 0
              < (generateVerticesAll [exampleInteriorLeaf] (examplePrivateHeap, [])).2.length) := by
  have hv : generateVerticesAll [exampleInteriorLeaf] (examplePrivateHeap, [])
      = (examplePrivateHeap, []) :=
    generateVerticesAll_private examplePrivateHeap [] [exampleInteriorLeaf] (fun _ => rfl)
  refine ⟨exampleInteriorLeaf_coherent, exampleTable_consistent,
    fun heap buffer leaves h => generateVerticesAll_private heap buffer leaves h, hv, ?_⟩
  rw [hv]
  refine ⟨_, generateIndices_cells exampleTable examplePrivateHeap exampleInteriorLeaf []
    exampleInteriorLeaf_coherent exampleTable_consistent, ?_, ?_⟩
  · rw [List.nil_append, List.mem_flatMap]
    refine ⟨364, (mem_subCells 364).mpr ⟨4, 4, 4, by decide, by decide, by decide, by decide⟩, ?_⟩
    unfold cellIndices
    rw [exampleInteriorLeaf_mask]
    simp [exampleTable]
  · exact Nat.not_lt_zero _

/-- C11 (as stated, refuted): clone the tree whose root is the leaf `exampleCornerLeaf`
(the clone is the same tree value and references the same vertices), then merge
`exampleThinSlab` into the clone.  The x-edge of the leaf still crosses and the slab
crosses it too, so its vertex, the object 10 that the original tree references, is
refined in place: its position changes from `(1/4, 0, 0)` to `(1/2, 0, 0)`. -/
theorem merge_on_clone_moves_vertex :
    (exampleLeafTree.cloneS exampleStore).1 = exampleLeafTree
      ∧ (exampleStore.objects 10).vertex.position = ⟨1 / 4, 0, 0⟩
      ∧ exampleLeafTree.m_RootNode.references 10 = 1
      ∧ ((Tree.mergeS (fun pos _ _ _ => ⟨pos, ⟨1, 0, 0⟩⟩) (fun n => n)
            (exampleLeafTree.cloneS exampleStore).1 exampleThinSlab
            (exampleLeafTree.cloneS exampleStore).2).2.objects 10).vertex.position
          = ⟨1 / 2, 0, 0⟩ := by
  have hclone : exampleLeafTree.cloneS exampleStore
      = (exampleLeafTree,
          exampleStore.addRefs (fun p => exampleLeafTree.m_RootNode.references p)) := by
    unfold Tree.cloneS
    rw [Node.cloneS_eq]
  have hpos : (exampleStore.objects 10).vertex.position = ⟨1 / 4, 0, 0⟩ := rfl
  have hrefs : exampleLeafTree.m_RootNode.references 10 = 1 := by
    simp [exampleLeafTree, Node.references, exampleCornerLeaf]
  have hc1 : (exampleLeafTree.cloneS exampleStore).1 = exampleLeafTree := by rw [hclone]
  have hc2 : (exampleLeafTree.cloneS exampleStore).2
      = exampleStore.addRefs (fun p => exampleLeafTree.m_RootNode.references p) := by
    rw [hclone]
  refine ⟨hc1, hpos, hrefs, ?_⟩
  rw [hc1, hc2]
  generalize (fun p => exampleLeafTree.m_RootNode.references p) = k
  rw [Tree.mergeS_vertex_grid _ _ exampleLeafTree exampleThinSlab (exampleStore.addRefs k)
    exampleCornerLeaf rfl rfl 10 (Nat.lt_of_sub_eq_succ (rfl : 100 - 10 = 89 + 1))]
  have hsign : ∀ j, j < LEAF_SIZE_3D →
      (GridNode.merge (initCalls (fun pos _ _ _ => (⟨pos, ⟨1, 0, 0⟩⟩ : Vertex ℚ)))
        exampleLeafTree.m_RootArea exampleLeafTree.m_CellSize exampleLeafTree.m_RootArea
        exampleThinSlab
        { m_Signs := exampleCornerLeaf.m_Signs,
          m_SurfaceEdges := withExisting exampleCornerLeaf.m_SurfaceEdges }).m_Signs.get j
        = (decide (j = 0) || decide ((((fromIndex j).x : Int) : ℚ) * 2 ≤ 1)) := by
    intro j hj
    rw [GridNode.merge_get _ _ _ _ _ _ _ hj]
    show (exampleCornerLeaf.m_Signs.get j || decide (_ ≤ (1 : ℚ))) = _
    rw [exampleCornerLeaf_get, getRealPos_rat]
    simp [exampleLeafTree, exampleArea, Vector3i.add_x]
  have hother : ∀ j, j < LEAF_SIZE_3D →
      (computeSigns exampleLeafTree.m_RootArea exampleLeafTree.m_CellSize
        exampleLeafTree.m_RootArea exampleThinSlab SignArray.blank).get j
        = decide ((((fromIndex j).x : Int) : ℚ) * 2 ≤ 1) := by
    intro j hj
    rw [computeSigns_get _ _ _ _ _ _ hj]
    show decide (_ ≤ (1 : ℚ)) = _
    rw [getRealPos_rat]
    simp [exampleLeafTree, exampleArea, Vector3i.add_x]
  generalize (GridNode.merge (initCalls (fun pos _ _ _ => (⟨pos, ⟨1, 0, 0⟩⟩ : Vertex ℚ)))
    exampleLeafTree.m_RootArea exampleLeafTree.m_CellSize exampleLeafTree.m_RootArea
    exampleThinSlab
    { m_Signs := exampleCornerLeaf.m_Signs,
      m_SurfaceEdges := withExisting exampleCornerLeaf.m_SurfaceEdges }).m_Signs = S at hsign ⊢
  generalize computeSigns exampleLeafTree.m_RootArea exampleLeafTree.m_CellSize
    exampleLeafTree.m_RootArea exampleThinSlab SignArray.blank = O at hother ⊢
  have f0 : fromIndex 0 = ⟨0, 0, 0⟩ := by decide
  have f81 : fromIndex 81 = ⟨1, 0, 0⟩ := by decide
  have s0 : S.get 0 = true := by rw [hsign 0 (by decide)]; rfl
  have s81 : S.get 81 = false := by
    rw [hsign 81 (by decide), f81]
    norm_num
  have o0 : O.get 0 = true := by
    rw [hother 0 (by decide), f0]
    norm_num
  have o81 : O.get 81 = false := by
    rw [hother 81 (by decide), f81]
    norm_num
  have hedges : exampleCornerLeaf.m_SurfaceEdges
      = [⟨10, 0, 81, 0⟩, ⟨11, 0, 9, 1⟩, ⟨12, 0, 1, 2⟩] := rfl
  rw [hedges, List.foldl_cons, List.foldl_cons, List.foldl_cons, List.foldl_nil,
    keepOrRelease_other _ _ _ _ _ _ _ _ ⟨12, 0, 1, 2⟩ _ 10 (by decide),
    keepOrRelease_other _ _ _ _ _ _ _ _ ⟨11, 0, 9, 1⟩ _ 10 (by decide)]
  have href := keepOrRelease_refines true (fun n => n) exampleLeafTree.m_RootArea
    exampleLeafTree.m_CellSize exampleLeafTree.m_RootArea exampleThinSlab S O ⟨10, 0, 81, 0⟩
    (exampleStore.addRefs k) (by rw [s0, s81]; rfl) (by rw [o0, o81]; rfl) o81
  rw [href, f0]
  simp only [refineVertex, forLoop, getRealPos_rat, exampleThinSlab, exampleArea,
    exampleLeafTree, Vector3.setComponent, Vector3.component, Vector3.sub, rat_sub, rat_add,
    rat_mul, rat_half, rat_le, FloatOps.gt, VertexStore.addRefs, exampleStore, Vector3i.add_x,
    Vector3i.add_y, Vector3i.add_z]
  norm_num [Vector3.ext_components]

/-- C11 (amended): `clone` yields a tree with the same node structure, signs and edge
records as the original, and its records reference the same vertex objects: cloning
allocates nothing, and changes nothing in a vertex but its reference count, which grows
by the number of records of the tree that reference the vertex.  (The vertices are thus
shared with the original, and an operation on the clone that refines a vertex in place
moves it for both trees.) -/
theorem clone_shares_vertices {F : Type} (t : Tree F Nat) (store : VertexStore F) :
    t.m_RootNode.clone = t.m_RootNode
      ∧ (t.cloneS store).1 = t
      ∧ (t.cloneS store).2.next = store.next
      ∧ (t.cloneS store).2.live = store.live
      ∧ ∀ p, ((t.cloneS store).2.objects p).vertex = (store.objects p).vertex
          ∧ ((t.cloneS store).2.objects p).shared = (store.objects p).shared
          ∧ ((t.cloneS store).2.objects p).marked = (store.objects p).marked
          ∧ ((t.cloneS store).2.objects p).vertexIndex = (store.objects p).vertexIndex
          ∧ ((t.cloneS store).2.objects p).refCount
              = (store.objects p).refCount + t.m_RootNode.references p := by
  have h : t.cloneS store = (t, store.addRefs (fun p => t.m_RootNode.references p)) := by
    unfold Tree.cloneS
    rw [Node.cloneS_eq]
  rw [h]
  exact ⟨Node.clone_eq _, rfl, rfl, rfl, fun p => ⟨rfl, rfl, rfl, rfl, rfl⟩⟩

/-- C14 (vertex liveness): starting from trees and a store in which every allocated
`SharedSurfaceVertex` has a reference count equal to the number of edge records that
reference it (for instance no tree and no vertex), after any sequence of `sampleSDF`,
`clone`, `merge`, `intersect` and `subtract` every vertex that is still allocated has a
reference count equal to the number of `SurfaceEdge` records in all Grid leaves of all
trees that reference it, and that number is at least 1. -/
theorem refCount_counts_references {F : Type} [FloatOps F]
    (newVertex : Vector3 F → Nat → F → SolidGeometry F → Vertex F)
    (normalise : Vector3 F → Vector3 F) (w : World F) (cmds : List (Command F))
    (h : Accounts w.store w.references) (p : Nat)
    (hp : (w.run newVertex normalise cmds).store.live p = true) :
    ((w.run newVertex normalise cmds).store.objects p).refCount
        = (w.run newVertex normalise cmds).references p
      ∧ 1 ≤ (w.run newVertex normalise cmds).references p :=
  (World.run_accounts newVertex normalise cmds w h).count p hp

theorem refCount_counts_references_witness :
    Accounts exampleWorld.store exampleWorld.references
      ∧ (exampleWorld.run (fun pos _ _ _ => ⟨pos, ⟨1, 0, 0⟩⟩) (fun v => v)
          [Command.clone 0]).store.live 10 = true
      ∧ (((exampleWorld.run (fun pos _ _ _ => ⟨pos, ⟨1, 0, 0⟩⟩) (fun v => v)
            [Command.clone 0]).store.objects 10).refCount
          = (exampleWorld.run (fun pos _ _ _ => ⟨pos, ⟨1, 0, 0⟩⟩) (fun v => v)
            [Command.clone 0]).references 10
        ∧ 1 ≤ (exampleWorld.run (fun pos _ _ _ => ⟨pos, ⟨1, 0, 0⟩⟩) (fun v => v)
            [Command.clone 0]).references 10) :=
  ⟨exampleWorld_accounts, rfl,
    refCount_counts_references (fun pos _ _ _ => ⟨pos, ⟨1, 0, 0⟩⟩) (fun v => v) exampleWorld
      [Command.clone 0] exampleWorld_accounts 10 rfl⟩

/-- C13 (as stated, refuted): sample the band `exampleBandRight` over `[0, 8]³` at depth
4, which builds Grid leaves only on the plane `x = 8` and Empty nodes elsewhere, then
merge the same band as `exampleBandLeft`, which rebuilds the leaf at `(0, 0, 0)` and
keeps the leaf at `(8, 0, 0)`.  Both leaves then hold a record of direction `y` whose
global lower endpoint is `(8, 0, 0)`, on the boundary of both, and the two records
reference different vertices: the registry of the union starts empty. -/
theorem merge_splits_shared_vertex :
    ∃ (g0 g4 : GridNode Nat) (e0 e4 : SurfaceEdge Nat),
      exampleMerged.1.m_RootNode.HasGridLeaf g0 (exampleRootArea.getSubAreas 0) exampleRootArea
      ∧ exampleMerged.1.m_RootNode.HasGridLeaf g4 (exampleRootArea.getSubAreas 4)
          exampleRootArea
      ∧ e0 ∈ g0.m_SurfaceEdges ∧ e4 ∈ g4.m_SurfaceEdges
      ∧ interiorTest e0.edgeIndex1 e0.direction = false
      ∧ interiorTest e4.edgeIndex1 e4.direction = false
      ∧ e0.direction = e4.direction
      ∧ (exampleRootArea.getSubAreas 0).m_MinPos + fromIndex e0.edgeIndex1
          = (exampleRootArea.getSubAreas 4).m_MinPos + fromIndex e4.edgeIndex1
      ∧ e0.sharedVertex ≠ e4.sharedVertex := by
  have a1 : 648 + stride 1 < LEAF_SIZE_3D := by decide
  have a2 : coordOf 648 1 < LEAF_SIZE_1D_INNER := by decide
  have a3 : ((exampleRootArea.getSubAreas 0).m_MinPos + fromIndex 648).y = 0 := by decide
  have a4 : ((exampleRootArea.getSubAreas 0).m_MinPos + fromIndex (648 + stride 1)).y = 1 := by
    decide
  have b1 : 0 + stride 1 < LEAF_SIZE_3D := by decide
  have b2 : coordOf 0 1 < LEAF_SIZE_1D_INNER := by decide
  have b3 : ((exampleRootArea.getSubAreas 4).m_MinPos + fromIndex 0).y = 0 := by decide
  have b4 : ((exampleRootArea.getSubAreas 4).m_MinPos + fromIndex (0 + stride 1)).y = 1 := by
    decide
  have i0 : interiorTest 648 1 = false := by decide
  have i4 : interiorTest 0 1 = false := by decide
  have hpos : (exampleRootArea.getSubAreas 0).m_MinPos + fromIndex 648
      = (exampleRootArea.getSubAreas 4).m_MinPos + fromIndex 0 := by decide
  obtain ⟨e0, he0, hd0, hi0⟩ := exampleBand_record exampleBandLeft (fun _ => rfl)
    (exampleRootArea.getSubAreas 0) (exampleSampled.2, Registry.empty) 648 a1 a2 a3 a4
  obtain ⟨e4, he4, hd4, hi4⟩ := exampleBand_record exampleBandRight (fun _ => rfl)
    (exampleRootArea.getSubAreas 4) (exampleEmptyStore, Registry.empty) 0 b1 b2 b3 b4
  have hlt := exampleSampled_leaf4_below e4 he4
  have hge := GridNode.createS_fresh exampleNewVertex exampleRootArea (1 / 2)
    (exampleRootArea.getSubAreas 0) exampleBandLeft exampleSampled.2 e0 he0
  have hne : e0.sharedVertex ≠ e4.sharedVertex := Nat.ne_of_gt (lt_of_lt_of_le hlt hge)
  have j0 : interiorTest e0.edgeIndex1 e0.direction = false := by
    rw [hd0, hi0]
    exact i0
  have j4 : interiorTest e4.edgeIndex1 e4.direction = false := by
    rw [hd4, hi4]
    exact i4
  have hp : (exampleRootArea.getSubAreas 0).m_MinPos + fromIndex e0.edgeIndex1
      = (exampleRootArea.getSubAreas 4).m_MinPos + fromIndex e4.edgeIndex1 := by
    rw [hi0, hi4]
    exact hpos
  exact ⟨_, _, e0, e4, exampleMerged_leaves.1, exampleMerged_leaves.2, he0, he4, j0, j4,
    hd0.trans hd4.symm, hp, hne⟩

/-- C13 (amended): in every tree of `Tree.BuiltS`, that is a tree built by `sampleSDF` at a
depth of at least `LEAF_EXPO` from a solid whose `cubeNeedsSubdivision` is conservative and
then rewritten by any sequence of merge, intersect and subtract whose steering solids are
conservative (or a `clone` of such a tree), whenever two Grid leaves each hold a record
whose edge fails the interior test of `computeEdges` (the edge lies on the leaf boundary),
with the same direction and the same global integer lower endpoint, both records reference
the same `SharedSurfaceVertex`, and that vertex has `shared = true`. -/
theorem shared_vertex_identity {F : Type} [FloatOps F]
    (newVertex : Vector3 F → Nat → F → SolidGeometry F → Vertex F)
    (normalise : Vector3 F → Vector3 F) (t : Tree F Nat) (store : VertexStore F)
    (hbuilt : Tree.BuiltS newVertex normalise t store)
    (g1 g2 : GridNode Nat) (a1 a2 : Area F) (e1 e2 : SurfaceEdge Nat)
    (hl1 : t.m_RootNode.HasGridLeaf g1 a1 t.m_RootArea)
    (hl2 : t.m_RootNode.HasGridLeaf g2 a2 t.m_RootArea)
    (he1 : e1 ∈ g1.m_SurfaceEdges) (he2 : e2 ∈ g2.m_SurfaceEdges)
    (hb1 : interiorTest e1.edgeIndex1 e1.direction = false)
    (hb2 : interiorTest e2.edgeIndex1 e2.direction = false)
    (hd : e1.direction = e2.direction)
    (hp : a1.m_MinPos + fromIndex e1.edgeIndex1 = a2.m_MinPos + fromIndex e2.edgeIndex1) :
    e1.sharedVertex = e2.sharedVertex ∧ (store.objects e1.sharedVertex).shared = true := by
  obtain ⟨ρ, σ, h1, h2⟩ := hbuilt.shared
  have r1 := Node.LeavesRegistered.leaf g1 a1 _ _ h1.2.2.2 hl1 e1 he1 hb1
  have r2 := Node.LeavesRegistered.leaf g2 a2 _ _ h1.2.2.2 hl2 e2 he2 hb2
  rw [hd, hp, r2] at r1
  have he : e1.sharedVertex = e2.sharedVertex := (Option.some.inj r1).symm
  refine ⟨he, ?_⟩
  rw [he]
  exact (h2 _ _ _ r2).2

theorem shared_vertex_identity_witness :
    ∃ (g0 g1 : GridNode Nat) (e0 e1 : SurfaceEdge Nat),
      Tree.BuiltS exampleNewVertex (fun v => v) exampleDenseMerged.1 exampleDenseMerged.2
      ∧ exampleDenseMerged.1.m_RootNode.HasGridLeaf g0 (exampleRootArea.getSubAreas 0)
          exampleDenseMerged.1.m_RootArea
      ∧ exampleDenseMerged.1.m_RootNode.HasGridLeaf g1 (exampleRootArea.getSubAreas 1)
          exampleDenseMerged.1.m_RootArea
      ∧ e0 ∈ g0.m_SurfaceEdges ∧ e1 ∈ g1.m_SurfaceEdges
      ∧ interiorTest e0.edgeIndex1 e0.direction = false
      ∧ interiorTest e1.edgeIndex1 e1.direction = false
      ∧ e0.direction = e1.direction
      ∧ (exampleRootArea.getSubAreas 0).m_MinPos + fromIndex e0.edgeIndex1
          = (exampleRootArea.getSubAreas 1).m_MinPos + fromIndex e1.edgeIndex1
      ∧ e0.sharedVertex = e1.sharedVertex
      ∧ (exampleDenseMerged.2.objects e0.sharedVertex).shared = true := by
  have a1 : IsLatticeEdge 1 8 := by decide
  have a3 : ((exampleRootArea.getSubAreas 0).m_MinPos + fromIndex 8).y = 0 := by decide
  have a4 : ((exampleRootArea.getSubAreas 0).m_MinPos + fromIndex (8 + stride 1)).y = 1 := by
    decide
  have b1 : IsLatticeEdge 1 0 := by decide
  have b3 : ((exampleRootArea.getSubAreas 1).m_MinPos + fromIndex 0).y = 0 := by decide
  have b4 : ((exampleRootArea.getSubAreas 1).m_MinPos + fromIndex (0 + stride 1)).y = 1 := by
    decide
  have i0 : interiorTest 8 1 = false := by decide
  have i1 : interiorTest 0 1 = false := by decide
  have hpos : (exampleRootArea.getSubAreas 0).m_MinPos + fromIndex 8
      = (exampleRootArea.getSubAreas 1).m_MinPos + fromIndex 0 := by decide
  obtain ⟨e0, he0, hd0, hi0⟩ := exampleDense_record _ (exampleRootArea.getSubAreas 0)
    (exampleDenseSampled.2, Registry.empty)
    (GridNode.createS_coherent exampleNewVertex exampleRootArea (1 / 2)
      (exampleRootArea.getSubAreas 0) exampleBandDense (exampleEmptyStore, Registry.empty))
    (fun j hj => GridNode.createS_get _ _ _ _ _ _ j hj) 8 a1 a3 a4
  obtain ⟨e1, he1, hd1, hi1⟩ := exampleDense_record _ (exampleRootArea.getSubAreas 1)
    ((GridNode.createS exampleNewVertex exampleRootArea (1 / 2)
      (exampleRootArea.getSubAreas 0) exampleBandDense
      (exampleEmptyStore, Registry.empty)).1.mergeS exampleNewVertex (fun v => v)
        exampleRootArea (1 / 2) (exampleRootArea.getSubAreas 0) exampleBandDense
        (exampleDenseSampled.2, Registry.empty)).2
    (GridNode.createS_coherent exampleNewVertex exampleRootArea (1 / 2)
      (exampleRootArea.getSubAreas 1) exampleBandDense
      (GridNode.createS exampleNewVertex exampleRootArea (1 / 2)
        (exampleRootArea.getSubAreas 0) exampleBandDense
        (exampleEmptyStore, Registry.empty)).2)
    (fun j hj => GridNode.createS_get _ _ _ _ _ _ j hj) 0 b1 b3 b4
  have j0 : interiorTest e0.edgeIndex1 e0.direction = false := by
    rw [hd0, hi0]
    exact i0
  have j1 : interiorTest e1.edgeIndex1 e1.direction = false := by
    rw [hd1, hi1]
    exact i1
  have hp : (exampleRootArea.getSubAreas 0).m_MinPos + fromIndex e0.edgeIndex1
      = (exampleRootArea.getSubAreas 1).m_MinPos + fromIndex e1.edgeIndex1 := by
    rw [hi0, hi1]
    exact hpos
  exact ⟨_, _, e0, e1, exampleDenseMerged_built, exampleDenseMerged_leaves.1,
    exampleDenseMerged_leaves.2, he0, he1, j0, j1, hd0.trans hd1.symm, hp,
    shared_vertex_identity exampleNewVertex (fun v => v) exampleDenseMerged.1
      exampleDenseMerged.2 exampleDenseMerged_built _ _ _ _ e0 e1 exampleDenseMerged_leaves.1
      exampleDenseMerged_leaves.2 he0 he1 j0 j1 (hd0.trans hd1.symm) hp⟩

/-- C33 (per-axis vertex refinement), in exact arithmetic: let a record of a leaf refer to
a vertex that no other record of the leaf refers to, with old position `v`, let `q` be the
`closestSurfacePos` the other solid reports at the midpoint of the edge and `c` the
position of the inside endpoint.  If the record still crosses under the combined signs
and the other solid crosses it too, then after `GridNode::merge` coordinate `j` of the
vertex is `q[j]` when `|v[j] - c[j]| < |q[j] - c[j]|` and `v[j]` otherwise, and after
`GridNode::intersect` it is `q[j]` when `|q[j] - c[j]| < |v[j] - c[j]|` and `v[j]`
otherwise; if the other solid does not cross it, the vertex is left as it was. -/
theorem refinement_per_axis
    (newVertex : Vector3 ℚ → Nat → ℚ → SolidGeometry ℚ → Vertex ℚ)
    (normalise : Vector3 ℚ → Vector3 ℚ) (R : Area ℚ) (c : ℚ) (area : Area ℚ)
    (sdf : SolidGeometry ℚ) (g : GridNode Nat) (st : VertexStore ℚ × Registry)
    (i : SurfaceEdge Nat) (hi : i ∈ g.m_SurfaceEdges)
    (hnd : (g.m_SurfaceEdges.map (fun e => e.sharedVertex)).Nodup)
    (hp : i.sharedVertex < st.1.next) (j : Nat) (hj : j < 3) :
    (((GridNode.merge (initCalls newVertex) R c area sdf
          { m_Signs := g.m_Signs, m_SurfaceEdges := withExisting g.m_SurfaceEdges }).m_Signs.get
          i.edgeIndex1
        != (GridNode.merge (initCalls newVertex) R c area sdf
          { m_Signs := g.m_Signs, m_SurfaceEdges := withExisting g.m_SurfaceEdges }).m_Signs.get
          i.edgeIndex2) = true →
      (((computeSigns R c area sdf SignArray.blank).get i.edgeIndex1
          != (computeSigns R c area sdf SignArray.blank).get i.edgeIndex2) = true →
        ((g.mergeS newVertex normalise R c area sdf st).2.1.objects
            i.sharedVertex).vertex.position.component j
          = if |(st.1.objects i.sharedVertex).vertex.position.component j
                  - (getRealPos R c (area.m_MinPos + fromIndex
                      (insideEndpoint (computeSigns R c area sdf SignArray.blank)
                        i))).component j|
                < |(sdf.getSample (sampledPoint R c area i)).closestSurfacePos.component j
                  - (getRealPos R c (area.m_MinPos + fromIndex
                      (insideEndpoint (computeSigns R c area sdf SignArray.blank)
                        i))).component j|
            then (sdf.getSample (sampledPoint R c area i)).closestSurfacePos.component j
            else (st.1.objects i.sharedVertex).vertex.position.component j)
      ∧ (¬ ((computeSigns R c area sdf SignArray.blank).get i.edgeIndex1
          != (computeSigns R c area sdf SignArray.blank).get i.edgeIndex2) = true →
        ((g.mergeS newVertex normalise R c area sdf st).2.1.objects i.sharedVertex).vertex
          = (st.1.objects i.sharedVertex).vertex))
    ∧ (((GridNode.intersect (initCalls newVertex) R c area sdf
          { m_Signs := g.m_Signs, m_SurfaceEdges := withExisting g.m_SurfaceEdges }).m_Signs.get
          i.edgeIndex1
        != (GridNode.intersect (initCalls newVertex) R c area sdf
          { m_Signs := g.m_Signs, m_SurfaceEdges := withExisting g.m_SurfaceEdges }).m_Signs.get
          i.edgeIndex2) = true →
      (((computeSigns R c area sdf SignArray.blank).get i.edgeIndex1
          != (computeSigns R c area sdf SignArray.blank).get i.edgeIndex2) = true →
        ((g.intersectS newVertex normalise R c area sdf st).2.1.objects
            i.sharedVertex).vertex.position.component j
          = if |(sdf.getSample (sampledPoint R c area i)).closestSurfacePos.component j
                  - (getRealPos R c (area.m_MinPos + fromIndex
                      (insideEndpoint (computeSigns R c area sdf SignArray.blank)
                        i))).component j|
                < |(st.1.objects i.sharedVertex).vertex.position.component j
                  - (getRealPos R c (area.m_MinPos + fromIndex
                      (insideEndpoint (computeSigns R c area sdf SignArray.blank)
                        i))).component j|
            then (sdf.getSample (sampledPoint R c area i)).closestSurfacePos.component j
            else (st.1.objects i.sharedVertex).vertex.position.component j)
      ∧ (¬ ((computeSigns R c area sdf SignArray.blank).get i.edgeIndex1
          != (computeSigns R c area sdf SignArray.blank).get i.edgeIndex2) = true →
        ((g.intersectS newVertex normalise R c area sdf st).2.1.objects i.sharedVertex).vertex
          = (st.1.objects i.sharedVertex).vertex)) := by
  constructor
  · intro h1
    rw [GridNode.mergeS_vertex _ _ _ _ _ _ _ _ _ hp,
      keepOrRelease_fold_at _ _ _ _ _ _ _ _ _ hnd i hi]
    constructor
    · intro h2
      rw [keepOrRelease_refined _ _ _ _ _ _ _ _ _ _ h1 h2,
        refineVertex_component _ _ _ _ _ j hj]
      simp only [if_true]
    · intro h2
      rw [keepOrRelease_unchanged _ _ _ _ _ _ _ _ _ _ h1 h2]
  · intro h1
    rw [GridNode.intersectS_vertex _ _ _ _ _ _ _ _ _ hp,
      keepOrRelease_fold_at _ _ _ _ _ _ _ _ _ hnd i hi]
    constructor
    · intro h2
      rw [keepOrRelease_refined _ _ _ _ _ _ _ _ _ _ h1 h2,
        refineVertex_component _ _ _ _ _ j hj]
      simp only [Bool.false_eq_true, if_false]
    · intro h2
      rw [keepOrRelease_unchanged _ _ _ _ _ _ _ _ _ _ h1 h2]

theorem refinement_per_axis_witness :
    (⟨10, 0, 81, 0⟩ : SurfaceEdge Nat) ∈ exampleCornerLeaf.m_SurfaceEdges
      ∧ (exampleCornerLeaf.m_SurfaceEdges.map (fun e => e.sharedVertex)).Nodup
      ∧ (⟨10, 0, 81, 0⟩ : SurfaceEdge Nat).sharedVertex
          < (exampleStore, Registry.empty).1.next
      ∧ 0 < 3
      ∧
    (((GridNode.merge (initCalls exampleNewVertex) exampleArea 1 exampleArea exampleThinSlab
          { m_Signs := exampleCornerLeaf.m_Signs, m_SurfaceEdges := withExisting exampleCornerLeaf.m_SurfaceEdges }).m_Signs.get
          (⟨10, 0, 81, 0⟩ : SurfaceEdge Nat).edgeIndex1
        != (GridNode.merge (initCalls exampleNewVertex) exampleArea 1 exampleArea exampleThinSlab
          { m_Signs := exampleCornerLeaf.m_Signs, m_SurfaceEdges := withExisting exampleCornerLeaf.m_SurfaceEdges }).m_Signs.get
          (⟨10, 0, 81, 0⟩ : SurfaceEdge Nat).edgeIndex2) = true →
      (((computeSigns exampleArea 1 exampleArea exampleThinSlab SignArray.blank).get (⟨10, 0, 81, 0⟩ : SurfaceEdge Nat).edgeIndex1
          != (computeSigns exampleArea 1 exampleArea exampleThinSlab SignArray.blank).get (⟨10, 0, 81, 0⟩ : SurfaceEdge Nat).edgeIndex2) = true →
        ((exampleCornerLeaf.mergeS exampleNewVertex (fun v => v) exampleArea 1 exampleArea exampleThinSlab (exampleStore, Registry.empty)).2.1.objects
            (⟨10, 0, 81, 0⟩ : SurfaceEdge Nat).sharedVertex).vertex.position.component 0
          = if |((exampleStore, Registry.empty).1.objects (⟨10, 0, 81, 0⟩ : SurfaceEdge Nat).sharedVertex).vertex.position.component 0
                  - (getRealPos exampleArea 1 (exampleArea.m_MinPos + fromIndex
                      (insideEndpoint (computeSigns exampleArea 1 exampleArea exampleThinSlab SignArray.blank)
                        (⟨10, 0, 81, 0⟩ : SurfaceEdge Nat)))).component 0|
                < |(exampleThinSlab.getSample (sampledPoint exampleArea 1 exampleArea (⟨10, 0, 81, 0⟩ : SurfaceEdge Nat))).closestSurfacePos.component 0
                  - (getRealPos exampleArea 1 (exampleArea.m_MinPos + fromIndex
                      (insideEndpoint (computeSigns exampleArea 1 exampleArea exampleThinSlab SignArray.blank)
                        (⟨10, 0, 81, 0⟩ : SurfaceEdge Nat)))).component 0|
            then (exampleThinSlab.getSample (sampledPoint exampleArea 1 exampleArea (⟨10, 0, 81, 0⟩ : SurfaceEdge Nat))).closestSurfacePos.component 0
            else ((exampleStore, Registry.empty).1.objects (⟨10, 0, 81, 0⟩ : SurfaceEdge Nat).sharedVertex).vertex.position.component 0)
      ∧ (¬ ((computeSigns exampleArea 1 exampleArea exampleThinSlab SignArray.blank).get (⟨10, 0, 81, 0⟩ : SurfaceEdge Nat).edgeIndex1
          != (computeSigns exampleArea 1 exampleArea exampleThinSlab SignArray.blank).get (⟨10, 0, 81, 0⟩ : SurfaceEdge Nat).edgeIndex2) = true →
        ((exampleCornerLeaf.mergeS exampleNewVertex (fun v => v) exampleArea 1 exampleArea exampleThinSlab (exampleStore, Registry.empty)).2.1.objects (⟨10, 0, 81, 0⟩ : SurfaceEdge Nat).sharedVertex).vertex
          = ((exampleStore, Registry.empty).1.objects (⟨10, 0, 81, 0⟩ : SurfaceEdge Nat).sharedVertex).vertex)) := by
  have hi : (⟨10, 0, 81, 0⟩ : SurfaceEdge Nat) ∈ exampleCornerLeaf.m_SurfaceEdges :=
    List.mem_cons_self _ _
  have hnd : (exampleCornerLeaf.m_SurfaceEdges.map (fun e => e.sharedVertex)).Nodup := by
    simp [exampleCornerLeaf]
  have hp : (⟨10, 0, 81, 0⟩ : SurfaceEdge Nat).sharedVertex
      < (exampleStore, Registry.empty).1.next :=
    Nat.lt_of_sub_eq_succ (rfl : 100 - 10 = 89 + 1)
  have hj : 0 < 3 := by decide
  exact ⟨hi, hnd, hp, hj,
    (refinement_per_axis exampleNewVertex (fun v => v) exampleArea 1 exampleArea
      exampleThinSlab exampleCornerLeaf (exampleStore, Registry.empty) ⟨10, 0, 81, 0⟩
      hi hnd hp 0 hj).1⟩
/-- C34 (inside endpoint of a refined edge): in `GridNode::merge` and
`GridNode::intersect`, when the combined signs differ at the endpoints of a record and
the signs of the other solid differ there too, the endpoint taken as `insidePos` is inside
for the other solid and inside under the combined signs, and, when the old signs of the
leaf differ at the endpoints, inside under the old signs. -/
theorem inside_endpoint_is_inside {F SV : Type} [FloatOps F] (vs : VertexSource F SV)
    (R : Area F) (c : F) (area : Area F) (sdf : SolidGeometry F) (g : GridNode SV)
    (i : SurfaceEdge SV) (h1 : i.edgeIndex1 < LEAF_SIZE_3D) (h2 : i.edgeIndex2 < LEAF_SIZE_3D)
    (hother : ((computeSigns R c area sdf SignArray.blank).get i.edgeIndex1
      != (computeSigns R c area sdf SignArray.blank).get i.edgeIndex2) = true) :
    (computeSigns R c area sdf SignArray.blank).get
        (insideEndpoint (computeSigns R c area sdf SignArray.blank) i) = true
      ∧ (((g.merge vs R c area sdf).m_Signs.get i.edgeIndex1
            != (g.merge vs R c area sdf).m_Signs.get i.edgeIndex2) = true →
          (g.merge vs R c area sdf).m_Signs.get
              (insideEndpoint (computeSigns R c area sdf SignArray.blank) i) = true
            ∧ ((g.m_Signs.get i.edgeIndex1 != g.m_Signs.get i.edgeIndex2) = true →
              g.m_Signs.get (insideEndpoint (computeSigns R c area sdf SignArray.blank) i)
                = true))
      ∧ (((g.intersect vs R c area sdf).m_Signs.get i.edgeIndex1
            != (g.intersect vs R c area sdf).m_Signs.get i.edgeIndex2) = true →
          (g.intersect vs R c area sdf).m_Signs.get
              (insideEndpoint (computeSigns R c area sdf SignArray.blank) i) = true
            ∧ ((g.m_Signs.get i.edgeIndex1 != g.m_Signs.get i.edgeIndex2) = true →
              g.m_Signs.get (insideEndpoint (computeSigns R c area sdf SignArray.blank) i)
                = true)) := by
  have hin : insideEndpoint (computeSigns R c area sdf SignArray.blank) i < LEAF_SIZE_3D := by
    unfold insideEndpoint
    split_ifs
    · exact h2
    · exact h1
  have hm : ∀ k, k < LEAF_SIZE_3D → (g.merge vs R c area sdf).m_Signs.get k
      = (g.m_Signs.get k || (computeSigns R c area sdf SignArray.blank).get k) := by
    intro k hk
    rw [GridNode.merge_get _ _ _ _ _ _ _ hk, computeSigns_get _ _ _ _ _ _ hk]
  have hi : ∀ k, k < LEAF_SIZE_3D → (g.intersect vs R c area sdf).m_Signs.get k
      = (g.m_Signs.get k && (computeSigns R c area sdf SignArray.blank).get k) := by
    intro k hk
    rw [GridNode.intersect_get _ _ _ _ _ _ _ hk, computeSigns_get _ _ _ _ _ _ hk]
  have k1 := inside_endpoint_bool (g.m_Signs.get i.edgeIndex1) (g.m_Signs.get i.edgeIndex2)
    ((computeSigns R c area sdf SignArray.blank).get i.edgeIndex1)
    ((computeSigns R c area sdf SignArray.blank).get i.edgeIndex2) i.edgeIndex1 i.edgeIndex2
    g.m_Signs.get (computeSigns R c area sdf SignArray.blank).get
    (fun k => g.m_Signs.get k || (computeSigns R c area sdf SignArray.blank).get k)
    rfl rfl rfl rfl hother
  have k2 := inside_endpoint_bool (g.m_Signs.get i.edgeIndex1) (g.m_Signs.get i.edgeIndex2)
    ((computeSigns R c area sdf SignArray.blank).get i.edgeIndex1)
    ((computeSigns R c area sdf SignArray.blank).get i.edgeIndex2) i.edgeIndex1 i.edgeIndex2
    g.m_Signs.get (computeSigns R c area sdf SignArray.blank).get
    (fun k => g.m_Signs.get k && (computeSigns R c area sdf SignArray.blank).get k)
    rfl rfl rfl rfl hother
  refine ⟨k1.1, ?_, ?_⟩
  · intro hd
    rw [hm _ h1, hm _ h2] at hd
    rw [hm _ hin]
    exact k1.2.1 (fun _ => rfl) hd
  · intro hd
    rw [hi _ h1, hi _ h2] at hd
    rw [hi _ hin]
    exact k2.2.2 (fun _ => rfl) hd

theorem inside_endpoint_is_inside_witness :
    (0 < LEAF_SIZE_3D ∧ 81 < LEAF_SIZE_3D)
      ∧ ((computeSigns exampleArea 1 exampleArea exampleThinSlab SignArray.blank).get 0
          != (computeSigns exampleArea 1 exampleArea exampleThinSlab SignArray.blank).get 81)
          = true
      ∧ (computeSigns exampleArea 1 exampleArea exampleThinSlab SignArray.blank).get
          (insideEndpoint (computeSigns exampleArea 1 exampleArea exampleThinSlab
            SignArray.blank)
            (⟨(true, ⟨0, 0, 0⟩, 0), 0, 81, 0⟩ : SurfaceEdge (Bool × Vector3i × Nat))) = true := by
  have o0 : (computeSigns exampleArea 1 exampleArea exampleThinSlab SignArray.blank).get 0
      = true := by
    rw [computeSigns_get _ _ _ _ _ _ (by decide)]
    show decide (_ ≤ (1 : ℚ)) = true
    rw [getRealPos_rat]
    simp [exampleArea, Vector3i.add_x, fromIndex]
  have o81 : (computeSigns exampleArea 1 exampleArea exampleThinSlab SignArray.blank).get 81
      = false := by
    rw [computeSigns_get _ _ _ _ _ _ (by decide)]
    show decide (_ ≤ (1 : ℚ)) = false
    rw [getRealPos_rat]
    have f81 : fromIndex 81 = ⟨1, 0, 0⟩ := by decide
    rw [f81]
    simp [exampleArea, Vector3i.add_x]
  have hother : ((computeSigns exampleArea 1 exampleArea exampleThinSlab SignArray.blank).get 0
      != (computeSigns exampleArea 1 exampleArea exampleThinSlab SignArray.blank).get 81)
      = true := by
    rw [o0, o81]
    rfl
  exact ⟨⟨by decide, by decide⟩, hother,
    (inside_endpoint_is_inside exampleVertices exampleArea 1 exampleArea exampleThinSlab
      ⟨exampleCornerLeaf.m_Signs, []⟩
      (⟨(true, ⟨0, 0, 0⟩, 0), 0, 81, 0⟩ : SurfaceEdge (Bool × Vector3i × Nat))
      (by decide) (by decide) hother).1⟩
/-- C38 (sub-areas tile the parent): for an area with exponent at least 1, a lattice point
lies in the half-open integer cube of the parent exactly when it lies in the cube of some
sub-area, and then in that of only one; in exact arithmetic a point that the parent
contains is contained in exactly one sub-area; and corner `i` of sub-area `i` is corner
`i` of the parent. -/
theorem subAreas_tile (a : Area ℚ) (he : 1 ≤ a.m_SizeExpo) :
    (∀ p : Vector3i, a.cubeContains p ↔ ∃ i, (a.getSubAreas i).cubeContains p)
      ∧ (∀ (p : Vector3i) (i j : Fin 8), (a.getSubAreas i).cubeContains p →
          (a.getSubAreas j).cubeContains p → i = j)
      ∧ (∀ p : Vector3 ℚ, a.containsPoint p = true →
          ∃ i, (a.getSubAreas i).containsPoint p = true
            ∧ ∀ j, (a.getSubAreas j).containsPoint p = true → j = i)
      ∧ (∀ i : Fin 8, (a.getSubAreas i).getCorner i.val = a.getCorner i.val) :=
  ⟨fun p => subAreas_cover_cube a he p, fun p i j => subAreas_cube_disjoint a he p i j,
    fun p hp => subAreas_contain_once a p hp, fun i => subAreas_corner a he i⟩

theorem subAreas_tile_witness :
    (1 : Int) ≤ exampleRootArea.m_SizeExpo
      ∧ (exampleRootArea.getSubAreas 5).getCorner 5 = exampleRootArea.getCorner 5 :=
  ⟨by decide, (subAreas_tile exampleRootArea (by decide)).2.2.2 5⟩
/-- C39 (refuted by the code): the loop of `OctreeSDF::getLowerAndUpperBound` starts the
upper bound at `std::numeric_limits<float>::min()`, the smallest positive `float`.  For a
leaf whose eight corner distances are all `-1` the lower bound is `-1`, the minimum, but
the upper bound is `2^-126`, not the maximum `-1`; for a node the upper bound is
`2^-126 + realSize / 2`. -/
theorem leaf_upper_bound_above_maximum :
    OctreeSDF.getLowerAndUpperBound OctreeSDF.Node.null exampleUnitArea (fun _ => -1)
        = (-1, floatMinPositive)
      ∧ floatMinPositive ≠ -1
      ∧ OctreeSDF.getLowerAndUpperBound (OctreeSDF.Node.inner (fun _ => OctreeSDF.Node.null))
          exampleUnitArea (fun _ => -1)
        = (-1 - 1 / 2, floatMinPositive + 1 / 2) := by
  have hmin : min exampleFltMax (-1 : ℚ) = -1 := by
    unfold exampleFltMax
    norm_num
  have hmax : max floatMinPositive (-1 : ℚ) = floatMinPositive := by
    unfold floatMinPositive
    norm_num
  have hloop : forLoop 8
      (fun i (st : ℚ × ℚ) => (min st.1 ((fun _ => (-1 : ℚ)) i), max st.2 ((fun _ => (-1 : ℚ)) i)))
      (exampleFltMax, floatMinPositive) = (-1, floatMinPositive) := by
    simp only [forLoop, hmin, hmax, min_self]
  refine ⟨?_, ?_, ?_⟩
  · unfold OctreeSDF.getLowerAndUpperBound
    simp only [OctreeSDF.Node.isNonNull, Bool.false_eq_true, if_false]
    exact hloop
  · unfold floatMinPositive
    norm_num
  · unfold OctreeSDF.getLowerAndUpperBound Area.getLowerAndUpperBound
    simp only [OctreeSDF.Node.isNonNull, if_true]
    rw [hloop]
    simp only [exampleUnitArea]
    norm_num

/-- C40 (refuted by the code): the first loop of `OctreeSDF::resize` only moves the
minimum corner of the root, so a box whose minimum lies beyond the maximum corner of the
root is never contained.  For the root `[0, 1)³` and the box with `min = max = (2, 2, 2)`
the loop condition holds after every number of iterations: `resize` does not return for
any bound on the number of iterations. -/
theorem resize_does_not_terminate {G : Type} (writeSample : Vector3i → ℚ → G → G)
    (interpolateLeaf : Area ℚ → G → G) (grid : G) (root : OctreeSDF.Node) (fuel : Nat) :
    ((⟨⟨2, 2, 2⟩, ⟨2, 2, 2⟩⟩ : AABB ℚ).min.x ≤ (⟨⟨2, 2, 2⟩, ⟨2, 2, 2⟩⟩ : AABB ℚ).max.x)
      ∧ OctreeSDF.resize writeSample interpolateLeaf fuel ⟨⟨2, 2, 2⟩, ⟨2, 2, 2⟩⟩
          ⟨grid, root, exampleUnitArea⟩ = none := by
  refine ⟨le_refl _, ?_⟩
  unfold OctreeSDF.resize
  rw [whileLoop_never _ _ (fun s => s.m_RootArea.m_MinRealPos.x + s.m_RootArea.m_RealSize = 1)
    ?_ fuel _ ?_]
  · rfl
  · intro s hs
    constructor
    · have : s.m_RootArea.toAABB.containsPoint (⟨2, 2, 2⟩ : Vector3 ℚ) = false := by
        unfold AABB.containsPoint Area.toAABB
        rw [decide_eq_false_iff_not]
        simp only [Vector3.add, rat_add]
        intro hc
        have h2 := hc.2.1
        rw [hs] at h2
        norm_num at h2
      simp only [this, Bool.not_false]
    · show (s.m_RootArea.m_MinRealPos.x - s.m_RootArea.m_RealSize)
        + s.m_RootArea.m_RealSize * 2 = 1
      linarith
  · show (0 : ℚ) + 1 = 1
    norm_num

/-- C32 (refuted as stated): the edge computation on the thin slab over `[0, 8]³` pushes
for the x-edge from `(0, 4, 4)` to `(1, 4, 4)` a record with a leaf-private vertex, although
the lower endpoint has `x = 0` and so does not lie strictly inside the leaf on all three
axes. -/
theorem face_edge_gets_private_vertex :
    (⟨(false, ⟨0, 4, 4⟩, 0), 40, 121, 0⟩ : SurfaceEdge (Bool × Vector3i × Nat))
        ∈ (computeEdges exampleVertices exampleArea 1 exampleArea exampleThinSlab
            ⟨computeSigns exampleArea 1 exampleArea exampleThinSlab SignArray.blank,
              []⟩).m_SurfaceEdges
      ∧ fromIndex 40 = ⟨0, 4, 4⟩
      ∧ ¬ (0 < (fromIndex 40).x ∧ 0 < (fromIndex 40).y ∧ 0 < (fromIndex 40).z) := by
  refine ⟨?_, by decide, by decide⟩
  rw [← exampleThinSlab_record]
  exact computeEdges_has_emplaced exampleVertices exampleArea 1 exampleArea exampleThinSlab _
    0 40 (by decide) (by decide) exampleThinSlab_edgeTest

/-- C32 (amended): every record that either form of `computeEdges` adds to a leaf names a
lattice edge by its direction `d` and the index of its lower endpoint, whose position is
`fromIndex` of that index.  The record gets a leaf-private vertex when the two
coordinates of the lower endpoint other than the coordinate along `d` lie strictly
between 0 and `LEAF_SIZE_1D - 1`, and otherwise the vertex that the registry of direction
`d` holds for the global position of the lower endpoint; the coordinate along `d` plays
no part. -/
theorem edge_vertex_private_iff_off_faces {F SV : Type} [FloatOps F] (vs : VertexSource F SV)
    (R : Area F) (c : F) (area : Area F) (sdf : SolidGeometry F) (ign : EdgeMask)
    (g : GridNode SV) (e : SurfaceEdge SV)
    (he : e ∈ (computeEdgesIgnoring vs R c area sdf ign g).m_SurfaceEdges
      ∨ e ∈ (computeEdges vs R c area sdf g).m_SurfaceEdges)
    (hnew : e ∉ g.m_SurfaceEdges) :
    e.direction < 3 ∧ e.edgeIndex1 < LEAF_SIZE_3D
      ∧ coordOf e.edgeIndex1 e.direction < LEAF_SIZE_1D_INNER
      ∧ e.edgeIndex1 = toIndex (fromIndex e.edgeIndex1)
      ∧ e.edgeIndex2 = toIndex (fromIndex e.edgeIndex1 + unitVec e.direction)
      ∧ fromIndex e.edgeIndex1
          = ⟨coordOf e.edgeIndex1 0, coordOf e.edgeIndex1 1, coordOf e.edgeIndex1 2⟩
      ∧ ((∀ k, k < 3 → k ≠ e.direction →
            0 < coordOf e.edgeIndex1 k ∧ coordOf e.edgeIndex1 k < LEAF_SIZE_1D_INNER) →
          e.sharedVertex = vs.privateVertex (fromIndex e.edgeIndex1) e.direction
            (getRealPos R c (area.m_MinPos + fromIndex e.edgeIndex1)) c sdf)
      ∧ (¬ (∀ k, k < 3 → k ≠ e.direction →
            0 < coordOf e.edgeIndex1 k ∧ coordOf e.edgeIndex1 k < LEAF_SIZE_1D_INNER) →
          e.sharedVertex = vs.sharedVertex area.m_MinPos (fromIndex e.edgeIndex1) e.direction
            (getRealPos R c (area.m_MinPos + fromIndex e.edgeIndex1)) c sdf) := by
  have key : ∃ m : EdgeMask,
      e ∈ forLoop LEAF_SIZE_3D (fun j es => es ++ newEdgesAt vs R c area sdf m g.m_Signs j)
        g.m_SurfaceEdges := by
    rcases he with h | h
    · rw [computeEdgesIgnoring_edges] at h
      exact ⟨ign, h⟩
    · rw [computeEdges_eq_ignoring, computeEdgesIgnoring_edges] at h
      exact ⟨EdgeMask.zero, h⟩
  obtain ⟨m, hm⟩ := key
  rcases mem_forLoop_emplaced vs R c area sdf m g.m_Signs LEAF_SIZE_3D g.m_SurfaceEdges e hm
    with h | ⟨hd, hi, ht, heq⟩
  · exact absurd h hnew
  · have hv : e.sharedVertex
        = (emplaced vs R c area sdf (interiorTest e.edgeIndex1 e.direction)
            (fromIndex e.edgeIndex1) e.direction).sharedVertex := congrArg _ heq
    have h2 : e.edgeIndex2
        = (emplaced vs R c area sdf (interiorTest e.edgeIndex1 e.direction)
            (fromIndex e.edgeIndex1) e.direction).edgeIndex2 := congrArg _ heq
    rw [emplaced_sharedVertex] at hv
    rw [emplaced_edgeIndex2] at h2
    have hco : coordOf e.edgeIndex1 e.direction < LEAF_SIZE_1D_INNER := by
      unfold edgeTest at ht
      simp only [Bool.and_eq_true, decide_eq_true_eq] at ht
      exact ht.1.2
    refine ⟨hd, hi, hco, (toIndex_fromIndex _).symm, h2, rfl, ?_, ?_⟩
    · intro hin
      rw [if_pos ((interiorTest_iff _ _ hd).2 hin)] at hv
      exact hv
    · intro hin
      rw [if_neg (fun hh => hin ((interiorTest_iff _ _ hd).1 hh))] at hv
      exact hv

theorem edge_vertex_private_iff_off_faces_witness :
    ((⟨(false, ⟨0, 4, 4⟩, 0), 40, 121, 0⟩ : SurfaceEdge (Bool × Vector3i × Nat))
        ∈ (computeEdgesIgnoring exampleVertices exampleArea 1 exampleArea exampleThinSlab
            EdgeMask.zero
            ⟨computeSigns exampleArea 1 exampleArea exampleThinSlab SignArray.blank,
              []⟩).m_SurfaceEdges
      ∨ (⟨(false, ⟨0, 4, 4⟩, 0), 40, 121, 0⟩ : SurfaceEdge (Bool × Vector3i × Nat))
        ∈ (computeEdges exampleVertices exampleArea 1 exampleArea exampleThinSlab
            ⟨computeSigns exampleArea 1 exampleArea exampleThinSlab SignArray.blank,
              []⟩).m_SurfaceEdges)
      ∧ (⟨(false, ⟨0, 4, 4⟩, 0), 40, 121, 0⟩ : SurfaceEdge (Bool × Vector3i × Nat))
          ∉ ([] : List (SurfaceEdge (Bool × Vector3i × Nat)))
      ∧ (⟨(false, ⟨0, 4, 4⟩, 0), 40, 121, 0⟩ : SurfaceEdge (Bool × Vector3i × Nat)).sharedVertex
          = exampleVertices.privateVertex
              (fromIndex (⟨(false, ⟨0, 4, 4⟩, 0), 40, 121, 0⟩ : SurfaceEdge (Bool × Vector3i × Nat)).edgeIndex1)
              (⟨(false, ⟨0, 4, 4⟩, 0), 40, 121, 0⟩ : SurfaceEdge (Bool × Vector3i × Nat)).direction
              (getRealPos exampleArea 1 (exampleArea.m_MinPos
                + fromIndex (⟨(false, ⟨0, 4, 4⟩, 0), 40, 121, 0⟩ : SurfaceEdge (Bool × Vector3i × Nat)).edgeIndex1))
              1 exampleThinSlab := by
  have hmem : (⟨(false, ⟨0, 4, 4⟩, 0), 40, 121, 0⟩ : SurfaceEdge (Bool × Vector3i × Nat))
      ∈ (computeEdges exampleVertices exampleArea 1 exampleArea exampleThinSlab
          ⟨computeSigns exampleArea 1 exampleArea exampleThinSlab SignArray.blank,
            []⟩).m_SurfaceEdges := by
    rw [← exampleThinSlab_record]
    exact computeEdges_has_emplaced exampleVertices exampleArea 1 exampleArea exampleThinSlab _
      0 40 (by decide) (by decide) exampleThinSlab_edgeTest
  have hin : ∀ k, k < 3 → k ≠ (⟨(false, ⟨0, 4, 4⟩, 0), 40, 121, 0⟩ : SurfaceEdge (Bool × Vector3i × Nat)).direction →
      0 < coordOf (⟨(false, ⟨0, 4, 4⟩, 0), 40, 121, 0⟩ : SurfaceEdge (Bool × Vector3i × Nat)).edgeIndex1 k
        ∧ coordOf (⟨(false, ⟨0, 4, 4⟩, 0), 40, 121, 0⟩ : SurfaceEdge (Bool × Vector3i × Nat)).edgeIndex1 k
          < LEAF_SIZE_1D_INNER := by
    decide
  exact ⟨Or.inr hmem, List.not_mem_nil _,
    (edge_vertex_private_iff_off_faces exampleVertices exampleArea 1 exampleArea
      exampleThinSlab EdgeMask.zero
      ⟨computeSigns exampleArea 1 exampleArea exampleThinSlab SignArray.blank, []⟩
      ⟨(false, ⟨0, 4, 4⟩, 0), 40, 121, 0⟩ (Or.inr hmem) (List.not_mem_nil _)).2.2.2.2.2.2.1
      hin⟩

/-- C36 (refuted by the code): `subtractAlignedOctree` changes the stored signs of its
argument.  Subtracting the one-leaf tree `exampleLeafTree` from itself reaches the final
branch of `subtractAlignedNode`, which inverts the leaf of the other tree in place: when
the call returns, the root of the other tree is the inverted leaf, whose sign at lattice
index 1 is `true` where it was `false` before.  The returned tree is the one of
`Tree.subtractAlignedOctree`. -/
theorem subtract_aligned_inverts_argument :
    Tree.subtractAlignedOctreeS exampleLeafTree exampleLeafTree
        = some ({ exampleLeafTree with
              m_RootNode := Node.grid (exampleCornerLeaf.intersectAligned
                exampleCornerLeaf.invert) },
            { exampleLeafTree with m_RootNode := Node.grid exampleCornerLeaf.invert })
      ∧ (Tree.subtractAlignedOctreeS exampleLeafTree exampleLeafTree).map (fun r => r.1)
        = Tree.subtractAlignedOctree exampleLeafTree exampleLeafTree
      ∧ exampleLeafTree.m_RootNode = Node.grid exampleCornerLeaf
      ∧ exampleCornerLeaf.m_Signs.get 1 = false
      ∧ exampleCornerLeaf.invert.m_Signs.get 1 = true := by
  have h1 : (1 : Nat) < LEAF_SIZE_3D := by decide
  have hs : exampleCornerLeaf.m_Signs.get 1 = false := by
    rw [SignArray.get_of_lt _ _ h1]
    rfl
  refine ⟨?_, ?_, rfl, hs, ?_⟩
  · simp only [Tree.subtractAlignedOctreeS, exampleLeafTree, subtractAlignedNodeS, Option.map_some']
  · simp only [Tree.subtractAlignedOctreeS, Tree.subtractAlignedOctree, exampleLeafTree,
      subtractAlignedNodeS, subtractAlignedNode, Option.map_some']
  · rw [GridNode.invert_get _ _ h1, hs]
    rfl

/-- C35 (node kind is fixed by the area exponent): let `t` and `otherOctree` be trees
built by `sampleSDF` with `maxDepth ≥ LEAF_EXPO` and rewritten by any sequence of merge,
intersect, subtract and aligned operations with trees of the same root exponent.  Then
`t` is well formed over its root area: every Inner node sits at an area of exponent above
`LEAF_EXPO`, every Grid leaf at exponent `LEAF_EXPO`.  If the two root exponents agree,
`mergeAlignedOctree`, `intersectAlignedOctree` and `subtractAlignedOctree` return a tree,
that is, the final branch that casts both nodes to Grid leaves is never reached with an
Inner node, and the returned tree is well formed again. -/
theorem node_kind_fixed_by_exponent {F SV : Type} [FloatOps F] (vs : VertexSource F SV)
    (t otherOctree : Tree F SV) (ht : Tree.Built vs t) (ho : Tree.Built vs otherOctree)
    (he : t.m_RootArea.m_SizeExpo = otherOctree.m_RootArea.m_SizeExpo) :
    t.m_RootNode.WellFormed t.m_RootArea
      ∧ (∃ t2, t.mergeAlignedOctree otherOctree = some t2
          ∧ t2.m_RootNode.WellFormed t2.m_RootArea)
      ∧ (∃ t2, t.intersectAlignedOctree otherOctree = some t2
          ∧ t2.m_RootNode.WellFormed t2.m_RootArea)
      ∧ (∃ t2, t.subtractAlignedOctree otherOctree = some t2
          ∧ t2.m_RootNode.WellFormed t2.m_RootArea) :=
  ⟨built_wellFormed vs t ht,
    Tree.mergeAligned_wellFormed t otherOctree (built_wellFormed vs t ht)
      (built_wellFormed vs otherOctree ho) he,
    Tree.intersectAligned_wellFormed t otherOctree (built_wellFormed vs t ht)
      (built_wellFormed vs otherOctree ho) he,
    Tree.subtractAligned_wellFormed t otherOctree (built_wellFormed vs t ht)
      (built_wellFormed vs otherOctree ho) he⟩

theorem node_kind_fixed_by_exponent_witness :
    Tree.Built exampleVertices (sampleSDF exampleVertices exampleHalfSpace exampleBox 4)
      ∧ Tree.Built exampleVertices
          ((sampleSDF exampleVertices exampleFullSpace exampleBox 4).applyOp exampleVertices
            (CsgOp.subtract exampleThinSlab))
      ∧ (sampleSDF exampleVertices exampleHalfSpace exampleBox 4).m_RootArea.m_SizeExpo
          = ((sampleSDF exampleVertices exampleFullSpace exampleBox 4).applyOp exampleVertices
              (CsgOp.subtract exampleThinSlab)).m_RootArea.m_SizeExpo
      ∧ (sampleSDF exampleVertices exampleHalfSpace exampleBox 4).m_RootNode.WellFormed
          (sampleSDF exampleVertices exampleHalfSpace exampleBox 4).m_RootArea :=
  ⟨Tree.Built.sample exampleHalfSpace exampleBox 4 (by decide),
    Tree.Built.op _ _ (Tree.Built.sample exampleFullSpace exampleBox 4 (by decide)),
    rfl,
    (node_kind_fixed_by_exponent exampleVertices
      (sampleSDF exampleVertices exampleHalfSpace exampleBox 4)
      ((sampleSDF exampleVertices exampleFullSpace exampleBox 4).applyOp exampleVertices
        (CsgOp.subtract exampleThinSlab))
      (Tree.Built.sample exampleHalfSpace exampleBox 4 (by decide))
      (Tree.Built.op _ _ (Tree.Built.sample exampleFullSpace exampleBox 4 (by decide)))
      rfl).1⟩

/-- C37 (sub-cell traversal indexing is in bounds): the loops of `generateIndices` visit
the sub-cells `(x, y, z)`, `0 ≤ x, y, z < S - 1`, in order, and at the iteration for
`(x, y, z)` the running variable `index` is `x·S² + y·S + z`; the eight reads of
`getCubeBitMask` then address the lattice points `(x + dx, y + dy, z + dz)` and lie below
`S³`, and the mask is made of the signs at these indices.  Every index at which either
form of `computeEdges` reads `m_Signs` lies below `S³`; the largest index `S³ - 1` is
read.  The logged traversals compute what the traversals without log compute. -/
theorem traversal_indices_in_bounds {F SV V : Type} [FloatOps F] (tlt : TLT)
    (heap : VertexHeap V) (leaf : GridNode Nat) (indices : List Nat)
    (vs : VertexSource F SV) (R : Area F) (c : F) (area : Area F) (sdf : SolidGeometry F)
    (ign : EdgeMask) (g : GridNode SV) :
    (leaf.generateIndicesLogged tlt heap indices).1.1 = leaf.generateIndices tlt heap indices
      ∧ (leaf.generateIndicesLogged tlt heap indices).2
        = (List.range LEAF_SIZE_1D_INNER).flatMap (fun x =>
            (List.range LEAF_SIZE_1D_INNER).flatMap (fun y =>
              (List.range LEAF_SIZE_1D_INNER).map (fun z =>
                (x, y, z, x * LEAF_SIZE_2D + y * LEAF_SIZE_1D + z))))
      ∧ (∀ x y z : Fin LEAF_SIZE_1D_INNER,
          getCubeBitMaskReads (x.val * LEAF_SIZE_2D + y.val * LEAF_SIZE_1D + z.val)
              = [x.val * LEAF_SIZE_2D + y.val * LEAF_SIZE_1D + z.val,
                  x.val * LEAF_SIZE_2D + y.val * LEAF_SIZE_1D + (z.val + 1),
                  x.val * LEAF_SIZE_2D + (y.val + 1) * LEAF_SIZE_1D + z.val,
                  x.val * LEAF_SIZE_2D + (y.val + 1) * LEAF_SIZE_1D + (z.val + 1),
                  (x.val + 1) * LEAF_SIZE_2D + y.val * LEAF_SIZE_1D + z.val,
                  (x.val + 1) * LEAF_SIZE_2D + y.val * LEAF_SIZE_1D + (z.val + 1),
                  (x.val + 1) * LEAF_SIZE_2D + (y.val + 1) * LEAF_SIZE_1D + z.val,
                  (x.val + 1) * LEAF_SIZE_2D + (y.val + 1) * LEAF_SIZE_1D + (z.val + 1)]
            ∧ (getCubeBitMaskReads
                (x.val * LEAF_SIZE_2D + y.val * LEAF_SIZE_1D + z.val)).all
                (fun i => decide (i < LEAF_SIZE_3D)) = true)
      ∧ (∀ (index : Nat) (signs : SignArray),
          getCubeBitMask index signs
            = ((getCubeBitMaskReads index).map (fun i => (signs.get i).toNat)).foldr
                (fun b acc => b + 2 * acc) 0)
      ∧ (computeEdgesIgnoringLogged vs R c area sdf ign g).1
          = computeEdgesIgnoring vs R c area sdf ign g
      ∧ (computeEdgesIgnoringLogged vs R c area sdf ign g).2.all
          (fun i => decide (i < LEAF_SIZE_3D)) = true
      ∧ (computeEdgesLogged vs R c area sdf g).1 = computeEdges vs R c area sdf g
      ∧ (computeEdgesLogged vs R c area sdf g).2.all
          (fun i => decide (i < LEAF_SIZE_3D)) = true
      ∧ LEAF_SIZE_3D - 1 ∈ (computeEdgesLogged vs R c area sdf g).2 := by
  refine ⟨GridNode.generateIndicesLogged_fst tlt heap leaf indices,
    GridNode.generateIndicesLogged_log tlt heap leaf indices,
    fun x y z => ⟨getCubeBitMaskReads_corners x.val y.val z.val,
      getCubeBitMaskReads_lt x.val y.val z.val x.isLt y.isLt z.isLt⟩,
    getCubeBitMask_of_reads,
    computeEdgesIgnoringLogged_fst vs R c area sdf ign g, ?_,
    computeEdgesLogged_fst vs R c area sdf g, ?_, ?_⟩
  · rw [computeEdgesIgnoringLogged_log]
    exact all_lt_of_flatMap _ _ _ (computeEdgesIgnoringReads_lt ign)
  · rw [computeEdgesLogged_log]
    exact all_lt_of_flatMap _ _ _ computeEdgesReads_lt
  · rw [computeEdgesLogged_log, List.mem_flatMap]
    exact ⟨647, List.mem_range.2 (by decide), by decide⟩

/-- C31 (marks are transient): let every vertex that a record of a Grid leaf of the tree
refers to be unmarked.  After `generateVerticesAndIndices` every such vertex is unmarked
again, the mark of every vertex is what it was, and vertex data (with the position),
`shared` flag and reference count of every vertex are unchanged; a vertex the tree does
not refer to is unchanged in every field.  After `countMemory` every such vertex is
unmarked again and the whole vertex store is what it was.  Neither function writes a
sign or an edge list: both take the tree as a value and return only the store, the
buffers and the counter. -/
theorem marks_are_transient {F V : Type} [FloatOps F] (tlt : TLT) (sz : MemorySizes)
    (t : Tree F Nat) (heap : VertexHeap V) (vertices : List V) (indices : List Nat)
    (h : t.m_RootNode.Unmarked heap) :
    (t.m_RootNode.Unmarked (t.generateVerticesAndIndices tlt heap vertices indices).1.1
        ∧ MarksOnly true (fun p => 1 ≤ t.m_RootNode.references p) heap
            (t.generateVerticesAndIndices tlt heap vertices indices).1.1
        ∧ ∀ p, ((t.generateVerticesAndIndices tlt heap vertices indices).1.1 p).marked
            = (heap p).marked)
      ∧ (t.m_RootNode.Unmarked (t.countMemory sz heap).1
        ∧ (t.countMemory sz heap).1 = heap) := by
  obtain ⟨u1, m1⟩ := Tree.generateVerticesAndIndices_marks tlt t heap vertices indices
  obtain ⟨u2, m2⟩ := Tree.countMemory_marks sz t heap
  refine ⟨⟨u1, m1, ?_⟩, u2, ?_⟩
  · intro p
    by_cases hp : 1 ≤ t.m_RootNode.references p
    · rw [u1 p hp, h p hp]
    · rw [(m1 p).2.2.2.2 hp]
  · funext p
    by_cases hp : 1 ≤ t.m_RootNode.references p
    · obtain ⟨a, b, c, d, _⟩ := m2 p
      exact SharedSurfaceVertex.eq_of_fields _ _ a (d rfl) c ((u2 p hp).trans (h p hp).symm) b
    · exact (m2 p).2.2.2.2 hp

theorem marks_are_transient_witness :
    exampleTwoLeafTree.m_RootNode.Unmarked exampleHeap
      ∧ (exampleTwoLeafTree.countMemory ⟨8, 8, 800, 24, 48, fun l => l.length⟩ exampleHeap).1
        = exampleHeap :=
  ⟨exampleTwoLeafTree_unmarked,
    (marks_are_transient exampleTable ⟨8, 8, 800, 24, 48, fun l => l.length⟩
      exampleTwoLeafTree exampleHeap [] [] exampleTwoLeafTree_unmarked).2.2⟩

end OctreeSF
